import Mathlib

/-!
# Property tree core (`src/prop/prop_core.c`)

A shallow embedding of the property tree: nodes (`prop_t`), subscriptions
(`prop_sub_t`), notification records (`prop_notify_t`) and couriers live in
heaps indexed by natural numbers; a C pointer is an `Option Nat`.

Conventions of the embedding
* `pool_get` hands out the next unused index (`nnodes`); storage is never reused,
  so an index identifies one allocation.
* The C `int` is `Int` (signed overflow is undefined in C; sums are exact here);
  the C `float` is an abstract type with the operations the file uses (`CFloat`).
* `abort()`, a failed `assert`, a NULL dereference and an exhausted recursion
  budget end a run with a `Fault`.
* `hp_type` together with the union `u` of `prop_t` is one sum type
  (`prop_value`); the bytes the C code leaves in `min`/`max` of a numeric node
  without `PROP_CLIPPED_VALUE` are never read and are kept as they are or set
  to zero.
* The debug tracing (`PROPTRACE`, `PROP_DEBUG`, the `origin` strings) has no
  effect on the tree and is left out.
* `log` is a history variable: every record handed to a courier queue and every
  callback invoked inline, in program order.
-/

namespace PropCore

/-- Arithmetic of the C type float, as far as prop_core.c uses it. -/
class CFloat (F : Type) where
  /-- Conversion int to float, as in an assignment. -/
  ofInt : Int → F
  /-- Conversion float to int, as in an assignment. -/
  toInt : F → Int
  /-- Addition of two floats. -/
  add : F → F → F
  /-- Comparison a < b. -/
  lt : F → F → Bool
  /-- Comparison a == b. -/
  eq : F → F → Bool

/-- Ways in which a run of the C code ends without returning. -/
inductive Fault where
  | abort
  | assert
  | segv
  | fuel
deriving DecidableEq, Repr

/-- Values of hp_type. -/
inductive prop_type_t where
  | PROP_VOID
  | PROP_DIR
  | PROP_RSTRING
  | PROP_CSTRING
  | PROP_FLOAT
  | PROP_INT
  | PROP_LINK
  | PROP_ZOMBIE
deriving DecidableEq, Repr

/-- The union u of prop_t, tagged by hp_type. -/
inductive prop_value (F : Type) where
  | PROP_VOID
  | PROP_DIR (hp_childs : List Nat) (hp_selected : Option Nat)
  | PROP_RSTRING (hp_rstring : String) (hp_rstrtype : Nat)
  | PROP_CSTRING (hp_cstring : String)
  | PROP_FLOAT (val min max : F)
  | PROP_INT (val min max : Int)
  | PROP_LINK (hp_link_rtitle hp_link_rurl : Option String)
  | PROP_ZOMBIE
deriving DecidableEq, Repr

/-- The field hp_type. -/
def prop_value.hp_type {F : Type} : prop_value F → prop_type_t
  | .PROP_VOID => .PROP_VOID
  | .PROP_DIR _ _ => .PROP_DIR
  | .PROP_RSTRING _ _ => .PROP_RSTRING
  | .PROP_CSTRING _ => .PROP_CSTRING
  | .PROP_FLOAT _ _ _ => .PROP_FLOAT
  | .PROP_INT _ _ _ => .PROP_INT
  | .PROP_LINK _ _ => .PROP_LINK
  | .PROP_ZOMBIE => .PROP_ZOMBIE

/-- The bits of hp_flags. -/
structure PropFlags where
  PROP_CLIPPED_VALUE : Bool := false
  PROP_NAME_NOT_ALLOCATED : Bool := false
  PROP_XREFED_ORIGINATOR : Bool := false
  PROP_MONITORED : Bool := false
  PROP_MULTI_SUB : Bool := false
  PROP_MULTI_NOTIFY : Bool := false
  PROP_MARKED : Bool := false
deriving DecidableEq, Repr

/-- Bitwise or of two flag words. -/
def PropFlags.or (a b : PropFlags) : PropFlags :=
  { PROP_CLIPPED_VALUE := a.PROP_CLIPPED_VALUE || b.PROP_CLIPPED_VALUE
    PROP_NAME_NOT_ALLOCATED := a.PROP_NAME_NOT_ALLOCATED || b.PROP_NAME_NOT_ALLOCATED
    PROP_XREFED_ORIGINATOR := a.PROP_XREFED_ORIGINATOR || b.PROP_XREFED_ORIGINATOR
    PROP_MONITORED := a.PROP_MONITORED || b.PROP_MONITORED
    PROP_MULTI_SUB := a.PROP_MULTI_SUB || b.PROP_MULTI_SUB
    PROP_MULTI_NOTIFY := a.PROP_MULTI_NOTIFY || b.PROP_MULTI_NOTIFY
    PROP_MARKED := a.PROP_MARKED || b.PROP_MARKED }

/-- The word a & ~b. -/
def PropFlags.andNot (a b : PropFlags) : PropFlags :=
  { PROP_CLIPPED_VALUE := a.PROP_CLIPPED_VALUE && !b.PROP_CLIPPED_VALUE
    PROP_NAME_NOT_ALLOCATED := a.PROP_NAME_NOT_ALLOCATED && !b.PROP_NAME_NOT_ALLOCATED
    PROP_XREFED_ORIGINATOR := a.PROP_XREFED_ORIGINATOR && !b.PROP_XREFED_ORIGINATOR
    PROP_MONITORED := a.PROP_MONITORED && !b.PROP_MONITORED
    PROP_MULTI_SUB := a.PROP_MULTI_SUB && !b.PROP_MULTI_SUB
    PROP_MULTI_NOTIFY := a.PROP_MULTI_NOTIFY && !b.PROP_MULTI_NOTIFY
    PROP_MARKED := a.PROP_MARKED && !b.PROP_MARKED }

/-- The flag word with only PROP_MULTI_NOTIFY set. -/
def PROP_MULTI_NOTIFY : PropFlags := { PROP_MULTI_NOTIFY := true }

/-- A node of the tree, prop_t. -/
structure prop_t (F : Type) where
  hp_name : Option String := none
  hp_flags : PropFlags := {}
  hp_refcount : Int := 0
  hp_xref : Int := 0
  hp_parent : Option Nat := none
  hp_originator : Option Nat := none
  hp_targets : List Nat := []
  hp_value_subscriptions : List Nat := []
  hp_canonical_subscriptions : List Nat := []
  u : prop_value F := .PROP_VOID
deriving DecidableEq, Repr

/-- The field hp_type of a node. -/
def prop_t.hp_type {F : Type} (p : prop_t F) : prop_type_t := p.u.hp_type

/-- The child list of a node, empty unless it is a directory. -/
def prop_t.hp_childs {F : Type} (p : prop_t F) : List Nat :=
  match p.u with
  | .PROP_DIR cs _ => cs
  | _ => []

/-- The selected child of a node, NULL unless it is a directory. -/
def prop_t.hp_selected {F : Type} (p : prop_t F) : Option Nat :=
  match p.u with
  | .PROP_DIR _ sel => sel
  | _ => none

/-- The bits of hps_flags. -/
structure SubFlags where
  PROP_SUB_DIRECT_UPDATE : Bool := false
  PROP_SUB_NO_INITIAL_UPDATE : Bool := false
  PROP_SUB_TRACK_DESTROY : Bool := false
  PROP_SUB_TRACK_DESTROY_EXP : Bool := false
  PROP_SUB_INTERNAL : Bool := false
  PROP_SUB_DONTLOCK : Bool := false
  PROP_SUB_IGNORE_VOID : Bool := false
  PROP_SUB_EXPEDITE : Bool := false
  PROP_SUB_MULTI : Bool := false
  PROP_SUB_SUBSCRIPTION_MONITOR : Bool := false
  PROP_SUB_SINGLETON : Bool := false
  PROP_SUB_USER_INT : Bool := false
deriving DecidableEq, Repr

/-- The trampolines a subscription can be created with. -/
inductive prop_trampoline_t where
  | trampoline_int
  | trampoline_float
  | trampoline_int_set
  | trampoline_float_set
  | trampoline_string
  | trampoline_rstr
  | trampoline_event
  | trampoline_destroyed
deriving DecidableEq, Repr

/-- A subscription, prop_sub_t. Callbacks and user pointers are opaque numbers. -/
structure prop_sub_t where
  hps_flags : SubFlags := {}
  hps_zombie : Bool := false
  hps_pending_unlink : Bool := false
  hps_refcount : Int := 0
  hps_courier : Nat := 0
  hps_canonical_prop : Option Nat := none
  hps_value_prop : Option Nat := none
  hps_trampoline : Option prop_trampoline_t := none
  hps_callback : Option Nat := none
  hps_userptr : Option Nat := none
  hps_user_int : Int := 0
deriving DecidableEq, Repr

/-- Values of prop_event_t. -/
inductive prop_event_t where
  | PROP_SET_VOID
  | PROP_SET_RSTRING
  | PROP_SET_CSTRING
  | PROP_SET_RLINK
  | PROP_SET_INT
  | PROP_SET_FLOAT
  | PROP_SET_DIR
  | PROP_ADD_CHILD
  | PROP_ADD_CHILD_BEFORE
  | PROP_DEL_CHILD
  | PROP_MOVE_CHILD
  | PROP_SELECT_CHILD
  | PROP_REQ_NEW_CHILD
  | PROP_REQ_MOVE_CHILD
  | PROP_REQ_DELETE_VECTOR
  | PROP_SUGGEST_FOCUS
  | PROP_ADD_CHILD_VECTOR
  | PROP_ADD_CHILD_VECTOR_BEFORE
  | PROP_ADD_CHILD_VECTOR_DIRECT
  | PROP_EXT_EVENT
  | PROP_DESTROYED
  | PROP_SUBSCRIPTION_MONITOR_ACTIVE
  | PROP_WANT_MORE_CHILDS
  | PROP_HAVE_MORE_CHILDS
  | PROP_SET_STRING
deriving DecidableEq, Repr

/-- The union u of prop_notify_t, by the member that was assigned.
  `fslot` is the member `f.f` after `n->hpn_float = p->hp_float` on an int node:
  the float-typed copy of the word that holds the int `val`. -/
inductive notify_u (F : Type) where
  | unset
  | p (hpn_prop : Option Nat)
  | pv (hpn_propv : List Nat)
  | f (hpn_float : F) (hpn_float_how : Int)
  | fslot (val : Int)
  | i (hpn_int : Int)
  | rstr (hpn_rstring : String) (hpn_rstrtype : Nat)
  | e (hpn_ext_event : Nat)
  | link (hpn_link_rtitle hpn_link_rurl : Option String)
  | str (hpn_cstring : String)
deriving DecidableEq, Repr

/-- A notification record, prop_notify_t. -/
structure prop_notify_t (F : Type) where
  hpn_sub : Nat
  hpn_event : prop_event_t
  u : notify_u F := .unset
  hpn_prop2 : Option Nat := none
  hpn_flags : Int := 0
deriving DecidableEq, Repr

/-- One delivery: a callback invoked inline with the arguments of `n`, or the record `n`
  appended to a courier queue. -/
inductive Delivery (F : Type) where
  | direct (n : prop_notify_t F)
  | queued (n : prop_notify_t F)
deriving DecidableEq, Repr

/-- The record of a delivery. -/
def Delivery.n {F : Type} : Delivery F → prop_notify_t F
  | .direct n => n
  | .queued n => n

/-- A courier, prop_courier_t. -/
structure prop_courier_t (F : Type) where
  pc_queue_nor : List (prop_notify_t F) := []
  pc_queue_exp : List (prop_notify_t F) := []
  pc_refcount : Int := 0
  pc_has_cond : Bool := false
  pc_notify : Option Nat := none
  pc_run : Bool := false
  pc_detached : Bool := false
  /-- Number of wake-ups sent by courier_notify (signal or notify callback). -/
  pc_wakeups : Nat := 0
deriving DecidableEq, Repr

/-- The whole state guarded by prop_mutex. -/
structure State (F : Type) where
  nodes : Nat → prop_t F
  nnodes : Nat
  subs : Nat → prop_sub_t
  nsubs : Nat
  couriers : Nat → prop_courier_t F
  ncouriers : Nat
  prop_global : Option Nat
  global_courier : Nat
  log : List (Delivery F)

variable {F : Type}

/-- Assignment to the node behind pointer p. -/
def State.setNode (st : State F) (p : Nat) (nd : prop_t F) : State F :=
  { st with nodes := fun q => if q = p then nd else st.nodes q }

/-- Assignment to the subscription behind pointer s. -/
def State.setSub (st : State F) (s : Nat) (sb : prop_sub_t) : State F :=
  { st with subs := fun q => if q = s then sb else st.subs q }

/-- Assignment to the courier behind pointer c. -/
def State.setCourier (st : State F) (c : Nat) (pc : prop_courier_t F) : State F :=
  { st with couriers := fun q => if q = c then pc else st.couriers q }

/-- Assignment to the union u (and hp_type) of node p. -/
def State.setU (st : State F) (p : Nat) (v : prop_value F) : State F :=
  st.setNode p { st.nodes p with u := v }

/-- The state before prop_init: nothing allocated. -/
def State.empty : State F :=
  { nodes := fun _ => {}, nnodes := 0, subs := fun _ => {}, nsubs := 0,
    couriers := fun _ => {}, ncouriers := 0, prop_global := none, global_courier := 0,
    log := [] }

/-! ## Notification engine -/

/-- The function prop_ref_inc on a non-NULL node. -/
def prop_ref_inc (st : State F) (p : Nat) : State F :=
  st.setNode p { st.nodes p with hp_refcount := (st.nodes p).hp_refcount + 1 }

/-- The function get_notify: a record for s is taken from the pool, s gains a reference;
  the assertion rejects internal subscriptions. -/
def get_notify (st : State F) (s : Nat) : Except Fault (State F) :=
  if (st.subs s).hps_flags.PROP_SUB_INTERNAL then .error .assert
  else .ok (st.setSub s { st.subs s with hps_refcount := (st.subs s).hps_refcount + 1 })

/-- The function courier_notify. -/
def courier_notify (st : State F) (c : Nat) : State F :=
  let pc := st.couriers c
  if pc.pc_has_cond then st.setCourier c { pc with pc_wakeups := pc.pc_wakeups + 1 }
  else if pc.pc_notify.isSome then st.setCourier c { pc with pc_wakeups := pc.pc_wakeups + 1 }
  else st

/-- Append record n to the expedited (exp = true) or normal queue of courier c. -/
def queue_insert_tail (st : State F) (c : Nat) (exp : Bool) (n : prop_notify_t F) : State F :=
  let pc := st.couriers c
  let st1 := if exp then st.setCourier c { pc with pc_queue_exp := pc.pc_queue_exp ++ [n] }
    else st.setCourier c { pc with pc_queue_nor := pc.pc_queue_nor ++ [n] }
  { st1 with log := st1.log ++ [.queued n] }

/-- The function courier_enqueue. -/
def courier_enqueue (st : State F) (s : Nat) (n : prop_notify_t F) : State F :=
  let c := (st.subs s).hps_courier
  courier_notify (queue_insert_tail st c (st.subs s).hps_flags.PROP_SUB_EXPEDITE n) c

/-- Record the inline invocation of the callback (or trampoline) of a subscription. -/
def call_direct (st : State F) (n : prop_notify_t F) : State F :=
  { st with log := st.log ++ [.direct n] }

/-- Event and arguments handed to the callback by the direct branch of
  prop_build_notify_value, by node type. -/
def direct_value_args (u : prop_value F) (how : Int) : Except Fault (prop_event_t × notify_u F) :=
  match u with
  | .PROP_RSTRING s t => .ok (.PROP_SET_RSTRING, .rstr s t)
  | .PROP_CSTRING s => .ok (.PROP_SET_CSTRING, .str s)
  | .PROP_LINK t l => .ok (.PROP_SET_RLINK, .link t l)
  | .PROP_FLOAT v _ _ => .ok (.PROP_SET_FLOAT, .f v how)
  | .PROP_INT v _ _ => .ok (.PROP_SET_INT, .i v)
  | .PROP_DIR _ _ => .ok (.PROP_SET_DIR, .unset)
  | .PROP_VOID => .ok (.PROP_SET_VOID, .unset)
  | .PROP_ZOMBIE => .error .abort

/-- Event and union member written by the queued branch of prop_build_notify_value, by
  node type. For an int node the assignment is `n->hpn_float = p->hp_float`. -/
def queued_value_args (u : prop_value F) (how : Int) : Except Fault (prop_event_t × notify_u F) :=
  match u with
  | .PROP_RSTRING s t => .ok (.PROP_SET_RSTRING, .rstr s t)
  | .PROP_CSTRING s => .ok (.PROP_SET_CSTRING, .str s)
  | .PROP_LINK t l => .ok (.PROP_SET_RLINK, .link t l)
  | .PROP_FLOAT v _ _ => .ok (.PROP_SET_FLOAT, .f v how)
  | .PROP_INT v _ _ => .ok (.PROP_SET_INT, .fslot v)
  | .PROP_DIR _ _ => .ok (.PROP_SET_DIR, .unset)
  | .PROP_VOID => .ok (.PROP_SET_VOID, .unset)
  | .PROP_ZOMBIE => .error .abort

/-- The function prop_build_notify_value. The private queue pnq (NULL or a list) is
  passed in and handed back. -/
def prop_build_notify_value (st : State F) (s : Nat) (direct : Bool) (p : Nat)
    (pnq : Option (List (prop_notify_t F))) (how : Int) :
    Except Fault (State F × Option (List (prop_notify_t F))) :=
  if direct || (st.subs s).hps_flags.PROP_SUB_INTERNAL then
    match direct_value_args (st.nodes p).u how with
    | .error e => .error e
    | .ok (ev, a) =>
      .ok (call_direct st { hpn_sub := s, hpn_event := ev, u := a, hpn_prop2 := some p }, pnq)
  else
    match get_notify st s with
    | .error e => .error e
    | .ok st1 =>
      let st2 := prop_ref_inc st1 p
      match queued_value_args (st2.nodes p).u how with
      | .error e => .error e
      | .ok (ev, a) =>
        let n : prop_notify_t F := { hpn_sub := s, hpn_event := ev, u := a, hpn_prop2 := some p }
        match pnq with
        | some q => .ok (st2, some (q ++ [n]))
        | none => .ok (courier_enqueue st2 s n, none)

/-- First loop of prop_notify_value: every subscription of the value list except skipme
  gets the value of its own hps_value_prop. -/
def notify_value_subs (skipme : Option Nat) (how : Int) :
    List Nat → State F → Except Fault (State F)
  | [], st => .ok st
  | s :: rest, st =>
    if some s = skipme then notify_value_subs skipme how rest st
    else
      match (st.subs s).hps_value_prop with
      | none => .error .segv
      | some v =>
        match prop_build_notify_value st s false v none how with
        | .error e => .error e
        | .ok (st1, _) => notify_value_subs skipme how rest st1

/-- Inner loop of the upward walk of prop_notify_value: the multi subscriptions on the
  value list of ancestor p get the value of p. -/
def notify_multi_subs (p : Nat) : List Nat → State F → Except Fault (State F)
  | [], st => .ok st
  | s :: rest, st =>
    if (st.subs s).hps_flags.PROP_SUB_MULTI then
      match prop_build_notify_value st s false p none 0 with
      | .error e => .error e
      | .ok (st1, _) => notify_multi_subs p rest st1
    else notify_multi_subs p rest st

/-- The upward walk `while((p = p->hp_parent) != NULL)` of prop_notify_value. -/
def notify_multi_walk : Nat → State F → Nat → Except Fault (State F)
  | 0, _, _ => .error .fuel
  | fuel + 1, st, p =>
    match (st.nodes p).hp_parent with
    | none => .ok st
    | some q =>
      if (st.nodes q).hp_flags.PROP_MULTI_SUB then
        match notify_multi_subs q (st.nodes q).hp_value_subscriptions st with
        | .error e => .error e
        | .ok st1 => notify_multi_walk fuel st1 q
      else notify_multi_walk fuel st q

/-- The function prop_notify_value. -/
def prop_notify_value (st : State F) (p : Nat) (skipme : Option Nat) (how : Int) :
    Except Fault (State F) :=
  match notify_value_subs skipme how (st.nodes p).hp_value_subscriptions st with
  | .error e => .error e
  | .ok st1 =>
    if (st1.nodes p).hp_flags.PROP_MULTI_NOTIFY then notify_multi_walk (st1.nnodes + 1) st1 p
    else .ok st1

/-- The function prop_build_notify_child. -/
def prop_build_notify_child (st : State F) (s : Nat) (p : Option Nat) (event : prop_event_t)
    (direct : Bool) (flags : Int) : Except Fault (State F) :=
  if direct || (st.subs s).hps_flags.PROP_SUB_INTERNAL then
    .ok (call_direct st { hpn_sub := s, hpn_event := event, u := .p p, hpn_flags := flags })
  else
    match get_notify st s with
    | .error e => .error e
    | .ok st1 =>
      let st2 := match p with
        | some q => prop_ref_inc st1 q
        | none => st1
      .ok (courier_enqueue st2 s { hpn_sub := s, hpn_event := event, u := .p p, hpn_flags := flags })

/-- The function prop_notify_child. -/
def prop_notify_child (child : Option Nat) (event : prop_event_t) (skipme : Option Nat)
    (flags : Int) : List Nat → State F → Except Fault (State F)
  | [], st => .ok st
  | s :: rest, st =>
    if some s = skipme then prop_notify_child child event skipme flags rest st
    else
      match prop_build_notify_child st s child event false flags with
      | .error e => .error e
      | .ok st1 => prop_notify_child child event skipme flags rest st1

/-- The function prop_clean: 1 when the node must not change type (clipped value,
  directory, zombie), else the old value is released and 0 returned. -/
def prop_clean (nd : prop_t F) : Bool :=
  if nd.hp_flags.PROP_CLIPPED_VALUE then true
  else
    match nd.u with
    | .PROP_ZOMBIE => true
    | .PROP_DIR _ _ => true
    | _ => false

/-- The function prop_make_dir. -/
def prop_make_dir (st : State F) (p : Nat) (skipme : Option Nat) : Except Fault (State F) :=
  if (st.nodes p).hp_type = .PROP_DIR then .ok st
  else if prop_clean (st.nodes p) then .error .abort
  else prop_notify_value (st.setU p (.PROP_DIR [] none)) p skipme 0

/-! ## Typed setters -/

/-- The function prop_set_void_exl. -/
def prop_set_void_exl (st : State F) (p : Nat) (skipme : Option Nat) : Except Fault (State F) :=
  if (st.nodes p).hp_type = .PROP_ZOMBIE then .ok st
  else if (st.nodes p).hp_type ≠ .PROP_VOID then
    if prop_clean (st.nodes p) then .ok st
    else prop_notify_value (st.setU p .PROP_VOID) p skipme 0
  else .ok st

/-- The function prop_set_void_ex. -/
def prop_set_void_ex (st : State F) (p : Option Nat) (skipme : Option Nat) :
    Except Fault (State F) :=
  match p with
  | none => .ok st
  | some p => prop_set_void_exl st p skipme

/-- The function prop_set_string_exl. -/
def prop_set_string_exl (st : State F) (p : Nat) (skipme : Option Nat) (str : String)
    (type : Nat) : Except Fault (State F) :=
  match (st.nodes p).u with
  | .PROP_ZOMBIE => .ok st
  | .PROP_RSTRING old _ =>
    if old = str then .ok st
    else prop_notify_value (st.setU p (.PROP_RSTRING str type)) p skipme 0
  | _ =>
    if prop_clean (st.nodes p) then .ok st
    else prop_notify_value (st.setU p (.PROP_RSTRING str type)) p skipme 0

/-- The function prop_set_string_ex. -/
def prop_set_string_ex (st : State F) (p : Option Nat) (skipme : Option Nat)
    (str : Option String) (type : Nat) : Except Fault (State F) :=
  match p with
  | none => .ok st
  | some p =>
    match str with
    | none => prop_set_void_ex st (some p) skipme
    | some str => prop_set_string_exl st p skipme str type

/-- The function prop_set_rstring_exl. -/
def prop_set_rstring_exl (st : State F) (p : Nat) (skipme : Option Nat) (rstr : String) :
    Except Fault (State F) :=
  match (st.nodes p).u with
  | .PROP_ZOMBIE => .ok st
  | .PROP_RSTRING old _ =>
    if old = rstr then .ok st
    else prop_notify_value (st.setU p (.PROP_RSTRING rstr 0)) p skipme 0
  | _ =>
    if prop_clean (st.nodes p) then .ok st
    else prop_notify_value (st.setU p (.PROP_RSTRING rstr 0)) p skipme 0

/-- The function prop_set_rstring_ex. -/
def prop_set_rstring_ex (st : State F) (p : Option Nat) (skipme : Option Nat)
    (rstr : Option String) : Except Fault (State F) :=
  match p with
  | none => .ok st
  | some p =>
    match rstr with
    | none => prop_set_void_ex st (some p) skipme
    | some rstr => prop_set_rstring_exl st p skipme rstr

/-- The function prop_set_cstring_ex. -/
def prop_set_cstring_ex (st : State F) (p : Option Nat) (skipme : Option Nat)
    (cstr : Option String) : Except Fault (State F) :=
  match p with
  | none => .ok st
  | some p =>
    match cstr with
    | none => prop_set_void_ex st (some p) skipme
    | some cstr =>
      match (st.nodes p).u with
      | .PROP_ZOMBIE => .ok st
      | .PROP_CSTRING old =>
        if old = cstr then .ok st
        else prop_notify_value (st.setU p (.PROP_CSTRING cstr)) p skipme 0
      | _ =>
        if prop_clean (st.nodes p) then .ok st
        else prop_notify_value (st.setU p (.PROP_CSTRING cstr)) p skipme 0

/-- The function prop_set_link_ex. A NULL rstr reads as the empty string in the comparison. -/
def prop_set_link_ex (st : State F) (p : Option Nat) (skipme : Option Nat)
    (title url : Option String) : Except Fault (State F) :=
  match p with
  | none => .ok st
  | some p =>
    if title = none ∧ url = none then prop_set_void_ex st (some p) skipme
    else
      match (st.nodes p).u with
      | .PROP_ZOMBIE => .ok st
      | .PROP_LINK rtitle rurl =>
        if rtitle.getD "" = title.getD "" ∧ rurl.getD "" = url.getD "" then .ok st
        else prop_notify_value (st.setU p (.PROP_LINK title url)) p skipme 0
      | _ =>
        if prop_clean (st.nodes p) then .ok st
        else prop_notify_value (st.setU p (.PROP_LINK title url)) p skipme 0

/-- The function prop_int_to_float, on the union of an int node. -/
def prop_int_to_float [CFloat F] (u : prop_value F) : prop_value F :=
  match u with
  | .PROP_INT val min max => .PROP_FLOAT (CFloat.ofInt val) (CFloat.ofInt min) (CFloat.ofInt max)
  | v => v

/-- The function prop_float_to_int, on the union of a float node. -/
def prop_float_to_int [CFloat F] (u : prop_value F) : prop_value F :=
  match u with
  | .PROP_FLOAT val min max => .PROP_INT (CFloat.toInt val) (CFloat.toInt min) (CFloat.toInt max)
  | v => v

/-- The value hp_float of a float node. -/
def prop_value.hp_float [CFloat F] (u : prop_value F) : F :=
  match u with
  | .PROP_FLOAT val _ _ => val
  | _ => CFloat.ofInt 0

/-- The value hp_int of an int node. -/
def prop_value.hp_int (u : prop_value F) : Int :=
  match u with
  | .PROP_INT val _ _ => val
  | _ => 0

/-- Assignment `p->hp_float = v` on a float node. -/
def prop_value.set_hp_float (u : prop_value F) (v : F) : prop_value F :=
  match u with
  | .PROP_FLOAT _ min max => .PROP_FLOAT v min max
  | w => w

/-- Assignment `p->hp_int = v` on an int node. -/
def prop_value.set_hp_int (u : prop_value F) (v : Int) : prop_value F :=
  match u with
  | .PROP_INT _ min max => .PROP_INT v min max
  | w => w

/-- The clamp `if(v > max) v = max; if(v < min) v = min;` on floats. -/
def clip_float [CFloat F] (v min max : F) : F :=
  let v1 := if CFloat.lt max v then max else v
  if CFloat.lt v1 min then min else v1

/-- The clamp `if(v > max) v = max; if(v < min) v = min;` on ints. -/
def clip_int (v min max : Int) : Int :=
  let v1 := if v > max then max else v
  if v1 < min then min else v1

/-- The function prop_get_float: NULL, or the node made a float node; the flag tells
  whether `*forceupdate` was set to 1. -/
def prop_get_float [CFloat F] (st : State F) (p : Option Nat) : State F × Option Nat × Bool :=
  match p with
  | none => (st, none, false)
  | some p =>
    match (st.nodes p).u with
    | .PROP_ZOMBIE => (st, none, false)
    | .PROP_INT val min max => (st.setU p (prop_int_to_float (.PROP_INT val min max)), some p, true)
    | .PROP_FLOAT _ _ _ => (st, some p, false)
    | _ =>
      if prop_clean (st.nodes p) then (st, none, false)
      else (st.setU p (.PROP_FLOAT (CFloat.ofInt 0) (CFloat.ofInt 0) (CFloat.ofInt 0)), some p, true)

/-- The function prop_set_float_ex. -/
def prop_set_float_ex [CFloat F] (st : State F) (p : Option Nat) (skipme : Option Nat) (v : F)
    (how : Int) : Except Fault (State F) :=
  match prop_get_float st p with
  | (_, none, _) => .ok st
  | (st1, some p, forced) =>
    let forceupdate := (how != 0) || forced
    let u := (st1.nodes p).u
    if !forceupdate && CFloat.eq u.hp_float v then .ok st1
    else
      let v1 := if (st1.nodes p).hp_flags.PROP_CLIPPED_VALUE then
          match u with
          | .PROP_FLOAT _ min max => clip_float v min max
          | _ => v
        else v
      prop_notify_value (st1.setU p (u.set_hp_float v1)) p skipme how

/-- The function prop_add_float_ex. -/
def prop_add_float_ex [CFloat F] (st : State F) (p : Option Nat) (skipme : Option Nat) (v : F) :
    Except Fault (State F) :=
  match prop_get_float st p with
  | (_, none, _) => .ok st
  | (st1, some p, _) =>
    let u := (st1.nodes p).u
    let n := CFloat.add u.hp_float v
    let n1 := if (st1.nodes p).hp_flags.PROP_CLIPPED_VALUE then
        match u with
        | .PROP_FLOAT _ min max => clip_float n min max
        | _ => n
      else n
    if !CFloat.eq u.hp_float n1 then prop_notify_value (st1.setU p (u.set_hp_float n1)) p skipme 0
    else .ok st1

/-- The function prop_set_float_clipping_range. -/
def prop_set_float_clipping_range [CFloat F] (st : State F) (p : Option Nat) (min max : F) :
    Except Fault (State F) :=
  match prop_get_float st p with
  | (_, none, _) => .ok st
  | (st1, some p, _) =>
    let nd := st1.nodes p
    let val := nd.u.hp_float
    let st2 := st1.setNode p { nd with
      hp_flags := { nd.hp_flags with PROP_CLIPPED_VALUE := true }, u := .PROP_FLOAT val min max }
    let n := clip_float val min max
    if !CFloat.eq n val then prop_notify_value (st2.setU p (.PROP_FLOAT n min max)) p none 0
    else .ok st2

/-- The function prop_set_int_exl. -/
def prop_set_int_exl [CFloat F] (st : State F) (p : Nat) (skipme : Option Nat) (v : Int) :
    Except Fault (State F) :=
  match (st.nodes p).u with
  | .PROP_ZOMBIE => .ok st
  | .PROP_INT val min max =>
    if val = v then .ok st
    else if (st.nodes p).hp_flags.PROP_CLIPPED_VALUE then
      prop_notify_value (st.setU p (.PROP_INT (clip_int v min max) min max)) p skipme 0
    else prop_notify_value (st.setU p (.PROP_INT v min max)) p skipme 0
  | .PROP_FLOAT val min max =>
    prop_notify_value (st.setU p ((prop_float_to_int (.PROP_FLOAT val min max)).set_hp_int v))
      p skipme 0
  | _ =>
    if prop_clean (st.nodes p) then .ok st
    else prop_notify_value (st.setU p (.PROP_INT v 0 0)) p skipme 0

/-- The function prop_set_int_ex. -/
def prop_set_int_ex [CFloat F] (st : State F) (p : Option Nat) (skipme : Option Nat) (v : Int) :
    Except Fault (State F) :=
  match p with
  | none => .ok st
  | some p => prop_set_int_exl st p skipme v

/-- The common head of prop_add_int_ex, prop_toggle_int_ex and prop_set_int_clipping_range:
  NULL for a zombie or a node that prop_clean refuses, else the node made an int node
  (from a float by prop_float_to_int, from any other type with value 0). -/
def prop_int_head [CFloat F] (st : State F) (p : Nat) : Option (State F) :=
  match (st.nodes p).u with
  | .PROP_ZOMBIE => none
  | .PROP_INT _ _ _ => some st
  | .PROP_FLOAT val min max => some (st.setU p (prop_float_to_int (.PROP_FLOAT val min max)))
  | _ =>
    if prop_clean (st.nodes p) then none
    else some (st.setU p (.PROP_INT 0 0 0))

/-- The function prop_add_int_ex. -/
def prop_add_int_ex [CFloat F] (st : State F) (p : Option Nat) (skipme : Option Nat) (v : Int) :
    Except Fault (State F) :=
  match p with
  | none => .ok st
  | some p =>
    match prop_int_head st p with
    | none => .ok st
    | some st1 =>
      let u := (st1.nodes p).u
      let n := u.hp_int + v
      let n1 := if (st1.nodes p).hp_flags.PROP_CLIPPED_VALUE then
          match u with
          | .PROP_INT _ min max => clip_int n min max
          | _ => n
        else n
      if n1 ≠ u.hp_int then prop_notify_value (st1.setU p (u.set_hp_int n1)) p skipme 0
      else .ok st1

/-- The function prop_toggle_int_ex. -/
def prop_toggle_int_ex [CFloat F] (st : State F) (p : Option Nat) (skipme : Option Nat) :
    Except Fault (State F) :=
  match p with
  | none => .ok st
  | some p =>
    match prop_int_head st p with
    | none => .ok st
    | some st1 =>
      let u := (st1.nodes p).u
      prop_notify_value (st1.setU p (u.set_hp_int (if u.hp_int = 0 then 1 else 0))) p skipme 0

/-- The function prop_set_int_clipping_range. -/
def prop_set_int_clipping_range [CFloat F] (st : State F) (p : Option Nat) (min max : Int) :
    Except Fault (State F) :=
  match p with
  | none => .ok st
  | some p =>
    match prop_int_head st p with
    | none => .ok st
    | some st1 =>
      let nd := st1.nodes p
      let val := nd.u.hp_int
      let st2 := st1.setNode p { nd with
        hp_flags := { nd.hp_flags with PROP_CLIPPED_VALUE := true }, u := .PROP_INT val min max }
      let n := clip_int val min max
      if n ≠ val then prop_notify_value (st2.setU p (.PROP_INT n min max)) p none 0
      else .ok st2

/-! ## Creation of nodes -/

/-- The function prop_build_notify_child2. -/
def prop_build_notify_child2 (st : State F) (s : Nat) (p : Nat) (extra : Option Nat)
    (event : prop_event_t) (direct : Bool) (flags : Int) : Except Fault (State F) :=
  if direct || (st.subs s).hps_flags.PROP_SUB_INTERNAL then
    .ok (call_direct st
      { hpn_sub := s, hpn_event := event, u := .p (some p), hpn_prop2 := extra, hpn_flags := flags })
  else
    match get_notify st s with
    | .error e => .error e
    | .ok st1 =>
      let st2 := prop_ref_inc st1 p
      let st3 := match extra with
        | some q => prop_ref_inc st2 q
        | none => st2
      .ok (courier_enqueue st3 s
        { hpn_sub := s, hpn_event := event, u := .p (some p), hpn_prop2 := extra, hpn_flags := flags })

/-- The function prop_notify_child2. -/
def prop_notify_child2 (child : Nat) (sibling : Option Nat) (event : prop_event_t)
    (skipme : Option Nat) (flags : Int) : List Nat → State F → Except Fault (State F)
  | [], st => .ok st
  | s :: rest, st =>
    if some s = skipme then prop_notify_child2 child sibling event skipme flags rest st
    else
      match prop_build_notify_child2 st s child sibling event false flags with
      | .error e => .error e
      | .ok st1 => prop_notify_child2 child sibling event skipme flags rest st1

/-- The macro TAILQ_INSERT_BEFORE on a child list: p goes in front of `before`. -/
def tailq_insert_before (cs : List Nat) (before p : Nat) : List Nat :=
  match cs with
  | [] => [p]
  | c :: rest => if c = before then p :: c :: rest else c :: tailq_insert_before rest before p

/-- Assignment to the child list of a directory node (no effect on another union member). -/
def State.setChilds (st : State F) (p : Nat) (cs : List Nat) : State F :=
  match (st.nodes p).u with
  | .PROP_DIR _ sel => st.setU p (.PROP_DIR cs sel)
  | _ => st

/-- Assignment to hp_selected of a directory node (no effect on another union member). -/
def State.setSelected (st : State F) (p : Nat) (sel : Option Nat) : State F :=
  match (st.nodes p).u with
  | .PROP_DIR cs _ => st.setU p (.PROP_DIR cs sel)
  | _ => st

/-- The function prop_insert. -/
def prop_insert (st : State F) (p parent : Nat) (before : Option Nat) (skipme : Option Nat) :
    Except Fault (State F) :=
  match before with
  | some b =>
    if (st.nodes b).hp_parent ≠ some parent then .error .assert
    else
      let st1 := st.setChilds parent (tailq_insert_before (st.nodes parent).hp_childs b p)
      prop_notify_child2 p (some b) .PROP_ADD_CHILD_BEFORE skipme 0
        (st1.nodes parent).hp_value_subscriptions st1
  | none =>
    let st1 := st.setChilds parent ((st.nodes parent).hp_childs ++ [p])
    prop_notify_child (some p) .PROP_ADD_CHILD skipme 0
      (st1.nodes parent).hp_value_subscriptions st1

/-- The function prop_make: a fresh void node with one reference and one xref. -/
def prop_make (st : State F) (name : Option String) (noalloc : Bool) (parent : Option Nat) :
    State F × Nat :=
  let hp := st.nnodes
  let nd : prop_t F :=
    { hp_name := name
      hp_flags := { PROP_NAME_NOT_ALLOCATED := noalloc }
      hp_originator := none
      hp_refcount := 1
      hp_xref := 1
      u := .PROP_VOID
      hp_targets := []
      hp_value_subscriptions := []
      hp_canonical_subscriptions := []
      hp_parent := parent }
  ({ st with nodes := fun q => if q = hp then nd else st.nodes q, nnodes := hp + 1 }, hp)

/-- The function prop_flood_flag. -/
def prop_flood_flag : Nat → State F → Nat → PropFlags → PropFlags → Except Fault (State F)
  | 0, _, _, _, _ => .error .fuel
  | fuel + 1, st, p, set, clr =>
    let st1 := st.setNode p
      { st.nodes p with hp_flags := ((st.nodes p).hp_flags.or set).andNot clr }
    match (st1.nodes p).u with
    | .PROP_DIR cs _ => cs.foldlM (fun acc c => prop_flood_flag fuel acc c set clr) st1
    | _ => .ok st1

/-- The loop of prop_create0 and prop_subfind that looks a child up by name:
  the first child with that name. -/
def find_child_by_name (st : State F) (cs : List Nat) (name : String) : Option Nat :=
  cs.find? fun c => (st.nodes c).hp_name = some name

/-- The function prop_create0. -/
def prop_create0 (st : State F) (parent : Nat) (name : Option String) (skipme : Option Nat)
    (noalloc : Bool) : Except Fault (State F × Nat) :=
  if (st.nodes parent).hp_type = .PROP_ZOMBIE then .error .assert
  else
    match prop_make_dir st parent skipme with
    | .error e => .error e
    | .ok st1 =>
      match name.bind (find_child_by_name st1 (st1.nodes parent).hp_childs) with
      | some hp =>
        if !(st1.nodes hp).hp_flags.PROP_NAME_NOT_ALLOCATED && noalloc then
          .ok (st1.setNode hp { st1.nodes hp with
            hp_name := name
            hp_flags := { (st1.nodes hp).hp_flags with PROP_NAME_NOT_ALLOCATED := true } }, hp)
        else .ok (st1, hp)
      | none =>
        let (st2, hp) := prop_make st1 name noalloc (some parent)
        let flooded :=
          if (st2.nodes parent).hp_flags.PROP_MULTI_SUB
              || (st2.nodes parent).hp_flags.PROP_MULTI_NOTIFY then
            prop_flood_flag (st2.nnodes + 1) st2 hp PROP_MULTI_NOTIFY {}
          else .ok st2
        match flooded with
        | .error e => .error e
        | .ok st3 =>
          match prop_insert st3 hp parent none skipme with
          | .error e => .error e
          | .ok st4 => .ok (st4, hp)

/-- The function prop_create_ex (the reference taken for incref is the caller's). -/
def prop_create_ex (st : State F) (parent : Option Nat) (name : Option String)
    (skipme : Option Nat) (noalloc incref : Bool) : Except Fault (State F × Option Nat) :=
  match parent with
  | none => .ok (st, none)
  | some parent =>
    if (st.nodes parent).hp_type ≠ .PROP_ZOMBIE then
      match prop_create0 st parent name skipme noalloc with
      | .error e => .error e
      | .ok (st1, p) => .ok (if incref then prop_ref_inc st1 p else st1, some p)
    else .ok (st, none)

/-- The function prop_create_root_ex. -/
def prop_create_root_ex (st : State F) (name : Option String) (noalloc : Bool) : State F × Nat :=
  prop_make st name noalloc none

/-! ## Path resolution -/

/-- The loop `while(p->hp_originator != NULL) p = p->hp_originator`. -/
def follow_originators : Nat → State F → Nat → Except Fault Nat
  | 0, _, _ => .error .fuel
  | fuel + 1, st, p =>
    match (st.nodes p).hp_originator with
    | none => .ok p
    | some o => follow_originators fuel st o

/-- The digits read by atoi, accumulated from the left. -/
def atoi_digits : List Char → Nat → Nat
  | [], acc => acc
  | c :: rest, acc => if c.isDigit then atoi_digits rest (acc * 10 + (c.toNat - 48)) else acc

/-- The sign and digits read by atoi after the white space. -/
def atoi_signed : List Char → Int
  | '-' :: rest => - (atoi_digits rest 0 : Int)
  | '+' :: rest => atoi_digits rest 0
  | cs => atoi_digits cs 0

/-- The library function atoi: white space, an optional sign, decimal digits. -/
def atoi (cs : List Char) : Int :=
  atoi_signed (cs.dropWhile fun c => c.toNat = 32 || (9 ≤ c.toNat && c.toNat ≤ 13))

/-- The head of the loop body of prop_subfind at node p: a directory is entered, a void
  node is made an empty directory and its subscribers are told, and at any other node the
  traversal ends with NULL (here: no state). -/
def subfind_enter (st : State F) (p : Nat) : Except Fault (Option (State F)) :=
  if (st.nodes p).hp_type ≠ .PROP_DIR then
    if (st.nodes p).hp_type ≠ .PROP_VOID then .ok none
    else
      match prop_notify_value (st.setU p (.PROP_DIR [] none)) p none 0 with
      | .error e => .error e
      | .ok st1 => .ok (some st1)
  else .ok (some st)

/-- The rest of the loop body of prop_subfind at the directory p: the child selected by
  the segment, by position for `*N` when indexing is allowed, else by name and created when
  missing; NULL when the position does not exist. -/
def subfind_child (st : State F) (p : Nat) (name : String) (allow_indexing : Bool) :
    Except Fault (State F × Option Nat) :=
  if allow_indexing && name.data.head? = some '*' then
    let i := ((atoi name.data.tail) % 4294967296).toNat
    match (st.nodes p).hp_childs.get? i with
    | none => .ok (st, none)
    | some c => .ok (st, some c)
  else
    match find_child_by_name st (st.nodes p).hp_childs name with
    | some c => .ok (st, some c)
    | none =>
      match prop_create0 st p (some name) none false with
      | .error e => .error e
      | .ok (st1, c) => .ok (st1, some c)

/-- The end of the loop body of prop_subfind: NULL is returned, or the loop goes on at the
  child with the next segment. -/
def subfind_next (r : Except Fault (State F × Option Nat))
    (loop : State F → Nat → Except Fault (State F × Option Nat)) :
    Except Fault (State F × Option Nat) :=
  match r with
  | .error e => .error e
  | .ok (st2, none) => .ok (st2, none)
  | .ok (st2, some c) => loop st2 c

/-- The function prop_subfind. -/
def prop_subfind (st : State F) (p : Nat) (name : List String)
    (follow_symlinks allow_indexing : Bool) : Except Fault (State F × Option Nat) :=
  match name with
  | [] =>
    if follow_symlinks then
      match follow_originators (st.nnodes + 1) st p with
      | .error e => .error e
      | .ok q => .ok (st, some q)
    else .ok (st, some p)
  | n :: rest =>
    match (if follow_symlinks then follow_originators (st.nnodes + 1) st p else .ok p) with
    | .error e => .error e
    | .ok p1 =>
      match subfind_enter st p1 with
      | .error e => .error e
      | .ok none => .ok (st, none)
      | .ok (some st1) =>
        subfind_next (subfind_child st1 p1 n allow_indexing)
          fun st2 c => prop_subfind st2 c rest follow_symlinks allow_indexing

/-! ## Subscriptions -/

/-- One entry of the list proproots built from PROP_TAG_ROOT and PROP_TAG_NAMED_ROOT. -/
structure prop_root_t where
  p : Nat
  name : Option String := none
deriving DecidableEq, Repr

/-- The function prop_resolve_tree: NULL (ok none) or the live root of that name; the
  name "global" is the global root. -/
def prop_resolve_tree (st : State F) (name : String) (prl : List prop_root_t) :
    Except Fault (Option Nat) :=
  if name = "global" then
    match st.prop_global with
    | none => .error .segv
    | some p => .ok (if (st.nodes p).hp_type = .PROP_ZOMBIE then none else some p)
  else
    match prl.find? fun pr => (st.nodes pr.p).hp_name = some name || pr.name = some name with
    | none => .ok none
    | some pr => .ok (if (st.nodes pr.p).hp_type = .PROP_ZOMBIE then none else some pr.p)

/-- The function prop_flood_flag_on_childs. -/
def prop_flood_flag_on_childs (st : State F) (p : Nat) (set clr : PropFlags) :
    Except Fault (State F) :=
  (st.nodes p).hp_childs.foldlM (fun acc c => prop_flood_flag (st.nnodes + 1) acc c set clr) st

/-- The function prop_set_multi. -/
def prop_set_multi (st : State F) (p : Nat) : Except Fault (State F) :=
  if (st.nodes p).hp_flags.PROP_MULTI_SUB then .ok st
  else
    let st1 := st.setNode p
      { st.nodes p with hp_flags := { (st.nodes p).hp_flags with PROP_MULTI_SUB := true } }
    if (st1.nodes p).hp_type = .PROP_DIR then prop_flood_flag_on_childs st1 p PROP_MULTI_NOTIFY {}
    else .ok st1

/-- The function prop_clr_multi. -/
def prop_clr_multi (st : State F) (p : Nat) : Except Fault (State F) :=
  let st1 := st.setNode p
    { st.nodes p with hp_flags := { (st.nodes p).hp_flags with PROP_MULTI_SUB := false } }
  if (st1.nodes p).hp_type = .PROP_DIR && !(st1.nodes p).hp_flags.PROP_MULTI_NOTIFY then
    prop_flood_flag_on_childs st1 p {} PROP_MULTI_NOTIFY
  else .ok st1

/-- The function prop_notify_destroyed. -/
def prop_notify_destroyed (st : State F) (s : Nat) : Except Fault (State F) :=
  if (st.subs s).hps_flags.PROP_SUB_INTERNAL then
    .ok (call_direct st { hpn_sub := s, hpn_event := .PROP_DESTROYED })
  else
    match get_notify st s with
    | .error e => .error e
    | .ok st1 =>
      let c := (st1.subs s).hps_courier
      let exp := (st1.subs s).hps_flags.PROP_SUB_EXPEDITE
        || (st1.subs s).hps_flags.PROP_SUB_TRACK_DESTROY_EXP
      .ok (courier_notify
        (queue_insert_tail st1 c exp { hpn_sub := s, hpn_event := .PROP_DESTROYED }) c)

/-- The function prop_notify_void. -/
def prop_notify_void (st : State F) (s : Nat) : Except Fault (State F) :=
  if (st.subs s).hps_flags.PROP_SUB_INTERNAL then
    .ok (call_direct st
      { hpn_sub := s, hpn_event := .PROP_SET_VOID, hpn_prop2 := (st.subs s).hps_value_prop })
  else
    match get_notify st s with
    | .error e => .error e
    | .ok st1 => .ok (courier_enqueue st1 s { hpn_sub := s, hpn_event := .PROP_SET_VOID })

/-- The function prop_send_subscription_monitor_active. -/
def prop_send_subscription_monitor_active :
    List Nat → State F → Except Fault (State F)
  | [], st => .ok st
  | s :: rest, st =>
    if (st.subs s).hps_flags.PROP_SUB_SUBSCRIPTION_MONITOR then
      match get_notify st s with
      | .error e => .error e
      | .ok st1 =>
        prop_send_subscription_monitor_active rest
          (courier_enqueue st1 s { hpn_sub := s, hpn_event := .PROP_SUBSCRIPTION_MONITOR_ACTIVE })
    else prop_send_subscription_monitor_active rest st

/-- The function prop_build_notify_childv (the vector keeps its own references). -/
def prop_build_notify_childv (st : State F) (s : Nat) (pv : List Nat) (event : prop_event_t)
    (p2 : Option Nat) (direct : Bool) : Except Fault (State F) :=
  if direct || (st.subs s).hps_flags.PROP_SUB_INTERNAL then
    .ok (call_direct st { hpn_sub := s, hpn_event := event, u := .pv pv, hpn_prop2 := p2 })
  else
    match get_notify st s with
    | .error e => .error e
    | .ok st1 =>
      let st2 := match p2 with
        | some q => prop_ref_inc st1 q
        | none => st1
      .ok (courier_enqueue st2 s
        { hpn_sub := s, hpn_event := event, u := .pv pv, hpn_prop2 := p2, hpn_flags := 0 })

/-- The function gen_add_flags (PROP_ADD_SELECTED is 1). -/
def gen_add_flags (st : State F) (c p : Nat) : Int :=
  if some c = (st.nodes p).hp_selected then 1 else 0

/-- The arguments of prop_subscribe after its tag list is read. -/
structure subscribe_args where
  flags : SubFlags := {}
  name : Option (List String) := none
  callback : Option Nat := none
  trampoline : Option prop_trampoline_t := none
  userptr : Option Nat := none
  user_int : Int := 0
  courier : Option Nat := none
  proproots : List prop_root_t := []
deriving DecidableEq, Repr

/-- The loop of prop_subscribe that reports the children of a directory one by one. -/
def subscribe_add_childs (s value : Nat) (direct : Bool) :
    List Nat → State F → Except Fault (State F)
  | [], st => .ok st
  | c :: rest, st =>
    match prop_build_notify_child st s (some c) .PROP_ADD_CHILD direct
        (gen_add_flags st c value) with
    | .error e => .error e
    | .ok st1 => subscribe_add_childs s value direct rest st1

/-- The part of prop_subscribe that resolves the canonical and the value node. -/
def subscribe_resolve (st : State F) (a : subscribe_args) :
    Except Fault (State F × Option Nat × Option Nat) :=
  match a.name with
  | none =>
    match a.proproots.head? with
    | some pr => .ok (st, some pr.p, some pr.p)
    | none => .ok (st, none, none)
  | some [] => .error .segv
  | some (n0 :: name) =>
    match prop_resolve_tree st n0 a.proproots with
    | .error e => .error e
    | .ok none => .ok (st, none, none)
    | .ok (some p) =>
      match prop_subfind st p name false false with
      | .error e => .error e
      | .ok (st1, canonical) =>
        match prop_subfind st1 p name true false with
        | .error e => .error e
        | .ok (st2, value) => .ok (st2, canonical, value)

/-- The part of prop_subscribe that puts the new subscription s on the canonical list. -/
def subscribe_canonical (st : State F) (s : Nat) (canonical : Option Nat) :
    Except Fault (State F × Bool) :=
  match canonical with
  | none => .ok (st, false)
  | some c =>
    let st1 := st.setNode c { st.nodes c with
      hp_canonical_subscriptions := s :: (st.nodes c).hp_canonical_subscriptions }
    let mon := (st1.subs s).hps_flags.PROP_SUB_SUBSCRIPTION_MONITOR
      && !(st1.nodes c).hp_flags.PROP_MONITORED
    let st2 := if mon then st1.setNode c { st1.nodes c with
        hp_flags := { (st1.nodes c).hp_flags with PROP_MONITORED := true } } else st1
    let activate := mon && (st2.nodes c).hp_value_subscriptions.any
      fun t => !(st2.subs t).hps_flags.PROP_SUB_SUBSCRIPTION_MONITOR
    if (st2.subs s).hps_flags.PROP_SUB_MULTI then
      match prop_set_multi st2 c with
      | .error e => .error e
      | .ok st3 => .ok (st3, activate)
    else .ok (st2, activate)

/-- The part of prop_subscribe that puts the new subscription s on the value list and
  delivers the initial update. -/
def subscribe_value (st : State F) (s : Nat) (value : Option Nat) (direct notify_now : Bool) :
    Except Fault (State F) :=
  match value with
  | none => .ok st
  | some v =>
    let st1 := st.setNode v { st.nodes v with
      hp_value_subscriptions := s :: (st.nodes v).hp_value_subscriptions }
    let updated : Except Fault (State F) :=
      if notify_now then
        match prop_build_notify_value st1 s direct v none 0 with
        | .error e => .error e
        | .ok (st2, _) =>
          if (st2.nodes v).hp_type = .PROP_DIR && !(st2.subs s).hps_flags.PROP_SUB_MULTI then
            if (st2.nodes v).hp_selected = none && direct then
              prop_build_notify_childv st2 s (st2.nodes v).hp_childs
                .PROP_ADD_CHILD_VECTOR_DIRECT none true
            else subscribe_add_childs s v direct (st2.nodes v).hp_childs st2
          else .ok st2
      else .ok st1
    match updated with
    | .error e => .error e
    | .ok st3 =>
      if !(st3.subs s).hps_flags.PROP_SUB_SUBSCRIPTION_MONITOR
          && (st3.nodes v).hp_flags.PROP_MONITORED then
        prop_send_subscription_monitor_active (st3.nodes v).hp_value_subscriptions st3
      else .ok st3

/-- The function prop_subscribe; the result is the state and the handle returned. -/
def prop_subscribe (st : State F) (a : subscribe_args) : Except Fault (State F × Option Nat) :=
  let direct := a.flags.PROP_SUB_DIRECT_UPDATE || a.flags.PROP_SUB_INTERNAL
  let notify_now := !a.flags.PROP_SUB_NO_INITIAL_UPDATE
  match subscribe_resolve st a with
  | .error e => .error e
  | .ok (st1, canonical0, value0) =>
    let singleton : Except Fault Bool :=
      if a.flags.PROP_SUB_SINGLETON then
        match value0 with
        | none => .error Fault.segv
        | some v => .ok ((st1.nodes v).hp_value_subscriptions.any fun t =>
            (st1.subs t).hps_callback = a.callback && (st1.subs t).hps_userptr = a.userptr)
      else .ok false
    match singleton with
    | .error e => .error e
    | .ok true => .ok (st1, none)
    | .ok false =>
      let value := value0.bind fun v =>
        if (st1.nodes v).hp_type = .PROP_ZOMBIE then none else some v
      let canonical := canonical0.bind fun c =>
        if (st1.nodes c).hp_type = .PROP_ZOMBIE then none else some c
      let s := st1.nsubs
      let pc := a.courier.getD st1.global_courier
      let sb : prop_sub_t :=
        { hps_zombie := false
          hps_flags := a.flags
          hps_trampoline := a.trampoline
          hps_callback := a.callback
          hps_userptr := a.userptr
          hps_refcount := 1
          hps_user_int := a.user_int
          hps_courier := pc
          hps_canonical_prop := canonical
          hps_value_prop := value }
      let st2 : State F := { st1 with
        subs := fun q => if q = s then sb else st1.subs q, nsubs := s + 1 }
      let st3 := st2.setCourier pc
        { st2.couriers pc with pc_refcount := (st2.couriers pc).pc_refcount + 1 }
      match subscribe_canonical st3 s canonical with
      | .error e => .error e
      | .ok (st4, activate_on_canonical) =>
        match subscribe_value st4 s value direct notify_now with
        | .error e => .error e
        | .ok st5 =>
          let activated : Except Fault (State F) :=
            match canonical with
            | some c =>
              if activate_on_canonical then
                prop_send_subscription_monitor_active (st5.nodes c).hp_value_subscriptions st5
              else .ok st5
            | none => .ok st5
          match activated with
          | .error e => .error e
          | .ok st6 =>
            if canonical = none && ((st6.subs s).hps_flags.PROP_SUB_TRACK_DESTROY
                || (st6.subs s).hps_flags.PROP_SUB_TRACK_DESTROY_EXP) then
              if direct then
                .ok (call_direct st6 { hpn_sub := s, hpn_event := .PROP_DESTROYED }, none)
              else
                match prop_notify_destroyed st6 s with
                | .error e => .error e
                | .ok st7 => .ok (st7, some s)
            else .ok (st6, some s)

/-- The function prop_courier_create: an empty courier at the next unused index. -/
def prop_courier_create (st : State F) : State F × Nat :=
  ({ st with couriers := fun q => if q = st.ncouriers then {} else st.couriers q,
             ncouriers := st.ncouriers + 1 }, st.ncouriers)

/-- The function prop_courier_create_passive. -/
def prop_courier_create_passive (st : State F) : State F × Nat :=
  prop_courier_create st

/-! ## Path-based set -/

/-- The event and value that end the argument list of prop_setv_ex and prop_set_ex. -/
inductive seti_arg where
  | PROP_SET_STRING (str : Option String)
  | PROP_SET_RSTRING (rstr : Option String)
  | PROP_SET_INT (v : Int)
  | PROP_SET_VOID
  | other (ev : prop_event_t)
deriving DecidableEq, Repr

/-- The function prop_seti (type 0 is PROP_STR_UTF8). -/
def prop_seti [CFloat F] (st : State F) (skipme : Option Nat) (p : Nat) (arg : seti_arg) :
    Except Fault (State F) :=
  match arg with
  | .PROP_SET_STRING none => prop_set_void_exl st p skipme
  | .PROP_SET_STRING (some str) => prop_set_string_exl st p skipme str 0
  | .PROP_SET_RSTRING none => prop_set_void_exl st p skipme
  | .PROP_SET_RSTRING (some rstr) => prop_set_rstring_exl st p skipme rstr
  | .PROP_SET_INT v => prop_set_int_exl st p skipme v
  | .PROP_SET_VOID => prop_set_void_exl st p skipme
  | .other _ => .error .assert

/-- The loop of prop_setv_ex over the path segments followed by prop_seti at the node
  reached; a zombie on the way ends the call. -/
def setv_from [CFloat F] (skipme : Option Nat) (arg : seti_arg) :
    List String → State F → Nat → Except Fault (State F)
  | [], st, p => prop_seti st skipme p arg
  | n :: rest, st, p =>
    if (st.nodes p).hp_type = .PROP_ZOMBIE then .ok st
    else
      match (if (st.nodes p).hp_type = .PROP_DIR then
          find_child_by_name st (st.nodes p).hp_childs n else none) with
      | some c => setv_from skipme arg rest st c
      | none =>
        match prop_create0 st p (some n) skipme false with
        | .error e => .error e
        | .ok (st1, c) => setv_from skipme arg rest st1 c

/-- The function prop_setv_ex. -/
def prop_setv_ex [CFloat F] (st : State F) (skipme : Option Nat) (p : Option Nat)
    (names : List String) (arg : seti_arg) : Except Fault (State F) :=
  match p with
  | none => .ok st
  | some p =>
    if (st.nodes p).hp_type = .PROP_ZOMBIE then .ok st
    else setv_from skipme arg names st p

/-- The function prop_set_ex. -/
def prop_set_ex [CFloat F] (st : State F) (p : Option Nat) (name : Option String)
    (noalloc : Bool) (arg : seti_arg) : Except Fault (State F) :=
  match p with
  | none => .ok st
  | some p =>
    if (st.nodes p).hp_type ≠ .PROP_ZOMBIE then
      match prop_create0 st p name none noalloc with
      | .error e => .error e
      | .ok (st1, c) => prop_seti st1 none c arg
    else .ok st

/-- The function prop_find0. -/
def prop_find0 (st : State F) : Nat → List String → Option Nat
  | p, [] => some p
  | p, n :: rest =>
    if (st.nodes p).hp_type ≠ .PROP_DIR then none
    else
      match find_child_by_name st (st.nodes p).hp_childs n with
      | none => none
      | some c => prop_find0 st c rest

/-- A node that holds a value other than void: int, float, string or link. -/
def prop_value.is_scalar (u : prop_value F) : Bool :=
  match u with
  | .PROP_INT _ _ _ => true
  | .PROP_FLOAT _ _ _ => true
  | .PROP_RSTRING _ _ => true
  | .PROP_CSTRING _ => true
  | .PROP_LINK _ _ => true
  | _ => false

/-- From st to st' no node is freed and no scalar node of st lost or changed its value. -/
def ScalarsKept (st st' : State F) : Prop :=
  st.nnodes ≤ st'.nnodes ∧
  ∀ q, q < st.nnodes → (st.nodes q).u.is_scalar = true → (st'.nodes q).u = (st.nodes q).u

/-- From st to st' nothing is allocated and the nodes are the same but for reference counts
  and for the value (hp_type and union) of node c. -/
def SameButU (c : Nat) (st st' : State F) : Prop :=
  st'.nnodes = st.nnodes ∧
  (∀ q, q ≠ c → st'.nodes q = { st.nodes q with hp_refcount := (st'.nodes q).hp_refcount }) ∧
  st'.nodes c = { st.nodes c with
    hp_refcount := (st'.nodes c).hp_refcount, u := (st'.nodes c).u }

/-- The delivery of PROP_SET_DIR about directory p to subscription s. -/
def set_dir_record (st : State F) (s p : Nat) : Delivery F :=
  if (st.subs s).hps_flags.PROP_SUB_INTERNAL then
    .direct { hpn_sub := s, hpn_event := .PROP_SET_DIR, hpn_prop2 := some p }
  else .queued { hpn_sub := s, hpn_event := .PROP_SET_DIR, hpn_prop2 := some p }

/-! ## Specification vocabulary -/

/-- The state st' differs from st at most in reference counts, courier queues and the log:
  every other field of every node and subscription is the same. -/
def SameTree (st st' : State F) : Prop :=
  st'.nnodes = st.nnodes ∧ st'.nsubs = st.nsubs ∧
  (∀ q, st'.nodes q = { st.nodes q with hp_refcount := (st'.nodes q).hp_refcount }) ∧
  (∀ s, st'.subs s = { st.subs s with hps_refcount := (st'.subs s).hps_refcount })

/-- The delivery that prop_build_notify_value makes to subscription s about node p
  (empty when p is a zombie, where the C code aborts). -/
def value_record (st : State F) (s p : Nat) (how : Int) : List (Delivery F) :=
  if (st.subs s).hps_flags.PROP_SUB_INTERNAL then
    match direct_value_args (st.nodes p).u how with
    | .ok (ev, a) => [.direct { hpn_sub := s, hpn_event := ev, u := a, hpn_prop2 := some p }]
    | .error _ => []
  else
    match queued_value_args (st.nodes p).u how with
    | .ok (ev, a) => [.queued { hpn_sub := s, hpn_event := ev, u := a, hpn_prop2 := some p }]
    | .error _ => []

/-- The strict ancestors of p, nearest first, found by following hp_parent. -/
def prop_ancestors : Nat → State F → Nat → Option (List Nat)
  | 0, _, _ => none
  | fuel + 1, st, p =>
    match (st.nodes p).hp_parent with
    | none => some []
    | some q =>
      match prop_ancestors fuel st q with
      | none => none
      | some l => some (q :: l)

/-- The deliveries of the upward walk of prop_notify_value along the ancestors l: every
  multi subscription on the value list of an ancestor with PROP_MULTI_SUB gets the value of
  that ancestor. -/
def multi_records (st : State F) (l : List Nat) : List (Delivery F) :=
  l.flatMap fun q =>
    if (st.nodes q).hp_flags.PROP_MULTI_SUB then
      ((st.nodes q).hp_value_subscriptions.filter
        fun s => (st.subs s).hps_flags.PROP_SUB_MULTI).flatMap fun s => value_record st s q 0
    else []

/-- The deliveries of the first loop of prop_notify_value on node p. -/
def value_records (st : State F) (p : Nat) (skipme : Option Nat) (how : Int) :
    List (Delivery F) :=
  ((st.nodes p).hp_value_subscriptions.filter fun s => some s ≠ skipme).flatMap
    fun s => value_record st s p how

/-- What prop_notify_value on p needs of a well-formed tree: the subscriptions on the value
  list of p have p as their value node, and, when p carries PROP_MULTI_NOTIFY, its parent
  chain ends at a root within the allocated nodes and holds no zombie. -/
def NotifyOk (st : State F) (p : Nat) (skipme : Option Nat) : Prop :=
  (∀ s ∈ (st.nodes p).hp_value_subscriptions, some s ≠ skipme →
      (st.subs s).hps_value_prop = some p) ∧
  ((st.nodes p).hp_flags.PROP_MULTI_NOTIFY = true →
    ∃ l, prop_ancestors (st.nnodes + 1) st p = some l ∧
      ∀ q ∈ l, (st.nodes q).hp_type ≠ .PROP_ZOMBIE)

/-- The deliveries of the upward walk of prop_notify_value from node p. -/
def multi_part (st : State F) (p : Nat) : List (Delivery F) :=
  if (st.nodes p).hp_flags.PROP_MULTI_NOTIFY then
    match prop_ancestors (st.nnodes + 1) st p with
    | some l => multi_records st l
    | none => []
  else []

/-- All deliveries of prop_notify_value on node p. -/
def notify_records (st : State F) (p : Nat) (skipme : Option Nat) (how : Int) :
    List (Delivery F) :=
  value_records st p skipme how ++ multi_part st p

/-- The delivery that prop_build_notify_child makes to subscription s. -/
def child_record (st : State F) (s : Nat) (p : Option Nat) (event : prop_event_t)
    (flags : Int) : Delivery F :=
  if (st.subs s).hps_flags.PROP_SUB_INTERNAL then
    .direct { hpn_sub := s, hpn_event := event, u := .p p, hpn_flags := flags }
  else .queued { hpn_sub := s, hpn_event := event, u := .p p, hpn_flags := flags }

/-- The deliveries of prop_notify_child to the value list l. -/
def child_records (st : State F) (l : List Nat) (child : Option Nat) (event : prop_event_t)
    (skipme : Option Nat) (flags : Int) : List (Delivery F) :=
  (l.filter fun s => some s ≠ skipme).map fun s => child_record st s child event flags

/-- The delivery of PROP_SET_INT about the int node p holding v to subscription s. -/
def set_int_record (st : State F) (s p : Nat) (v : Int) : Delivery F :=
  if (st.subs s).hps_flags.PROP_SUB_INTERNAL then
    .direct { hpn_sub := s, hpn_event := .PROP_SET_INT, u := .i v, hpn_prop2 := some p }
  else .queued { hpn_sub := s, hpn_event := .PROP_SET_INT, u := .fslot v, hpn_prop2 := some p }

/-- The deliveries of `prop_setv_ex(skipme, p, names, PROP_SET_INT, v)` on a void node p that
  is under no multi subscription: without segments PROP_SET_INT to the subscriptions of p;
  with segments PROP_SET_DIR and then PROP_ADD_CHILD (the first new node) to them, the new
  nodes having no subscriptions. -/
def setv_records (st : State F) (p : Nat) (skipme : Option Nat) (names : List String)
    (v : Int) : List (Delivery F) :=
  match names with
  | [] =>
    ((st.nodes p).hp_value_subscriptions.filter fun s => some s ≠ skipme).map
      fun s => set_int_record st s p v
  | _ :: _ =>
    (((st.nodes p).hp_value_subscriptions.filter fun s => some s ≠ skipme).map
        fun s => set_dir_record st s p)
      ++ child_records st (st.nodes p).hp_value_subscriptions (some st.nnodes)
          .PROP_ADD_CHILD skipme 0

/-- A call of one of the typed setters and adders on a node, with its value arguments. -/
inductive setter_call (F : Type) where
  | set_string (str : String) (type : Nat)
  | set_rstring (rstr : String)
  | set_cstring (cstr : String)
  | set_link (title url : Option String)
  | set_int (v : Int)
  | set_float (v : F) (how : Int)
  | set_void
  | toggle_int
  | add_int (v : Int)
  | add_float (v : F)
  | set_int_clipping_range (min max : Int)
  | set_float_clipping_range (min max : F)

/-- The call on node p with the caller's subscription skipme. -/
def setter_call.run [CFloat F] (c : setter_call F) (st : State F) (p : Nat)
    (skipme : Option Nat) : Except Fault (State F) :=
  match c with
  | .set_string str type => prop_set_string_ex st (some p) skipme (some str) type
  | .set_rstring rstr => prop_set_rstring_ex st (some p) skipme (some rstr)
  | .set_cstring cstr => prop_set_cstring_ex st (some p) skipme (some cstr)
  | .set_link title url => prop_set_link_ex st (some p) skipme title url
  | .set_int v => prop_set_int_ex st (some p) skipme v
  | .set_float v how => prop_set_float_ex st (some p) skipme v how
  | .set_void => prop_set_void_ex st (some p) skipme
  | .toggle_int => prop_toggle_int_ex st (some p) skipme
  | .add_int v => prop_add_int_ex st (some p) skipme v
  | .add_float v => prop_add_float_ex st (some p) skipme v
  | .set_int_clipping_range min max => prop_set_int_clipping_range st (some p) min max
  | .set_float_clipping_range min max => prop_set_float_clipping_range st (some p) min max

/-- The subscription the call leaves out: the clipping-range setters leave out none. -/
def setter_call.skipped (c : setter_call F) (skipme : Option Nat) : Option Nat :=
  match c with
  | .set_int_clipping_range _ _ => none
  | .set_float_clipping_range _ _ => none
  | _ => skipme

/-- The argument `how` passed on to the notification. -/
def setter_call.how (c : setter_call F) : Int :=
  match c with
  | .set_float _ how => how
  | _ => 0

/-- The number an adder or clipping-range setter finds in the node after the coercion to
  int: a float is converted, any other kind counts as 0. -/
def int_view [CFloat F] (u : prop_value F) : Int :=
  match u with
  | .PROP_INT val _ _ => val
  | .PROP_FLOAT val _ _ => CFloat.toInt val
  | _ => 0

/-- The range an adder finds in the node after the coercion to int. -/
def int_range [CFloat F] (u : prop_value F) : Int × Int :=
  match u with
  | .PROP_INT _ min max => (min, max)
  | .PROP_FLOAT _ min max => (CFloat.toInt min, CFloat.toInt max)
  | _ => (0, 0)

/-- The number an adder or clipping-range setter finds in the node after the coercion to
  float: an int is converted, any other kind counts as 0. -/
def float_view [CFloat F] (u : prop_value F) : F :=
  match u with
  | .PROP_FLOAT val _ _ => val
  | .PROP_INT val _ _ => CFloat.ofInt val
  | _ => CFloat.ofInt 0

/-- The range an adder finds in the node after the coercion to float. -/
def float_range [CFloat F] (u : prop_value F) : F × F :=
  match u with
  | .PROP_FLOAT _ min max => (min, max)
  | .PROP_INT _ min max => (CFloat.ofInt min, CFloat.ofInt max)
  | _ => (CFloat.ofInt 0, CFloat.ofInt 0)

/-- The node is one that an adder or clipping-range setter leaves alone: neither int nor
  float, and refused by prop_clean. -/
def numeric_refused (nd : prop_t F) : Bool :=
  match nd.u with
  | .PROP_INT _ _ _ => false
  | .PROP_FLOAT _ _ _ => false
  | _ => prop_clean nd

/-- The guard under which an adder or a clipping-range setter writes and notifies: the node
  is not refused and the number computed (the sum, or the current number, clamped) compares
  unequal to the number in the node after coercion. The set_* calls and toggle_int have no
  such guard. -/
def setter_call.guard [CFloat F] (c : setter_call F) (nd : prop_t F) : Option Bool :=
  match c with
  | .add_int v =>
    let n := int_view nd.u + v
    let n1 := if nd.hp_flags.PROP_CLIPPED_VALUE then
      clip_int n (int_range nd.u).1 (int_range nd.u).2 else n
    some (!numeric_refused nd && decide (n1 ≠ int_view nd.u))
  | .add_float v =>
    let n := CFloat.add (float_view nd.u) v
    let n1 := if nd.hp_flags.PROP_CLIPPED_VALUE then
      clip_float n (float_range nd.u).1 (float_range nd.u).2 else n
    some (!numeric_refused nd && !CFloat.eq (float_view nd.u) n1)
  | .set_int_clipping_range min max =>
    some (!numeric_refused nd && decide (clip_int (int_view nd.u) min max ≠ int_view nd.u))
  | .set_float_clipping_range min max =>
    some (!numeric_refused nd
      && !CFloat.eq (clip_float (float_view nd.u) min max) (float_view nd.u))
  | _ => none

/-- The run from st to st' has served prop_notify_value on p: the log grew by exactly one
  delivery for each subscription on the value list of p but skipme, about the value p holds
  in st', followed by the deliveries of the upward walk. -/
def Notified (st st' : State F) (p : Nat) (skipme : Option Nat) (how : Int) : Prop :=
  st'.log = st.log
    ++ (((st'.nodes p).hp_value_subscriptions.filter fun s => some s ≠ skipme).flatMap
        fun s => value_record st' s p how)
    ++ multi_part st' p ∧
  (st'.nodes p).hp_value_subscriptions = (st.nodes p).hp_value_subscriptions ∧
  ∀ s, ∃ d, value_record st' s p how = [d] ∧ d.n.hpn_sub = s ∧ d.n.hpn_prop2 = some p

/-! ## Concrete inputs -/

/-- The float values that are integers of small magnitude, where the single precision
  operations are exact. -/
structure SmallFloat where
  val : Int
deriving DecidableEq, Repr

instance : CFloat SmallFloat where
  ofInt i := ⟨i⟩
  toInt f := f.val
  add a b := ⟨a.val + b.val⟩
  lt a b := decide (a.val < b.val)
  eq a b := decide (a.val = b.val)

/-- The node p after a run, NULL when the run ended in a fault. -/
def node_after (r : Except Fault (State F)) (p : Nat) : Option (prop_t F) :=
  match r with
  | .ok st => some (st.nodes p)
  | .error _ => none

/-- The deliveries logged by a run, NULL when the run ended in a fault. -/
def log_after (r : Except Fault (State F)) : Option (List (Delivery F)) :=
  match r with
  | .ok st => some st.log
  | .error _ => none

/-- The state of a run, the empty state when the run ended in a fault. -/
def state_after (r : Except Fault (State F)) : State F :=
  match r with
  | .ok st => st
  | .error _ => State.empty

/-- A root (node 0) after `prop_create_root(NULL)`. -/
def ex_root : State SmallFloat := (prop_create_root_ex State.empty none false).1

/-- The root 0 made a directory by `prop_create(root, "a")`: child "a" is node 1. -/
def ex_dir : State SmallFloat :=
  match prop_create0 ex_root 0 (some "a") none false with
  | .ok (st, _) => st
  | .error _ => State.empty

/-- The root 0 after `prop_set_int(root, 7)` and `prop_set_int_clipping_range(root, 5, 10)`:
  an int node holding 7 with the range 5..10 in force. -/
def ex_clip : State SmallFloat :=
  state_after (prop_set_int_clipping_range
    (state_after (prop_set_int_ex ex_root (some 0) none 7)) (some 0) 5 10)

/-- The tree of `ex_dir` after `prop_set_int(a, 5)`: the child "a" (node 1) of the root
  holds the int 5. -/
def ex_a5 : State SmallFloat := state_after (prop_set_int_ex ex_dir (some 1) none 5)

/-- The handle and state of a prop_subscribe run, the empty state after a fault. -/
def sub_after (r : Except Fault (State F × Option Nat)) : State F :=
  match r with
  | .ok (st, _) => st
  | .error _ => State.empty

/-- The state `ex_root` with a passive courier (courier 0). -/
def ex_courier : State SmallFloat := (prop_courier_create_passive ex_root).1

/-- The void root 0 with a queued multi subscription (subscription 0) made by
  `prop_subscribe(PROP_SUB_MULTI | PROP_SUB_NO_INITIAL_UPDATE, PROP_TAG_CALLBACK, cb, NULL,
  PROP_TAG_COURIER, pc, PROP_TAG_ROOT, root, NULL)`. -/
def ex_multi : State SmallFloat :=
  sub_after (prop_subscribe ex_courier
    { flags := { PROP_SUB_MULTI := true, PROP_SUB_NO_INITIAL_UPDATE := true }
      callback := some 0
      courier := some 0
      proproots := [{ p := 0 }] })

/-- The events of a log, in order, each with the subscription it goes to. -/
def log_events (l : List (Delivery F)) : List (Nat × prop_event_t) :=
  l.map fun d => (d.n.hpn_sub, d.n.hpn_event)

/-- The root 0 after `prop_set_float(root, 5)` and
  `prop_set_float_clipping_range(root, 0, 10)`: a float node holding 5 with the range 0..10
  in force. -/
def ex_fclip : State SmallFloat :=
  state_after (prop_set_float_clipping_range
    (state_after (prop_set_float_ex ex_root (some 0) none ⟨5⟩ 0)) (some 0) ⟨0⟩ ⟨10⟩)

/-- The args of `prop_subscribe(PROP_SUB_NO_INITIAL_UPDATE, PROP_TAG_CALLBACK, cb, NULL,
  PROP_TAG_COURIER, pc, PROP_TAG_ROOT, root, NULL)` with root 0 and courier 0. -/
def ex_sub_args : subscribe_args :=
  { flags := { PROP_SUB_NO_INITIAL_UPDATE := true }
    callback := some 0
    courier := some 0
    proproots := [{ p := 0 }] }

/-- The void root 0 with a queued subscription (subscription 0) on it. -/
def ex_root_sub : State SmallFloat := sub_after (prop_subscribe ex_courier ex_sub_args)

/-- The clipped int node of `ex_clip` (7 in 5..10) with a queued subscription
  (subscription 0) on it. -/
def ex_clip_sub : State SmallFloat :=
  sub_after (prop_subscribe (prop_courier_create_passive ex_clip).1 ex_sub_args)

/-- The state `ex_clip_sub` after a first `prop_set_int(root, 100)`. -/
def ex_clip_sub1 : State SmallFloat :=
  state_after (prop_set_int_ex ex_clip_sub (some 0) none 100)

/-- The void root of `ex_root_sub` after `prop_set_string(root, "x")`. -/
def ex_root_sub_x : State SmallFloat :=
  state_after (prop_set_string_ex ex_root_sub (some 0) none (some "x") 0)

/-! ## Re-parenting, moving, links and destruction

The loops of this part run over intrusive lists that their bodies may change. A loop
`TAILQ_FOREACH` reads the successor of the current child after the body, the loops
`for(c = TAILQ_FIRST(..); c != NULL; c = next)` read it before the body; in both the
successor is looked up in the child list of the parent as the embedding holds it. The
macros TAILQ_REMOVE and LIST_REMOVE work on the links of the element alone: taking an
element off a list it is not on is undefined in C and ends the run with a fault here. The
recursion of prop_destroy0 and relink_subscriptions, the walks along parents and the loops
over lists that change are bounded by an explicit budget `fuel`, which the callers choose. -/

/-- The macro TAILQ_NEXT on a child list: the child that follows p. -/
def tailq_next : List Nat → Nat → Option Nat
  | [], _ => none
  | c :: rest, p => if c = p then rest.head? else tailq_next rest p

/-- The macros TAILQ_REMOVE and LIST_REMOVE on a list of the embedding: NULL when p is not
  on the list. -/
def tailq_remove (cs : List Nat) (p : Nat) : Option (List Nat) :=
  if p ∈ cs then some (cs.erase p) else none

/-- The function prop_ref_dec_locked: with the last reference the node goes back to the
  pool, which the assertion allows for a zombie only (hp_tags is not part of the
  embedding). -/
def prop_ref_dec_locked (st : State F) (p : Option Nat) : Except Fault (State F) :=
  match p with
  | none => .ok st
  | some p =>
    let st1 := st.setNode p { st.nodes p with hp_refcount := (st.nodes p).hp_refcount - 1 }
    if (st.nodes p).hp_refcount > 1 then .ok st1
    else if (st1.nodes p).hp_type ≠ .PROP_ZOMBIE then .error .assert
    else .ok st1

/-- The function prop_sub_ref_dec_locked. -/
def prop_sub_ref_dec_locked (st : State F) (s : Nat) : State F :=
  st.setSub s { st.subs s with hps_refcount := (st.subs s).hps_refcount - 1 }

/-- The function prop_notify_free (a vector of nodes keeps its own references). -/
def prop_notify_free (st : State F) (n : prop_notify_t F) : Except Fault (State F) :=
  let hpn_prop : Option Nat :=
    match n.u with
    | .p q => q
    | _ => none
  let released : Except Fault (State F) :=
    match n.hpn_event with
    | .PROP_SET_DIR => prop_ref_dec_locked st n.hpn_prop2
    | .PROP_SET_VOID => prop_ref_dec_locked st n.hpn_prop2
    | .PROP_SET_RSTRING => prop_ref_dec_locked st n.hpn_prop2
    | .PROP_SET_CSTRING => prop_ref_dec_locked st n.hpn_prop2
    | .PROP_SET_RLINK => prop_ref_dec_locked st n.hpn_prop2
    | .PROP_SET_INT => prop_ref_dec_locked st n.hpn_prop2
    | .PROP_SET_FLOAT => prop_ref_dec_locked st n.hpn_prop2
    | .PROP_EXT_EVENT => prop_ref_dec_locked st n.hpn_prop2
    | .PROP_ADD_CHILD_VECTOR_BEFORE => prop_ref_dec_locked st n.hpn_prop2
    | .PROP_ADD_CHILD => prop_ref_dec_locked st hpn_prop
    | .PROP_DEL_CHILD => prop_ref_dec_locked st hpn_prop
    | .PROP_REQ_NEW_CHILD => prop_ref_dec_locked st hpn_prop
    | .PROP_SUGGEST_FOCUS => prop_ref_dec_locked st hpn_prop
    | .PROP_ADD_CHILD_BEFORE | .PROP_MOVE_CHILD | .PROP_REQ_MOVE_CHILD
    | .PROP_SELECT_CHILD =>
      match prop_ref_dec_locked st hpn_prop with
      | .error e => .error e
      | .ok st1 => prop_ref_dec_locked st1 n.hpn_prop2
    | _ => .ok st
  match released with
  | .error e => .error e
  | .ok st1 => .ok (prop_sub_ref_dec_locked st1 n.hpn_sub)

/-- The function prop_unparent0. -/
def prop_unparent0 (st : State F) (p : Nat) (_skipme : Option Nat) : Except Fault (State F) :=
  match (st.nodes p).hp_parent with
  | none => .ok st
  | some parent =>
    if (st.nodes p).hp_flags.PROP_MULTI_NOTIFY then .error .assert
    else
      match prop_notify_child (some p) .PROP_DEL_CHILD none 0
          (st.nodes parent).hp_value_subscriptions st with
      | .error e => .error e
      | .ok st1 =>
        match tailq_remove (st1.nodes parent).hp_childs p with
        | none => .error .segv
        | some cs =>
          let st2 := st1.setChilds parent cs
          let st3 := st2.setNode p { st2.nodes p with hp_parent := none }
          .ok (if (st3.nodes parent).hp_selected = some p then st3.setSelected parent none
            else st3)

/-- The function prop_move0. A node without a parent is on no list and has no successor to
  read: the run ends with a fault. -/
def prop_move0 (st : State F) (p : Nat) (before : Option Nat) (skipme : Option Nat) :
    Except Fault (State F) :=
  if before = some p then .error .assert
  else if (before.any fun b => decide ((st.nodes p).hp_parent ≠ (st.nodes b).hp_parent)) then
    .ok st
  else
    match (st.nodes p).hp_parent with
    | none => .error .segv
    | some parent =>
      if tailq_next (st.nodes parent).hp_childs p ≠ before then
        match tailq_remove (st.nodes parent).hp_childs p with
        | none => .error .segv
        | some cs =>
          let st1 := st.setChilds parent
            (match before with
             | some b => tailq_insert_before cs b p
             | none => cs ++ [p])
          prop_notify_child2 p before .PROP_MOVE_CHILD skipme 0
            (st1.nodes parent).hp_value_subscriptions st1
      else .ok st

/-- The function prop_move. -/
def prop_move (st : State F) (p : Nat) (before : Option Nat) : Except Fault (State F) :=
  prop_move0 st p before none

/-- The function prop_set_parent0; the second component is the int returned. -/
def prop_set_parent0 (st : State F) (p parent : Nat) (before skipme : Option Nat) :
    Except Fault (State F × Int) :=
  if (st.nodes parent).hp_type = .PROP_ZOMBIE then .ok (st, -1)
  else
    match prop_make_dir st parent skipme with
    | .error e => .error e
    | .ok st1 =>
      if (st1.nodes p).hp_parent ≠ some parent then
        match prop_unparent0 st1 p skipme with
        | .error e => .error e
        | .ok st2 =>
          let st3 := st2.setNode p { st2.nodes p with hp_parent := some parent }
          let flooded :=
            if (st3.nodes parent).hp_flags.PROP_MULTI_SUB
                || (st3.nodes parent).hp_flags.PROP_MULTI_NOTIFY then
              prop_flood_flag (st3.nnodes + 1) st3 p PROP_MULTI_NOTIFY {}
            else .ok st3
          match flooded with
          | .error e => .error e
          | .ok st4 =>
            match prop_insert st4 p parent before skipme with
            | .error e => .error e
            | .ok st5 => .ok (st5, 0)
      else
        match prop_move0 st1 p before skipme with
        | .error e => .error e
        | .ok st2 => .ok (st2, 0)

/-- The function prop_set_parent_ex. -/
def prop_set_parent_ex (st : State F) (p : Nat) (parent before skipme : Option Nat) :
    Except Fault (State F × Int) :=
  match parent with
  | none => .ok (st, -1)
  | some parent => prop_set_parent0 st p parent before skipme

/-- The function prop_value_compare. The title and url of a link go to strcmp as they are:
  a NULL among them ends the run with a fault. -/
def prop_value_compare [CFloat F] (a b : prop_t F) : Except Fault Bool :=
  match a.u, b.u with
  | .PROP_RSTRING s _, .PROP_RSTRING t _ => .ok (s == t)
  | .PROP_CSTRING s, .PROP_CSTRING t => .ok (s == t)
  | .PROP_LINK (some t1) (some l1), .PROP_LINK (some t2) (some l2) =>
    .ok (t1 == t2 && l1 == l2)
  | .PROP_LINK _ _, .PROP_LINK _ _ => .error .segv
  | .PROP_FLOAT v _ _, .PROP_FLOAT w _ _ => .ok (CFloat.eq v w)
  | .PROP_INT v _ _, .PROP_INT w _ _ => .ok (v == w)
  | .PROP_VOID, .PROP_VOID => .ok true
  | .PROP_ZOMBIE, .PROP_ZOMBIE => .ok true
  | _, _ => .ok false

/-- The private queue of prop_link0: NULL or the records collected so far. -/
abbrev prop_notify_queue (F : Type) := Option (List (prop_notify_t F))

/-- The body of the first loop of relink_subscriptions for the subscription s of the
  canonical list of dst: s moves to the value list of src and is told the value of src
  unless it is skipme or the values compare equal. -/
def relink_one [CFloat F] (src : Nat) (skipme : Option Nat) (s : Nat) (st : State F)
    (pnq : prop_notify_queue F) : Except Fault (State F × prop_notify_queue F) :=
  if (st.subs s).hps_value_prop = some src then .ok (st, pnq)
  else
    let detached : Except Fault (State F × Bool) :=
      match (st.subs s).hps_value_prop with
      | some v =>
        let flushed : Except Fault (State F) :=
          if (st.nodes v).hp_type = .PROP_DIR && decide (some s ≠ skipme) then
            prop_notify_void st s
          else .ok st
        match flushed with
        | .error e => .error e
        | .ok st1 =>
          match tailq_remove (st1.nodes v).hp_value_subscriptions s with
          | none => .error .segv
          | some l =>
            let st2 := st1.setNode v { st1.nodes v with hp_value_subscriptions := l }
            match prop_value_compare (st2.nodes v) (st2.nodes src) with
            | .error e => .error e
            | .ok equal => .ok (st2, equal)
      | none => .ok (st, false)
    match detached with
    | .error e => .error e
    | .ok (st2, equal) =>
      let st3 := st2.setNode src { st2.nodes src with
        hp_value_subscriptions := s :: (st2.nodes src).hp_value_subscriptions }
      let st4 := st3.setSub s { st3.subs s with hps_value_prop := some src }
      let monitored : Except Fault (State F) :=
        if (st4.nodes src).hp_flags.PROP_MONITORED then
          prop_send_subscription_monitor_active (st4.nodes src).hp_value_subscriptions st4
        else .ok st4
      match monitored with
      | .error e => .error e
      | .ok st5 =>
        if decide (some s = skipme) || equal then .ok (st5, pnq)
        else
          let st6 := st5.setSub s { st5.subs s with hps_pending_unlink := pnq.isSome }
          match prop_build_notify_value st6 s false src pnq 0 with
          | .error e => .error e
          | .ok (st7, pnq1) =>
            if (st7.nodes src).hp_type = .PROP_DIR then
              match subscribe_add_childs s src false (st7.nodes src).hp_childs st7 with
              | .error e => .error e
              | .ok st8 => .ok (st8, pnq1)
            else .ok (st7, pnq1)

/-- The first loop of relink_subscriptions, over the canonical list of dst. -/
def relink_subs [CFloat F] (src : Nat) (skipme : Option Nat) :
    List Nat → State F → prop_notify_queue F → Except Fault (State F × prop_notify_queue F)
  | [], st, pnq => .ok (st, pnq)
  | s :: rest, st, pnq =>
    match relink_one src skipme s st pnq with
    | .error e => .error e
    | .ok (st1, pnq1) => relink_subs src skipme rest st1 pnq1

/-- The second loop of relink_subscriptions, over the children of dst from child c on:
  a named child other than no_descend is created under src when missing, made a directory
  when the child of dst is one, and relinked by the recursive call `recur`. -/
def relink_childs (recur : State F → Nat → Nat → prop_notify_queue F →
      Except Fault (State F × prop_notify_queue F))
    (src dst : Nat) (skipme no_descend : Option Nat) :
    Nat → State F → Option Nat → prop_notify_queue F →
      Except Fault (State F × prop_notify_queue F)
  | 0, _, _, _ => .error .fuel
  | _ + 1, st, none, pnq => .ok (st, pnq)
  | fuel + 1, st, some c, pnq =>
    let body : Except Fault (State F × prop_notify_queue F) :=
      match (st.nodes c).hp_name with
      | none => .ok (st, pnq)
      | some name =>
        if some c = no_descend then .ok (st, pnq)
        else
          match prop_create0 st src (some name) none false with
          | .error e => .error e
          | .ok (st1, z) =>
            let made : Except Fault (State F) :=
              if (st1.nodes c).hp_type = .PROP_DIR then prop_make_dir st1 z skipme
              else .ok st1
            match made with
            | .error e => .error e
            | .ok st2 => recur st2 z c pnq
    match body with
    | .error e => .error e
    | .ok (st1, pnq1) =>
      relink_childs recur src dst skipme no_descend fuel st1
        (tailq_next (st1.nodes dst).hp_childs c) pnq1

/-- The function relink_subscriptions. -/
def relink_subscriptions [CFloat F] :
    Nat → State F → Nat → Nat → Option Nat → prop_notify_queue F → Option Nat →
      Except Fault (State F × prop_notify_queue F)
  | 0, _, _, _, _, _, _ => .error .fuel
  | fuel + 1, st, src0, dst, skipme, pnq, no_descend =>
    match follow_originators (fuel + 1) st src0 with
    | .error e => .error e
    | .ok src =>
      match relink_subs src skipme (st.nodes dst).hp_canonical_subscriptions st pnq with
      | .error e => .error e
      | .ok (st1, pnq1) =>
        if (st1.nodes dst).hp_type = .PROP_DIR && (st1.nodes src).hp_type = .PROP_DIR then
          relink_childs (fun s z c q => relink_subscriptions fuel s z c skipme q none)
            src dst skipme no_descend (fuel + 1) st1 (st1.nodes dst).hp_childs.head? pnq1
        else .ok (st1, pnq1)

/-- The function prop_remove_from_originator; `destroy` is prop_destroy0. A node without an
  originator is on no target list: the run ends with a fault. -/
def prop_remove_from_originator (destroy : State F → Nat → Except Fault (State F × Bool))
    (st : State F) (p : Nat) : Except Fault (State F) :=
  match (st.nodes p).hp_originator with
  | none => .error .segv
  | some o =>
    match tailq_remove (st.nodes o).hp_targets p with
    | none => .error .segv
    | some l =>
      let st1 := st.setNode o { st.nodes o with hp_targets := l }
      let released : Except Fault (State F) :=
        if (st1.nodes p).hp_flags.PROP_XREFED_ORIGINATOR then
          match destroy st1 o with
          | .error e => .error e
          | .ok (st2, _) => .ok st2
        else .ok st1
      match released with
      | .error e => .error e
      | .ok st2 => .ok (st2.setNode p { st2.nodes p with hp_originator := none })

/-- The function prop_unlink0; `destroy` is prop_destroy0. -/
def prop_unlink0 [CFloat F] (destroy : State F → Nat → Except Fault (State F × Bool))
    (fuel : Nat) (st : State F) (p : Nat) (skipme : Option Nat) (pnq : prop_notify_queue F) :
    Except Fault (State F × prop_notify_queue F) :=
  match prop_remove_from_originator destroy st p with
  | .error e => .error e
  | .ok st1 => relink_subscriptions fuel st1 p p skipme pnq none

/-- The function prop_destroy_child; `destroy` is prop_destroy0. -/
def prop_destroy_child (destroy : State F → Nat → Except Fault (State F × Bool))
    (st : State F) (p c : Nat) : Except Fault (State F) :=
  match destroy st c with
  | .error e => .error e
  | .ok (st1, true) => .ok st1
  | .ok (st1, false) =>
    match prop_notify_child (some c) .PROP_DEL_CHILD none 0
        (st1.nodes p).hp_value_subscriptions st1 with
    | .error e => .error e
    | .ok st2 =>
      match tailq_remove (st2.nodes p).hp_childs c with
      | none => .error .segv
      | some cs =>
        let st3 := st2.setChilds p cs
        .ok (st3.setNode c { st3.nodes c with hp_parent := none })

/-- The loop `for(c = TAILQ_FIRST(&p->hp_childs); c != NULL; c = next)` around
  prop_destroy_child, from child c on. -/
def destroy_childs_loop (destroy : State F → Nat → Except Fault (State F × Bool))
    (p : Nat) : Nat → State F → Option Nat → Except Fault (State F)
  | 0, _, _ => .error .fuel
  | _ + 1, st, none => .ok st
  | fuel + 1, st, some c =>
    let next := tailq_next (st.nodes p).hp_childs c
    match prop_destroy_child destroy st p c with
    | .error e => .error e
    | .ok st1 => destroy_childs_loop destroy p fuel st1 next

/-- The loop of prop_destroy0 that empties the canonical list of p. -/
def destroy_canonical_subs (p : Nat) : List Nat → State F → Except Fault (State F)
  | [], st => .ok st
  | s :: rest, st =>
    let st1 := st.setNode p { st.nodes p with hp_canonical_subscriptions := rest }
    let st2 := st1.setSub s { st1.subs s with hps_canonical_prop := none }
    if (st2.subs s).hps_flags.PROP_SUB_TRACK_DESTROY
        || (st2.subs s).hps_flags.PROP_SUB_TRACK_DESTROY_EXP then
      match prop_notify_destroyed st2 s with
      | .error e => .error e
      | .ok st3 => destroy_canonical_subs p rest st3
    else destroy_canonical_subs p rest st2

/-- The loop of prop_destroy0 that empties the value list of p. -/
def destroy_value_subs (p : Nat) : List Nat → State F → Except Fault (State F)
  | [], st => .ok st
  | s :: rest, st =>
    match prop_notify_void st s with
    | .error e => .error e
    | .ok st1 =>
      let st2 := st1.setNode p { st1.nodes p with hp_value_subscriptions := rest }
      destroy_value_subs p rest (st2.setSub s { st2.subs s with hps_value_prop := none })

/-- The loop `while((c = LIST_FIRST(&p->hp_targets)) != NULL) prop_unlink0(c, ..)` of
  prop_destroy0; `unlink` is prop_unlink0 without skipme and queue. -/
def destroy_targets (unlink : State F → Nat → Except Fault (State F)) (p : Nat) :
    Nat → State F → Except Fault (State F)
  | 0, _ => .error .fuel
  | fuel + 1, st =>
    match (st.nodes p).hp_targets with
    | [] => .ok st
    | c :: _ =>
      match unlink st c with
      | .error e => .error e
      | .ok st1 => destroy_targets unlink p fuel st1

/-- The block of prop_destroy0 that takes p out of the child list of its parent. -/
def destroy_unparent (st : State F) (p : Nat) : Except Fault (State F) :=
  match (st.nodes p).hp_parent with
  | none => .ok st
  | some parent =>
    match prop_notify_child (some p) .PROP_DEL_CHILD none 0
        (st.nodes parent).hp_value_subscriptions st with
    | .error e => .error e
    | .ok st1 =>
      match tailq_remove (st1.nodes parent).hp_childs p with
      | none => .error .segv
      | some cs =>
        let st2 := st1.setChilds parent cs
        let st3 := st2.setNode p { st2.nodes p with hp_parent := none }
        .ok (if (st3.nodes parent).hp_selected = some p then st3.setSelected parent none
          else st3)

/-- The function prop_destroy0; the second component is the int returned (1 when the node
  became a zombie). The counter hp_xref is one byte wide (`assert(p->hp_xref < 255)` guards
  every increment), so `p->hp_xref--` at zero gives 255. -/
def prop_destroy0 [CFloat F] : Nat → State F → Nat → Except Fault (State F × Bool)
  | 0, _, _ => .error .fuel
  | fuel + 1, st, p =>
    if (st.nodes p).hp_type = .PROP_ZOMBIE then .ok (st, false)
    else
      let st1 := st.setNode p { st.nodes p with hp_xref := ((st.nodes p).hp_xref - 1) % 256 }
      if (st1.nodes p).hp_xref ≠ 0 then .ok (st1, false)
      else
        match destroy_childs_loop (fun s q => prop_destroy0 fuel s q) p (fuel + 1) st1
            (st1.nodes p).hp_childs.head? with
        | .error e => .error e
        | .ok st2 =>
          let st3 := st2.setU p .PROP_ZOMBIE
          match destroy_canonical_subs p (st3.nodes p).hp_canonical_subscriptions st3 with
          | .error e => .error e
          | .ok st4 =>
            match destroy_value_subs p (st4.nodes p).hp_value_subscriptions st4 with
            | .error e => .error e
            | .ok st5 =>
              match destroy_targets
                  (fun s c =>
                    match prop_unlink0 (fun s q => prop_destroy0 fuel s q) fuel s c none none with
                    | .error e => .error e
                    | .ok (s1, _) => .ok s1)
                  p (fuel + 1) st5 with
              | .error e => .error e
              | .ok st6 =>
                let unlinked : Except Fault (State F) :=
                  if (st6.nodes p).hp_originator ≠ none then
                    prop_remove_from_originator (fun s q => prop_destroy0 fuel s q) st6 p
                  else .ok st6
                match unlinked with
                | .error e => .error e
                | .ok st7 =>
                  match destroy_unparent st7 p with
                  | .error e => .error e
                  | .ok st8 =>
                    let st9 := st8.setNode p { st8.nodes p with hp_name := none }
                    match prop_ref_dec_locked st9 (some p) with
                    | .error e => .error e
                    | .ok st10 => .ok (st10, true)

/-- The function prop_destroy. -/
def prop_destroy [CFloat F] (fuel : Nat) (st : State F) (p : Option Nat) :
    Except Fault (State F) :=
  match p with
  | none => .ok st
  | some p =>
    match prop_destroy0 fuel st p with
    | .error e => .error e
    | .ok (st1, _) => .ok st1

/-- The function prop_notify_childv. -/
def prop_notify_childv (pv : List Nat) (event : prop_event_t) (skipme p2 : Option Nat) :
    List Nat → State F → Except Fault (State F)
  | [], st => .ok st
  | s :: rest, st =>
    if some s = skipme then prop_notify_childv pv event skipme p2 rest st
    else
      match prop_build_notify_childv st s pv event p2 false with
      | .error e => .error e
      | .ok st1 => prop_notify_childv pv event skipme p2 rest st1

/-- The loop of prop_set_parent_vector over the vector when the parent is NULL or a
  zombie: every node of the vector is destroyed. -/
def set_parent_vector_destroy [CFloat F] (fuel : Nat) :
    List Nat → State F → Except Fault (State F)
  | [], st => .ok st
  | p :: rest, st =>
    match prop_destroy0 fuel st p with
    | .error e => .error e
    | .ok (st1, _) => set_parent_vector_destroy fuel rest st1

/-- The loop of prop_set_parent_vector that puts the nodes of the vector into the child
  list of parent. -/
def set_parent_vector_insert (parent : Nat) (before : Option Nat) :
    List Nat → State F → Except Fault (State F)
  | [], st => .ok st
  | p :: rest, st =>
    let st1 := st.setNode p { st.nodes p with hp_parent := some parent }
    let flooded :=
      if (st1.nodes parent).hp_flags.PROP_MULTI_SUB
          || (st1.nodes parent).hp_flags.PROP_MULTI_NOTIFY then
        prop_flood_flag (st1.nnodes + 1) st1 p PROP_MULTI_NOTIFY {}
      else .ok st1
    match flooded with
    | .error e => .error e
    | .ok st2 =>
      set_parent_vector_insert parent before rest
        (st2.setChilds parent
          (match before with
           | some b => tailq_insert_before (st2.nodes parent).hp_childs b p
           | none => (st2.nodes parent).hp_childs ++ [p]))

/-- The function prop_set_parent_vector. -/
def prop_set_parent_vector [CFloat F] (fuel : Nat) (st : State F) (pv : List Nat)
    (parent before skipme : Option Nat) : Except Fault (State F) :=
  match parent.bind fun q => if (st.nodes q).hp_type = .PROP_ZOMBIE then none else some q with
  | none => set_parent_vector_destroy fuel pv st
  | some parent =>
    match prop_make_dir st parent none with
    | .error e => .error e
    | .ok st1 =>
      match set_parent_vector_insert parent before pv st1 with
      | .error e => .error e
      | .ok st2 =>
        prop_notify_childv pv
          (if before.isSome then .PROP_ADD_CHILD_VECTOR_BEFORE else .PROP_ADD_CHILD_VECTOR)
          skipme before (st2.nodes parent).hp_value_subscriptions st2

/-- The third argument of prop_link0. -/
inductive prop_link_hard where
  | PROP_LINK_NORMAL
  | PROP_LINK_XREFED
  | PROP_LINK_XREFED_IF_ORPHANED
deriving DecidableEq, Repr

/-- The loop `while(src->hp_originator != NULL)` of prop_link0 with its assertion. -/
def link_follow (dst : Nat) : Nat → State F → Nat → Except Fault Nat
  | 0, _, _ => .error .fuel
  | fuel + 1, st, src =>
    match (st.nodes src).hp_originator with
    | none => .ok src
    | some o => if src = dst then .error .assert else link_follow dst fuel st o

/-- The loop `LIST_FOREACH(t, &dst->hp_targets, ..)` of prop_link0 and prop_unlink_ex. -/
def relink_targets [CFloat F] (fuel : Nat) (dst : Nat) (skipme no_descend : Option Nat) :
    List Nat → State F → Except Fault (State F)
  | [], st => .ok st
  | t :: rest, st =>
    match relink_subscriptions fuel st dst t skipme none no_descend with
    | .error e => .error e
    | .ok (st1, _) => relink_targets fuel dst skipme no_descend rest st1

/-- The loop `while((dst = dst->hp_parent) != NULL)` of prop_link0. -/
def link_parents [CFloat F] (fuel0 : Nat) (skipme : Option Nat) :
    Nat → State F → Nat → Option Nat → Except Fault (State F)
  | 0, _, _, _ => .error .fuel
  | fuel + 1, st, dst, no_descend =>
    match (st.nodes dst).hp_parent with
    | none => .ok st
    | some d =>
      match relink_targets fuel0 d skipme no_descend (st.nodes d).hp_targets st with
      | .error e => .error e
      | .ok st1 => link_parents fuel0 skipme fuel st1 d (some d)

/-- The last loop of prop_link0: a record of the private queue is handed to the courier
  when its subscription is still marked, else freed. -/
def link_flush : List (prop_notify_t F) → State F → Except Fault (State F)
  | [], st => .ok st
  | n :: rest, st =>
    let s := n.hpn_sub
    if (st.subs s).hps_pending_unlink then
      link_flush rest
        (courier_enqueue (st.setSub s { st.subs s with hps_pending_unlink := false }) s n)
    else
      match prop_notify_free st n with
      | .error e => .error e
      | .ok st1 => link_flush rest st1

/-- The function prop_link0. -/
def prop_link0 [CFloat F] (fuel : Nat) (st : State F) (src dst : Nat) (skipme : Option Nat)
    (hard : prop_link_hard) : Except Fault (State F) :=
  if src = dst then .error .assert
  else if (st.nodes src).hp_type = .PROP_ZOMBIE || (st.nodes dst).hp_type = .PROP_ZOMBIE then
    .ok st
  else
    let unlinked : Except Fault (State F × prop_notify_queue F) :=
      if (st.nodes dst).hp_originator ≠ none then
        prop_unlink0 (fun s q => prop_destroy0 fuel s q) fuel st dst skipme (some [])
      else .ok (st, some [])
    match unlinked with
    | .error e => .error e
    | .ok (st1, pnq) =>
      let anchored : Except Fault (State F) :=
        if hard = .PROP_LINK_XREFED
            || (hard = .PROP_LINK_XREFED_IF_ORPHANED && (st1.nodes src).hp_parent = none) then
          let st2 := st1.setNode dst { st1.nodes dst with
            hp_flags := { (st1.nodes dst).hp_flags with PROP_XREFED_ORIGINATOR := true } }
          if (st2.nodes src).hp_xref < 255 then
            .ok (st2.setNode src { st2.nodes src with hp_xref := (st2.nodes src).hp_xref + 1 })
          else .error .assert
        else .ok st1
      match anchored with
      | .error e => .error e
      | .ok st3 =>
        let st4 := st3.setNode dst { st3.nodes dst with hp_originator := some src }
        let st5 := st4.setNode src { st4.nodes src with
          hp_targets := dst :: (st4.nodes src).hp_targets }
        match link_follow dst fuel st5 src with
        | .error e => .error e
        | .ok src1 =>
          match relink_subscriptions fuel st5 src1 dst skipme none none with
          | .error e => .error e
          | .ok (st6, _) =>
            match link_parents fuel skipme fuel st6 dst none with
            | .error e => .error e
            | .ok st7 => link_flush (pnq.getD []) st7

/-- The function prop_link_ex. -/
def prop_link_ex [CFloat F] (fuel : Nat) (st : State F) (src dst : Nat) (skipme : Option Nat)
    (hard : prop_link_hard) : Except Fault (State F) :=
  prop_link0 fuel st src dst skipme hard

/-- The loop `while((p = p->hp_parent) != NULL)` of prop_unlink_ex. -/
def unlink_parents [CFloat F] (fuel0 : Nat) (skipme : Option Nat) :
    Nat → State F → Nat → Except Fault (State F)
  | 0, _, _ => .error .fuel
  | fuel + 1, st, p =>
    match (st.nodes p).hp_parent with
    | none => .ok st
    | some d =>
      match relink_targets fuel0 d skipme none (st.nodes d).hp_targets st with
      | .error e => .error e
      | .ok st1 => unlink_parents fuel0 skipme fuel st1 d

/-- The function prop_unlink_ex. -/
def prop_unlink_ex [CFloat F] (fuel : Nat) (st : State F) (p : Option Nat)
    (skipme : Option Nat) : Except Fault (State F) :=
  match p with
  | none => .ok st
  | some p =>
    if (st.nodes p).hp_type = .PROP_ZOMBIE then .ok st
    else
      let unlinked : Except Fault (State F) :=
        if (st.nodes p).hp_originator ≠ none then
          match prop_unlink0 (fun s q => prop_destroy0 fuel s q) fuel st p skipme none with
          | .error e => .error e
          | .ok (st1, _) => .ok st1
        else .ok st
      match unlinked with
      | .error e => .error e
      | .ok st1 => unlink_parents fuel skipme fuel st1 p

/-! ## The node-store operations and the states they reach -/

/-- One call of a node-store operation with its arguments. -/
inductive store_call (F : Type) where
  | create_root (name : Option String) (noalloc : Bool)
  | create (parent : Option Nat) (name : Option String) (skipme : Option Nat)
      (noalloc incref : Bool)
  | setv (skipme p : Option Nat) (names : List String) (arg : seti_arg)
  | set (p : Option Nat) (name : Option String) (noalloc : Bool) (arg : seti_arg)
  | setter (c : setter_call F) (p : Nat) (skipme : Option Nat)
  | subfind (p : Nat) (name : List String) (follow_symlinks allow_indexing : Bool)
  | courier_create
  | subscribe (a : subscribe_args)
  | move (p : Nat) (before : Option Nat)
  | link (fuel : Nat) (src dst : Nat) (skipme : Option Nat) (hard : prop_link_hard)
  | unlink (fuel : Nat) (p skipme : Option Nat)
  | destroy (fuel : Nat) (p : Option Nat)
  | set_parent (p : Nat) (parent before skipme : Option Nat)
  | set_parent_vector (fuel : Nat) (pv : List Nat) (parent before skipme : Option Nat)

/-- The state after a call, or the fault that ends it. -/
def store_call.run [CFloat F] (c : store_call F) (st : State F) : Except Fault (State F) :=
  match c with
  | .create_root name noalloc => .ok (prop_create_root_ex st name noalloc).1
  | .create parent name skipme noalloc incref =>
    match prop_create_ex st parent name skipme noalloc incref with
    | .error e => .error e
    | .ok (st1, _) => .ok st1
  | .setv skipme p names arg => prop_setv_ex st skipme p names arg
  | .set p name noalloc arg => prop_set_ex st p name noalloc arg
  | .setter c p skipme => c.run st p skipme
  | .subfind p name follow_symlinks allow_indexing =>
    match prop_subfind st p name follow_symlinks allow_indexing with
    | .error e => .error e
    | .ok (st1, _) => .ok st1
  | .courier_create => .ok (prop_courier_create st).1
  | .subscribe a =>
    match prop_subscribe st a with
    | .error e => .error e
    | .ok (st1, _) => .ok st1
  | .move p before => prop_move st p before
  | .link fuel src dst skipme hard => prop_link_ex fuel st src dst skipme hard
  | .unlink fuel p skipme => prop_unlink_ex fuel st p skipme
  | .destroy fuel p => prop_destroy fuel st p
  | .set_parent p parent before skipme =>
    match prop_set_parent_ex st p parent before skipme with
    | .error e => .error e
    | .ok (st1, _) => .ok st1
  | .set_parent_vector fuel pv parent before skipme =>
    prop_set_parent_vector fuel st pv parent before skipme

/-- The calls that hang an existing node under a parent: prop_set_parent_ex and
  prop_set_parent_vector. -/
def store_call.reparents (c : store_call F) : Bool :=
  match c with
  | .set_parent _ _ _ _ => true
  | .set_parent_vector _ _ _ _ _ => true
  | _ => false

/-- The states reached from the empty store by calls that return; with `reparent = false`
  the calls of prop_set_parent_ex and prop_set_parent_vector are left out. -/
inductive Reachable [CFloat F] (reparent : Bool) : State F → Prop where
  | init : Reachable reparent State.empty
  | step {st st' : State F} (c : store_call F) (h : Reachable reparent st)
      (hc : c.reparents = true → reparent = true) (hr : c.run st = .ok st') :
      Reachable reparent st'

/-- No two children of one directory have equal non-NULL names. -/
def NamesUnique (st : State F) : Prop :=
  ∀ d, (st.nodes d).hp_childs.Pairwise fun a b =>
    ∀ n, (st.nodes a).hp_name = some n → (st.nodes b).hp_name ≠ some n

/-- Every child of every node is an allocated node. -/
def KidsAllocated (st : State F) : Prop :=
  ∀ d, ∀ c ∈ (st.nodes d).hp_childs, c < st.nnodes

/-- The invariant of the child lists: names are unique among siblings and the children are
  allocated nodes. -/
def NamesOk (st : State F) : Prop := NamesUnique st ∧ KidsAllocated st

/-- From st to st' no node is freed, no node is renamed (a name may be dropped) and every
  child list is a rearrangement of a part of what it was. -/
def Shrink (st st' : State F) : Prop :=
  st.nnodes ≤ st'.nnodes ∧
  ∀ q, ((st'.nodes q).hp_name = (st.nodes q).hp_name ∨ (st'.nodes q).hp_name = none) ∧
    (st'.nodes q).hp_childs.Subperm (st.nodes q).hp_childs

/-- Whether a run returned. -/
def returned (r : Except Fault (State F)) : Bool :=
  match r with
  | .ok _ => true
  | .error _ => false

/-- A sequence of calls, one after the other. -/
def run_calls [CFloat F] : List (store_call F) → State F → Except Fault (State F)
  | [], st => .ok st
  | c :: rest, st =>
    match c.run st with
    | .error e => .error e
    | .ok st1 => run_calls rest st1

/-- The calls `prop_create_root(NULL)`, `prop_create(root, "a")` and
  `prop_create_root("a")`: they make the root 0 with child 1 named "a", and the root 2
  named "a". -/
def ex_two_a_calls : List (store_call SmallFloat) :=
  [.create_root none false, .create (some 0) (some "a") none false false,
   .create_root (some "a") false]

/-- The store after `ex_two_a_calls` and `prop_set_parent(2, 0, NULL)`. -/
def ex_twins : State SmallFloat :=
  state_after (run_calls (ex_two_a_calls ++ [.set_parent 2 (some 0) none none]) State.empty)

/-- The store after `ex_two_a_calls` and prop_set_parent_vector with the vector [2] and the
  parent 0. -/
def ex_twins_vector : State SmallFloat :=
  state_after (run_calls (ex_two_a_calls ++ [.set_parent_vector 3 [2] (some 0) none none])
    State.empty)

/-- A run without prop_set_parent: a root 0 with the children "a" (1) and "b" (2), the int 5
  at a.x (3), a queued subscription on "b", then b is linked to a, moved in front of a,
  unlinked, and a is destroyed. -/
def ex_store_calls : List (store_call SmallFloat) :=
  [.create_root none false,
   .create (some 0) (some "a") none false false,
   .create (some 0) (some "b") none false false,
   .setv none (some 0) ["a", "x"] (.PROP_SET_INT 5),
   .courier_create,
   .subscribe
     { name := some ["self", "b"]
       callback := some 0
       courier := some 0
       proproots := [{ p := 0, name := some "self" }] },
   .link 8 1 2 none .PROP_LINK_NORMAL,
   .move 2 (some 1),
   .unlink 8 (some 2) none,
   .destroy 8 (some 1)]

/-- The store after `ex_store_calls`. -/
def ex_store : State SmallFloat := state_after (run_calls ex_store_calls State.empty)

/-! ## Anchors, selection, marks, unsubscription and dispatch -/

/-- The function prop_xref_addref. -/
def prop_xref_addref (st : State F) (p : Option Nat) : Except Fault (State F) :=
  match p with
  | none => .ok st
  | some p =>
    if (st.nodes p).hp_xref < 255 then
      .ok (st.setNode p { st.nodes p with hp_xref := (st.nodes p).hp_xref + 1 })
    else .error .assert

/-- The function prop_ref_dec, the unlocked twin of prop_ref_dec_locked. -/
def prop_ref_dec (st : State F) (p : Option Nat) : Except Fault (State F) :=
  prop_ref_dec_locked st p

/-- The function prop_select_ex. -/
def prop_select_ex (st : State F) (p : Nat) (extra skipme : Option Nat) :
    Except Fault (State F) :=
  if (st.nodes p).hp_type = .PROP_ZOMBIE then .ok st
  else
    match (st.nodes p).hp_parent with
    | none => .ok st
    | some parent =>
      if (st.nodes parent).hp_type ≠ .PROP_DIR then .error .assert
      else
        match prop_notify_child2 p extra .PROP_SELECT_CHILD skipme 0
            (st.nodes parent).hp_value_subscriptions st with
        | .error e => .error e
        | .ok st1 => .ok (st1.setSelected parent (some p))

/-- The function prop_unselect_ex. -/
def prop_unselect_ex (st : State F) (parent : Nat) (skipme : Option Nat) :
    Except Fault (State F) :=
  if (st.nodes parent).hp_type = .PROP_DIR then
    match prop_notify_child none .PROP_SELECT_CHILD skipme 0
        (st.nodes parent).hp_value_subscriptions st with
    | .error e => .error e
    | .ok st1 => .ok (st1.setSelected parent none)
  else .ok st

/-- The function prop_unparent_ex. -/
def prop_unparent_ex (st : State F) (p : Nat) (skipme : Option Nat) : Except Fault (State F) :=
  prop_unparent0 st p skipme

/-- The function prop_destroy_childs. -/
def prop_destroy_childs [CFloat F] (fuel : Nat) (st : State F) (p : Option Nat) :
    Except Fault (State F) :=
  match p with
  | none => .ok st
  | some p =>
    if (st.nodes p).hp_type = .PROP_DIR then
      destroy_childs_loop (fun s q => prop_destroy0 fuel s q) p (fuel + 1) st
        (st.nodes p).hp_childs.head?
    else .ok st

/-- The loop of prop_destroy_by_name for the name NULL, from child c on: every child without
  a name goes through prop_destroy_child. -/
def destroy_unnamed_loop (destroy : State F → Nat → Except Fault (State F × Bool))
    (p : Nat) : Nat → State F → Option Nat → Except Fault (State F)
  | 0, _, _ => .error .fuel
  | _ + 1, st, none => .ok st
  | fuel + 1, st, some c =>
    let n := tailq_next (st.nodes p).hp_childs c
    if (st.nodes c).hp_name = none then
      match prop_destroy_child destroy st p c with
      | .error e => .error e
      | .ok st1 => destroy_unnamed_loop destroy p fuel st1 n
    else destroy_unnamed_loop destroy p fuel st n

/-- The function prop_destroy_by_name. -/
def prop_destroy_by_name [CFloat F] (fuel : Nat) (st : State F) (p : Nat)
    (name : Option String) : Except Fault (State F) :=
  if (st.nodes p).hp_type = .PROP_DIR then
    match name with
    | none =>
      destroy_unnamed_loop (fun s q => prop_destroy0 fuel s q) p (fuel + 1) st
        (st.nodes p).hp_childs.head?
    | some name =>
      match find_child_by_name st (st.nodes p).hp_childs name with
      | some c => prop_destroy_child (fun s q => prop_destroy0 fuel s q) st p c
      | none => .ok st
  else .ok st

/-- The function prop_destroy_first. -/
def prop_destroy_first [CFloat F] (fuel : Nat) (st : State F) (p : Nat) :
    Except Fault (State F) :=
  if (st.nodes p).hp_type = .PROP_DIR then
    match (st.nodes p).hp_childs.head? with
    | some c => prop_destroy_child (fun s q => prop_destroy0 fuel s q) st p c
    | none => .ok st
  else .ok st

/-- The function prop_mark_childs. -/
def prop_mark_childs (st : State F) (p : Nat) : State F :=
  if (st.nodes p).hp_type = .PROP_DIR then
    (st.nodes p).hp_childs.foldl
      (fun acc c => acc.setNode c { acc.nodes c with
        hp_flags := { (acc.nodes c).hp_flags with PROP_MARKED := true } }) st
  else st

/-- The function prop_unmark. -/
def prop_unmark (st : State F) (p : Nat) : State F :=
  st.setNode p { st.nodes p with hp_flags := { (st.nodes p).hp_flags with PROP_MARKED := false } }

/-- The function prop_is_marked. -/
def prop_is_marked (st : State F) (p : Nat) : Bool :=
  (st.nodes p).hp_flags.PROP_MARKED

/-- The loop of prop_destroy_marked_childs, from child c on: a marked child goes to
  prop_destroy0. -/
def destroy_marked_loop (destroy : State F → Nat → Except Fault (State F × Bool))
    (p : Nat) : Nat → State F → Option Nat → Except Fault (State F)
  | 0, _, _ => .error .fuel
  | _ + 1, st, none => .ok st
  | fuel + 1, st, some c =>
    let next := tailq_next (st.nodes p).hp_childs c
    if (st.nodes c).hp_flags.PROP_MARKED then
      match destroy st c with
      | .error e => .error e
      | .ok (st1, _) => destroy_marked_loop destroy p fuel st1 next
    else destroy_marked_loop destroy p fuel st next

/-- The function prop_destroy_marked_childs. -/
def prop_destroy_marked_childs [CFloat F] (fuel : Nat) (st : State F) (p : Nat) :
    Except Fault (State F) :=
  if (st.nodes p).hp_type = .PROP_DIR then
    destroy_marked_loop (fun s q => prop_destroy0 fuel s q) p (fuel + 1) st
      (st.nodes p).hp_childs.head?
  else .ok st

/-- The function prop_unsubscribe0. -/
def prop_unsubscribe0 (st : State F) (s : Nat) : Except Fault (State F) :=
  let st1 := st.setSub s { st.subs s with hps_zombie := true }
  let pc := (st1.subs s).hps_courier
  let st2 := st1.setCourier pc
    { st1.couriers pc with pc_refcount := (st1.couriers pc).pc_refcount - 1 }
  let valued : Except Fault (State F) :=
    match (st2.subs s).hps_value_prop with
    | none => .ok st2
    | some v =>
      match tailq_remove (st2.nodes v).hp_value_subscriptions s with
      | none => .error .segv
      | some l =>
        let st3 := st2.setNode v { st2.nodes v with hp_value_subscriptions := l }
        .ok (st3.setSub s { st3.subs s with hps_value_prop := none })
  match valued with
  | .error e => .error e
  | .ok st3 =>
    let canonicaled : Except Fault (State F) :=
      match (st3.subs s).hps_canonical_prop with
      | none => .ok st3
      | some c =>
        match tailq_remove (st3.nodes c).hp_canonical_subscriptions s with
        | none => .error .segv
        | some l =>
          let st4 := st3.setNode c { st3.nodes c with hp_canonical_subscriptions := l }
          let recomputed : Except Fault (State F) :=
            if (st4.subs s).hps_flags.PROP_SUB_SUBSCRIPTION_MONITOR
                || (st4.subs s).hps_flags.PROP_SUB_MULTI then
              if !((st4.nodes c).hp_flags.PROP_MONITORED
                  || (st4.nodes c).hp_flags.PROP_MULTI_SUB) then .error .assert
              else
                let mon := (st4.nodes c).hp_canonical_subscriptions.any
                  fun t => (st4.subs t).hps_flags.PROP_SUB_SUBSCRIPTION_MONITOR
                let multi := (st4.nodes c).hp_canonical_subscriptions.any
                  fun t => (st4.subs t).hps_flags.PROP_SUB_MULTI
                let st5 := if mon then st4 else st4.setNode c { st4.nodes c with
                  hp_flags := { (st4.nodes c).hp_flags with PROP_MONITORED := false } }
                if multi then .ok st5 else prop_clr_multi st5 c
            else .ok st4
          match recomputed with
          | .error e => .error e
          | .ok st6 => .ok (st6.setSub s { st6.subs s with hps_canonical_prop := none })
    match canonicaled with
    | .error e => .error e
    | .ok st7 => .ok (prop_sub_ref_dec_locked st7 s)

/-- The function prop_unsubscribe. -/
def prop_unsubscribe (st : State F) (s : Option Nat) : Except Fault (State F) :=
  match s with
  | none => .ok st
  | some s => prop_unsubscribe0 st s

/-- The references a record gives back once its callback has run, as the switch of
  prop_notify_dispatch releases them. -/
def dispatch_release (st : State F) (n : prop_notify_t F) : Except Fault (State F) :=
  let hpn_prop : Option Nat :=
    match n.u with
    | .p q => q
    | _ => none
  match n.hpn_event with
  | .PROP_SET_DIR | .PROP_SET_VOID | .PROP_SET_RSTRING | .PROP_SET_CSTRING | .PROP_SET_RLINK
  | .PROP_SET_INT | .PROP_SET_FLOAT | .PROP_EXT_EVENT | .PROP_ADD_CHILD_VECTOR_BEFORE =>
    prop_ref_dec st n.hpn_prop2
  | .PROP_ADD_CHILD | .PROP_DEL_CHILD | .PROP_REQ_NEW_CHILD | .PROP_SUGGEST_FOCUS =>
    prop_ref_dec st hpn_prop
  | .PROP_ADD_CHILD_BEFORE | .PROP_MOVE_CHILD | .PROP_SELECT_CHILD | .PROP_REQ_MOVE_CHILD =>
    match prop_ref_dec st hpn_prop with
    | .error e => .error e
    | .ok st1 => prop_ref_dec st1 n.hpn_prop2
  | _ => .ok st

/-- The first loop of prop_notify_dispatch over the records of q: the record of a zombie
  subscription is freed and taken off q, any other goes through the switch on its event and
  stays on q. The result holds the records still on q, in their order. -/
def dispatch_loop : List (prop_notify_t F) → State F →
    Except Fault (State F × List (prop_notify_t F))
  | [], st => .ok (st, [])
  | n :: rest, st =>
    if (st.subs n.hpn_sub).hps_flags.PROP_SUB_INTERNAL then .error .assert
    else if (st.subs n.hpn_sub).hps_zombie then
      match prop_notify_free st n with
      | .error e => .error e
      | .ok st1 => dispatch_loop rest st1
    else
      match dispatch_release st n with
      | .error e => .error e
      | .ok st1 =>
        match dispatch_loop rest st1 with
        | .error e => .error e
        | .ok (st2, called) => .ok (st2, n :: called)

/-- The function prop_notify_dispatch; the second component lists the records handed to a
  callback or trampoline, in the order of the calls: the switch of the first loop invokes it
  in every case but `case PROP_SET_STRING: break;`. The second loop gives back the
  reference to the subscription of every record still on q. -/
def prop_notify_dispatch (q : List (prop_notify_t F)) (st : State F) :
    Except Fault (State F × List (prop_notify_t F)) :=
  match dispatch_loop q st with
  | .error e => .error e
  | .ok (st1, kept) =>
    .ok (kept.foldl (fun acc n => prop_sub_ref_dec_locked acc n.hpn_sub) st1,
      kept.filter fun n => decide (n.hpn_event ≠ .PROP_SET_STRING))

/-- The function prop_courier_poll: both queues of the courier are taken and dispatched, the
  expedited one first. -/
def prop_courier_poll (st : State F) (pc : Nat) :
    Except Fault (State F × List (prop_notify_t F)) :=
  let q_exp := (st.couriers pc).pc_queue_exp
  let q_nor := (st.couriers pc).pc_queue_nor
  let st1 := st.setCourier pc { st.couriers pc with pc_queue_exp := [], pc_queue_nor := [] }
  match prop_notify_dispatch q_exp st1 with
  | .error e => .error e
  | .ok (st2, called_exp) =>
    match prop_notify_dispatch q_nor st2 with
    | .error e => .error e
    | .ok (st3, called_nor) => .ok (st3, called_exp ++ called_nor)

/-! ## The calls of the interface and the states they reach -/

/-- One call of the interface with its arguments: a node-store operation or one of the
  operations on anchors, selection, marks and subscriptions. -/
inductive api_call (F : Type) where
  | store (c : store_call F)
  | unsubscribe (s : Option Nat)
  | select (p : Nat) (extra skipme : Option Nat)
  | unselect (parent : Nat) (skipme : Option Nat)
  | unparent (p : Nat) (skipme : Option Nat)
  | destroy_childs (fuel : Nat) (p : Option Nat)
  | destroy_by_name (fuel : Nat) (p : Nat) (name : Option String)
  | destroy_first (fuel : Nat) (p : Nat)
  | xref_addref (p : Option Nat)
  | mark_childs (p : Nat)
  | unmark (p : Nat)
  | destroy_marked_childs (fuel : Nat) (p : Nat)

/-- The state after a call of the interface, or the fault that ends it. -/
def api_call.run [CFloat F] (c : api_call F) (st : State F) : Except Fault (State F) :=
  match c with
  | .store c => c.run st
  | .unsubscribe s => prop_unsubscribe st s
  | .select p extra skipme => prop_select_ex st p extra skipme
  | .unselect parent skipme => prop_unselect_ex st parent skipme
  | .unparent p skipme => prop_unparent_ex st p skipme
  | .destroy_childs fuel p => prop_destroy_childs fuel st p
  | .destroy_by_name fuel p name => prop_destroy_by_name fuel st p name
  | .destroy_first fuel p => prop_destroy_first fuel st p
  | .xref_addref p => prop_xref_addref st p
  | .mark_childs p => .ok (prop_mark_childs st p)
  | .unmark p => .ok (prop_unmark st p)
  | .destroy_marked_childs fuel p => prop_destroy_marked_childs fuel st p

/-- A sequence of calls of the interface, one after the other. -/
def run_api [CFloat F] : List (api_call F) → State F → Except Fault (State F)
  | [], st => .ok st
  | c :: rest, st =>
    match c.run st with
    | .error e => .error e
    | .ok st1 => run_api rest st1

/-! ## Vocabulary for the destruction of a subtree -/

/-- What identifies a delivery: whether the callback ran inline, the subscription, the event
  and the node the record is about (NULL for a record about no node). -/
def Delivery.key (d : Delivery F) : Bool × Nat × prop_event_t × Option Nat :=
  (match d with
   | .direct _ => true
   | .queued _ => false,
   d.n.hpn_sub, d.n.hpn_event,
   match d.n.u with
   | .p q => q
   | _ => none)

/-- The deliveries made between the states st and st': what st' has logged beyond st. -/
def emitted (st st' : State F) : List (Delivery F) := st'.log.drop st.log.length

/-- Node b is node a but for the reference count. -/
def prop_t.same (a b : prop_t F) : Prop := b = { a with hp_refcount := b.hp_refcount }

/-- The nodes of the tree below p down to depth n, every node before its children. -/
def subtree : Nat → State F → Nat → List Nat
  | 0, _, p => [p]
  | n + 1, st, p => p :: (st.nodes p).hp_childs.flatMap (subtree n st)

/-- The keys of the PROP_DEL_CHILD deliveries about child c to the subscriptions of l. -/
def child_keys (st : State F) (l : List Nat) (c : Nat) :
    List (Bool × Nat × prop_event_t × Option Nat) :=
  l.map fun s => ((st.subs s).hps_flags.PROP_SUB_INTERNAL, s, .PROP_DEL_CHILD, some c)

/-- The keys of the PROP_DESTROYED deliveries to the subscriptions of l that track
  destruction. -/
def destroyed_keys (st : State F) (l : List Nat) :
    List (Bool × Nat × prop_event_t × Option Nat) :=
  (l.filter fun s => (st.subs s).hps_flags.PROP_SUB_TRACK_DESTROY
      || (st.subs s).hps_flags.PROP_SUB_TRACK_DESTROY_EXP).map
    fun s => ((st.subs s).hps_flags.PROP_SUB_INTERNAL, s, .PROP_DESTROYED, none)

/-- The keys of the PROP_SET_VOID deliveries to the subscriptions of l. -/
def void_keys (st : State F) (l : List Nat) :
    List (Bool × Nat × prop_event_t × Option Nat) :=
  l.map fun s => ((st.subs s).hps_flags.PROP_SUB_INTERNAL, s, .PROP_SET_VOID, none)

/-- The keys of the deliveries that the destruction of the tree below p makes before
  p leaves its parent, in order: for every child what its own destruction delivers (when
  its hp_xref is 1) and then PROP_DEL_CHILD to the value list of p, then PROP_DESTROYED to
  the canonical list of p and PROP_SET_VOID to its value list. -/
def destroy_keys : Nat → State F → Nat → List (Bool × Nat × prop_event_t × Option Nat)
  | 0, _, _ => []
  | n + 1, st, p =>
    ((st.nodes p).hp_childs.flatMap fun c =>
      (if (st.nodes c).hp_xref = 1 then destroy_keys n st c else [])
        ++ child_keys st (st.nodes p).hp_value_subscriptions c)
    ++ destroyed_keys st (st.nodes p).hp_canonical_subscriptions
    ++ void_keys st (st.nodes p).hp_value_subscriptions

/-- The keys of the PROP_DEL_CHILD deliveries about p to the value list of its parent. -/
def parent_keys (st : State F) (p : Nat) : List (Bool × Nat × prop_event_t × Option Nat) :=
  match (st.nodes p).hp_parent with
  | some parent => child_keys st (st.nodes parent).hp_value_subscriptions p
  | none => []

/-- The node p is on the child list of the parent it names, and that parent is not a node
  of the tree below p (down to depth n). -/
def parent_holds (n : Nat) (st : State F) (p : Nat) : Prop :=
  ∀ q, (st.nodes p).hp_parent = some q →
    p ∈ (st.nodes q).hp_childs ∧ q ∉ subtree n st p

/-- From st to st' no subscription changed its flags, and the deliveries made have the keys
  `keys`, in this order. -/
def Emits (st st' : State F) (keys : List (Bool × Nat × prop_event_t × Option Nat)) : Prop :=
  (∀ t, (st'.subs t).hps_flags = (st.subs t).hps_flags) ∧
  ∃ lg, st'.log = st.log ++ lg ∧ lg.map Delivery.key = keys

/-! ## Consistency of the link and subscription lists -/

/-- Every node with an originator is on the target list of that originator exactly once,
  and every node on a target list has the owner of the list as its originator. -/
def TargetsOk (st : State F) : Prop :=
  (∀ p o, (st.nodes p).hp_originator = some o → (st.nodes o).hp_targets.count p = 1) ∧
  (∀ o, ∀ t ∈ (st.nodes o).hp_targets, (st.nodes t).hp_originator = some o)

/-- Every subscription with a value node is on the value list of that node exactly once,
  and a subscription on the value list of a node has that node as its value node: it is on
  no other value list, and on none when hps_value_prop is NULL. -/
def ValueSubsOk (st : State F) : Prop :=
  (∀ s v, (st.subs s).hps_value_prop = some v →
    (st.nodes v).hp_value_subscriptions.count s = 1) ∧
  (∀ v, ∀ s ∈ (st.nodes v).hp_value_subscriptions, (st.subs s).hps_value_prop = some v)

/-- Every subscription with a canonical node is on the canonical list of that node exactly
  once, and a subscription on the canonical list of a node has that node as its canonical
  node: it is on no other canonical list, and on none when hps_canonical_prop is NULL. -/
def CanonicalSubsOk (st : State F) : Prop :=
  (∀ s c, (st.subs s).hps_canonical_prop = some c →
    (st.nodes c).hp_canonical_subscriptions.count s = 1) ∧
  (∀ c, ∀ s ∈ (st.nodes c).hp_canonical_subscriptions, (st.subs s).hps_canonical_prop = some c)

/-! ## Example stores -/

/-- The calls that build `ex_tree`: the root 0, its child "x" (1) with the children "y" (2)
  and "z" (3), a courier, the queued subscription 0 on x and the queued subscription 1 with
  PROP_SUB_TRACK_DESTROY on y. -/
def ex_tree_calls : List (api_call SmallFloat) :=
  [.store (.create_root none false),
   .store (.create (some 0) (some "x") none false false),
   .store (.create (some 1) (some "y") none false false),
   .store (.create (some 1) (some "z") none false false),
   .store .courier_create,
   .store (.subscribe
     { name := some ["self", "x"]
       callback := some 0
       courier := some 0
       proproots := [{ p := 0, name := some "self" }] }),
   .store (.subscribe
     { flags := { PROP_SUB_TRACK_DESTROY := true }
       name := some ["self", "x", "y"]
       callback := some 1
       courier := some 0
       proproots := [{ p := 0, name := some "self" }] })]

/-- The store after `ex_tree_calls`. -/
def ex_tree : State SmallFloat := state_after (run_api ex_tree_calls State.empty)

/-- The store `ex_tree` after `prop_destroy(y)`. -/
def ex_tree_gone : State SmallFloat := state_after (prop_destroy 1 ex_tree (some 2))

/-- The calls that build `ex_anchored`: the root 0 with the child "a" (1), and the hard link
  `prop_link0(root, a, .., PROP_LINK_XREFED)` that makes a read from its parent. -/
def ex_anchored_calls : List (api_call SmallFloat) :=
  [.store (.create_root none false),
   .store (.create (some 0) (some "a") none false false),
   .store (.link 4 0 1 none .PROP_LINK_XREFED)]

/-- The store after `ex_anchored_calls`: the root has hp_xref 2. -/
def ex_anchored : State SmallFloat := state_after (run_api ex_anchored_calls State.empty)

/-- The store `ex_anchored` after one `prop_destroy(root)`: the root has hp_xref 1. -/
def ex_anchor : State SmallFloat := state_after (prop_destroy 4 ex_anchored (some 0))

/-- The calls that build `ex_loop`: the root 0 with the children "a" (1) and "b" (2), the
  root 3, a courier, the link that makes a read from the root 0, a queued subscription on
  node 3 and the link that makes node 3 read from a: the subscription moves to the value
  list of node 0. -/
def ex_loop_calls : List (api_call SmallFloat) :=
  [.store (.create_root none false),
   .store (.create (some 0) (some "a") none false false),
   .store (.create (some 0) (some "b") none false false),
   .store (.create_root none false),
   .store .courier_create,
   .store (.link 6 0 1 none .PROP_LINK_NORMAL),
   .store (.subscribe
     { callback := some 0, courier := some 0, proproots := [{ p := 3, name := none }] }),
   .store (.link 6 1 3 none .PROP_LINK_NORMAL)]

/-- The store after `ex_loop_calls`. -/
def ex_loop : State SmallFloat := state_after (run_api ex_loop_calls State.empty)

/-- The calls that build `ex_marked`: the root 0 with the children 1, 2 and 3,
  `prop_xref_addref(2)`, `prop_mark_childs(root)` and `prop_unmark(3)`. -/
def ex_marked_calls : List (api_call SmallFloat) :=
  [.store (.create_root none false),
   .store (.create (some 0) (some "a") none false false),
   .store (.create (some 0) (some "b") none false false),
   .store (.create (some 0) (some "c") none false false),
   .xref_addref (some 2),
   .mark_childs 0,
   .unmark 3]

/-- The store after `ex_marked_calls`. -/
def ex_marked : State SmallFloat := state_after (run_api ex_marked_calls State.empty)

/-- The calls `prop_create_root`, `prop_create(root, "a")`, `prop_xref_addref(a)`,
  `prop_select(a)` and `prop_destroy_childs(root)`. -/
def ex_selected_calls : List (api_call SmallFloat) :=
  [.store (.create_root none false),
   .store (.create (some 0) (some "a") none false false),
   .xref_addref (some 1),
   .select 1 none none,
   .destroy_childs 4 (some 0)]

/-- The store after `ex_selected_calls`. -/
def ex_selected : State SmallFloat := state_after (run_api ex_selected_calls State.empty)

/-- A subscription with PROP_SUB_MULTI on the node at `path` below the root 0. -/
def ex_multi_sub (path : List String) : api_call SmallFloat :=
  .store (.subscribe
    { flags := { PROP_SUB_MULTI := true }
      name := some ("self" :: path)
      callback := some 0
      courier := some 0
      proproots := [{ p := 0, name := some "self" }] })

/-- The calls that build `ex_nested_multi`: the root 0, its child "a" (1), the child "b" (2)
  of a, a courier, the multi subscription 0 on a, the multi subscription 1 on the root, and
  `prop_unsubscribe` of subscription 1. -/
def ex_nested_multi_calls : List (api_call SmallFloat) :=
  [.store (.create_root none false),
   .store (.create (some 0) (some "a") none false false),
   .store (.create (some 1) (some "b") none false false),
   .store .courier_create,
   ex_multi_sub ["a"],
   ex_multi_sub [],
   .unsubscribe (some 1)]

/-- The store after `ex_nested_multi_calls`. -/
def ex_nested_multi : State SmallFloat :=
  state_after (run_api ex_nested_multi_calls State.empty)

/-- The calls that build `ex_multi_orphan`: the root 0 with the child "a" (1), a courier, a
  multi subscription on the root, `prop_xref_addref(a)` and `prop_destroy_childs(root)`. -/
def ex_multi_orphan_calls : List (api_call SmallFloat) :=
  [.store (.create_root none false),
   .store (.create (some 0) (some "a") none false false),
   .store .courier_create,
   ex_multi_sub [],
   .xref_addref (some 1),
   .destroy_childs 4 (some 0)]

/-- The store after `ex_multi_orphan_calls`. -/
def ex_multi_orphan : State SmallFloat :=
  state_after (run_api ex_multi_orphan_calls State.empty)

/-- The subscription and event of every record a poll handed to a callback, in the order of
  the calls; NULL when the poll ended with a fault. -/
def called_events (r : Except Fault (State F × List (prop_notify_t F))) :
    Option (List (Nat × prop_event_t)) :=
  match r with
  | .ok (_, l) => some (l.map fun n => (n.hpn_sub, n.hpn_event))
  | .error _ => none

/-- Whether the node arguments of a call of the node store are allocated nodes; for
  prop_subscribe these are the roots of its tag list and the global root, from which a path
  may start. -/
def store_call.valid (c : store_call F) (st : State F) : Bool :=
  match c with
  | .create parent _ _ _ _ => parent.all fun p => decide (p < st.nnodes)
  | .subscribe a =>
    (a.proproots.all fun pr => decide (pr.p < st.nnodes)) &&
      st.prop_global.all fun g => decide (g < st.nnodes)
  | .link _ src dst _ _ => decide (src < st.nnodes) && decide (dst < st.nnodes)
  | .unlink _ p _ => p.all fun p => decide (p < st.nnodes)
  | .destroy _ p => p.all fun p => decide (p < st.nnodes)
  | _ => true

/-- Whether the pointers a call of the interface takes are allocated. -/
def api_call.valid (c : api_call F) (st : State F) : Bool :=
  match c with
  | .store c => c.valid st
  | .unsubscribe s => s.all fun s => decide (s < st.nsubs)
  | _ => true

/-- The calls that build trees, link them and subscribe: prop_create_root_ex,
  prop_create_ex, prop_courier_create, prop_subscribe, prop_unsubscribe, prop_link_ex,
  prop_unlink_ex and prop_destroy. -/
def api_call.wiring (c : api_call F) : Bool :=
  match c with
  | .store (.create_root _ _) => true
  | .store (.create _ _ _ _ _) => true
  | .store .courier_create => true
  | .store (.subscribe _) => true
  | .store (.link _ _ _ _ _) => true
  | .store (.unlink _ _ _) => true
  | .store (.destroy _ _) => true
  | .unsubscribe _ => true
  | _ => false

/-- The states reached from the empty store by calls of `api_call.wiring` that take
  allocated pointers and return. -/
inductive Wired [CFloat F] : State F → Prop where
  | init : Wired State.empty
  | step {st st' : State F} (c : api_call F) (h : Wired st) (hw : c.wiring = true)
      (hv : c.valid st = true) (hr : c.run st = .ok st') : Wired st'

/-- Whether a sequence of calls is one of `Wired`: every call is of `api_call.wiring`, takes
  allocated pointers and returns. -/
def wired_run [CFloat F] : List (api_call F) → State F → Bool
  | [], _ => true
  | c :: rest, st =>
    c.wiring && c.valid st &&
      match c.run st with
      | .ok st1 => wired_run rest st1
      | .error _ => false

/-- Every child has a larger index than its parent. -/
def KidsAbove (st : State F) : Prop :=
  ∀ d, ∀ c ∈ (st.nodes d).hp_childs, d < c

/-- The fields of node a that the invariant of the links and subscription lists reads are
  those of node b, but that a zombie a may be any b that is a zombie and hp_parent may be
  cleared. -/
def prop_t.tame (a b : prop_t F) : Prop :=
  b.hp_originator = a.hp_originator ∧ b.hp_targets = a.hp_targets ∧
  b.hp_value_subscriptions = a.hp_value_subscriptions ∧
  b.hp_canonical_subscriptions = a.hp_canonical_subscriptions ∧
  b.hp_flags.PROP_MONITORED = a.hp_flags.PROP_MONITORED ∧
  b.hp_flags.PROP_MULTI_SUB = a.hp_flags.PROP_MULTI_SUB ∧
  (a.hp_type = .PROP_ZOMBIE → b.hp_type = .PROP_ZOMBIE) ∧
  (b.hp_parent = a.hp_parent ∨ b.hp_parent = none)

/-- From st to st' nothing is allocated and no link, no subscription list, no referent of a
  subscription and none of the flags PROP_MONITORED and PROP_MULTI_SUB changes; a zombie
  stays one and hp_parent is kept or cleared. -/
structure Tame (st st' : State F) : Prop where
  nnodes : st'.nnodes = st.nnodes
  nsubs : st'.nsubs = st.nsubs
  originator : ∀ q, (st'.nodes q).hp_originator = (st.nodes q).hp_originator
  targets : ∀ q, (st'.nodes q).hp_targets = (st.nodes q).hp_targets
  value : ∀ q, (st'.nodes q).hp_value_subscriptions = (st.nodes q).hp_value_subscriptions
  canonical : ∀ q,
    (st'.nodes q).hp_canonical_subscriptions = (st.nodes q).hp_canonical_subscriptions
  monitored : ∀ q,
    (st'.nodes q).hp_flags.PROP_MONITORED = (st.nodes q).hp_flags.PROP_MONITORED
  multi_sub : ∀ q,
    (st'.nodes q).hp_flags.PROP_MULTI_SUB = (st.nodes q).hp_flags.PROP_MULTI_SUB
  zombie : ∀ q, (st.nodes q).hp_type = .PROP_ZOMBIE → (st'.nodes q).hp_type = .PROP_ZOMBIE
  parent : ∀ q, (st'.nodes q).hp_parent = (st.nodes q).hp_parent ∨
    (st'.nodes q).hp_parent = none
  value_prop : ∀ s, (st'.subs s).hps_value_prop = (st.subs s).hps_value_prop
  canonical_prop : ∀ s, (st'.subs s).hps_canonical_prop = (st.subs s).hps_canonical_prop
  flags : ∀ s, (st'.subs s).hps_flags = (st.subs s).hps_flags

/-- From st to st' nodes may be allocated, no subscription is, and the nodes of st keep
  their originators. -/
structure Grown (st st' : State F) : Prop where
  nnodes : st.nnodes ≤ st'.nnodes
  nsubs : st'.nsubs = st.nsubs
  originator : ∀ q, q < st.nnodes →
    (st'.nodes q).hp_originator = (st.nodes q).hp_originator

/-- The invariant of the links and the subscription lists. The nodes of `E` are those that
  prop_remove_from_originator has taken off the target list of their originator and whose
  hp_originator it has not cleared yet: prop_destroy0 runs in between. Outside `E` a node
  with an originator is on the target list of that originator exactly once, and the nodes on
  a target list are nodes outside `E` with the owner of the list as originator. A
  subscription with a value (canonical) node is on the value (canonical) list of that node
  exactly once and a subscription on such a list of a node refers to that node. What the
  lists and pointers hold is allocated, children have larger indices than their parents, and
  on an allocated node that is no zombie PROP_MONITORED (PROP_MULTI_SUB) is set exactly when
  a subscription with PROP_SUB_SUBSCRIPTION_MONITOR (PROP_SUB_MULTI) is on its canonical
  list. -/
structure StoreOk (E : Nat → Prop) (st : State F) : Prop where
  names : NamesOk st
  above : KidsAbove st
  parents : ∀ p d, (st.nodes p).hp_parent = some d → d < st.nnodes
  link_count : ∀ p o, (st.nodes p).hp_originator = some o → ¬ E p →
    (st.nodes o).hp_targets.count p = 1
  link_back : ∀ o, ∀ t ∈ (st.nodes o).hp_targets,
    (st.nodes t).hp_originator = some o ∧ ¬ E t ∧ o < st.nnodes ∧ t < st.nnodes
  link_alloc : ∀ p o, (st.nodes p).hp_originator = some o → o < st.nnodes
  value_count : ∀ s v, (st.subs s).hps_value_prop = some v →
    (st.nodes v).hp_value_subscriptions.count s = 1
  value_back : ∀ v, ∀ s ∈ (st.nodes v).hp_value_subscriptions,
    (st.subs s).hps_value_prop = some v ∧ s < st.nsubs ∧ v < st.nnodes
  canonical_count : ∀ s c, (st.subs s).hps_canonical_prop = some c →
    (st.nodes c).hp_canonical_subscriptions.count s = 1
  canonical_back : ∀ c, ∀ s ∈ (st.nodes c).hp_canonical_subscriptions,
    (st.subs s).hps_canonical_prop = some c ∧ s < st.nsubs ∧ c < st.nnodes
  monitored : ∀ p, p < st.nnodes → (st.nodes p).hp_type ≠ .PROP_ZOMBIE →
    ((st.nodes p).hp_flags.PROP_MONITORED = true ↔
      ∃ s ∈ (st.nodes p).hp_canonical_subscriptions,
        (st.subs s).hps_flags.PROP_SUB_SUBSCRIPTION_MONITOR = true)
  multi_sub : ∀ p, p < st.nnodes → (st.nodes p).hp_type ≠ .PROP_ZOMBIE →
    ((st.nodes p).hp_flags.PROP_MULTI_SUB = true ↔
      ∃ s ∈ (st.nodes p).hp_canonical_subscriptions,
        (st.subs s).hps_flags.PROP_SUB_MULTI = true)

/-- The store st with the subscription s at the head of the canonical list of c, and on c
  the flags PROP_MONITORED and PROP_MULTI_SUB set when s asks for them: what prop_subscribe
  does to the canonical node but for the flags PROP_MULTI_NOTIFY below it. -/
def attach_canonical (st : State F) (s : Nat) (c : Option Nat) : State F :=
  match c with
  | none => st
  | some c => st.setNode c { st.nodes c with
      hp_canonical_subscriptions := s :: (st.nodes c).hp_canonical_subscriptions
      hp_flags := { (st.nodes c).hp_flags with
        PROP_MONITORED := (st.nodes c).hp_flags.PROP_MONITORED
          || (st.subs s).hps_flags.PROP_SUB_SUBSCRIPTION_MONITOR
        PROP_MULTI_SUB := (st.nodes c).hp_flags.PROP_MULTI_SUB
          || (st.subs s).hps_flags.PROP_SUB_MULTI } }

/-- The store st with the subscription s at the head of the value list of v. -/
def attach_value (st : State F) (s : Nat) (v : Option Nat) : State F :=
  match v with
  | none => st
  | some v => st.setNode v { st.nodes v with
      hp_value_subscriptions := s :: (st.nodes v).hp_value_subscriptions }

/-- The store st with the subscription s off the canonical list of its canonical node c, and
  on c the flags PROP_MONITORED and PROP_MULTI_SUB cleared when s had one of
  PROP_SUB_SUBSCRIPTION_MONITOR and PROP_SUB_MULTI and no subscription left on the list has
  the one in question: what prop_unsubscribe0 does to the canonical node but for the flags
  PROP_MULTI_NOTIFY below it. -/
def detach_canonical (st : State F) (s : Nat) : State F :=
  match (st.subs s).hps_canonical_prop with
  | none => st
  | some c =>
    let l := (st.nodes c).hp_canonical_subscriptions.erase s
    let recompute := (st.subs s).hps_flags.PROP_SUB_SUBSCRIPTION_MONITOR
      || (st.subs s).hps_flags.PROP_SUB_MULTI
    st.setNode c { st.nodes c with
      hp_canonical_subscriptions := l
      hp_flags := { (st.nodes c).hp_flags with
        PROP_MONITORED := (st.nodes c).hp_flags.PROP_MONITORED
          && !(recompute && !(l.any fun t => (st.subs t).hps_flags.PROP_SUB_SUBSCRIPTION_MONITOR))
        PROP_MULTI_SUB := (st.nodes c).hp_flags.PROP_MULTI_SUB
          && !(recompute && !(l.any fun t => (st.subs t).hps_flags.PROP_SUB_MULTI)) } }

/-- The store st with the subscription s off the value list of its value node. -/
def detach_value (st : State F) (s : Nat) : State F :=
  match (st.subs s).hps_value_prop with
  | none => st
  | some v => st.setNode v { st.nodes v with
      hp_value_subscriptions := (st.nodes v).hp_value_subscriptions.erase s }

/-- The store st with the subscription s off the lists of its referents, without referents
  and marked as unsubscribed, and the flags of its canonical node recomputed: what
  prop_unsubscribe0 does but for the reference counts and the flags PROP_MULTI_NOTIFY. -/
def unsubscribed (st : State F) (s : Nat) : State F :=
  (detach_canonical (detach_value st s) s).setSub s
    { st.subs s with hps_zombie := true, hps_value_prop := none, hps_canonical_prop := none }

/-- The flag PROP_MONITORED of node p follows its canonical list: it is set exactly when a
  subscription with PROP_SUB_SUBSCRIPTION_MONITOR is on the list. -/
def MonitoredOk (st : State F) (p : Nat) : Prop :=
  (st.nodes p).hp_flags.PROP_MONITORED = true ↔
    ∃ s ∈ (st.nodes p).hp_canonical_subscriptions,
      (st.subs s).hps_flags.PROP_SUB_SUBSCRIPTION_MONITOR = true

/-- The calls that build `ex_monitor`: the root 0, a courier, the subscriptions 0 and 1 with
  PROP_SUB_SUBSCRIPTION_MONITOR on the root and the plain subscription 2 on the root. -/
def ex_monitor_calls : List (api_call SmallFloat) :=
  [.store (.create_root none false),
   .store .courier_create,
   .store (.subscribe
     { flags := { PROP_SUB_SUBSCRIPTION_MONITOR := true }
       callback := some 0, courier := some 0, proproots := [{ p := 0, name := none }] }),
   .store (.subscribe
     { flags := { PROP_SUB_SUBSCRIPTION_MONITOR := true }
       callback := some 1, courier := some 0, proproots := [{ p := 0, name := none }] }),
   .store (.subscribe
     { callback := some 2, courier := some 0, proproots := [{ p := 0, name := none }] })]

/-- The store after `ex_monitor_calls`. -/
def ex_monitor : State SmallFloat := state_after (run_api ex_monitor_calls State.empty)

/-! ## Records in the blocks of the pool

A record lies in a block that get_notify takes from notify_pool. The pool is not part of
prop_core.c: what a block holds when pool_get hands it out is a parameter. Of the builders
only prop_build_notify_child leaves a field unassigned that the dispatcher reads:
hpn_prop2, which prop_notify_dispatch and prop_notify_free release for a record of
PROP_SELECT_CHILD. -/

/-- The function prop_build_notify_child with the block of the record made explicit:
  `old` is what the field hpn_prop2 of the block holds when pool_get hands it out. The
  function assigns hpn_flags, hpn_prop and hpn_event (get_notify assigns hpn_sub) and not
  hpn_prop2. -/
def prop_build_notify_child_in (old : Option Nat) (st : State F) (s : Nat) (p : Option Nat)
    (event : prop_event_t) (direct : Bool) (flags : Int) : Except Fault (State F) :=
  if direct || (st.subs s).hps_flags.PROP_SUB_INTERNAL then
    .ok (call_direct st { hpn_sub := s, hpn_event := event, u := .p p, hpn_flags := flags })
  else
    match get_notify st s with
    | .error e => .error e
    | .ok st1 =>
      let st2 := match p with
        | some q => prop_ref_inc st1 q
        | none => st1
      .ok (courier_enqueue st2 s
        { hpn_sub := s, hpn_event := event, u := .p p, hpn_prop2 := old, hpn_flags := flags })

/-- The function prop_notify_child over the blocks of `prop_build_notify_child_in`. -/
def prop_notify_child_in (old : Option Nat) (child : Option Nat) (event : prop_event_t)
    (skipme : Option Nat) (flags : Int) : List Nat → State F → Except Fault (State F)
  | [], st => .ok st
  | s :: rest, st =>
    if some s = skipme then prop_notify_child_in old child event skipme flags rest st
    else
      match prop_build_notify_child_in old st s child event false flags with
      | .error e => .error e
      | .ok st1 => prop_notify_child_in old child event skipme flags rest st1

/-- The function prop_unselect_ex over the blocks of `prop_build_notify_child_in`. -/
def prop_unselect_ex_in (old : Option Nat) (st : State F) (parent : Nat)
    (skipme : Option Nat) : Except Fault (State F) :=
  if (st.nodes parent).hp_type = .PROP_DIR then
    match prop_notify_child_in old none .PROP_SELECT_CHILD skipme 0
        (st.nodes parent).hp_value_subscriptions st with
    | .error e => .error e
    | .ok st1 => .ok (st1.setSelected parent none)
  else .ok st

/-- The fault a run ended in, if any. -/
def fault_of {α : Type} (r : Except Fault α) : Option Fault :=
  match r with
  | .ok _ => none
  | .error e => some e

/-- The records a poll handed to a callback, in the order of the calls; NULL when the
  poll ended with a fault. -/
def called_records (r : Except Fault (State F × List (prop_notify_t F))) :
    Option (List (prop_notify_t F)) :=
  match r with
  | .ok (_, l) => some l
  | .error _ => none

/-- The calls before the first poll of `ex_unselect_polled`: the root 0 with the child
  "a" (1), a courier, the queued subscription 0 on the root with PROP_SUB_NO_INITIAL_UPDATE
  and the queued subscription 1 on a, whose first report is a record of PROP_SET_VOID with
  hpn_prop2 = a. -/
def ex_unselect_calls : List (api_call SmallFloat) :=
  [.store (.create_root none false),
   .store (.create (some 0) (some "a") none false false),
   .store .courier_create,
   .store (.subscribe
     { flags := { PROP_SUB_NO_INITIAL_UPDATE := true }
       callback := some 0, courier := some 0, proproots := [{ p := 0, name := none }] }),
   .store (.subscribe
     { callback := some 1, courier := some 0, proproots := [{ p := 1, name := none }] })]

/-- The store after `ex_unselect_calls`. -/
def ex_unselect : State SmallFloat := state_after (run_api ex_unselect_calls State.empty)

/-- The store after `prop_courier_poll` of courier 0 in `ex_unselect`: the record of
  PROP_SET_VOID is dispatched and its block goes back to the pool. -/
def ex_unselect_polled : State SmallFloat :=
  state_after ((prop_courier_poll ex_unselect 0).map Prod.fst)

/-! ## Draining a courier: prop_courier_wait, prop_courier_wait_and_dispatch, prop_courier -/

/-- The function prop_courier_wait once the courier holds a record (the wait on the
  condition is over): the expedited queue of the courier is moved to the first queue of the
  caller, the normal queue to the second, and both queues of the courier are emptied.
  The result is the store and the two queues of the caller, in the order of the
  parameters `exp` and `nor`. -/
def prop_courier_wait (st : State F) (pc : Nat) :
    State F × List (prop_notify_t F) × List (prop_notify_t F) :=
  let exp := (st.couriers pc).pc_queue_exp
  let nor := (st.couriers pc).pc_queue_nor
  (st.setCourier pc { st.couriers pc with pc_queue_exp := [], pc_queue_nor := [] }, exp, nor)

/-- The function prop_courier_wait_and_dispatch: it calls `prop_courier_wait(pc, &nor, &exp, 0)`,
  so its local `nor` is the queue passed for the parameter `exp` and its local `exp` the one
  passed for `nor`; then it dispatches its `exp` and after it its `nor`. -/
def prop_courier_wait_and_dispatch (st : State F) (pc : Nat) :
    Except Fault (State F × List (prop_notify_t F)) :=
  match prop_courier_wait st pc with
  | (st1, nor, exp) =>
    match prop_notify_dispatch exp st1 with
    | .error e => .error e
    | .ok (st2, called_first) =>
      match prop_notify_dispatch nor st2 with
      | .error e => .error e
      | .ok (st3, called_second) => .ok (st3, called_first ++ called_second)

/-- One wakeup of the thread prop_courier with a record queued: the whole expedited queue
  and the first record of the normal queue are taken, and dispatched in this order. -/
def prop_courier_wakeup (st : State F) (pc : Nat) :
    Except Fault (State F × List (prop_notify_t F)) :=
  let q_exp := (st.couriers pc).pc_queue_exp
  let q_nor := (st.couriers pc).pc_queue_nor.take 1
  let st1 := st.setCourier pc { st.couriers pc with
    pc_queue_exp := [], pc_queue_nor := (st.couriers pc).pc_queue_nor.drop 1 }
  match prop_notify_dispatch q_exp st1 with
  | .error e => .error e
  | .ok (st2, called_exp) =>
    match prop_notify_dispatch q_nor st2 with
    | .error e => .error e
    | .ok (st3, called_nor) => .ok (st3, called_exp ++ called_nor)

/-- The calls of `ex_two_queues`: a root, a courier, the subscription 0 on the root without
  PROP_SUB_EXPEDITE and the subscription 1 on the root with it, both without a first
  report, and prop_set_int(root, 5). -/
def ex_two_queues_calls : List (api_call SmallFloat) :=
  [.store (.create_root none false),
   .store .courier_create,
   .store (.subscribe
     { flags := { PROP_SUB_NO_INITIAL_UPDATE := true }
       callback := some 0, courier := some 0, proproots := [{ p := 0, name := none }] }),
   .store (.subscribe
     { flags := { PROP_SUB_NO_INITIAL_UPDATE := true, PROP_SUB_EXPEDITE := true }
       callback := some 1, courier := some 0, proproots := [{ p := 0, name := none }] }),
   .store (.setter (.set_int 5) 0 none)]

/-- The store after `ex_two_queues_calls`: the normal queue of courier 0 holds the record of
  subscription 0 and the expedited queue the record of subscription 1. -/
def ex_two_queues : State SmallFloat := state_after (run_api ex_two_queues_calls State.empty)

/-! ## A multi subscription on a root after another one came and went -/

/-- The calls of `ex_multi_root`: the root a (0) with the child "b" (1), a second root r (2),
  a courier, the subscription 0 with PROP_SUB_MULTI on a; then a is made a child of r, the
  subscription 1 with PROP_SUB_MULTI is put on r and removed again, and a is taken out of
  r, so that a is a root as it was when subscription 0 was made. -/
def ex_multi_root_calls : List (api_call SmallFloat) :=
  [.store (.create_root none false),
   .store (.create (some 0) (some "b") none false false),
   .store (.create_root none false),
   .store .courier_create,
   .store (.subscribe
     { flags := { PROP_SUB_MULTI := true, PROP_SUB_NO_INITIAL_UPDATE := true }
       callback := some 0, courier := some 0, proproots := [{ p := 0, name := none }] }),
   .store (.set_parent 0 (some 2) none none),
   .store (.subscribe
     { flags := { PROP_SUB_MULTI := true, PROP_SUB_NO_INITIAL_UPDATE := true }
       callback := some 1, courier := some 0, proproots := [{ p := 2, name := none }] }),
   .unsubscribe (some 1),
   .unparent 0 none]

/-- The store after `ex_multi_root_calls`. -/
def ex_multi_root : State SmallFloat := state_after (run_api ex_multi_root_calls State.empty)

/-- The subscription, event and referent of the records in both queues of a courier,
  the expedited queue first. -/
def queued_events (st : State F) (pc : Nat) : List (Nat × prop_event_t × Option Nat) :=
  ((st.couriers pc).pc_queue_exp ++ (st.couriers pc).pc_queue_nor).map
    fun n => (n.hpn_sub, n.hpn_event, n.hpn_prop2)

/-! ## The references of the records of a queue -/

/-- The nodes whose reference a record gives back when it is dispatched or freed: the
  cases of the switch of prop_notify_dispatch and of prop_notify_free that call
  prop_ref_dec on hpn_prop, on hpn_prop2 or on both. -/
def record_refs (n : prop_notify_t F) : List Nat :=
  let hpn_prop : Option Nat :=
    match n.u with
    | .p q => q
    | _ => none
  match n.hpn_event with
  | .PROP_SET_DIR | .PROP_SET_VOID | .PROP_SET_RSTRING | .PROP_SET_CSTRING | .PROP_SET_RLINK
  | .PROP_SET_INT | .PROP_SET_FLOAT | .PROP_EXT_EVENT | .PROP_ADD_CHILD_VECTOR_BEFORE =>
    n.hpn_prop2.toList
  | .PROP_ADD_CHILD | .PROP_DEL_CHILD | .PROP_REQ_NEW_CHILD | .PROP_SUGGEST_FOCUS =>
    hpn_prop.toList
  | .PROP_ADD_CHILD_BEFORE | .PROP_MOVE_CHILD | .PROP_SELECT_CHILD | .PROP_REQ_MOVE_CHILD =>
    hpn_prop.toList ++ n.hpn_prop2.toList
  | _ => []

/-- The references of all records of a queue, in queue order. -/
def queue_refs : List (prop_notify_t F) → List Nat
  | [] => []
  | n :: rest => record_refs n ++ queue_refs rest

/-- Every node holds more references than the records of the queue give back, so that no
  prop_ref_dec of a dispatch takes the last reference of a node. -/
def RefsCovered (st : State F) (q : List (prop_notify_t F)) : Prop :=
  ∀ p ∈ queue_refs q, ((queue_refs q).count p : Int) < (st.nodes p).hp_refcount

/-- A root with the subscription 0 with PROP_SUB_INTERNAL on it. -/
def ex_internal : State SmallFloat :=
  state_after (run_api
    [.store (.create_root none false),
     .store (.subscribe
       { flags := { PROP_SUB_INTERNAL := true, PROP_SUB_NO_INITIAL_UPDATE := true }
         callback := some 0, proproots := [{ p := 0, name := none }] })] State.empty)

/-! ## The queue a record goes to -/

/-- The records among the deliveries `L` that courier_enqueue puts on the expedited
  (`exp` = true) or the normal queue of courier c: the queued ones whose subscription has
  the courier c and whose PROP_SUB_EXPEDITE is `exp`, in the order of `L`. -/
def routed (st : State F) (c : Nat) (exp : Bool) (L : List (Delivery F)) :
    List (prop_notify_t F) :=
  L.filterMap fun d =>
    match d with
    | .queued n =>
      if (st.subs n.hpn_sub).hps_courier = c
          ∧ (st.subs n.hpn_sub).hps_flags.PROP_SUB_EXPEDITE = exp then some n
      else none
    | .direct _ => none

/-- The deliveries `L` were made between the stores: the log grew by `L` and both queues of
  every courier grew at the tail by the records of `L` that courier_enqueue puts there. -/
def Routed (st st' : State F) (L : List (Delivery F)) : Prop :=
  st'.log = st.log ++ L ∧
  ∀ c, (st'.couriers c).pc_queue_exp = (st.couriers c).pc_queue_exp ++ routed st c true L ∧
    (st'.couriers c).pc_queue_nor = (st.couriers c).pc_queue_nor ++ routed st c false L

/-- The calls of `ex_direct`: a root, a courier and on the root the subscription 0 with
  PROP_SUB_DIRECT_UPDATE, the subscription 1 with PROP_SUB_INTERNAL, the subscription 2
  with PROP_SUB_EXPEDITE and the subscription 3 without any of them. -/
def ex_direct_calls : List (api_call SmallFloat) :=
  [.store (.create_root none false),
   .store .courier_create,
   .store (.subscribe
     { flags := { PROP_SUB_DIRECT_UPDATE := true }
       callback := some 0, courier := some 0, proproots := [{ p := 0, name := none }] }),
   .store (.subscribe
     { flags := { PROP_SUB_INTERNAL := true }
       callback := some 1, proproots := [{ p := 0, name := none }] }),
   .store (.subscribe
     { flags := { PROP_SUB_EXPEDITE := true, PROP_SUB_NO_INITIAL_UPDATE := true }
       callback := some 2, courier := some 0, proproots := [{ p := 0, name := none }] }),
   .store (.subscribe
     { flags := { PROP_SUB_NO_INITIAL_UPDATE := true }
       callback := some 3, courier := some 0, proproots := [{ p := 0, name := none }] })]

/-- The store after `ex_direct_calls`. -/
def ex_direct : State SmallFloat := state_after (run_api ex_direct_calls State.empty)

/-! ## A soft link on a node that held a hard link before -/

/-- The calls of `ex_relinked`: the roots a (0), b (1) and d (2);
  `prop_link_ex(a, d, NULL, PROP_LINK_XREFED)` and `prop_unlink(d)`; then
  `prop_link(b, d)`, a soft link, and `prop_unlink(d)`. -/
def ex_relinked_calls : List (api_call SmallFloat) :=
  [.store (.create_root none false),
   .store (.create_root none false),
   .store (.create_root none false),
   .store (.link 4 0 2 none .PROP_LINK_XREFED),
   .store (.unlink 4 (some 2) none),
   .store (.link 4 1 2 none .PROP_LINK_NORMAL),
   .store (.unlink 4 (some 2) none)]

/-- The store after the first `k` calls of `ex_relinked_calls`. -/
def ex_relinked (k : Nat) : State SmallFloat :=
  state_after (run_api (ex_relinked_calls.take k) State.empty)

/-- The store after the calls of `ex_relinked_calls` without the hard link and its unlink:
  three roots, the soft link `prop_link(b, d)` and `prop_unlink(d)`. -/
def ex_soft_only : State SmallFloat :=
  state_after (run_api (ex_relinked_calls.take 3 ++ ex_relinked_calls.drop 5) State.empty)

/-! ## Vocabulary for links between scalar nodes -/

/-- Whether an event reports a value: the events of prop_build_notify_value and
  prop_notify_void. -/
def prop_event_t.is_value : prop_event_t → Bool
  | .PROP_SET_VOID | .PROP_SET_RSTRING | .PROP_SET_CSTRING | .PROP_SET_RLINK | .PROP_SET_INT
  | .PROP_SET_FLOAT | .PROP_SET_DIR => true
  | _ => false

/-- The records among the deliveries `L` that were built for a queue. -/
def queued_of (L : List (Delivery F)) : List (prop_notify_t F) :=
  L.filterMap fun d =>
    match d with
    | .queued n => some n
    | .direct _ => none

/-- The deliveries among `L` that were made inline. -/
def direct_of (L : List (Delivery F)) : List (Delivery F) :=
  L.filter fun d =>
    match d with
    | .queued _ => false
    | .direct _ => true

/-- The value deliveries that subscription s got between the stores st and st'. -/
def value_deliveries (st st' : State F) (s : Nat) : List (Delivery F) :=
  (emitted st st').filter fun d => decide (d.n.hpn_sub = s) && d.n.hpn_event.is_value

/-- The store st with the subscription s moved from the value list of v to the head of the
  value list of r, and hps_pending_unlink of s set to `pending`: what the first loop of
  relink_subscriptions does to the lists for one subscription. -/
def relinked (st : State F) (s v r : Nat) (pending : Bool) : State F :=
  let st2 := st.setNode v { st.nodes v with
    hp_value_subscriptions := (st.nodes v).hp_value_subscriptions.erase s }
  let st3 := st2.setNode r { st2.nodes r with
    hp_value_subscriptions := s :: (st2.nodes r).hp_value_subscriptions }
  st3.setSub s { st3.subs s with hps_value_prop := some r, hps_pending_unlink := pending }

/-- From st to st' no node is allocated and no node changes its value, its parent, its
  originator, its targets or its flags PROP_MULTI_NOTIFY and PROP_CLIPPED_VALUE, and no
  subscription changes its flags or its courier. -/
structure Kept (st st' : State F) : Prop where
  nnodes : st'.nnodes = st.nnodes
  u : ∀ q, (st'.nodes q).u = (st.nodes q).u
  parent : ∀ q, (st'.nodes q).hp_parent = (st.nodes q).hp_parent
  originator : ∀ q, (st'.nodes q).hp_originator = (st.nodes q).hp_originator
  targets : ∀ q, (st'.nodes q).hp_targets = (st.nodes q).hp_targets
  multi : ∀ q,
    (st'.nodes q).hp_flags.PROP_MULTI_NOTIFY = (st.nodes q).hp_flags.PROP_MULTI_NOTIFY
  clipped : ∀ q,
    (st'.nodes q).hp_flags.PROP_CLIPPED_VALUE = (st.nodes q).hp_flags.PROP_CLIPPED_VALUE
  flags : ∀ s, (st'.subs s).hps_flags = (st.subs s).hps_flags
  courier : ∀ s, (st'.subs s).hps_courier = (st.subs s).hps_courier

/-- The store st with dst made a target of src: hp_originator of dst is src and dst is at
  the head of hp_targets of src, as prop_link0 writes them. -/
def pointed (st : State F) (src dst : Nat) : State F :=
  let st4 := st.setNode dst { st.nodes dst with hp_originator := some src }
  st4.setNode src { st4.nodes src with hp_targets := dst :: (st4.nodes src).hp_targets }

/-- The stores differ in flags of nodes other than PROP_MULTI_NOTIFY and PROP_CLIPPED_VALUE
  and in hp_xref at most. -/
structure Near (st st' : State F) : Prop where
  kept : Kept st st'
  subs : st'.subs = st.subs
  log : st'.log = st.log
  value : ∀ q, (st'.nodes q).hp_value_subscriptions = (st.nodes q).hp_value_subscriptions
  canonical : ∀ q,
    (st'.nodes q).hp_canonical_subscriptions = (st.nodes q).hp_canonical_subscriptions
  refs : ∀ q, (st'.nodes q).hp_refcount = (st.nodes q).hp_refcount

/-- Whether a node holds the int v. -/
def prop_value.holds_int (u : prop_value F) (v : Int) : Bool :=
  match u with
  | .PROP_INT w _ _ => w == v
  | _ => false
/-! ## Examples of links between scalar nodes -/

/-- The calls that build `ex_scalars`: the roots 0 and 1, a courier, and on the root 1 the
  queued subscription 0. -/
def ex_scalar_calls : List (api_call SmallFloat) :=
  [.store (.create_root none false),
   .store (.create_root none false),
   .store .courier_create,
   .store (.subscribe
     { callback := some 0, courier := some 0, proproots := [{ p := 1, name := none }] })]

/-- The store after `ex_scalar_calls`, then `prop_set_int(0, 5)` and `prop_set_int(1, 9)`. -/
def ex_scalars : State SmallFloat :=
  state_after (prop_set_int_ex
    (state_after (prop_set_int_ex (state_after (run_api ex_scalar_calls State.empty))
      (some 0) none 5)) (some 1) none 9)

/-- The calls that build `ex_linked_src`: the roots 0, 1 and 2 with the ints 3, 5 and 9, a
  courier, the link of the node 1 to the origin 0, and on the root 2 the queued
  subscription 0. -/
def ex_linked_src_calls : List (api_call SmallFloat) :=
  [.store (.create_root none false),
   .store (.create_root none false),
   .store (.create_root none false),
   .store .courier_create,
   .store (.setter (.set_int 3) 0 none),
   .store (.setter (.set_int 5) 1 none),
   .store (.setter (.set_int 9) 2 none),
   .store (.link 4 0 1 none .PROP_LINK_NORMAL),
   .store (.subscribe
     { callback := some 0, courier := some 0, proproots := [{ p := 2, name := none }] })]

/-- The store after `ex_linked_src_calls`: the source 1 is itself linked to 0. -/
def ex_linked_src : State SmallFloat := state_after (run_api ex_linked_src_calls State.empty)
/-! ## A second link on a linked node -/

/-- The store st with dst taken off the targets of its originator o and hp_originator of dst
  cleared, as prop_remove_from_originator writes them for a link that holds no reference
  on o. -/
def unpointed (st : State F) (o dst : Nat) : State F :=
  let st1 := st.setNode o { st.nodes o with hp_targets := (st.nodes o).hp_targets.erase dst }
  st1.setNode dst { st1.nodes dst with hp_originator := none }
/-- The calls that build `ex_relink`: the roots 0, 1 and 2, a courier, and on the root 2 the
  queued subscription 0. -/
def ex_relink_calls : List (api_call SmallFloat) :=
  [.store (.create_root none false),
   .store (.create_root none false),
   .store (.create_root none false),
   .store .courier_create,
   .store (.subscribe
     { callback := some 0, courier := some 0, proproots := [{ p := 2, name := none }] })]

/-- The store after `ex_relink_calls`, then `prop_set_int(0, 5)`, `prop_set_int(1, 5)` and
  `prop_set_int(2, 9)`. -/
def ex_relink_set : State SmallFloat :=
  state_after (prop_set_int_ex
    (state_after (prop_set_int_ex
      (state_after (prop_set_int_ex (state_after (run_api ex_relink_calls State.empty))
        (some 0) none 5)) (some 1) none 5)) (some 2) none 9)

/-- The store `ex_relink_set` after `prop_link(0, 2)`: the node 2 with the own value 9 is
  linked to the node 0 with the value 5, the node 1 holds 5 as well, and the subscription
  0 on the node 2 reads the node 0. -/
def ex_relink : State SmallFloat :=
  state_after (prop_link_ex 4 ex_relink_set 0 2 none .PROP_LINK_NORMAL)
/-! ## The order of the records of one subscription -/

/-- Whether a record with the event ev for a subscription with the flags f goes to the
  expedited queue of its courier: courier_enqueue looks at PROP_SUB_EXPEDITE, and
  prop_notify_destroyed, the only place that queues PROP_DESTROYED, at
  PROP_SUB_TRACK_DESTROY_EXP as well. -/
def SubFlags.expedited (f : SubFlags) (ev : prop_event_t) : Bool :=
  f.PROP_SUB_EXPEDITE || (decide (ev = .PROP_DESTROYED) && f.PROP_SUB_TRACK_DESTROY_EXP)

/-- The records of subscription s in a queue, in queue order. -/
def records_of (s : Nat) (q : List (prop_notify_t F)) : List (prop_notify_t F) :=
  q.filter fun n => decide (n.hpn_sub = s)

/-- The records for subscription s with the flags f among the deliveries `L` that went to
  the expedited (`exp` = true) or to the normal queue, in the order in which they were
  queued. -/
def enqueued_of (f : SubFlags) (s : Nat) (exp : Bool) (L : List (Delivery F)) :
    List (prop_notify_t F) :=
  (records_of s (queued_of L)).filter fun n => f.expedited n.hpn_event == exp

/-- The events that courier_enqueue is called with: any but PROP_DESTROYED, which
  prop_notify_destroyed queues itself, and PROP_SET_STRING, which no record carries. -/
def prop_event_t.enqueued (ev : prop_event_t) : Bool :=
  decide (ev ≠ .PROP_DESTROYED) && decide (ev ≠ .PROP_SET_STRING)

/-- From st to st' no subscription and no courier is freed, and a subscription s of st whose
  courier is one of st keeps its flags and its courier, while the records for s in the two
  queues of that courier grow at the tail by the records for s that were queued in between,
  none of them with the event PROP_SET_STRING, each in the queue that `SubFlags.expedited`
  names. -/
def SubQueued (s : Nat) (st st' : State F) : Prop :=
  st.nsubs ≤ st'.nsubs ∧ st.ncouriers ≤ st'.ncouriers ∧
  (s < st.nsubs → (st.subs s).hps_courier < st.ncouriers →
    (st'.subs s).hps_flags = (st.subs s).hps_flags ∧
    (st'.subs s).hps_courier = (st.subs s).hps_courier ∧
    ∃ L, st'.log = st.log ++ L ∧
      (∀ n ∈ records_of s (queued_of L), n.hpn_event ≠ .PROP_SET_STRING) ∧
      records_of s (st'.couriers (st.subs s).hps_courier).pc_queue_exp
        = records_of s (st.couriers (st.subs s).hps_courier).pc_queue_exp
          ++ enqueued_of (st.subs s).hps_flags s true L ∧
      records_of s (st'.couriers (st.subs s).hps_courier).pc_queue_nor
        = records_of s (st.couriers (st.subs s).hps_courier).pc_queue_nor
          ++ enqueued_of (st.subs s).hps_flags s false L)

/-- Every record of the private queue of prop_link0 carries an event that courier_enqueue
  is called with. -/
def PnqOk (pnq : Option (List (prop_notify_t F))) : Prop :=
  ∀ n ∈ pnq.getD [], n.hpn_event.enqueued = true

/-- Every node holds the references the list R takes from it, and the last reference is
  taken from a zombie only: no prop_ref_dec_locked of them runs into its assertion. -/
def Held (st : State F) (R : List Nat) : Prop :=
  ∀ p ∈ R, ((R.count p : Nat) : Int) < (st.nodes p).hp_refcount ∨
    ((st.nodes p).hp_type = .PROP_ZOMBIE ∧ ((R.count p : Nat) : Int) ≤ (st.nodes p).hp_refcount)

/-- The records of the queue q give back only references their nodes hold, and the last
  reference only of a node that is a zombie. -/
def RefsHeld (st : State F) (q : List (prop_notify_t F)) : Prop := Held st (queue_refs q)

/-- The calls of `ex_track`: a root, a courier and the subscription 0 on the root with
  PROP_SUB_TRACK_DESTROY_EXP, without PROP_SUB_EXPEDITE and without a first report. -/
def ex_track_calls : List (api_call SmallFloat) :=
  [.store (.create_root none false),
   .store .courier_create,
   .store (.subscribe
     { flags := { PROP_SUB_NO_INITIAL_UPDATE := true, PROP_SUB_TRACK_DESTROY_EXP := true }
       callback := some 0, courier := some 0, proproots := [{ p := 0, name := none }] })]

/-- The store after `ex_track_calls`; both queues of courier 0 are empty. -/
def ex_track : State SmallFloat := state_after (run_api ex_track_calls State.empty)

/-- Two mutations of the root of `ex_track`: prop_set_int(root, 5), then
  prop_destroy(root). -/
def ex_track_mutations : List (api_call SmallFloat) :=
  [.store (.setter (.set_int 5) 0 none), .store (.destroy 4 (some 0))]

/-- The store `ex_track` after `ex_track_mutations`. -/
def ex_track_mutated : State SmallFloat := state_after (run_api ex_track_mutations ex_track)

/-- The store `ex_track` after prop_set_int(root, 5) and prop_unsubscribe of subscription
  0. -/
def ex_track_unsub : State SmallFloat :=
  state_after (run_api [.store (.setter (.set_int 5) 0 none), .unsubscribe (some 0)] ex_track)

/-- The calls of `ex_internal_monitor`: a root and the subscription 0 on it with
  PROP_SUB_INTERNAL and PROP_SUB_SUBSCRIPTION_MONITOR, without a first report. -/
def ex_internal_monitor_calls : List (api_call SmallFloat) :=
  [.store (.create_root none false),
   .store (.subscribe
     { flags := { PROP_SUB_INTERNAL := true, PROP_SUB_SUBSCRIPTION_MONITOR := true,
                  PROP_SUB_NO_INITIAL_UPDATE := true }
       callback := some 0, proproots := [{ p := 0, name := none }] })]

/-- The store after `ex_internal_monitor_calls`: the root has PROP_MONITORED and the
  subscription 0 is on its value list. -/
def ex_internal_monitor : State SmallFloat :=
  state_after (run_api ex_internal_monitor_calls State.empty)

/-- The calls of `ex_unselect_calls` with the child "a" created by the caller with a
  reference of its own (incref): node 1 holds two references. -/
def ex_unselect_held_calls : List (api_call SmallFloat) :=
  [.store (.create_root none false),
   .store (.create (some 0) (some "a") none false true),
   .store .courier_create,
   .store (.subscribe
     { flags := { PROP_SUB_NO_INITIAL_UPDATE := true }
       callback := some 0, courier := some 0, proproots := [{ p := 0, name := none }] }),
   .store (.subscribe
     { callback := some 1, courier := some 0, proproots := [{ p := 1, name := none }] })]

/-- The store after `ex_unselect_held_calls` and one prop_courier_poll of courier 0: the
  queues are empty, the block of the dispatched record of PROP_SET_VOID (hpn_prop2 = a) is
  back in the pool. -/
def ex_unselect_held : State SmallFloat :=
  state_after ((prop_courier_poll
    (state_after (run_api ex_unselect_held_calls State.empty)) 0).map Prod.fst)

/-- The store `ex_unselect_held` after prop_unselect_ex(root, NULL) built its record in the
  block that still holds a in hpn_prop2. -/
def ex_unselect_held_built : State SmallFloat :=
  state_after (prop_unselect_ex_in (some 1) ex_unselect_held 0 none)

/-- The store `ex_unselect_held_built` after the next prop_courier_poll of courier 0. -/
def ex_unselect_held_consumed : State SmallFloat :=
  state_after ((prop_courier_poll ex_unselect_held_built 0).map Prod.fst)

/-! ## Vocabulary for the handle prop_subscribe returns -/

/-- The test of PROP_SUB_SINGLETON in prop_subscribe finds a subscription with the callback
  and the opaque pointer of the call on the value list of the resolved value node. -/
def subscribe_args.collides (a : subscribe_args) (st : State F) (value : Option Nat) : Bool :=
  a.flags.PROP_SUB_SINGLETON &&
    match value with
    | none => false
    | some v => (st.nodes v).hp_value_subscriptions.any fun t =>
        (st.subs t).hps_callback = a.callback && (st.subs t).hps_userptr = a.userptr

/-- The canonical node of the call is NULL or a zombie. -/
def subscribe_args.orphan (st : State F) (canonical : Option Nat) : Bool :=
  match canonical with
  | none => true
  | some c => decide ((st.nodes c).hp_type = .PROP_ZOMBIE)

/-- The subscription is direct, tracks destruction and has no live canonical node:
  prop_subscribe invokes its callback with PROP_DESTROYED and sets the handle to NULL. -/
def subscribe_args.destroyed_now (a : subscribe_args) (st : State F)
    (canonical : Option Nat) : Bool :=
  (a.flags.PROP_SUB_DIRECT_UPDATE || a.flags.PROP_SUB_INTERNAL) &&
    (a.flags.PROP_SUB_TRACK_DESTROY || a.flags.PROP_SUB_TRACK_DESTROY_EXP) &&
    subscribe_args.orphan st canonical

/-- A root and a courier. -/
def ex_root_courier : State SmallFloat :=
  state_after (run_api [.store (.create_root none false), .store .courier_create] State.empty)

/-- A direct subscription that tracks destruction, with PROP_TAG_ROOT NULL: no node. -/
def ex_orphan_args : subscribe_args :=
  { flags := { PROP_SUB_DIRECT_UPDATE := true, PROP_SUB_TRACK_DESTROY := true }
    callback := some 0, courier := some 0, proproots := [] }

/-- The handle a call of prop_subscribe returned; nothing when the call ended in a fault. -/
def handle_of (r : Except Fault (State F × Option Nat)) : Option (Option Nat) :=
  match r with
  | .ok (_, h) => some h
  | .error _ => none

/-- The store `ex_root_courier` after the call of `ex_orphan_args`. -/
def ex_orphan : State SmallFloat :=
  state_after ((prop_subscribe ex_root_courier ex_orphan_args).map Prod.fst)

/-- The store `ex_root_courier` with the subscription 0 of callback 7 on the root, without a
  first report. -/
def ex_single : State SmallFloat :=
  state_after ((prop_subscribe ex_root_courier
    { flags := { PROP_SUB_NO_INITIAL_UPDATE := true }
      callback := some 7, courier := some 0, proproots := [{ p := 0, name := none }] }).map
    Prod.fst)

/-- A second subscription of callback 7 on the root, with PROP_SUB_SINGLETON. -/
def ex_single_args : subscribe_args :=
  { flags := { PROP_SUB_SINGLETON := true }
    callback := some 7, courier := some 0, proproots := [{ p := 0, name := none }] }

/-- A queued subscription that tracks destruction, to the path x.y below the root 0 given
  as the named root x. -/
def ex_path_args : subscribe_args :=
  { flags := { PROP_SUB_TRACK_DESTROY := true }
    name := some ["x", "y"], callback := some 0, courier := some 0
    proproots := [{ p := 0, name := some "x" }] }

/-- The store `ex_root_courier` after the call of `ex_path_args`. -/
def ex_path : State SmallFloat :=
  state_after ((prop_subscribe ex_root_courier ex_path_args).map Prod.fst)

/-- A queued subscription that tracks destruction, to the path z.y: no root is named z. -/
def ex_lost_args : subscribe_args :=
  { flags := { PROP_SUB_TRACK_DESTROY := true }
    name := some ["z", "y"], callback := some 0, courier := some 0
    proproots := [{ p := 0, name := some "x" }] }

/-- From st to st' the log of deliveries grows by deliveries other than PROP_DESTROYED. -/
def NoDestroyed (st st' : State F) : Prop :=
  ∃ L, st'.log = st.log ++ L ∧ ∀ d ∈ L, d.n.hpn_event ≠ .PROP_DESTROYED

/-- The record of PROP_DESTROYED for subscription s. -/
def destroyed_record (s : Nat) : prop_notify_t F := { hpn_sub := s, hpn_event := .PROP_DESTROYED }

/-- The deliveries of PROP_DESTROYED to subscription s among `L`. -/
def destroyed_of (s : Nat) (L : List (Delivery F)) : List (Delivery F) :=
  L.filter fun d => decide (d.n.hpn_sub = s) && decide (d.n.hpn_event = .PROP_DESTROYED)

/-- The store `ex_root_courier` after the call of `ex_lost_args`. -/
def ex_lost : State SmallFloat :=
  state_after ((prop_subscribe ex_root_courier ex_lost_args).map Prod.fst)

/-! ## Vocabulary for the first report of a subscription -/

/-- The store in which prop_subscribe has taken the subscription st1.nsubs from the pool,
  filled it in and attached it to its courier, before it is put on a list. -/
def subscribe_alloc (st1 : State F) (a : subscribe_args) (canonical value : Option Nat) :
    State F :=
  let s := st1.nsubs
  let pc := a.courier.getD st1.global_courier
  let sb : prop_sub_t :=
    { hps_zombie := false
      hps_flags := a.flags
      hps_trampoline := a.trampoline
      hps_callback := a.callback
      hps_userptr := a.userptr
      hps_refcount := 1
      hps_user_int := a.user_int
      hps_courier := pc
      hps_canonical_prop := canonical
      hps_value_prop := value }
  let st2 : State F := { st1 with
    subs := fun q => if q = s then sb else st1.subs q, nsubs := s + 1 }
  st2.setCourier pc { st2.couriers pc with pc_refcount := (st2.couriers pc).pc_refcount + 1 }

/-- The part of prop_subscribe after the subscription is allocated: the lists, the first
  report and the report of PROP_DESTROYED. -/
def subscribe_tail (st3 : State F) (s : Nat) (canonical value : Option Nat)
    (direct notify_now : Bool) : Except Fault (State F × Option Nat) :=
  match subscribe_canonical st3 s canonical with
  | .error e => .error e
  | .ok (st4, activate_on_canonical) =>
    match subscribe_value st4 s value direct notify_now with
    | .error e => .error e
    | .ok st5 =>
      let activated : Except Fault (State F) :=
        match canonical with
        | some c =>
          if activate_on_canonical then
            prop_send_subscription_monitor_active (st5.nodes c).hp_value_subscriptions st5
          else .ok st5
        | none => .ok st5
      match activated with
      | .error e => .error e
      | .ok st6 =>
        if canonical = none && ((st6.subs s).hps_flags.PROP_SUB_TRACK_DESTROY
            || (st6.subs s).hps_flags.PROP_SUB_TRACK_DESTROY_EXP) then
          if direct then
            .ok (call_direct st6 { hpn_sub := s, hpn_event := .PROP_DESTROYED }, none)
          else
            match prop_notify_destroyed st6 s with
            | .error e => .error e
            | .ok st7 => .ok (st7, some s)
        else .ok (st6, some s)

/-- The record of PROP_SET_DIR about the directory d for subscription s. -/
def dir_record (s d : Nat) : prop_notify_t F :=
  { hpn_sub := s, hpn_event := .PROP_SET_DIR, hpn_prop2 := some d }

/-- The record of PROP_ADD_CHILD about the child k of the directory d for subscription s:
  the flag PROP_ADD_SELECTED is set when k is the selected child of d. -/
def add_child_record (st : State F) (s d k : Nat) : prop_notify_t F :=
  { hpn_sub := s, hpn_event := .PROP_ADD_CHILD, u := .p (some k),
    hpn_flags := gen_add_flags st k d }

/-- The deliveries to subscription s among `L`. -/
def deliveries_to (s : Nat) (L : List (Delivery F)) : List (Delivery F) :=
  L.filter fun d => decide (d.n.hpn_sub = s)

/-- The calls of `ex_bcd`: the root 0 with the children b (1), c (2) and d (3), a courier,
  and prop_select(c). -/
def ex_bcd_calls : List (api_call SmallFloat) :=
  [.store (.create_root none false),
   .store (.create (some 0) (some "b") none false false),
   .store (.create (some 0) (some "c") none false false),
   .store (.create (some 0) (some "d") none false false),
   .store .courier_create,
   .select 2 none none]

/-- The store after `ex_bcd_calls`. -/
def ex_bcd : State SmallFloat := state_after (run_api ex_bcd_calls State.empty)

/-- A queued subscription to the root of `ex_bcd` with a first report. -/
def ex_bcd_args : subscribe_args :=
  { callback := some 0, courier := some 0, proproots := [{ p := 0, name := none }] }

/-- The store `ex_bcd` after the call of `ex_bcd_args`. -/
def ex_bcd_subscribed : State SmallFloat :=
  state_after ((prop_subscribe ex_bcd ex_bcd_args).map Prod.fst)

/-- The delivery of PROP_MOVE_CHILD about the child p moved in front of `before` to the
  subscription s: inline for a subscription with PROP_SUB_INTERNAL, else a queued record. -/
def move_record (st : State F) (s p : Nat) (before : Option Nat) : Delivery F :=
  if (st.subs s).hps_flags.PROP_SUB_INTERNAL then
    .direct { hpn_sub := s, hpn_event := .PROP_MOVE_CHILD, u := .p (some p), hpn_prop2 := before }
  else
    .queued { hpn_sub := s, hpn_event := .PROP_MOVE_CHILD, u := .p (some p), hpn_prop2 := before }

/-! ## The lock operations of prop_notify_dispatch -/

/-- A lock operation of prop_notify_dispatch and prop_ref_dec: `s->hps_lockmgr(s->hps_lock, 1)`
  and `s->hps_lockmgr(s->hps_lock, 0)` on the observer lock of a subscription, and
  hts_mutex_lock and hts_mutex_unlock on prop_mutex, the tree lock. -/
inductive lock_op where
  | observer_lock (lock : Nat)
  | observer_unlock (lock : Nat)
  | tree_lock
  | tree_unlock
  deriving DecidableEq, Repr

/-- The lock operations of prop_ref_dec on p: none while another reference is left, else
  prop_mutex is taken around pool_put. -/
def ref_dec_locks (st : State F) (p : Option Nat) : List lock_op :=
  match p with
  | none => []
  | some q => if (st.nodes q).hp_refcount > 1 then [] else [.tree_lock, .tree_unlock]

/-- The lock operations of the calls of prop_ref_dec in the switch of prop_notify_dispatch,
  call by call as in `dispatch_release`. -/
def dispatch_release_locks (st : State F) (n : prop_notify_t F) : List lock_op :=
  let hpn_prop : Option Nat :=
    match n.u with
    | .p q => q
    | _ => none
  match n.hpn_event with
  | .PROP_SET_DIR | .PROP_SET_VOID | .PROP_SET_RSTRING | .PROP_SET_CSTRING | .PROP_SET_RLINK
  | .PROP_SET_INT | .PROP_SET_FLOAT | .PROP_EXT_EVENT | .PROP_ADD_CHILD_VECTOR_BEFORE =>
    ref_dec_locks st n.hpn_prop2
  | .PROP_ADD_CHILD | .PROP_DEL_CHILD | .PROP_REQ_NEW_CHILD | .PROP_SUGGEST_FOCUS =>
    ref_dec_locks st hpn_prop
  | .PROP_ADD_CHILD_BEFORE | .PROP_MOVE_CHILD | .PROP_SELECT_CHILD | .PROP_REQ_MOVE_CHILD =>
    ref_dec_locks st hpn_prop ++
      match prop_ref_dec st hpn_prop with
      | .error _ => []
      | .ok st1 => ref_dec_locks st1 n.hpn_prop2
  | _ => []

/-- The lock operations of the first loop of prop_notify_dispatch, in program order;
  `hps_lock` gives the observer lock of a subscription, NULL for none. For each record the
  observer lock is taken first; for a zombie subscription prop_mutex is then taken around
  prop_notify_free, for any other the callback runs and the references are given back
  through prop_ref_dec; the observer lock is released last. -/
def dispatch_loop_locks (hps_lock : Nat → Option Nat) :
    List (prop_notify_t F) → State F → Except Fault (List lock_op)
  | [], _ => .ok []
  | n :: rest, st =>
    if (st.subs n.hpn_sub).hps_flags.PROP_SUB_INTERNAL then .error .assert
    else
      let enter : List lock_op :=
        match hps_lock n.hpn_sub with
        | some l => [.observer_lock l]
        | none => []
      let leave : List lock_op :=
        match hps_lock n.hpn_sub with
        | some l => [.observer_unlock l]
        | none => []
      if (st.subs n.hpn_sub).hps_zombie then
        match prop_notify_free st n with
        | .error e => .error e
        | .ok st1 =>
          match dispatch_loop_locks hps_lock rest st1 with
          | .error e => .error e
          | .ok T => .ok (enter ++ [.tree_lock, .tree_unlock] ++ leave ++ T)
      else
        match dispatch_release st n with
        | .error e => .error e
        | .ok st1 =>
          match dispatch_loop_locks hps_lock rest st1 with
          | .error e => .error e
          | .ok T => .ok (enter ++ dispatch_release_locks st n ++ leave ++ T)

/-- The lock operations of prop_notify_dispatch: those of the first loop, then prop_mutex
  around the second loop. -/
def prop_notify_dispatch_locks (hps_lock : Nat → Option Nat) (q : List (prop_notify_t F))
    (st : State F) : Except Fault (List lock_op) :=
  match dispatch_loop_locks hps_lock q st with
  | .error e => .error e
  | .ok T => .ok (T ++ [.tree_lock, .tree_unlock])

/-- The locks held after the operations of a list, from `held`: the observer lock held, if
  any, and whether prop_mutex is held; none when an operation breaks the discipline. An
  observer lock is taken only while no lock at all is held and released only while
  prop_mutex is not held; prop_mutex is taken only when free and, under `strict`, only
  while no observer lock is held. -/
def locks_run (strict : Bool) : Option Nat × Bool → List lock_op → Option (Option Nat × Bool)
  | held, [] => some held
  | (none, false), .observer_lock l :: rest => locks_run strict (some l, false) rest
  | (some k, false), .observer_unlock l :: rest =>
    if l = k then locks_run strict (none, false) rest else none
  | (none, false), .tree_lock :: rest => locks_run strict (none, true) rest
  | (some k, false), .tree_lock :: rest =>
    if strict then none else locks_run strict (some k, true) rest
  | (o, true), .tree_unlock :: rest => locks_run strict (o, false) rest
  | _, _ => none

/-- The store `ex_track_unsub` with the one record of its normal queue, for the zombie
  subscription 0, and the lock operations of its dispatch when the observer lock of
  subscription 0 is lock 7. -/
def ex_zombie_locks : Option (List lock_op) :=
  (prop_notify_dispatch_locks (fun _ => some 7) (ex_track_unsub.couriers 0).pc_queue_nor
    ex_track_unsub).toOption

/-- The lock operations of the dispatch of the normal queue of `ex_track_mutated`, two
  records for the live subscription 0 of which the first gives back the last reference to
  the destroyed root, when the observer lock of subscription 0 is lock 7. -/
def ex_release_locks : Option (List lock_op) :=
  (prop_notify_dispatch_locks (fun _ => some 7) (ex_track_mutated.couriers 0).pc_queue_nor
    ex_track_mutated).toOption

/-- The store `ex_track` after prop_set_int(root, 5): one record for the live subscription
  0 in the normal queue of courier 0, and the root keeps a reference of its own. -/
def ex_track_set : State SmallFloat :=
  state_after (run_api [.store (.setter (.set_int 5) 0 none)] ex_track)

/-! ## The origin relation and the clipping ranges -/

/-- Following hp_originator from any node ends: the loop
  `while(p->hp_originator != NULL) p = p->hp_originator` comes to a node without originator
  after finitely many steps. -/
def Acyclic (st : State F) : Prop :=
  ∀ p, ∃ n r, follow_originators n st p = .ok r

/-- From st to st' every node keeps its originator or loses it. -/
def OriginsKept (st st' : State F) : Prop :=
  ∀ q, (st'.nodes q).hp_originator = (st.nodes q).hp_originator ∨
    (st'.nodes q).hp_originator = none

/-- From st to st' every node keeps its originator or loses it, no node gains the flag
  PROP_CLIPPED_VALUE and no node becomes a zombie. -/
def Steady (st st' : State F) : Prop :=
  ∀ q, ((st'.nodes q).hp_originator = (st.nodes q).hp_originator ∨
      (st'.nodes q).hp_originator = none) ∧
    ((st'.nodes q).hp_flags.PROP_CLIPPED_VALUE = true →
      (st.nodes q).hp_flags.PROP_CLIPPED_VALUE = true) ∧
    ((st'.nodes q).hp_type = .PROP_ZOMBIE → (st.nodes q).hp_type = .PROP_ZOMBIE)

/-- No node carries a clipping range. -/
def Unclipped (st : State F) : Prop :=
  ∀ q, (st.nodes q).hp_flags.PROP_CLIPPED_VALUE = false

/-- No node is a zombie. -/
def NoZombie (st : State F) : Prop :=
  ∀ q, (st.nodes q).hp_type ≠ .PROP_ZOMBIE

/-- Three roots 0, 1 and 2 with the links prop_link(0, 1) and prop_link(1, 2): node 2 reads
  from node 1, which reads from node 0. -/
def ex_chain_calls : List (api_call SmallFloat) :=
  [.store (.create_root none false), .store (.create_root none false),
   .store (.create_root none false),
   .store (.link 4 0 1 none .PROP_LINK_NORMAL), .store (.link 4 1 2 none .PROP_LINK_NORMAL)]

/-- The store after `ex_chain_calls`. -/
def ex_chain : State SmallFloat := state_after (run_api ex_chain_calls State.empty)

/-! ## Examples with a clipping range -/

/-- The calls prop_create_root(NULL), prop_set_int_clipping_range(root, 0, 10) and a second
  prop_create_root(NULL): node 0 is an int with a clipping range, node 1 a void root. -/
def ex_clipped : State SmallFloat :=
  state_after (run_api
    [.store (.create_root none false), .store (.setter (.set_int_clipping_range 0 10) 0 none),
     .store (.create_root none false)] State.empty)

/-- Two trees: the root 0 with the child 1 named "x", an int with a clipping range, and the
  root 2 with the child 3 named "x", a directory over the child 4 named "y". -/
def ex_clipped_child : State SmallFloat :=
  state_after (run_api
    [.store (.create_root none false), .store (.create (some 0) (some "x") none false false),
     .store (.setter (.set_int_clipping_range 0 10) 1 none),
     .store (.create_root none false), .store (.create (some 2) (some "x") none false false),
     .store (.create (some 3) (some "y") none false false)] State.empty)

/-! ## C21 and C23: the walk of relink_subscriptions over directories -/

/-- A node the walk of relink_subscriptions can visit without a fault: it is no zombie, it
  has no clipping range, it carries neither PROP_MULTI_SUB nor PROP_MULTI_NOTIFY, and a link
  value has a title and a URL (prop_value_compare hands both to strcmp). -/
def prop_t.quiet (nd : prop_t F) : Bool :=
  decide (nd.hp_type ≠ .PROP_ZOMBIE) && !nd.hp_flags.PROP_CLIPPED_VALUE
    && !nd.hp_flags.PROP_MULTI_SUB && !nd.hp_flags.PROP_MULTI_NOTIFY
    && match nd.u with
      | .PROP_LINK t l => t.isSome && l.isSome
      | _ => true

/-- No subscription monitor among the allocated subscriptions is an internal subscription:
  prop_get_notify asserts that the subscription it queues a record for is not internal. -/
def MonitorsQueued (st : State F) : Prop :=
  ∀ s, s < st.nsubs → (st.subs s).hps_flags.PROP_SUB_SUBSCRIPTION_MONITOR = true →
    (st.subs s).hps_flags.PROP_SUB_INTERNAL = false

/-- From st to st' only value lists, value nodes, pending marks and reference counts have
  changed, a subscription with another value node than before is one of S and has the
  value node r, and a subscription that is new on a value list is one of S. -/
structure Moved (S : Nat → Prop) (r : Nat) (st st' : State F) : Prop where
  nnodes : st'.nnodes = st.nnodes
  nsubs : st'.nsubs = st.nsubs
  u : ∀ q, (st'.nodes q).u = (st.nodes q).u
  name : ∀ q, (st'.nodes q).hp_name = (st.nodes q).hp_name
  parent : ∀ q, (st'.nodes q).hp_parent = (st.nodes q).hp_parent
  originator : ∀ q, (st'.nodes q).hp_originator = (st.nodes q).hp_originator
  targets : ∀ q, (st'.nodes q).hp_targets = (st.nodes q).hp_targets
  canonical : ∀ q,
    (st'.nodes q).hp_canonical_subscriptions = (st.nodes q).hp_canonical_subscriptions
  flags : ∀ q, (st'.nodes q).hp_flags = (st.nodes q).hp_flags
  sflags : ∀ t, (st'.subs t).hps_flags = (st.subs t).hps_flags
  value : ∀ t, (st'.subs t).hps_value_prop = (st.subs t).hps_value_prop ∨
    (S t ∧ (st'.subs t).hps_value_prop = some r)
  vsub : ∀ q t, t ∈ (st'.nodes q).hp_value_subscriptions →
    t ∈ (st.nodes q).hp_value_subscriptions ∨ S t

/-- From st to st' nodes may have been created and child lists may have got new nodes at
  their end: the nodes that were there keep name, parent, originator, targets, flags and
  canonical list and a directory stays one, no subscription changes its flags, and the new
  nodes are quiet as are the others that were. -/
structure Walked (st st' : State F) : Prop where
  nnodes : st.nnodes ≤ st'.nnodes
  nsubs : st'.nsubs = st.nsubs
  originator : ∀ q, q < st.nnodes →
    (st'.nodes q).hp_originator = (st.nodes q).hp_originator
  name : ∀ q, q < st.nnodes → (st'.nodes q).hp_name = (st.nodes q).hp_name
  parent : ∀ q, q < st.nnodes → (st'.nodes q).hp_parent = (st.nodes q).hp_parent
  targets : ∀ q, q < st.nnodes → (st'.nodes q).hp_targets = (st.nodes q).hp_targets
  flags : ∀ q, q < st.nnodes → (st'.nodes q).hp_flags = (st.nodes q).hp_flags
  canonical : ∀ q, q < st.nnodes →
    (st'.nodes q).hp_canonical_subscriptions = (st.nodes q).hp_canonical_subscriptions
  childs : ∀ q, q < st.nnodes → ∃ ext,
    (st'.nodes q).hp_childs = (st.nodes q).hp_childs ++ ext ∧ ∀ c ∈ ext, st.nnodes ≤ c
  sflags : ∀ t, (st'.subs t).hps_flags = (st.subs t).hps_flags
  dir : ∀ q, q < st.nnodes → (st.nodes q).hp_type = .PROP_DIR →
    (st'.nodes q).hp_type = .PROP_DIR
  quiet : ∀ q, q < st'.nnodes → (q < st.nnodes → (st.nodes q).quiet = true) →
    (st'.nodes q).quiet = true

/-- What the walk of relink_subscriptions needs of the store to run without a fault, and of
  the side A it creates nodes on: the invariant of the links and subscription lists, the
  allocated nodes are quiet, no internal subscription monitor; A holds the nodes that are not allocated yet and with a node its children, and
  none of its nodes is linked. -/
structure WalkOk (A : Nat → Prop) (st : State F) : Prop where
  store : StoreOk (fun _ => False) st
  quiet : ∀ q, q < st.nnodes → (st.nodes q).quiet = true
  mon : MonitorsQueued st
  cl : ∀ q c, A q → c ∈ (st.nodes q).hp_childs → A c
  ul : ∀ q, A q → (st.nodes q).hp_originator = none
  nw : ∀ q, st.nnodes ≤ q → A q

/-- From st to st' the log has only grown, and by no value record. -/
def Silent (st st' : State F) : Prop :=
  ∃ M, st'.log = st.log ++ M ∧ ∀ d ∈ M, d.n.hpn_event.is_value = false

/-- The subscription s reads the node r already, or it reads a node that is no directory and
  whose value compares equal to that of r: relink_one has no value record for it. -/
def reads_equal [CFloat F] (st : State F) (r s : Nat) : Prop :=
  (st.subs s).hps_value_prop = some r ∨
    ∃ v, (st.subs s).hps_value_prop = some v ∧ (st.nodes v).hp_type ≠ .PROP_DIR ∧
      prop_value_compare (st.nodes v) (st.nodes r) = .ok true

/-- The tree below b has fewer than n levels below b. -/
def shallow : Nat → State F → Nat → Bool
  | 0, _, _ => false
  | n + 1, st, b => (st.nodes b).hp_childs.all fun c => shallow n st c

/-- Down to n levels, every subscription on the canonical list of b has the value node a,
  and every named child of b has a child of a with its name as partner, which is not linked
  and for which the same holds. -/
def Paired : Nat → State F → Nat → Nat → Prop
  | 0, _, _, _ => True
  | n + 1, st, a, b =>
    (∀ s ∈ (st.nodes b).hp_canonical_subscriptions, (st.subs s).hps_value_prop = some a) ∧
    ∀ c ∈ (st.nodes b).hp_childs, ∀ nm, (st.nodes c).hp_name = some nm →
      ∃ z, find_child_by_name st (st.nodes a).hp_childs nm = some z ∧
        (st.nodes z).hp_originator = none ∧ Paired n st z c

/-- What the walk of relink_subscriptions needs of the tree below b: it has fewer than n
  levels below b, no node occurs in it twice, it has no node of the side A, and the fuel
  covers the levels and the longest child list. -/
def Ready (A : Nat → Prop) (n fuel : Nat) (st : State F) (b : Nat) : Prop :=
  shallow n st b = true ∧ (subtree n st b).Nodup ∧ (∀ y ∈ subtree n st b, ¬ A y) ∧
    ∀ y ∈ subtree n st b, (st.nodes y).hp_childs.length + n ≤ fuel

/-- What the walk of relink_subscriptions from the pair (a, b) leaves in st': the store is
  fit for another walk, the nodes outside A have their values and child lists, only
  subscriptions on canonical lists of the tree below b have another value node, those on the
  list of b have a, the pairs below (a, b) are in place when a is a directory where b
  is one, and no value record was made when b is no directory and its subscriptions read
  values equal to that of a. -/
def WalkDone [CFloat F] (A : Nat → Prop) (n : Nat) (st st' : State F) (a b : Nat) : Prop :=
  WalkOk A st' ∧ Walked st st' ∧ (∀ y, ¬ A y → (st'.nodes y).u = (st.nodes y).u) ∧
  (∀ s, (st'.subs s).hps_value_prop ≠ (st.subs s).hps_value_prop →
    ∃ y ∈ subtree n st b, s ∈ (st.nodes y).hp_canonical_subscriptions) ∧
  (∀ s ∈ (st.nodes b).hp_canonical_subscriptions, (st'.subs s).hps_value_prop = some a) ∧
  (((st.nodes b).hp_type = .PROP_DIR → (st.nodes a).hp_type = .PROP_DIR) →
    Paired n st' a b) ∧
  ((st.nodes b).hp_type ≠ .PROP_DIR →
    (∀ s ∈ (st.nodes b).hp_canonical_subscriptions, reads_equal st a s) → Silent st st')

/-- The store after the step of prop_link0 that takes the reference of a hard link:
  PROP_XREFED_ORIGINATOR is set on dst and hp_xref of src is one more. -/
def anchored (st : State F) (src dst : Nat) : State F :=
  let st2 := st.setNode dst { st.nodes dst with
    hp_flags := { (st.nodes dst).hp_flags with PROP_XREFED_ORIGINATOR := true } }
  st2.setNode src { st2.nodes src with hp_xref := (st2.nodes src).hp_xref + 1 }

/-- What prop_link0 needs for the link from src to dst: the store is fit for the walk with
  the side A, src and dst are different allocated nodes, dst is not linked, o is the node that
  the originators of src lead to, it is on the side A and it is not dst, the tree below dst is
  ready for the walk, and no ancestor of dst has a target or is src. -/
structure LinkReady (A : Nat → Prop) (n fuel : Nat) (st : State F) (src dst o : Nat)
    (anc : List Nat) : Prop where
  walk : WalkOk A st
  diff : src ≠ dst
  alloc : src < st.nnodes
  unlinked : (st.nodes dst).hp_originator = none
  origin : follow_originators fuel st src = .ok o
  other : o ≠ dst
  side : A o
  ready : Ready A n fuel st dst
  ancestors : prop_ancestors fuel st dst = some anc
  idle : ∀ d ∈ anc, (st.nodes d).hp_targets = []
  above : src ∉ anc

/-- The part of prop_link0 after the reference of a hard link is taken, from the store st3:
  the link is entered, the originators of src are followed, the subscriptions below dst are
  relinked, the targets of the ancestors of dst are visited and the private queue, which is
  empty when dst was not linked, is flushed. -/
def link_tail [CFloat F] (fuel : Nat) (st3 : State F) (src dst : Nat) (skipme : Option Nat) :
    Except Fault (State F) :=
  match link_follow dst fuel (pointed st3 src dst) src with
  | .error e => .error e
  | .ok src1 =>
    match relink_subscriptions fuel (pointed st3 src dst) src1 dst skipme none none with
    | .error e => .error e
    | .ok (st6, _) =>
      match link_parents fuel skipme fuel st6 dst none with
      | .error e => .error e
      | .ok st7 => link_flush [] st7

/-- What prop_link0 leaves of st in st' after the link from src to dst with the final origin
  o of src: the store is fit for another walk, the nodes outside A have their values and
  child lists, the nodes that were there keep canonical list, parent and name and their
  targets but for dst on the list of src, dst has the originator src, the subscriptions on
  the canonical list of dst have the value node o, and the pairs below (o, dst) are in place
  when o is a directory where dst is one. -/
def Linked (A : Nat → Prop) (n : Nat) (st st' : State F) (src dst o : Nat) : Prop :=
  WalkOk A st' ∧ st.nnodes ≤ st'.nnodes ∧
  (∀ y, ¬ A y → (st'.nodes y).u = (st.nodes y).u) ∧
  (∀ q, q < st.nnodes →
    (st'.nodes q).hp_canonical_subscriptions = (st.nodes q).hp_canonical_subscriptions ∧
    (st'.nodes q).hp_parent = (st.nodes q).hp_parent ∧
    (st'.nodes q).hp_name = (st.nodes q).hp_name ∧
    (st'.nodes q).hp_targets
      = if q = src then dst :: (st.nodes src).hp_targets else (st.nodes q).hp_targets) ∧
  (st'.nodes dst).hp_originator = some src ∧
  (∀ s ∈ (st.nodes dst).hp_canonical_subscriptions, (st'.subs s).hps_value_prop = some o) ∧
  (((st.nodes dst).hp_type = .PROP_DIR → (st.nodes o).hp_type = .PROP_DIR) →
    Paired n st' o dst)

/-- The calls that build `ex_shelf`: the root 0 with the children 1 "x" and 2 "y", the root
  3 with the child 4 "x", and the subscriptions 0, 1 and 2 on the nodes 1, 2 and 0. -/
def ex_shelf_calls : List (api_call SmallFloat) :=
  [.store (.create_root none false),
   .store (.create (some 0) (some "x") none false false),
   .store (.create (some 0) (some "y") none false false),
   .store (.create_root none false),
   .store (.create (some 3) (some "x") none false false),
   .store .courier_create,
   .store (.subscribe
     { callback := some 0, courier := some 0, proproots := [{ p := 1, name := none }] }),
   .store (.subscribe
     { callback := some 0, courier := some 0, proproots := [{ p := 2, name := none }] }),
   .store (.subscribe
     { callback := some 0, courier := some 0, proproots := [{ p := 0, name := none }] })]

/-- The store after `ex_shelf_calls`. -/
def ex_shelf : State SmallFloat := state_after (run_api ex_shelf_calls State.empty)

/-- The calls that build `ex_mirror`: the root 0 with the child 1 "d" and its child 2 "x",
  the root 3 with the int 5, the subscription 0 on the node 2, and the link from the node 0
  to the node 1, which creates the node 4 "x" below the node 0 and moves the subscription
  to it. -/
def ex_mirror_calls : List (api_call SmallFloat) :=
  [.store (.create_root none false),
   .store (.create (some 0) (some "d") none false false),
   .store (.create (some 1) (some "x") none false false),
   .store (.create_root none false),
   .store (.setter (.set_int 5) 3 none),
   .store .courier_create,
   .store (.subscribe
     { callback := some 0, courier := some 0, proproots := [{ p := 2, name := none }] }),
   .store (.link 8 0 1 none .PROP_LINK_NORMAL)]

/-- The store after `ex_mirror_calls`. -/
def ex_mirror : State SmallFloat := state_after (run_api ex_mirror_calls State.empty)

/-- The calls that build `ex_relay`: the roots 0, 2 and 4 with the children 1, 3 and 5, all
  three named "x", the subscription 0 on the node 5, and the link from the node 0 to the
  node 2. -/
def ex_relay_calls : List (api_call SmallFloat) :=
  [.store (.create_root none false),
   .store (.create (some 0) (some "x") none false false),
   .store (.create_root none false),
   .store (.create (some 2) (some "x") none false false),
   .store (.create_root none false),
   .store (.create (some 4) (some "x") none false false),
   .store .courier_create,
   .store (.subscribe
     { callback := some 0, courier := some 0, proproots := [{ p := 5, name := none }] }),
   .store (.link 8 0 2 none .PROP_LINK_NORMAL)]

/-- The store after `ex_relay_calls`. -/
def ex_relay : State SmallFloat := state_after (run_api ex_relay_calls State.empty)

/-- From st to st' only value lists, value nodes, pending marks and reference counts have
  changed, and a subscription with another value node than before has a node as value node
  on whose canonical list it is. -/
structure Settled (st st' : State F) : Prop where
  nnodes : st'.nnodes = st.nnodes
  nsubs : st'.nsubs = st.nsubs
  u : ∀ q, (st'.nodes q).u = (st.nodes q).u
  name : ∀ q, (st'.nodes q).hp_name = (st.nodes q).hp_name
  parent : ∀ q, (st'.nodes q).hp_parent = (st.nodes q).hp_parent
  originator : ∀ q, (st'.nodes q).hp_originator = (st.nodes q).hp_originator
  targets : ∀ q, (st'.nodes q).hp_targets = (st.nodes q).hp_targets
  canonical : ∀ q,
    (st'.nodes q).hp_canonical_subscriptions = (st.nodes q).hp_canonical_subscriptions
  flags : ∀ q, (st'.nodes q).hp_flags = (st.nodes q).hp_flags
  sflags : ∀ t, (st'.subs t).hps_flags = (st.subs t).hps_flags
  value : ∀ t, (st'.subs t).hps_value_prop = (st.subs t).hps_value_prop ∨
    ∃ y, t ∈ (st.nodes y).hp_canonical_subscriptions ∧ (st'.subs t).hps_value_prop = some y

/-- Down to n levels, every subscription on the canonical list of b has the value node b,
  and the same holds for every named child of b. -/
def Restored : Nat → State F → Nat → Prop
  | 0, _, _ => True
  | n + 1, st, b =>
    (∀ s ∈ (st.nodes b).hp_canonical_subscriptions, (st.subs s).hps_value_prop = some b) ∧
    ∀ c ∈ (st.nodes b).hp_childs, (st.nodes c).hp_name ≠ none → Restored n st c

/-- What a round of prop_link0(src, dst) and prop_unlink_ex(dst) needs: the store is ready
  for the link from src to dst, no node of the tree below dst is linked, dst does not carry
  PROP_XREFED_ORIGINATOR, and the link takes no reference on src. -/
def RoundReady (A : Nat → Prop) (n fuel : Nat) (st : State F) (src dst o : Nat)
    (anc : List Nat) (hard : prop_link_hard) : Prop :=
  LinkReady A n fuel st src dst o anc ∧
  (∀ y ∈ subtree n st dst, (st.nodes y).hp_originator = none) ∧
  (st.nodes dst).hp_flags.PROP_XREFED_ORIGINATOR = false ∧
  (hard = .PROP_LINK_XREFED
    || (hard = .PROP_LINK_XREFED_IF_ORPHANED && (st.nodes src).hp_parent = none)) = false

/-- The store `ex_mirror` after `prop_link(3, 2)` and `prop_unlink(2)`. -/
def ex_mirror_round : State SmallFloat :=
  state_after (prop_unlink_ex 8
    (state_after (prop_link_ex 8 ex_mirror 3 2 none .PROP_LINK_NORMAL)) (some 2) none)

/-- The calls that build `ex_voids`: the roots 0 and 1, both void, and the subscription 0
  on the node 1. -/
def ex_voids_calls : List (api_call SmallFloat) :=
  [.store (.create_root none false),
   .store (.create_root none false),
   .store .courier_create,
   .store (.subscribe
     { callback := some 0, courier := some 0, proproots := [{ p := 1, name := none }] })]

/-- The store after `ex_voids_calls`. -/
def ex_voids : State SmallFloat := state_after (run_api ex_voids_calls State.empty)

/-- The int that a callback gets from a record of PROP_SET_INT: prop_notify_dispatch passes
  `n->hpn_int`, the member `i` of the union, and after `n->hpn_float = p->hp_float` on an
  int node that word holds the float-typed copy of the int of the node when `p->hp_float`
  (u.f.val) and `p->hp_int` (u.i.val) name one word of prop_t. The declaration of prop_t
  is not part of prop_core.c; `aliased` says whether the two members share the word, and
  without it nothing is known of what the callback reads. -/
def notify_u.hpn_int (aliased : Bool) : notify_u F → Option Int
  | .i v => some v
  | .fslot v => if aliased then some v else none
  | _ => none

/-- The record of PROP_SET_INT that the queued branch of prop_build_notify_value builds for
  subscription s about the int node d holding v. -/
def int_record (s d : Nat) (v : Int) : prop_notify_t F :=
  { hpn_sub := s, hpn_event := .PROP_SET_INT, u := .fslot v, hpn_prop2 := some d }

/-- The calls that build `ex_seven`: the root 0, prop_set_int(root, 7), and a courier. -/
def ex_seven_calls : List (api_call SmallFloat) :=
  [.store (.create_root none false),
   .store (.setter (.set_int 7) 0 none),
   .store .courier_create]

/-- The store after `ex_seven_calls`. -/
def ex_seven : State SmallFloat := state_after (run_api ex_seven_calls State.empty)

/-- A subscription without flags, with an int callback (trampoline_int) and the courier 0,
  to the path "a", where the root 0 is given under the name "a". -/
def ex_seven_args : subscribe_args :=
  { callback := some 0, trampoline := some .trampoline_int, courier := some 0,
    name := some ["a"], proproots := [{ p := 0, name := some "a" }] }

/-- The store `ex_seven` after the call of `ex_seven_args`. -/
def ex_seven_subscribed : State SmallFloat :=
  state_after ((prop_subscribe ex_seven ex_seven_args).map Prod.fst)

/-! ## Vocabulary for the walk that brings the subscriptions of a reader home -/

/-- The nodes that the walk of relink_subscriptions from a node y to itself looks at with
  fuel f when the tree below y is not linked: y, its children, and what is below the
  children that have a name. -/
def reach (st : State F) : Nat → Nat → List Nat
  | 0, y => [y]
  | f + 1, y => y :: (st.nodes y).hp_childs.flatMap fun c =>
      if (st.nodes c).hp_name = none then [c] else reach st f c

/-- Whether a value is one that the walk of relink_subscriptions can meet at the node it
  moves subscriptions to: no zombie (prop_build_notify_value aborts on it) and no link value
  (prop_value_compare hands the title and the URL of two link values to strcmp). -/
def prop_value.is_settled (u : prop_value F) : Bool :=
  match u with
  | .PROP_ZOMBIE => false
  | .PROP_LINK _ _ => false
  | _ => true

/-- The walk of relink_subscriptions from y to itself with fuel f stays in the tree below y
  and has what it needs: y is no zombie, holds no link value and is not monitored, the fuel
  covers the child list of y, no child is twice on it and no two children have the same
  name, and every child with a name has no originator and is the root of such a tree for the
  fuel that is left. -/
def homely : Nat → State F → Nat → Bool
  | 0, _, _ => false
  | f + 1, st, y =>
    (st.nodes y).u.is_settled
    && !(st.nodes y).hp_flags.PROP_MONITORED
    && decide ((st.nodes y).hp_childs.length ≤ f)
    && decide ((st.nodes y).hp_childs.Nodup)
    && decide (((st.nodes y).hp_childs.filterMap fun c => (st.nodes c).hp_name).Nodup)
    && (st.nodes y).hp_childs.all fun c =>
        decide ((st.nodes c).hp_name = none)
          || (decide ((st.nodes c).hp_originator = none) && homely f st c)

/-- From st to st' only value lists, value nodes, pending marks, reference counts, queues
  and the log have changed, and only for the subscriptions of S: a value list keeps its
  other subscriptions in their order, another subscription keeps its value node, and every
  delivery made is one to a subscription of S. -/
structure Homed (S : List Nat) (st st' : State F) : Prop where
  nnodes : st'.nnodes = st.nnodes
  name : ∀ q, (st'.nodes q).hp_name = (st.nodes q).hp_name
  flags : ∀ q, (st'.nodes q).hp_flags = (st.nodes q).hp_flags
  xref : ∀ q, (st'.nodes q).hp_xref = (st.nodes q).hp_xref
  parent : ∀ q, (st'.nodes q).hp_parent = (st.nodes q).hp_parent
  originator : ∀ q, (st'.nodes q).hp_originator = (st.nodes q).hp_originator
  targets : ∀ q, (st'.nodes q).hp_targets = (st.nodes q).hp_targets
  canonical : ∀ q,
    (st'.nodes q).hp_canonical_subscriptions = (st.nodes q).hp_canonical_subscriptions
  u : ∀ q, (st'.nodes q).u = (st.nodes q).u
  value : ∀ q, (st'.nodes q).hp_value_subscriptions.filter (fun t => decide (t ∉ S))
    = (st.nodes q).hp_value_subscriptions.filter (fun t => decide (t ∉ S))
  sflags : ∀ t, (st'.subs t).hps_flags = (st.subs t).hps_flags
  svalue : ∀ t, t ∉ S → (st'.subs t).hps_value_prop = (st.subs t).hps_value_prop
  log : ∃ M, st'.log = st.log ++ M ∧ ∀ d ∈ M, d.n.hpn_sub ∈ S

/-- Every subscription of R that has a value node is on the value list of that node. -/
def Lodged (R : List Nat) (st : State F) : Prop :=
  ∀ s ∈ R, ∀ v, (st.subs s).hps_value_prop = some v →
    s ∈ (st.nodes v).hp_value_subscriptions

/-! ## Vocabulary for the destruction of a tree with links -/

/-- The nodes that `prop_destroy0(p)` turns into zombies when hp_xref of p is 1: p and, below
  every such node, the children whose hp_xref is 1, down to depth n. -/
def doomed : Nat → State F → Nat → List Nat
  | 0, _, p => [p]
  | n + 1, st, p =>
    p :: (st.nodes p).hp_childs.flatMap fun c =>
      if (st.nodes c).hp_xref = 1 then doomed n st c else []

/-- The children that the destruction of the tree below p takes off their parent without
  destroying them: the children with hp_xref other than 1 of the nodes of `doomed`. -/
def stayed : Nat → State F → Nat → List Nat
  | 0, _, _ => []
  | n + 1, st, p =>
    (st.nodes p).hp_childs.flatMap fun c =>
      if (st.nodes c).hp_xref = 1 then stayed n st c else [c]

/-- The nodes of `doomed` below the children cs: those of every child with hp_xref 1. -/
def doomed_kids (n : Nat) (st : State F) (cs : List Nat) : List Nat :=
  cs.flatMap fun c => if (st.nodes c).hp_xref = 1 then doomed n st c else []

/-- The nodes of `stayed` at and below the children cs. -/
def stayed_kids (n : Nat) (st : State F) (cs : List Nat) : List Nat :=
  cs.flatMap fun c => if (st.nodes c).hp_xref = 1 then stayed n st c else [c]

/-- The originators that get a reference back when the nodes of l are destroyed: for every
  node of l with PROP_XREFED_ORIGINATOR its originator, which prop_remove_from_originator
  hands to prop_destroy0. -/
def released (st : State F) (l : List Nat) : List Nat :=
  l.flatMap fun d =>
    if (st.nodes d).hp_flags.PROP_XREFED_ORIGINATOR then (st.nodes d).hp_originator.toList
    else []

/-- One call of prop_unlink0 in the loop of prop_destroy0 over the targets of a node: the
  reader that is unlinked, the fuel of its walk of relink_subscriptions, and the nodes that
  are zombies or under destruction when the call runs. -/
structure Walk where
  busy : List Nat
  fuel : Nat
  reader : Nat

/-- The walks of the loop of prop_destroy0 over the children cs, in the order of the loop:
  `own g c` are the walks of the destruction of child c when the nodes g are gone, and
  `dm c` are the nodes that this destruction adds to them. -/
def walks_loop (own : List Nat → Nat → List Walk) (dm : Nat → List Nat) :
    List Nat → List Nat → List Walk
  | [], _ => []
  | c :: rest, gone => own gone c ++ walks_loop own dm rest (gone ++ dm c)

/-- The calls of prop_unlink0 that `prop_destroy0(p)` makes when hp_xref of p is 1, in
  order, where `gone` are the nodes destroyed before and `above` the nodes whose destruction
  is under way: first those of the children with hp_xref 1, then one for every node on the
  target list of p that is not destroyed by then. -/
def walks : Nat → State F → List Nat → List Nat → Nat → List Walk
  | 0, _, _, _, _ => []
  | n + 1, st, gone, above, p =>
    walks_loop
        (fun g c => if (st.nodes c).hp_xref = 1 then walks n st g (above ++ [p]) c else [])
        (fun c => if (st.nodes c).hp_xref = 1 then doomed n st c else [])
        (st.nodes p).hp_childs gone
      ++ ((st.nodes p).hp_targets.filter fun t =>
          decide (t ∉ gone ++ doomed_kids n st (st.nodes p).hp_childs)).map fun t =>
        { busy := gone ++ doomed_kids n st (st.nodes p).hp_childs ++ (above ++ [p])
          fuel := n
          reader := t }

/-- The walks of the loop of prop_destroy0 over the children cs of a node, where `gone` are
  the nodes destroyed before the loop and `above` the nodes under destruction, the parent
  of the children among them. -/
def walks_kids (n : Nat) (st : State F) (above cs gone : List Nat) : List Walk :=
  walks_loop (fun g c => if (st.nodes c).hp_xref = 1 then walks n st g above c else [])
    (fun c => if (st.nodes c).hp_xref = 1 then doomed n st c else []) cs gone

/-- The walk w stays in a tree that is `homely` and that holds no node that is a zombie or
  under destruction when the walk runs. -/
def seated (st : State F) (w : Walk) : Bool :=
  homely w.fuel st w.reader
    && (reach st w.fuel w.reader).all fun q => decide (q ∉ w.busy)

/-- The subscriptions that the walks ws move: those on the canonical lists of the nodes they
  look at. -/
def lodgers (st : State F) (ws : List Walk) : List Nat :=
  ws.flatMap fun w =>
    (reach st w.fuel w.reader).flatMap fun q => (st.nodes q).hp_canonical_subscriptions

/-- Every walk of ws is `seated` and moves subscriptions of `moved` only: the canonical
  lists of the nodes it looks at hold no other. -/
def Seats (st : State F) (moved : List Nat) (ws : List Walk) : Prop :=
  ∀ w ∈ ws, seated st w = true ∧
    ∀ q ∈ reach st w.fuel w.reader, ∀ s ∈ (st.nodes q).hp_canonical_subscriptions, s ∈ moved

/-- The tree below p is at most n levels deep and fit for destruction: p is no zombie, every
  node on the target list of p names p as its originator, the nodes on that list that are
  not destroyed below p are there once and the fuel of the loop over them covers them, p is
  once on the target list of its originator, which is not destroyed below p, and every child
  names p as its parent and, when its hp_xref is 1, is the root of such a tree itself. -/
def ripe : Nat → State F → Nat → Bool
  | 0, _, _ => false
  | n + 1, st, p =>
    decide ((st.nodes p).hp_type ≠ .PROP_ZOMBIE)
      && (st.nodes p).hp_targets.all (fun t => decide ((st.nodes t).hp_originator = some p))
      && decide (((st.nodes p).hp_targets.filter fun t =>
          decide (t ∉ doomed_kids n st (st.nodes p).hp_childs)).Nodup)
      && decide (((st.nodes p).hp_targets.filter fun t =>
          decide (t ∉ doomed_kids n st (st.nodes p).hp_childs)).length ≤ n)
      && (match (st.nodes p).hp_originator with
          | none => true
          | some o => decide ((st.nodes o).hp_targets.count p = 1)
              && decide (o ∉ doomed_kids n st (st.nodes p).hp_childs))
      && (st.nodes p).hp_childs.all fun c =>
        decide ((st.nodes c).hp_parent = some p)
          && (decide ((st.nodes c).hp_xref ≠ 1) || ripe n st c)

/-- Every node of rel is no zombie and holds more references than rel takes from it: its
  hp_xref, a byte, is above the number of times it occurs in rel. -/
def Anchored (st : State F) (rel : List Nat) : Prop :=
  ∀ q ∈ rel, (st.nodes q).hp_type ≠ .PROP_ZOMBIE ∧
    (rel.count q : Int) < (st.nodes q).hp_xref ∧ (st.nodes q).hp_xref ≤ 255

/-- Node b is what a destruction leaves of a node a with the number q that it does not
  destroy: the nodes of `readers` are off its target list, it has no originator when that
  was a node of `origins`, it has given back one reference for every occurrence of q in
  `rel`, it has no parent when q is in `cut`, its value list is that of a but for the
  subscriptions of `moved`, and its other fields but the reference count and the value are
  those of a. -/
structure Spared (readers origins cut rel moved : List Nat) (q : Nat) (a b : prop_t F) :
    Prop where
  sp_name : b.hp_name = a.hp_name
  sp_flags : b.hp_flags = a.hp_flags
  sp_xref : b.hp_xref = a.hp_xref - (rel.count q : Int)
  sp_parent : b.hp_parent = if q ∈ cut then none else a.hp_parent
  sp_originator : b.hp_originator = a.hp_originator.filter fun o => decide (o ∉ origins)
  sp_targets : b.hp_targets = a.hp_targets.filter fun t => decide (t ∉ readers)
  sp_value : b.hp_value_subscriptions.filter (fun s => decide (s ∉ moved))
    = a.hp_value_subscriptions.filter (fun s => decide (s ∉ moved))
  sp_canonical : b.hp_canonical_subscriptions = a.hp_canonical_subscriptions

/-- State b is what a destruction under way has left of state a: every node q outside `gone`
  is what `Spared` says, where the nodes of `gone` that read from q are off its target list
  and q has lost its originator when that is a node of `gone` with q on its target list,
  and no subscription has changed its flags. -/
structure Spent (a b : State F) (gone cut rel moved : List Nat) : Prop where
  sp_nodes : ∀ q, q ∉ gone →
    Spared (gone.filter fun t => decide ((a.nodes t).hp_originator = some q))
      (gone.filter fun o => decide (q ∈ (a.nodes o).hp_targets)) cut rel moved q
      (a.nodes q) (b.nodes q)
  sp_subs : ∀ t, (b.subs t).hps_flags = (a.subs t).hps_flags

/-- From st to st' no subscription changed its flags, and the deliveries made to the
  subscriptions outside `moved` have the keys of `keys` that are for such subscriptions,
  in this order. -/
def EmitsX (moved : List Nat) (st st' : State F)
    (keys : List (Bool × Nat × prop_event_t × Option Nat)) : Prop :=
  (∀ t, (st'.subs t).hps_flags = (st.subs t).hps_flags) ∧
  ∃ lg, st'.log = st.log ++ lg ∧
    (lg.map Delivery.key).filter (fun k => decide (k.2.1 ∉ moved))
      = keys.filter (fun k => decide (k.2.1 ∉ moved))

/-- What the loop of prop_destroy0 over the target list T of the zombie p makes of state st
  in st': the nodes of T have no originator, the target list of p is empty, and what else
  has changed is what `Homed` allows for the subscriptions of `moved`. -/
structure Parted (T : List Nat) (p : Nat) (moved : List Nat) (st st' : State F) : Prop where
  nnodes : st'.nnodes = st.nnodes
  name : ∀ q, (st'.nodes q).hp_name = (st.nodes q).hp_name
  flags : ∀ q, (st'.nodes q).hp_flags = (st.nodes q).hp_flags
  xref : ∀ q, (st'.nodes q).hp_xref = (st.nodes q).hp_xref
  parent : ∀ q, (st'.nodes q).hp_parent = (st.nodes q).hp_parent
  originator : ∀ q, (st'.nodes q).hp_originator
    = if q ∈ T then none else (st.nodes q).hp_originator
  targets : ∀ q, q ≠ p → (st'.nodes q).hp_targets = (st.nodes q).hp_targets
  emptied : (st'.nodes p).hp_targets = []
  canonical : ∀ q,
    (st'.nodes q).hp_canonical_subscriptions = (st.nodes q).hp_canonical_subscriptions
  u : ∀ q, (st'.nodes q).u = (st.nodes q).u
  value : ∀ q, (st'.nodes q).hp_value_subscriptions.filter (fun t => decide (t ∉ moved))
    = (st.nodes q).hp_value_subscriptions.filter (fun t => decide (t ∉ moved))
  sflags : ∀ t, (st'.subs t).hps_flags = (st.subs t).hps_flags
  log : ∃ M, st'.log = st.log ++ M ∧ ∀ d ∈ M, d.n.hpn_sub ∈ moved

/-- State b, which a destruction under way has left of state a, is fit for
  `prop_destroy0(p)`: the nodes of `gone` are zombies, the nodes that are neither gone nor
  under destruction (`above`) have the values they had in a, the nodes of the tree below p
  are neither gone nor under destruction nor cut off, p is on the child list of its parent,
  which is not gone, the nodes that will give back a reference hold enough of them, the nodes
  of `doomed` have hp_xref 1, the subscriptions of `moved` are on the value lists of their
  value nodes, and every walk of the destruction is `seated` and moves subscriptions of
  `moved` only. -/
def Poised (n : Nat) (a b : State F) (p : Nat) (gone above cut rel moved : List Nat) : Prop :=
  Spent a b gone cut rel moved ∧
  (∀ q ∈ gone, (b.nodes q).hp_type = .PROP_ZOMBIE) ∧
  (∀ q, q ∉ gone → q ∉ above → (b.nodes q).u = (a.nodes q).u) ∧
  (∀ q ∈ subtree n a p, q ∉ gone ∧ q ∉ above ∧ q ∉ cut) ∧
  (∀ q0, (a.nodes p).hp_parent = some q0 →
    p ∈ (b.nodes q0).hp_childs ∧ q0 ∉ subtree n a p ∧ q0 ∉ gone) ∧
  Anchored b (stayed n a p ++ released a (doomed n a p)) ∧
  (∀ q ∈ doomed n a p, (b.nodes q).hp_xref = 1) ∧
  Lodged moved b ∧
  Seats a moved (walks n a gone above p)

/-- What `prop_destroy0(p)` makes of state b in b', where b is what a destruction under way
  has left of state a: the lists of the nodes gone, cut off and released have grown by those
  of the tree below p, every other node but the parent of p has kept its value, the parent
  has lost p from its child list, the nodes of `doomed` are zombies without parent, hp_xref
  of p is 0, the nodes that were gone before have kept their parent field, the
  subscriptions of `moved` are on the value lists of their value nodes, and the deliveries
  made to the other subscriptions are those of `destroy_keys` followed by PROP_DEL_CHILD
  about p. -/
def Felled (n : Nat) (a b b' : State F) (p : Nat) (gone cut rel moved : List Nat) : Prop :=
  Spent a b' (gone ++ doomed n a p) (cut ++ stayed n a p)
    (rel ++ (stayed n a p ++ released a (doomed n a p))) moved ∧
  (∀ q, q ∉ doomed n a p → (a.nodes p).hp_parent ≠ some q → (b'.nodes q).u = (b.nodes q).u) ∧
  (∀ q0, (a.nodes p).hp_parent = some q0 →
    (b'.nodes q0).u = prop_value.PROP_DIR ((b.nodes q0).hp_childs.erase p)
      (if (b.nodes q0).hp_selected = some p then none else (b.nodes q0).hp_selected)) ∧
  (∀ d ∈ doomed n a p, (b'.nodes d).hp_type = .PROP_ZOMBIE ∧ (b'.nodes d).hp_parent = none) ∧
  (b'.nodes p).hp_xref = 0 ∧
  (∀ q ∈ gone, (b'.nodes q).hp_parent = (b.nodes q).hp_parent) ∧
  b'.nnodes = b.nnodes ∧
  Lodged moved b' ∧
  EmitsX moved b b' (destroy_keys n a p ++ parent_keys a p)

/-- What the destruction of the tree below p leaves of st in st': the nodes that are not
  destroyed are what `Spent` says (off the target list of a node are the destroyed nodes that
  read from it, a reader of a destroyed node has no originator, a child that stays has no
  parent, hp_xref is down by one for every reference given back, and a value list has its
  subscriptions but for those of `moved`), they have their values but for the parent of p,
  which has lost p from its child list (and its selection when that was p); the nodes of
  `doomed` are zombies without parent, hp_xref of p is 0, and the deliveries made to the
  subscriptions outside `moved` are those of `destroy_keys` followed by PROP_DEL_CHILD about
  p to the value list of its parent. -/
def Razed (n : Nat) (st st' : State F) (p : Nat) (moved : List Nat) : Prop :=
  Spent st st' (doomed n st p) (stayed n st p)
    (stayed n st p ++ released st (doomed n st p)) moved ∧
  (∀ q, q ∉ doomed n st p → (st.nodes p).hp_parent ≠ some q →
    (st'.nodes q).u = (st.nodes q).u) ∧
  (∀ q, (st.nodes p).hp_parent = some q →
    (st'.nodes q).u = prop_value.PROP_DIR ((st.nodes q).hp_childs.erase p)
      (if (st.nodes q).hp_selected = some p then none else (st.nodes q).hp_selected)) ∧
  (∀ d ∈ doomed n st p, (st'.nodes d).hp_type = .PROP_ZOMBIE ∧ (st'.nodes d).hp_parent = none) ∧
  (st'.nodes p).hp_xref = 0 ∧
  st'.nnodes = st.nnodes ∧
  EmitsX moved st st' (destroy_keys n st p ++ parent_keys st p)

/-! ## An example store with links into a tree -/

/-- The calls that build `ex_grove`: the root 0, its child "x" (1) with the children "y" (2),
  "z" (3) and "w" (4), the root 5, a courier, the hard link that makes y read from node 5
  (hp_xref of node 5 becomes 2), the soft link that makes z read from x, its parent,
  `prop_xref_addref(w)`, the queued subscription 0 on x and the queued subscription 1 with
  PROP_SUB_TRACK_DESTROY on x. -/
def ex_grove_calls : List (api_call SmallFloat) :=
  [.store (.create_root none false),
   .store (.create (some 0) (some "x") none false false),
   .store (.create (some 1) (some "y") none false false),
   .store (.create (some 1) (some "z") none false false),
   .store (.create (some 1) (some "w") none false false),
   .store (.create_root none false),
   .store .courier_create,
   .store (.link 6 5 2 none .PROP_LINK_XREFED),
   .store (.link 6 1 3 none .PROP_LINK_NORMAL),
   .xref_addref (some 4),
   .store (.subscribe
     { name := some ["self", "x"]
       callback := some 0
       courier := some 0
       proproots := [{ p := 0, name := some "self" }] }),
   .store (.subscribe
     { flags := { PROP_SUB_TRACK_DESTROY := true }
       name := some ["self", "x"]
       callback := some 1
       courier := some 0
       proproots := [{ p := 0, name := some "self" }] })]

/-- The store after `ex_grove_calls`. -/
def ex_grove : State SmallFloat := state_after (run_api ex_grove_calls State.empty)

/-- The calls that build `ex_glade`: those of `ex_grove`, then the root 6 with the queued
  subscription 2 and the link that makes node 6, which is outside the tree below x, read
  from y: the subscription moves to the value list of node 5, from which y reads. -/
def ex_glade_calls : List (api_call SmallFloat) :=
  ex_grove_calls ++
  [.store (.create_root none false),
   .store (.subscribe
     { callback := some 2, courier := some 0, proproots := [{ p := 6, name := none }] }),
   .store (.link 6 2 6 none .PROP_LINK_NORMAL)]

/-- The store after `ex_glade_calls`. -/
def ex_glade : State SmallFloat := state_after (run_api ex_glade_calls State.empty)

/-- Whether every subscription of R that has a value node is on the value list of that
  node: `Lodged`, computed. -/
def housed (R : List Nat) (st : State F) : Bool :=
  R.all fun s =>
    match (st.subs s).hps_value_prop with
    | none => true
    | some v => decide (s ∈ (st.nodes v).hp_value_subscriptions)

/-! ## Basic facts about the heaps -/

@[simp] theorem setNode_nodes (st : State F) (p q : Nat) (nd : prop_t F) :
    (st.setNode p nd).nodes q = if q = p then nd else st.nodes q := rfl

@[simp] theorem setNode_subs (st : State F) (p : Nat) (nd : prop_t F) :
    (st.setNode p nd).subs = st.subs := rfl

@[simp] theorem setNode_couriers (st : State F) (p : Nat) (nd : prop_t F) :
    (st.setNode p nd).couriers = st.couriers := rfl

@[simp] theorem setNode_log (st : State F) (p : Nat) (nd : prop_t F) :
    (st.setNode p nd).log = st.log := rfl

@[simp] theorem setNode_nnodes (st : State F) (p : Nat) (nd : prop_t F) :
    (st.setNode p nd).nnodes = st.nnodes := rfl

@[simp] theorem setNode_nsubs (st : State F) (p : Nat) (nd : prop_t F) :
    (st.setNode p nd).nsubs = st.nsubs := rfl

@[simp] theorem setSub_nodes (st : State F) (s : Nat) (sb : prop_sub_t) :
    (st.setSub s sb).nodes = st.nodes := rfl

@[simp] theorem setSub_subs (st : State F) (s q : Nat) (sb : prop_sub_t) :
    (st.setSub s sb).subs q = if q = s then sb else st.subs q := rfl

@[simp] theorem setSub_couriers (st : State F) (s : Nat) (sb : prop_sub_t) :
    (st.setSub s sb).couriers = st.couriers := rfl

@[simp] theorem setSub_log (st : State F) (s : Nat) (sb : prop_sub_t) :
    (st.setSub s sb).log = st.log := rfl

@[simp] theorem setSub_nnodes (st : State F) (s : Nat) (sb : prop_sub_t) :
    (st.setSub s sb).nnodes = st.nnodes := rfl

@[simp] theorem setSub_nsubs (st : State F) (s : Nat) (sb : prop_sub_t) :
    (st.setSub s sb).nsubs = st.nsubs := rfl

@[simp] theorem setCourier_nodes (st : State F) (c : Nat) (pc : prop_courier_t F) :
    (st.setCourier c pc).nodes = st.nodes := rfl

@[simp] theorem setCourier_subs (st : State F) (c : Nat) (pc : prop_courier_t F) :
    (st.setCourier c pc).subs = st.subs := rfl

@[simp] theorem setCourier_log (st : State F) (c : Nat) (pc : prop_courier_t F) :
    (st.setCourier c pc).log = st.log := rfl

@[simp] theorem setCourier_nnodes (st : State F) (c : Nat) (pc : prop_courier_t F) :
    (st.setCourier c pc).nnodes = st.nnodes := rfl

@[simp] theorem setCourier_nsubs (st : State F) (c : Nat) (pc : prop_courier_t F) :
    (st.setCourier c pc).nsubs = st.nsubs := rfl

@[simp] theorem setU_nodes (st : State F) (p q : Nat) (v : prop_value F) :
    (st.setU p v).nodes q = if q = p then { st.nodes p with u := v } else st.nodes q := rfl

@[simp] theorem setU_subs (st : State F) (p : Nat) (v : prop_value F) :
    (st.setU p v).subs = st.subs := rfl

@[simp] theorem setU_log (st : State F) (p : Nat) (v : prop_value F) :
    (st.setU p v).log = st.log := rfl

@[simp] theorem setU_nnodes (st : State F) (p : Nat) (v : prop_value F) :
    (st.setU p v).nnodes = st.nnodes := rfl

@[simp] theorem setU_nsubs (st : State F) (p : Nat) (v : prop_value F) :
    (st.setU p v).nsubs = st.nsubs := rfl

@[simp] theorem setU_couriers (st : State F) (p : Nat) (v : prop_value F) :
    (st.setU p v).couriers = st.couriers := rfl

/-! ## States that differ in reference counts, queues and log only -/

theorem SameTree.st_refl (st : State F) : SameTree st st :=
  ⟨rfl, rfl, fun _ => rfl, fun _ => rfl⟩

theorem SameTree.st_trans {a b c : State F} (h1 : SameTree a b) (h2 : SameTree b c) :
    SameTree a c := by
  obtain ⟨n1, s1, f1, g1⟩ := h1
  obtain ⟨n2, s2, f2, g2⟩ := h2
  refine ⟨by rw [n2, n1], by rw [s2, s1], fun q => ?_, fun s => ?_⟩
  · rw [f2 q, f1 q]
  · rw [g2 s, g1 s]

theorem SameTree.u {a b : State F} (h : SameTree a b) (q : Nat) :
    (b.nodes q).u = (a.nodes q).u := by rw [h.2.2.1 q]

theorem SameTree.hp_type {a b : State F} (h : SameTree a b) (q : Nat) :
    (b.nodes q).hp_type = (a.nodes q).hp_type := by
  unfold prop_t.hp_type; rw [h.u q]

theorem SameTree.hp_flags {a b : State F} (h : SameTree a b) (q : Nat) :
    (b.nodes q).hp_flags = (a.nodes q).hp_flags := by rw [h.2.2.1 q]

theorem SameTree.hp_parent {a b : State F} (h : SameTree a b) (q : Nat) :
    (b.nodes q).hp_parent = (a.nodes q).hp_parent := by rw [h.2.2.1 q]

theorem SameTree.hp_name {a b : State F} (h : SameTree a b) (q : Nat) :
    (b.nodes q).hp_name = (a.nodes q).hp_name := by rw [h.2.2.1 q]

theorem SameTree.hp_xref {a b : State F} (h : SameTree a b) (q : Nat) :
    (b.nodes q).hp_xref = (a.nodes q).hp_xref := by rw [h.2.2.1 q]

theorem SameTree.hp_originator {a b : State F} (h : SameTree a b) (q : Nat) :
    (b.nodes q).hp_originator = (a.nodes q).hp_originator := by rw [h.2.2.1 q]

theorem SameTree.hp_targets {a b : State F} (h : SameTree a b) (q : Nat) :
    (b.nodes q).hp_targets = (a.nodes q).hp_targets := by rw [h.2.2.1 q]

theorem SameTree.hp_value_subscriptions {a b : State F} (h : SameTree a b) (q : Nat) :
    (b.nodes q).hp_value_subscriptions = (a.nodes q).hp_value_subscriptions := by
  rw [h.2.2.1 q]

theorem SameTree.hp_canonical_subscriptions {a b : State F} (h : SameTree a b) (q : Nat) :
    (b.nodes q).hp_canonical_subscriptions = (a.nodes q).hp_canonical_subscriptions := by
  rw [h.2.2.1 q]

theorem SameTree.hps_flags {a b : State F} (h : SameTree a b) (s : Nat) :
    (b.subs s).hps_flags = (a.subs s).hps_flags := by rw [h.2.2.2 s]

theorem SameTree.hps_value_prop {a b : State F} (h : SameTree a b) (s : Nat) :
    (b.subs s).hps_value_prop = (a.subs s).hps_value_prop := by rw [h.2.2.2 s]

theorem SameTree.hps_canonical_prop {a b : State F} (h : SameTree a b) (s : Nat) :
    (b.subs s).hps_canonical_prop = (a.subs s).hps_canonical_prop := by rw [h.2.2.2 s]

theorem SameTree.hps_courier {a b : State F} (h : SameTree a b) (s : Nat) :
    (b.subs s).hps_courier = (a.subs s).hps_courier := by rw [h.2.2.2 s]

theorem sameTree_ref_inc (st : State F) (p : Nat) : SameTree st (prop_ref_inc st p) := by
  refine ⟨rfl, rfl, fun q => ?_, fun _ => rfl⟩
  by_cases h : q = p
  · subst h; simp [prop_ref_inc]
  · simp [prop_ref_inc, h]

theorem sameTree_courier_notify (st : State F) (c : Nat) : SameTree st (courier_notify st c) := by
  unfold courier_notify
  dsimp only
  split
  · exact ⟨rfl, rfl, fun _ => rfl, fun _ => rfl⟩
  · split
    · exact ⟨rfl, rfl, fun _ => rfl, fun _ => rfl⟩
    · exact SameTree.st_refl st

theorem sameTree_queue_insert_tail (st : State F) (c : Nat) (exp : Bool) (n : prop_notify_t F) :
    SameTree st (queue_insert_tail st c exp n) := by
  unfold queue_insert_tail
  cases exp <;> exact ⟨rfl, rfl, fun _ => rfl, fun _ => rfl⟩

theorem sameTree_courier_enqueue (st : State F) (s : Nat) (n : prop_notify_t F) :
    SameTree st (courier_enqueue st s n) :=
  (sameTree_queue_insert_tail st _ _ n).st_trans (sameTree_courier_notify _ _)

theorem sameTree_call_direct (st : State F) (n : prop_notify_t F) :
    SameTree st (call_direct st n) := ⟨rfl, rfl, fun _ => rfl, fun _ => rfl⟩

theorem sameTree_get_notify {st st' : State F} {s : Nat} (h : get_notify st s = .ok st') :
    SameTree st st' := by
  unfold get_notify at h
  split at h
  · cases h
  · cases h
    refine ⟨rfl, rfl, fun _ => rfl, fun q => ?_⟩
    by_cases hq : q = s
    · subst hq; simp
    · simp [hq]

@[simp] theorem courier_notify_log (st : State F) (c : Nat) :
    (courier_notify st c).log = st.log := by
  unfold courier_notify
  dsimp only
  split
  · rfl
  · split <;> rfl

@[simp] theorem queue_insert_tail_log (st : State F) (c : Nat) (exp : Bool)
    (n : prop_notify_t F) : (queue_insert_tail st c exp n).log = st.log ++ [.queued n] := by
  unfold queue_insert_tail
  cases exp <;> rfl

@[simp] theorem courier_enqueue_log (st : State F) (s : Nat) (n : prop_notify_t F) :
    (courier_enqueue st s n).log = st.log ++ [.queued n] := by
  simp [courier_enqueue]

theorem get_notify_log {st st' : State F} {s : Nat} (h : get_notify st s = .ok st') :
    st'.log = st.log := by
  unfold get_notify at h
  split at h
  · cases h
  · cases h; rfl

/-! ## What prop_notify_value delivers -/

theorem value_record_sameTree {a b : State F} (h : SameTree a b) (s p : Nat) (how : Int) :
    value_record b s p how = value_record a s p how := by
  unfold value_record
  rw [h.hps_flags s, h.u p]

theorem queued_value_args_ok (u : prop_value F) (how : Int) (hz : u.hp_type ≠ .PROP_ZOMBIE) :
    ∃ r, queued_value_args u how = .ok r := by
  cases u <;> simp [queued_value_args, prop_value.hp_type] at hz ⊢

theorem direct_value_args_ok (u : prop_value F) (how : Int) (hz : u.hp_type ≠ .PROP_ZOMBIE) :
    ∃ r, direct_value_args u how = .ok r := by
  cases u <;> simp [direct_value_args, prop_value.hp_type] at hz ⊢

theorem build_notify_value_ok (st : State F) (s p : Nat) (how : Int)
    (hz : (st.nodes p).hp_type ≠ .PROP_ZOMBIE) :
    ∃ st', prop_build_notify_value st s false p none how = .ok (st', none) ∧
      SameTree st st' ∧ st'.log = st.log ++ value_record st s p how := by
  unfold prop_build_notify_value value_record
  by_cases hi : (st.subs s).hps_flags.PROP_SUB_INTERNAL = true
  · obtain ⟨⟨ev, a⟩, hr⟩ := direct_value_args_ok (st.nodes p).u how hz
    simp only [hi, Bool.or_true, if_true, hr]
    exact ⟨_, rfl, sameTree_call_direct _ _, rfl⟩
  · have hg : get_notify st s = .ok (st.setSub s
        { st.subs s with hps_refcount := (st.subs s).hps_refcount + 1 }) := by
      simp [get_notify, hi]
    have hst := sameTree_get_notify hg
    have hu2 : ((prop_ref_inc (st.setSub s
        { st.subs s with hps_refcount := (st.subs s).hps_refcount + 1 }) p).nodes p).u
        = (st.nodes p).u := by
      rw [(sameTree_ref_inc _ p).u p, hst.u p]
    obtain ⟨⟨ev, a⟩, hr⟩ := queued_value_args_ok (st.nodes p).u how hz
    simp only [hi, Bool.or_false, Bool.false_eq_true, if_false, hg, hu2, hr]
    refine ⟨_, rfl, (hst.st_trans (sameTree_ref_inc _ p)).st_trans (sameTree_courier_enqueue _ _ _), ?_⟩
    simp [prop_ref_inc]

theorem notify_value_subs_ok (skipme : Option Nat) (how : Int) (p : Nat) :
    ∀ (l : List Nat) (st : State F),
      (∀ s ∈ l, some s ≠ skipme → (st.subs s).hps_value_prop = some p) →
      (st.nodes p).hp_type ≠ .PROP_ZOMBIE →
      ∃ st', notify_value_subs skipme how l st = .ok st' ∧ SameTree st st' ∧
        st'.log = st.log ++
          (l.filter fun s => some s ≠ skipme).flatMap fun s => value_record st s p how := by
  intro l
  induction l with
  | nil => intro st _ _; exact ⟨st, rfl, SameTree.st_refl st, by simp⟩
  | cons s rest ih =>
    intro st hv hz
    by_cases hs : some s = skipme
    · obtain ⟨st', h1, h2, h3⟩ := ih st (fun t ht => hv t (List.mem_cons_of_mem _ ht)) hz
      refine ⟨st', ?_, h2, ?_⟩
      · simp [notify_value_subs, hs, h1]
      · simp [hs, h3]
    · have hvs := hv s (List.mem_cons_self _ _) hs
      obtain ⟨st1, hb, hsame, hlog⟩ := build_notify_value_ok st s p how hz
      have hz1 : (st1.nodes p).hp_type ≠ .PROP_ZOMBIE := by rw [hsame.hp_type p]; exact hz
      obtain ⟨st', h1, h2, h3⟩ := ih st1
        (fun t ht hne => by
          rw [hsame.hps_value_prop t]; exact hv t (List.mem_cons_of_mem _ ht) hne) hz1
      refine ⟨st', ?_, hsame.st_trans h2, ?_⟩
      · simp [notify_value_subs, hs, hvs, hb, h1]
      · rw [h3, hlog]
        have : (fun s => value_record st1 s p how) = fun s => value_record st s p how := by
          funext t; exact value_record_sameTree hsame t p how
        simp [hs, this, List.append_assoc]

theorem notify_multi_subs_ok (q : Nat) :
    ∀ (l : List Nat) (st : State F), (st.nodes q).hp_type ≠ .PROP_ZOMBIE →
      ∃ st', notify_multi_subs q l st = .ok st' ∧ SameTree st st' ∧
        st'.log = st.log ++
          (l.filter fun s => (st.subs s).hps_flags.PROP_SUB_MULTI).flatMap
            fun s => value_record st s q 0 := by
  intro l
  induction l with
  | nil => intro st _; exact ⟨st, rfl, SameTree.st_refl st, by simp⟩
  | cons s rest ih =>
    intro st hz
    by_cases hs : (st.subs s).hps_flags.PROP_SUB_MULTI = true
    · obtain ⟨st1, hb, hsame, hlog⟩ := build_notify_value_ok st s q 0 hz
      have hz1 : (st1.nodes q).hp_type ≠ .PROP_ZOMBIE := by rw [hsame.hp_type q]; exact hz
      obtain ⟨st', h1, h2, h3⟩ := ih st1 hz1
      refine ⟨st', ?_, hsame.st_trans h2, ?_⟩
      · simp [notify_multi_subs, hs, hb, h1]
      · rw [h3, hlog]
        have e1 : (fun s => value_record st1 s q 0) = fun s => value_record st s q 0 := by
          funext t; exact value_record_sameTree hsame t q 0
        have e2 : (fun s => (st1.subs s).hps_flags.PROP_SUB_MULTI)
            = fun s => (st.subs s).hps_flags.PROP_SUB_MULTI := by
          funext t; rw [hsame.hps_flags t]
        simp [hs, e1, e2, List.append_assoc]
    · obtain ⟨st', h1, h2, h3⟩ := ih st hz
      refine ⟨st', ?_, h2, ?_⟩
      · simp [notify_multi_subs, hs, h1]
      · simp [hs, h3]

theorem prop_ancestors_sameTree {a b : State F} (h : SameTree a b) :
    ∀ (fuel p : Nat), prop_ancestors fuel b p = prop_ancestors fuel a p := by
  intro fuel
  induction fuel with
  | zero => intro p; rfl
  | succ n ih =>
    intro p
    simp only [prop_ancestors, h.hp_parent p]
    cases (a.nodes p).hp_parent with
    | none => rfl
    | some q => simp only [ih q]

theorem multi_records_sameTree {a b : State F} (h : SameTree a b) (l : List Nat) :
    multi_records b l = multi_records a l := by
  unfold multi_records
  have e1 : ∀ q, (fun s => value_record b s q 0) = fun s => value_record a s q 0 := by
    intro q; funext t; exact value_record_sameTree h t q 0
  have e2 : (fun s => (b.subs s).hps_flags.PROP_SUB_MULTI)
      = fun s => (a.subs s).hps_flags.PROP_SUB_MULTI := by
    funext t; rw [h.hps_flags t]
  congr 1
  funext q
  rw [h.hp_flags q, h.hp_value_subscriptions q, e1 q, e2]

theorem notify_multi_walk_ok :
    ∀ (fuel : Nat) (st : State F) (p : Nat) (l : List Nat),
      prop_ancestors fuel st p = some l →
      (∀ q ∈ l, (st.nodes q).hp_type ≠ .PROP_ZOMBIE) →
      ∃ st', notify_multi_walk fuel st p = .ok st' ∧ SameTree st st' ∧
        st'.log = st.log ++ multi_records st l := by
  intro fuel
  induction fuel with
  | zero => intro st p l h; simp [prop_ancestors] at h
  | succ n ih =>
    intro st p l h hz
    cases hp : (st.nodes p).hp_parent with
    | none =>
      simp only [prop_ancestors, hp] at h
      cases h
      exact ⟨st, by simp [notify_multi_walk, hp], SameTree.st_refl st, by simp [multi_records]⟩
    | some q =>
      cases ha : prop_ancestors n st q with
      | none => simp [prop_ancestors, hp, ha] at h
      | some l' =>
        simp only [prop_ancestors, hp, ha] at h
        cases h
        have hzq := hz q (List.mem_cons_self _ _)
        by_cases hm : (st.nodes q).hp_flags.PROP_MULTI_SUB = true
        · obtain ⟨st1, h1, hs1, hl1⟩ :=
            notify_multi_subs_ok q (st.nodes q).hp_value_subscriptions st hzq
          have ha1 : prop_ancestors n st1 q = some l' := by
            rw [prop_ancestors_sameTree hs1]; exact ha
          obtain ⟨st', h2, hs2, hl2⟩ := ih st1 q l' ha1
            (fun r hr => by rw [hs1.hp_type r]; exact hz r (List.mem_cons_of_mem _ hr))
          refine ⟨st', ?_, hs1.st_trans hs2, ?_⟩
          · simp [notify_multi_walk, hp, hm, h1, h2]
          · rw [hl2, hl1, multi_records_sameTree hs1]
            simp [multi_records, hm, List.append_assoc]
        · obtain ⟨st', h2, hs2, hl2⟩ := ih st q l' ha
            (fun r hr => hz r (List.mem_cons_of_mem _ hr))
          refine ⟨st', ?_, hs2, ?_⟩
          · simp [notify_multi_walk, hp, hm, h2]
          · rw [hl2]
            simp [multi_records, hm]

theorem prop_notify_value_ok (st : State F) (p : Nat) (skipme : Option Nat) (how : Int)
    (hz : (st.nodes p).hp_type ≠ .PROP_ZOMBIE) (hn : NotifyOk st p skipme) :
    ∃ st', prop_notify_value st p skipme how = .ok st' ∧ SameTree st st' ∧
      st'.log = st.log ++ notify_records st p skipme how := by
  obtain ⟨hv, hm⟩ := hn
  obtain ⟨st1, h1, hs1, hl1⟩ :=
    notify_value_subs_ok skipme how p (st.nodes p).hp_value_subscriptions st hv hz
  by_cases hf : (st.nodes p).hp_flags.PROP_MULTI_NOTIFY = true
  · obtain ⟨l, ha, hzl⟩ := hm hf
    have ha1 : prop_ancestors (st1.nnodes + 1) st1 p = some l := by
      rw [prop_ancestors_sameTree hs1, hs1.1]; exact ha
    obtain ⟨st', h2, hs2, hl2⟩ := notify_multi_walk_ok (st1.nnodes + 1) st1 p l ha1
      (fun r hr => by rw [hs1.hp_type r]; exact hzl r hr)
    refine ⟨st', ?_, hs1.st_trans hs2, ?_⟩
    · simp [prop_notify_value, h1, hs1.hp_flags p, hf, h2]
    · rw [hl2, hl1, multi_records_sameTree hs1]
      simp [notify_records, multi_part, value_records, hf, ha, List.append_assoc]
  · refine ⟨st1, ?_, hs1, ?_⟩
    · simp [prop_notify_value, h1, hs1.hp_flags p, hf]
    · rw [hl1]
      simp [notify_records, multi_part, value_records, hf]

/-! ## Typed setters -/

theorem prop_ancestors_congr {a b : State F}
    (h : ∀ q, (b.nodes q).hp_parent = (a.nodes q).hp_parent) :
    ∀ (fuel p : Nat), prop_ancestors fuel b p = prop_ancestors fuel a p := by
  intro fuel
  induction fuel with
  | zero => intro p; rfl
  | succ n ih =>
    intro p
    simp only [prop_ancestors, h p]
    cases (a.nodes p).hp_parent with
    | none => rfl
    | some q => simp only [ih q]

theorem NotifyOk.setNode {st : State F} {p : Nat} {skipme : Option Nat}
    (h : NotifyOk st p skipme) (nd : prop_t F)
    (h1 : nd.hp_value_subscriptions = (st.nodes p).hp_value_subscriptions)
    (h2 : nd.hp_parent = (st.nodes p).hp_parent)
    (h3 : nd.hp_flags.PROP_MULTI_NOTIFY = (st.nodes p).hp_flags.PROP_MULTI_NOTIFY)
    (h4 : nd.hp_type ≠ .PROP_ZOMBIE) : NotifyOk (st.setNode p nd) p skipme := by
  obtain ⟨hv, hm⟩ := h
  constructor
  · intro s hs hne
    simp only [setNode_nodes, if_true, h1] at hs
    simpa using hv s hs hne
  · intro hf
    simp only [setNode_nodes, if_true, h3] at hf
    obtain ⟨l, ha, hz⟩ := hm hf
    refine ⟨l, ?_, ?_⟩
    · rw [setNode_nnodes, prop_ancestors_congr (a := st)]
      · exact ha
      · intro q
        by_cases hq : q = p
        · subst hq; simp [h2]
        · simp [hq]
    · intro q hq
      by_cases hqp : q = p
      · subst hqp; simpa using h4
      · simpa [hqp] using hz q hq

theorem NotifyOk.setU {st : State F} {p : Nat} {skipme : Option Nat}
    (h : NotifyOk st p skipme) (v : prop_value F) (hv : v.hp_type ≠ .PROP_ZOMBIE) :
    NotifyOk (st.setU p v) p skipme :=
  h.setNode _ rfl rfl rfl hv

/-- Writing the union of p and then notifying: the run returns, p holds the written value,
  and the log grows by the deliveries of prop_notify_value. -/
theorem setU_notify_ok (st : State F) (p : Nat) (skipme : Option Nat) (how : Int)
    (v : prop_value F) (hv : v.hp_type ≠ .PROP_ZOMBIE) (hn : NotifyOk st p skipme) :
    ∃ st', prop_notify_value (st.setU p v) p skipme how = .ok st' ∧
      SameTree (st.setU p v) st' ∧ (st'.nodes p).u = v ∧
      st'.log = st.log ++ notify_records (st.setU p v) p skipme how := by
  have hz : ((st.setU p v).nodes p).hp_type ≠ .PROP_ZOMBIE := by
    simpa [prop_t.hp_type] using hv
  obtain ⟨st', h1, h2, h3⟩ := prop_notify_value_ok (st.setU p v) p skipme how hz (hn.setU v hv)
  exact ⟨st', h1, h2, by rw [h2.u p]; simp, by simpa using h3⟩

/-! ## Whatever it delivers, a notification changes reference counts, queues and log only -/

theorem sameTree_of_build_notify_value {st st' : State F} {s p : Nat} {direct : Bool}
    {pnq pnq' : Option (List (prop_notify_t F))} {how : Int}
    (h : prop_build_notify_value st s direct p pnq how = .ok (st', pnq')) : SameTree st st' := by
  unfold prop_build_notify_value at h
  split at h
  · split at h
    · cases h
    · cases h; exact sameTree_call_direct _ _
  · split at h
    · cases h
    · next st1 hg =>
      have hst := sameTree_get_notify hg
      dsimp only at h
      split at h
      · cases h
      · split at h
        · cases h; exact hst.st_trans (sameTree_ref_inc _ p)
        · cases h
          exact (hst.st_trans (sameTree_ref_inc _ p)).st_trans (sameTree_courier_enqueue _ _ _)

theorem sameTree_of_notify_value_subs (skipme : Option Nat) (how : Int) :
    ∀ (l : List Nat) (st st' : State F), notify_value_subs skipme how l st = .ok st' →
      SameTree st st' := by
  intro l
  induction l with
  | nil => intro st st' h; cases h; exact SameTree.st_refl _
  | cons s rest ih =>
    intro st st' h
    unfold notify_value_subs at h
    split at h
    · exact ih st st' h
    · split at h
      · cases h
      · split at h
        · cases h
        · next st1 _ hb => exact (sameTree_of_build_notify_value hb).st_trans (ih st1 st' h)

theorem sameTree_of_notify_multi_subs (q : Nat) :
    ∀ (l : List Nat) (st st' : State F), notify_multi_subs q l st = .ok st' →
      SameTree st st' := by
  intro l
  induction l with
  | nil => intro st st' h; cases h; exact SameTree.st_refl _
  | cons s rest ih =>
    intro st st' h
    unfold notify_multi_subs at h
    split at h
    · split at h
      · cases h
      · next st1 _ hb => exact (sameTree_of_build_notify_value hb).st_trans (ih st1 st' h)
    · exact ih st st' h

theorem sameTree_of_notify_multi_walk :
    ∀ (fuel : Nat) (st st' : State F) (p : Nat), notify_multi_walk fuel st p = .ok st' →
      SameTree st st' := by
  intro fuel
  induction fuel with
  | zero => intro st st' p h; cases h
  | succ n ih =>
    intro st st' p h
    unfold notify_multi_walk at h
    split at h
    · cases h; exact SameTree.st_refl _
    · split at h
      · split at h
        · cases h
        · next st1 hm => exact (sameTree_of_notify_multi_subs _ _ _ _ hm).st_trans (ih st1 st' _ h)
      · exact ih st st' _ h

theorem sameTree_of_prop_notify_value {st st' : State F} {p : Nat} {skipme : Option Nat}
    {how : Int} (h : prop_notify_value st p skipme how = .ok st') : SameTree st st' := by
  unfold prop_notify_value at h
  split at h
  · cases h
  · next st1 h1 =>
    have hs1 := sameTree_of_notify_value_subs _ _ _ _ _ h1
    split at h
    · exact hs1.st_trans (sameTree_of_notify_multi_walk _ _ _ _ h)
    · cases h; exact hs1

theorem sameTree_of_build_notify_child {st st' : State F} {s : Nat} {p : Option Nat}
    {event : prop_event_t} {direct : Bool} {flags : Int}
    (h : prop_build_notify_child st s p event direct flags = .ok st') : SameTree st st' := by
  unfold prop_build_notify_child at h
  split at h
  · cases h; exact sameTree_call_direct _ _
  · split at h
    · cases h
    · next st1 hg =>
      have hst := sameTree_get_notify hg
      cases h
      cases p with
      | none => exact hst.st_trans (sameTree_courier_enqueue _ _ _)
      | some q =>
        exact (hst.st_trans (sameTree_ref_inc _ q)).st_trans (sameTree_courier_enqueue _ _ _)

theorem sameTree_of_prop_notify_child (child : Option Nat) (event : prop_event_t)
    (skipme : Option Nat) (flags : Int) :
    ∀ (l : List Nat) (st st' : State F),
      prop_notify_child child event skipme flags l st = .ok st' → SameTree st st' := by
  intro l
  induction l with
  | nil => intro st st' h; cases h; exact SameTree.st_refl _
  | cons s rest ih =>
    intro st st' h
    unfold prop_notify_child at h
    split at h
    · exact ih st st' h
    · split at h
      · cases h
      · next st1 hb => exact (sameTree_of_build_notify_child hb).st_trans (ih st1 st' h)

theorem sameTree_of_build_notify_child2 {st st' : State F} {s p : Nat} {extra : Option Nat}
    {event : prop_event_t} {direct : Bool} {flags : Int}
    (h : prop_build_notify_child2 st s p extra event direct flags = .ok st') :
    SameTree st st' := by
  unfold prop_build_notify_child2 at h
  split at h
  · cases h; exact sameTree_call_direct _ _
  · split at h
    · cases h
    · next st1 hg =>
      have hst := sameTree_get_notify hg
      cases h
      cases extra with
      | none =>
        exact (hst.st_trans (sameTree_ref_inc _ p)).st_trans (sameTree_courier_enqueue _ _ _)
      | some q =>
        exact ((hst.st_trans (sameTree_ref_inc _ p)).st_trans (sameTree_ref_inc _ q)).st_trans
          (sameTree_courier_enqueue _ _ _)

theorem sameTree_of_prop_notify_child2 (child : Nat) (sibling : Option Nat)
    (event : prop_event_t) (skipme : Option Nat) (flags : Int) :
    ∀ (l : List Nat) (st st' : State F),
      prop_notify_child2 child sibling event skipme flags l st = .ok st' → SameTree st st' := by
  intro l
  induction l with
  | nil => intro st st' h; cases h; exact SameTree.st_refl _
  | cons s rest ih =>
    intro st st' h
    unfold prop_notify_child2 at h
    split at h
    · exact ih st st' h
    · split at h
      · cases h
      · next st1 hb => exact (sameTree_of_build_notify_child2 hb).st_trans (ih st1 st' h)

@[simp] theorem setChilds_nnodes (st : State F) (p : Nat) (cs : List Nat) :
    (st.setChilds p cs).nnodes = st.nnodes := by
  unfold State.setChilds; split <;> rfl

@[simp] theorem setChilds_subs (st : State F) (p : Nat) (cs : List Nat) :
    (st.setChilds p cs).subs = st.subs := by
  unfold State.setChilds; split <;> rfl

@[simp] theorem setChilds_log (st : State F) (p : Nat) (cs : List Nat) :
    (st.setChilds p cs).log = st.log := by
  unfold State.setChilds; split <;> rfl

theorem setChilds_nodes_ne (st : State F) (p q : Nat) (cs : List Nat) (h : q ≠ p) :
    (st.setChilds p cs).nodes q = st.nodes q := by
  unfold State.setChilds; split <;> simp [h]

/-- On a node that is not a directory prop_flood_flag changes the flags of that node only. -/
theorem prop_flood_flag_leaf (fuel : Nat) (st : State F) (p : Nat) (set clr : PropFlags)
    (h : (st.nodes p).hp_type ≠ .PROP_DIR) :
    prop_flood_flag (fuel + 1) st p set clr = .ok (st.setNode p
      { st.nodes p with hp_flags := ((st.nodes p).hp_flags.or set).andNot clr }) := by
  unfold prop_flood_flag
  cases hu : (st.nodes p).u <;>
    simp [hu, prop_t.hp_type, prop_value.hp_type] at h ⊢

/-! ## C1: prop_set_int -/

/-- C1 (amended): for every non-zombie node p that is not a directory (CLIPPED_VALUE being
  set on int and float nodes only) and every integer v, set_int(p, v) returns and leaves p
  an int node; the stored value is v when CLIPPED_VALUE is not set on p, and on an int node
  with CLIPPED_VALUE set it is v when p already holds v and otherwise v clamped by
  `if(v > max) v = max; if(v < min) v = min`. -/
theorem prop_set_int_kind_and_value [CFloat F] (st : State F) (p : Nat) (skipme : Option Nat)
    (v : Int) (hz : (st.nodes p).hp_type ≠ .PROP_ZOMBIE)
    (hd : (st.nodes p).hp_type ≠ .PROP_DIR)
    (hc : (st.nodes p).hp_flags.PROP_CLIPPED_VALUE = true →
      (st.nodes p).hp_type = .PROP_INT ∨ (st.nodes p).hp_type = .PROP_FLOAT)
    (hn : NotifyOk st p skipme) :
    ∃ st', prop_set_int_ex st (some p) skipme v = .ok st' ∧
      (st'.nodes p).hp_type = .PROP_INT ∧
      ((st.nodes p).hp_flags.PROP_CLIPPED_VALUE = false → (st'.nodes p).u.hp_int = v) ∧
      (∀ old min max, (st.nodes p).u = .PROP_INT old min max →
        (st.nodes p).hp_flags.PROP_CLIPPED_VALUE = true →
        (st'.nodes p).u.hp_int = if old = v then v else clip_int v min max) := by
  have key : ∀ w : prop_value F, w.hp_type = .PROP_INT →
      ∃ st', prop_notify_value (st.setU p w) p skipme 0 = .ok st' ∧ (st'.nodes p).u = w := by
    intro w hw
    obtain ⟨st', h1, _, h3, _⟩ := setU_notify_ok st p skipme 0 w (by rw [hw]; decide) hn
    exact ⟨st', h1, h3⟩
  cases hu : (st.nodes p).u with
  | PROP_ZOMBIE => simp [prop_t.hp_type, hu, prop_value.hp_type] at hz
  | PROP_DIR cs sel => simp [prop_t.hp_type, hu, prop_value.hp_type] at hd
  | PROP_INT val mn mx =>
    by_cases hv : val = v
    · subst hv
      refine ⟨st, by simp [prop_set_int_ex, prop_set_int_exl, hu],
        by simp [prop_t.hp_type, hu, prop_value.hp_type], ?_, ?_⟩
      · intro _; simp [hu, prop_value.hp_int]
      · intro old min max he _
        cases he
        simp [hu, prop_value.hp_int]
    · by_cases hcl : (st.nodes p).hp_flags.PROP_CLIPPED_VALUE = true
      · obtain ⟨st', h1, h2⟩ := key (.PROP_INT (clip_int v mn mx) mn mx) rfl
        refine ⟨st', by simp [prop_set_int_ex, prop_set_int_exl, hu, hv, hcl, h1],
          by simp [prop_t.hp_type, h2, prop_value.hp_type], ?_, ?_⟩
        · intro hf; rw [hcl] at hf; cases hf
        · intro old min max he _
          cases he
          simp [h2, prop_value.hp_int, hv]
      · obtain ⟨st', h1, h2⟩ := key (.PROP_INT v mn mx) rfl
        refine ⟨st', by simp [prop_set_int_ex, prop_set_int_exl, hu, hv, hcl, h1],
          by simp [prop_t.hp_type, h2, prop_value.hp_type], ?_, ?_⟩
        · intro _; simp [h2, prop_value.hp_int]
        · intro old min max _ hf; exact absurd hf hcl
  | PROP_FLOAT val mn mx =>
    obtain ⟨st', h1, h2⟩ := key
      ((prop_float_to_int (.PROP_FLOAT val mn mx)).set_hp_int v) rfl
    refine ⟨st', by simp [prop_set_int_ex, prop_set_int_exl, hu, h1],
      by simp [prop_t.hp_type, h2, prop_value.hp_type, prop_float_to_int,
        prop_value.set_hp_int], ?_, ?_⟩
    · intro _; simp [h2, prop_value.hp_int, prop_float_to_int, prop_value.set_hp_int]
    · intro old min max he; cases he
  | PROP_VOID =>
    have hcf : prop_clean (st.nodes p) = false := by
      cases hcl : (st.nodes p).hp_flags.PROP_CLIPPED_VALUE with
      | true => have := hc hcl; simp [prop_t.hp_type, hu, prop_value.hp_type] at this
      | false => simp [prop_clean, hcl, hu]
    obtain ⟨st', h1, h2⟩ := key (.PROP_INT v 0 0) rfl
    refine ⟨st', by simp [prop_set_int_ex, prop_set_int_exl, hu, hcf, h1],
      by simp [prop_t.hp_type, h2, prop_value.hp_type], ?_, ?_⟩
    · intro _; simp [h2, prop_value.hp_int]
    · intro old min max he; cases he
  | PROP_RSTRING s t =>
    have hcf : prop_clean (st.nodes p) = false := by
      cases hcl : (st.nodes p).hp_flags.PROP_CLIPPED_VALUE with
      | true => have := hc hcl; simp [prop_t.hp_type, hu, prop_value.hp_type] at this
      | false => simp [prop_clean, hcl, hu]
    obtain ⟨st', h1, h2⟩ := key (.PROP_INT v 0 0) rfl
    refine ⟨st', by simp [prop_set_int_ex, prop_set_int_exl, hu, hcf, h1],
      by simp [prop_t.hp_type, h2, prop_value.hp_type], ?_, ?_⟩
    · intro _; simp [h2, prop_value.hp_int]
    · intro old min max he; cases he
  | PROP_CSTRING s =>
    have hcf : prop_clean (st.nodes p) = false := by
      cases hcl : (st.nodes p).hp_flags.PROP_CLIPPED_VALUE with
      | true => have := hc hcl; simp [prop_t.hp_type, hu, prop_value.hp_type] at this
      | false => simp [prop_clean, hcl, hu]
    obtain ⟨st', h1, h2⟩ := key (.PROP_INT v 0 0) rfl
    refine ⟨st', by simp [prop_set_int_ex, prop_set_int_exl, hu, hcf, h1],
      by simp [prop_t.hp_type, h2, prop_value.hp_type], ?_, ?_⟩
    · intro _; simp [h2, prop_value.hp_int]
    · intro old min max he; cases he
  | PROP_LINK t l =>
    have hcf : prop_clean (st.nodes p) = false := by
      cases hcl : (st.nodes p).hp_flags.PROP_CLIPPED_VALUE with
      | true => have := hc hcl; simp [prop_t.hp_type, hu, prop_value.hp_type] at this
      | false => simp [prop_clean, hcl, hu]
    obtain ⟨st', h1, h2⟩ := key (.PROP_INT v 0 0) rfl
    refine ⟨st', by simp [prop_set_int_ex, prop_set_int_exl, hu, hcf, h1],
      by simp [prop_t.hp_type, h2, prop_value.hp_type], ?_, ?_⟩
    · intro _; simp [h2, prop_value.hp_int]
    · intro old min max he; cases he

/-- Witness for C1: on the clipped int node holding 7 with range 5..10, set_int(p, 100)
  stores the clamped value. -/
theorem prop_set_int_kind_and_value_witness :
    ∃ st', prop_set_int_ex ex_clip (some 0) none 100 = .ok st' ∧
      (st'.nodes 0).hp_type = .PROP_INT ∧
      ((ex_clip.nodes 0).hp_flags.PROP_CLIPPED_VALUE = false → (st'.nodes 0).u.hp_int = 100) ∧
      (∀ old min max, (ex_clip.nodes 0).u = .PROP_INT old min max →
        (ex_clip.nodes 0).hp_flags.PROP_CLIPPED_VALUE = true →
        (st'.nodes 0).u.hp_int = if old = 100 then 100 else clip_int 100 min max) :=
  prop_set_int_kind_and_value ex_clip 0 none 100 (by decide) (by decide)
    (fun _ => Or.inl (by decide)) ⟨by decide, fun h => absurd h (by decide)⟩

/-- Counterexample to C1 as stated: the root of `ex_dir` is a live directory, and
  set_int(root, 5) leaves it a directory with its child. -/
theorem prop_set_int_on_dir_counterexample :
    (ex_dir.nodes 0).hp_type = .PROP_DIR ∧
    (node_after (prop_set_int_ex ex_dir (some 0) none 5) 0).map (fun nd => nd.u)
      = some (.PROP_DIR [1] none) := by
  decide

/-! ## C6: prop_create0 on a directory -/

theorem child_record_sameTree {a b : State F} (h : SameTree a b) (s : Nat) (p : Option Nat)
    (event : prop_event_t) (flags : Int) :
    child_record b s p event flags = child_record a s p event flags := by
  unfold child_record
  rw [h.hps_flags s]

theorem build_notify_child_ok (st : State F) (s : Nat) (p : Option Nat) (event : prop_event_t)
    (flags : Int) :
    ∃ st', prop_build_notify_child st s p event false flags = .ok st' ∧
      SameTree st st' ∧ st'.log = st.log ++ [child_record st s p event flags] := by
  unfold prop_build_notify_child child_record
  by_cases hi : (st.subs s).hps_flags.PROP_SUB_INTERNAL = true
  · simp only [hi, Bool.or_true, if_true]
    exact ⟨_, rfl, sameTree_call_direct _ _, rfl⟩
  · have hg : get_notify st s = .ok (st.setSub s
        { st.subs s with hps_refcount := (st.subs s).hps_refcount + 1 }) := by
      simp [get_notify, hi]
    have hst := sameTree_get_notify hg
    simp only [hi, Bool.or_false, Bool.false_eq_true, if_false, hg]
    cases p with
    | none =>
      exact ⟨_, rfl, hst.st_trans (sameTree_courier_enqueue _ _ _), by simp⟩
    | some q =>
      exact ⟨_, rfl, (hst.st_trans (sameTree_ref_inc _ q)).st_trans (sameTree_courier_enqueue _ _ _),
        by simp [prop_ref_inc]⟩

theorem notify_child_ok (child : Option Nat) (event : prop_event_t) (skipme : Option Nat)
    (flags : Int) :
    ∀ (l : List Nat) (st : State F),
      ∃ st', prop_notify_child child event skipme flags l st = .ok st' ∧ SameTree st st' ∧
        st'.log = st.log ++ child_records st l child event skipme flags := by
  intro l
  induction l with
  | nil => intro st; exact ⟨st, rfl, SameTree.st_refl st, by simp [child_records]⟩
  | cons s rest ih =>
    intro st
    by_cases hs : some s = skipme
    · obtain ⟨st', h1, h2, h3⟩ := ih st
      refine ⟨st', by simp [prop_notify_child, hs, h1], h2, ?_⟩
      simpa [child_records, hs] using h3
    · obtain ⟨st1, hb, hsame, hlog⟩ := build_notify_child_ok st s child event flags
      obtain ⟨st', h1, h2, h3⟩ := ih st1
      refine ⟨st', by simp [prop_notify_child, hs, hb, h1], hsame.st_trans h2, ?_⟩
      rw [h3, hlog]
      have e : (fun s => child_record st1 s child event flags)
          = fun s => child_record st s child event flags := by
        funext t; exact child_record_sameTree hsame t child event flags
      simp [child_records, hs, e, List.append_assoc]

theorem find_child_by_name_congr {a b : State F} (name : String) :
    ∀ (cs : List Nat), (∀ c ∈ cs, (b.nodes c).hp_name = (a.nodes c).hp_name) →
      find_child_by_name b cs name = find_child_by_name a cs name := by
  intro cs
  induction cs with
  | nil => intro _; rfl
  | cons c rest ih =>
    intro h
    have hc := h c (List.mem_cons_self _ _)
    have hr := ih (fun d hd => h d (List.mem_cons_of_mem _ hd))
    unfold find_child_by_name at hr ⊢
    simp only [List.find?, hc, hr]

theorem find_child_by_name_some {st : State F} {cs : List Nat} {name : String} {c : Nat}
    (h : find_child_by_name st cs name = some c) :
    c ∈ cs ∧ (st.nodes c).hp_name = some name := by
  unfold find_child_by_name at h
  exact ⟨List.mem_of_find?_eq_some h, by simpa using List.find?_some h⟩

theorem find_child_by_name_append_new {st : State F} {cs : List Nat} {name : String} {c : Nat}
    (h : find_child_by_name st cs name = none) (hc : (st.nodes c).hp_name = some name) :
    find_child_by_name st (cs ++ [c]) name = some c := by
  unfold find_child_by_name at h ⊢
  simp [List.find?_append, h, hc]

theorem hp_childs_of_u {nd : prop_t F} {cs : List Nat} {sel : Option Nat}
    (h : nd.u = .PROP_DIR cs sel) : nd.hp_childs = cs := by
  simp [prop_t.hp_childs, h]

theorem hp_type_of_dir {nd : prop_t F} {cs : List Nat} {sel : Option Nat}
    (h : nd.u = .PROP_DIR cs sel) : nd.hp_type = .PROP_DIR := by
  simp [prop_t.hp_type, h, prop_value.hp_type]

theorem SameTree.hp_childs {a b : State F} (h : SameTree a b) (q : Nat) :
    (b.nodes q).hp_childs = (a.nodes q).hp_childs := by
  unfold prop_t.hp_childs; rw [h.u q]

/-- The creating branch of prop_create0 on a directory: the fresh node is node `nnodes`. -/
theorem prop_create0_new (st : State F) (parent : Nat) (name : Option String)
    (skipme : Option Nat) (noalloc : Bool) (cs : List Nat) (sel : Option Nat)
    (hu : (st.nodes parent).u = .PROP_DIR cs sel) (hp : parent < st.nnodes)
    (hf : name.bind (find_child_by_name st cs) = none) :
    ∃ st', prop_create0 st parent name skipme noalloc = .ok (st', st.nnodes) ∧
      st'.nnodes = st.nnodes + 1 ∧
      (st'.nodes parent).u = .PROP_DIR (cs ++ [st.nnodes]) sel ∧
      (st'.nodes st.nnodes).u = .PROP_VOID ∧
      (st'.nodes st.nnodes).hp_name = name ∧
      (st'.nodes st.nnodes).hp_parent = some parent ∧
      (st'.nodes st.nnodes).hp_value_subscriptions = [] ∧
      (∀ q, q ≠ parent → q ≠ st.nnodes →
        st'.nodes q = { st.nodes q with hp_refcount := (st'.nodes q).hp_refcount }) ∧
      (st'.nodes parent) = { st.nodes parent with
        hp_refcount := (st'.nodes parent).hp_refcount, u := .PROP_DIR (cs ++ [st.nnodes]) sel } ∧
      (∀ s, st'.subs s = { st.subs s with hps_refcount := (st'.subs s).hps_refcount }) ∧
      st'.log = st.log ++ child_records st (st.nodes parent).hp_value_subscriptions
        (some st.nnodes) .PROP_ADD_CHILD skipme 0 ∧
      ((st.nodes parent).hp_flags.PROP_MULTI_SUB = false →
        (st.nodes parent).hp_flags.PROP_MULTI_NOTIFY = false →
        (st'.nodes st.nnodes).hp_flags = { PROP_NAME_NOT_ALLOCATED := noalloc }) := by
  have hne : parent ≠ st.nnodes := Nat.ne_of_lt hp
  have hty := hp_type_of_dir hu
  have hcs := hp_childs_of_u hu
  -- the state after prop_make
  obtain ⟨st2, hst2⟩ : ∃ st2, st2 = (prop_make st name noalloc (some parent)).1 := ⟨_, rfl⟩
  have h2n : st2.nnodes = st.nnodes + 1 := by rw [hst2]; rfl
  have h2new : st2.nodes st.nnodes =
      { hp_name := name, hp_flags := { PROP_NAME_NOT_ALLOCATED := noalloc },
        hp_refcount := 1, hp_xref := 1, hp_parent := some parent } := by
    rw [hst2]; simp [prop_make]
  have h2old : ∀ q, q ≠ st.nnodes → st2.nodes q = st.nodes q := by
    intro q hq; rw [hst2]; simp [prop_make, hq]
  have h2subs : st2.subs = st.subs := by rw [hst2]; rfl
  have h2log : st2.log = st.log := by rw [hst2]; rfl
  -- the state after the optional prop_flood_flag
  obtain ⟨st3, hfl, h3n, h3new, h3old, h3subs, h3log⟩ : ∃ st3,
      (if (st2.nodes parent).hp_flags.PROP_MULTI_SUB
            || (st2.nodes parent).hp_flags.PROP_MULTI_NOTIFY then
          prop_flood_flag (st2.nnodes + 1) st2 st.nnodes PROP_MULTI_NOTIFY {}
        else .ok st2) = .ok st3 ∧ st3.nnodes = st.nnodes + 1 ∧
      ((st3.nodes st.nnodes).u = .PROP_VOID ∧ (st3.nodes st.nnodes).hp_name = name ∧
        (st3.nodes st.nnodes).hp_parent = some parent ∧
        (st3.nodes st.nnodes).hp_value_subscriptions = [] ∧
        ((st.nodes parent).hp_flags.PROP_MULTI_SUB = false →
          (st.nodes parent).hp_flags.PROP_MULTI_NOTIFY = false →
          (st3.nodes st.nnodes).hp_flags = { PROP_NAME_NOT_ALLOCATED := noalloc })) ∧
      (∀ q, q ≠ st.nnodes → st3.nodes q = st.nodes q) ∧ st3.subs = st.subs ∧
      st3.log = st.log := by
    split
    · next hcond =>
      refine ⟨st2.setNode st.nnodes { st2.nodes st.nnodes with
          hp_flags := ((st2.nodes st.nnodes).hp_flags.or PROP_MULTI_NOTIFY).andNot {} }, ?_,
        ?_, ?_, ?_, ?_, ?_⟩
      · simp [prop_flood_flag, h2new]
      · simpa using h2n
      · refine ⟨by simp [h2new], by simp [h2new], by simp [h2new], by simp [h2new], ?_⟩
        intro f1 f2
        rw [h2old parent hne, f1, f2] at hcond
        cases hcond
      · intro q hq; simp [hq, h2old q hq]
      · simpa using h2subs
      · simpa using h2log
    · exact ⟨st2, rfl, h2n, by simp [h2new], h2old, h2subs, h2log⟩
  -- prop_insert at the tail
  have h3par : st3.nodes parent = st.nodes parent := h3old parent hne
  obtain ⟨st4, hst4⟩ : ∃ st4, st4 = st3.setChilds parent ((st3.nodes parent).hp_childs ++
      [st.nnodes]) := ⟨_, rfl⟩
  have h4eq : st4 = st3.setU parent (.PROP_DIR (cs ++ [st.nnodes]) sel) := by
    rw [hst4]; simp [State.setChilds, h3par, hu, hcs]
  obtain ⟨st', hn1, hn2, hn3⟩ := notify_child_ok (some st.nnodes) .PROP_ADD_CHILD skipme 0
    (st4.nodes parent).hp_value_subscriptions st4
  have h4par : st4.nodes parent
      = { st.nodes parent with u := .PROP_DIR (cs ++ [st.nnodes]) sel } := by
    rw [h4eq]; simp [h3par]
  have h4new : st4.nodes st.nnodes = st3.nodes st.nnodes := by
    rw [h4eq]; simp [Ne.symm hne]
  refine ⟨st', ?_, ?_, ?_, ?_, ?_, ?_, ?_, ?_, ?_, ?_, ?_, ?_⟩
  · unfold prop_create0
    have hnz : ¬ (st.nodes parent).hp_type = .PROP_ZOMBIE := by rw [hty]; decide
    have hmd : prop_make_dir st parent skipme = .ok st := by simp [prop_make_dir, hty]
    simp only [hnz, if_false, hmd, hcs, hf]
    have hpm : prop_make st name noalloc (some parent) = (st2, st.nnodes) := by
      rw [hst2]; rfl
    simp only [hpm, hfl]
    unfold prop_insert
    simp only [← hst4, hn1]
  · rw [hn2.1, h4eq]; simpa using h3n
  · rw [hn2.u parent, h4par]
  · rw [hn2.u, h4new]; exact h3new.1
  · rw [hn2.hp_name, h4new]; exact h3new.2.1
  · rw [hn2.hp_parent, h4new]; exact h3new.2.2.1
  · rw [hn2.hp_value_subscriptions, h4new]; exact h3new.2.2.2.1
  · intro q hq1 hq2
    have : st4.nodes q = st.nodes q := by rw [h4eq]; simp [hq1, h3old q hq2]
    rw [hn2.2.2.1 q, this]
  · rw [hn2.2.2.1 parent, h4par]
  · intro s
    have : st4.subs = st.subs := by rw [h4eq]; simpa using h3subs
    rw [hn2.2.2.2 s, this]
  · have hl4 : st4.log = st.log := by rw [h4eq]; simpa using h3log
    have hs4 : st4.subs = st.subs := by rw [h4eq]; simpa using h3subs
    rw [hn3, hl4, h4par]
    simp [child_records, child_record, hs4]
  · intro f1 f2
    rw [hn2.hp_flags, h4new]
    exact h3new.2.2.2.2 f1 f2

/-- The finding branch of prop_create0 on a directory: the child is returned, and only the
  flag PROP_NAME_NOT_ALLOCATED of that child may change. -/
theorem prop_create0_found (st : State F) (parent : Nat) (name : String)
    (skipme : Option Nat) (noalloc : Bool) (cs : List Nat) (sel : Option Nat) (c : Nat)
    (hu : (st.nodes parent).u = .PROP_DIR cs sel)
    (hf : find_child_by_name st cs name = some c) :
    ∃ st', prop_create0 st parent (some name) skipme noalloc = .ok (st', c) ∧
      st'.nnodes = st.nnodes ∧ st'.log = st.log ∧ st'.subs = st.subs ∧
      (∀ q, (st'.nodes q).u = (st.nodes q).u) ∧
      (∀ q, (st'.nodes q).hp_name = (st.nodes q).hp_name) := by
  have hty := hp_type_of_dir hu
  have hcs := hp_childs_of_u hu
  have hnz : ¬ (st.nodes parent).hp_type = .PROP_ZOMBIE := by rw [hty]; decide
  have hmd : prop_make_dir st parent skipme = .ok st := by simp [prop_make_dir, hty]
  have hnm := (find_child_by_name_some hf).2
  unfold prop_create0
  simp only [hnz, if_false, hmd, hcs, Option.bind, hf]
  split
  · refine ⟨_, rfl, rfl, rfl, rfl, ?_, ?_⟩
    · intro q; by_cases hq : q = c
      · subst hq; simp
      · simp [hq]
    · intro q; by_cases hq : q = c
      · subst hq; simp [hnm]
      · simp [hq]
  · exact ⟨_, rfl, rfl, rfl, rfl, fun _ => rfl, fun _ => rfl⟩

/-- C6: on a live directory `parent` and a non-null name, prop_create0 returns the first
  child of that name and leaves the child list as it is, or, when there is none, returns a
  new void child of that name appended at the end of the child list; a second call returns
  the same node and leaves the child list as the first call left it. -/
theorem prop_create0_idempotent_on_name (st : State F) (parent : Nat) (name : String)
    (skipme : Option Nat) (noalloc : Bool) (cs : List Nat) (sel : Option Nat)
    (hu : (st.nodes parent).u = .PROP_DIR cs sel) (hp : parent < st.nnodes)
    (hcs : ∀ c ∈ cs, c < st.nnodes) :
    ∃ st1 c, prop_create0 st parent (some name) skipme noalloc = .ok (st1, c) ∧
      (∀ c0, find_child_by_name st cs name = some c0 →
        c = c0 ∧ (st1.nodes parent).hp_childs = cs) ∧
      (find_child_by_name st cs name = none →
        c = st.nnodes ∧ (st1.nodes c).u = .PROP_VOID ∧ (st1.nodes c).hp_name = some name ∧
          (st1.nodes c).hp_parent = some parent ∧ (st1.nodes parent).hp_childs = cs ++ [c]) ∧
      ∀ (skipme2 : Option Nat) (noalloc2 : Bool),
        ∃ st2, prop_create0 st1 parent (some name) skipme2 noalloc2 = .ok (st2, c) ∧
          (st2.nodes parent).hp_childs = (st1.nodes parent).hp_childs := by
  cases hf : find_child_by_name st cs name with
  | some c0 =>
    obtain ⟨st1, h1, _, _, _, hu1, hn1⟩ :=
      prop_create0_found st parent name skipme noalloc cs sel c0 hu hf
    have hu1p : (st1.nodes parent).u = .PROP_DIR cs sel := by rw [hu1 parent, hu]
    refine ⟨st1, c0, h1, ?_, ?_, ?_⟩
    · intro c1 hc1; cases hc1; exact ⟨rfl, hp_childs_of_u hu1p⟩
    · intro h; cases h
    · intro skipme2 noalloc2
      have hf1 : find_child_by_name st1 cs name = some c0 := by
        rw [find_child_by_name_congr name cs (fun c _ => hn1 c)]; exact hf
      obtain ⟨st2, h2, _, _, _, hu2, _⟩ :=
        prop_create0_found st1 parent name skipme2 noalloc2 cs sel c0 hu1p hf1
      refine ⟨st2, h2, ?_⟩
      unfold prop_t.hp_childs
      rw [hu2 parent]
  | none =>
    obtain ⟨st1, h1, _, hu1p, hv, hnm, hpar, _, hothers, hparent, _, _⟩ :=
      prop_create0_new st parent (some name) skipme noalloc cs sel hu hp (by simpa using hf)
    have hne : parent ≠ st.nnodes := Nat.ne_of_lt hp
    refine ⟨st1, st.nnodes, h1, ?_, ?_, ?_⟩
    · intro c0 h; cases h
    · intro _; exact ⟨rfl, hv, hnm, hpar, hp_childs_of_u hu1p⟩
    · intro skipme2 noalloc2
      have hnames : ∀ c ∈ cs, (st1.nodes c).hp_name = (st.nodes c).hp_name := by
        intro c hc
        by_cases hcp : c = parent
        · subst hcp; rw [hparent]
        · rw [hothers c hcp (Nat.ne_of_lt (hcs c hc))]
      have hf0 : find_child_by_name st1 cs name = none := by
        rw [find_child_by_name_congr name cs hnames]; exact hf
      have hf1 := find_child_by_name_append_new hf0 hnm
      obtain ⟨st2, h2, _, _, _, hu2, _⟩ := prop_create0_found st1 parent name skipme2 noalloc2
        (cs ++ [st.nnodes]) sel st.nnodes hu1p hf1
      refine ⟨st2, h2, ?_⟩
      unfold prop_t.hp_childs
      rw [hu2 parent]

/-- Witness for C6: `prop_create(root, "b")` on the directory of `ex_dir`, whose only child
  is "a". -/
theorem prop_create0_idempotent_on_name_witness :
    ∃ st1 c, prop_create0 ex_dir 0 (some "b") none false = .ok (st1, c) ∧
      (∀ c0, find_child_by_name ex_dir [1] "b" = some c0 →
        c = c0 ∧ (st1.nodes 0).hp_childs = [1]) ∧
      (find_child_by_name ex_dir [1] "b" = none →
        c = ex_dir.nnodes ∧ (st1.nodes c).u = .PROP_VOID ∧ (st1.nodes c).hp_name = some "b" ∧
          (st1.nodes c).hp_parent = some 0 ∧ (st1.nodes 0).hp_childs = [1] ++ [c]) ∧
      ∀ (skipme2 : Option Nat) (noalloc2 : Bool),
        ∃ st2, prop_create0 st1 0 (some "b") skipme2 noalloc2 = .ok (st2, c) ∧
          (st2.nodes 0).hp_childs = (st1.nodes 0).hp_childs :=
  prop_create0_idempotent_on_name ex_dir 0 "b" none false [1] none (by decide) (by decide)
    (by decide)

/-! ## C7: prop_subfind -/

theorem ScalarsKept.sk_refl (st : State F) : ScalarsKept st st :=
  ⟨Nat.le_refl _, fun _ _ _ => rfl⟩

theorem ScalarsKept.sk_trans {a b c : State F} (h1 : ScalarsKept a b) (h2 : ScalarsKept b c) :
    ScalarsKept a c := by
  refine ⟨Nat.le_trans h1.1 h2.1, fun q hq hs => ?_⟩
  have e1 := h1.2 q hq hs
  rw [h2.2 q (Nat.lt_of_lt_of_le hq h1.1) (by rw [e1]; exact hs), e1]

theorem ScalarsKept.of_u {a b : State F} (hn : a.nnodes ≤ b.nnodes)
    (h : ∀ q, q < a.nnodes → (a.nodes q).u.is_scalar = true → (b.nodes q).u = (a.nodes q).u) :
    ScalarsKept a b := ⟨hn, h⟩

theorem SameTree.scalarsKept {a b : State F} (h : SameTree a b) : ScalarsKept a b :=
  ⟨Nat.le_of_eq h.1.symm, fun q _ _ => h.u q⟩

theorem scalarsKept_setU (st : State F) (p : Nat) (v : prop_value F)
    (hp : (st.nodes p).u.is_scalar = false) : ScalarsKept st (st.setU p v) := by
  refine ⟨Nat.le_refl _, fun q _ hs => ?_⟩
  by_cases hq : q = p
  · subst hq; rw [hp] at hs; cases hs
  · simp [hq]

theorem is_scalar_of_dir {nd : prop_t F} (h : nd.hp_type = .PROP_DIR) :
    nd.u.is_scalar = false := by
  unfold prop_t.hp_type at h
  cases hu : nd.u <;> simp [hu, prop_value.hp_type, prop_value.is_scalar] at h ⊢

theorem is_scalar_of_void {nd : prop_t F} (h : nd.hp_type = .PROP_VOID) :
    nd.u.is_scalar = false := by
  unfold prop_t.hp_type at h
  cases hu : nd.u <;> simp [hu, prop_value.hp_type, prop_value.is_scalar] at h ⊢

/-- On a directory, prop_create0 changes the value of no scalar node. -/
theorem prop_create0_scalarsKept {st st' : State F} {parent c : Nat} {name : Option String}
    {skipme : Option Nat} {noalloc : Bool}
    (hd : (st.nodes parent).hp_type = .PROP_DIR)
    (h : prop_create0 st parent name skipme noalloc = .ok (st', c)) : ScalarsKept st st' := by
  have hnz : ¬ (st.nodes parent).hp_type = .PROP_ZOMBIE := by rw [hd]; decide
  have hmd : prop_make_dir st parent skipme = .ok st := by simp [prop_make_dir, hd]
  have hps := is_scalar_of_dir hd
  unfold prop_create0 at h
  simp only [hnz, if_false, hmd] at h
  split at h
  · split at h
    · cases h
      refine ⟨Nat.le_refl _, fun q _ _ => ?_⟩
      simp only [setNode_nodes]
      split
      · next hq => subst hq; rfl
      · rfl
    · cases h; exact ScalarsKept.sk_refl _
  · -- a fresh node
    obtain ⟨st2, hst2⟩ : ∃ st2, st2 = (prop_make st name noalloc (some parent)).1 := ⟨_, rfl⟩
    have hpm : prop_make st name noalloc (some parent) = (st2, st.nnodes) := by
      rw [hst2]; rfl
    have h2 : ScalarsKept st st2 := by
      rw [hst2]
      refine ⟨Nat.le_succ _, fun q hq _ => ?_⟩
      simp [prop_make, Nat.ne_of_lt hq]
    have h2new : (st2.nodes st.nnodes).u = .PROP_VOID := by rw [hst2]; simp [prop_make]
    simp only [hpm] at h
    have h2ty : (st2.nodes st.nnodes).hp_type ≠ .PROP_DIR := by
      simp [prop_t.hp_type, h2new, prop_value.hp_type]
    have h3 : ∀ st3, (if (st2.nodes parent).hp_flags.PROP_MULTI_SUB
            || (st2.nodes parent).hp_flags.PROP_MULTI_NOTIFY then
          prop_flood_flag (st2.nnodes + 1) st2 st.nnodes PROP_MULTI_NOTIFY {}
        else .ok st2) = .ok st3 → ScalarsKept st st3 := by
      intro st3 h3
      split at h3
      · rw [prop_flood_flag_leaf _ _ _ _ _ h2ty] at h3
        cases h3
        refine h2.sk_trans ⟨Nat.le_refl _, fun q _ _ => ?_⟩
        by_cases hq : q = st.nnodes
        · subst hq; simp
        · simp [hq]
      · cases h3; exact h2
    split at h
    · cases h
    · next st3 hfl =>
      have hk3 := h3 st3 hfl
      unfold prop_insert at h
      dsimp only at h
      obtain ⟨st5, hn1, hn2, _⟩ := notify_child_ok (some st.nnodes) .PROP_ADD_CHILD skipme 0
        ((st3.setChilds parent ((st3.nodes parent).hp_childs ++ [st.nnodes])).nodes
          parent).hp_value_subscriptions
        (st3.setChilds parent ((st3.nodes parent).hp_childs ++ [st.nnodes]))
      rw [hn1] at h
      cases h
      refine ScalarsKept.sk_trans ?_ hn2.scalarsKept
      refine ⟨by simpa using hk3.1, fun q hq hs => ?_⟩
      have hqp : q ≠ parent := by
        intro e; subst e; rw [hps] at hs; cases hs
      rw [setChilds_nodes_ne _ _ _ _ hqp]
      exact hk3.2 q hq hs

/-- Entering a node keeps the scalars, and ends the traversal only at a node that is
  neither a directory nor void. -/
theorem subfind_enter_scalarsKept {st st1 : State F} {p : Nat}
    (h : subfind_enter st p = .ok (some st1)) :
    ScalarsKept st st1 ∧ (st1.nodes p).hp_type = .PROP_DIR ∧ st1.nnodes = st.nnodes := by
  unfold subfind_enter at h
  by_cases hd : (st.nodes p).hp_type = .PROP_DIR
  · simp [hd] at h
    cases h
    exact ⟨ScalarsKept.sk_refl _, hd, rfl⟩
  · by_cases hv : (st.nodes p).hp_type = .PROP_VOID
    · cases hn : prop_notify_value (st.setU p (.PROP_DIR [] none)) p none 0 with
      | error e => simp [hv, hn] at h
      | ok st2 =>
        simp [hv, hn] at h
        subst h
        have hs := sameTree_of_prop_notify_value hn
        refine ⟨(scalarsKept_setU st p _ (is_scalar_of_void hv)).sk_trans hs.scalarsKept, ?_, ?_⟩
        · rw [hs.hp_type p]; simp [prop_t.hp_type, prop_value.hp_type]
        · rw [hs.1]; rfl
    · simp [hd, hv] at h

theorem subfind_child_scalarsKept {st st2 : State F} {p : Nat} {n : String} {ai : Bool}
    {r : Option Nat} (hd : (st.nodes p).hp_type = .PROP_DIR)
    (h : subfind_child st p n ai = .ok (st2, r)) : ScalarsKept st st2 := by
  unfold subfind_child at h
  split at h
  · dsimp only at h
    split at h <;> (cases h; exact ScalarsKept.sk_refl _)
  · split at h
    · cases h; exact ScalarsKept.sk_refl _
    · split at h
      · cases h
      · next st1 c hc =>
        cases h
        exact prop_create0_scalarsKept hd hc

/-- Path resolution changes the value of no scalar node. -/
theorem prop_subfind_scalarsKept (fs ai : Bool) :
    ∀ (names : List String) (st st' : State F) (p : Nat) (r : Option Nat),
      prop_subfind st p names fs ai = .ok (st', r) → ScalarsKept st st' := by
  intro names
  induction names with
  | nil =>
    intro st st' p r h
    unfold prop_subfind at h
    split at h
    · split at h
      · cases h
      · cases h; exact ScalarsKept.sk_refl _
    · cases h; exact ScalarsKept.sk_refl _
  | cons n rest ih =>
    intro st st' p r h
    unfold prop_subfind at h
    split at h
    · cases h
    · next p1 _ =>
      split at h
      · cases h
      · cases h; exact ScalarsKept.sk_refl _
      · next st1 he =>
        obtain ⟨hk1, hd1, _⟩ := subfind_enter_scalarsKept he
        unfold subfind_next at h
        split at h
        · cases h
        · next st2 hc =>
          cases h
          exact hk1.sk_trans (subfind_child_scalarsKept hd1 hc)
        · next st2 c hc =>
          exact (hk1.sk_trans (subfind_child_scalarsKept hd1 hc)).sk_trans (ih st2 st' c r h)

theorem value_records_dir (st : State F) (p : Nat) (cs : List Nat) (sel : Option Nat)
    (skipme : Option Nat) (how : Int) (hu : (st.nodes p).u = .PROP_DIR cs sel) :
    value_records st p skipme how
      = ((st.nodes p).hp_value_subscriptions.filter fun s => some s ≠ skipme).map
          fun s => set_dir_record st s p := by
  unfold value_records
  have : (fun s => value_record st s p how) = fun s => [set_dir_record st s p] := by
    funext s
    unfold value_record set_dir_record
    simp only [hu, direct_value_args, queued_value_args]
    split <;> rfl
  rw [this]
  induction ((st.nodes p).hp_value_subscriptions.filter fun s => some s ≠ skipme) with
  | nil => rfl
  | cons a l ih => simpa using ih

/-- C7: in prop_subfind, when the node reached (p1, after origin links when they are
  followed) is void and a segment remains, it becomes an empty directory, each subscription
  on its value list receives one PROP_SET_DIR (then the multi subscriptions of ancestors are
  served) and the traversal goes on in that directory; when the node reached holds an int,
  float, string or link and a segment remains, the traversal returns NULL and the state is
  untouched; and no traversal changes the value of a node that held a scalar when it began. -/
theorem prop_subfind_lazy_dir (st : State F) (p : Nat) (n : String) (rest : List String)
    (fs ai : Bool) (p1 : Nat)
    (hp1 : (if fs then follow_originators (st.nnodes + 1) st p else .ok p) = .ok p1) :
    ((st.nodes p1).hp_type = .PROP_VOID → NotifyOk st p1 none →
      ∃ st1, subfind_enter st p1 = .ok (some st1) ∧
        (st1.nodes p1).u = .PROP_DIR [] none ∧
        st1.log = st.log
          ++ ((st.nodes p1).hp_value_subscriptions.map fun s => set_dir_record st s p1)
          ++ multi_part (st.setU p1 (.PROP_DIR [] none)) p1 ∧
        prop_subfind st p (n :: rest) fs ai =
          subfind_next (subfind_child st1 p1 n ai)
            fun st2 c => prop_subfind st2 c rest fs ai) ∧
    ((st.nodes p1).u.is_scalar = true →
      prop_subfind st p (n :: rest) fs ai = .ok (st, none)) ∧
    (∀ (names : List String) (st' : State F) (r : Option Nat),
      prop_subfind st p names fs ai = .ok (st', r) → ScalarsKept st st') := by
  refine ⟨?_, ?_, ?_⟩
  · intro hv hn
    obtain ⟨st1, h1, _, h3, h4⟩ :=
      setU_notify_ok st p1 none 0 (.PROP_DIR [] none) (by simp [prop_value.hp_type]) hn
    have he : subfind_enter st p1 = .ok (some st1) := by
      simp [subfind_enter, hv, h1]
    refine ⟨st1, he, h3, ?_, ?_⟩
    · rw [h4, notify_records, value_records_dir _ p1 [] none none 0 (by simp)]
      simp [set_dir_record, List.append_assoc]
    · rw [prop_subfind]
      simp only [hp1, he]
  · intro hs
    have hd : (st.nodes p1).hp_type ≠ .PROP_DIR := by
      unfold prop_t.hp_type
      cases hu : (st.nodes p1).u <;> simp [hu, prop_value.is_scalar, prop_value.hp_type] at hs ⊢
    have hv : (st.nodes p1).hp_type ≠ .PROP_VOID := by
      unfold prop_t.hp_type
      cases hu : (st.nodes p1).u <;> simp [hu, prop_value.is_scalar, prop_value.hp_type] at hs ⊢
    rw [prop_subfind]
    simp [hp1, subfind_enter, hd, hv]
  · intro names st' r h
    exact prop_subfind_scalarsKept fs ai names st st' p r h

/-- Witness for C7: resolving the path a.b from the void root of `ex_root_sub`, which has
  the queued subscription 0 on its value list, makes the root an empty directory and
  delivers one PROP_SET_DIR to the subscription before the traversal goes on; resolving it
  from the root of `ex_clip_sub`, which holds the int 7 and has a subscription as well,
  returns NULL and the store it was given. -/
theorem prop_subfind_lazy_dir_witness :
    ((ex_root_sub.nodes 0).hp_type = .PROP_VOID ∧
      (ex_root_sub.nodes 0).hp_value_subscriptions = [0] ∧
      ((ex_root_sub.nodes 0).hp_value_subscriptions.map fun s => set_dir_record ex_root_sub s 0)
          ++ multi_part (ex_root_sub.setU 0 (.PROP_DIR [] none)) 0
        = [.queued { hpn_sub := 0, hpn_event := .PROP_SET_DIR, hpn_prop2 := some 0 }] ∧
      ∃ st1, subfind_enter ex_root_sub 0 = .ok (some st1) ∧
        (st1.nodes 0).u = .PROP_DIR [] none ∧
        st1.log = ex_root_sub.log
          ++ ((ex_root_sub.nodes 0).hp_value_subscriptions.map
            fun s => set_dir_record ex_root_sub s 0)
          ++ multi_part (ex_root_sub.setU 0 (.PROP_DIR [] none)) 0 ∧
        prop_subfind ex_root_sub 0 ("a" :: ["b"]) false false =
          subfind_next (subfind_child st1 0 "a" false)
            fun st2 c => prop_subfind st2 c ["b"] false false) ∧
    ((ex_clip_sub.nodes 0).u = .PROP_INT 7 5 10 ∧
      (ex_clip_sub.nodes 0).hp_value_subscriptions = [0] ∧
      prop_subfind ex_clip_sub 0 ("a" :: ["b"]) false false = .ok (ex_clip_sub, none)) ∧
    (∀ (names : List String) (st' : State SmallFloat) (r : Option Nat),
      prop_subfind ex_clip_sub 0 names false false = .ok (st', r) →
      ScalarsKept ex_clip_sub st') :=
  ⟨⟨by decide, by decide, by decide,
      (prop_subfind_lazy_dir ex_root_sub 0 "a" ["b"] false false 0 rfl).1 (by decide)
        ⟨by decide, fun h => absurd h (by decide)⟩⟩,
    ⟨by decide, by decide,
      (prop_subfind_lazy_dir ex_clip_sub 0 "a" ["b"] false false 0 rfl).2.1 (by decide)⟩,
    (prop_subfind_lazy_dir ex_clip_sub 0 "a" ["b"] false false 0 rfl).2.2⟩

/-! ## C8 and C9: prop_setv_ex and prop_set_ex -/

theorem sameButU_refl (c : Nat) (st : State F) : SameButU c st st :=
  ⟨rfl, fun _ _ => rfl, rfl⟩

theorem sameButU_of_sameTree_setU {c : Nat} {st st' : State F} {v : prop_value F}
    (h : SameTree (st.setU c v) st') : SameButU c st st' := by
  refine ⟨by rw [h.1]; rfl, fun q hq => ?_, ?_⟩
  · rw [h.2.2.1 q]; simp [hq]
  · rw [h.2.2.1 c]; simp

theorem sameButU_of_notify {c : Nat} {st st' : State F} {v : prop_value F}
    {skipme : Option Nat} {how : Int}
    (h : prop_notify_value (st.setU c v) c skipme how = .ok st') : SameButU c st st' :=
  sameButU_of_sameTree_setU (sameTree_of_prop_notify_value h)

theorem prop_set_void_exl_frame {st st' : State F} {c : Nat} {skipme : Option Nat}
    (h : prop_set_void_exl st c skipme = .ok st') : SameButU c st st' := by
  unfold prop_set_void_exl at h
  repeat' split at h
  all_goals first
    | (cases h; exact sameButU_refl _ _)
    | exact sameButU_of_notify h

theorem prop_set_string_exl_frame {st st' : State F} {c : Nat} {skipme : Option Nat}
    {str : String} {type : Nat}
    (h : prop_set_string_exl st c skipme str type = .ok st') : SameButU c st st' := by
  unfold prop_set_string_exl at h
  repeat' split at h
  all_goals first
    | (cases h; exact sameButU_refl _ _)
    | exact sameButU_of_notify h

theorem prop_set_rstring_exl_frame {st st' : State F} {c : Nat} {skipme : Option Nat}
    {rstr : String}
    (h : prop_set_rstring_exl st c skipme rstr = .ok st') : SameButU c st st' := by
  unfold prop_set_rstring_exl at h
  repeat' split at h
  all_goals first
    | (cases h; exact sameButU_refl _ _)
    | exact sameButU_of_notify h

theorem prop_set_int_exl_frame [CFloat F] {st st' : State F} {c : Nat} {skipme : Option Nat}
    {v : Int} (h : prop_set_int_exl st c skipme v = .ok st') : SameButU c st st' := by
  unfold prop_set_int_exl at h
  repeat' split at h
  all_goals first
    | (cases h; exact sameButU_refl _ _)
    | exact sameButU_of_notify h

theorem prop_seti_frame [CFloat F] {st st' : State F} {c : Nat} {skipme : Option Nat}
    {arg : seti_arg} (h : prop_seti st skipme c arg = .ok st') : SameButU c st st' := by
  unfold prop_seti at h
  split at h
  · exact prop_set_void_exl_frame h
  · exact prop_set_string_exl_frame h
  · exact prop_set_void_exl_frame h
  · exact prop_set_rstring_exl_frame h
  · exact prop_set_int_exl_frame h
  · exact prop_set_void_exl_frame h
  · cases h

/-- A call of prop_create0 that returns has first made the parent a directory. -/
theorem prop_create0_ok_make_dir {st : State F} {p : Nat} {name : Option String}
    {skipme : Option Nat} {noalloc : Bool} {r : State F × Nat}
    (h : prop_create0 st p name skipme noalloc = .ok r) :
    ∃ stA, prop_make_dir st p skipme = .ok stA ∧ (stA.nodes p).hp_type = .PROP_DIR ∧
      prop_create0 stA p name skipme noalloc = .ok r := by
  by_cases hz : (st.nodes p).hp_type = .PROP_ZOMBIE
  · simp [prop_create0, hz] at h
  · cases hmd : prop_make_dir st p skipme with
    | error e => simp [prop_create0, hz, hmd] at h
    | ok stA =>
      have hd : (stA.nodes p).hp_type = .PROP_DIR := by
        unfold prop_make_dir at hmd
        split at hmd
        · next hd => cases hmd; exact hd
        · split at hmd
          · cases hmd
          · rw [(sameTree_of_prop_notify_value hmd).hp_type p]
            simp [prop_t.hp_type, prop_value.hp_type]
      refine ⟨stA, rfl, hd, ?_⟩
      have hzA : ¬ (stA.nodes p).hp_type = .PROP_ZOMBIE := by rw [hd]; decide
      have hmdA : prop_make_dir stA p skipme = .ok stA := by simp [prop_make_dir, hd]
      rw [← h]
      simp only [prop_create0, hz, hzA, if_false, hmd, hmdA]

/-- What prop_make_dir leaves of a node that was not a directory. -/
theorem prop_make_dir_frame {st stA : State F} {p : Nat} {skipme : Option Nat}
    (h : prop_make_dir st p skipme = .ok stA) (hd : (st.nodes p).hp_type ≠ .PROP_DIR) :
    SameTree (st.setU p (.PROP_DIR [] none)) stA := by
  unfold prop_make_dir at h
  simp only [hd, if_false] at h
  split at h
  · cases h
  · exact sameTree_of_prop_notify_value h

/-- What prop_create0 does on a node that is not a directory yet: the node is made a
  directory and gets the fresh node `nnodes` as its only child. -/
theorem prop_create0_on_leaf {st st1 : State F} {p c : Nat} {name : Option String}
    {skipme : Option Nat} {noalloc : Bool}
    (hd : (st.nodes p).hp_type ≠ .PROP_DIR) (hp : p < st.nnodes)
    (h : prop_create0 st p name skipme noalloc = .ok (st1, c)) :
    ∃ stA, prop_make_dir st p skipme = .ok stA ∧
      SameTree (st.setU p (.PROP_DIR [] none)) stA ∧
      c = st.nnodes ∧ st1.nnodes = st.nnodes + 1 ∧
      (st1.nodes p).u = .PROP_DIR [st.nnodes] none ∧
      (st1.nodes p).hp_name = (st.nodes p).hp_name ∧
      (st1.nodes c).u = .PROP_VOID ∧ (st1.nodes c).hp_name = name ∧
      (st1.nodes c).hp_parent = some p ∧ (st1.nodes c).hp_value_subscriptions = [] ∧
      (∀ q, q ≠ p → q ≠ st.nnodes →
        st1.nodes q = { st.nodes q with hp_refcount := (st1.nodes q).hp_refcount }) ∧
      st1.log = stA.log ++ child_records st (st.nodes p).hp_value_subscriptions
        (some st.nnodes) .PROP_ADD_CHILD skipme 0 ∧
      ((st.nodes p).hp_flags.PROP_MULTI_SUB = false →
        (st.nodes p).hp_flags.PROP_MULTI_NOTIFY = false →
        (st1.nodes c).hp_flags = { PROP_NAME_NOT_ALLOCATED := noalloc }) := by
  obtain ⟨stA, hmd, _, hcA⟩ := prop_create0_ok_make_dir h
  have hsA := prop_make_dir_frame hmd hd
  have huA : (stA.nodes p).u = .PROP_DIR [] none := by rw [hsA.u p]; simp
  have hnA : stA.nnodes = st.nnodes := by rw [hsA.1]; rfl
  obtain ⟨st1', h1, h2, h3, h4, h5, h6, h7, h8, h9, h10, h11, h12⟩ :=
    prop_create0_new stA p name skipme noalloc [] none huA (by rw [hnA]; exact hp)
      (by cases name <;> simp [find_child_by_name])
  rw [hcA] at h1
  simp only [Except.ok.injEq, Prod.mk.injEq] at h1
  obtain ⟨e1, e2⟩ := h1
  subst e1
  rw [hnA] at e2 h2 h3 h4 h5 h6 h7 h8
  rw [hnA] at h11 h12
  subst e2
  have hfA : (stA.nodes p).hp_flags = (st.nodes p).hp_flags := by
    rw [hsA.hp_flags p]; simp
  rw [hfA] at h12
  refine ⟨stA, hmd, hsA, rfl, h2, by simpa using h3, ?_, h4, h5, h6, h7, ?_, ?_, h12⟩
  · rw [h9]; simp only; rw [hsA.hp_name p]; simp
  · intro q hq1 hq2
    rw [h8 q hq1 hq2]
    have : stA.nodes q = { st.nodes q with hp_refcount := (stA.nodes q).hp_refcount } := by
      rw [hsA.2.2.1 q]; simp [hq1]
    rw [this]
  · rw [h11]
    have e3 : (stA.nodes p).hp_value_subscriptions = (st.nodes p).hp_value_subscriptions := by
      rw [hsA.hp_value_subscriptions p]; simp
    have e4 : (fun s => child_record stA s (some st.nnodes) .PROP_ADD_CHILD 0)
        = fun s => child_record st s (some st.nnodes) .PROP_ADD_CHILD 0 := by
      funext s
      have := child_record_sameTree hsA s (some st.nnodes) .PROP_ADD_CHILD 0
      rw [this]; simp [child_record]
    simp only [child_records, e3, e4]

/-- The path-based set started at a void node touches, among the nodes that exist, that
  node only (reference counts apart), and leaves it a directory over the first new node. -/
theorem setv_from_frame [CFloat F] (skipme : Option Nat) (arg : seti_arg) :
    ∀ (names : List String) (st st' : State F) (c : Nat),
      (st.nodes c).hp_type = .PROP_VOID → c < st.nnodes →
      setv_from skipme arg names st c = .ok st' →
      st.nnodes ≤ st'.nnodes ∧
      (∀ q, q < st.nnodes → q ≠ c →
        st'.nodes q = { st.nodes q with hp_refcount := (st'.nodes q).hp_refcount }) ∧
      (st'.nodes c).hp_name = (st.nodes c).hp_name ∧
      (names ≠ [] → (st'.nodes c).u = .PROP_DIR [st.nnodes] none) := by
  intro names
  induction names with
  | nil =>
    intro st st' c _ _ h
    obtain ⟨f1, f2, f3⟩ := prop_seti_frame (show prop_seti st skipme c arg = .ok st' from h)
    exact ⟨Nat.le_of_eq f1.symm, fun q _ hq => f2 q hq, by rw [f3], fun hne => absurd rfl hne⟩
  | cons n rest ih =>
    intro st st' c hv hc h
    have hz : ¬ (st.nodes c).hp_type = .PROP_ZOMBIE := by rw [hv]; decide
    have hd : ¬ (st.nodes c).hp_type = .PROP_DIR := by rw [hv]; decide
    rw [setv_from] at h
    simp only [hz, hd, if_false] at h
    cases hcr : prop_create0 st c (some n) skipme false with
    | error e => simp [hcr] at h
    | ok r =>
      obtain ⟨st1, c1⟩ := r
      simp only [hcr] at h
      obtain ⟨stA, _, _, e1, h2, h3, h4, h5, _, _, _, h9, _⟩ := prop_create0_on_leaf hd hc hcr
      subst e1
      have hv1 : (st1.nodes st.nnodes).hp_type = .PROP_VOID := by
        simp [prop_t.hp_type, h5, prop_value.hp_type]
      obtain ⟨i1, i2, _, _⟩ := ih st1 st' st.nnodes hv1 (by omega) h
      have hcne : c ≠ st.nnodes := Nat.ne_of_lt hc
      have hc' := i2 c (by omega) hcne
      refine ⟨by omega, fun q hq hqc => ?_, ?_, fun _ => ?_⟩
      · rw [i2 q (by omega) (Nat.ne_of_lt hq), h9 q hqc (Nat.ne_of_lt hq)]
      · rw [hc']; simp only; exact h4
      · rw [hc']; simp only; exact h3

theorem NotifyOk.of_none {st : State F} {p : Nat} (h : NotifyOk st p none)
    (skipme : Option Nat) : NotifyOk st p skipme :=
  ⟨fun s hs _ => h.1 s hs (by simp), h.2⟩

theorem prop_clean_of_scalar {nd : prop_t F} (hs : nd.u.is_scalar = true)
    (hc : nd.hp_flags.PROP_CLIPPED_VALUE = false) :
    prop_clean nd = false ∧ nd.hp_type ≠ .PROP_DIR ∧ nd.hp_type ≠ .PROP_ZOMBIE := by
  unfold prop_clean prop_t.hp_type
  cases hu : nd.u <;> simp [hu, hc, prop_value.is_scalar, prop_value.hp_type] at hs ⊢

/-- Making a directory of a node that prop_clean lets go: the call returns, the node is an
  empty directory and each subscription on its value list but skipme got PROP_SET_DIR. -/
theorem prop_make_dir_ok (st : State F) (p : Nat) (skipme : Option Nat)
    (hd : (st.nodes p).hp_type ≠ .PROP_DIR) (hc : prop_clean (st.nodes p) = false)
    (hn : NotifyOk st p skipme) :
    ∃ stA, prop_make_dir st p skipme = .ok stA ∧ (stA.nodes p).u = .PROP_DIR [] none ∧
      stA.log = st.log
        ++ (((st.nodes p).hp_value_subscriptions.filter fun s => some s ≠ skipme).map
            fun s => set_dir_record st s p)
        ++ multi_part (st.setU p (.PROP_DIR [] none)) p := by
  obtain ⟨stA, h1, _, h3, h4⟩ :=
    setU_notify_ok st p skipme 0 (.PROP_DIR [] none) (by simp [prop_value.hp_type]) hn
  refine ⟨stA, by simp [prop_make_dir, hd, hc, h1], h3, ?_⟩
  rw [h4, notify_records, value_records_dir _ p [] none skipme 0 (by simp)]
  simp [set_dir_record, List.append_assoc]

/-- C8 (amended): when the path of prop_setv_ex or prop_set_ex comes to a node p that holds
  an int, float, string or link without CLIPPED_VALUE and a segment remains, prop_create0
  makes p a directory: the value is dropped, each subscription on the value list of p but
  skipme receives PROP_SET_DIR, the segment is created as a new void child, the traversal
  goes on from that child, and after the call p is a directory over that child. -/
theorem prop_setv_through_scalar [CFloat F] (st : State F) (p : Nat) (n : String)
    (rest : List String) (skipme : Option Nat) (arg : seti_arg)
    (hs : (st.nodes p).u.is_scalar = true)
    (hc : (st.nodes p).hp_flags.PROP_CLIPPED_VALUE = false) (hp : p < st.nnodes)
    (hn : NotifyOk st p none) :
    ∃ stA st1, prop_make_dir st p skipme = .ok stA ∧
      (stA.nodes p).u = .PROP_DIR [] none ∧
      stA.log = st.log
        ++ (((st.nodes p).hp_value_subscriptions.filter fun s => some s ≠ skipme).map
            fun s => set_dir_record st s p)
        ++ multi_part (st.setU p (.PROP_DIR [] none)) p ∧
      prop_create0 st p (some n) skipme false = .ok (st1, st.nnodes) ∧
      (st1.nodes p).u = .PROP_DIR [st.nnodes] none ∧
      (st1.nodes st.nnodes).u = .PROP_VOID ∧ (st1.nodes st.nnodes).hp_name = some n ∧
      setv_from skipme arg (n :: rest) st p = setv_from skipme arg rest st1 st.nnodes ∧
      (∀ st', prop_setv_ex st skipme (some p) (n :: rest) arg = .ok st' →
        (st'.nodes p).u = .PROP_DIR [st.nnodes] none) ∧
      (∀ st' noalloc, prop_set_ex st (some p) (some n) noalloc arg = .ok st' →
        (st'.nodes p).u = .PROP_DIR [st.nnodes] none) := by
  obtain ⟨hcl, hd, hz⟩ := prop_clean_of_scalar hs hc
  obtain ⟨stA, hmd, huA, hlA⟩ := prop_make_dir_ok st p skipme hd hcl (hn.of_none skipme)
  have hsA := prop_make_dir_frame hmd hd
  have hnA : stA.nnodes = st.nnodes := by rw [hsA.1]; rfl
  obtain ⟨st1, h1, _, h3, h4, h5, _, _, _, _, _, _⟩ :=
    prop_create0_new stA p (some n) skipme false [] none huA (by rw [hnA]; exact hp)
      (by simp [find_child_by_name])
  rw [hnA] at h1 h3 h4 h5
  have hcr : prop_create0 st p (some n) skipme false = .ok (st1, st.nnodes) := by
    rw [← h1]
    have hdA : (stA.nodes p).hp_type = .PROP_DIR := hp_type_of_dir huA
    have hzA : ¬ (stA.nodes p).hp_type = .PROP_ZOMBIE := by rw [hdA]; decide
    have hmdA : prop_make_dir stA p skipme = .ok stA := by simp [prop_make_dir, hdA]
    simp only [prop_create0, hz, hzA, if_false, hmd, hmdA]
  have hstep : setv_from skipme arg (n :: rest) st p
      = setv_from skipme arg rest st1 st.nnodes := by
    rw [setv_from]
    simp only [hz, hd, if_false, hcr]
  have hv1 : (st1.nodes st.nnodes).hp_type = .PROP_VOID := by
    simp [prop_t.hp_type, h4, prop_value.hp_type]
  have hn1 : st1.nnodes = st.nnodes + 1 := by
    obtain ⟨_, _, _, _, e, _⟩ := prop_create0_on_leaf hd hp hcr
    exact e
  refine ⟨stA, st1, hmd, huA, hlA, hcr, h3, h4, h5, hstep, ?_, ?_⟩
  · intro st' h
    simp only [prop_setv_ex, hz, if_false, hstep] at h
    obtain ⟨_, i2, _, _⟩ := setv_from_frame skipme arg rest st1 st' st.nnodes hv1 (by omega) h
    rw [i2 p (by omega) (Nat.ne_of_lt hp)]
    exact h3
  · intro st' noalloc h
    simp only [prop_set_ex, hz, ne_eq, not_false_eq_true, if_true] at h
    cases hcr2 : prop_create0 st p (some n) none noalloc with
    | error e => simp [hcr2] at h
    | ok r =>
      obtain ⟨st2, c2⟩ := r
      simp only [hcr2] at h
      obtain ⟨_, _, _, e1, _, k3, _, _, _, _, _, _, _⟩ := prop_create0_on_leaf hd hp hcr2
      subst e1
      obtain ⟨_, f2, _⟩ := prop_seti_frame h
      rw [f2 p (Nat.ne_of_lt hp)]
      exact k3

/-- Witness for C8: the path a.b through the child "a" of `ex_a5`, which holds the int 5. -/
theorem prop_setv_through_scalar_witness :
    ∃ stA st1, prop_make_dir ex_a5 1 none = .ok stA ∧
      (stA.nodes 1).u = .PROP_DIR [] none ∧
      stA.log = ex_a5.log
        ++ (((ex_a5.nodes 1).hp_value_subscriptions.filter fun s => some s ≠ none).map
            fun s => set_dir_record ex_a5 s 1)
        ++ multi_part (ex_a5.setU 1 (.PROP_DIR [] none)) 1 ∧
      prop_create0 ex_a5 1 (some "b") none false = .ok (st1, ex_a5.nnodes) ∧
      (st1.nodes 1).u = .PROP_DIR [ex_a5.nnodes] none ∧
      (st1.nodes ex_a5.nnodes).u = .PROP_VOID ∧ (st1.nodes ex_a5.nnodes).hp_name = some "b" ∧
      setv_from none (.PROP_SET_INT 1) ("b" :: []) ex_a5 1
        = setv_from none (.PROP_SET_INT 1) [] st1 ex_a5.nnodes ∧
      (∀ st', prop_setv_ex ex_a5 none (some 1) ("b" :: []) (.PROP_SET_INT 1) = .ok st' →
        (st'.nodes 1).u = .PROP_DIR [ex_a5.nnodes] none) ∧
      (∀ st' noalloc, prop_set_ex ex_a5 (some 1) (some "b") noalloc (.PROP_SET_INT 1)
          = .ok st' → (st'.nodes 1).u = .PROP_DIR [ex_a5.nnodes] none) :=
  prop_setv_through_scalar ex_a5 1 "b" [] none (.PROP_SET_INT 1) (by decide) (by decide)
    (by decide) ⟨by decide, fun h => absurd h (by decide)⟩

/-- Counterexample to C8 as stated: in `ex_a5` the node "a" holds the int 5, and
  `prop_setv(root, "a", "b", NULL, PROP_SET_INT, 1)` leaves it a directory over the new
  node "b", which holds 1. -/
theorem prop_setv_overwrites_scalar_counterexample :
    (ex_a5.nodes 1).u = .PROP_INT 5 0 0 ∧
    (node_after (prop_setv_ex ex_a5 none (some 0) ["a", "b"] (.PROP_SET_INT 1)) 1).map
      (fun nd => nd.u) = some (.PROP_DIR [2] none) ∧
    (node_after (prop_setv_ex ex_a5 none (some 0) ["a", "b"] (.PROP_SET_INT 1)) 2).map
      (fun nd => nd.u) = some (.PROP_INT 1 0 0) := by
  decide

/-! ## C9: lazy directories under prop_setv_ex -/

theorem value_records_int (st : State F) (p : Nat) (v mn mx : Int) (skipme : Option Nat)
    (hu : (st.nodes p).u = .PROP_INT v mn mx) :
    value_records st p skipme 0
      = ((st.nodes p).hp_value_subscriptions.filter fun s => some s ≠ skipme).map
          fun s => set_int_record st s p v := by
  unfold value_records
  have : (fun s => value_record st s p 0) = fun s => [set_int_record st s p v] := by
    funext s
    unfold value_record set_int_record
    simp only [hu, direct_value_args, queued_value_args]
    split <;> rfl
  rw [this]
  induction ((st.nodes p).hp_value_subscriptions.filter fun s => some s ≠ skipme) with
  | nil => rfl
  | cons a l ih => simpa using ih

theorem multi_part_nil {st : State F} {p : Nat}
    (h : (st.nodes p).hp_flags.PROP_MULTI_NOTIFY = false) : multi_part st p = [] := by
  simp [multi_part, h]

/-- A path that prop_find0 resolves runs through directories. -/
theorem prop_find0_prefix_dir (st : State F) :
    ∀ (l1 : List String) (p : Nat) (n : String) (l2 : List String) (leaf : Nat),
      prop_find0 st p (l1 ++ n :: l2) = some leaf →
      ∃ a, prop_find0 st p l1 = some a ∧ (st.nodes a).hp_type = .PROP_DIR := by
  intro l1
  induction l1 with
  | nil =>
    intro p n l2 leaf h
    refine ⟨p, rfl, ?_⟩
    simp only [List.nil_append, prop_find0] at h
    by_contra hd
    simp [hd] at h
  | cons m rest ih =>
    intro p n l2 leaf h
    simp only [List.cons_append, prop_find0] at h
    split at h
    · cases h
    · next hd =>
      split at h
      · cases h
      · next c hc =>
        obtain ⟨a, ha, hda⟩ := ih c n l2 leaf h
        refine ⟨a, ?_, hda⟩
        simp only [prop_find0, if_neg hd, hc, ha]

/-- The chain made by the path-based set of an int from a void node under no multi
  subscription. -/
theorem setv_void_chain [CFloat F] (skipme : Option Nat) (v : Int) :
    ∀ (names : List String) (st : State F) (p : Nat),
      p < st.nnodes → (st.nodes p).u = .PROP_VOID →
      (st.nodes p).hp_flags.PROP_CLIPPED_VALUE = false →
      (st.nodes p).hp_flags.PROP_MULTI_SUB = false →
      (st.nodes p).hp_flags.PROP_MULTI_NOTIFY = false →
      (∀ s ∈ (st.nodes p).hp_value_subscriptions, some s ≠ skipme →
        (st.subs s).hps_value_prop = some p) →
      ∃ st' leaf, setv_from skipme (.PROP_SET_INT v) names st p = .ok st' ∧
        prop_find0 st' p names = some leaf ∧ (st'.nodes leaf).u = .PROP_INT v 0 0 ∧
        st'.log = st.log ++ setv_records st p skipme names v := by
  intro names
  induction names with
  | nil =>
    intro st p _ hu hc _ hmn hv
    have hn : NotifyOk st p skipme := ⟨hv, fun h => by rw [hmn] at h; cases h⟩
    obtain ⟨st', h1, _, h3, h4⟩ :=
      setU_notify_ok st p skipme 0 (.PROP_INT v 0 0) (by simp [prop_value.hp_type]) hn
    have hcl : prop_clean (st.nodes p) = false := by simp [prop_clean, hc, hu]
    refine ⟨st', p, ?_, rfl, h3, ?_⟩
    · simp [setv_from, prop_seti, prop_set_int_exl, hu, hcl, h1]
    · rw [h4, notify_records, value_records_int _ p v 0 0 skipme (by simp),
        multi_part_nil (by simpa using hmn)]
      simp [setv_records, set_int_record]
  | cons n rest ih =>
    intro st p hp hu hc hms hmn hv
    have hn : NotifyOk st p skipme := ⟨hv, fun h => by rw [hmn] at h; cases h⟩
    have hty : (st.nodes p).hp_type = .PROP_VOID := by
      simp [prop_t.hp_type, hu, prop_value.hp_type]
    have hd : (st.nodes p).hp_type ≠ .PROP_DIR := by rw [hty]; decide
    have hz : ¬ (st.nodes p).hp_type = .PROP_ZOMBIE := by rw [hty]; decide
    have hcl : prop_clean (st.nodes p) = false := by simp [prop_clean, hc, hu]
    obtain ⟨stA, hmd, huA, hlA⟩ := prop_make_dir_ok st p skipme hd hcl hn
    have hsA := prop_make_dir_frame hmd hd
    have hnA : stA.nnodes = st.nnodes := by rw [hsA.1]; rfl
    obtain ⟨st1, h1, _⟩ :=
      prop_create0_new stA p (some n) skipme false [] none huA (by rw [hnA]; exact hp)
        (by simp [find_child_by_name])
    rw [hnA] at h1
    have hcr : prop_create0 st p (some n) skipme false = .ok (st1, st.nnodes) := by
      rw [← h1]
      have hdA : (stA.nodes p).hp_type = .PROP_DIR := hp_type_of_dir huA
      have hzA : ¬ (stA.nodes p).hp_type = .PROP_ZOMBIE := by rw [hdA]; decide
      have hmdA : prop_make_dir stA p skipme = .ok stA := by simp [prop_make_dir, hdA]
      simp only [prop_create0, hz, hzA, if_false, hmd, hmdA]
    obtain ⟨stA', hmd', _, _, k2, k3, _, k5, k6, _, k8, _, k10, k11⟩ :=
      prop_create0_on_leaf hd hp hcr
    rw [hmd] at hmd'
    cases hmd'
    have kfl := k11 hms hmn
    obtain ⟨st', leaf, i1, i2, i3, i4⟩ := ih st1 st.nnodes (by omega) k5
      (by rw [kfl]) (by rw [kfl]) (by rw [kfl])
      (by rw [k8]; intro s hs; cases hs)
    have hstep : setv_from skipme (.PROP_SET_INT v) (n :: rest) st p
        = setv_from skipme (.PROP_SET_INT v) rest st1 st.nnodes := by
      rw [setv_from]
      simp only [hz, hd, if_false, hcr]
    have hv1 : (st1.nodes st.nnodes).hp_type = .PROP_VOID := by
      simp [prop_t.hp_type, k5, prop_value.hp_type]
    obtain ⟨_, f2, f3, _⟩ := setv_from_frame skipme (.PROP_SET_INT v) rest st1 st' st.nnodes
      hv1 (by omega) i1
    have hp' := f2 p (by omega) (Nat.ne_of_lt hp)
    have hup' : (st'.nodes p).u = .PROP_DIR [st.nnodes] none := by rw [hp']; exact k3
    refine ⟨st', leaf, by rw [hstep]; exact i1, ?_, i3, ?_⟩
    · have hfc : find_child_by_name st' [st.nnodes] n = some st.nnodes := by
        simp [find_child_by_name, f3, k6]
      simp [prop_find0, hp_type_of_dir hup', hp_childs_of_u hup', hfc, i2]
    · have hnil : setv_records st1 st.nnodes skipme rest v = [] := by
        cases rest <;> simp [setv_records, k8, child_records]
      rw [i4, hnil, k10, hlA, multi_part_nil (by simpa using hmn)]
      simp [setv_records, List.append_assoc]

/-- C9 (amended): for `prop_setv_ex(skipme, root, n1 .. nk, PROP_SET_INT, v)` on a void root
  (so nothing below it exists) that carries neither PROP_MULTI_SUB nor PROP_MULTI_NOTIFY:
  the call returns, afterwards the path resolves to a leaf holding the int v through nodes
  that are all directories, and the deliveries are exactly those of `setv_records`: for
  k = 0 one PROP_SET_INT to each subscription on the value list of root but skipme, for
  k > 0 one PROP_SET_DIR and then one PROP_ADD_CHILD to each of them and no PROP_SET_INT,
  the new nodes having no subscriptions. -/
theorem prop_setv_lazy_chain [CFloat F] (st : State F) (root : Nat) (names : List String)
    (skipme : Option Nat) (v : Int)
    (hp : root < st.nnodes) (hu : (st.nodes root).u = .PROP_VOID)
    (hc : (st.nodes root).hp_flags.PROP_CLIPPED_VALUE = false)
    (hms : (st.nodes root).hp_flags.PROP_MULTI_SUB = false)
    (hmn : (st.nodes root).hp_flags.PROP_MULTI_NOTIFY = false)
    (hv : ∀ s ∈ (st.nodes root).hp_value_subscriptions, some s ≠ skipme →
      (st.subs s).hps_value_prop = some root) :
    ∃ st' leaf, prop_setv_ex st skipme (some root) names (.PROP_SET_INT v) = .ok st' ∧
      prop_find0 st' root names = some leaf ∧ (st'.nodes leaf).u = .PROP_INT v 0 0 ∧
      (∀ l1 n l2, names = l1 ++ n :: l2 →
        ∃ a, prop_find0 st' root l1 = some a ∧ (st'.nodes a).hp_type = .PROP_DIR) ∧
      st'.log = st.log ++ setv_records st root skipme names v := by
  obtain ⟨st', leaf, h1, h2, h3, h4⟩ :=
    setv_void_chain skipme v names st root hp hu hc hms hmn hv
  have hz : ¬ (st.nodes root).hp_type = .PROP_ZOMBIE := by
    simp [prop_t.hp_type, hu, prop_value.hp_type]
  refine ⟨st', leaf, by simp [prop_setv_ex, hz, h1], h2, h3, ?_, h4⟩
  intro l1 n l2 e
  subst e
  exact prop_find0_prefix_dir st' l1 root n l2 leaf h2

/-- Witness for C9: `prop_setv(root, "a", "b", NULL, PROP_SET_INT, 5)` on the void root of
  `ex_root`. -/
theorem prop_setv_lazy_chain_witness :
    ∃ st' leaf, prop_setv_ex ex_root none (some 0) ["a", "b"] (.PROP_SET_INT 5) = .ok st' ∧
      prop_find0 st' 0 ["a", "b"] = some leaf ∧ (st'.nodes leaf).u = .PROP_INT 5 0 0 ∧
      (∀ l1 n l2, ["a", "b"] = l1 ++ n :: l2 →
        ∃ a, prop_find0 st' 0 l1 = some a ∧ (st'.nodes a).hp_type = .PROP_DIR) ∧
      st'.log = ex_root.log ++ setv_records ex_root 0 none ["a", "b"] 5 :=
  prop_setv_lazy_chain ex_root 0 ["a", "b"] none 5 (by decide) (by decide) (by decide)
    (by decide) (by decide) (by decide)

/-- Counterexample to C9 as stated: the void root of `ex_multi` has one value subscription,
  a multi subscription; `prop_setv(root, "a", "b", NULL, PROP_SET_INT, 5)` converts root and
  the new node "a", neither "a" nor "b" has a subscription, and yet the subscription of root
  receives three PROP_SET_DIR records: one for root and one more from each upward walk. -/
theorem prop_setv_multi_counterexample :
    (ex_multi.nodes 0).u = .PROP_VOID ∧ (ex_multi.nodes 0).hp_value_subscriptions = [0] ∧
    ex_multi.log = [] ∧
    (log_after (prop_setv_ex ex_multi none (some 0) ["a", "b"] (.PROP_SET_INT 5))).map
      log_events = some [(0, .PROP_SET_DIR), (0, .PROP_ADD_CHILD), (0, .PROP_SET_DIR),
        (0, .PROP_SET_DIR)] ∧
    (node_after (prop_setv_ex ex_multi none (some 0) ["a", "b"] (.PROP_SET_INT 5)) 1).map
      (fun nd => (nd.u, nd.hp_value_subscriptions)) = some (.PROP_DIR [2] none, []) ∧
    (node_after (prop_setv_ex ex_multi none (some 0) ["a", "b"] (.PROP_SET_INT 5)) 2).map
      (fun nd => (nd.u, nd.hp_value_subscriptions)) = some (.PROP_INT 5 0 0, []) := by
  decide

/-! ## C2 and C4: the clamp of prop_set_int_exl and prop_toggle_int_ex -/

/-- C2, the code at the failing input: the int node of `ex_clip_sub` holds 7 with the range
  5..10 and has one queued subscription. The first `prop_set_int(p, 100)` stores 10 and
  queues one PROP_SET_INT; the identical second call leaves the node as it is and queues a
  second PROP_SET_INT, because 10 is compared with the unclamped 100. The sibling
  prop_add_int_ex, which clamps before it compares, emits nothing the second time. -/
theorem prop_set_int_twice_clipped :
    (ex_clip_sub.nodes 0).u = .PROP_INT 7 5 10 ∧
    (ex_clip_sub.nodes 0).hp_flags.PROP_CLIPPED_VALUE = true ∧
    (ex_clip_sub.nodes 0).hp_value_subscriptions = [0] ∧ ex_clip_sub.log = [] ∧
    (ex_clip_sub1.nodes 0).u = .PROP_INT 10 5 10 ∧
    log_events ex_clip_sub1.log = [(0, .PROP_SET_INT)] ∧
    (node_after (prop_set_int_ex ex_clip_sub1 (some 0) none 100) 0).map (fun nd => nd.u)
      = some (.PROP_INT 10 5 10) ∧
    (log_after (prop_set_int_ex ex_clip_sub1 (some 0) none 100)).map log_events
      = some [(0, .PROP_SET_INT), (0, .PROP_SET_INT)] ∧
    (log_after (prop_add_int_ex ex_clip_sub1 (some 0) none 100)).map log_events
      = some [(0, .PROP_SET_INT)] := by
  decide

/-- C4, the code at the failing inputs: on the int node of `ex_clip` (7 in 5..10)
  prop_toggle_int_ex stores 0; on the float node of `ex_fclip` (5 in 0..10) prop_set_int
  with 100 stores the int 100 beside the range 0..10, where the sibling prop_add_int_ex with
  100 stores the clamped 10. -/
theorem numeric_write_leaves_range :
    (ex_clip.nodes 0).u = .PROP_INT 7 5 10 ∧
    (ex_clip.nodes 0).hp_flags.PROP_CLIPPED_VALUE = true ∧
    (node_after (prop_toggle_int_ex ex_clip (some 0) none) 0).map (fun nd => nd.u)
      = some (.PROP_INT 0 5 10) ∧
    (ex_fclip.nodes 0).u = .PROP_FLOAT ⟨5⟩ ⟨0⟩ ⟨10⟩ ∧
    (ex_fclip.nodes 0).hp_flags.PROP_CLIPPED_VALUE = true ∧
    (node_after (prop_set_int_ex ex_fclip (some 0) none 100) 0).map
      (fun nd => (nd.u, nd.hp_flags.PROP_CLIPPED_VALUE)) = some (.PROP_INT 100 0 10, true) ∧
    (node_after (prop_add_int_ex ex_fclip (some 0) none 100) 0).map (fun nd => nd.u)
      = some (.PROP_INT 10 0 10) := by
  decide

/-! ## C3: value fan-out of the typed setters -/

theorem multi_part_sameTree {a b : State F} (h : SameTree a b) (p : Nat) :
    multi_part b p = multi_part a p := by
  unfold multi_part
  rw [h.hp_flags p, h.1, prop_ancestors_sameTree h]
  split
  · split
    · exact multi_records_sameTree h _
    · rfl
  · rfl

theorem value_record_singleton (st : State F) (s p : Nat) (how : Int)
    (hz : (st.nodes p).u.hp_type ≠ .PROP_ZOMBIE) :
    ∃ d, value_record st s p how = [d] ∧ d.n.hpn_sub = s ∧ d.n.hpn_prop2 = some p := by
  unfold value_record
  cases hu : (st.nodes p).u <;>
    simp [hu, prop_value.hp_type, direct_value_args, queued_value_args] at hz ⊢ <;>
    split <;> simp [Delivery.n]

/-- Writing the union of p and notifying, stated with `Notified`. -/
theorem notify_step (st : State F) (p : Nat) (skipme : Option Nat) (how : Int)
    (v : prop_value F) (hv : v.hp_type ≠ .PROP_ZOMBIE) (hn : NotifyOk st p skipme) :
    ∃ st', prop_notify_value (st.setU p v) p skipme how = .ok st' ∧ (st'.nodes p).u = v ∧
      Notified st st' p skipme how := by
  obtain ⟨st', h1, h2, h3, h4⟩ := setU_notify_ok st p skipme how v hv hn
  refine ⟨st', h1, h3, ?_, ?_, ?_⟩
  · rw [h4, notify_records, value_records, ← multi_part_sameTree h2,
      ← h2.hp_value_subscriptions p]
    have : (fun s => value_record (st.setU p v) s p how) = fun s => value_record st' s p how := by
      funext s; exact (value_record_sameTree h2 s p how).symm
    rw [this, List.append_assoc]
  · rw [h2.hp_value_subscriptions p]; simp
  · intro s
    exact value_record_singleton st' s p how (by rw [h3]; exact hv)

theorem notify_step_or (st : State F) (p : Nat) (skipme : Option Nat) (how : Int)
    (v : prop_value F) (hn : NotifyOk st p skipme) (hv : v.hp_type ≠ .PROP_ZOMBIE) :
    ∃ st', prop_notify_value (st.setU p v) p skipme how = .ok st' ∧
      (st' = st ∨ Notified st st' p skipme how) := by
  obtain ⟨st', h1, _, h3⟩ := notify_step st p skipme how v hv hn
  exact ⟨st', h1, Or.inr h3⟩

theorem Notified.congr {st0 st st' : State F} {p : Nat} {skipme : Option Nat} {how : Int}
    (h : Notified st st' p skipme how) (hl : st.log = st0.log)
    (hs : (st.nodes p).hp_value_subscriptions = (st0.nodes p).hp_value_subscriptions) :
    Notified st0 st' p skipme how := by
  obtain ⟨h1, h2, h3⟩ := h
  exact ⟨by rw [h1, hl], by rw [h2, hs], h3⟩

/-- The same after an earlier write to the union of p (a coercion). -/
theorem notify_step2 (st : State F) (p : Nat) (skipme : Option Nat) (how : Int)
    (w v : prop_value F) (hw : w.hp_type ≠ .PROP_ZOMBIE) (hv : v.hp_type ≠ .PROP_ZOMBIE)
    (hn : NotifyOk st p skipme) :
    ∃ st', prop_notify_value ((st.setU p w).setU p v) p skipme how = .ok st' ∧
      (st'.nodes p).u = v ∧ Notified st st' p skipme how := by
  obtain ⟨st', h1, h2, h3⟩ := notify_step (st.setU p w) p skipme how v hv (hn.setU w hw)
  exact ⟨st', h1, h2, h3.congr rfl (by simp)⟩

/-- The same after the flags and the union of p were written (a clipping range). -/
theorem notify_step3 (st : State F) (p : Nat) (skipme : Option Nat) (how : Int)
    (nd : prop_t F) (v : prop_value F)
    (h1 : nd.hp_value_subscriptions = (st.nodes p).hp_value_subscriptions)
    (h2 : nd.hp_parent = (st.nodes p).hp_parent)
    (h3 : nd.hp_flags.PROP_MULTI_NOTIFY = (st.nodes p).hp_flags.PROP_MULTI_NOTIFY)
    (h4 : nd.hp_type ≠ .PROP_ZOMBIE) (hv : v.hp_type ≠ .PROP_ZOMBIE)
    (hn : NotifyOk st p skipme) :
    ∃ st', prop_notify_value ((st.setNode p nd).setU p v) p skipme how = .ok st' ∧
      (st'.nodes p).u = v ∧ Notified st st' p skipme how := by
  obtain ⟨st', k1, k2, k3⟩ :=
    notify_step (st.setNode p nd) p skipme how v hv (hn.setNode nd h1 h2 h3 h4)
  exact ⟨st', k1, k2, k3.congr rfl (by simp [h1])⟩

theorem prop_set_void_ex_notifies (st : State F) (p : Nat) (skipme : Option Nat)
    (hn : NotifyOk st p skipme) :
    ∃ st', prop_set_void_ex st (some p) skipme = .ok st' ∧
      (st' = st ∨ Notified st st' p skipme 0) := by
  unfold prop_set_void_ex prop_set_void_exl
  dsimp only
  repeat' split
  all_goals first
    | exact ⟨_, rfl, Or.inl rfl⟩
    | exact notify_step_or st p skipme 0 _ hn (by simp [prop_value.hp_type])

theorem prop_set_string_ex_notifies (st : State F) (p : Nat) (skipme : Option Nat)
    (str : String) (type : Nat) (hn : NotifyOk st p skipme) :
    ∃ st', prop_set_string_ex st (some p) skipme (some str) type = .ok st' ∧
      (st' = st ∨ Notified st st' p skipme 0) := by
  unfold prop_set_string_ex prop_set_string_exl
  dsimp only
  repeat' split
  all_goals first
    | exact ⟨_, rfl, Or.inl rfl⟩
    | exact notify_step_or st p skipme 0 _ hn (by simp [prop_value.hp_type])

theorem prop_set_rstring_ex_notifies (st : State F) (p : Nat) (skipme : Option Nat)
    (rstr : String) (hn : NotifyOk st p skipme) :
    ∃ st', prop_set_rstring_ex st (some p) skipme (some rstr) = .ok st' ∧
      (st' = st ∨ Notified st st' p skipme 0) := by
  unfold prop_set_rstring_ex prop_set_rstring_exl
  dsimp only
  repeat' split
  all_goals first
    | exact ⟨_, rfl, Or.inl rfl⟩
    | exact notify_step_or st p skipme 0 _ hn (by simp [prop_value.hp_type])

theorem prop_set_cstring_ex_notifies (st : State F) (p : Nat) (skipme : Option Nat)
    (cstr : String) (hn : NotifyOk st p skipme) :
    ∃ st', prop_set_cstring_ex st (some p) skipme (some cstr) = .ok st' ∧
      (st' = st ∨ Notified st st' p skipme 0) := by
  unfold prop_set_cstring_ex
  dsimp only
  repeat' split
  all_goals first
    | exact ⟨_, rfl, Or.inl rfl⟩
    | exact notify_step_or st p skipme 0 _ hn (by simp [prop_value.hp_type])

theorem prop_set_link_ex_notifies (st : State F) (p : Nat) (skipme : Option Nat)
    (title url : Option String) (hn : NotifyOk st p skipme) :
    ∃ st', prop_set_link_ex st (some p) skipme title url = .ok st' ∧
      (st' = st ∨ Notified st st' p skipme 0) := by
  unfold prop_set_link_ex
  dsimp only
  split
  · exact prop_set_void_ex_notifies st p skipme hn
  · repeat' split
    all_goals first
      | exact ⟨_, rfl, Or.inl rfl⟩
      | exact notify_step_or st p skipme 0 _ hn (by simp [prop_value.hp_type])

theorem prop_set_int_ex_notifies [CFloat F] (st : State F) (p : Nat) (skipme : Option Nat)
    (v : Int) (hn : NotifyOk st p skipme) :
    ∃ st', prop_set_int_ex st (some p) skipme v = .ok st' ∧
      (st' = st ∨ Notified st st' p skipme 0) := by
  unfold prop_set_int_ex prop_set_int_exl
  dsimp only
  repeat' split
  all_goals first
    | exact ⟨_, rfl, Or.inl rfl⟩
    | exact notify_step_or st p skipme 0 _ hn (by simp [prop_value.hp_type, prop_float_to_int,  prop_value.set_hp_int])

/-- What the coercion to int at the head of the int adders and setters leaves. -/
theorem prop_int_head_spec [CFloat F] (st : State F) (p : Nat) :
    (numeric_refused (st.nodes p) = true ∧ prop_int_head st p = none) ∨
    (numeric_refused (st.nodes p) = false ∧ ∃ st1, prop_int_head st p = some st1 ∧
      (st1.nodes p).u = .PROP_INT (int_view (st.nodes p).u) (int_range (st.nodes p).u).1
        (int_range (st.nodes p).u).2 ∧
      (st1.nodes p).hp_flags = (st.nodes p).hp_flags ∧ st1.log = st.log ∧
      (st1.nodes p).hp_value_subscriptions = (st.nodes p).hp_value_subscriptions ∧
      (st1.nodes p).hp_parent = (st.nodes p).hp_parent ∧
      ∀ skipme, NotifyOk st p skipme → NotifyOk st1 p skipme) := by
  unfold prop_int_head numeric_refused
  cases hu : (st.nodes p).u with
  | PROP_INT val mn mx =>
    exact Or.inr ⟨rfl, st, rfl, by simp [hu, int_view, int_range], rfl, rfl, rfl, rfl,
      fun _ h => h⟩
  | PROP_FLOAT val mn mx =>
    exact Or.inr ⟨rfl, _, rfl, by simp [int_view, int_range, prop_float_to_int], by simp,
      rfl, by simp, by simp,
      fun _ h => h.setU _ (by simp [prop_value.hp_type, prop_float_to_int])⟩
  | PROP_ZOMBIE => exact Or.inl ⟨by simp [prop_clean, hu], rfl⟩
  | PROP_DIR cs sel =>
    refine Or.inl ⟨by simp [prop_clean, hu], ?_⟩
    simp [prop_clean, hu]
  | _ =>
    by_cases hc : prop_clean (st.nodes p) = true
    · exact Or.inl ⟨hc, by simp [hc]⟩
    · simp only [hc]
      exact Or.inr ⟨by simp [hc], _, rfl, by simp [int_view, int_range], by simp,
        rfl, by simp, by simp, fun _ h => h.setU _ (by simp [prop_value.hp_type])⟩

/-- What prop_get_float leaves. -/
theorem prop_get_float_spec [CFloat F] (st : State F) (p : Nat) :
    (numeric_refused (st.nodes p) = true ∧ prop_get_float st (some p) = (st, none, false)) ∨
    (numeric_refused (st.nodes p) = false ∧ ∃ st1 forced,
      prop_get_float st (some p) = (st1, some p, forced) ∧
      (forced = false → st1 = st) ∧
      (st1.nodes p).u = .PROP_FLOAT (float_view (st.nodes p).u) (float_range (st.nodes p).u).1
        (float_range (st.nodes p).u).2 ∧
      (st1.nodes p).hp_flags = (st.nodes p).hp_flags ∧ st1.log = st.log ∧
      (st1.nodes p).hp_value_subscriptions = (st.nodes p).hp_value_subscriptions ∧
      (st1.nodes p).hp_parent = (st.nodes p).hp_parent ∧
      ∀ skipme, NotifyOk st p skipme → NotifyOk st1 p skipme) := by
  simp only [prop_get_float, numeric_refused]
  cases hu : (st.nodes p).u with
  | PROP_FLOAT val mn mx =>
    exact Or.inr ⟨rfl, st, false, rfl, fun _ => rfl, by simp [hu, float_view, float_range],
      rfl, rfl, rfl, rfl, fun _ h => h⟩
  | PROP_INT val mn mx =>
    exact Or.inr ⟨rfl, _, true, rfl, (fun h => Bool.noConfusion h),
      by simp [float_view, float_range, prop_int_to_float], by simp,
      rfl, by simp, by simp,
      fun _ h => h.setU _ (by simp [prop_value.hp_type, prop_int_to_float])⟩
  | PROP_ZOMBIE => exact Or.inl ⟨by simp [prop_clean, hu], rfl⟩
  | PROP_DIR cs sel =>
    refine Or.inl ⟨by simp [prop_clean, hu], ?_⟩
    simp [prop_clean, hu]
  | _ =>
    by_cases hc : prop_clean (st.nodes p) = true
    · exact Or.inl ⟨hc, by simp [hc]⟩
    · simp only [hc]
      exact Or.inr ⟨by simp [hc], _, true, rfl, (fun h => Bool.noConfusion h),
        by simp [float_view, float_range], by simp,
        rfl, by simp, by simp, fun _ h => h.setU _ (by simp [prop_value.hp_type])⟩

theorem prop_toggle_int_ex_notifies [CFloat F] (st : State F) (p : Nat) (skipme : Option Nat)
    (hn : NotifyOk st p skipme) :
    ∃ st', prop_toggle_int_ex st (some p) skipme = .ok st' ∧
      (st' = st ∨ Notified st st' p skipme 0) := by
  rcases prop_int_head_spec st p with ⟨_, h0⟩ | ⟨_, st1, h0, hu1, _, hl, hs, _, hn1⟩
  · exact ⟨st, by simp [prop_toggle_int_ex, h0], Or.inl rfl⟩
  · obtain ⟨st', k1, _, k3⟩ := notify_step st1 p skipme 0
      ((st1.nodes p).u.set_hp_int (if (st1.nodes p).u.hp_int = 0 then 1 else 0))
      (by simp [hu1, prop_value.set_hp_int, prop_value.hp_type]) (hn1 skipme hn)
    exact ⟨st', by simp [prop_toggle_int_ex, h0, k1], Or.inr (k3.congr hl hs)⟩

theorem prop_set_float_ex_notifies [CFloat F] (st : State F) (p : Nat) (skipme : Option Nat)
    (v : F) (how : Int) (hn : NotifyOk st p skipme) :
    ∃ st', prop_set_float_ex st (some p) skipme v how = .ok st' ∧
      (st' = st ∨ Notified st st' p skipme how) := by
  rcases prop_get_float_spec st p with ⟨_, h0⟩ | ⟨_, st1, forced, h0, hf, hu1, _, hl, hs, _, hn1⟩
  · exact ⟨st, by simp [prop_set_float_ex, h0], Or.inl rfl⟩
  · simp only [prop_set_float_ex, h0]
    split
    · next hcond =>
      refine ⟨st1, rfl, Or.inl (hf ?_)⟩
      cases forced
      · rfl
      · simp at hcond
    · exact
        let ⟨st', k1, _, k3⟩ := notify_step st1 p skipme how _
          (by simp [hu1, prop_value.set_hp_float, prop_value.hp_type]) (hn1 skipme hn)
        ⟨st', k1, Or.inr (k3.congr hl hs)⟩

theorem prop_add_int_ex_notifies [CFloat F] (st : State F) (p : Nat) (skipme : Option Nat)
    (v : Int) (hn : NotifyOk st p skipme) :
    ∃ st', prop_add_int_ex st (some p) skipme v = .ok st' ∧
      ((setter_call.add_int v).guard (st.nodes p) = some true → Notified st st' p skipme 0) ∧
      ((setter_call.add_int v).guard (st.nodes p) = some false → st'.log = st.log) := by
  rcases prop_int_head_spec st p with ⟨hr, h0⟩ | ⟨hr, st1, h0, hu1, hfl, hl, hs, _, hn1⟩
  · exact ⟨st, by simp [prop_add_int_ex, h0], by simp [setter_call.guard, hr], fun _ => rfl⟩
  · simp only [prop_add_int_ex, h0, setter_call.guard, hr, hu1, hfl, prop_value.hp_int,
      prop_value.set_hp_int]
    generalize (if (st.nodes p).hp_flags.PROP_CLIPPED_VALUE = true then
      clip_int (int_view (st.nodes p).u + v) (int_range (st.nodes p).u).1
        (int_range (st.nodes p).u).2
      else int_view (st.nodes p).u + v) = n1
    by_cases hne : n1 = int_view (st.nodes p).u
    · exact ⟨st1, by simp [hne], by simp [hne], fun _ => hl⟩
    · obtain ⟨st', k1, _, k3⟩ := notify_step st1 p skipme 0
        (.PROP_INT n1 (int_range (st.nodes p).u).1 (int_range (st.nodes p).u).2)
        (by simp [prop_value.hp_type]) (hn1 skipme hn)
      exact ⟨st', by simp [hne, k1], fun _ => k3.congr hl hs, by simp [hne]⟩

theorem prop_add_float_ex_notifies [CFloat F] (st : State F) (p : Nat) (skipme : Option Nat)
    (v : F) (hn : NotifyOk st p skipme) :
    ∃ st', prop_add_float_ex st (some p) skipme v = .ok st' ∧
      ((setter_call.add_float v).guard (st.nodes p) = some true →
        Notified st st' p skipme 0) ∧
      ((setter_call.add_float v).guard (st.nodes p) = some false → st'.log = st.log) := by
  rcases prop_get_float_spec st p with ⟨hr, h0⟩ | ⟨hr, st1, forced, h0, _, hu1, hfl, hl, hs, _, hn1⟩
  · exact ⟨st, by simp [prop_add_float_ex, h0], by simp [setter_call.guard, hr], fun _ => rfl⟩
  · simp only [prop_add_float_ex, h0, setter_call.guard, hr, hu1, hfl, prop_value.hp_float,
      prop_value.set_hp_float]
    generalize (if (st.nodes p).hp_flags.PROP_CLIPPED_VALUE = true then
      clip_float (CFloat.add (float_view (st.nodes p).u) v) (float_range (st.nodes p).u).1
        (float_range (st.nodes p).u).2
      else CFloat.add (float_view (st.nodes p).u) v) = n1
    cases hne : CFloat.eq (float_view (st.nodes p).u) n1 with
    | true => exact ⟨st1, by simp, by simp, fun _ => hl⟩
    | false =>
      obtain ⟨st', k1, _, k3⟩ := notify_step st1 p skipme 0
        (.PROP_FLOAT n1 (float_range (st.nodes p).u).1 (float_range (st.nodes p).u).2)
        (by simp [prop_value.hp_type]) (hn1 skipme hn)
      exact ⟨st', by simp [k1], fun _ => k3.congr hl hs, by simp⟩

theorem prop_set_int_clipping_range_notifies [CFloat F] (st : State F) (p : Nat)
    (min max : Int) (hn : NotifyOk st p none) :
    ∃ st', prop_set_int_clipping_range st (some p) min max = .ok st' ∧
      ((setter_call.set_int_clipping_range min max : setter_call F).guard (st.nodes p)
          = some true → Notified st st' p none 0) ∧
      ((setter_call.set_int_clipping_range min max : setter_call F).guard (st.nodes p)
          = some false → st'.log = st.log) := by
  rcases prop_int_head_spec st p with ⟨hr, h0⟩ | ⟨hr, st1, h0, hu1, hfl, hl, hs, hpar, hn1⟩
  · exact ⟨st, by simp [prop_set_int_clipping_range, h0],
      by simp [setter_call.guard, hr], fun _ => rfl⟩
  · simp only [prop_set_int_clipping_range, h0, setter_call.guard, hr, hu1,
      prop_value.hp_int]
    by_cases hne : clip_int (int_view (st.nodes p).u) min max = int_view (st.nodes p).u
    · exact ⟨st1.setNode p { st1.nodes p with
          hp_flags := { (st1.nodes p).hp_flags with PROP_CLIPPED_VALUE := true }
          u := .PROP_INT (int_view (st.nodes p).u) min max },
        by simp [hne], by simp [hne], fun _ => by simpa using hl⟩
    · obtain ⟨st', k1, _, k3⟩ := notify_step3 st1 p none 0
        { st1.nodes p with
          hp_flags := { (st1.nodes p).hp_flags with PROP_CLIPPED_VALUE := true }
          u := .PROP_INT (int_view (st.nodes p).u) min max }
        (.PROP_INT (clip_int (int_view (st.nodes p).u) min max) min max)
        rfl rfl rfl (by simp [prop_t.hp_type, prop_value.hp_type])
        (by simp [prop_value.hp_type]) (hn1 none hn)
      exact ⟨st', by simp [hne, k1], fun _ => k3.congr hl hs, by simp [hne]⟩

theorem prop_set_float_clipping_range_notifies [CFloat F] (st : State F) (p : Nat)
    (min max : F) (hn : NotifyOk st p none) :
    ∃ st', prop_set_float_clipping_range st (some p) min max = .ok st' ∧
      ((setter_call.set_float_clipping_range min max).guard (st.nodes p) = some true →
        Notified st st' p none 0) ∧
      ((setter_call.set_float_clipping_range min max).guard (st.nodes p) = some false →
        st'.log = st.log) := by
  rcases prop_get_float_spec st p with ⟨hr, h0⟩ | ⟨hr, st1, forced, h0, _, hu1, hfl, hl, hs, hpar, hn1⟩
  · exact ⟨st, by simp [prop_set_float_clipping_range, h0],
      by simp [setter_call.guard, hr], fun _ => rfl⟩
  · simp only [prop_set_float_clipping_range, h0, setter_call.guard, hr, hu1,
      prop_value.hp_float]
    cases hne : CFloat.eq (clip_float (float_view (st.nodes p).u) min max)
        (float_view (st.nodes p).u) with
    | true =>
      exact ⟨st1.setNode p { st1.nodes p with
          hp_flags := { (st1.nodes p).hp_flags with PROP_CLIPPED_VALUE := true }
          u := .PROP_FLOAT (float_view (st.nodes p).u) min max },
        by simp, by simp, fun _ => by simpa using hl⟩
    | false =>
      obtain ⟨st', k1, _, k3⟩ := notify_step3 st1 p none 0
        { st1.nodes p with
          hp_flags := { (st1.nodes p).hp_flags with PROP_CLIPPED_VALUE := true }
          u := .PROP_FLOAT (float_view (st.nodes p).u) min max }
        (.PROP_FLOAT (clip_float (float_view (st.nodes p).u) min max) min max)
        rfl rfl rfl (by simp [prop_t.hp_type, prop_value.hp_type])
        (by simp [prop_value.hp_type]) (hn1 none hn)
      exact ⟨st', by simp [k1], fun _ => k3.congr hl hs, by simp⟩

/-- The records of the typed setters and adders: for every call of set_string, set_rstring,
  set_cstring, set_link, set_int, set_float, set_void or toggle_int on a node p (the calls
  that have no guard) that changes
  the kind or stored value of p, every subscription on the value list of p other than
  skipme receives exactly one value record about the value p then holds, after which the
  multi subscriptions of ancestors are served (`Notified`). add_int, add_float and the
  clipping-range setters do so (the range setters leaving out no subscription) exactly when
  their guard holds: the node is not refused and the number they compute, clamped, compares
  unequal to the number in the node after coercion; otherwise they emit nothing, also when
  the coercion changed the kind of the node. -/
theorem setter_fan_out [CFloat F] (c : setter_call F) (st : State F) (p : Nat)
    (skipme : Option Nat) (hn : NotifyOk st p (c.skipped skipme)) :
    ∃ st', c.run st p skipme = .ok st' ∧
      (c.guard (st.nodes p) = none → (st'.nodes p).u ≠ (st.nodes p).u →
        Notified st st' p (c.skipped skipme) c.how) ∧
      (c.guard (st.nodes p) = some true → Notified st st' p (c.skipped skipme) c.how) ∧
      (c.guard (st.nodes p) = some false → st'.log = st.log) := by
  have plain : ∀ {r : Except Fault (State F)} {how : Int},
      (∃ st', r = .ok st' ∧ (st' = st ∨ Notified st st' p skipme how)) →
      ∃ st', r = .ok st' ∧
        ((none : Option Bool) = none → (st'.nodes p).u ≠ (st.nodes p).u →
          Notified st st' p skipme how) ∧
        ((none : Option Bool) = some true → Notified st st' p skipme how) ∧
        ((none : Option Bool) = some false → st'.log = st.log) := by
    intro r how h
    obtain ⟨st', h1, h2⟩ := h
    refine ⟨st', h1, fun _ hne => ?_, fun h => Option.noConfusion h,
      fun h => Option.noConfusion h⟩
    rcases h2 with h2 | h2
    · subst h2; exact absurd rfl hne
    · exact h2
  cases c with
  | set_string str type => exact plain (prop_set_string_ex_notifies st p skipme str type hn)
  | set_rstring rstr => exact plain (prop_set_rstring_ex_notifies st p skipme rstr hn)
  | set_cstring cstr => exact plain (prop_set_cstring_ex_notifies st p skipme cstr hn)
  | set_link title url => exact plain (prop_set_link_ex_notifies st p skipme title url hn)
  | set_int v => exact plain (prop_set_int_ex_notifies st p skipme v hn)
  | set_float v how => exact plain (prop_set_float_ex_notifies st p skipme v how hn)
  | set_void => exact plain (prop_set_void_ex_notifies st p skipme hn)
  | toggle_int => exact plain (prop_toggle_int_ex_notifies st p skipme hn)
  | add_int v =>
    obtain ⟨st', h1, h2, h3⟩ := prop_add_int_ex_notifies st p skipme v hn
    exact ⟨st', h1, fun h => by simp [setter_call.guard] at h, h2, h3⟩
  | add_float v =>
    obtain ⟨st', h1, h2, h3⟩ := prop_add_float_ex_notifies st p skipme v hn
    exact ⟨st', h1, fun h => by simp [setter_call.guard] at h, h2, h3⟩
  | set_int_clipping_range min max =>
    obtain ⟨st', h1, h2, h3⟩ := prop_set_int_clipping_range_notifies st p min max hn
    exact ⟨st', h1, fun h => by simp [setter_call.guard] at h, h2, h3⟩
  | set_float_clipping_range min max =>
    obtain ⟨st', h1, h2, h3⟩ := prop_set_float_clipping_range_notifies st p min max hn
    exact ⟨st', h1, fun h => by simp [setter_call.guard] at h, h2, h3⟩

/-- An instance of `setter_fan_out`: `prop_set_string(root, "y")` on the root of
  `ex_root_sub_x`, which holds the string "x" and has one subscription. -/
theorem setter_fan_out_witness :
    ∃ st', (setter_call.set_string "y" 0 : setter_call SmallFloat).run ex_root_sub_x 0 none
        = .ok st' ∧
      ((setter_call.set_string "y" 0 : setter_call SmallFloat).guard (ex_root_sub_x.nodes 0)
          = none → (st'.nodes 0).u ≠ (ex_root_sub_x.nodes 0).u →
        Notified ex_root_sub_x st' 0
          ((setter_call.set_string "y" 0 : setter_call SmallFloat).skipped none)
          (setter_call.set_string "y" 0 : setter_call SmallFloat).how) ∧
      ((setter_call.set_string "y" 0 : setter_call SmallFloat).guard (ex_root_sub_x.nodes 0)
          = some true →
        Notified ex_root_sub_x st' 0
          ((setter_call.set_string "y" 0 : setter_call SmallFloat).skipped none)
          (setter_call.set_string "y" 0 : setter_call SmallFloat).how) ∧
      ((setter_call.set_string "y" 0 : setter_call SmallFloat).guard (ex_root_sub_x.nodes 0)
          = some false → st'.log = ex_root_sub_x.log) :=
  setter_fan_out (setter_call.set_string "y" 0) ex_root_sub_x 0 none
    ⟨by decide, fun h => absurd h (by decide)⟩

/-- C3 (failing input): the void root of `ex_root_sub` has one queued subscription;
  `prop_add_int(root, 0)` and `prop_set_int_clipping_range(root, 0, 10)` each change its
  kind from void to int and deliver nothing, where the sibling `prop_set_int(root, 0)`
  delivers PROP_SET_INT: the adders and the range setters call prop_notify_value under
  their value guard only, which a change of kind does not pass. -/
theorem adder_kind_change_silent_counterexample :
    (ex_root_sub.nodes 0).u = .PROP_VOID ∧
    (ex_root_sub.nodes 0).hp_value_subscriptions = [0] ∧ ex_root_sub.log = [] ∧
    (node_after (prop_add_int_ex ex_root_sub (some 0) none 0) 0).map (fun nd => nd.u)
      = some (.PROP_INT 0 0 0) ∧
    log_after (prop_add_int_ex ex_root_sub (some 0) none 0) = some [] ∧
    (node_after (prop_set_int_clipping_range ex_root_sub (some 0) 0 10) 0).map
      (fun nd => nd.u) = some (.PROP_INT 0 0 10) ∧
    log_after (prop_set_int_clipping_range ex_root_sub (some 0) 0 10) = some [] ∧
    (log_after (prop_set_int_ex ex_root_sub (some 0) none 0)).map log_events
      = some [(0, .PROP_SET_INT)] := by
  decide
/-! ## C10: names of siblings -/

theorem Shrink.sh_refl (st : State F) : Shrink st st :=
  ⟨le_refl _, fun _ => ⟨Or.inl rfl, List.Subperm.refl _⟩⟩

theorem Shrink.sh_trans {a b c : State F} (h1 : Shrink a b) (h2 : Shrink b c) : Shrink a c := by
  refine ⟨le_trans h1.1 h2.1, fun q => ⟨?_, (h2.2 q).2.trans (h1.2 q).2⟩⟩
  rcases (h2.2 q).1 with e2 | e2
  · rcases (h1.2 q).1 with e1 | e1
    · exact Or.inl (e2.trans e1)
    · exact Or.inr (e2.trans e1)
  · exact Or.inr e2

theorem Shrink.of_sameTree {st st' : State F} (h : SameTree st st') : Shrink st st' := by
  refine ⟨le_of_eq h.1.symm, fun q => ⟨Or.inl (h.hp_name q), ?_⟩⟩
  unfold prop_t.hp_childs
  rw [h.u q]

theorem Shrink.of_nodes {st st' : State F} (hn : st'.nodes = st.nodes)
    (h : st.nnodes ≤ st'.nnodes) : Shrink st st' := by
  refine ⟨h, fun q => ⟨Or.inl (by rw [hn]), ?_⟩⟩
  rw [hn]

theorem Shrink.sh_setNode (st : State F) (p : Nat) (nd : prop_t F)
    (h1 : nd.hp_name = (st.nodes p).hp_name ∨ nd.hp_name = none)
    (h2 : nd.hp_childs.Subperm (st.nodes p).hp_childs) : Shrink st (st.setNode p nd) := by
  refine ⟨le_refl _, fun q => ?_⟩
  by_cases hq : q = p
  · subst hq; simpa using ⟨h1, h2⟩
  · simp [hq, List.Subperm.refl]

theorem Shrink.sh_setSub (st : State F) (s : Nat) (sb : prop_sub_t) : Shrink st (st.setSub s sb) :=
  Shrink.of_nodes rfl (le_refl _)

theorem Shrink.sh_setU (st : State F) (p : Nat) (v : prop_value F)
    (h : ({ st.nodes p with u := v } : prop_t F).hp_childs.Subperm (st.nodes p).hp_childs) :
    Shrink st (st.setU p v) :=
  Shrink.sh_setNode st p _ (Or.inl rfl) h

theorem Shrink.sh_setChilds (st : State F) (p : Nat) (cs : List Nat)
    (h : cs.Subperm (st.nodes p).hp_childs) : Shrink st (st.setChilds p cs) := by
  unfold State.setChilds
  split
  · exact Shrink.sh_setU st p _ (by simpa [prop_t.hp_childs] using h)
  · exact Shrink.sh_refl st

theorem Shrink.sh_setSelected (st : State F) (p : Nat) (sel : Option Nat) :
    Shrink st (st.setSelected p sel) := by
  unfold State.setSelected
  split
  · next cs _ hu =>
    exact Shrink.sh_setU st p _ (by simp [prop_t.hp_childs, hu, List.Subperm.refl])
  · exact Shrink.sh_refl st

/-- A state that shrinks keeps the invariant of the child lists. -/
theorem NamesOk.shrink {st st' : State F} (h : Shrink st st') (hn : NamesOk st) :
    NamesOk st' := by
  refine ⟨fun d => ?_, fun d c hc => ?_⟩
  · have hp : (st'.nodes d).hp_childs.Pairwise fun a b =>
        ∀ n, (st.nodes a).hp_name = some n → (st.nodes b).hp_name ≠ some n := by
      obtain ⟨l, hl, hs⟩ := (h.2 d).2
      have h1 := (hn.1 d).sublist hs
      refine hl.pairwise h1 ?_
      intro a b hab n hb ha
      exact hab n ha hb
    refine hp.imp ?_
    intro a b hab n ha hb
    rcases (h.2 a).1 with ea | ea
    · rcases (h.2 b).1 with eb | eb
      · exact hab n (ea ▸ ha) (eb ▸ hb)
      · rw [eb] at hb; cases hb
    · rw [ea] at ha; cases ha
  · exact lt_of_lt_of_le (hn.2 d c ((h.2 d).2.subset hc)) h.1

theorem NamesOk.ok_setChilds {st : State F} (hn : NamesOk st) (p : Nat) (cs : List Nat)
    (hp : cs.Pairwise fun a b =>
      ∀ n, (st.nodes a).hp_name = some n → (st.nodes b).hp_name ≠ some n)
    (ha : ∀ c ∈ cs, c < st.nnodes) : NamesOk (st.setChilds p cs) := by
  unfold State.setChilds
  split
  · next old sel hu =>
    have hname : ∀ a, ((st.setU p (.PROP_DIR cs sel)).nodes a).hp_name = (st.nodes a).hp_name := by
      intro a
      by_cases h : a = p
      · subst h; simp
      · simp [h]
    refine ⟨fun d => ?_, fun d c hc => ?_⟩
    · simp only [hname]
      by_cases h : d = p
      · subst h; simpa [prop_t.hp_childs] using hp
      · simpa [h] using hn.1 d
    · by_cases h : d = p
      · subst h
        exact ha c (by simpa [prop_t.hp_childs] using hc)
      · exact hn.2 d c (by simpa [h] using hc)
  · exact hn

theorem foldlM_shrink {α : Type} (f : State F → α → Except Fault (State F))
    (hf : ∀ a c r, f a c = .ok r → Shrink a r) :
    ∀ (l : List α) (st st' : State F), List.foldlM f st l = .ok st' → Shrink st st' := by
  intro l
  induction l with
  | nil =>
    intro st st' h
    cases h
    exact Shrink.sh_refl st
  | cons a l ih =>
    intro st st' h
    rw [List.foldlM_cons] at h
    cases hfa : f st a with
    | error e => rw [hfa] at h; cases h
    | ok st1 =>
      rw [hfa] at h
      exact (hf st a st1 hfa).sh_trans (ih st1 st' h)

theorem shrink_of_flood_flag : ∀ (fuel : Nat) (st st' : State F) (p : Nat) (set clr : PropFlags),
    prop_flood_flag fuel st p set clr = .ok st' → Shrink st st' := by
  intro fuel
  induction fuel with
  | zero => intro st st' p set clr h; cases h
  | succ fuel ih =>
    intro st st' p set clr h
    unfold prop_flood_flag at h
    have h1 : Shrink st (st.setNode p
        { st.nodes p with hp_flags := ((st.nodes p).hp_flags.or set).andNot clr }) :=
      Shrink.sh_setNode st p _ (Or.inl rfl) (List.Subperm.refl _)
    dsimp only at h
    split at h
    · exact h1.sh_trans (foldlM_shrink _ (fun a c r hr => ih a r c set clr hr) _ _ _ h)
    · cases h; exact h1

theorem shrink_of_make_dir {st st' : State F} {p : Nat} {skipme : Option Nat}
    (h : prop_make_dir st p skipme = .ok st') : Shrink st st' := by
  unfold prop_make_dir at h
  split at h
  · cases h; exact Shrink.sh_refl st
  · split at h
    · cases h
    · exact (Shrink.sh_setU st p _ (by simp [prop_t.hp_childs])).sh_trans
        (Shrink.of_sameTree (sameTree_of_prop_notify_value h))

theorem namesOk_prop_make {st : State F} (hn : NamesOk st) (name : Option String)
    (noalloc : Bool) (parent : Option Nat) : NamesOk (prop_make st name noalloc parent).1 := by
  have hnode : ∀ a, a < st.nnodes → (prop_make st name noalloc parent).1.nodes a = st.nodes a := by
    intro a ha
    simp [prop_make, Nat.ne_of_lt ha]
  have hkids : ∀ d, ((prop_make st name noalloc parent).1.nodes d).hp_childs
      = if d = st.nnodes then [] else (st.nodes d).hp_childs := by
    intro d
    by_cases h : d = st.nnodes
    · simp [prop_make, h, prop_t.hp_childs]
    · simp [prop_make, h]
  refine ⟨fun d => ?_, fun d c hc => ?_⟩
  · rw [hkids d]
    split
    · exact List.Pairwise.nil
    · have h1 := hn.1 d
      have h2 := hn.2 d
      refine List.Pairwise.imp_of_mem ?_ h1
      intro a b ha hb hab
      rw [hnode a (h2 a ha), hnode b (h2 b hb)]
      exact hab
  · rw [hkids d] at hc
    split at hc
    · cases hc
    · exact Nat.lt_succ_of_lt (hn.2 d c hc)

theorem prop_make_fst_nnodes (st : State F) (name : Option String) (noalloc : Bool)
    (parent : Option Nat) : (prop_make st name noalloc parent).1.nnodes = st.nnodes + 1 := rfl

theorem prop_make_snd (st : State F) (name : Option String) (noalloc : Bool)
    (parent : Option Nat) : (prop_make st name noalloc parent).2 = st.nnodes := rfl

theorem prop_make_name_new (st : State F) (name : Option String) (noalloc : Bool)
    (parent : Option Nat) :
    ((prop_make st name noalloc parent).1.nodes st.nnodes).hp_name = name := by
  simp [prop_make]

theorem prop_make_node_old (st : State F) (name : Option String) (noalloc : Bool)
    (parent : Option Nat) (a : Nat) (ha : a ≠ st.nnodes) :
    (prop_make st name noalloc parent).1.nodes a = st.nodes a := by
  simp [prop_make, ha]

theorem prop_make_childs_new (st : State F) (name : Option String) (noalloc : Bool)
    (parent : Option Nat) :
    ((prop_make st name noalloc parent).1.nodes st.nnodes).hp_childs = [] := by
  simp [prop_make, prop_t.hp_childs]

/-- The invariant of the child lists holds after prop_insert at the tail when the new child
  is allocated and its name is carried by no child of the parent. -/
theorem namesOk_insert_tail {st st' : State F} {hp parent : Nat} {skipme : Option Nat}
    (h : prop_insert st hp parent none skipme = .ok st') (hn : NamesOk st)
    (ha : hp < st.nnodes)
    (hfresh : ∀ a ∈ (st.nodes parent).hp_childs, ∀ n,
      (st.nodes a).hp_name = some n → (st.nodes hp).hp_name ≠ some n) : NamesOk st' := by
  unfold prop_insert at h
  dsimp only at h
  refine NamesOk.shrink (Shrink.of_sameTree (sameTree_of_prop_notify_child _ _ _ _ _ _ _ h)) ?_
  refine hn.ok_setChilds parent _ ?_ ?_
  · rw [List.pairwise_append]
    refine ⟨hn.1 parent, List.pairwise_singleton _ _, ?_⟩
    intro a ha' b hb
    rw [List.mem_singleton] at hb
    subst hb
    exact hfresh a ha'
  · intro c hc
    rw [List.mem_append, List.mem_singleton] at hc
    rcases hc with hc | hc
    · exact hn.2 parent c hc
    · subst hc; exact ha

/-- The function prop_create0 keeps the invariant of the child lists. -/
theorem namesOk_of_create0 {st st' : State F} {parent c : Nat} {name : Option String}
    {skipme : Option Nat} {noalloc : Bool}
    (h : prop_create0 st parent name skipme noalloc = .ok (st', c)) (hn : NamesOk st) :
    NamesOk st' := by
  unfold prop_create0 at h
  split at h
  · cases h
  · cases hm : prop_make_dir st parent skipme with
    | error e => simp [hm] at h
    | ok st1 =>
      have n1 : NamesOk st1 := hn.shrink (shrink_of_make_dir hm)
      simp only [hm] at h
      cases hf : name.bind (find_child_by_name st1 (st1.nodes parent).hp_childs) with
      | some hp =>
        simp only [hf] at h
        split at h
        · simp only [Except.ok.injEq, Prod.mk.injEq] at h
          obtain ⟨h1, _⟩ := h
          subst h1
          refine n1.shrink (Shrink.sh_setNode st1 hp _ (Or.inl ?_) (List.Subperm.refl _))
          cases name with
          | none => simp at hf
          | some n =>
            simp only [Option.bind_some, find_child_by_name] at hf
            have := List.find?_some hf
            exact (of_decide_eq_true this).symm
        · cases h; exact n1
      | none =>
        simp only [hf] at h
        have n2 := namesOk_prop_make n1 name noalloc (some parent)
        generalize hst2 : prop_make st1 name noalloc (some parent) = r at h n2
        obtain ⟨st2, hp⟩ := r
        have hhp : hp = st1.nnodes := by
          have := prop_make_snd st1 name noalloc (some parent); rw [hst2] at this; exact this
        have hnn : st2.nnodes = st1.nnodes + 1 := by
          have := prop_make_fst_nnodes st1 name noalloc (some parent); rw [hst2] at this
          exact this
        have hname2 : (st2.nodes hp).hp_name = name := by
          have := prop_make_name_new st1 name noalloc (some parent); rw [hst2] at this
          rw [hhp]; exact this
        have hold : ∀ a, a ≠ st1.nnodes → st2.nodes a = st1.nodes a := by
          intro a ha
          have := prop_make_node_old st1 name noalloc (some parent) a ha; rw [hst2] at this
          exact this
        have hnew : (st2.nodes st1.nnodes).hp_childs = [] := by
          have := prop_make_childs_new st1 name noalloc (some parent); rw [hst2] at this
          exact this
        dsimp only at h n2
        generalize hfl : (if (st2.nodes parent).hp_flags.PROP_MULTI_SUB
              || (st2.nodes parent).hp_flags.PROP_MULTI_NOTIFY then
            prop_flood_flag (st2.nnodes + 1) st2 hp PROP_MULTI_NOTIFY {}
          else .ok st2) = fl at h
        cases fl with
        | error e => simp at h
        | ok st3 =>
          have s23 : Shrink st2 st3 := by
            split at hfl
            · exact shrink_of_flood_flag _ _ _ _ _ _ hfl
            · cases hfl; exact Shrink.sh_refl _
          have n3 : NamesOk st3 := n2.shrink s23
          simp only at h
          cases hi : prop_insert st3 hp parent none skipme with
          | error e => simp [hi] at h
          | ok st4 =>
            simp only [hi, Except.ok.injEq, Prod.mk.injEq] at h
            obtain ⟨h4, _⟩ := h
            subst h4
            refine namesOk_insert_tail hi n3 ?_ ?_
            · exact lt_of_lt_of_le (by rw [hnn, hhp]; exact Nat.lt_succ_self _) s23.1
            · intro a ha n han hhn
              have ha2 : a ∈ (st2.nodes parent).hp_childs := (s23.2 parent).2.subset ha
              have hpne : parent ≠ st1.nnodes := by
                intro e
                rw [e, hnew] at ha2
                cases ha2
              rw [hold parent hpne] at ha2
              have halt : a ≠ st1.nnodes := Nat.ne_of_lt (n1.2 parent a ha2)
              have ea : (st1.nodes a).hp_name = some n := by
                rcases (s23.2 a).1 with e | e
                · rw [e, hold a halt] at han; exact han
                · rw [e] at han; cases han
              have eh : name = some n := by
                rcases (s23.2 hp).1 with e | e
                · rw [e, hname2] at hhn; exact hhn
                · rw [e] at hhn; cases hhn
              subst eh
              simp only [Option.bind_some, find_child_by_name] at hf
              have := List.find?_eq_none.mp hf a ha2
              simp [ea] at this

theorem sameTree_of_notify_void {st st' : State F} {s : Nat}
    (h : prop_notify_void st s = .ok st') : SameTree st st' := by
  unfold prop_notify_void at h
  split at h
  · cases h; exact sameTree_call_direct _ _
  · cases hg : get_notify st s with
    | error e => simp [hg] at h
    | ok st1 =>
      simp only [hg, Except.ok.injEq] at h
      subst h
      exact (sameTree_get_notify hg).st_trans (sameTree_courier_enqueue _ _ _)

theorem sameTree_of_notify_destroyed {st st' : State F} {s : Nat}
    (h : prop_notify_destroyed st s = .ok st') : SameTree st st' := by
  unfold prop_notify_destroyed at h
  split at h
  · cases h; exact sameTree_call_direct _ _
  · cases hg : get_notify st s with
    | error e => simp [hg] at h
    | ok st1 =>
      simp only [hg, Except.ok.injEq] at h
      subst h
      exact (sameTree_get_notify hg).st_trans
        ((sameTree_queue_insert_tail _ _ _ _).st_trans (sameTree_courier_notify _ _))

theorem sameTree_of_monitor_active :
    ∀ (l : List Nat) (st st' : State F),
      prop_send_subscription_monitor_active l st = .ok st' → SameTree st st' := by
  intro l
  induction l with
  | nil => intro st st' h; cases h; exact SameTree.st_refl _
  | cons s rest ih =>
    intro st st' h
    unfold prop_send_subscription_monitor_active at h
    split at h
    · cases hg : get_notify st s with
      | error e => simp [hg] at h
      | ok st1 =>
        simp only [hg] at h
        exact (sameTree_get_notify hg).st_trans
          ((sameTree_courier_enqueue _ _ _).st_trans (ih _ _ h))
    · exact ih _ _ h

theorem sameTree_of_build_notify_childv {st st' : State F} {s : Nat} {pv : List Nat}
    {event : prop_event_t} {p2 : Option Nat} {direct : Bool}
    (h : prop_build_notify_childv st s pv event p2 direct = .ok st') : SameTree st st' := by
  unfold prop_build_notify_childv at h
  split at h
  · cases h; exact sameTree_call_direct _ _
  · cases hg : get_notify st s with
    | error e => simp [hg] at h
    | ok st1 =>
      simp only [hg, Except.ok.injEq] at h
      subst h
      refine (sameTree_get_notify hg).st_trans ?_
      cases p2 with
      | none => exact sameTree_courier_enqueue _ _ _
      | some q => exact (sameTree_ref_inc _ _).st_trans (sameTree_courier_enqueue _ _ _)

theorem sameTree_of_notify_childv (pv : List Nat) (event : prop_event_t)
    (skipme p2 : Option Nat) :
    ∀ (l : List Nat) (st st' : State F),
      prop_notify_childv pv event skipme p2 l st = .ok st' → SameTree st st' := by
  intro l
  induction l with
  | nil => intro st st' h; cases h; exact SameTree.st_refl _
  | cons s rest ih =>
    intro st st' h
    unfold prop_notify_childv at h
    split at h
    · exact ih _ _ h
    · cases hb : prop_build_notify_childv st s pv event p2 false with
      | error e => simp [hb] at h
      | ok st1 =>
        simp only [hb] at h
        exact (sameTree_of_build_notify_childv hb).st_trans (ih _ _ h)

theorem sameTree_of_subscribe_add_childs (s value : Nat) (direct : Bool) :
    ∀ (l : List Nat) (st st' : State F),
      subscribe_add_childs s value direct l st = .ok st' → SameTree st st' := by
  intro l
  induction l with
  | nil => intro st st' h; cases h; exact SameTree.st_refl _
  | cons c rest ih =>
    intro st st' h
    unfold subscribe_add_childs at h
    cases hb : prop_build_notify_child st s (some c) .PROP_ADD_CHILD direct
        (gen_add_flags st c value) with
    | error e => simp [hb] at h
    | ok st1 =>
      simp only [hb] at h
      exact (sameTree_of_build_notify_child hb).st_trans (ih _ _ h)

theorem sameTree_of_ref_dec_locked {st st' : State F} {p : Option Nat}
    (h : prop_ref_dec_locked st p = .ok st') : SameTree st st' := by
  unfold prop_ref_dec_locked at h
  cases p with
  | none => cases h; exact SameTree.st_refl _
  | some p =>
    have h1 : SameTree st (st.setNode p
        { st.nodes p with hp_refcount := (st.nodes p).hp_refcount - 1 }) := by
      refine ⟨rfl, rfl, fun q => ?_, fun _ => rfl⟩
      by_cases hq : q = p
      · subst hq; simp
      · simp [hq]
    dsimp only at h
    split at h
    · cases h; exact h1
    · split at h
      · cases h
      · cases h; exact h1

theorem shrink_of_notify_free {st st' : State F} {n : prop_notify_t F}
    (h : prop_notify_free st n = .ok st') : Shrink st st' := by
  unfold prop_notify_free at h
  dsimp only at h
  split at h
  · cases h
  · next st1 hr =>
    cases h
    refine Shrink.sh_trans ?_ (Shrink.sh_setSub _ _ _)
    split at hr
    all_goals first
      | exact Shrink.of_sameTree (sameTree_of_ref_dec_locked hr)
      | (cases hr; exact Shrink.sh_refl _)
      | skip
    all_goals
      split at hr
      · cases hr
      · next st2 h2 =>
        exact Shrink.of_sameTree
          ((sameTree_of_ref_dec_locked h2).st_trans (sameTree_of_ref_dec_locked hr))

theorem tailq_remove_subperm {l cs : List Nat} {a : Nat} (h : tailq_remove l a = some cs) :
    cs.Subperm l := by
  unfold tailq_remove at h
  split at h
  · cases h; exact (List.erase_sublist a l).subperm
  · cases h

theorem tailq_remove_perm {l cs : List Nat} {a : Nat} (h : tailq_remove l a = some cs) :
    (a :: cs).Perm l := by
  unfold tailq_remove at h
  split at h
  · next hm => cases h; exact (List.perm_cons_erase hm).symm
  · cases h

theorem shrink_of_unparent_tail (st : State F) (p parent : Nat) (cs : List Nat)
    (hcs : cs.Subperm (st.nodes parent).hp_childs) :
    Shrink st
      (if (((st.setChilds parent cs).setNode p
            { (st.setChilds parent cs).nodes p with hp_parent := none }).nodes parent).hp_selected
            = some p then
        ((st.setChilds parent cs).setNode p
            { (st.setChilds parent cs).nodes p with hp_parent := none }).setSelected parent none
       else (st.setChilds parent cs).setNode p
            { (st.setChilds parent cs).nodes p with hp_parent := none }) := by
  have h1 : Shrink st (st.setChilds parent cs) := Shrink.sh_setChilds st parent _ hcs
  have h2 := h1.sh_trans (Shrink.sh_setNode (st.setChilds parent cs)
    p { (st.setChilds parent cs).nodes p with hp_parent := none } (Or.inl rfl)
    (List.Subperm.refl _))
  split
  · exact h2.sh_trans (Shrink.sh_setSelected _ _ _)
  · exact h2

theorem shrink_of_unparent0 {st st' : State F} {p : Nat} {skipme : Option Nat}
    (h : prop_unparent0 st p skipme = .ok st') : Shrink st st' := by
  unfold prop_unparent0 at h
  split at h
  · cases h; exact Shrink.sh_refl _
  · next parent _ =>
    split at h
    · cases h
    · split at h
      · cases h
      · next st1 hn =>
        split at h
        · cases h
        · next cs hcs =>
          cases h
          exact (Shrink.of_sameTree (sameTree_of_prop_notify_child _ _ _ _ _ _ _ hn)).sh_trans
            (shrink_of_unparent_tail st1 p parent cs (tailq_remove_subperm hcs))

theorem shrink_of_destroy_unparent {st st' : State F} {p : Nat}
    (h : destroy_unparent st p = .ok st') : Shrink st st' := by
  unfold destroy_unparent at h
  split at h
  · cases h; exact Shrink.sh_refl _
  · next parent _ =>
    split at h
    · cases h
    · next st1 hn =>
      split at h
      · cases h
      · next cs hcs =>
        cases h
        exact (Shrink.of_sameTree (sameTree_of_prop_notify_child _ _ _ _ _ _ _ hn)).sh_trans
          (shrink_of_unparent_tail st1 p parent cs (tailq_remove_subperm hcs))

theorem tailq_insert_before_perm (cs : List Nat) (b p : Nat) :
    (tailq_insert_before cs b p).Perm (p :: cs) := by
  induction cs with
  | nil => simp [tailq_insert_before]
  | cons c rest ih =>
    unfold tailq_insert_before
    split
    · exact List.Perm.refl _
    · exact (List.Perm.cons c ih).trans (List.Perm.swap p c rest)

theorem shrink_of_move0 {st st' : State F} {p : Nat} {before skipme : Option Nat}
    (h : prop_move0 st p before skipme = .ok st') : Shrink st st' := by
  unfold prop_move0 at h
  split at h
  · cases h
  · split at h
    · cases h; exact Shrink.sh_refl _
    · split at h
      · cases h
      · next parent _ =>
        split at h
        · split at h
          · cases h
          · next cs hcs =>
            dsimp only at h
            refine Shrink.sh_trans (Shrink.sh_setChilds st parent _ ?_)
              (Shrink.of_sameTree (sameTree_of_prop_notify_child2 _ _ _ _ _ _ _ _ h))
            have hperm := tailq_remove_perm hcs
            cases before with
            | none =>
              exact (List.perm_append_singleton p cs).trans hperm |>.subperm
            | some b =>
              exact ((tailq_insert_before_perm cs b p).trans hperm).subperm
        · cases h; exact Shrink.sh_refl _

theorem shrink_of_move {st st' : State F} {p : Nat} {before : Option Nat}
    (h : prop_move st p before = .ok st') : Shrink st st' :=
  shrink_of_move0 h

theorem shrink_setU_notify {st st' : State F} {p : Nat} {skipme : Option Nat} {how : Int}
    {v : prop_value F} (h : prop_notify_value (st.setU p v) p skipme how = .ok st')
    (hv : ({ st.nodes p with u := v } : prop_t F).hp_childs.Subperm (st.nodes p).hp_childs) :
    Shrink st st' :=
  (Shrink.sh_setU st p v hv).sh_trans (Shrink.of_sameTree (sameTree_of_prop_notify_value h))

theorem shrink_of_set_void_exl {st st' : State F} {p : Nat} {skipme : Option Nat}
    (h : prop_set_void_exl st p skipme = .ok st') : Shrink st st' := by
  unfold prop_set_void_exl at h
  repeat' split at h
  all_goals first
    | (cases h; exact Shrink.sh_refl _)
    | exact shrink_setU_notify h (by simp [prop_t.hp_childs])

theorem shrink_of_set_void_ex {st st' : State F} {p : Option Nat} {skipme : Option Nat}
    (h : prop_set_void_ex st p skipme = .ok st') : Shrink st st' := by
  unfold prop_set_void_ex at h
  split at h
  · cases h; exact Shrink.sh_refl _
  · exact shrink_of_set_void_exl h

theorem shrink_of_set_string_exl {st st' : State F} {p : Nat} {skipme : Option Nat}
    {str : String} {type : Nat} (h : prop_set_string_exl st p skipme str type = .ok st') :
    Shrink st st' := by
  unfold prop_set_string_exl at h
  repeat' split at h
  all_goals first
    | (cases h; exact Shrink.sh_refl _)
    | exact shrink_setU_notify h (by simp [prop_t.hp_childs])

theorem shrink_of_set_rstring_exl {st st' : State F} {p : Nat} {skipme : Option Nat}
    {rstr : String} (h : prop_set_rstring_exl st p skipme rstr = .ok st') :
    Shrink st st' := by
  unfold prop_set_rstring_exl at h
  repeat' split at h
  all_goals first
    | (cases h; exact Shrink.sh_refl _)
    | exact shrink_setU_notify h (by simp [prop_t.hp_childs])

theorem shrink_of_set_string_ex {st st' : State F} {p : Option Nat} {skipme : Option Nat}
    {str : Option String} {type : Nat} (h : prop_set_string_ex st p skipme str type = .ok st') :
    Shrink st st' := by
  unfold prop_set_string_ex at h
  repeat' split at h
  all_goals first
    | (cases h; exact Shrink.sh_refl _)
    | exact shrink_of_set_void_ex h
    | exact shrink_of_set_string_exl h

theorem shrink_of_set_rstring_ex {st st' : State F} {p : Option Nat} {skipme : Option Nat}
    {rstr : Option String} (h : prop_set_rstring_ex st p skipme rstr = .ok st') :
    Shrink st st' := by
  unfold prop_set_rstring_ex at h
  repeat' split at h
  all_goals first
    | (cases h; exact Shrink.sh_refl _)
    | exact shrink_of_set_void_ex h
    | exact shrink_of_set_rstring_exl h

theorem shrink_of_set_cstring_ex {st st' : State F} {p : Option Nat} {skipme : Option Nat}
    {cstr : Option String} (h : prop_set_cstring_ex st p skipme cstr = .ok st') :
    Shrink st st' := by
  unfold prop_set_cstring_ex at h
  repeat' split at h
  all_goals first
    | (cases h; exact Shrink.sh_refl _)
    | exact shrink_of_set_void_ex h
    | exact shrink_setU_notify h (by simp [prop_t.hp_childs])

theorem shrink_of_set_link_ex {st st' : State F} {p : Option Nat} {skipme : Option Nat}
    {title url : Option String} (h : prop_set_link_ex st p skipme title url = .ok st') :
    Shrink st st' := by
  unfold prop_set_link_ex at h
  repeat' split at h
  all_goals first
    | (cases h; exact Shrink.sh_refl _)
    | exact shrink_of_set_void_ex h
    | exact shrink_setU_notify h (by simp [prop_t.hp_childs])

theorem set_hp_int_childs (nd : prop_t F) (v : Int) :
    ({ nd with u := nd.u.set_hp_int v } : prop_t F).hp_childs = nd.hp_childs := by
  cases hu : nd.u <;> simp [prop_t.hp_childs, prop_value.set_hp_int, hu]

theorem set_hp_float_childs (nd : prop_t F) (v : F) :
    ({ nd with u := nd.u.set_hp_float v } : prop_t F).hp_childs = nd.hp_childs := by
  cases hu : nd.u <;> simp [prop_t.hp_childs, prop_value.set_hp_float, hu]

theorem shrink_of_set_int_exl [CFloat F] {st st' : State F} {p : Nat} {skipme : Option Nat}
    {v : Int} (h : prop_set_int_exl st p skipme v = .ok st') : Shrink st st' := by
  unfold prop_set_int_exl at h
  repeat' split at h
  all_goals first
    | (cases h; exact Shrink.sh_refl _)
    | exact shrink_setU_notify h
        (by simp [prop_t.hp_childs, prop_float_to_int, prop_value.set_hp_int])

theorem shrink_of_set_int_ex [CFloat F] {st st' : State F} {p : Option Nat}
    {skipme : Option Nat} {v : Int} (h : prop_set_int_ex st p skipme v = .ok st') :
    Shrink st st' := by
  unfold prop_set_int_ex at h
  split at h
  · cases h; exact Shrink.sh_refl _
  · exact shrink_of_set_int_exl h

theorem shrink_of_int_head [CFloat F] {st st1 : State F} {p : Nat}
    (h : prop_int_head st p = some st1) : Shrink st st1 := by
  unfold prop_int_head at h
  repeat' split at h
  all_goals first
    | (cases h; exact Shrink.sh_refl _)
    | (cases h; exact Shrink.sh_setU _ _ _ (by simp [prop_t.hp_childs, prop_float_to_int]))
    | cases h

theorem shrink_of_get_float [CFloat F] {st st1 : State F} {p q : Option Nat} {b : Bool}
    (h : prop_get_float st p = (st1, q, b)) : Shrink st st1 := by
  unfold prop_get_float at h
  repeat' split at h
  all_goals first
    | (cases h; exact Shrink.sh_refl _)
    | (cases h; exact Shrink.sh_setU _ _ _ (by simp [prop_t.hp_childs, prop_int_to_float]))

theorem shrink_of_add_int_ex [CFloat F] {st st' : State F} {p : Option Nat}
    {skipme : Option Nat} {v : Int} (h : prop_add_int_ex st p skipme v = .ok st') :
    Shrink st st' := by
  unfold prop_add_int_ex at h
  split at h
  · cases h; exact Shrink.sh_refl _
  · split at h
    · cases h; exact Shrink.sh_refl _
    · next st1 hh =>
      refine (shrink_of_int_head hh).sh_trans ?_
      dsimp only at h
      repeat' split at h
      all_goals first
        | (cases h; exact Shrink.sh_refl _)
        | exact shrink_setU_notify h
            (by rw [set_hp_int_childs])

theorem shrink_of_toggle_int_ex [CFloat F] {st st' : State F} {p : Option Nat}
    {skipme : Option Nat} (h : prop_toggle_int_ex st p skipme = .ok st') :
    Shrink st st' := by
  unfold prop_toggle_int_ex at h
  split at h
  · cases h; exact Shrink.sh_refl _
  · split at h
    · cases h; exact Shrink.sh_refl _
    · next st1 hh =>
      refine (shrink_of_int_head hh).sh_trans ?_
      dsimp only at h
      exact shrink_setU_notify h (by rw [set_hp_int_childs])

theorem shrink_of_set_int_clipping_range [CFloat F] {st st' : State F} {p : Option Nat}
    {min max : Int} (h : prop_set_int_clipping_range st p min max = .ok st') :
    Shrink st st' := by
  unfold prop_set_int_clipping_range at h
  split at h
  · cases h; exact Shrink.sh_refl _
  · next p =>
    split at h
    · cases h; exact Shrink.sh_refl _
    · next st1 hh =>
      refine (shrink_of_int_head hh).sh_trans ?_
      dsimp only at h
      have h2 : Shrink st1 (st1.setNode p { st1.nodes p with
          hp_flags := { (st1.nodes p).hp_flags with PROP_CLIPPED_VALUE := true },
          u := .PROP_INT (st1.nodes p).u.hp_int min max }) :=
        Shrink.sh_setNode st1 p _ (Or.inl rfl) (by simp [prop_t.hp_childs])
      split at h
      · exact h2.sh_trans (shrink_setU_notify h (by simp [prop_t.hp_childs]))
      · cases h; exact h2

theorem shrink_of_set_float_ex [CFloat F] {st st' : State F} {p : Option Nat}
    {skipme : Option Nat} {v : F} {how : Int}
    (h : prop_set_float_ex st p skipme v how = .ok st') : Shrink st st' := by
  unfold prop_set_float_ex at h
  split at h
  · cases h; exact Shrink.sh_refl _
  · next st1 q forced hg =>
    refine (shrink_of_get_float hg).sh_trans ?_
    dsimp only at h
    repeat' split at h
    all_goals first
      | (cases h; exact Shrink.sh_refl _)
      | exact shrink_setU_notify h
          (by rw [set_hp_float_childs])

theorem shrink_of_add_float_ex [CFloat F] {st st' : State F} {p : Option Nat}
    {skipme : Option Nat} {v : F}
    (h : prop_add_float_ex st p skipme v = .ok st') : Shrink st st' := by
  unfold prop_add_float_ex at h
  split at h
  · cases h; exact Shrink.sh_refl _
  · next st1 q forced hg =>
    refine (shrink_of_get_float hg).sh_trans ?_
    dsimp only at h
    repeat' split at h
    all_goals first
      | (cases h; exact Shrink.sh_refl _)
      | exact shrink_setU_notify h
          (by rw [set_hp_float_childs])

theorem shrink_of_set_float_clipping_range [CFloat F] {st st' : State F} {p : Option Nat}
    {min max : F} (h : prop_set_float_clipping_range st p min max = .ok st') :
    Shrink st st' := by
  unfold prop_set_float_clipping_range at h
  split at h
  · cases h; exact Shrink.sh_refl _
  · next st1 q forced hg =>
    refine (shrink_of_get_float hg).sh_trans ?_
    dsimp only at h
    have h2 : Shrink st1 (st1.setNode q { st1.nodes q with
        hp_flags := { (st1.nodes q).hp_flags with PROP_CLIPPED_VALUE := true },
        u := .PROP_FLOAT (st1.nodes q).u.hp_float min max }) :=
      Shrink.sh_setNode st1 q _ (Or.inl rfl) (by simp [prop_t.hp_childs])
    split at h
    · exact h2.sh_trans (shrink_setU_notify h (by simp [prop_t.hp_childs]))
    · cases h; exact h2

theorem shrink_of_setter_run [CFloat F] {st st' : State F} (c : setter_call F) {p : Nat}
    {skipme : Option Nat} (h : c.run st p skipme = .ok st') : Shrink st st' := by
  cases c <;> simp only [setter_call.run] at h
  · exact shrink_of_set_string_ex h
  · exact shrink_of_set_rstring_ex h
  · exact shrink_of_set_cstring_ex h
  · exact shrink_of_set_link_ex h
  · exact shrink_of_set_int_ex h
  · exact shrink_of_set_float_ex h
  · exact shrink_of_set_void_ex h
  · exact shrink_of_toggle_int_ex h
  · exact shrink_of_add_int_ex h
  · exact shrink_of_add_float_ex h
  · exact shrink_of_set_int_clipping_range h
  · exact shrink_of_set_float_clipping_range h

theorem shrink_of_seti [CFloat F] {st st' : State F} {skipme : Option Nat} {p : Nat}
    {arg : seti_arg} (h : prop_seti st skipme p arg = .ok st') : Shrink st st' := by
  unfold prop_seti at h
  split at h
  · exact shrink_of_set_void_exl h
  · exact shrink_of_set_string_exl h
  · exact shrink_of_set_void_exl h
  · exact shrink_of_set_rstring_exl h
  · exact shrink_of_set_int_exl h
  · exact shrink_of_set_void_exl h
  · cases h

theorem namesOk_of_create_ex {st st' : State F} {parent r : Option Nat}
    {name : Option String} {skipme : Option Nat} {noalloc incref : Bool}
    (h : prop_create_ex st parent name skipme noalloc incref = .ok (st', r))
    (hn : NamesOk st) : NamesOk st' := by
  unfold prop_create_ex at h
  split at h
  · cases h; exact hn
  · next parent =>
    split at h
    · cases hc : prop_create0 st parent name skipme noalloc with
      | error e => simp [hc] at h
      | ok r1 =>
        obtain ⟨st1, c⟩ := r1
        simp only [hc, Except.ok.injEq, Prod.mk.injEq] at h
        obtain ⟨h1, _⟩ := h
        subst h1
        have n1 := namesOk_of_create0 hc hn
        split
        · exact n1.shrink (Shrink.of_sameTree (sameTree_ref_inc _ _))
        · exact n1
    · cases h; exact hn

theorem namesOk_of_setv_from [CFloat F] (skipme : Option Nat) (arg : seti_arg) :
    ∀ (names : List String) (st st' : State F) (p : Nat),
      setv_from skipme arg names st p = .ok st' → NamesOk st → NamesOk st' := by
  intro names
  induction names with
  | nil =>
    intro st st' p h hn
    unfold setv_from at h
    exact hn.shrink (shrink_of_seti h)
  | cons n rest ih =>
    intro st st' p h hn
    unfold setv_from at h
    split at h
    · cases h; exact hn
    · split at h
      · exact ih _ _ _ h hn
      · cases hc : prop_create0 st p (some n) skipme false with
        | error e => simp [hc] at h
        | ok r1 =>
          obtain ⟨st1, c⟩ := r1
          simp only [hc] at h
          exact ih _ _ _ h (namesOk_of_create0 hc hn)

theorem namesOk_of_setv_ex [CFloat F] {st st' : State F} {skipme p : Option Nat}
    {names : List String} {arg : seti_arg}
    (h : prop_setv_ex st skipme p names arg = .ok st') (hn : NamesOk st) : NamesOk st' := by
  unfold prop_setv_ex at h
  split at h
  · cases h; exact hn
  · split at h
    · cases h; exact hn
    · exact namesOk_of_setv_from skipme arg names _ _ _ h hn

theorem namesOk_of_set_ex [CFloat F] {st st' : State F} {p : Option Nat}
    {name : Option String} {noalloc : Bool} {arg : seti_arg}
    (h : prop_set_ex st p name noalloc arg = .ok st') (hn : NamesOk st) : NamesOk st' := by
  unfold prop_set_ex at h
  split at h
  · cases h; exact hn
  · next p =>
    split at h
    · cases hc : prop_create0 st p name none noalloc with
      | error e => simp [hc] at h
      | ok r1 =>
        obtain ⟨st1, c⟩ := r1
        simp only [hc] at h
        exact (namesOk_of_create0 hc hn).shrink (shrink_of_seti h)
    · cases h; exact hn

theorem shrink_of_subfind_enter {st st1 : State F} {p : Nat}
    (h : subfind_enter st p = .ok (some st1)) : Shrink st st1 := by
  unfold subfind_enter at h
  split at h
  · split at h
    · cases h
    · cases hn : prop_notify_value (st.setU p (.PROP_DIR [] none)) p none 0 with
      | error e => simp [hn] at h
      | ok st2 =>
        simp only [hn, Except.ok.injEq, Option.some.injEq] at h
        subst h
        exact shrink_setU_notify hn (by simp [prop_t.hp_childs])
  · cases h; exact Shrink.sh_refl _

theorem namesOk_of_subfind_child {st st' : State F} {p : Nat} {name : String}
    {allow_indexing : Bool} {r : Option Nat}
    (h : subfind_child st p name allow_indexing = .ok (st', r)) (hn : NamesOk st) :
    NamesOk st' := by
  unfold subfind_child at h
  split at h
  · dsimp only at h
    split at h <;> (cases h; exact hn)
  · split at h
    · cases h; exact hn
    · cases hc : prop_create0 st p (some name) none false with
      | error e => simp [hc] at h
      | ok r1 =>
        obtain ⟨st1, c⟩ := r1
        simp only [hc, Except.ok.injEq, Prod.mk.injEq] at h
        obtain ⟨h1, _⟩ := h
        subst h1
        exact namesOk_of_create0 hc hn

theorem namesOk_of_subfind (follow_symlinks allow_indexing : Bool) :
    ∀ (name : List String) (st st' : State F) (p : Nat) (r : Option Nat),
      prop_subfind st p name follow_symlinks allow_indexing = .ok (st', r) →
      NamesOk st → NamesOk st' := by
  intro name
  induction name with
  | nil =>
    intro st st' p r h hn
    unfold prop_subfind at h
    split at h
    · split at h
      · cases h
      · cases h; exact hn
    · cases h; exact hn
  | cons n rest ih =>
    intro st st' p r h hn
    unfold prop_subfind at h
    split at h
    · cases h
    · next p1 _ =>
      cases he : subfind_enter st p1 with
      | error e => simp [he] at h
      | ok o =>
        cases o with
        | none => simp only [he] at h; cases h; exact hn
        | some st1 =>
          simp only [he] at h
          have n1 := hn.shrink (shrink_of_subfind_enter he)
          cases hc : subfind_child st1 p1 n allow_indexing with
          | error e => simp [hc, subfind_next] at h
          | ok r1 =>
            obtain ⟨st2, c⟩ := r1
            have n2 := namesOk_of_subfind_child hc n1
            cases c with
            | none =>
              simp only [hc, subfind_next, Except.ok.injEq, Prod.mk.injEq] at h
              obtain ⟨h1, _⟩ := h
              subst h1
              exact n2
            | some c =>
              simp only [hc, subfind_next] at h
              exact ih _ _ _ _ h n2

theorem shrink_of_flood_flag_on_childs {st st' : State F} {p : Nat} {set clr : PropFlags}
    (h : prop_flood_flag_on_childs st p set clr = .ok st') : Shrink st st' := by
  unfold prop_flood_flag_on_childs at h
  exact foldlM_shrink _ (fun a c r hr => shrink_of_flood_flag _ a r c set clr hr) _ _ _ h

theorem shrink_of_set_multi {st st' : State F} {p : Nat}
    (h : prop_set_multi st p = .ok st') : Shrink st st' := by
  unfold prop_set_multi at h
  split at h
  · cases h; exact Shrink.sh_refl _
  · dsimp only at h
    have h1 : Shrink st (st.setNode p { st.nodes p with
        hp_flags := { (st.nodes p).hp_flags with PROP_MULTI_SUB := true } }) :=
      Shrink.sh_setNode st p _ (Or.inl rfl) (List.Subperm.refl _)
    split at h
    · exact h1.sh_trans (shrink_of_flood_flag_on_childs h)
    · cases h; exact h1

theorem namesOk_of_subscribe_resolve {st st' : State F} {a : subscribe_args}
    {c v : Option Nat} (h : subscribe_resolve st a = .ok (st', c, v)) (hn : NamesOk st) :
    NamesOk st' := by
  unfold subscribe_resolve at h
  split at h
  · split at h <;> (cases h; exact hn)
  · cases h
  · next n0 name _ =>
    split at h
    · cases h
    · cases h; exact hn
    · next p _ =>
      cases h1 : prop_subfind st p name false false with
      | error e => simp [h1] at h
      | ok r1 =>
        obtain ⟨st1, canonical⟩ := r1
        simp only [h1] at h
        cases h2 : prop_subfind st1 p name true false with
        | error e => simp [h2] at h
        | ok r2 =>
          obtain ⟨st2, value⟩ := r2
          simp only [h2, Except.ok.injEq, Prod.mk.injEq] at h
          obtain ⟨e, _⟩ := h
          subst e
          exact namesOk_of_subfind _ _ _ _ _ _ _ h2 (namesOk_of_subfind _ _ _ _ _ _ _ h1 hn)

theorem shrink_of_subscribe_canonical {st st' : State F} {s : Nat} {canonical : Option Nat}
    {b : Bool} (h : subscribe_canonical st s canonical = .ok (st', b)) : Shrink st st' := by
  unfold subscribe_canonical at h
  split at h
  · cases h; exact Shrink.sh_refl _
  · next c =>
    dsimp only at h
    have h1 : Shrink st (st.setNode c { st.nodes c with
        hp_canonical_subscriptions := s :: (st.nodes c).hp_canonical_subscriptions }) :=
      Shrink.sh_setNode st c _ (Or.inl rfl) (List.Subperm.refl _)
    generalize hst1 : st.setNode c { st.nodes c with
        hp_canonical_subscriptions := s :: (st.nodes c).hp_canonical_subscriptions } = st1
      at h h1
    have h2 : Shrink st1 (if ((st1.subs s).hps_flags.PROP_SUB_SUBSCRIPTION_MONITOR
          && !(st1.nodes c).hp_flags.PROP_MONITORED) = true then
        st1.setNode c { st1.nodes c with
          hp_flags := { (st1.nodes c).hp_flags with PROP_MONITORED := true } } else st1) := by
      split
      · exact Shrink.sh_setNode st1 c _ (Or.inl rfl) (List.Subperm.refl _)
      · exact Shrink.sh_refl _
    generalize (if ((st1.subs s).hps_flags.PROP_SUB_SUBSCRIPTION_MONITOR
          && !(st1.nodes c).hp_flags.PROP_MONITORED) = true then
        st1.setNode c { st1.nodes c with
          hp_flags := { (st1.nodes c).hp_flags with PROP_MONITORED := true } } else st1) = st2
      at h h2
    split at h
    · split at h
      · cases h
      · next st3 hm =>
        cases h
        exact h1.sh_trans (h2.sh_trans (shrink_of_set_multi hm))
    · cases h
      exact h1.sh_trans h2

theorem shrink_of_subscribe_value {st st' : State F} {s : Nat} {value : Option Nat}
    {direct notify_now : Bool} (h : subscribe_value st s value direct notify_now = .ok st') :
    Shrink st st' := by
  unfold subscribe_value at h
  split at h
  · cases h; exact Shrink.sh_refl _
  · next v =>
    dsimp only at h
    have h1 : Shrink st (st.setNode v { st.nodes v with
        hp_value_subscriptions := s :: (st.nodes v).hp_value_subscriptions }) :=
      Shrink.sh_setNode st v _ (Or.inl rfl) (List.Subperm.refl _)
    generalize st.setNode v { st.nodes v with
        hp_value_subscriptions := s :: (st.nodes v).hp_value_subscriptions } = st1 at h h1
    split at h
    · cases h
    · next st3 hu =>
      have h3 : Shrink st1 st3 := by
        split at hu
        · split at hu
          · cases hu
          · next st2 pq hb =>
            have hb' := Shrink.of_sameTree (sameTree_of_build_notify_value hb)
            split at hu
            · split at hu
              · exact hb'.sh_trans (Shrink.of_sameTree (sameTree_of_build_notify_childv hu))
              · exact hb'.sh_trans
                  (Shrink.of_sameTree (sameTree_of_subscribe_add_childs _ _ _ _ _ _ hu))
            · cases hu; exact hb'
        · cases hu; exact Shrink.sh_refl _
      split at h
      · exact h1.sh_trans (h3.sh_trans (Shrink.of_sameTree (sameTree_of_monitor_active _ _ _ h)))
      · cases h; exact h1.sh_trans h3

theorem namesOk_of_subscribe {st st' : State F} {a : subscribe_args} {r : Option Nat}
    (h : prop_subscribe st a = .ok (st', r)) (hn : NamesOk st) : NamesOk st' := by
  unfold prop_subscribe at h
  dsimp only at h
  split at h
  · cases h
  · next st1 canonical0 value0 hr =>
    have n1 := namesOk_of_subscribe_resolve hr hn
    split at h
    · cases h
    · cases h; exact n1
    · split at h
      · cases h
      · next st4 act hc =>
        have s4 := shrink_of_subscribe_canonical hc
        split at h
        · cases h
        · next st5 hv =>
          have s5 := shrink_of_subscribe_value hv
          split at h
          · cases h
          · next st6 ha =>
            have s6 : Shrink st5 st6 := by
              split at ha
              · split at ha
                · exact Shrink.of_sameTree (sameTree_of_monitor_active _ _ _ ha)
                · cases ha; exact Shrink.sh_refl _
              · cases ha; exact Shrink.sh_refl _
            have n3 : NamesOk st6 := by
              refine NamesOk.shrink (Shrink.sh_trans ?_ (s4.sh_trans (s5.sh_trans s6))) n1
              exact Shrink.of_nodes rfl (le_refl _)
            split at h
            · split at h
              · cases h
                exact n3.shrink (Shrink.of_sameTree (sameTree_call_direct _ _))
              · split at h
                · cases h
                · next st7 hd =>
                  cases h
                  exact n3.shrink (Shrink.of_sameTree (sameTree_of_notify_destroyed hd))
            · cases h; exact n3

theorem namesOk_empty : NamesOk (State.empty : State F) :=
  ⟨fun _ => List.Pairwise.nil, fun _ _ hc => by cases hc⟩

theorem shrink_of_relink_one [CFloat F] {src : Nat} {skipme : Option Nat} {s : Nat}
    {st st' : State F} {pnq pnq' : prop_notify_queue F}
    (h : relink_one src skipme s st pnq = .ok (st', pnq')) : Shrink st st' := by
  unfold relink_one at h
  split at h
  · cases h; exact Shrink.sh_refl _
  · dsimp only at h
    split at h
    · cases h
    · next st2 equal hd =>
      have s2 : Shrink st st2 := by
        split at hd
        · next v _ =>
          split at hd
          · cases hd
          · next st1 hf =>
            have s1 : Shrink st st1 := by
              split at hf
              · exact Shrink.of_sameTree (sameTree_of_notify_void hf)
              · cases hf; exact Shrink.sh_refl _
            split at hd
            · cases hd
            · split at hd
              · cases hd
              · cases hd
                exact s1.sh_trans (Shrink.sh_setNode st1 v _ (Or.inl (by rfl))
                  (by exact List.Subperm.refl _))
        · cases hd; exact Shrink.sh_refl _
      have s4 : Shrink st2 ((st2.setNode src { st2.nodes src with
          hp_value_subscriptions := s :: (st2.nodes src).hp_value_subscriptions }).setSub s
          { (st2.setNode src { st2.nodes src with
              hp_value_subscriptions := s :: (st2.nodes src).hp_value_subscriptions }).subs s with
            hps_value_prop := some src }) :=
        (Shrink.sh_setNode st2 src _ (Or.inl (by rfl)) (by exact List.Subperm.refl _)).sh_trans
          (Shrink.sh_setSub _ _ _)
      generalize (st2.setNode src { st2.nodes src with
          hp_value_subscriptions := s :: (st2.nodes src).hp_value_subscriptions }).setSub s
          { (st2.setNode src { st2.nodes src with
              hp_value_subscriptions := s :: (st2.nodes src).hp_value_subscriptions }).subs s with
            hps_value_prop := some src } = st4 at h s4
      split at h
      · cases h
      · next st5 hm =>
        have s5 : Shrink st4 st5 := by
          split at hm
          · exact Shrink.of_sameTree (sameTree_of_monitor_active _ _ _ hm)
          · cases hm; exact Shrink.sh_refl _
        have s05 := s2.sh_trans (s4.sh_trans s5)
        split at h
        · cases h; exact s05
        · split at h
          · cases h
          · next st7 pnq1 hb =>
            have s7 := s05.sh_trans ((Shrink.sh_setSub st5 s _).sh_trans
              (Shrink.of_sameTree (sameTree_of_build_notify_value hb)))
            split at h
            · split at h
              · cases h
              · next st8 ha =>
                cases h
                exact s7.sh_trans
                  (Shrink.of_sameTree (sameTree_of_subscribe_add_childs _ _ _ _ _ _ ha))
            · cases h; exact s7

theorem shrink_of_relink_subs [CFloat F] (src : Nat) (skipme : Option Nat) :
    ∀ (l : List Nat) (st st' : State F) (pnq pnq' : prop_notify_queue F),
      relink_subs src skipme l st pnq = .ok (st', pnq') → Shrink st st' := by
  intro l
  induction l with
  | nil => intro st st' pnq pnq' h; cases h; exact Shrink.sh_refl _
  | cons s rest ih =>
    intro st st' pnq pnq' h
    unfold relink_subs at h
    split at h
    · cases h
    · next st1 pnq1 h1 => exact (shrink_of_relink_one h1).sh_trans (ih _ _ _ _ h)

theorem namesOk_of_relink_childs
    (recur : State F → Nat → Nat → prop_notify_queue F →
      Except Fault (State F × prop_notify_queue F))
    (hrec : ∀ st z c q st' q', recur st z c q = .ok (st', q') → NamesOk st → NamesOk st')
    (src dst : Nat) (skipme no_descend : Option Nat) :
    ∀ (fuel : Nat) (st st' : State F) (c : Option Nat) (pnq pnq' : prop_notify_queue F),
      relink_childs recur src dst skipme no_descend fuel st c pnq = .ok (st', pnq') →
      NamesOk st → NamesOk st' := by
  intro fuel
  induction fuel with
  | zero => intro st st' c pnq pnq' h; cases c <;> cases h
  | succ fuel ih =>
    intro st st' c pnq pnq' h hn
    cases c with
    | none => unfold relink_childs at h; cases h; exact hn
    | some c =>
      unfold relink_childs at h
      dsimp only at h
      split at h
      · cases h
      · next st1 pnq1 hb =>
        refine ih _ _ _ _ _ h ?_
        split at hb
        · cases hb; exact hn
        · next name _ =>
          split at hb
          · cases hb; exact hn
          · split at hb
            · cases hb
            · next st2 z hc =>
              have n2 := namesOk_of_create0 hc hn
              split at hb
              · cases hb
              · next st3 hm =>
                refine hrec _ _ _ _ _ _ hb ?_
                split at hm
                · exact n2.shrink (shrink_of_make_dir hm)
                · cases hm; exact n2

theorem namesOk_of_relink_subscriptions [CFloat F] :
    ∀ (fuel : Nat) (st st' : State F) (src dst : Nat) (skipme : Option Nat)
      (pnq pnq' : prop_notify_queue F) (no_descend : Option Nat),
      relink_subscriptions fuel st src dst skipme pnq no_descend = .ok (st', pnq') →
      NamesOk st → NamesOk st' := by
  intro fuel
  induction fuel with
  | zero => intro st st' src dst skipme pnq pnq' nd h; cases h
  | succ fuel ih =>
    intro st st' src0 dst skipme pnq pnq' nd h hn
    unfold relink_subscriptions at h
    split at h
    · cases h
    · next src _ =>
      split at h
      · cases h
      · next st1 pnq1 hs =>
        have n1 := hn.shrink (shrink_of_relink_subs _ _ _ _ _ _ _ hs)
        split at h
        · exact namesOk_of_relink_childs _
            (fun s z c q s' q' hr hs => ih s s' z c skipme q q' none hr hs)
            _ _ _ _ _ _ _ _ _ _ h n1
        · cases h; exact n1

theorem namesOk_of_remove_from_originator
    (destroy : State F → Nat → Except Fault (State F × Bool))
    (hd : ∀ st p st' b, destroy st p = .ok (st', b) → NamesOk st → NamesOk st')
    {st st' : State F} {p : Nat}
    (h : prop_remove_from_originator destroy st p = .ok st') (hn : NamesOk st) :
    NamesOk st' := by
  unfold prop_remove_from_originator at h
  split at h
  · cases h
  · next o _ =>
    split at h
    · cases h
    · next l _ =>
      dsimp only at h
      have n1 : NamesOk (st.setNode o { st.nodes o with hp_targets := l }) :=
        hn.shrink (Shrink.sh_setNode st o _ (Or.inl (by rfl)) (by exact List.Subperm.refl _))
      split at h
      · cases h
      · next st2 hr =>
        cases h
        have n2 : NamesOk st2 := by
          split at hr
          · split at hr
            · cases hr
            · next st3 b hd3 => cases hr; exact hd _ _ _ _ hd3 n1
          · cases hr; exact n1
        exact n2.shrink (Shrink.sh_setNode st2 p _ (Or.inl (by rfl)) (by exact List.Subperm.refl _))

theorem namesOk_of_unlink0 [CFloat F]
    (destroy : State F → Nat → Except Fault (State F × Bool))
    (hd : ∀ st p st' b, destroy st p = .ok (st', b) → NamesOk st → NamesOk st')
    {fuel : Nat} {st st' : State F} {p : Nat} {skipme : Option Nat}
    {pnq pnq' : prop_notify_queue F}
    (h : prop_unlink0 destroy fuel st p skipme pnq = .ok (st', pnq')) (hn : NamesOk st) :
    NamesOk st' := by
  unfold prop_unlink0 at h
  split at h
  · cases h
  · next st1 hr =>
    exact namesOk_of_relink_subscriptions _ _ _ _ _ _ _ _ _ h
      (namesOk_of_remove_from_originator destroy hd hr hn)

theorem namesOk_of_destroy_child
    (destroy : State F → Nat → Except Fault (State F × Bool))
    (hd : ∀ st p st' b, destroy st p = .ok (st', b) → NamesOk st → NamesOk st')
    {st st' : State F} {p c : Nat}
    (h : prop_destroy_child destroy st p c = .ok st') (hn : NamesOk st) : NamesOk st' := by
  unfold prop_destroy_child at h
  split at h
  · cases h
  · next st1 hd1 => cases h; exact hd _ _ _ _ hd1 hn
  · next st1 hd1 =>
    have n1 := hd _ _ _ _ hd1 hn
    split at h
    · cases h
    · next st2 hn2 =>
      have n2 := n1.shrink (Shrink.of_sameTree (sameTree_of_prop_notify_child _ _ _ _ _ _ _ hn2))
      split at h
      · cases h
      · next cs hcs =>
        cases h
        exact n2.shrink ((Shrink.sh_setChilds st2 p cs (tailq_remove_subperm hcs)).sh_trans
          (Shrink.sh_setNode _ c _ (Or.inl (by rfl)) (by exact List.Subperm.refl _)))

theorem namesOk_of_destroy_childs_loop
    (destroy : State F → Nat → Except Fault (State F × Bool))
    (hd : ∀ st p st' b, destroy st p = .ok (st', b) → NamesOk st → NamesOk st')
    (p : Nat) :
    ∀ (fuel : Nat) (st st' : State F) (c : Option Nat),
      destroy_childs_loop destroy p fuel st c = .ok st' → NamesOk st → NamesOk st' := by
  intro fuel
  induction fuel with
  | zero => intro st st' c h; cases c <;> cases h
  | succ fuel ih =>
    intro st st' c h hn
    cases c with
    | none => unfold destroy_childs_loop at h; cases h; exact hn
    | some c =>
      unfold destroy_childs_loop at h
      dsimp only at h
      split at h
      · cases h
      · next st1 h1 => exact ih _ _ _ h (namesOk_of_destroy_child destroy hd h1 hn)

theorem shrink_of_destroy_canonical_subs (p : Nat) :
    ∀ (l : List Nat) (st st' : State F),
      destroy_canonical_subs p l st = .ok st' → Shrink st st' := by
  intro l
  induction l with
  | nil => intro st st' h; cases h; exact Shrink.sh_refl _
  | cons s rest ih =>
    intro st st' h
    unfold destroy_canonical_subs at h
    dsimp only at h
    have h2 : Shrink st ((st.setNode p { st.nodes p with hp_canonical_subscriptions := rest }).setSub
        s { (st.setNode p { st.nodes p with hp_canonical_subscriptions := rest }).subs s with
          hps_canonical_prop := none }) :=
      (Shrink.sh_setNode st p _ (Or.inl (by rfl)) (by exact List.Subperm.refl _)).sh_trans (Shrink.sh_setSub _ _ _)
    split at h
    · split at h
      · cases h
      · next st3 h3 =>
        exact h2.sh_trans ((Shrink.of_sameTree (sameTree_of_notify_destroyed h3)).sh_trans
          (ih _ _ h))
    · exact h2.sh_trans (ih _ _ h)

theorem shrink_of_destroy_value_subs (p : Nat) :
    ∀ (l : List Nat) (st st' : State F),
      destroy_value_subs p l st = .ok st' → Shrink st st' := by
  intro l
  induction l with
  | nil => intro st st' h; cases h; exact Shrink.sh_refl _
  | cons s rest ih =>
    intro st st' h
    unfold destroy_value_subs at h
    split at h
    · cases h
    · next st1 h1 =>
      dsimp only at h
      exact (Shrink.of_sameTree (sameTree_of_notify_void h1)).sh_trans
        (((Shrink.sh_setNode st1 p _ (Or.inl (by rfl)) (by exact List.Subperm.refl _)).sh_trans
          (Shrink.sh_setSub _ _ _)).sh_trans (ih _ _ h))

theorem namesOk_of_destroy_targets (unlink : State F → Nat → Except Fault (State F))
    (hu : ∀ st c st', unlink st c = .ok st' → NamesOk st → NamesOk st') (p : Nat) :
    ∀ (fuel : Nat) (st st' : State F),
      destroy_targets unlink p fuel st = .ok st' → NamesOk st → NamesOk st' := by
  intro fuel
  induction fuel with
  | zero => intro st st' h; cases h
  | succ fuel ih =>
    intro st st' h hn
    unfold destroy_targets at h
    split at h
    · cases h; exact hn
    · split at h
      · cases h
      · next st1 h1 => exact ih _ _ h (hu _ _ _ h1 hn)

/-- The function prop_destroy0 keeps the invariant of the child lists. -/
theorem namesOk_of_destroy0 [CFloat F] :
    ∀ (fuel : Nat) (st : State F) (p : Nat) (st' : State F) (b : Bool),
      prop_destroy0 fuel st p = .ok (st', b) → NamesOk st → NamesOk st' := by
  intro fuel
  induction fuel with
  | zero => intro st p st' b h; cases h
  | succ fuel ih =>
    intro st p st' b h hn
    have hd : ∀ (s : State F) (q : Nat) (s' : State F) (b : Bool),
        (fun s q => prop_destroy0 fuel s q) s q = .ok (s', b) → NamesOk s → NamesOk s' :=
      fun s q s' b hq hs => ih s q s' b hq hs
    unfold prop_destroy0 at h
    split at h
    · cases h; exact hn
    · dsimp only at h
      have n1 : NamesOk (st.setNode p { st.nodes p with hp_xref := ((st.nodes p).hp_xref - 1) % 256 }) :=
        hn.shrink (Shrink.sh_setNode st p _ (Or.inl (by rfl)) (by exact List.Subperm.refl _))
      generalize st.setNode p { st.nodes p with hp_xref := ((st.nodes p).hp_xref - 1) % 256 } = st1
        at h n1
      split at h
      · cases h; exact n1
      · split at h
        · cases h
        · next st2 h2 =>
          have n2 := namesOk_of_destroy_childs_loop _ hd p _ _ _ _ h2 n1
          have n3 : NamesOk (st2.setU p .PROP_ZOMBIE) :=
            n2.shrink (Shrink.sh_setU st2 p _ (by simp [prop_t.hp_childs]))
          generalize st2.setU p .PROP_ZOMBIE = st3 at h n3
          split at h
          · cases h
          · next st4 h4 =>
            have n4 := n3.shrink (shrink_of_destroy_canonical_subs _ _ _ _ h4)
            split at h
            · cases h
            · next st5 h5 =>
              have n5 := n4.shrink (shrink_of_destroy_value_subs _ _ _ _ h5)
              split at h
              · cases h
              · next st6 h6 =>
                have n6 : NamesOk st6 := by
                  refine namesOk_of_destroy_targets _ ?_ p _ _ _ h6 n5
                  intro s c s' hs hns
                  split at hs
                  · cases hs
                  · next s1 q1 hu =>
                    cases hs
                    exact namesOk_of_unlink0 _ hd hu hns
                split at h
                · cases h
                · next st7 h7 =>
                  have n7 : NamesOk st7 := by
                    split at h7
                    · exact namesOk_of_remove_from_originator _ hd h7 n6
                    · cases h7; exact n6
                  split at h
                  · cases h
                  · next st8 h8 =>
                    have n8 := n7.shrink (shrink_of_destroy_unparent h8)
                    have n9 : NamesOk (st8.setNode p { st8.nodes p with hp_name := none }) :=
                      n8.shrink (Shrink.sh_setNode st8 p _ (Or.inr (by rfl)) (by exact List.Subperm.refl _))
                    split at h
                    · cases h
                    · next st10 h10 =>
                      cases h
                      exact n9.shrink (Shrink.of_sameTree (sameTree_of_ref_dec_locked h10))

theorem namesOk_of_destroy [CFloat F] {fuel : Nat} {st st' : State F} {p : Option Nat}
    (h : prop_destroy fuel st p = .ok st') (hn : NamesOk st) : NamesOk st' := by
  unfold prop_destroy at h
  split at h
  · cases h; exact hn
  · split at h
    · cases h
    · next st1 b h1 => cases h; exact namesOk_of_destroy0 _ _ _ _ _ h1 hn

theorem namesOk_of_relink_targets [CFloat F] (fuel : Nat) (dst : Nat)
    (skipme no_descend : Option Nat) :
    ∀ (l : List Nat) (st st' : State F),
      relink_targets fuel dst skipme no_descend l st = .ok st' → NamesOk st → NamesOk st' := by
  intro l
  induction l with
  | nil => intro st st' h hn; cases h; exact hn
  | cons t rest ih =>
    intro st st' h hn
    unfold relink_targets at h
    split at h
    · cases h
    · next st1 q1 h1 =>
      exact ih _ _ h (namesOk_of_relink_subscriptions _ _ _ _ _ _ _ _ _ h1 hn)

theorem namesOk_of_link_parents [CFloat F] (fuel0 : Nat) (skipme : Option Nat) :
    ∀ (fuel : Nat) (st st' : State F) (dst : Nat) (no_descend : Option Nat),
      link_parents fuel0 skipme fuel st dst no_descend = .ok st' → NamesOk st →
      NamesOk st' := by
  intro fuel
  induction fuel with
  | zero => intro st st' dst nd h; cases h
  | succ fuel ih =>
    intro st st' dst nd h hn
    unfold link_parents at h
    split at h
    · cases h; exact hn
    · split at h
      · cases h
      · next st1 h1 => exact ih _ _ _ _ h (namesOk_of_relink_targets _ _ _ _ _ _ _ h1 hn)

theorem namesOk_of_unlink_parents [CFloat F] (fuel0 : Nat) (skipme : Option Nat) :
    ∀ (fuel : Nat) (st st' : State F) (p : Nat),
      unlink_parents fuel0 skipme fuel st p = .ok st' → NamesOk st → NamesOk st' := by
  intro fuel
  induction fuel with
  | zero => intro st st' p h; cases h
  | succ fuel ih =>
    intro st st' p h hn
    unfold unlink_parents at h
    split at h
    · cases h; exact hn
    · split at h
      · cases h
      · next st1 h1 => exact ih _ _ _ h (namesOk_of_relink_targets _ _ _ _ _ _ _ h1 hn)

theorem shrink_of_link_flush :
    ∀ (l : List (prop_notify_t F)) (st st' : State F),
      link_flush l st = .ok st' → Shrink st st' := by
  intro l
  induction l with
  | nil => intro st st' h; cases h; exact Shrink.sh_refl _
  | cons n rest ih =>
    intro st st' h
    unfold link_flush at h
    dsimp only at h
    split at h
    · exact ((Shrink.sh_setSub st _ _).sh_trans
        (Shrink.of_sameTree (sameTree_courier_enqueue _ _ _))).sh_trans (ih _ _ h)
    · split at h
      · cases h
      · next st1 h1 => exact (shrink_of_notify_free h1).sh_trans (ih _ _ h)

theorem namesOk_of_link0 [CFloat F] {fuel : Nat} {st st' : State F} {src dst : Nat}
    {skipme : Option Nat} {hard : prop_link_hard}
    (h : prop_link0 fuel st src dst skipme hard = .ok st') (hn : NamesOk st) :
    NamesOk st' := by
  have hd : ∀ (s : State F) (q : Nat) (s' : State F) (b : Bool),
      (fun s q => prop_destroy0 fuel s q) s q = .ok (s', b) → NamesOk s → NamesOk s' :=
    fun s q s' b hq hs => namesOk_of_destroy0 fuel s q s' b hq hs
  unfold prop_link0 at h
  split at h
  · cases h
  · split at h
    · cases h; exact hn
    · dsimp only at h
      split at h
      · cases h
      · next st1 pnq hu =>
        have n1 : NamesOk st1 := by
          split at hu
          · exact namesOk_of_unlink0 _ hd hu hn
          · cases hu; exact hn
        split at h
        · cases h
        · next st3 ha =>
          have n3 : NamesOk st3 := by
            split at ha
            · split at ha
              · cases ha
                exact n1.shrink ((Shrink.sh_setNode st1 dst _ (Or.inl (by rfl))
                  (by exact List.Subperm.refl _)).sh_trans
                  (Shrink.sh_setNode _ src _ (Or.inl (by rfl)) (by exact List.Subperm.refl _)))
              · cases ha
            · cases ha; exact n1
          have n5 : NamesOk ((st3.setNode dst { st3.nodes dst with hp_originator := some src }).setNode
              src { (st3.setNode dst { st3.nodes dst with hp_originator := some src }).nodes src with
                hp_targets := dst ::
                  ((st3.setNode dst { st3.nodes dst with hp_originator := some src }).nodes
                    src).hp_targets }) :=
            n3.shrink ((Shrink.sh_setNode st3 dst _ (Or.inl (by rfl))
              (by exact List.Subperm.refl _)).sh_trans
              (Shrink.sh_setNode _ src _ (Or.inl (by rfl)) (by exact List.Subperm.refl _)))
          generalize (st3.setNode dst { st3.nodes dst with hp_originator := some src }).setNode
              src { (st3.setNode dst { st3.nodes dst with hp_originator := some src }).nodes src with
                hp_targets := dst ::
                  ((st3.setNode dst { st3.nodes dst with hp_originator := some src }).nodes
                    src).hp_targets } = st5 at h n5
          split at h
          · cases h
          · next src1 _ =>
            split at h
            · cases h
            · next st6 q6 h6 =>
              have n6 := namesOk_of_relink_subscriptions _ _ _ _ _ _ _ _ _ h6 n5
              split at h
              · cases h
              · next st7 h7 =>
                have n7 := namesOk_of_link_parents _ _ _ _ _ _ _ h7 n6
                exact n7.shrink (shrink_of_link_flush _ _ _ h)

theorem namesOk_of_unlink_ex [CFloat F] {fuel : Nat} {st st' : State F} {p skipme : Option Nat}
    (h : prop_unlink_ex fuel st p skipme = .ok st') (hn : NamesOk st) : NamesOk st' := by
  have hd : ∀ (s : State F) (q : Nat) (s' : State F) (b : Bool),
      (fun s q => prop_destroy0 fuel s q) s q = .ok (s', b) → NamesOk s → NamesOk s' :=
    fun s q s' b hq hs => namesOk_of_destroy0 fuel s q s' b hq hs
  unfold prop_unlink_ex at h
  split at h
  · cases h; exact hn
  · next p =>
    split at h
    · cases h; exact hn
    · dsimp only at h
      split at h
      · cases h
      · next st1 hu =>
        refine namesOk_of_unlink_parents _ _ _ _ _ _ h ?_
        split at hu
        · split at hu
          · cases hu
          · next s1 q1 hu1 => cases hu; exact namesOk_of_unlink0 _ hd hu1 hn
        · cases hu; exact hn

/-- Every call of a node-store operation other than prop_set_parent_ex and
  prop_set_parent_vector keeps the invariant of the child lists. -/
theorem namesOk_of_run [CFloat F] {st st' : State F} (c : store_call F)
    (hc : c.reparents = false) (h : c.run st = .ok st') (hn : NamesOk st) : NamesOk st' := by
  cases c with
  | create_root name noalloc =>
    simp only [store_call.run, Except.ok.injEq] at h
    subst h
    exact namesOk_prop_make hn name noalloc none
  | create parent name skipme noalloc incref =>
    simp only [store_call.run] at h
    split at h
    · cases h
    · next st1 r h1 => cases h; exact namesOk_of_create_ex h1 hn
  | setv skipme p names arg => exact namesOk_of_setv_ex h hn
  | set p name noalloc arg => exact namesOk_of_set_ex h hn
  | setter c p skipme => exact hn.shrink (shrink_of_setter_run c h)
  | subfind p name follow_symlinks allow_indexing =>
    simp only [store_call.run] at h
    split at h
    · cases h
    · next st1 r h1 => cases h; exact namesOk_of_subfind _ _ _ _ _ _ _ h1 hn
  | courier_create =>
    simp only [store_call.run, Except.ok.injEq] at h
    subst h
    exact hn.shrink (Shrink.of_nodes rfl (le_refl _))
  | subscribe a =>
    simp only [store_call.run] at h
    split at h
    · cases h
    · next st1 r h1 => cases h; exact namesOk_of_subscribe h1 hn
  | move p before => exact hn.shrink (shrink_of_move h)
  | link fuel src dst skipme hard => exact namesOk_of_link0 h hn
  | unlink fuel p skipme => exact namesOk_of_unlink_ex h hn
  | destroy fuel p => exact namesOk_of_destroy h hn
  | set_parent p parent before skipme => simp [store_call.reparents] at hc
  | set_parent_vector fuel pv parent before skipme => simp [store_call.reparents] at hc

theorem namesOk_of_reachable [CFloat F] {st : State F} (h : Reachable false st) :
    NamesOk st := by
  induction h with
  | init => exact namesOk_empty
  | step c _ hc hr ih =>
    refine namesOk_of_run c ?_ hr ih
    cases hb : c.reparents with
    | false => rfl
    | true => exact absurd (hc hb) (by simp)

theorem returned_run {r : Except Fault (State F)} (h : returned r = true) :
    r = .ok (state_after r) := by
  cases r with
  | error e => cases h
  | ok st => rfl

theorem reachable_run_calls [CFloat F] (b : Bool) :
    ∀ (cs : List (store_call F)) (st st' : State F), Reachable b st →
      (cs.all fun c => !c.reparents || b) = true → run_calls cs st = .ok st' →
      Reachable b st' := by
  intro cs
  induction cs with
  | nil => intro st st' h _ hr; cases hr; exact h
  | cons c rest ih =>
    intro st st' h hall hr
    unfold run_calls at hr
    rw [List.all_cons, Bool.and_eq_true] at hall
    split at hr
    · cases hr
    · next st1 h1 =>
      refine ih st1 st' (Reachable.step c h ?_ h1) hall.2 hr
      intro hc
      simpa [hc] using hall.1

/-- C10 (amended): in every state reached from the empty store by calls that return of
  create_root, create, set and setv, the typed setters, path resolution (prop_subfind, also
  inside prop_subscribe), move, link, unlink and destroy, no two children of one directory
  have equal non-NULL names. The calls of prop_set_parent_ex and prop_set_parent_vector are
  left out: they hang a node under a parent without looking at the names there. -/
theorem sibling_names_unique [CFloat F] (st : State F) (h : Reachable false st) :
    NamesUnique st :=
  (namesOk_of_reachable h).1

/-- Witness for C10: the store `ex_store`, reached by create_root, create, setv, subscribe,
  link, move, unlink and destroy. -/
theorem sibling_names_unique_witness : Reachable false ex_store ∧ NamesUnique ex_store :=
  have hr : Reachable false ex_store :=
    reachable_run_calls false ex_store_calls State.empty ex_store Reachable.init (by decide)
      (returned_run (by decide))
  ⟨hr, sibling_names_unique ex_store hr⟩

/-- Counterexample to C10 as stated: after `prop_create_root(NULL)`, `prop_create(root, "a")`
  and `prop_create_root("a")` the call `prop_set_parent(2, root, NULL)`, and likewise
  prop_set_parent_vector with the vector [2], returns and leaves the directory root with the
  two children 1 and 2, both named "a". -/
theorem set_parent_twins_counterexample :
    Reachable true ex_twins ∧ (ex_twins.nodes 0).u = .PROP_DIR [1, 2] none ∧
    (ex_twins.nodes 1).hp_name = some "a" ∧ (ex_twins.nodes 2).hp_name = some "a" ∧
    ¬ NamesUnique ex_twins ∧
    Reachable true ex_twins_vector ∧ (ex_twins_vector.nodes 0).u = .PROP_DIR [1, 2] none ∧
    (ex_twins_vector.nodes 1).hp_name = some "a" ∧
    (ex_twins_vector.nodes 2).hp_name = some "a" ∧ ¬ NamesUnique ex_twins_vector := by
  have k0 : (ex_twins.nodes 0).u = .PROP_DIR [1, 2] none := by decide
  have k1 : (ex_twins.nodes 1).hp_name = some "a" := by decide
  have k2 : (ex_twins.nodes 2).hp_name = some "a" := by decide
  have v0 : (ex_twins_vector.nodes 0).u = .PROP_DIR [1, 2] none := by decide
  have v1 : (ex_twins_vector.nodes 1).hp_name = some "a" := by decide
  have v2 : (ex_twins_vector.nodes 2).hp_name = some "a" := by decide
  refine ⟨?_, k0, k1, k2, ?_, ?_, v0, v1, v2, ?_⟩
  · exact reachable_run_calls true _ State.empty ex_twins Reachable.init (by decide)
      (returned_run (by decide))
  · intro hu
    have h := hu 0
    rw [hp_childs_of_u k0, List.pairwise_pair] at h
    exact h "a" k1 k2
  · exact reachable_run_calls true _ State.empty ex_twins_vector Reachable.init (by decide)
      (returned_run (by decide))
  · intro hu
    have h := hu 0
    rw [hp_childs_of_u v0, List.pairwise_pair] at h
    exact h "a" v1 v2

/-! ## C11..C13: the destruction of a plain tree -/

theorem prop_t.same_refl (a : prop_t F) : a.same a := rfl

theorem prop_t.same.same_trans {a b c : prop_t F} (h1 : a.same b) (h2 : b.same c) : a.same c := by
  unfold prop_t.same at *
  rw [h2, h1]

theorem SameTree.same {a b : State F} (h : SameTree a b) (q : Nat) :
    (a.nodes q).same (b.nodes q) := h.2.2.1 q

theorem Emits.em_refl (st : State F) : Emits st st [] :=
  ⟨fun _ => rfl, [], by simp, rfl⟩

theorem Emits.em_trans {a b c : State F} {k1 k2 : List (Bool × Nat × prop_event_t × Option Nat)}
    (h1 : Emits a b k1) (h2 : Emits b c k2) : Emits a c (k1 ++ k2) := by
  obtain ⟨f1, l1, e1, m1⟩ := h1
  obtain ⟨f2, l2, e2, m2⟩ := h2
  refine ⟨fun t => by rw [f2, f1], l1 ++ l2, by rw [e2, e1, List.append_assoc], ?_⟩
  rw [List.map_append, m1, m2]

theorem Emits.of_silent {a b : State F} (hs : b.subs = a.subs) (hl : b.log = a.log) :
    Emits a b [] :=
  ⟨fun t => by rw [hs], [], by simp [hl], rfl⟩

theorem Emits.em_of_sameTree {a b : State F} (h : SameTree a b)
    (lg : List (Delivery F)) (hl : b.log = a.log ++ lg) : Emits a b (lg.map Delivery.key) :=
  ⟨fun t => h.hps_flags t, lg, hl, rfl⟩

theorem emitted_of_emits {a b : State F} {k : List (Bool × Nat × prop_event_t × Option Nat)}
    (h : Emits a b k) : (emitted a b).map Delivery.key = k := by
  obtain ⟨_, lg, e, m⟩ := h
  unfold emitted
  rw [e, List.drop_left, m]

theorem destroyed_keys_congr {a b : State F}
    (h : ∀ t, (b.subs t).hps_flags = (a.subs t).hps_flags) (l : List Nat) :
    destroyed_keys b l = destroyed_keys a l := by
  unfold destroyed_keys
  simp only [h]

theorem void_keys_congr {a b : State F}
    (h : ∀ t, (b.subs t).hps_flags = (a.subs t).hps_flags) (l : List Nat) :
    void_keys b l = void_keys a l := by
  unfold void_keys
  simp only [h]

theorem child_keys_congr {a b : State F}
    (h : ∀ t, (b.subs t).hps_flags = (a.subs t).hps_flags) (l : List Nat) (c : Nat) :
    child_keys b l c = child_keys a l c := by
  unfold child_keys
  simp only [h]

theorem notify_destroyed_ok (st : State F) (s : Nat) :
    ∃ st', prop_notify_destroyed st s = .ok st' ∧ SameTree st st' ∧
      Emits st st' [((st.subs s).hps_flags.PROP_SUB_INTERNAL, s, .PROP_DESTROYED, none)] := by
  unfold prop_notify_destroyed
  by_cases hi : (st.subs s).hps_flags.PROP_SUB_INTERNAL = true
  · simp only [hi, if_true]
    exact ⟨_, rfl, sameTree_call_direct _ _, Emits.em_of_sameTree (sameTree_call_direct _ _) _ rfl⟩
  · have hg : get_notify st s = .ok (st.setSub s
        { st.subs s with hps_refcount := (st.subs s).hps_refcount + 1 }) := by
      simp [get_notify, hi]
    have hst := sameTree_get_notify hg
    simp only [hi, Bool.false_eq_true, if_false, hg]
    refine ⟨_, rfl, hst.st_trans ((sameTree_queue_insert_tail _ _ _ _).st_trans
      (sameTree_courier_notify _ _)), ?_⟩
    exact Emits.em_of_sameTree (hst.st_trans ((sameTree_queue_insert_tail _ _ _ _).st_trans
      (sameTree_courier_notify _ _))) [.queued { hpn_sub := s, hpn_event := .PROP_DESTROYED }]
      (by simp)

theorem notify_void_ok (st : State F) (s : Nat) :
    ∃ st', prop_notify_void st s = .ok st' ∧ SameTree st st' ∧
      Emits st st' [((st.subs s).hps_flags.PROP_SUB_INTERNAL, s, .PROP_SET_VOID, none)] := by
  unfold prop_notify_void
  by_cases hi : (st.subs s).hps_flags.PROP_SUB_INTERNAL = true
  · simp only [hi, if_true]
    exact ⟨_, rfl, sameTree_call_direct _ _, Emits.em_of_sameTree (sameTree_call_direct _ _) _ rfl⟩
  · have hg : get_notify st s = .ok (st.setSub s
        { st.subs s with hps_refcount := (st.subs s).hps_refcount + 1 }) := by
      simp [get_notify, hi]
    have hst := sameTree_get_notify hg
    simp only [hi, Bool.false_eq_true, if_false, hg]
    refine ⟨_, rfl, hst.st_trans (sameTree_courier_enqueue _ _ _), ?_⟩
    exact Emits.em_of_sameTree (hst.st_trans (sameTree_courier_enqueue _ _ _))
      [.queued { hpn_sub := s, hpn_event := .PROP_SET_VOID }] (by simp)

theorem notify_del_child_ok (st : State F) (l : List Nat) (c : Nat) :
    ∃ st', prop_notify_child (some c) .PROP_DEL_CHILD none 0 l st = .ok st' ∧ SameTree st st' ∧
      Emits st st' (child_keys st l c) := by
  obtain ⟨st', h1, h2, h3⟩ := notify_child_ok (some c) .PROP_DEL_CHILD none 0 l st
  refine ⟨st', h1, h2, ?_⟩
  have := Emits.em_of_sameTree h2 _ h3
  have e : (child_records st l (some c) .PROP_DEL_CHILD none 0).map Delivery.key
      = child_keys st l c := by
    unfold child_records child_keys
    simp only [List.map_map]
    have hf : l.filter (fun s => decide (some s ≠ (none : Option Nat))) = l := by
      apply List.filter_eq_self.2
      intro a _
      simp
    rw [hf]
    apply List.map_congr_left
    intro s _
    unfold child_record
    by_cases hi : (st.subs s).hps_flags.PROP_SUB_INTERNAL = true
    · simp [hi, Delivery.key, Delivery.n]
    · simp [hi, Delivery.key, Delivery.n]
  rwa [e] at this

theorem prop_t.same_iff (a b : prop_t F) :
    a.same b ↔ b.hp_name = a.hp_name ∧ b.hp_flags = a.hp_flags ∧ b.hp_xref = a.hp_xref ∧
      b.hp_parent = a.hp_parent ∧ b.hp_originator = a.hp_originator ∧
      b.hp_targets = a.hp_targets ∧
      b.hp_value_subscriptions = a.hp_value_subscriptions ∧
      b.hp_canonical_subscriptions = a.hp_canonical_subscriptions ∧ b.u = a.u := by
  unfold prop_t.same
  cases a
  cases b
  simp only [prop_t.mk.injEq]
  constructor
  · rintro ⟨h1, h2, _, h4, h5, h6, h7, h8, h9, h10⟩
    exact ⟨h1, h2, h4, h5, h6, h7, h8, h9, h10⟩
  · rintro ⟨h1, h2, h4, h5, h6, h7, h8, h9, h10⟩
    exact ⟨h1, h2, trivial, h4, h5, h6, h7, h8, h9, h10⟩

theorem Emits.of_flags {a b : State F}
    (hs : ∀ t, (b.subs t).hps_flags = (a.subs t).hps_flags) (hl : b.log = a.log) :
    Emits a b [] :=
  ⟨hs, [], by simp [hl], rfl⟩

theorem Emits.em_congr {a b : State F} {k k' : List (Bool × Nat × prop_event_t × Option Nat)}
    (h : Emits a b k) (e : k = k') : Emits a b k' := e ▸ h

theorem Emits.flags {a b : State F} {k : List (Bool × Nat × prop_event_t × Option Nat)}
    (h : Emits a b k) (t : Nat) : (b.subs t).hps_flags = (a.subs t).hps_flags := h.1 t

theorem destroy_canonical_subs_ok (p : Nat) : ∀ (l : List Nat) (st : State F),
    (st.nodes p).hp_canonical_subscriptions = l →
    ∃ st', destroy_canonical_subs p l st = .ok st' ∧
      (∀ q, q ≠ p → (st.nodes q).same (st'.nodes q)) ∧
      prop_t.same { st.nodes p with hp_canonical_subscriptions := [] } (st'.nodes p) ∧
      st'.nnodes = st.nnodes ∧
      Emits st st' (destroyed_keys st l) := by
  intro l
  induction l with
  | nil =>
    intro st h
    refine ⟨st, rfl, fun q _ => prop_t.same_refl _, ?_, rfl, Emits.em_refl st⟩
    rw [prop_t.same_iff]
    simp [h]
  | cons s rest ih =>
    intro st h
    have key : ∀ st3 : State F,
        SameTree ((st.setNode p { st.nodes p with hp_canonical_subscriptions := rest }).setSub s
          { (st.subs s) with hps_canonical_prop := none }) st3 →
        ∀ k, Emits st st3 k →
        ∃ st', destroy_canonical_subs p rest st3 = .ok st' ∧
          (∀ q, q ≠ p → (st.nodes q).same (st'.nodes q)) ∧
          prop_t.same { st.nodes p with hp_canonical_subscriptions := [] } (st'.nodes p) ∧
          st'.nnodes = st.nnodes ∧
          Emits st st' (k ++ destroyed_keys st rest) := by
      intro st3 h3 k hk
      have hp3 : (st3.nodes p).hp_canonical_subscriptions = rest := by
        rw [h3.hp_canonical_subscriptions]; simp
      obtain ⟨st', e1, e2, e3, e4, e5⟩ := ih st3 hp3
      refine ⟨st', e1, fun q hq => ?_, ?_, ?_, ?_⟩
      · have := h3.same q
        have e := e2 q hq
        rw [prop_t.same_iff] at this e ⊢
        simp [hq] at this
        simp_all
      · have := h3.same p
        rw [prop_t.same_iff] at this e3 ⊢
        simp at this e3 ⊢
        simp_all
      · rw [e4, h3.1]; rfl
      · exact hk.em_trans (e5.em_congr (destroyed_keys_congr hk.flags rest))
    unfold destroy_canonical_subs
    dsimp only
    by_cases ht : ((st.subs s).hps_flags.PROP_SUB_TRACK_DESTROY
        || (st.subs s).hps_flags.PROP_SUB_TRACK_DESTROY_EXP) = true
    · obtain ⟨st3, n1, n2, n3⟩ := notify_destroyed_ok
        ((st.setNode p { st.nodes p with hp_canonical_subscriptions := rest }).setSub s
          { (st.subs s) with hps_canonical_prop := none }) s
      have hflags : ∀ t, ((((st.setNode p { st.nodes p with hp_canonical_subscriptions := rest }).setSub s
          { (st.subs s) with hps_canonical_prop := none })).subs t).hps_flags
            = (st.subs t).hps_flags := by
        intro t
        by_cases hts : t = s
        · subst hts; simp
        · simp [hts]
      have hk : Emits st st3 [((st.subs s).hps_flags.PROP_SUB_INTERNAL, s,
          prop_event_t.PROP_DESTROYED, none)] := by
        have := (Emits.of_flags hflags rfl).em_trans n3
        simpa using this
      obtain ⟨st', e1, e2, e3, e4, e5⟩ := key st3 n2 _ hk
      refine ⟨st', ?_, e2, e3, e4, ?_⟩
      · simp only [setNode_subs, setSub_subs, if_true]
        simp only [setNode_subs, setSub_subs, if_true] at n1
        rw [if_pos (by simpa using ht)]
        simp only [n1]
        exact e1
      · refine e5.em_congr ?_
        unfold destroyed_keys
        simp [List.filter_cons, ht]
    · have hflags : ∀ t, ((((st.setNode p { st.nodes p with hp_canonical_subscriptions := rest }).setSub s
          { (st.subs s) with hps_canonical_prop := none })).subs t).hps_flags
            = (st.subs t).hps_flags := by
        intro t
        by_cases hts : t = s
        · subst hts; simp
        · simp [hts]
      obtain ⟨st', e1, e2, e3, e4, e5⟩ := key _ (SameTree.st_refl _) _ (Emits.of_flags hflags rfl)
      refine ⟨st', ?_, e2, e3, e4, ?_⟩
      · simp only [setNode_subs, setSub_subs, if_true]
        rw [if_neg (by simpa using ht)]
        exact e1
      · refine e5.em_congr ?_
        unfold destroyed_keys
        simp [List.filter_cons, ht]

theorem destroy_value_subs_ok (p : Nat) : ∀ (l : List Nat) (st : State F),
    (st.nodes p).hp_value_subscriptions = l →
    ∃ st', destroy_value_subs p l st = .ok st' ∧
      (∀ q, q ≠ p → (st.nodes q).same (st'.nodes q)) ∧
      prop_t.same { st.nodes p with hp_value_subscriptions := [] } (st'.nodes p) ∧
      st'.nnodes = st.nnodes ∧
      Emits st st' (void_keys st l) := by
  intro l
  induction l with
  | nil =>
    intro st h
    refine ⟨st, rfl, fun q _ => prop_t.same_refl _, ?_, rfl, Emits.em_refl st⟩
    rw [prop_t.same_iff]
    simp [h]
  | cons s rest ih =>
    intro st h
    obtain ⟨st1, n1, n2, n3⟩ := notify_void_ok st s
    have hflags : ∀ t, ((((st1.setNode p { st1.nodes p with hp_value_subscriptions := rest }).setSub s
        { (st1.subs s) with hps_value_prop := none })).subs t).hps_flags
          = (st1.subs t).hps_flags := by
      intro t
      by_cases hts : t = s
      · subst hts; simp
      · simp [hts]
    have hk := n3.em_trans (Emits.of_flags hflags rfl)
    obtain ⟨st', e1, e2, e3, e4, e5⟩ := ih
      ((st1.setNode p { st1.nodes p with hp_value_subscriptions := rest }).setSub s
        { (st1.subs s) with hps_value_prop := none }) (by simp)
    refine ⟨st', ?_, fun q hq => ?_, ?_, ?_, ?_⟩
    · unfold destroy_value_subs
      simp only [n1]
      exact e1
    · have := n2.same q
      have e := e2 q hq
      rw [prop_t.same_iff] at this e ⊢
      simp [hq] at e
      simp_all
    · have := n2.same p
      rw [prop_t.same_iff] at this e3 ⊢
      simp at e3 ⊢
      simp_all
    · rw [e4]; simp [n2.1]
    · refine (hk.em_trans (e5.em_congr (void_keys_congr hk.flags rest))).em_congr ?_
      simp [void_keys]

theorem dir_of_mem_childs {nd : prop_t F} {c : Nat} (h : c ∈ nd.hp_childs) :
    ∃ cs sel, nd.u = .PROP_DIR cs sel := by
  unfold prop_t.hp_childs at h
  cases hu : nd.u with
  | PROP_DIR cs sel => exact ⟨cs, sel, rfl⟩
  | _ => simp [hu] at h

theorem destroy_unparent_ok (st : State F) (p : Nat)
    (hp : ∀ q, (st.nodes p).hp_parent = some q → p ∈ (st.nodes q).hp_childs ∧ q ≠ p) :
    ∃ st', destroy_unparent st p = .ok st' ∧
      (∀ q, q ≠ p → (st.nodes p).hp_parent ≠ some q → (st.nodes q).same (st'.nodes q)) ∧
      prop_t.same { st.nodes p with hp_parent := none } (st'.nodes p) ∧
      (∀ q, (st.nodes p).hp_parent = some q →
        prop_t.same { st.nodes q with
          u := prop_value.PROP_DIR ((st.nodes q).hp_childs.erase p)
            (if (st.nodes q).hp_selected = some p then none else (st.nodes q).hp_selected) }
          (st'.nodes q)) ∧
      st'.nnodes = st.nnodes ∧
      Emits st st' (parent_keys st p) := by
  unfold destroy_unparent parent_keys
  cases hpar : (st.nodes p).hp_parent with
  | none =>
    refine ⟨st, rfl, fun q _ _ => prop_t.same_refl _, ?_, ?_, rfl, Emits.em_refl st⟩
    · rw [prop_t.same_iff]; simp [hpar]
    · intro q hq; cases hq
  | some q =>
    obtain ⟨hmem, hne⟩ := hp q hpar
    obtain ⟨cs0, sel0, hu⟩ := dir_of_mem_childs hmem
    obtain ⟨st1, n1, n2, n3⟩ := notify_del_child_ok st (st.nodes q).hp_value_subscriptions p
    have hu1 : (st1.nodes q).u = .PROP_DIR cs0 sel0 := by rw [n2.u, hu]
    have hc0 : (st.nodes q).hp_childs = cs0 := by unfold prop_t.hp_childs; rw [hu]
    have hs0 : (st.nodes q).hp_selected = sel0 := by unfold prop_t.hp_selected; rw [hu]
    have hc1 : (st1.nodes q).hp_childs = cs0 := by unfold prop_t.hp_childs; rw [hu1]
    have hmem1 : p ∈ cs0 := hc0 ▸ hmem
    have hrem : tailq_remove (st1.nodes q).hp_childs p = some (cs0.erase p) := by
      rw [hc1]; unfold tailq_remove; rw [if_pos hmem1]
    simp only [n1, hrem]
    have hsame := fun r => n2.same r
    by_cases hsel : sel0 = some p
    · refine ⟨_, rfl, fun r hr hrq => ?_, ?_, ?_, ?_, ?_⟩
      · have := hsame r
        have hrq' : r ≠ q := fun e => hrq (by rw [e])
        rw [prop_t.same_iff] at this ⊢
        simp [State.setChilds, State.setSelected, hu1, prop_t.hp_selected, hsel, hne, hr, hrq',
          State.setU]
        exact this
      · have := hsame p
        rw [prop_t.same_iff] at this ⊢
        simp [State.setChilds, State.setSelected, hu1, prop_t.hp_selected, hsel, hne,
          State.setU, Ne.symm hne]
        simp_all
      · intro r hr
        cases hr
        have := hsame q
        rw [prop_t.same_iff] at this ⊢
        simp [State.setChilds, State.setSelected, hu1, prop_t.hp_selected, hsel, hne,
          State.setU, Ne.symm hne, hc0, hs0]
        simp_all
      · simp [State.setChilds, State.setSelected, hu1, prop_t.hp_selected, hsel, hne,
          State.setU, Ne.symm hne, n2.1]
      · refine Emits.em_trans n3 (Emits.of_flags ?_ ?_) |>.em_congr (by simp)
        · intro t
          simp [State.setChilds, State.setSelected, hu1, prop_t.hp_selected, hsel, hne,
            State.setU, Ne.symm hne]
        · simp [State.setChilds, State.setSelected, hu1, prop_t.hp_selected, hsel, hne,
            State.setU, Ne.symm hne]
    · refine ⟨_, rfl, fun r hr hrq => ?_, ?_, ?_, ?_, ?_⟩
      · have := hsame r
        have hrq' : r ≠ q := fun e => hrq (by rw [e])
        rw [prop_t.same_iff] at this ⊢
        simp [State.setChilds, State.setSelected, hu1, prop_t.hp_selected, hsel, hne, hr, hrq',
          State.setU]
        exact this
      · have := hsame p
        rw [prop_t.same_iff] at this ⊢
        simp [State.setChilds, State.setSelected, hu1, prop_t.hp_selected, hsel, hne,
          State.setU, Ne.symm hne]
        simp_all
      · intro r hr
        cases hr
        have := hsame q
        rw [prop_t.same_iff] at this ⊢
        simp [State.setChilds, State.setSelected, hu1, prop_t.hp_selected, hsel, hne,
          State.setU, Ne.symm hne, hc0, hs0]
        simp_all
      · simp [State.setChilds, State.setSelected, hu1, prop_t.hp_selected, hsel, hne,
          State.setU, Ne.symm hne, n2.1]
      · refine Emits.em_trans n3 (Emits.of_flags ?_ ?_) |>.em_congr (by simp)
        · intro t
          simp [State.setChilds, State.setSelected, hu1, prop_t.hp_selected, hsel, hne,
            State.setU, Ne.symm hne]
        · simp [State.setChilds, State.setSelected, hu1, prop_t.hp_selected, hsel, hne,
            State.setU, Ne.symm hne]

theorem mem_subtree_self (k : Nat) (st : State F) (p : Nat) : p ∈ subtree k st p := by
  cases k <;> simp [subtree]

theorem subtree_succ (k : Nat) (st : State F) (p : Nat) :
    subtree (k + 1) st p = p :: (st.nodes p).hp_childs.flatMap (subtree k st) := rfl

theorem subtree_congr {a b : State F} : ∀ (k : Nat) (d : Nat),
    (∀ q ∈ subtree k a d, (b.nodes q).hp_childs = (a.nodes q).hp_childs) →
    subtree k b d = subtree k a d := by
  intro k
  induction k with
  | zero => intro d _; rfl
  | succ n ih =>
    intro d h
    rw [subtree_succ, subtree_succ, h d (mem_subtree_self _ _ _)]
    congr 1
    apply List.flatMap_congr
    intro c hc
    apply ih
    intro q hq
    apply h
    rw [subtree_succ]
    exact List.mem_cons_of_mem _ (List.mem_flatMap.2 ⟨c, hc, hq⟩)

theorem prop_t.same.same_childs {a b : prop_t F} (h : a.same b) : b.hp_childs = a.hp_childs := by
  rw [prop_t.same_iff] at h
  unfold prop_t.hp_childs
  rw [h.2.2.2.2.2.2.2.2]

theorem prop_t.same.same_type {a b : prop_t F} (h : a.same b) : b.hp_type = a.hp_type := by
  rw [prop_t.same_iff] at h
  unfold prop_t.hp_type
  rw [h.2.2.2.2.2.2.2.2]

theorem prop_t.same.same_symm {a b : prop_t F} (h : a.same b) : b.same a := by
  rw [prop_t.same_iff] at h ⊢
  obtain ⟨h1, h2, h3, h4, h5, h6, h7, h8, h9⟩ := h
  exact ⟨h1.symm, h2.symm, h3.symm, h4.symm, h5.symm, h6.symm, h7.symm, h8.symm, h9.symm⟩

theorem subtree_congr_same {a b : State F} (k : Nat) (d : Nat)
    (h : ∀ q ∈ subtree k a d, (a.nodes q).same (b.nodes q)) :
    subtree k b d = subtree k a d :=
  subtree_congr k d fun q hq => (h q hq).same_childs

theorem all_congr_mem {l : List Nat} {f g : Nat → Bool} (h : ∀ c ∈ l, f c = g c) :
    l.all f = l.all g := by
  induction l with
  | nil => rfl
  | cons a t ih =>
    simp only [List.all_cons]
    rw [h a (List.mem_cons_self _ _), ih fun c hc => h c (List.mem_cons_of_mem _ hc)]

theorem length_le_flatMap {f : Nat → List Nat} : ∀ {cs : List Nat} {d : Nat}, d ∈ cs →
    (f d).length ≤ (cs.flatMap f).length := by
  intro cs
  induction cs with
  | nil => intro d h; cases h
  | cons c rest ih =>
    intro d h
    rw [List.flatMap_cons, List.length_append]
    rcases List.mem_cons.1 h with rfl | h
    · omega
    · have := ih h
      omega

theorem length_le_flatMap_of_pos {f : Nat → List Nat} (hf : ∀ d, 0 < (f d).length) :
    ∀ cs : List Nat, cs.length ≤ (cs.flatMap f).length := by
  intro cs
  induction cs with
  | nil => simp
  | cons c rest ih =>
    rw [List.flatMap_cons, List.length_append, List.length_cons]
    have := hf c
    omega

theorem subtree_length_pos (k : Nat) (st : State F) (d : Nat) : 0 < (subtree k st d).length := by
  cases k <;> simp [subtree]

theorem ref_dec_locked_zombie (st : State F) (p : Nat)
    (h : (st.nodes p).hp_type = .PROP_ZOMBIE) :
    prop_ref_dec_locked st (some p)
      = .ok (st.setNode p { st.nodes p with hp_refcount := (st.nodes p).hp_refcount - 1 }) := by
  unfold prop_ref_dec_locked
  dsimp only
  split
  · rfl
  · rw [if_neg]
    simp only [setNode_nodes, if_true, ne_eq, not_not]
    exact h

theorem destroy_targets_nil (unlink : State F → Nat → Except Fault (State F)) (p : Nat)
    (b : Nat) (st : State F) (h : (st.nodes p).hp_targets = []) :
    destroy_targets unlink p (b + 1) st = .ok st := by
  unfold destroy_targets
  simp [h]

/-! ## C12: the records about the children -/

theorem subtree_tail_succ (n : Nat) (st : State F) (d : Nat) :
    (subtree (n + 1) st d).tail = (st.nodes d).hp_childs.flatMap (subtree n st) := rfl

theorem del_child_payload (st : State F) : ∀ (n d : Nat)
    (key : Bool × Nat × prop_event_t × Option Nat), key ∈ destroy_keys n st d →
    key.2.2.1 = .PROP_DEL_CHILD → ∃ x, key.2.2.2 = some x ∧ x ∈ (subtree n st d).tail := by
  intro n
  induction n with
  | zero => intro d key h; simp [destroy_keys] at h
  | succ n ih =>
    intro d key h he
    rw [destroy_keys] at h
    rw [subtree_tail_succ]
    rcases List.mem_append.1 h with h | h
    · rcases List.mem_append.1 h with h | h
      · obtain ⟨e, hem, hk⟩ := List.mem_flatMap.1 h
        rcases List.mem_append.1 hk with hk | hk
        · split at hk
          · obtain ⟨x, hx1, hx2⟩ := ih e key hk he
            exact ⟨x, hx1, List.mem_flatMap.2 ⟨e, hem, List.mem_of_mem_tail hx2⟩⟩
          · cases hk
        · unfold child_keys at hk
          obtain ⟨s', _, rfl⟩ := List.mem_map.1 hk
          exact ⟨e, rfl, List.mem_flatMap.2 ⟨e, hem, mem_subtree_self _ _ _⟩⟩
      · unfold destroyed_keys at h
        obtain ⟨s', _, rfl⟩ := List.mem_map.1 h
        cases he
    · unfold void_keys at h
      obtain ⟨s', _, rfl⟩ := List.mem_map.1 h
      cases he

theorem countP_child_keys (st : State F) (V : List Nat) (hv : V.Nodup) (s : Nat) (hs : s ∈ V)
    (d c : Nat) :
    (child_keys st V d).countP (fun key => decide (key.2 = (s, .PROP_DEL_CHILD, some c)))
      = if d = c then 1 else 0 := by
  unfold child_keys
  rw [List.countP_map]
  by_cases hdc : d = c
  · subst hdc
    rw [if_pos rfl]
    have : (fun key : Bool × Nat × prop_event_t × Option Nat =>
        decide (key.2 = (s, prop_event_t.PROP_DEL_CHILD, some d))) ∘
        (fun s' => ((st.subs s').hps_flags.PROP_SUB_INTERNAL, s', prop_event_t.PROP_DEL_CHILD,
          some d)) = fun s' => s' == s := by
      funext s'
      by_cases e : s' = s
      · simp [e]
      · simp [e]
    rw [this, ← List.count_eq_countP]
    exact List.count_eq_one_of_mem hv hs
  · rw [if_neg hdc]
    apply List.countP_eq_zero.2
    intro a _
    simp [hdc]

theorem countP_blocks (st : State F) (n : Nat) (V : List Nat) (hv : V.Nodup) (s : Nat)
    (hs : s ∈ V) (c : Nat) : ∀ l : List Nat, l.Nodup →
    (∀ d ∈ l, c ∉ (subtree n st d).tail) →
    (l.flatMap fun d =>
      (if (st.nodes d).hp_xref = 1 then destroy_keys n st d else []) ++ child_keys st V d).countP
        (fun key => decide (key.2 = (s, .PROP_DEL_CHILD, some c)))
      = if c ∈ l then 1 else 0 := by
  intro l
  induction l with
  | nil => intro _ _; simp
  | cons d rest ih =>
    intro hnd hc
    obtain ⟨hd, hr⟩ := List.nodup_cons.1 hnd
    have hin : (if (st.nodes d).hp_xref = 1 then destroy_keys n st d else []).countP
        (fun key => decide (key.2 = (s, prop_event_t.PROP_DEL_CHILD, some c))) = 0 := by
      apply List.countP_eq_zero.2
      intro key hk hP
      have hk' : key ∈ destroy_keys n st d := by
        split at hk
        · exact hk
        · cases hk
      have hP' : key.2 = (s, prop_event_t.PROP_DEL_CHILD, some c) := by simpa using hP
      obtain ⟨x, hx1, hx2⟩ := del_child_payload st n d key hk' (by rw [hP'])
      rw [hP'] at hx1
      cases hx1
      exact hc d (List.mem_cons_self _ _) hx2
    rw [List.flatMap_cons, List.countP_append, List.countP_append, hin,
      countP_child_keys st V hv s hs d c, ih hr fun e he => hc e (List.mem_cons_of_mem _ he)]
    by_cases hdc : d = c
    · subst hdc
      simp [hd]
    · have : (c ∈ d :: rest) ↔ c ∈ rest := by
        simp [List.mem_cons, Ne.symm hdc]
      simp [hdc, this]

theorem childs_nodup_of_flatMap {f : Nat → List Nat} (hf : ∀ d, d ∈ f d) {cs : List Nat}
    (h : (cs.flatMap f).Nodup) : cs.Nodup := by
  obtain ⟨_, hp⟩ := List.nodup_flatMap.1 h
  refine hp.imp ?_
  intro a b hab e
  subst e
  exact hab (hf a) (hf a)

theorem not_mem_tail_of_flatMap (st : State F) (n : Nat) {cs : List Nat}
    (h : (cs.flatMap (subtree n st)).Nodup) {c d : Nat} (hc : c ∈ cs) (hd : d ∈ cs) :
    c ∉ (subtree n st d).tail := by
  obtain ⟨h1, hp⟩ := List.nodup_flatMap.1 h
  intro hm
  by_cases hcd : c = d
  · subst hcd
    have := h1 c hc
    cases n with
    | zero => simp [subtree] at hm
    | succ n =>
      rw [subtree_succ] at this
      rw [subtree_tail_succ] at hm
      exact (List.nodup_cons.1 this).1 hm
  · have hdis : List.Disjoint (subtree n st c) (subtree n st d) :=
      hp.forall (fun a b hab => hab.symm) hc hd hcd
    exact hdis (mem_subtree_self _ _ _) (List.mem_of_mem_tail hm)

theorem count_del_child (st : State F) (n p : Nat) (hn : (subtree (n + 1) st p).Nodup)
    (hv : (st.nodes p).hp_value_subscriptions.Nodup) (c : Nat) (hc : c ∈ (st.nodes p).hp_childs)
    (s : Nat) (hs : s ∈ (st.nodes p).hp_value_subscriptions) :
    (destroy_keys (n + 1) st p ++ parent_keys st p).countP
      (fun key => decide (key.2 = (s, .PROP_DEL_CHILD, some c))) = 1 := by
  rw [subtree_succ] at hn
  obtain ⟨hpn, hnd⟩ := List.nodup_cons.1 hn
  have hcp : c ≠ p := by
    intro e
    have hm : c ∈ (st.nodes p).hp_childs.flatMap (subtree n st) :=
      List.mem_flatMap.2 ⟨c, hc, mem_subtree_self _ _ _⟩
    rw [e] at hm
    exact hpn hm
  have h1 := countP_blocks st n (st.nodes p).hp_value_subscriptions hv s hs c
    (st.nodes p).hp_childs (childs_nodup_of_flatMap (fun d => mem_subtree_self n st d) hnd)
    (fun d hd => not_mem_tail_of_flatMap st n hnd hc hd)
  rw [if_pos hc] at h1
  have h2 : (destroyed_keys st (st.nodes p).hp_canonical_subscriptions).countP
      (fun key => decide (key.2 = (s, prop_event_t.PROP_DEL_CHILD, some c))) = 0 := by
    apply List.countP_eq_zero.2
    intro key hk
    unfold destroyed_keys at hk
    obtain ⟨s', _, rfl⟩ := List.mem_map.1 hk
    simp
  have h3 : (void_keys st (st.nodes p).hp_value_subscriptions).countP
      (fun key => decide (key.2 = (s, prop_event_t.PROP_DEL_CHILD, some c))) = 0 := by
    apply List.countP_eq_zero.2
    intro key hk
    unfold void_keys at hk
    obtain ⟨s', _, rfl⟩ := List.mem_map.1 hk
    simp
  have h4 : (parent_keys st p).countP
      (fun key => decide (key.2 = (s, prop_event_t.PROP_DEL_CHILD, some c))) = 0 := by
    apply List.countP_eq_zero.2
    intro key hk
    unfold parent_keys at hk
    split at hk
    · unfold child_keys at hk
      obtain ⟨s', _, rfl⟩ := List.mem_map.1 hk
      simp [Ne.symm hcp]
    · cases hk
  rw [destroy_keys, List.countP_append, List.countP_append, List.countP_append, h1, h2, h3, h4]

/-! ## C13: the records of a tracked subscription -/

/-- C15 (code): after `prop_create_root`, `prop_create(root, "a")`, `prop_xref_addref(a)`,
  `prop_select(a)` and `prop_destroy_childs(root)`, which all return, a is off the child
  list of the root and has no parent, and hp_selected of the root still points to a.
  `prop_unparent(a)` in place of the last call clears hp_selected. -/
theorem destroy_childs_keeps_selection :
    returned (run_api ex_selected_calls State.empty) = true ∧
    (ex_selected.nodes 0).hp_type = .PROP_DIR ∧ (ex_selected.nodes 0).hp_childs = [] ∧
    (ex_selected.nodes 0).hp_selected = some 1 ∧ (ex_selected.nodes 1).hp_parent = none ∧
    ((state_after (run_api (ex_selected_calls.take 4 ++ [.unparent 1 none])
      State.empty)).nodes 0).hp_selected = none := by
  decide

/-! ## C18: PROP_MULTI_NOTIFY -/

/-- C18 (code): in `ex_nested_multi`, reached by create, two subscriptions with
  PROP_SUB_MULTI (on a and on the root) and `prop_unsubscribe` of the one on the root, node
  b lacks PROP_MULTI_NOTIFY although its parent a has PROP_MULTI_SUB: prop_clr_multi on the
  root cleared the flag in the whole tree. In `ex_multi_orphan`, reached by create, a multi
  subscription on the root, `prop_xref_addref(a)` and `prop_destroy_childs(root)`, node a
  has PROP_MULTI_NOTIFY and no parent. -/
theorem multi_notify_out_of_step :
    returned (run_api ex_nested_multi_calls State.empty) = true ∧
    (ex_nested_multi.nodes 2).hp_parent = some 1 ∧
    (ex_nested_multi.nodes 1).hp_flags.PROP_MULTI_SUB = true ∧
    (ex_nested_multi.nodes 1).hp_canonical_subscriptions = [0] ∧
    (ex_nested_multi.subs 0).hps_flags.PROP_SUB_MULTI = true ∧
    (ex_nested_multi.nodes 2).hp_flags.PROP_MULTI_NOTIFY = false ∧
    returned (run_api ex_multi_orphan_calls State.empty) = true ∧
    (ex_multi_orphan.nodes 1).hp_type = .PROP_VOID ∧
    (ex_multi_orphan.nodes 1).hp_parent = none ∧
    (ex_multi_orphan.nodes 1).hp_flags.PROP_MULTI_NOTIFY = true := by
  decide

theorem tailq_next_append (c : Nat) (rest : List Nat) : ∀ pre : List Nat, c ∉ pre →
    tailq_next (pre ++ c :: rest) c = rest.head? := by
  intro pre
  induction pre with
  | nil => intro _; simp [tailq_next]
  | cons a t ih =>
    intro h
    have ha : a ≠ c := fun e => h (e ▸ List.mem_cons_self _ _)
    have ht : c ∉ t := fun m => h (List.mem_cons_of_mem _ m)
    simp only [List.cons_append, tailq_next, if_neg ha]
    exact ih ht

theorem erase_append_cons (c : Nat) (rest : List Nat) : ∀ pre : List Nat, c ∉ pre →
    (pre ++ c :: rest).erase c = pre ++ rest := by
  intro pre
  induction pre with
  | nil => intro _; simp
  | cons a t ih =>
    intro h
    have ha : a ≠ c := fun e => h (e ▸ List.mem_cons_self _ _)
    have ht : c ∉ t := fun m => h (List.mem_cons_of_mem _ m)
    rw [List.cons_append, List.erase_cons_tail (by simpa using ha), ih ht]
    rfl

/-! ## C14: prop_destroy_marked_childs -/

/-- C14 (failing input): in `ex_marked` the directory 0 has the children 1, 2 and 3; 1 and 2
  are marked, 3 is not, and child 2 holds a second anchor (hp_xref 2). After
  `prop_destroy_marked_childs(0)` the marked child 2 is still on the child list, names the
  directory as its parent and is no zombie: the loop calls prop_destroy0, which only takes
  one anchor away. `prop_destroy_childs(0)` on the same store, whose loop calls
  prop_destroy_child, takes every child off the list. -/
theorem destroy_marked_anchored_counterexample :
    (ex_marked.nodes 0).hp_childs = [1, 2, 3] ∧
    prop_is_marked ex_marked 1 = true ∧ prop_is_marked ex_marked 2 = true ∧
    prop_is_marked ex_marked 3 = false ∧ (ex_marked.nodes 2).hp_xref = 2 ∧
    returned (prop_destroy_marked_childs 4 ex_marked 0) = true ∧
    ((state_after (prop_destroy_marked_childs 4 ex_marked 0)).nodes 0).hp_childs = [2, 3] ∧
    ((state_after (prop_destroy_marked_childs 4 ex_marked 0)).nodes 2).hp_type = .PROP_VOID ∧
    ((state_after (prop_destroy_marked_childs 4 ex_marked 0)).nodes 2).hp_parent = some 0 ∧
    returned (prop_destroy_childs 4 ex_marked (some 0)) = true ∧
    ((state_after (prop_destroy_childs 4 ex_marked (some 0))).nodes 0).hp_childs = [] := by
  decide


/-! ## C16, C17, C19: links, subscription lists and the flag PROP_MONITORED -/

theorem prop_t.tame_refl (a : prop_t F) : a.tame a :=
  ⟨rfl, rfl, rfl, rfl, rfl, rfl, fun h => h, Or.inl rfl⟩

theorem Tame.t_refl (st : State F) : Tame st st where
  nnodes := rfl
  nsubs := rfl
  originator := fun _ => rfl
  targets := fun _ => rfl
  value := fun _ => rfl
  canonical := fun _ => rfl
  monitored := fun _ => rfl
  multi_sub := fun _ => rfl
  zombie := fun _ h => h
  parent := fun _ => Or.inl rfl
  value_prop := fun _ => rfl
  canonical_prop := fun _ => rfl
  flags := fun _ => rfl

theorem Tame.t_trans {a b c : State F} (h1 : Tame a b) (h2 : Tame b c) : Tame a c where
  nnodes := h2.nnodes.trans h1.nnodes
  nsubs := h2.nsubs.trans h1.nsubs
  originator := fun q => (h2.originator q).trans (h1.originator q)
  targets := fun q => (h2.targets q).trans (h1.targets q)
  value := fun q => (h2.value q).trans (h1.value q)
  canonical := fun q => (h2.canonical q).trans (h1.canonical q)
  monitored := fun q => (h2.monitored q).trans (h1.monitored q)
  multi_sub := fun q => (h2.multi_sub q).trans (h1.multi_sub q)
  zombie := fun q h => h2.zombie q (h1.zombie q h)
  parent := fun q => by
    rcases h2.parent q with e2 | e2
    · rcases h1.parent q with e1 | e1
      · exact Or.inl (e2.trans e1)
      · exact Or.inr (e2.trans e1)
    · exact Or.inr e2
  value_prop := fun s => (h2.value_prop s).trans (h1.value_prop s)
  canonical_prop := fun s => (h2.canonical_prop s).trans (h1.canonical_prop s)
  flags := fun s => (h2.flags s).trans (h1.flags s)

theorem Tame.t_of_sameTree {st st' : State F} (h : SameTree st st') : Tame st st' where
  nnodes := h.1
  nsubs := h.2.1
  originator := h.hp_originator
  targets := h.hp_targets
  value := h.hp_value_subscriptions
  canonical := h.hp_canonical_subscriptions
  monitored := fun q => by rw [h.hp_flags q]
  multi_sub := fun q => by rw [h.hp_flags q]
  zombie := fun q hz => by rw [h.hp_type q]; exact hz
  parent := fun q => Or.inl (h.hp_parent q)
  value_prop := h.hps_value_prop
  canonical_prop := h.hps_canonical_prop
  flags := h.hps_flags

theorem Tame.t_setNode (st : State F) (p : Nat) (nd : prop_t F) (h : (st.nodes p).tame nd) :
    Tame st (st.setNode p nd) := by
  obtain ⟨h1, h2, h3, h4, h5, h6, h7, h8⟩ := h
  constructor
  case nnodes => rfl
  case nsubs => rfl
  case value_prop => intro s; rfl
  case canonical_prop => intro s; rfl
  case flags => intro s; rfl
  all_goals
    intro q
    by_cases hq : q = p
    · subst hq; simpa
    · simp [hq]

theorem Tame.t_setSub (st : State F) (s : Nat) (sb : prop_sub_t)
    (hv : sb.hps_value_prop = (st.subs s).hps_value_prop)
    (hc : sb.hps_canonical_prop = (st.subs s).hps_canonical_prop)
    (hf : sb.hps_flags = (st.subs s).hps_flags) : Tame st (st.setSub s sb) := by
  constructor
  case nnodes => rfl
  case nsubs => rfl
  case zombie => intro q h; exact h
  case parent => intro q; exact Or.inl rfl
  case value_prop => intro q; by_cases hq : q = s <;> simp [hq, hv]
  case canonical_prop => intro q; by_cases hq : q = s <;> simp [hq, hc]
  case flags => intro q; by_cases hq : q = s <;> simp [hq, hf]
  all_goals intro q; rfl

theorem Tame.t_setU (st : State F) (p : Nat) (v : prop_value F)
    (h : (st.nodes p).hp_type = .PROP_ZOMBIE → v.hp_type = .PROP_ZOMBIE) :
    Tame st (st.setU p v) :=
  Tame.t_setNode st p _ ⟨rfl, rfl, rfl, rfl, rfl, rfl, h, Or.inl rfl⟩

theorem Tame.t_setChilds (st : State F) (p : Nat) (cs : List Nat) :
    Tame st (st.setChilds p cs) := by
  unfold State.setChilds
  split
  · next cs0 sel hu =>
    exact Tame.t_setU st p _ (fun hz => by simp [prop_t.hp_type, hu, prop_value.hp_type] at hz)
  · exact Tame.t_refl st

theorem Tame.t_setSelected (st : State F) (p : Nat) (sel : Option Nat) :
    Tame st (st.setSelected p sel) := by
  unfold State.setSelected
  split
  · next cs0 sel0 hu =>
    exact Tame.t_setU st p _ (fun hz => by simp [prop_t.hp_type, hu, prop_value.hp_type] at hz)
  · exact Tame.t_refl st

theorem Grown.g_refl (st : State F) : Grown st st :=
  ⟨le_refl _, rfl, fun _ _ => rfl⟩

theorem Grown.g_trans {a b c : State F} (h1 : Grown a b) (h2 : Grown b c) : Grown a c :=
  ⟨le_trans h1.nnodes h2.nnodes, h2.nsubs.trans h1.nsubs,
    fun q hq => (h2.originator q (lt_of_lt_of_le hq h1.nnodes)).trans (h1.originator q hq)⟩

theorem Grown.g_of_tame {st st' : State F} (h : Tame st st') : Grown st st' :=
  ⟨le_of_eq h.nnodes.symm, h.nsubs, fun q _ => h.originator q⟩

theorem Grown.g_of_sameTree {st st' : State F} (h : SameTree st st') : Grown st st' :=
  Grown.g_of_tame (Tame.t_of_sameTree h)

theorem KidsAbove.ka_shrink {st st' : State F} (h : Shrink st st') (hk : KidsAbove st) :
    KidsAbove st' :=
  fun d c hc => hk d c ((h.2 d).2.subset hc)

/-- A tame step keeps the invariant when it keeps the invariants of the child lists. -/
theorem StoreOk.tame_tree {E : Nat → Prop} {st st' : State F} (hn : NamesOk st')
    (ha : KidsAbove st') (ht : Tame st st') (h : StoreOk E st) : StoreOk E st' where
  names := hn
  above := ha
  parents := fun p d hp => by
    rw [ht.nnodes]
    rcases ht.parent p with e | e
    · rw [e] at hp; exact h.parents p d hp
    · rw [e] at hp; cases hp
  link_count := fun p o hp hE => by
    rw [ht.originator] at hp
    rw [ht.targets]
    exact h.link_count p o hp hE
  link_back := fun o t hm => by
    rw [ht.targets] at hm
    rw [ht.originator, ht.nnodes]
    exact h.link_back o t hm
  link_alloc := fun p o hp => by
    rw [ht.originator] at hp
    rw [ht.nnodes]
    exact h.link_alloc p o hp
  value_count := fun s v hv => by
    rw [ht.value_prop] at hv
    rw [ht.value]
    exact h.value_count s v hv
  value_back := fun v s hm => by
    rw [ht.value] at hm
    rw [ht.value_prop, ht.nnodes, ht.nsubs]
    exact h.value_back v s hm
  canonical_count := fun s c hc => by
    rw [ht.canonical_prop] at hc
    rw [ht.canonical]
    exact h.canonical_count s c hc
  canonical_back := fun c s hm => by
    rw [ht.canonical] at hm
    rw [ht.canonical_prop, ht.nnodes, ht.nsubs]
    exact h.canonical_back c s hm
  monitored := fun p hp hz => by
    rw [ht.nnodes] at hp
    rw [ht.monitored, ht.canonical]
    simp only [ht.flags]
    exact h.monitored p hp (fun e => hz (ht.zombie p e))
  multi_sub := fun p hp hz => by
    rw [ht.nnodes] at hp
    rw [ht.multi_sub, ht.canonical]
    simp only [ht.flags]
    exact h.multi_sub p hp (fun e => hz (ht.zombie p e))

/-- A step that shrinks the child lists and is tame keeps the invariant. -/
theorem StoreOk.ok_of_tame {E : Nat → Prop} {st st' : State F} (hs : Shrink st st')
    (ht : Tame st st') (h : StoreOk E st) : StoreOk E st' :=
  h.tame_tree (h.names.shrink hs) (h.above.ka_shrink hs) ht

theorem StoreOk.ok_of_sameTree {E : Nat → Prop} {st st' : State F} (hs : SameTree st st')
    (h : StoreOk E st) : StoreOk E st' :=
  h.ok_of_tame (Shrink.of_sameTree hs) (Tame.t_of_sameTree hs)

theorem foldlM_tame {α : Type} (f : State F → α → Except Fault (State F))
    (hf : ∀ a c r, f a c = .ok r → Tame a r) :
    ∀ (l : List α) (st st' : State F), List.foldlM f st l = .ok st' → Tame st st' := by
  intro l
  induction l with
  | nil =>
    intro st st' h
    cases h
    exact Tame.t_refl st
  | cons a l ih =>
    intro st st' h
    rw [List.foldlM_cons] at h
    cases hfa : f st a with
    | error e => rw [hfa] at h; cases h
    | ok st1 =>
      rw [hfa] at h
      exact (hf st a st1 hfa).t_trans (ih st1 st' h)

theorem tame_of_flood_flag : ∀ (fuel : Nat) (st st' : State F) (p : Nat) (set clr : PropFlags),
    set.PROP_MONITORED = false → set.PROP_MULTI_SUB = false →
    clr.PROP_MONITORED = false → clr.PROP_MULTI_SUB = false →
    prop_flood_flag fuel st p set clr = .ok st' → Tame st st' := by
  intro fuel
  induction fuel with
  | zero => intro st st' p set clr _ _ _ _ h; cases h
  | succ fuel ih =>
    intro st st' p set clr s1 s2 c1 c2 h
    unfold prop_flood_flag at h
    have h1 : Tame st (st.setNode p
        { st.nodes p with hp_flags := ((st.nodes p).hp_flags.or set).andNot clr }) :=
      Tame.t_setNode st p _ ⟨rfl, rfl, rfl, rfl,
        by simp [PropFlags.or, PropFlags.andNot, s1, c1],
        by simp [PropFlags.or, PropFlags.andNot, s2, c2], fun hz => hz, Or.inl rfl⟩
    dsimp only at h
    split at h
    · exact h1.t_trans (foldlM_tame _ (fun a c r hr => ih a r c set clr s1 s2 c1 c2 hr) _ _ _ h)
    · cases h; exact h1

theorem tame_of_make_dir {st st' : State F} {p : Nat} {skipme : Option Nat}
    (h : prop_make_dir st p skipme = .ok st') : Tame st st' := by
  unfold prop_make_dir at h
  split at h
  · cases h; exact Tame.t_refl st
  · split at h
    · cases h
    · next hd hc =>
      refine (Tame.t_setU st p _ ?_).t_trans
        (Tame.t_of_sameTree (sameTree_of_prop_notify_value h))
      intro hz
      exfalso
      apply hc
      unfold prop_clean
      unfold prop_t.hp_type at hz
      cases hu : (st.nodes p).u <;> simp [hu, prop_value.hp_type] at hz ⊢

theorem tame_of_subfind_enter {st st1 : State F} {p : Nat}
    (h : subfind_enter st p = .ok (some st1)) : Tame st st1 := by
  unfold subfind_enter at h
  split at h
  · split at h
    · cases h
    · next hv =>
      cases hn : prop_notify_value (st.setU p (.PROP_DIR [] none)) p none 0 with
      | error e => simp [hn] at h
      | ok st2 =>
        simp only [hn, Except.ok.injEq, Option.some.injEq] at h
        subst h
        refine (Tame.t_setU st p _ ?_).t_trans
          (Tame.t_of_sameTree (sameTree_of_prop_notify_value hn))
        intro hz
        simp only [ne_eq, Decidable.not_not] at hv
        rw [hv] at hz
        cases hz
  · simp only [Except.ok.injEq, Option.some.injEq] at h
    subst h
    exact Tame.t_refl st

theorem tame_of_insert {st st' : State F} {p parent : Nat} {before skipme : Option Nat}
    (h : prop_insert st p parent before skipme = .ok st') : Tame st st' := by
  unfold prop_insert at h
  dsimp only at h
  split at h
  · split at h
    · cases h
    · exact (Tame.t_setChilds st parent _).t_trans
        (Tame.t_of_sameTree (sameTree_of_prop_notify_child2 _ _ _ _ _ _ _ _ h))
  · exact (Tame.t_setChilds st parent _).t_trans
      (Tame.t_of_sameTree (sameTree_of_prop_notify_child _ _ _ _ _ _ _ h))

theorem tame_of_destroy_unparent {st st' : State F} {p : Nat}
    (h : destroy_unparent st p = .ok st') : Tame st st' := by
  unfold destroy_unparent at h
  split at h
  · cases h; exact Tame.t_refl st
  · next parent hp =>
    cases hn : prop_notify_child (some p) .PROP_DEL_CHILD none 0
        (st.nodes parent).hp_value_subscriptions st with
    | error e => simp [hn] at h
    | ok st1 =>
      have t1 : Tame st st1 := Tame.t_of_sameTree (sameTree_of_prop_notify_child _ _ _ _ _ _ _ hn)
      simp only [hn] at h
      split at h
      · cases h
      · next cs hcs =>
        simp only [Except.ok.injEq] at h
        subst h
        have t2 : Tame st1 (st1.setChilds parent cs) := Tame.t_setChilds _ _ _
        have t3 : Tame (st1.setChilds parent cs)
            ((st1.setChilds parent cs).setNode p
              { (st1.setChilds parent cs).nodes p with hp_parent := none }) :=
          Tame.t_setNode _ _ _ ⟨rfl, rfl, rfl, rfl, rfl, rfl, fun hz => hz, Or.inr rfl⟩
        split
        · exact ((t1.t_trans t2).t_trans t3).t_trans (Tame.t_setSelected _ _ _)
        · exact (t1.t_trans t2).t_trans t3

/-- The invariant holds after the allocation of a node without links and subscriptions whose
  parent, if any, is allocated. -/
theorem StoreOk.alloc_node {E : Nat → Prop} {st st' : State F} (h : StoreOk E st)
    (hn : NamesOk st') (hnn : st'.nnodes = st.nnodes + 1) (hns : st'.nsubs = st.nsubs)
    (hsub : st'.subs = st.subs)
    (hold : ∀ q, q ≠ st.nnodes → st'.nodes q = st.nodes q)
    (hch : (st'.nodes st.nnodes).hp_childs = [])
    (hpar : ∀ d, (st'.nodes st.nnodes).hp_parent = some d → d < st.nnodes)
    (ho : (st'.nodes st.nnodes).hp_originator = none)
    (ht : (st'.nodes st.nnodes).hp_targets = [])
    (hv : (st'.nodes st.nnodes).hp_value_subscriptions = [])
    (hc : (st'.nodes st.nnodes).hp_canonical_subscriptions = [])
    (hm : (st'.nodes st.nnodes).hp_flags.PROP_MONITORED = false)
    (hms : (st'.nodes st.nnodes).hp_flags.PROP_MULTI_SUB = false) : StoreOk E st' where
  names := hn
  above := fun d c hcm => by
    by_cases hd : d = st.nnodes
    · subst hd; rw [hch] at hcm; cases hcm
    · rw [hold d hd] at hcm; exact h.above d c hcm
  parents := fun p d hp => by
    rw [hnn]
    by_cases e : p = st.nnodes
    · subst e; exact Nat.lt_succ_of_lt (hpar d hp)
    · rw [hold p e] at hp; exact Nat.lt_succ_of_lt (h.parents p d hp)
  link_count := fun p o hp hE => by
    by_cases e : p = st.nnodes
    · subst e; rw [ho] at hp; cases hp
    · rw [hold p e] at hp
      rw [hold o (Nat.ne_of_lt (h.link_alloc p o hp))]
      exact h.link_count p o hp hE
  link_back := fun o t hm => by
    by_cases e : o = st.nnodes
    · subst e; rw [ht] at hm; cases hm
    · rw [hold o e] at hm
      obtain ⟨h1, h2, h3, h4⟩ := h.link_back o t hm
      rw [hold t (Nat.ne_of_lt h4), hnn]
      exact ⟨h1, h2, Nat.lt_succ_of_lt h3, Nat.lt_succ_of_lt h4⟩
  link_alloc := fun p o hp => by
    rw [hnn]
    by_cases e : p = st.nnodes
    · subst e; rw [ho] at hp; cases hp
    · rw [hold p e] at hp; exact Nat.lt_succ_of_lt (h.link_alloc p o hp)
  value_count := fun s v hsv => by
    rw [hsub] at hsv
    have h1 := h.value_count s v hsv
    have hmem : s ∈ (st.nodes v).hp_value_subscriptions :=
      List.count_pos_iff.mp (by rw [h1]; exact Nat.one_pos)
    rw [hold v (Nat.ne_of_lt (h.value_back v s hmem).2.2)]
    exact h1
  value_back := fun v s hm => by
    by_cases e : v = st.nnodes
    · subst e; rw [hv] at hm; cases hm
    · rw [hold v e] at hm
      obtain ⟨h1, h2, h3⟩ := h.value_back v s hm
      rw [hsub, hns, hnn]
      exact ⟨h1, h2, Nat.lt_succ_of_lt h3⟩
  canonical_count := fun s c hsc => by
    rw [hsub] at hsc
    have h1 := h.canonical_count s c hsc
    have hmem : s ∈ (st.nodes c).hp_canonical_subscriptions :=
      List.count_pos_iff.mp (by rw [h1]; exact Nat.one_pos)
    rw [hold c (Nat.ne_of_lt (h.canonical_back c s hmem).2.2)]
    exact h1
  canonical_back := fun c s hm => by
    by_cases e : c = st.nnodes
    · subst e; rw [hc] at hm; cases hm
    · rw [hold c e] at hm
      obtain ⟨h1, h2, h3⟩ := h.canonical_back c s hm
      rw [hsub, hns, hnn]
      exact ⟨h1, h2, Nat.lt_succ_of_lt h3⟩
  monitored := fun p hp hz => by
    by_cases e : p = st.nnodes
    · subst e
      rw [hm, hc]
      simp
    · rw [hold p e] at hz ⊢
      rw [hsub]
      rw [hnn] at hp
      exact h.monitored p (lt_of_le_of_ne (Nat.lt_succ_iff.mp hp) e) hz
  multi_sub := fun p hp hz => by
    by_cases e : p = st.nnodes
    · subst e
      rw [hms, hc]
      simp
    · rw [hold p e] at hz ⊢
      rw [hsub]
      rw [hnn] at hp
      exact h.multi_sub p (lt_of_le_of_ne (Nat.lt_succ_iff.mp hp) e) hz

theorem storeOk_prop_make {E : Nat → Prop} {st : State F} (h : StoreOk E st)
    (name : Option String) (noalloc : Bool) (parent : Option Nat)
    (hp : ∀ d, parent = some d → d < st.nnodes) :
    StoreOk E (prop_make st name noalloc parent).1 := by
  refine h.alloc_node (namesOk_prop_make h.names name noalloc parent) rfl rfl rfl ?_ ?_ ?_
    ?_ ?_ ?_ ?_ ?_ ?_
  · intro q hq; simp [prop_make, hq]
  · simp [prop_make, prop_t.hp_childs]
  · intro d hd
    simp [prop_make] at hd
    exact hp d hd
  all_goals simp [prop_make]

theorem storeOk_empty : StoreOk (fun _ => False) (State.empty : State F) where
  names := namesOk_empty
  above := fun d c hc => by simp [State.empty, prop_t.hp_childs] at hc
  parents := fun p d hp => by simp [State.empty] at hp
  link_count := fun p o hp => by simp [State.empty] at hp
  link_back := fun o t hm => by simp [State.empty] at hm
  link_alloc := fun p o hp => by simp [State.empty] at hp
  value_count := fun s v hv => by simp [State.empty] at hv
  value_back := fun v s hm => by simp [State.empty] at hm
  canonical_count := fun s c hc => by simp [State.empty] at hc
  canonical_back := fun c s hm => by simp [State.empty] at hm
  monitored := fun p hp => by simp [State.empty] at hp
  multi_sub := fun p hp => by simp [State.empty] at hp

/-- The function prop_create0 under an allocated parent keeps the invariant and returns an
  allocated node. -/
theorem storeOk_of_create0 {E : Nat → Prop} {st st' : State F} {parent c : Nat}
    {name : Option String} {skipme : Option Nat} {noalloc : Bool}
    (h : prop_create0 st parent name skipme noalloc = .ok (st', c)) (hok : StoreOk E st)
    (hpa : parent < st.nnodes) :
    StoreOk E st' ∧ Grown st st' ∧ c < st'.nnodes := by
  have hnames : NamesOk st' := namesOk_of_create0 h hok.names
  unfold prop_create0 at h
  split at h
  · cases h
  · cases hm : prop_make_dir st parent skipme with
    | error e => simp [hm] at h
    | ok st1 =>
      have t1 : Tame st st1 := tame_of_make_dir hm
      have o1 : StoreOk E st1 := hok.ok_of_tame (shrink_of_make_dir hm) t1
      simp only [hm] at h
      cases hf : name.bind (find_child_by_name st1 (st1.nodes parent).hp_childs) with
      | some hp =>
        simp only [hf] at h
        have hmem : hp ∈ (st1.nodes parent).hp_childs := by
          cases name with
          | none => simp at hf
          | some n =>
            simp only [Option.bind_some, find_child_by_name] at hf
            exact List.mem_of_find?_eq_some hf
        have hpl : hp < st1.nnodes := o1.names.2 parent hp hmem
        split at h
        · simp only [Except.ok.injEq, Prod.mk.injEq] at h
          obtain ⟨h1, h2⟩ := h
          subst h1 h2
          have t2 : Tame st1 (st1.setNode hp { st1.nodes hp with
              hp_name := name
              hp_flags := { (st1.nodes hp).hp_flags with PROP_NAME_NOT_ALLOCATED := true } }) :=
            Tame.t_setNode st1 _ _ ⟨rfl, rfl, rfl, rfl, rfl, rfl, fun hz => hz, Or.inl rfl⟩
          refine ⟨?_, Grown.g_of_tame (t1.t_trans t2), hpl⟩
          refine o1.tame_tree hnames ?_ t2
          intro d c hc
          apply o1.above d c
          by_cases e : d = hp
          · subst e
            simpa [prop_t.hp_childs] using hc
          · simpa [e] using hc
        · simp only [Except.ok.injEq, Prod.mk.injEq] at h
          obtain ⟨h1, h2⟩ := h
          subst h1 h2
          exact ⟨o1, Grown.g_of_tame t1, hpl⟩
      | none =>
        simp only [hf] at h
        have o2 := storeOk_prop_make o1 name noalloc (some parent)
          (fun d hd => by cases hd; rw [t1.nnodes]; exact hpa)
        generalize hst2 : prop_make st1 name noalloc (some parent) = r at h o2
        obtain ⟨st2, hp⟩ := r
        have hhp : hp = st1.nnodes := by
          have := prop_make_snd st1 name noalloc (some parent); rw [hst2] at this; exact this
        have hnn : st2.nnodes = st1.nnodes + 1 := by
          have := prop_make_fst_nnodes st1 name noalloc (some parent); rw [hst2] at this
          exact this
        have hns : st2.nsubs = st1.nsubs := by
          have : (prop_make st1 name noalloc (some parent)).1.nsubs = st1.nsubs := rfl
          rw [hst2] at this; exact this
        have g12 : Grown st1 st2 := by
          refine ⟨by rw [hnn]; exact Nat.le_succ _, hns, fun q hq => ?_⟩
          have := prop_make_node_old st1 name noalloc (some parent) q (Nat.ne_of_lt hq)
          rw [hst2] at this
          rw [this]
        dsimp only at h o2
        generalize hfl : (if (st2.nodes parent).hp_flags.PROP_MULTI_SUB
              || (st2.nodes parent).hp_flags.PROP_MULTI_NOTIFY then
            prop_flood_flag (st2.nnodes + 1) st2 hp PROP_MULTI_NOTIFY {}
          else .ok st2) = fl at h
        cases fl with
        | error e => simp at h
        | ok st3 =>
          have s23 : Shrink st2 st3 := by
            split at hfl
            · exact shrink_of_flood_flag _ _ _ _ _ _ hfl
            · cases hfl; exact Shrink.sh_refl _
          have t23 : Tame st2 st3 := by
            split at hfl
            · exact tame_of_flood_flag _ _ _ _ _ _ rfl rfl rfl rfl hfl
            · cases hfl; exact Tame.t_refl _
          have o3 : StoreOk E st3 := o2.ok_of_tame s23 t23
          simp only at h
          cases hi : prop_insert st3 hp parent none skipme with
          | error e => simp [hi] at h
          | ok st4 =>
            simp only [hi, Except.ok.injEq, Prod.mk.injEq] at h
            obtain ⟨h4, h5⟩ := h
            subst h4 h5
            have t34 : Tame st3 st4 := tame_of_insert hi
            have hlt : parent < hp := by rw [hhp, t1.nnodes]; exact hpa
            refine ⟨o3.tame_tree hnames ?_ t34,
              (((Grown.g_of_tame t1).g_trans g12).g_trans (Grown.g_of_tame t23)).g_trans
                (Grown.g_of_tame t34), ?_⟩
            · unfold prop_insert at hi
              dsimp only at hi
              have hs := Shrink.of_sameTree (sameTree_of_prop_notify_child _ _ _ _ _ _ _ hi)
              refine KidsAbove.ka_shrink hs ?_
              intro d c hc
              have hsub : c ∈ (st3.nodes d).hp_childs ∨ (d = parent ∧ c = hp) := by
                unfold State.setChilds at hc
                split at hc
                · by_cases e : d = parent
                  · subst e
                    simp [prop_t.hp_childs] at hc
                    rcases hc with hc | hc
                    · exact Or.inl hc
                    · exact Or.inr ⟨rfl, hc⟩
                  · simp [e] at hc; exact Or.inl hc
                · exact Or.inl hc
              rcases hsub with hc | ⟨e1, e2⟩
              · exact o3.above d c hc
              · rw [e1, e2]; exact hlt
            · rw [t34.nnodes, t23.nnodes, hnn, hhp]; exact Nat.lt_succ_self _

theorem storeOk_of_create_ex {E : Nat → Prop} {st st' : State F} {parent r : Option Nat}
    {name : Option String} {skipme : Option Nat} {noalloc incref : Bool}
    (h : prop_create_ex st parent name skipme noalloc incref = .ok (st', r))
    (hok : StoreOk E st) (hpa : ∀ d, parent = some d → d < st.nnodes) : StoreOk E st' := by
  unfold prop_create_ex at h
  split at h
  · cases h; exact hok
  · next parent =>
    split at h
    · cases hc : prop_create0 st parent name skipme noalloc with
      | error e => simp [hc] at h
      | ok r1 =>
        obtain ⟨st1, p⟩ := r1
        simp only [hc, Except.ok.injEq, Prod.mk.injEq] at h
        obtain ⟨h1, _⟩ := h
        subst h1
        have o1 := (storeOk_of_create0 hc hok (hpa parent rfl)).1
        split
        · exact o1.ok_of_sameTree (sameTree_ref_inc st1 p)
        · exact o1
    · cases h; exact hok

theorem follow_originators_alloc {E : Nat → Prop} : ∀ (fuel : Nat) (st : State F) (p r : Nat),
    StoreOk E st → p < st.nnodes → follow_originators fuel st p = .ok r → r < st.nnodes := by
  intro fuel
  induction fuel with
  | zero => intro st p r _ _ h; cases h
  | succ fuel ih =>
    intro st p r hok hp h
    unfold follow_originators at h
    split at h
    · cases h; exact hp
    · next o ho => exact ih st o r hok (hok.link_alloc p o ho) h

theorem storeOk_of_subfind_child {E : Nat → Prop} {st st' : State F} {p : Nat} {name : String}
    {allow_indexing : Bool} {r : Option Nat}
    (h : subfind_child st p name allow_indexing = .ok (st', r)) (hok : StoreOk E st)
    (hpa : p < st.nnodes) :
    StoreOk E st' ∧ Grown st st' ∧ ∀ c, r = some c → c < st'.nnodes := by
  unfold subfind_child at h
  split at h
  · dsimp only at h
    split at h
    · simp only [Except.ok.injEq, Prod.mk.injEq] at h
      obtain ⟨h1, h2⟩ := h
      subst h1 h2
      exact ⟨hok, Grown.g_refl _, fun c hc => by cases hc⟩
    · next c hget =>
      simp only [Except.ok.injEq, Prod.mk.injEq] at h
      obtain ⟨h1, h2⟩ := h
      subst h1 h2
      refine ⟨hok, Grown.g_refl _, fun c1 hc => ?_⟩
      cases hc
      exact hok.names.2 p c (List.get?_mem hget)
  · split at h
    · next c hfind =>
      simp only [Except.ok.injEq, Prod.mk.injEq] at h
      obtain ⟨h1, h2⟩ := h
      subst h1 h2
      refine ⟨hok, Grown.g_refl _, fun c1 hc => ?_⟩
      cases hc
      exact hok.names.2 p c (List.mem_of_find?_eq_some hfind)
    · cases hc : prop_create0 st p (some name) none false with
      | error e => simp [hc] at h
      | ok r1 =>
        obtain ⟨st1, c⟩ := r1
        simp only [hc, Except.ok.injEq, Prod.mk.injEq] at h
        obtain ⟨h1, h2⟩ := h
        subst h1 h2
        obtain ⟨o1, g1, c1⟩ := storeOk_of_create0 hc hok hpa
        exact ⟨o1, g1, fun c2 hc2 => by cases hc2; exact c1⟩

theorem storeOk_of_subfind {E : Nat → Prop} (follow_symlinks allow_indexing : Bool) :
    ∀ (name : List String) (st st' : State F) (p : Nat) (r : Option Nat),
      prop_subfind st p name follow_symlinks allow_indexing = .ok (st', r) →
      StoreOk E st → p < st.nnodes →
      StoreOk E st' ∧ Grown st st' ∧ ∀ c, r = some c → c < st'.nnodes := by
  intro name
  induction name with
  | nil =>
    intro st st' p r h hok hpa
    unfold prop_subfind at h
    split at h
    · cases hf : follow_originators (st.nnodes + 1) st p with
      | error e => simp [hf] at h
      | ok q =>
        simp only [hf, Except.ok.injEq, Prod.mk.injEq] at h
        obtain ⟨h1, h2⟩ := h
        subst h1 h2
        exact ⟨hok, Grown.g_refl _, fun c hc => by
          cases hc; exact follow_originators_alloc _ _ _ _ hok hpa hf⟩
    · simp only [Except.ok.injEq, Prod.mk.injEq] at h
      obtain ⟨h1, h2⟩ := h
      subst h1 h2
      exact ⟨hok, Grown.g_refl _, fun c hc => by cases hc; exact hpa⟩
  | cons n rest ih =>
    intro st st' p r h hok hpa
    unfold prop_subfind at h
    cases hf : (if follow_symlinks then follow_originators (st.nnodes + 1) st p
        else .ok p) with
    | error e => simp [hf] at h
    | ok p1 =>
      have hp1 : p1 < st.nnodes := by
        split at hf
        · exact follow_originators_alloc _ _ _ _ hok hpa hf
        · cases hf; exact hpa
      simp only [hf] at h
      cases he : subfind_enter st p1 with
      | error e => simp [he] at h
      | ok o =>
        cases o with
        | none =>
          simp only [he, Except.ok.injEq, Prod.mk.injEq] at h
          obtain ⟨h1, h2⟩ := h
          subst h1 h2
          exact ⟨hok, Grown.g_refl _, fun c hc => by cases hc⟩
        | some st1 =>
          simp only [he] at h
          have t1 : Tame st st1 := tame_of_subfind_enter he
          have o1 : StoreOk E st1 := hok.ok_of_tame (shrink_of_subfind_enter he) t1
          unfold subfind_next at h
          cases hc : subfind_child st1 p1 n allow_indexing with
          | error e => simp [hc] at h
          | ok r2 =>
            obtain ⟨st2, c⟩ := r2
            obtain ⟨o2, g2, c2⟩ := storeOk_of_subfind_child hc o1 (by rw [t1.nnodes]; exact hp1)
            cases c with
            | none =>
              simp only [hc, Except.ok.injEq, Prod.mk.injEq] at h
              obtain ⟨h1, h2⟩ := h
              subst h1 h2
              exact ⟨o2, (Grown.g_of_tame t1).g_trans g2, fun c hc => by cases hc⟩
            | some c =>
              simp only [hc] at h
              obtain ⟨o3, g3, c3⟩ := ih st2 st' c r h o2 (c2 c rfl)
              exact ⟨o3, ((Grown.g_of_tame t1).g_trans g2).g_trans g3, c3⟩

/-- Lists that hold, for every pointer, the elements that carry it, after the pointer of
  one element s has changed and s has moved accordingly. -/
theorem rewire_lists (L L' : Nat → List Nat) (ptr ptr' : Nat → Option Nat) (s : Nat)
    (hcount : ∀ t v, ptr t = some v → (L v).count t = 1)
    (hback : ∀ v, ∀ t ∈ L v, ptr t = some v)
    (hsub : ∀ t, t ≠ s → ptr' t = ptr t)
    (h0 : ∀ q, (ptr s = some q ↔ ptr' s = some q) → L' q = L q)
    (h1 : ∀ q, ptr s = some q → ptr' s ≠ some q → L' q = (L q).erase s)
    (h2 : ∀ q, ptr' s = some q → ptr s ≠ some q → L' q = s :: L q) :
    (∀ t v, ptr' t = some v → (L' v).count t = 1) ∧
      (∀ v, ∀ t ∈ L' v, ptr' t = some v ∧ (t = s ∨ t ∈ L v)) := by
  have hnot : ∀ q, ptr s ≠ some q → s ∉ L q := fun q hq hm => hq (hback q s hm)
  constructor
  · intro t v htv
    by_cases hts : t = s
    · subst hts
      by_cases hold : ptr t = some v
      · rw [h0 v ⟨fun _ => htv, fun _ => hold⟩]
        exact hcount t v hold
      · rw [h2 v htv hold, List.count_cons_self, List.count_eq_zero_of_not_mem (hnot v hold)]
    · rw [hsub t hts] at htv
      have hc := hcount t v htv
      by_cases hold : ptr s = some v
      · by_cases hnew : ptr' s = some v
        · rw [h0 v ⟨fun _ => hnew, fun _ => hold⟩]; exact hc
        · rw [h1 v hold hnew, List.count_erase_of_ne hts]; exact hc
      · by_cases hnew : ptr' s = some v
        · rw [h2 v hnew hold, List.count_cons_of_ne hts]; exact hc
        · rw [h0 v ⟨fun e => absurd e hold, fun e => absurd e hnew⟩]; exact hc
  · intro v t hm
    by_cases hold : ptr s = some v
    · by_cases hnew : ptr' s = some v
      · rw [h0 v ⟨fun _ => hnew, fun _ => hold⟩] at hm
        refine ⟨?_, Or.inr hm⟩
        by_cases hts : t = s
        · subst hts; exact hnew
        · rw [hsub t hts]; exact hback v t hm
      · rw [h1 v hold hnew] at hm
        have hne : t ≠ s := by
          intro e
          subst e
          have hc := hcount t v hold
          have : (L v).count t - 1 = 0 := by rw [hc]
          rw [← List.count_erase_self] at this
          exact (List.count_eq_zero.mp this) hm
        have hm' : t ∈ L v := List.mem_of_mem_erase hm
        exact ⟨by rw [hsub t hne]; exact hback v t hm', Or.inr hm'⟩
    · by_cases hnew : ptr' s = some v
      · rw [h2 v hnew hold] at hm
        rcases List.mem_cons.mp hm with e | hm'
        · subst e; exact ⟨hnew, Or.inl rfl⟩
        · have hne : t ≠ s := fun e => hnot v hold (e ▸ hm')
          exact ⟨by rw [hsub t hne]; exact hback v t hm', Or.inr hm'⟩
      · rw [h0 v ⟨fun e => absurd e hold, fun e => absurd e hnew⟩] at hm
        have hne : t ≠ s := fun e => hnot v hold (e ▸ hm)
        exact ⟨by rw [hsub t hne]; exact hback v t hm, Or.inr hm⟩

/-- The invariant after the referents of one allocated subscription s have changed: s has
  left the lists of the old referents and is the head of the lists of the new ones, the
  flags of the canonical nodes concerned follow their lists, and nothing else that the
  invariant reads has changed. -/
theorem StoreOk.rewired {E : Nat → Prop} {st st' : State F} (h : StoreOk E st) (s : Nat)
    (hs : s < st.nsubs) (hn : NamesOk st') (ha : KidsAbove st')
    (hnn : st'.nnodes = st.nnodes) (hns : st'.nsubs = st.nsubs)
    (ho : ∀ q, (st'.nodes q).hp_originator = (st.nodes q).hp_originator)
    (ht : ∀ q, (st'.nodes q).hp_targets = (st.nodes q).hp_targets)
    (hz : ∀ q, (st.nodes q).hp_type = .PROP_ZOMBIE → (st'.nodes q).hp_type = .PROP_ZOMBIE)
    (hp : ∀ q, (st'.nodes q).hp_parent = (st.nodes q).hp_parent ∨
      (st'.nodes q).hp_parent = none)
    (hsv : ∀ t, t ≠ s → (st'.subs t).hps_value_prop = (st.subs t).hps_value_prop)
    (hsc : ∀ t, t ≠ s → (st'.subs t).hps_canonical_prop = (st.subs t).hps_canonical_prop)
    (hfl : ∀ t, (st'.subs t).hps_flags = (st.subs t).hps_flags)
    (hv0 : ∀ q, ((st.subs s).hps_value_prop = some q ↔ (st'.subs s).hps_value_prop = some q) →
      (st'.nodes q).hp_value_subscriptions = (st.nodes q).hp_value_subscriptions)
    (hv1 : ∀ q, (st.subs s).hps_value_prop = some q → (st'.subs s).hps_value_prop ≠ some q →
      (st'.nodes q).hp_value_subscriptions = (st.nodes q).hp_value_subscriptions.erase s)
    (hv2 : ∀ q, (st'.subs s).hps_value_prop = some q → (st.subs s).hps_value_prop ≠ some q →
      (st'.nodes q).hp_value_subscriptions = s :: (st.nodes q).hp_value_subscriptions)
    (hva : ∀ q, (st'.subs s).hps_value_prop = some q → q < st.nnodes)
    (hc0 : ∀ q, ((st.subs s).hps_canonical_prop = some q ↔
        (st'.subs s).hps_canonical_prop = some q) →
      (st'.nodes q).hp_canonical_subscriptions = (st.nodes q).hp_canonical_subscriptions ∧
      (st'.nodes q).hp_flags.PROP_MONITORED = (st.nodes q).hp_flags.PROP_MONITORED ∧
      (st'.nodes q).hp_flags.PROP_MULTI_SUB = (st.nodes q).hp_flags.PROP_MULTI_SUB)
    (hc1 : ∀ q, (st.subs s).hps_canonical_prop = some q →
      (st'.subs s).hps_canonical_prop ≠ some q →
      (st'.nodes q).hp_canonical_subscriptions =
        (st.nodes q).hp_canonical_subscriptions.erase s)
    (hc2 : ∀ q, (st'.subs s).hps_canonical_prop = some q →
      (st.subs s).hps_canonical_prop ≠ some q →
      (st'.nodes q).hp_canonical_subscriptions = s :: (st.nodes q).hp_canonical_subscriptions)
    (hca : ∀ q, (st'.subs s).hps_canonical_prop = some q → q < st.nnodes)
    (hm : ∀ q, ¬ ((st.subs s).hps_canonical_prop = some q ↔
        (st'.subs s).hps_canonical_prop = some q) →
      q < st.nnodes → (st.nodes q).hp_type ≠ .PROP_ZOMBIE →
      ((st'.nodes q).hp_flags.PROP_MONITORED = true ↔
        ∃ t ∈ (st'.nodes q).hp_canonical_subscriptions,
          (st.subs t).hps_flags.PROP_SUB_SUBSCRIPTION_MONITOR = true) ∧
      ((st'.nodes q).hp_flags.PROP_MULTI_SUB = true ↔
        ∃ t ∈ (st'.nodes q).hp_canonical_subscriptions,
          (st.subs t).hps_flags.PROP_SUB_MULTI = true)) : StoreOk E st' := by
  have hV := rewire_lists (fun q => (st.nodes q).hp_value_subscriptions)
    (fun q => (st'.nodes q).hp_value_subscriptions) (fun t => (st.subs t).hps_value_prop)
    (fun t => (st'.subs t).hps_value_prop) s h.value_count
    (fun v t hm => (h.value_back v t hm).1) hsv hv0 hv1 hv2
  have hC := rewire_lists (fun q => (st.nodes q).hp_canonical_subscriptions)
    (fun q => (st'.nodes q).hp_canonical_subscriptions)
    (fun t => (st.subs t).hps_canonical_prop)
    (fun t => (st'.subs t).hps_canonical_prop) s h.canonical_count
    (fun v t hm => (h.canonical_back v t hm).1) hsc (fun q hq => (hc0 q hq).1) hc1 hc2
  constructor
  case names => exact hn
  case above => exact ha
  case parents =>
    intro p d hpd
    rw [hnn]
    rcases hp p with e | e
    · rw [e] at hpd; exact h.parents p d hpd
    · rw [e] at hpd; cases hpd
  case link_count =>
    intro p o hpo hE
    rw [ho] at hpo
    rw [ht]
    exact h.link_count p o hpo hE
  case link_back =>
    intro o t hmem
    rw [ht] at hmem
    rw [ho, hnn]
    exact h.link_back o t hmem
  case link_alloc =>
    intro p o hpo
    rw [ho] at hpo
    rw [hnn]
    exact h.link_alloc p o hpo
  case value_count => exact hV.1
  case value_back =>
    intro v t hmem
    obtain ⟨h1, h2⟩ := hV.2 v t hmem
    rw [hns, hnn]
    refine ⟨h1, ?_, ?_⟩
    · rcases h2 with e | h2
      · rw [e]; exact hs
      · exact (h.value_back v t h2).2.1
    · rcases h2 with e | h2
      · subst e; exact hva v h1
      · exact (h.value_back v t h2).2.2
  case canonical_count => exact hC.1
  case canonical_back =>
    intro v t hmem
    obtain ⟨h1, h2⟩ := hC.2 v t hmem
    rw [hns, hnn]
    refine ⟨h1, ?_, ?_⟩
    · rcases h2 with e | h2
      · rw [e]; exact hs
      · exact (h.canonical_back v t h2).2.1
    · rcases h2 with e | h2
      · subst e; exact hca v h1
      · exact (h.canonical_back v t h2).2.2
  case monitored =>
    intro p hpl hpz
    rw [hnn] at hpl
    have hpz0 : (st.nodes p).hp_type ≠ .PROP_ZOMBIE := fun e => hpz (hz p e)
    simp only [hfl]
    by_cases hq : ((st.subs s).hps_canonical_prop = some p ↔
        (st'.subs s).hps_canonical_prop = some p)
    · obtain ⟨e1, e2, _⟩ := hc0 p hq
      rw [e1, e2]
      exact h.monitored p hpl hpz0
    · exact (hm p hq hpl hpz0).1
  case multi_sub =>
    intro p hpl hpz
    rw [hnn] at hpl
    have hpz0 : (st.nodes p).hp_type ≠ .PROP_ZOMBIE := fun e => hpz (hz p e)
    simp only [hfl]
    by_cases hq : ((st.subs s).hps_canonical_prop = some p ↔
        (st'.subs s).hps_canonical_prop = some p)
    · obtain ⟨e1, _, e3⟩ := hc0 p hq
      rw [e1, e3]
      exact h.multi_sub p hpl hpz0
    · exact (hm p hq hpl hpz0).2

/-- The invariant holds after the allocation of a subscription without referents. -/
theorem StoreOk.alloc_sub {E : Nat → Prop} {st : State F} (h : StoreOk E st)
    (sb : prop_sub_t) (hv : sb.hps_value_prop = none) (hc : sb.hps_canonical_prop = none) :
    StoreOk E { st with
      subs := fun q => if q = st.nsubs then sb else st.subs q, nsubs := st.nsubs + 1 } := by
  have hvm : ∀ v, ∀ t ∈ (st.nodes v).hp_value_subscriptions, t ≠ st.nsubs :=
    fun v t hm => Nat.ne_of_lt (h.value_back v t hm).2.1
  have hcm : ∀ v, ∀ t ∈ (st.nodes v).hp_canonical_subscriptions, t ≠ st.nsubs :=
    fun v t hm => Nat.ne_of_lt (h.canonical_back v t hm).2.1
  constructor
  case names => exact h.names
  case above => exact h.above
  case parents => exact h.parents
  case link_count => exact h.link_count
  case link_back => exact h.link_back
  case link_alloc => exact h.link_alloc
  case value_count =>
    intro t v htv
    dsimp only at htv ⊢
    split at htv
    · rw [hv] at htv; cases htv
    · exact h.value_count t v htv
  case value_back =>
    intro v t hm
    dsimp only at hm ⊢
    rw [if_neg (hvm v t hm)]
    obtain ⟨h1, h2, h3⟩ := h.value_back v t hm
    exact ⟨h1, Nat.lt_succ_of_lt h2, h3⟩
  case canonical_count =>
    intro t v htv
    dsimp only at htv ⊢
    split at htv
    · rw [hc] at htv; cases htv
    · exact h.canonical_count t v htv
  case canonical_back =>
    intro v t hm
    dsimp only at hm ⊢
    rw [if_neg (hcm v t hm)]
    obtain ⟨h1, h2, h3⟩ := h.canonical_back v t hm
    exact ⟨h1, Nat.lt_succ_of_lt h2, h3⟩
  case monitored =>
    intro p hp hz
    dsimp only at hp hz ⊢
    rw [h.monitored p hp hz]
    constructor
    · rintro ⟨t, hm, hf⟩
      exact ⟨t, hm, by rw [if_neg (hcm p t hm)]; exact hf⟩
    · rintro ⟨t, hm, hf⟩
      rw [if_neg (hcm p t hm)] at hf
      exact ⟨t, hm, hf⟩
  case multi_sub =>
    intro p hp hz
    dsimp only at hp hz ⊢
    rw [h.multi_sub p hp hz]
    constructor
    · rintro ⟨t, hm, hf⟩
      exact ⟨t, hm, by rw [if_neg (hcm p t hm)]; exact hf⟩
    · rintro ⟨t, hm, hf⟩
      rw [if_neg (hcm p t hm)] at hf
      exact ⟨t, hm, hf⟩

theorem mem_of_count_one {l : List Nat} {a : Nat} (h : l.count a = 1) : a ∈ l :=
  List.count_pos_iff.mp (by rw [h]; exact Nat.one_pos)

/-- The invariant after the subscription s has moved from the value list of its value node,
  if any, to the value list of the allocated node src. -/
theorem storeOk_value_moved {E : Nat → Prop} {st1 : State F} (h : StoreOk E st1) (s src : Nat)
    (hs : s < st1.nsubs) (hsrc : src < st1.nnodes)
    (hne : (st1.subs s).hps_value_prop ≠ some src) (st2 : State F)
    (h2 : ((st1.subs s).hps_value_prop = none ∧ st2 = st1) ∨
      ∃ v, (st1.subs s).hps_value_prop = some v ∧ st2 = st1.setNode v { st1.nodes v with
        hp_value_subscriptions := (st1.nodes v).hp_value_subscriptions.erase s }) :
    StoreOk E ((st2.setNode src { st2.nodes src with
      hp_value_subscriptions := s :: (st2.nodes src).hp_value_subscriptions }).setSub s
      { st2.subs s with hps_value_prop := some src }) := by
  rcases h2 with ⟨hnone, e⟩ | ⟨v, hv, e⟩
  · rw [e]
    clear e
    have hsh : Shrink st1 ((st1.setNode src { st1.nodes src with
        hp_value_subscriptions := s :: (st1.nodes src).hp_value_subscriptions }).setSub s
        { st1.subs s with hps_value_prop := some src }) :=
      (Shrink.sh_setNode st1 src _ (Or.inl (by rfl)) (by exact List.Subperm.refl _)).sh_trans
        (Shrink.sh_setSub _ _ _)
    refine h.rewired s hs (h.names.shrink hsh) (h.above.ka_shrink hsh) rfl rfl ?_ ?_ ?_ ?_ ?_ ?_ ?_
      ?_ ?_ ?_ ?_ ?_ ?_ ?_ ?_ ?_
    · intro q; by_cases e : q = src <;> simp [e]
    · intro q; by_cases e : q = src <;> simp [e]
    · intro q hz; by_cases e : q = src
      · subst e; simpa [prop_t.hp_type] using hz
      · simpa [e] using hz
    · intro q; by_cases e : q = src <;> simp [e]
    · intro t ht; simp [ht]
    · intro t ht; simp [ht]
    · intro t; by_cases e : t = s <;> simp [e]
    · intro q hq
      have : q ≠ src := by
        intro e; subst e; simp [hnone] at hq
      simp [this]
    · intro q hq; rw [hnone] at hq; cases hq
    · intro q hq _
      simp at hq
      subst hq
      simp
    · intro q hq
      simp at hq
      subst hq
      exact hsrc
    · intro q _; by_cases e : q = src <;> simp [e]
    · intro q hq hq'; exfalso; apply hq'; simpa using hq
    · intro q hq hq'; exfalso; apply hq'; simpa using hq
    · intro q hq
      simp at hq
      exact h.canonical_back q s (mem_of_count_one (h.canonical_count s q hq)) |>.2.2
    · intro q hq; exfalso; apply hq; simp
  · subst e
    have hvs : v ≠ src := fun e => hne (e ▸ hv)
    have hsh : Shrink st1 (((st1.setNode v { st1.nodes v with
        hp_value_subscriptions := (st1.nodes v).hp_value_subscriptions.erase s }).setNode src
        { (st1.setNode v { st1.nodes v with
            hp_value_subscriptions := (st1.nodes v).hp_value_subscriptions.erase s }).nodes src
          with hp_value_subscriptions := s :: ((st1.setNode v { st1.nodes v with
            hp_value_subscriptions := (st1.nodes v).hp_value_subscriptions.erase s }).nodes
              src).hp_value_subscriptions }).setSub s
        { st1.subs s with hps_value_prop := some src }) :=
      ((Shrink.sh_setNode st1 v _ (Or.inl (by rfl)) (by exact List.Subperm.refl _)).sh_trans
        (Shrink.sh_setNode _ src _ (Or.inl (by rfl)) (by exact List.Subperm.refl _))).sh_trans
        (Shrink.sh_setSub _ _ _)
    refine h.rewired s hs (h.names.shrink hsh) (h.above.ka_shrink hsh) rfl rfl ?_ ?_ ?_ ?_ ?_ ?_ ?_
      ?_ ?_ ?_ ?_ ?_ ?_ ?_ ?_ ?_
    · intro q
      by_cases e : q = src
      · subst e; simp [Ne.symm hvs]
      · by_cases e' : q = v
        · subst e'; simp [e]
        · simp [e, e']
    · intro q
      by_cases e : q = src
      · subst e; simp [Ne.symm hvs]
      · by_cases e' : q = v
        · subst e'; simp [e]
        · simp [e, e']
    · intro q hz
      by_cases e : q = src
      · subst e; simpa [prop_t.hp_type, Ne.symm hvs] using hz
      · by_cases e' : q = v
        · subst e'; simpa [prop_t.hp_type, e] using hz
        · simpa [e, e'] using hz
    · intro q
      by_cases e : q = src
      · subst e; simp [Ne.symm hvs]
      · by_cases e' : q = v
        · subst e'; simp [e]
        · simp [e, e']
    · intro t ht; simp [ht]
    · intro t ht; simp [ht]
    · intro t; by_cases e : t = s <;> simp [e]
    · intro q hq
      have e1 : q ≠ src := by
        intro e; subst e
        exact hne (hq.mpr (by simp))
      have e2 : q ≠ v := by
        intro e; subst e
        have := hq.mp hv
        simp at this
        exact hvs this.symm
      simp [e1, e2]
    · intro q hq _
      rw [hv] at hq
      cases hq
      simp [hvs]
    · intro q hq _
      simp at hq
      subst hq
      simp [Ne.symm hvs]
    · intro q hq
      simp at hq
      subst hq
      exact hsrc
    · intro q _
      by_cases e : q = src
      · subst e; simp [Ne.symm hvs]
      · by_cases e' : q = v
        · subst e'; simp [e]
        · simp [e, e']
    · intro q hq hq'; exfalso; apply hq'; simpa using hq
    · intro q hq hq'; exfalso; apply hq'; simpa using hq
    · intro q hq
      simp at hq
      exact h.canonical_back q s (mem_of_count_one (h.canonical_count s q hq)) |>.2.2
    · intro q hq; exfalso; apply hq; simp

theorem storeOk_of_relink_one [CFloat F] {E : Nat → Prop} {src : Nat} {skipme : Option Nat}
    {s : Nat} {st st' : State F} {pnq pnq' : prop_notify_queue F}
    (h : relink_one src skipme s st pnq = .ok (st', pnq')) (hok : StoreOk E st)
    (hs : s < st.nsubs) (hsrc : src < st.nnodes) :
    StoreOk E st' ∧ st'.nnodes = st.nnodes ∧ Grown st st' := by
  unfold relink_one at h
  split at h
  · cases h; exact ⟨hok, rfl, Grown.g_refl _⟩
  · next hne =>
    dsimp only at h
    split at h
    · cases h
    · next st2 equal hd =>
      have s2 : ∃ st1, StoreOk E st1 ∧ st1.nnodes = st.nnodes ∧ Grown st st1 ∧
          (st1.subs s).hps_value_prop = (st.subs s).hps_value_prop ∧
          (((st1.subs s).hps_value_prop = none ∧ st2 = st1) ∨
            ∃ v, (st1.subs s).hps_value_prop = some v ∧ st2 = st1.setNode v { st1.nodes v with
              hp_value_subscriptions := (st1.nodes v).hp_value_subscriptions.erase s }) := by
        split at hd
        · next v hv =>
          split at hd
          · cases hd
          · next st1 hf =>
            have s1 : SameTree st st1 := by
              split at hf
              · exact sameTree_of_notify_void hf
              · cases hf; exact SameTree.st_refl _
            split at hd
            · cases hd
            · next l hl =>
              split at hd
              · cases hd
              · cases hd
                refine ⟨st1, hok.ok_of_sameTree s1, s1.1, Grown.g_of_sameTree s1,
                  s1.hps_value_prop s,
                  Or.inr ⟨v, (s1.hps_value_prop s).trans hv, ?_⟩⟩
                unfold tailq_remove at hl
                split at hl
                · cases hl; rfl
                · cases hl
        · next hv =>
          cases hd
          exact ⟨st, hok, rfl, Grown.g_refl _, rfl, Or.inl ⟨hv, rfl⟩⟩
      obtain ⟨st1, o1, n1, g1, hv1, hst2⟩ := s2
      have ns1 := g1.nsubs
      have n2 : st2.nnodes = st.nnodes ∧ Grown st st2 := by
        rcases hst2 with ⟨_, e⟩ | ⟨v, _, e⟩
        · rw [e]; exact ⟨n1, g1⟩
        · rw [e]
          exact ⟨n1, g1.g_trans (Grown.g_of_tame (Tame.t_refl _) |>.g_trans
            ⟨le_refl _, rfl, fun q _ => by by_cases e : q = v <;> simp [e]⟩)⟩
      have o4 : StoreOk E ((st2.setNode src { st2.nodes src with
          hp_value_subscriptions := s :: (st2.nodes src).hp_value_subscriptions }).setSub s
          { (st2.setNode src { st2.nodes src with
              hp_value_subscriptions := s :: (st2.nodes src).hp_value_subscriptions }).subs s with
            hps_value_prop := some src }) :=
        storeOk_value_moved o1 s src (by rw [ns1]; exact hs) (by rw [n1]; exact hsrc)
          (by rw [hv1]; exact hne) st2 hst2
      have hn4 : ((st2.setNode src { st2.nodes src with
          hp_value_subscriptions := s :: (st2.nodes src).hp_value_subscriptions }).setSub s
          { (st2.setNode src { st2.nodes src with
              hp_value_subscriptions := s :: (st2.nodes src).hp_value_subscriptions }).subs s with
            hps_value_prop := some src }).nnodes = st.nnodes ∧
          Grown st ((st2.setNode src { st2.nodes src with
          hp_value_subscriptions := s :: (st2.nodes src).hp_value_subscriptions }).setSub s
          { (st2.setNode src { st2.nodes src with
              hp_value_subscriptions := s :: (st2.nodes src).hp_value_subscriptions }).subs s with
            hps_value_prop := some src }) :=
        ⟨n2.1, n2.2.g_trans ⟨le_refl _, rfl, fun q _ => by by_cases e : q = src <;> simp [e]⟩⟩
      generalize (st2.setNode src { st2.nodes src with
          hp_value_subscriptions := s :: (st2.nodes src).hp_value_subscriptions }).setSub s
          { (st2.setNode src { st2.nodes src with
              hp_value_subscriptions := s :: (st2.nodes src).hp_value_subscriptions }).subs s with
            hps_value_prop := some src } = st4 at h o4 hn4
      split at h
      · cases h
      · next st5 hm =>
        have s5 : SameTree st4 st5 := by
          split at hm
          · exact sameTree_of_monitor_active _ _ _ hm
          · cases hm; exact SameTree.st_refl _
        have o5 : StoreOk E st5 := o4.ok_of_sameTree s5
        have n5 : st5.nnodes = st.nnodes ∧ Grown st st5 :=
          ⟨s5.1.trans hn4.1, hn4.2.g_trans (Grown.g_of_sameTree s5)⟩
        split at h
        · cases h; exact ⟨o5, n5⟩
        · split at h
          · cases h
          · next st7 pnq1 hb =>
            have t6 : Tame st5 (st5.setSub s { st5.subs s with hps_pending_unlink := pnq.isSome }) :=
              Tame.t_setSub st5 s _ rfl rfl rfl
            have o6 := o5.ok_of_tame (Shrink.sh_setSub st5 s _) t6
            have s7 := sameTree_of_build_notify_value hb
            have o7 := o6.ok_of_sameTree s7
            have n7 : st7.nnodes = st.nnodes ∧ Grown st st7 :=
              ⟨s7.1.trans n5.1, (n5.2.g_trans (Grown.g_of_tame t6)).g_trans (Grown.g_of_sameTree s7)⟩
            split at h
            · split at h
              · cases h
              · next st8 ha =>
                cases h
                have s8 := sameTree_of_subscribe_add_childs _ _ _ _ _ _ ha
                exact ⟨o7.ok_of_sameTree s8, s8.1.trans n7.1, n7.2.g_trans (Grown.g_of_sameTree s8)⟩
            · cases h; exact ⟨o7, n7⟩

theorem storeOk_of_relink_subs [CFloat F] {E : Nat → Prop} (src : Nat) (skipme : Option Nat) :
    ∀ (l : List Nat) (st st' : State F) (pnq pnq' : prop_notify_queue F),
      relink_subs src skipme l st pnq = .ok (st', pnq') → StoreOk E st →
      (∀ s ∈ l, s < st.nsubs) → src < st.nnodes →
      StoreOk E st' ∧ st'.nnodes = st.nnodes ∧ Grown st st' := by
  intro l
  induction l with
  | nil => intro st st' pnq pnq' h hok _ _; cases h; exact ⟨hok, rfl, Grown.g_refl _⟩
  | cons s rest ih =>
    intro st st' pnq pnq' h hok hl hsrc
    unfold relink_subs at h
    split at h
    · cases h
    · next st1 pnq1 h1 =>
      obtain ⟨o1, n1, g1⟩ := storeOk_of_relink_one h1 hok (hl s (List.mem_cons_self _ _)) hsrc
      obtain ⟨o2, n2, g2⟩ := ih _ _ _ _ h o1
        (fun t ht => by rw [g1.nsubs]; exact hl t (List.mem_cons_of_mem _ ht))
        (by rw [n1]; exact hsrc)
      exact ⟨o2, n2.trans n1, g1.g_trans g2⟩

theorem storeOk_of_relink_childs {E : Nat → Prop}
    (recur : State F → Nat → Nat → prop_notify_queue F →
      Except Fault (State F × prop_notify_queue F))
    (hrec : ∀ st z c q st' q', recur st z c q = .ok (st', q') → StoreOk E st →
      z < st.nnodes → StoreOk E st' ∧ Grown st st')
    (src dst : Nat) (skipme no_descend : Option Nat) :
    ∀ (fuel : Nat) (st st' : State F) (c : Option Nat) (pnq pnq' : prop_notify_queue F),
      relink_childs recur src dst skipme no_descend fuel st c pnq = .ok (st', pnq') →
      StoreOk E st → src < st.nnodes →
      StoreOk E st' ∧ Grown st st' := by
  intro fuel
  induction fuel with
  | zero => intro st st' c pnq pnq' h; cases c <;> cases h
  | succ fuel ih =>
    intro st st' c pnq pnq' h hok hsrc
    cases c with
    | none => unfold relink_childs at h; cases h; exact ⟨hok, Grown.g_refl _⟩
    | some c =>
      unfold relink_childs at h
      dsimp only at h
      split at h
      · cases h
      · next st1 pnq1 hb =>
        have b1 : StoreOk E st1 ∧ Grown st st1 := by
          split at hb
          · cases hb; exact ⟨hok, Grown.g_refl _⟩
          · next name _ =>
            split at hb
            · cases hb; exact ⟨hok, Grown.g_refl _⟩
            · split at hb
              · cases hb
              · next st2 z hc =>
                obtain ⟨o2, g2, z2⟩ := storeOk_of_create0 hc hok hsrc
                split at hb
                · cases hb
                · next st3 hm =>
                  have t3 : Tame st2 st3 ∧ Shrink st2 st3 := by
                    split at hm
                    · exact ⟨tame_of_make_dir hm, shrink_of_make_dir hm⟩
                    · cases hm; exact ⟨Tame.t_refl _, Shrink.sh_refl _⟩
                  have o3 := o2.ok_of_tame t3.2 t3.1
                  obtain ⟨o4, g4⟩ := hrec _ _ _ _ _ _ hb o3 (by rw [t3.1.nnodes]; exact z2)
                  exact ⟨o4, (g2.g_trans (Grown.g_of_tame t3.1)).g_trans g4⟩
        obtain ⟨o1, g1⟩ := b1
        obtain ⟨o2, g2⟩ := ih _ _ _ _ _ h o1 (lt_of_lt_of_le hsrc g1.nnodes)
        exact ⟨o2, g1.g_trans g2⟩

theorem storeOk_of_relink_subscriptions [CFloat F] {E : Nat → Prop} :
    ∀ (fuel : Nat) (st st' : State F) (src dst : Nat) (skipme : Option Nat)
      (pnq pnq' : prop_notify_queue F) (no_descend : Option Nat),
      relink_subscriptions fuel st src dst skipme pnq no_descend = .ok (st', pnq') →
      StoreOk E st → src < st.nnodes →
      StoreOk E st' ∧ Grown st st' := by
  intro fuel
  induction fuel with
  | zero => intro st st' src dst skipme pnq pnq' nd h; cases h
  | succ fuel ih =>
    intro st st' src0 dst skipme pnq pnq' nd h hok hsrc0
    unfold relink_subscriptions at h
    split at h
    · cases h
    · next src hf =>
      have hsrc : src < st.nnodes := follow_originators_alloc _ _ _ _ hok hsrc0 hf
      split at h
      · cases h
      · next st1 pnq1 hs =>
        obtain ⟨o1, n1, g1⟩ := storeOk_of_relink_subs src skipme _ _ _ _ _ hs hok
          (fun s hs => (hok.canonical_back dst s hs).2.1) hsrc
        split at h
        · obtain ⟨o2, g2⟩ := storeOk_of_relink_childs
            (fun s z c q => relink_subscriptions fuel s z c skipme q none)
            (fun s z c q s' q' hr hs hz => ih s s' z c skipme q q' none hr hs hz)
            _ _ _ _ _ _ _ _ _ _ h o1 (by rw [n1]; exact hsrc)
          exact ⟨o2, g1.g_trans g2⟩
        · cases h; exact ⟨o1, g1⟩

theorem storeOk_of_relink_targets [CFloat F] {E : Nat → Prop} (fuel : Nat) (dst : Nat)
    (skipme no_descend : Option Nat) :
    ∀ (l : List Nat) (st st' : State F),
      relink_targets fuel dst skipme no_descend l st = .ok st' → StoreOk E st →
      dst < st.nnodes → StoreOk E st' ∧ Grown st st' := by
  intro l
  induction l with
  | nil => intro st st' h hok _; cases h; exact ⟨hok, Grown.g_refl _⟩
  | cons t rest ih =>
    intro st st' h hok hd
    unfold relink_targets at h
    split at h
    · cases h
    · next st1 pnq1 h1 =>
      obtain ⟨o1, g1⟩ := storeOk_of_relink_subscriptions _ _ _ _ _ _ _ _ _ h1 hok hd
      obtain ⟨o2, g2⟩ := ih _ _ h o1 (lt_of_lt_of_le hd g1.nnodes)
      exact ⟨o2, g1.g_trans g2⟩

theorem storeOk_of_link_parents [CFloat F] {E : Nat → Prop} (fuel0 : Nat)
    (skipme : Option Nat) :
    ∀ (fuel : Nat) (st st' : State F) (dst : Nat) (no_descend : Option Nat),
      link_parents fuel0 skipme fuel st dst no_descend = .ok st' → StoreOk E st →
      StoreOk E st' ∧ Grown st st' := by
  intro fuel
  induction fuel with
  | zero => intro st st' dst nd h; cases h
  | succ fuel ih =>
    intro st st' dst nd h hok
    unfold link_parents at h
    split at h
    · cases h; exact ⟨hok, Grown.g_refl _⟩
    · next d hd =>
      split at h
      · cases h
      · next st1 h1 =>
        obtain ⟨o1, g1⟩ := storeOk_of_relink_targets _ _ _ _ _ _ _ h1 hok
          (hok.parents dst d hd)
        obtain ⟨o2, g2⟩ := ih _ _ _ _ h o1
        exact ⟨o2, g1.g_trans g2⟩

theorem storeOk_of_unlink_parents [CFloat F] {E : Nat → Prop} (fuel0 : Nat)
    (skipme : Option Nat) :
    ∀ (fuel : Nat) (st st' : State F) (p : Nat),
      unlink_parents fuel0 skipme fuel st p = .ok st' → StoreOk E st →
      StoreOk E st' ∧ Grown st st' := by
  intro fuel
  induction fuel with
  | zero => intro st st' p h; cases h
  | succ fuel ih =>
    intro st st' p h hok
    unfold unlink_parents at h
    split at h
    · cases h; exact ⟨hok, Grown.g_refl _⟩
    · next d hd =>
      split at h
      · cases h
      · next st1 h1 =>
        obtain ⟨o1, g1⟩ := storeOk_of_relink_targets _ _ _ _ _ _ _ h1 hok
          (hok.parents p d hd)
        obtain ⟨o2, g2⟩ := ih _ _ _ h o1
        exact ⟨o2, g1.g_trans g2⟩

/-- The invariant after an assignment to one node that changes its links only, when the
  clauses about links hold of the new state. -/
theorem StoreOk.relinked_node {E E' : Nat → Prop} {st : State F} (h : StoreOk E st) (x : Nat)
    (nd : prop_t F) (hname : nd.hp_name = (st.nodes x).hp_name) (hu : nd.u = (st.nodes x).u)
    (hv : nd.hp_value_subscriptions = (st.nodes x).hp_value_subscriptions)
    (hc : nd.hp_canonical_subscriptions = (st.nodes x).hp_canonical_subscriptions)
    (hf : nd.hp_flags = (st.nodes x).hp_flags) (hp : nd.hp_parent = (st.nodes x).hp_parent)
    (lc : ∀ p o, ((st.setNode x nd).nodes p).hp_originator = some o → ¬ E' p →
      ((st.setNode x nd).nodes o).hp_targets.count p = 1)
    (lb : ∀ o, ∀ t ∈ ((st.setNode x nd).nodes o).hp_targets,
      ((st.setNode x nd).nodes t).hp_originator = some o ∧ ¬ E' t ∧ o < st.nnodes ∧
        t < st.nnodes)
    (la : ∀ p o, ((st.setNode x nd).nodes p).hp_originator = some o → o < st.nnodes) :
    StoreOk E' (st.setNode x nd) := by
  have hsh : Shrink st (st.setNode x nd) :=
    Shrink.sh_setNode st x nd (Or.inl hname) (by
      unfold prop_t.hp_childs; rw [hu])
  have hnode : ∀ q, ((st.setNode x nd).nodes q).hp_value_subscriptions =
        (st.nodes q).hp_value_subscriptions ∧
      ((st.setNode x nd).nodes q).hp_canonical_subscriptions =
        (st.nodes q).hp_canonical_subscriptions ∧
      ((st.setNode x nd).nodes q).hp_flags = (st.nodes q).hp_flags ∧
      ((st.setNode x nd).nodes q).hp_parent = (st.nodes q).hp_parent ∧
      ((st.setNode x nd).nodes q).hp_type = (st.nodes q).hp_type := by
    intro q
    by_cases e : q = x
    · subst e
      simp only [setNode_nodes, if_true]
      exact ⟨hv, hc, hf, hp, by unfold prop_t.hp_type; rw [hu]⟩
    · simp [e]
  constructor
  case names => exact h.names.shrink hsh
  case above => exact h.above.ka_shrink hsh
  case parents =>
    intro p d hpd
    rw [(hnode p).2.2.2.1] at hpd
    exact h.parents p d hpd
  case link_count => exact lc
  case link_back => exact lb
  case link_alloc => exact la
  case value_count =>
    intro s v hsv
    rw [(hnode v).1]
    exact h.value_count s v hsv
  case value_back =>
    intro v s hm
    rw [(hnode v).1] at hm
    exact h.value_back v s hm
  case canonical_count =>
    intro s v hsv
    rw [(hnode v).2.1]
    exact h.canonical_count s v hsv
  case canonical_back =>
    intro v s hm
    rw [(hnode v).2.1] at hm
    exact h.canonical_back v s hm
  case monitored =>
    intro p hpl hz
    rw [(hnode p).2.2.2.2] at hz
    rw [(hnode p).2.2.1, (hnode p).2.1]
    exact h.monitored p hpl hz
  case multi_sub =>
    intro p hpl hz
    rw [(hnode p).2.2.2.2] at hz
    rw [(hnode p).2.2.1, (hnode p).2.1]
    exact h.multi_sub p hpl hz

/-- The macro LIST_REMOVE of prop_remove_from_originator: p leaves the target list of its
  originator and dangles. -/
theorem StoreOk.unlist {E : Nat → Prop} {st : State F} (h : StoreOk E st) (p o : Nat)
    (hpo : (st.nodes p).hp_originator = some o) (hm : p ∈ (st.nodes o).hp_targets) :
    StoreOk (fun q => E q ∨ q = p)
      (st.setNode o { st.nodes o with hp_targets := (st.nodes o).hp_targets.erase p }) := by
  have hEp : ¬ E p := (h.link_back o p hm).2.1
  have hcp := h.link_count p o hpo hEp
  have horig : ∀ q, ((st.setNode o { st.nodes o with
      hp_targets := (st.nodes o).hp_targets.erase p }).nodes q).hp_originator =
      (st.nodes q).hp_originator := by
    intro q; by_cases e : q = o
    · subst e; simp
    · simp [e]
  have hmem : ∀ o' t, t ∈ ((st.setNode o { st.nodes o with
      hp_targets := (st.nodes o).hp_targets.erase p }).nodes o').hp_targets →
      t ∈ (st.nodes o').hp_targets ∧ t ≠ p := by
    intro o' t ht
    by_cases e : o' = o
    · subst e
      simp only [setNode_nodes, if_true] at ht
      refine ⟨List.mem_of_mem_erase ht, ?_⟩
      intro e
      subst e
      have : (st.nodes o').hp_targets.count t - 1 = 0 := by rw [hcp]
      rw [← List.count_erase_self] at this
      exact (List.count_eq_zero.mp this) ht
    · simp only [setNode_nodes, if_neg e] at ht
      refine ⟨ht, ?_⟩
      intro e'
      subst e'
      have := (h.link_back o' t ht).1
      rw [hpo] at this
      cases this
      exact e rfl
  refine h.relinked_node o _ rfl rfl rfl rfl rfl rfl ?_ ?_ ?_
  · intro q o' hq hE
    rw [horig] at hq
    have hqp : q ≠ p := fun e => hE (Or.inr e)
    have := h.link_count q o' hq (fun e => hE (Or.inl e))
    by_cases e : o' = o
    · subst e
      simp only [setNode_nodes, if_true]
      rw [List.count_erase_of_ne hqp]
      exact this
    · simp only [setNode_nodes, if_neg e]
      exact this
  · intro o' t ht
    obtain ⟨ht', hne⟩ := hmem o' t ht
    obtain ⟨h1, h2, h3, h4⟩ := h.link_back o' t ht'
    rw [horig]
    exact ⟨h1, fun e => e.elim h2 hne, h3, h4⟩
  · intro q o' hq
    rw [horig] at hq
    exact h.link_alloc q o' hq

/-- The end of prop_remove_from_originator: the originator of the dangling node p is
  cleared. -/
theorem StoreOk.clear_originator {E : Nat → Prop} {st : State F} (p : Nat)
    (h : StoreOk (fun q => E q ∨ q = p) st) :
    StoreOk E (st.setNode p { st.nodes p with hp_originator := none }) := by
  have htg : ∀ q, ((st.setNode p { st.nodes p with hp_originator := none }).nodes q).hp_targets =
      (st.nodes q).hp_targets := by
    intro q; by_cases e : q = p
    · subst e; simp
    · simp [e]
  have horig : ∀ q o, ((st.setNode p { st.nodes p with
      hp_originator := none }).nodes q).hp_originator = some o →
      q ≠ p ∧ (st.nodes q).hp_originator = some o := by
    intro q o hq
    by_cases e : q = p
    · subst e; simp at hq
    · simp only [setNode_nodes, if_neg e] at hq
      exact ⟨e, hq⟩
  refine h.relinked_node p _ rfl rfl rfl rfl rfl rfl ?_ ?_ ?_
  · intro q o hq hE
    obtain ⟨hne, hq'⟩ := horig q o hq
    rw [htg]
    exact h.link_count q o hq' (fun e => e.elim hE hne)
  · intro o t ht
    rw [htg] at ht
    obtain ⟨h1, h2, h3, h4⟩ := h.link_back o t ht
    have hne : t ≠ p := fun e => h2 (Or.inr e)
    simp only [setNode_nodes, if_neg hne]
    exact ⟨h1, fun e => h2 (Or.inl e), h3, h4⟩
  · intro q o hq
    exact h.link_alloc q o (horig q o hq).2

/-- The assignment `dst->hp_originator = src` of prop_link0: dst dangles until it is put
  on the target list of src. -/
theorem StoreOk.set_originator {E : Nat → Prop} {st : State F} (h : StoreOk E st)
    (src dst : Nat) (hd : (st.nodes dst).hp_originator = none) (hs : src < st.nnodes) :
    StoreOk (fun q => E q ∨ q = dst)
      (st.setNode dst { st.nodes dst with hp_originator := some src }) := by
  have htg : ∀ q, ((st.setNode dst { st.nodes dst with
      hp_originator := some src }).nodes q).hp_targets = (st.nodes q).hp_targets := by
    intro q; by_cases e : q = dst
    · subst e; simp
    · simp [e]
  refine h.relinked_node dst _ rfl rfl rfl rfl rfl rfl ?_ ?_ ?_
  · intro q o hq hE
    have hne : q ≠ dst := fun e => hE (Or.inr e)
    simp only [setNode_nodes, if_neg hne] at hq
    rw [htg]
    exact h.link_count q o hq (fun e => hE (Or.inl e))
  · intro o t ht
    rw [htg] at ht
    obtain ⟨h1, h2, h3, h4⟩ := h.link_back o t ht
    have hne : t ≠ dst := by
      intro e; subst e; rw [hd] at h1; cases h1
    simp only [setNode_nodes, if_neg hne]
    exact ⟨h1, fun e => e.elim h2 hne, h3, h4⟩
  · intro q o hq
    by_cases e : q = dst
    · subst e
      simp at hq
      subst hq
      exact hs
    · simp only [setNode_nodes, if_neg e] at hq
      exact h.link_alloc q o hq

/-- The macro LIST_INSERT_HEAD of prop_link0: the dangling node p joins the target list of
  its originator. -/
theorem StoreOk.enlist {E : Nat → Prop} {st : State F} (p o : Nat)
    (h : StoreOk (fun q => E q ∨ q = p) st) (hpo : (st.nodes p).hp_originator = some o)
    (hE : ¬ E p) (hp : p < st.nnodes) :
    StoreOk E (st.setNode o { st.nodes o with hp_targets := p :: (st.nodes o).hp_targets }) := by
  have horig : ∀ q, ((st.setNode o { st.nodes o with
      hp_targets := p :: (st.nodes o).hp_targets }).nodes q).hp_originator =
      (st.nodes q).hp_originator := by
    intro q; by_cases e : q = o
    · subst e; simp
    · simp [e]
  have hnot : ∀ o', p ∉ (st.nodes o').hp_targets :=
    fun o' hm => (h.link_back o' p hm).2.1 (Or.inr rfl)
  refine h.relinked_node o _ rfl rfl rfl rfl rfl rfl ?_ ?_ ?_
  · intro q o' hq hEq
    rw [horig] at hq
    by_cases e : q = p
    · subst e
      rw [hpo] at hq
      cases hq
      simp only [setNode_nodes, if_true]
      rw [List.count_cons_self, List.count_eq_zero_of_not_mem (hnot _)]
    · have := h.link_count q o' hq (fun e' => e'.elim hEq e)
      by_cases e' : o' = o
      · subst e'
        simp only [setNode_nodes, if_true]
        rw [List.count_cons_of_ne e]
        exact this
      · simp only [setNode_nodes, if_neg e']
        exact this
  · intro o' t ht
    rw [horig]
    have hcase : t ∈ (st.nodes o').hp_targets ∨ (o' = o ∧ t = p) := by
      by_cases e : o' = o
      · subst e
        simp only [setNode_nodes, if_true] at ht
        rcases List.mem_cons.mp ht with e' | hm
        · exact Or.inr ⟨rfl, e'⟩
        · exact Or.inl hm
      · simp only [setNode_nodes, if_neg e] at ht
        exact Or.inl ht
    rcases hcase with hm | ⟨e1, e2⟩
    · obtain ⟨h1, h2, h3, h4⟩ := h.link_back o' t hm
      exact ⟨h1, fun e => h2 (Or.inl e), h3, h4⟩
    · subst e1 e2
      exact ⟨hpo, hE, h.link_alloc _ _ hpo, hp⟩
  · intro q o' hq
    rw [horig] at hq
    exact h.link_alloc q o' hq

theorem storeOk_of_remove_from_originator {E : Nat → Prop}
    (destroy : State F → Nat → Except Fault (State F × Bool))
    (hd : ∀ (E' : Nat → Prop) st q st' b, destroy st q = .ok (st', b) → StoreOk E' st →
      q < st.nnodes → StoreOk E' st' ∧ st.nnodes ≤ st'.nnodes ∧ st'.nsubs = st.nsubs)
    {st st' : State F} {p : Nat}
    (h : prop_remove_from_originator destroy st p = .ok st') (hok : StoreOk E st) :
    StoreOk E st' ∧ st.nnodes ≤ st'.nnodes ∧ st'.nsubs = st.nsubs ∧
      (st'.nodes p).hp_originator = none ∧ p < st.nnodes := by
  unfold prop_remove_from_originator at h
  split at h
  · cases h
  · next o ho =>
    split at h
    · cases h
    · next l hl =>
      dsimp only at h
      have hmem : p ∈ (st.nodes o).hp_targets ∧ l = (st.nodes o).hp_targets.erase p := by
        unfold tailq_remove at hl
        split at hl
        · next hm => cases hl; exact ⟨hm, rfl⟩
        · cases hl
      obtain ⟨hm, hle⟩ := hmem
      subst hle
      obtain ⟨_, _, hoa, hpa⟩ := hok.link_back o p hm
      have o1 := hok.unlist p o ho hm
      split at h
      · cases h
      · next st2 hr =>
        cases h
        have o2 : StoreOk (fun q => E q ∨ q = p) st2 ∧
            (st.setNode o { st.nodes o with
              hp_targets := (st.nodes o).hp_targets.erase p }).nnodes ≤ st2.nnodes ∧
            st2.nsubs = st.nsubs := by
          split at hr
          · split at hr
            · cases hr
            · next st3 b hd3 =>
              cases hr
              exact hd _ _ _ _ _ hd3 o1 hoa
          · cases hr; exact ⟨o1, le_refl _, rfl⟩
        exact ⟨StoreOk.clear_originator p o2.1, o2.2.1, o2.2.2, by simp, hpa⟩

theorem storeOk_of_unlink0 [CFloat F] {E : Nat → Prop}
    (destroy : State F → Nat → Except Fault (State F × Bool))
    (hd : ∀ (E' : Nat → Prop) st q st' b, destroy st q = .ok (st', b) → StoreOk E' st →
      q < st.nnodes → StoreOk E' st' ∧ st.nnodes ≤ st'.nnodes ∧ st'.nsubs = st.nsubs)
    {fuel : Nat} {st st' : State F} {p : Nat} {skipme : Option Nat}
    {pnq pnq' : prop_notify_queue F}
    (h : prop_unlink0 destroy fuel st p skipme pnq = .ok (st', pnq')) (hok : StoreOk E st) :
    StoreOk E st' ∧ st.nnodes ≤ st'.nnodes ∧ st'.nsubs = st.nsubs ∧
      (st'.nodes p).hp_originator = none ∧ p < st.nnodes := by
  unfold prop_unlink0 at h
  split at h
  · cases h
  · next st1 hr =>
    obtain ⟨o1, n1, ns1, ho1, hp1⟩ := storeOk_of_remove_from_originator destroy hd hr hok
    obtain ⟨o2, g2⟩ := storeOk_of_relink_subscriptions _ _ _ _ _ _ _ _ _ h o1
      (lt_of_lt_of_le hp1 n1)
    exact ⟨o2, le_trans n1 g2.nnodes, g2.nsubs.trans ns1,
      (g2.originator p (lt_of_lt_of_le hp1 n1)).trans ho1, hp1⟩

theorem tailq_next_mem : ∀ (l : List Nat) (c x : Nat), tailq_next l c = some x → x ∈ l := by
  intro l
  induction l with
  | nil => intro c x h; cases h
  | cons a rest ih =>
    intro c x h
    unfold tailq_next at h
    split at h
    · exact List.mem_cons_of_mem _ (List.mem_of_mem_head? h)
    · exact List.mem_cons_of_mem _ (ih c x h)

/-- The invariant after the subscription s has left the value list of its value node v and
  has no value node. -/
theorem storeOk_value_detached {E : Nat → Prop} {st : State F} (h : StoreOk E st) (s v : Nat)
    (hsv : (st.subs s).hps_value_prop = some v) :
    StoreOk E ((st.setNode v { st.nodes v with
      hp_value_subscriptions := (st.nodes v).hp_value_subscriptions.erase s }).setSub s
      { st.subs s with hps_value_prop := none }) := by
  have hmem := mem_of_count_one (h.value_count s v hsv)
  have hs : s < st.nsubs := (h.value_back v s hmem).2.1
  have hsh : Shrink st ((st.setNode v { st.nodes v with
      hp_value_subscriptions := (st.nodes v).hp_value_subscriptions.erase s }).setSub s
      { st.subs s with hps_value_prop := none }) :=
    (Shrink.sh_setNode st v _ (Or.inl (by rfl)) (by exact List.Subperm.refl _)).sh_trans
      (Shrink.sh_setSub _ _ _)
  refine h.rewired s hs (h.names.shrink hsh) (h.above.ka_shrink hsh) rfl rfl ?_ ?_ ?_ ?_ ?_ ?_ ?_
    ?_ ?_ ?_ ?_ ?_ ?_ ?_ ?_ ?_
  · intro q; by_cases e : q = v
    · subst e; simp
    · simp [e]
  · intro q; by_cases e : q = v
    · subst e; simp
    · simp [e]
  · intro q hz; by_cases e : q = v
    · subst e; simpa [prop_t.hp_type] using hz
    · simpa [e] using hz
  · intro q; by_cases e : q = v
    · subst e; simp
    · simp [e]
  · intro t ht; simp [ht]
  · intro t ht; simp [ht]
  · intro t; by_cases e : t = s <;> simp [e]
  · intro q hq
    have : q ≠ v := by
      intro e; subst e
      have := hq.mp hsv
      simp at this
    simp [this]
  · intro q hq _
    rw [hsv] at hq
    cases hq
    simp
  · intro q hq; simp at hq
  · intro q hq; simp at hq
  · intro q _; by_cases e : q = v
    · subst e; simp
    · simp [e]
  · intro q hq hq'; exfalso; apply hq'; simpa using hq
  · intro q hq hq'; exfalso; apply hq'; simpa using hq
  · intro q hq
    simp at hq
    exact h.canonical_back q s (mem_of_count_one (h.canonical_count s q hq)) |>.2.2
  · intro q hq; exfalso; apply hq; simp

/-- The invariant after the subscription s has left the canonical list of the zombie c and
  has no canonical node. -/
theorem storeOk_canonical_detached {E : Nat → Prop} {st : State F} (h : StoreOk E st)
    (s c : Nat) (hsc : (st.subs s).hps_canonical_prop = some c)
    (hz : (st.nodes c).hp_type = .PROP_ZOMBIE) :
    StoreOk E ((st.setNode c { st.nodes c with
      hp_canonical_subscriptions := (st.nodes c).hp_canonical_subscriptions.erase s }).setSub s
      { st.subs s with hps_canonical_prop := none }) := by
  have hmem := mem_of_count_one (h.canonical_count s c hsc)
  have hs : s < st.nsubs := (h.canonical_back c s hmem).2.1
  have hsh : Shrink st ((st.setNode c { st.nodes c with
      hp_canonical_subscriptions := (st.nodes c).hp_canonical_subscriptions.erase s }).setSub s
      { st.subs s with hps_canonical_prop := none }) :=
    (Shrink.sh_setNode st c _ (Or.inl (by rfl)) (by exact List.Subperm.refl _)).sh_trans
      (Shrink.sh_setSub _ _ _)
  refine h.rewired s hs (h.names.shrink hsh) (h.above.ka_shrink hsh) rfl rfl ?_ ?_ ?_ ?_ ?_ ?_ ?_
    ?_ ?_ ?_ ?_ ?_ ?_ ?_ ?_ ?_
  · intro q; by_cases e : q = c
    · subst e; simp
    · simp [e]
  · intro q; by_cases e : q = c
    · subst e; simp
    · simp [e]
  · intro q hz; by_cases e : q = c
    · subst e; simpa [prop_t.hp_type] using hz
    · simpa [e] using hz
  · intro q; by_cases e : q = c
    · subst e; simp
    · simp [e]
  · intro t ht; simp [ht]
  · intro t ht; simp [ht]
  · intro t; by_cases e : t = s <;> simp [e]
  · intro q _; by_cases e : q = c
    · subst e; simp
    · simp [e]
  · intro q hq hq'; exfalso; apply hq'; simpa using hq
  · intro q hq hq'; exfalso; apply hq'; simpa using hq
  · intro q hq
    simp at hq
    exact h.value_back q s (mem_of_count_one (h.value_count s q hq)) |>.2.2
  · intro q hq
    have : q ≠ c := by
      intro e; subst e
      have := hq.mp hsc
      simp at this
    simp [this]
  · intro q hq _
    rw [hsc] at hq
    cases hq
    simp
  · intro q hq; simp at hq
  · intro q hq; simp at hq
  · intro q hq _ hnz
    exfalso
    by_cases e : q = c
    · subst e; exact hnz hz
    · apply hq
      simp
      intro e'
      rw [hsc] at e'
      cases e'
      exact e rfl

theorem storeOk_of_destroy_child {E : Nat → Prop}
    (destroy : State F → Nat → Except Fault (State F × Bool))
    (hd : ∀ (E' : Nat → Prop) st q st' b, destroy st q = .ok (st', b) → StoreOk E' st →
      q < st.nnodes → StoreOk E' st' ∧ st.nnodes ≤ st'.nnodes ∧ st'.nsubs = st.nsubs)
    {st st' : State F} {p c : Nat}
    (h : prop_destroy_child destroy st p c = .ok st') (hok : StoreOk E st)
    (hc : c < st.nnodes) :
    StoreOk E st' ∧ st.nnodes ≤ st'.nnodes ∧ st'.nsubs = st.nsubs := by
  unfold prop_destroy_child at h
  split at h
  · cases h
  · next st1 hd1 => cases h; exact hd _ _ _ _ _ hd1 hok hc
  · next st1 hd1 =>
    obtain ⟨o1, n1, ns1⟩ := hd _ _ _ _ _ hd1 hok hc
    split at h
    · cases h
    · next st2 hn2 =>
      have s2 := sameTree_of_prop_notify_child _ _ _ _ _ _ _ hn2
      have o2 := o1.ok_of_sameTree s2
      split at h
      · cases h
      · next cs hcs =>
        cases h
        have t3 : Tame st2 ((st2.setChilds p cs).setNode c
            { (st2.setChilds p cs).nodes c with hp_parent := none }) :=
          (Tame.t_setChilds st2 p cs).t_trans
            (Tame.t_setNode _ c _ ⟨rfl, rfl, rfl, rfl, rfl, rfl, fun hz => hz, Or.inr rfl⟩)
        have s3 : Shrink st2 ((st2.setChilds p cs).setNode c
            { (st2.setChilds p cs).nodes c with hp_parent := none }) :=
          (Shrink.sh_setChilds st2 p cs (tailq_remove_subperm hcs)).sh_trans
            (Shrink.sh_setNode _ c _ (Or.inl (by rfl)) (by exact List.Subperm.refl _))
        exact ⟨o2.ok_of_tame s3 t3, by rw [t3.nnodes, s2.1]; exact n1,
          by rw [t3.nsubs, s2.2.1]; exact ns1⟩

theorem storeOk_of_destroy_childs_loop {E : Nat → Prop}
    (destroy : State F → Nat → Except Fault (State F × Bool))
    (hd : ∀ (E' : Nat → Prop) st q st' b, destroy st q = .ok (st', b) → StoreOk E' st →
      q < st.nnodes → StoreOk E' st' ∧ st.nnodes ≤ st'.nnodes ∧ st'.nsubs = st.nsubs)
    (p : Nat) :
    ∀ (fuel : Nat) (st st' : State F) (c : Option Nat),
      destroy_childs_loop destroy p fuel st c = .ok st' → StoreOk E st →
      (∀ q, c = some q → q < st.nnodes) →
      StoreOk E st' ∧ st.nnodes ≤ st'.nnodes ∧ st'.nsubs = st.nsubs := by
  intro fuel
  induction fuel with
  | zero => intro st st' c h; cases c <;> cases h
  | succ fuel ih =>
    intro st st' c h hok hc
    cases c with
    | none => unfold destroy_childs_loop at h; cases h; exact ⟨hok, le_refl _, rfl⟩
    | some c =>
      unfold destroy_childs_loop at h
      dsimp only at h
      split at h
      · cases h
      · next st1 h1 =>
        obtain ⟨o1, n1, ns1⟩ := storeOk_of_destroy_child destroy hd h1 hok (hc c rfl)
        obtain ⟨o2, n2, ns2⟩ := ih _ _ _ h o1 (fun q hq =>
          lt_of_lt_of_le (hok.names.2 p q (tailq_next_mem _ _ _ hq)) n1)
        exact ⟨o2, le_trans n1 n2, ns2.trans ns1⟩

theorem storeOk_of_destroy_canonical_subs {E : Nat → Prop} (p : Nat) :
    ∀ (l : List Nat) (st st' : State F),
      destroy_canonical_subs p l st = .ok st' → StoreOk E st →
      (st.nodes p).hp_canonical_subscriptions = l → (st.nodes p).hp_type = .PROP_ZOMBIE →
      StoreOk E st' ∧ st'.nnodes = st.nnodes ∧ st'.nsubs = st.nsubs := by
  intro l
  induction l with
  | nil => intro st st' h hok _ _; cases h; exact ⟨hok, rfl, rfl⟩
  | cons s rest ih =>
    intro st st' h hok hl hz
    unfold destroy_canonical_subs at h
    dsimp only at h
    have hsc : (st.subs s).hps_canonical_prop = some p :=
      (hok.canonical_back p s (by rw [hl]; exact List.mem_cons_self _ _)).1
    have o2 : StoreOk E ((st.setNode p { st.nodes p with
        hp_canonical_subscriptions := rest }).setSub
        s { (st.setNode p { st.nodes p with hp_canonical_subscriptions := rest }).subs s with
          hps_canonical_prop := none }) := by
      have := storeOk_canonical_detached hok s p hsc hz
      rw [hl, List.erase_cons_head] at this
      exact this
    have hl2 : (((st.setNode p { st.nodes p with
        hp_canonical_subscriptions := rest }).setSub
        s { (st.setNode p { st.nodes p with hp_canonical_subscriptions := rest }).subs s with
          hps_canonical_prop := none }).nodes p).hp_canonical_subscriptions = rest := by simp
    have hz2 : (((st.setNode p { st.nodes p with
        hp_canonical_subscriptions := rest }).setSub
        s { (st.setNode p { st.nodes p with hp_canonical_subscriptions := rest }).subs s with
          hps_canonical_prop := none }).nodes p).hp_type = .PROP_ZOMBIE := by
      simpa [prop_t.hp_type] using hz
    split at h
    · split at h
      · cases h
      · next st3 h3 =>
        have s3 := sameTree_of_notify_destroyed h3
        obtain ⟨o4, n4, ns4⟩ := ih _ _ h (o2.ok_of_sameTree s3)
          (by rw [s3.hp_canonical_subscriptions]; exact hl2)
          (by rw [s3.hp_type]; exact hz2)
        exact ⟨o4, n4.trans s3.1, ns4.trans s3.2.1⟩
    · obtain ⟨o4, n4, ns4⟩ := ih _ _ h o2 hl2 hz2
      exact ⟨o4, n4, ns4⟩

theorem storeOk_of_destroy_value_subs {E : Nat → Prop} (p : Nat) :
    ∀ (l : List Nat) (st st' : State F),
      destroy_value_subs p l st = .ok st' → StoreOk E st →
      (st.nodes p).hp_value_subscriptions = l →
      StoreOk E st' ∧ st'.nnodes = st.nnodes ∧ st'.nsubs = st.nsubs := by
  intro l
  induction l with
  | nil => intro st st' h hok _; cases h; exact ⟨hok, rfl, rfl⟩
  | cons s rest ih =>
    intro st st' h hok hl
    unfold destroy_value_subs at h
    split at h
    · cases h
    · next st1 h1 =>
      dsimp only at h
      have s1 := sameTree_of_notify_void h1
      have o1 := hok.ok_of_sameTree s1
      have hl1 : (st1.nodes p).hp_value_subscriptions = s :: rest := by
        rw [s1.hp_value_subscriptions]; exact hl
      have hsv : (st1.subs s).hps_value_prop = some p :=
        (o1.value_back p s (by rw [hl1]; exact List.mem_cons_self _ _)).1
      have o2 : StoreOk E ((st1.setNode p { st1.nodes p with
          hp_value_subscriptions := rest }).setSub
          s { (st1.setNode p { st1.nodes p with hp_value_subscriptions := rest }).subs s with
            hps_value_prop := none }) := by
        have := storeOk_value_detached o1 s p hsv
        rw [hl1, List.erase_cons_head] at this
        exact this
      obtain ⟨o3, n3, ns3⟩ := ih _ _ h o2 (by simp)
      exact ⟨o3, n3.trans s1.1, ns3.trans s1.2.1⟩

theorem storeOk_of_destroy_targets {E : Nat → Prop}
    (unlink : State F → Nat → Except Fault (State F))
    (hu : ∀ st c st', unlink st c = .ok st' → StoreOk E st →
      StoreOk E st' ∧ st.nnodes ≤ st'.nnodes ∧ st'.nsubs = st.nsubs) (p : Nat) :
    ∀ (fuel : Nat) (st st' : State F),
      destroy_targets unlink p fuel st = .ok st' → StoreOk E st →
      StoreOk E st' ∧ st.nnodes ≤ st'.nnodes ∧ st'.nsubs = st.nsubs := by
  intro fuel
  induction fuel with
  | zero => intro st st' h; cases h
  | succ fuel ih =>
    intro st st' h hok
    unfold destroy_targets at h
    split at h
    · cases h; exact ⟨hok, le_refl _, rfl⟩
    · split at h
      · cases h
      · next st1 h1 =>
        obtain ⟨o1, n1, ns1⟩ := hu _ _ _ h1 hok
        obtain ⟨o2, n2, ns2⟩ := ih _ _ h o1
        exact ⟨o2, le_trans n1 n2, ns2.trans ns1⟩

/-- The function prop_destroy0 keeps the invariant of the links and subscription lists,
  whatever nodes dangle when it is called. -/
theorem storeOk_of_destroy0 [CFloat F] :
    ∀ (fuel : Nat) (E : Nat → Prop) (st : State F) (p : Nat) (st' : State F) (b : Bool),
      prop_destroy0 fuel st p = .ok (st', b) → StoreOk E st → p < st.nnodes →
      StoreOk E st' ∧ st.nnodes ≤ st'.nnodes ∧ st'.nsubs = st.nsubs := by
  intro fuel
  induction fuel with
  | zero => intro E st p st' b h; cases h
  | succ fuel ih =>
    intro E st p st' b h hok hpa
    have hd : ∀ (E' : Nat → Prop) (s : State F) (q : Nat) (s' : State F) (b : Bool),
        (fun s q => prop_destroy0 fuel s q) s q = .ok (s', b) → StoreOk E' s →
        q < s.nnodes → StoreOk E' s' ∧ s.nnodes ≤ s'.nnodes ∧ s'.nsubs = s.nsubs :=
      fun E' s q s' b hq hs hql => ih E' s q s' b hq hs hql
    unfold prop_destroy0 at h
    split at h
    · cases h; exact ⟨hok, le_refl _, rfl⟩
    · dsimp only at h
      have o1 : StoreOk E (st.setNode p
          { st.nodes p with hp_xref := ((st.nodes p).hp_xref - 1) % 256 }) :=
        hok.ok_of_tame
          (Shrink.sh_setNode st p _ (Or.inl (by rfl)) (by exact List.Subperm.refl _))
          (Tame.t_setNode st p _ ⟨rfl, rfl, rfl, rfl, rfl, rfl, fun hz => hz, Or.inl rfl⟩)
      have n1 : (st.setNode p
          { st.nodes p with hp_xref := ((st.nodes p).hp_xref - 1) % 256 }).nnodes = st.nnodes ∧
          (st.setNode p
          { st.nodes p with hp_xref := ((st.nodes p).hp_xref - 1) % 256 }).nsubs = st.nsubs :=
        ⟨rfl, rfl⟩
      generalize st.setNode p { st.nodes p with hp_xref := ((st.nodes p).hp_xref - 1) % 256 } = st1
        at h o1 n1
      split at h
      · cases h; exact ⟨o1, le_of_eq n1.1.symm, n1.2⟩
      · split at h
        · cases h
        · next st2 h2 =>
          obtain ⟨o2, n2, ns2⟩ := storeOk_of_destroy_childs_loop _ hd p _ _ _ _ h2 o1
            (fun q hq => o1.names.2 p q (List.mem_of_mem_head? hq))
          have o3 : StoreOk E (st2.setU p .PROP_ZOMBIE) :=
            o2.ok_of_tame (Shrink.sh_setU st2 p _ (by simp [prop_t.hp_childs]))
              (Tame.t_setU st2 p _ (fun _ => rfl))
          have hz3 : ((st2.setU p .PROP_ZOMBIE).nodes p).hp_type = .PROP_ZOMBIE := by
            simp [prop_t.hp_type, prop_value.hp_type]
          have n3 : (st2.setU p .PROP_ZOMBIE).nnodes = st2.nnodes ∧
              (st2.setU p .PROP_ZOMBIE).nsubs = st2.nsubs := ⟨rfl, rfl⟩
          generalize st2.setU p .PROP_ZOMBIE = st3 at h o3 hz3 n3
          split at h
          · cases h
          · next st4 h4 =>
            obtain ⟨o4, n4, ns4⟩ := storeOk_of_destroy_canonical_subs p _ _ _ h4 o3 rfl hz3
            split at h
            · cases h
            · next st5 h5 =>
              obtain ⟨o5, n5, ns5⟩ := storeOk_of_destroy_value_subs p _ _ _ h5 o4 rfl
              split at h
              · cases h
              · next st6 h6 =>
                have o6 : StoreOk E st6 ∧ st5.nnodes ≤ st6.nnodes ∧ st6.nsubs = st5.nsubs := by
                  refine storeOk_of_destroy_targets _ ?_ p _ _ _ h6 o5
                  intro s c s' hs hns
                  split at hs
                  · cases hs
                  · next s1 q1 hu =>
                    cases hs
                    obtain ⟨a1, a2, a3, _, _⟩ := storeOk_of_unlink0 _ hd hu hns
                    exact ⟨a1, a2, a3⟩
                obtain ⟨o6, n6, ns6⟩ := o6
                split at h
                · cases h
                · next st7 h7 =>
                  have o7 : StoreOk E st7 ∧ st6.nnodes ≤ st7.nnodes ∧ st7.nsubs = st6.nsubs := by
                    split at h7
                    · obtain ⟨a1, a2, a3, _, _⟩ :=
                        storeOk_of_remove_from_originator _ hd h7 o6
                      exact ⟨a1, a2, a3⟩
                    · cases h7; exact ⟨o6, le_refl _, rfl⟩
                  obtain ⟨o7, n7, ns7⟩ := o7
                  split at h
                  · cases h
                  · next st8 h8 =>
                    have t8 := tame_of_destroy_unparent h8
                    have o8 := o7.ok_of_tame (shrink_of_destroy_unparent h8) t8
                    have o9 : StoreOk E (st8.setNode p { st8.nodes p with hp_name := none }) :=
                      o8.ok_of_tame
                        (Shrink.sh_setNode st8 p _ (Or.inr (by rfl))
                          (by exact List.Subperm.refl _))
                        (Tame.t_setNode st8 p _
                          ⟨rfl, rfl, rfl, rfl, rfl, rfl, fun hz => hz, Or.inl rfl⟩)
                    split at h
                    · cases h
                    · next st10 h10 =>
                      cases h
                      have s10 := sameTree_of_ref_dec_locked h10
                      refine ⟨o9.ok_of_sameTree s10, ?_, ?_⟩
                      · rw [s10.1]
                        show st.nnodes ≤ st8.nnodes
                        rw [t8.nnodes]
                        refine le_trans ?_ n7
                        refine le_trans ?_ n6
                        rw [n5, n4, n3.1]
                        rw [← n1.1]
                        exact n2
                      · rw [s10.2.1]
                        show st8.nsubs = st.nsubs
                        rw [t8.nsubs, ns7, ns6, ns5, ns4, n3.2, ns2, n1.2]

theorem storeOk_of_destroy [CFloat F] {E : Nat → Prop} {fuel : Nat} {st st' : State F}
    {p : Option Nat} (h : prop_destroy fuel st p = .ok st') (hok : StoreOk E st)
    (hp : ∀ q, p = some q → q < st.nnodes) : StoreOk E st' := by
  unfold prop_destroy at h
  split at h
  · cases h; exact hok
  · next q =>
    split at h
    · cases h
    · next st1 b h1 =>
      cases h
      exact (storeOk_of_destroy0 _ _ _ _ _ _ h1 hok (hp q rfl)).1

theorem tame_of_notify_free {st st' : State F} {n : prop_notify_t F}
    (h : prop_notify_free st n = .ok st') : Tame st st' := by
  unfold prop_notify_free at h
  dsimp only at h
  split at h
  · cases h
  · next st1 hr =>
    cases h
    refine Tame.t_trans ?_ (Tame.t_setSub _ _ _ rfl rfl rfl)
    split at hr
    all_goals first
      | exact Tame.t_of_sameTree (sameTree_of_ref_dec_locked hr)
      | (cases hr; exact Tame.t_refl _)
      | skip
    all_goals
      split at hr
      · cases hr
      · next st2 h2 =>
        exact Tame.t_of_sameTree
          ((sameTree_of_ref_dec_locked h2).st_trans (sameTree_of_ref_dec_locked hr))

theorem tame_of_link_flush :
    ∀ (l : List (prop_notify_t F)) (st st' : State F),
      link_flush l st = .ok st' → Tame st st' := by
  intro l
  induction l with
  | nil => intro st st' h; cases h; exact Tame.t_refl _
  | cons n rest ih =>
    intro st st' h
    unfold link_flush at h
    dsimp only at h
    split at h
    · exact ((Tame.t_setSub st _ _ (by rfl) (by rfl) (by rfl)).t_trans
        (Tame.t_of_sameTree (sameTree_courier_enqueue _ _ _))).t_trans (ih _ _ h)
    · split at h
      · cases h
      · next st1 h1 => exact (tame_of_notify_free h1).t_trans (ih _ _ h)

theorem link_follow_alloc {E : Nat → Prop} (dst : Nat) :
    ∀ (fuel : Nat) (st : State F) (p r : Nat),
      StoreOk E st → p < st.nnodes → link_follow dst fuel st p = .ok r → r < st.nnodes := by
  intro fuel
  induction fuel with
  | zero => intro st p r _ _ h; cases h
  | succ fuel ih =>
    intro st p r hok hp h
    unfold link_follow at h
    split at h
    · cases h; exact hp
    · next o ho =>
      split at h
      · cases h
      · exact ih st o r hok (hok.link_alloc p o ho) h

/-- The function prop_link0 between allocated nodes keeps the invariant of the links and
  subscription lists. -/
theorem storeOk_of_link0 [CFloat F] {fuel : Nat} {st st' : State F} {src dst : Nat}
    {skipme : Option Nat} {hard : prop_link_hard}
    (h : prop_link0 fuel st src dst skipme hard = .ok st') (hok : StoreOk (fun _ => False) st)
    (hsrc : src < st.nnodes) (hdst : dst < st.nnodes) : StoreOk (fun _ => False) st' := by
  have hd : ∀ (E' : Nat → Prop) (s : State F) (q : Nat) (s' : State F) (b : Bool),
      (fun s q => prop_destroy0 fuel s q) s q = .ok (s', b) → StoreOk E' s →
      q < s.nnodes → StoreOk E' s' ∧ s.nnodes ≤ s'.nnodes ∧ s'.nsubs = s.nsubs :=
    fun E' s q s' b hq hs hql => storeOk_of_destroy0 fuel E' s q s' b hq hs hql
  unfold prop_link0 at h
  split at h
  · cases h
  · split at h
    · cases h; exact hok
    · dsimp only at h
      split at h
      · cases h
      · next st1 pnq hu =>
        have o1 : StoreOk (fun _ => False) st1 ∧ st.nnodes ≤ st1.nnodes ∧
            (st1.nodes dst).hp_originator = none := by
          split at hu
          · obtain ⟨a1, a2, _, a4, _⟩ := storeOk_of_unlink0 _ hd hu hok
            exact ⟨a1, a2, a4⟩
          · next hnone =>
            cases hu
            exact ⟨hok, le_refl _, by simpa using hnone⟩
        obtain ⟨o1, n1, hor1⟩ := o1
        split at h
        · cases h
        · next st3 ha =>
          have o3 : StoreOk (fun _ => False) st3 ∧ st3.nnodes = st1.nnodes ∧
              (st3.nodes dst).hp_originator = none := by
            split at ha
            · split at ha
              · cases ha
                have t2 : Tame st1 (st1.setNode dst { st1.nodes dst with
                    hp_flags := { (st1.nodes dst).hp_flags with
                      PROP_XREFED_ORIGINATOR := true } }) :=
                  Tame.t_setNode st1 dst _
                    ⟨rfl, rfl, rfl, rfl, rfl, rfl, fun hz => hz, Or.inl rfl⟩
                have t3 := t2.t_trans (Tame.t_setNode _ src
                  { (st1.setNode dst { st1.nodes dst with
                    hp_flags := { (st1.nodes dst).hp_flags with
                      PROP_XREFED_ORIGINATOR := true } }).nodes src with
                    hp_xref := ((st1.setNode dst { st1.nodes dst with
                    hp_flags := { (st1.nodes dst).hp_flags with
                      PROP_XREFED_ORIGINATOR := true } }).nodes src).hp_xref + 1 }
                  ⟨rfl, rfl, rfl, rfl, rfl, rfl, fun hz => hz, Or.inl rfl⟩)
                refine ⟨o1.ok_of_tame ?_ t3, t3.nnodes, (t3.originator dst).trans hor1⟩
                exact (Shrink.sh_setNode st1 dst _ (Or.inl (by rfl))
                  (by exact List.Subperm.refl _)).sh_trans
                  (Shrink.sh_setNode _ src _ (Or.inl (by rfl)) (by exact List.Subperm.refl _))
              · cases ha
            · cases ha; exact ⟨o1, rfl, hor1⟩
          obtain ⟨o3, n3, hor3⟩ := o3
          have hs3 : src < st3.nnodes := by rw [n3]; exact lt_of_lt_of_le hsrc n1
          have hd3 : dst < st3.nnodes := by rw [n3]; exact lt_of_lt_of_le hdst n1
          have o4 := o3.set_originator src dst hor3 hs3
          have o5 : StoreOk (fun _ => False)
              ((st3.setNode dst { st3.nodes dst with hp_originator := some src }).setNode
              src { (st3.setNode dst { st3.nodes dst with hp_originator := some src }).nodes src with
                hp_targets := dst ::
                  ((st3.setNode dst { st3.nodes dst with hp_originator := some src }).nodes
                    src).hp_targets }) :=
            StoreOk.enlist dst src o4 (by simp) (fun e => e) hd3
          have n5 : ((st3.setNode dst { st3.nodes dst with hp_originator := some src }).setNode
              src { (st3.setNode dst { st3.nodes dst with hp_originator := some src }).nodes src with
                hp_targets := dst ::
                  ((st3.setNode dst { st3.nodes dst with hp_originator := some src }).nodes
                    src).hp_targets }).nnodes = st3.nnodes := rfl
          generalize (st3.setNode dst { st3.nodes dst with hp_originator := some src }).setNode
              src { (st3.setNode dst { st3.nodes dst with hp_originator := some src }).nodes src with
                hp_targets := dst ::
                  ((st3.setNode dst { st3.nodes dst with hp_originator := some src }).nodes
                    src).hp_targets } = st5 at h o5 n5
          split at h
          · cases h
          · next src1 hf =>
            have hs1 : src1 < st5.nnodes :=
              link_follow_alloc dst _ _ _ _ o5 (by rw [n5]; exact hs3) hf
            split at h
            · cases h
            · next st6 q6 h6 =>
              obtain ⟨o6, g6⟩ := storeOk_of_relink_subscriptions _ _ _ _ _ _ _ _ _ h6 o5 hs1
              split at h
              · cases h
              · next st7 h7 =>
                obtain ⟨o7, g7⟩ := storeOk_of_link_parents _ _ _ _ _ _ _ h7 o6
                exact o7.ok_of_tame (shrink_of_link_flush _ _ _ h) (tame_of_link_flush _ _ _ h)

/-- The function prop_unlink_ex keeps the invariant of the links and subscription lists. -/
theorem storeOk_of_unlink_ex [CFloat F] {fuel : Nat} {st st' : State F} {p skipme : Option Nat}
    (h : prop_unlink_ex fuel st p skipme = .ok st') (hok : StoreOk (fun _ => False) st) :
    StoreOk (fun _ => False) st' := by
  have hd : ∀ (E' : Nat → Prop) (s : State F) (q : Nat) (s' : State F) (b : Bool),
      (fun s q => prop_destroy0 fuel s q) s q = .ok (s', b) → StoreOk E' s →
      q < s.nnodes → StoreOk E' s' ∧ s.nnodes ≤ s'.nnodes ∧ s'.nsubs = s.nsubs :=
    fun E' s q s' b hq hs hql => storeOk_of_destroy0 fuel E' s q s' b hq hs hql
  unfold prop_unlink_ex at h
  split at h
  · cases h; exact hok
  · next p =>
    split at h
    · cases h; exact hok
    · dsimp only at h
      split at h
      · cases h
      · next st1 hu =>
        refine (storeOk_of_unlink_parents _ _ _ _ _ _ h ?_).1
        split at hu
        · split at hu
          · cases hu
          · next s1 q1 hu1 => cases hu; exact (storeOk_of_unlink0 _ hd hu1 hok).1
        · cases hu; exact hok

/-- Two states with the same subscriptions whose nodes are the same but for one node, which
  is the same in what the invariant reads. -/
theorem Tame.of_node {A B : State F} (c : Nat) (hn : B.nnodes = A.nnodes)
    (hs : B.nsubs = A.nsubs) (hsub : B.subs = A.subs)
    (hq : ∀ q, q ≠ c → B.nodes q = A.nodes q) (hc : (A.nodes c).tame (B.nodes c)) :
    Tame A B := by
  obtain ⟨h1, h2, h3, h4, h5, h6, h7, h8⟩ := hc
  constructor
  case nnodes => exact hn
  case nsubs => exact hs
  case value_prop => intro s; rw [hsub]
  case canonical_prop => intro s; rw [hsub]
  case flags => intro s; rw [hsub]
  case zombie =>
    intro q
    by_cases e : q = c
    · subst e; exact h7
    · rw [hq q e]; exact fun h => h
  case parent =>
    intro q
    by_cases e : q = c
    · subst e; exact h8
    · rw [hq q e]; exact Or.inl rfl
  all_goals
    intro q
    by_cases e : q = c
    · subst e; assumption
    · rw [hq q e]

theorem Tame.cons_value {A B : State F} (h : Tame A B) (s : Nat) (v : Option Nat) :
    Tame (attach_value A s v) (attach_value B s v) := by
  cases v with
  | none => exact h
  | some v =>
    unfold attach_value
    constructor
    case nnodes => exact h.nnodes
    case nsubs => exact h.nsubs
    case value_prop => exact h.value_prop
    case canonical_prop => exact h.canonical_prop
    case flags => exact h.flags
    case originator => intro q; by_cases e : q = v <;> simp [e, h.originator]
    case targets => intro q; by_cases e : q = v <;> simp [e, h.targets]
    case value => intro q; by_cases e : q = v <;> simp [e, h.value]
    case canonical => intro q; by_cases e : q = v <;> simp [e, h.canonical]
    case monitored => intro q; by_cases e : q = v <;> simp [e, h.monitored]
    case multi_sub => intro q; by_cases e : q = v <;> simp [e, h.multi_sub]
    case zombie =>
      intro q
      by_cases e : q = v
      · subst e; simpa [prop_t.hp_type] using h.zombie q
      · simpa [e] using h.zombie q
    case parent =>
      intro q
      by_cases e : q = v
      · subst e; simpa using h.parent q
      · simpa [e] using h.parent q

theorem tame_of_flood_flag_on_childs {st st' : State F} {p : Nat} {set clr : PropFlags}
    (s1 : set.PROP_MONITORED = false) (s2 : set.PROP_MULTI_SUB = false)
    (c1 : clr.PROP_MONITORED = false) (c2 : clr.PROP_MULTI_SUB = false)
    (h : prop_flood_flag_on_childs st p set clr = .ok st') : Tame st st' := by
  unfold prop_flood_flag_on_childs at h
  exact foldlM_tame _ (fun a c r hr => tame_of_flood_flag _ a r c set clr s1 s2 c1 c2 hr) _ _ _ h

theorem tame_of_set_multi {st st' : State F} {p : Nat} (h : prop_set_multi st p = .ok st') :
    Tame (st.setNode p { st.nodes p with
      hp_flags := { (st.nodes p).hp_flags with PROP_MULTI_SUB := true } }) st' := by
  unfold prop_set_multi at h
  split at h
  · next hf =>
    cases h
    refine Tame.of_node p rfl rfl rfl (fun q hq => by simp [hq]) ?_
    simp only [setNode_nodes, if_true]
    exact ⟨rfl, rfl, rfl, rfl, rfl, hf, fun h => h, Or.inl rfl⟩
  · dsimp only at h
    split at h
    · exact tame_of_flood_flag_on_childs rfl rfl rfl rfl h
    · cases h; exact Tame.t_refl _

theorem tame_of_clr_multi {st st' : State F} {p : Nat} (h : prop_clr_multi st p = .ok st') :
    Tame (st.setNode p { st.nodes p with
      hp_flags := { (st.nodes p).hp_flags with PROP_MULTI_SUB := false } }) st' := by
  unfold prop_clr_multi at h
  dsimp only at h
  split at h
  · exact tame_of_flood_flag_on_childs rfl rfl rfl rfl h
  · cases h; exact Tame.t_refl _

theorem shrink_of_clr_multi {st st' : State F} {p : Nat} (h : prop_clr_multi st p = .ok st') :
    Shrink st st' := by
  unfold prop_clr_multi at h
  dsimp only at h
  have h1 : Shrink st (st.setNode p { st.nodes p with
      hp_flags := { (st.nodes p).hp_flags with PROP_MULTI_SUB := false } }) :=
    Shrink.sh_setNode st p _ (Or.inl rfl) (List.Subperm.refl _)
  split at h
  · exact h1.sh_trans (shrink_of_flood_flag_on_childs h)
  · cases h; exact h1

theorem PropFlags.eta_monitored (f : PropFlags) (x : Bool)
    (h : f.PROP_MONITORED = (f.PROP_MONITORED || x)) :
    f = { f with PROP_MONITORED := f.PROP_MONITORED || x } := by
  cases f
  simp_all

/-- The part of prop_subscribe for the canonical node does to what the invariant reads what
  `attach_canonical` does. -/
theorem tame_of_subscribe_canonical {st st' : State F} {s : Nat} {canonical : Option Nat}
    {b : Bool} (h : subscribe_canonical st s canonical = .ok (st', b)) :
    Tame (attach_canonical st s canonical) st' := by
  unfold subscribe_canonical at h
  split at h
  · cases h; exact Tame.t_refl _
  · next c =>
    dsimp only at h
    unfold attach_canonical
    dsimp only
    have a1 : (st.setNode c { st.nodes c with
          hp_canonical_subscriptions := s :: (st.nodes c).hp_canonical_subscriptions }).nnodes =
          st.nnodes ∧
        (st.setNode c { st.nodes c with
          hp_canonical_subscriptions := s :: (st.nodes c).hp_canonical_subscriptions }).nsubs =
          st.nsubs ∧
        (st.setNode c { st.nodes c with
          hp_canonical_subscriptions := s :: (st.nodes c).hp_canonical_subscriptions }).subs =
          st.subs ∧
        (∀ q, q ≠ c → (st.setNode c { st.nodes c with
          hp_canonical_subscriptions := s :: (st.nodes c).hp_canonical_subscriptions }).nodes q =
          st.nodes q) ∧
        (st.setNode c { st.nodes c with
          hp_canonical_subscriptions := s :: (st.nodes c).hp_canonical_subscriptions }).nodes c =
          { st.nodes c with
            hp_canonical_subscriptions := s :: (st.nodes c).hp_canonical_subscriptions } :=
      ⟨rfl, rfl, rfl, fun q hq => by simp [hq], by simp⟩
    generalize st.setNode c { st.nodes c with
        hp_canonical_subscriptions := s :: (st.nodes c).hp_canonical_subscriptions } = st1
      at h a1
    obtain ⟨n1, ns1, sb1, q1, c1⟩ := a1
    have a2 : ∀ st2 : State F, st2 = (if ((st1.subs s).hps_flags.PROP_SUB_SUBSCRIPTION_MONITOR
          && !(st1.nodes c).hp_flags.PROP_MONITORED) = true then
        st1.setNode c { st1.nodes c with
          hp_flags := { (st1.nodes c).hp_flags with PROP_MONITORED := true } } else st1) →
        st2.nnodes = st.nnodes ∧ st2.nsubs = st.nsubs ∧ st2.subs = st.subs ∧
        (∀ q, q ≠ c → st2.nodes q = st.nodes q) ∧
        st2.nodes c = { st.nodes c with
          hp_canonical_subscriptions := s :: (st.nodes c).hp_canonical_subscriptions
          hp_flags := { (st.nodes c).hp_flags with
            PROP_MONITORED := (st.nodes c).hp_flags.PROP_MONITORED
              || (st.subs s).hps_flags.PROP_SUB_SUBSCRIPTION_MONITOR } } := by
      intro st2 e
      subst e
      split
      · next hmon =>
        refine ⟨n1, ns1, sb1, fun q hq => by simp [hq, q1 q hq], ?_⟩
        rw [sb1, c1] at hmon
        simp at hmon
        simp [c1, hmon]
      · next hmon =>
        refine ⟨n1, ns1, sb1, q1, ?_⟩
        rw [sb1, c1] at hmon
        rw [c1]
        have e := PropFlags.eta_monitored (st.nodes c).hp_flags
          (st.subs s).hps_flags.PROP_SUB_SUBSCRIPTION_MONITOR (by
            cases hM : (st.nodes c).hp_flags.PROP_MONITORED <;>
              cases hF : (st.subs s).hps_flags.PROP_SUB_SUBSCRIPTION_MONITOR <;> simp_all)
        simp only [prop_t.mk.injEq, true_and, and_true]
        exact e
    have a2' := a2 _ rfl
    generalize (if ((st1.subs s).hps_flags.PROP_SUB_SUBSCRIPTION_MONITOR
          && !(st1.nodes c).hp_flags.PROP_MONITORED) = true then
        st1.setNode c { st1.nodes c with
          hp_flags := { (st1.nodes c).hp_flags with PROP_MONITORED := true } } else st1) = st2
      at h a2'
    obtain ⟨n2, ns2, sb2, q2, c2⟩ := a2'
    split at h
    · next hmulti =>
      split at h
      · cases h
      · next st3 hm =>
        cases h
        refine Tame.t_trans ?_ (tame_of_set_multi hm)
        refine Tame.of_node c n2 ns2 sb2 (fun q hq => by simp [hq, q2 q hq]) ?_
        simp only [setNode_nodes, if_true]
        rw [sb2] at hmulti
        rw [c2]
        refine ⟨rfl, rfl, rfl, rfl, rfl, ?_, fun h => h, Or.inl rfl⟩
        simp [hmulti]
    · next hmulti =>
      cases h
      refine Tame.of_node c n2 ns2 sb2 (fun q hq => by simp [hq, q2 q hq]) ?_
      simp only [setNode_nodes, if_true]
      rw [sb2] at hmulti
      rw [c2]
      refine ⟨rfl, rfl, rfl, rfl, rfl, ?_, fun h => h, Or.inl rfl⟩
      simp at hmulti
      simp [hmulti]

/-- The part of prop_subscribe for the value node does to what the invariant reads what
  `attach_value` does. -/
theorem tame_of_subscribe_value {st st' : State F} {s : Nat} {value : Option Nat}
    {direct notify_now : Bool} (h : subscribe_value st s value direct notify_now = .ok st') :
    Tame (attach_value st s value) st' := by
  unfold subscribe_value at h
  split at h
  · cases h; exact Tame.t_refl _
  · next v =>
    dsimp only at h
    unfold attach_value
    dsimp only
    generalize st.setNode v { st.nodes v with
        hp_value_subscriptions := s :: (st.nodes v).hp_value_subscriptions } = st1 at h
    split at h
    · cases h
    · next st3 hu =>
      have h3 : SameTree st1 st3 := by
        split at hu
        · split at hu
          · cases hu
          · next st2 pq hb =>
            have hb' := sameTree_of_build_notify_value hb
            split at hu
            · split at hu
              · exact hb'.st_trans (sameTree_of_build_notify_childv hu)
              · exact hb'.st_trans (sameTree_of_subscribe_add_childs _ _ _ _ _ _ hu)
            · cases hu; exact hb'
        · cases hu; exact SameTree.st_refl _
      split at h
      · exact Tame.t_of_sameTree (h3.st_trans (sameTree_of_monitor_active _ _ _ h))
      · cases h; exact Tame.t_of_sameTree h3

theorem attach_value_nodes (st : State F) (s : Nat) (v : Option Nat) (q : Nat) :
    (attach_value st s v).nodes q =
      if v = some q then { st.nodes q with
        hp_value_subscriptions := s :: (st.nodes q).hp_value_subscriptions }
      else st.nodes q := by
  cases v with
  | none => simp [attach_value]
  | some v =>
    by_cases e : q = v
    · subst e; simp [attach_value]
    · simp [attach_value, e, Ne.symm e]

theorem attach_canonical_nodes (st : State F) (s : Nat) (c : Option Nat) (q : Nat) :
    (attach_canonical st s c).nodes q =
      if c = some q then { st.nodes q with
        hp_canonical_subscriptions := s :: (st.nodes q).hp_canonical_subscriptions
        hp_flags := { (st.nodes q).hp_flags with
          PROP_MONITORED := (st.nodes q).hp_flags.PROP_MONITORED
            || (st.subs s).hps_flags.PROP_SUB_SUBSCRIPTION_MONITOR
          PROP_MULTI_SUB := (st.nodes q).hp_flags.PROP_MULTI_SUB
            || (st.subs s).hps_flags.PROP_SUB_MULTI } }
      else st.nodes q := by
  cases c with
  | none => simp [attach_canonical]
  | some c =>
    by_cases e : q = c
    · subst e; simp [attach_canonical]
    · simp [attach_canonical, e, Ne.symm e]

theorem attach_value_subs (st : State F) (s : Nat) (v : Option Nat) :
    (attach_value st s v).subs = st.subs := by
  cases v <;> rfl

theorem attach_canonical_subs (st : State F) (s : Nat) (c : Option Nat) :
    (attach_canonical st s c).subs = st.subs := by
  cases c <;> rfl

theorem attach_value_nnodes (st : State F) (s : Nat) (v : Option Nat) :
    (attach_value st s v).nnodes = st.nnodes := by
  cases v <;> rfl

theorem attach_canonical_nnodes (st : State F) (s : Nat) (c : Option Nat) :
    (attach_canonical st s c).nnodes = st.nnodes := by
  cases c <;> rfl

theorem attach_value_nsubs (st : State F) (s : Nat) (v : Option Nat) :
    (attach_value st s v).nsubs = st.nsubs := by
  cases v <;> rfl

theorem attach_canonical_nsubs (st : State F) (s : Nat) (c : Option Nat) :
    (attach_canonical st s c).nsubs = st.nsubs := by
  cases c <;> rfl

theorem shrink_attach_value (st : State F) (s : Nat) (v : Option Nat) :
    Shrink st (attach_value st s v) := by
  cases v with
  | none => exact Shrink.sh_refl _
  | some v => exact Shrink.sh_setNode st v _ (Or.inl rfl) (List.Subperm.refl _)

theorem shrink_attach_canonical (st : State F) (s : Nat) (c : Option Nat) :
    Shrink st (attach_canonical st s c) := by
  cases c with
  | none => exact Shrink.sh_refl _
  | some c => exact Shrink.sh_setNode st c _ (Or.inl rfl) (List.Subperm.refl _)

theorem storeOk_attached_aux {E : Nat → Prop} {stA : State F} (hA : StoreOk E stA)
    (s : Nat) (hsA : s < stA.nsubs) (sb : prop_sub_t) (st3 : State F)
    (hn3 : st3.nodes = stA.nodes)
    (hnn : st3.nnodes = stA.nnodes) (hns : st3.nsubs = stA.nsubs)
    (hsub : ∀ t, t ≠ s → st3.subs t = stA.subs t) (hs3 : st3.subs s = sb)
    (hfl : (stA.subs s).hps_flags = sb.hps_flags)
    (hcA : (stA.subs s).hps_canonical_prop = none)
    (hvA : (stA.subs s).hps_value_prop = none)
    (hc : ∀ c, sb.hps_canonical_prop = some c → c < stA.nnodes)
    (hv : ∀ v, sb.hps_value_prop = some v → v < stA.nnodes) :
    StoreOk E (attach_value (attach_canonical st3 s sb.hps_canonical_prop)
      s sb.hps_value_prop) := by
  have s1 : Shrink stA st3 := Shrink.of_nodes hn3 (le_of_eq hnn.symm)
  have s2 : Shrink st3 (attach_canonical st3 s sb.hps_canonical_prop) :=
    shrink_attach_canonical _ _ _
  have hsh := s1.sh_trans (s2.sh_trans (shrink_attach_value _ s sb.hps_value_prop))
  refine hA.rewired s hsA (hA.names.shrink hsh) (hA.above.ka_shrink hsh)
    ?_ ?_ ?_ ?_ ?_ ?_ ?_ ?_ ?_ ?_ ?_ ?_ ?_ ?_ ?_ ?_ ?_ ?_
  · rw [attach_value_nnodes, attach_canonical_nnodes]; exact hnn
  · rw [attach_value_nsubs, attach_canonical_nsubs]; exact hns
  · intro q
    rw [attach_value_nodes, attach_canonical_nodes, hn3]
    split <;> split <;> rfl
  · intro q
    rw [attach_value_nodes, attach_canonical_nodes, hn3]
    split <;> split <;> rfl
  · intro q hz
    rw [attach_value_nodes, attach_canonical_nodes, hn3]
    split <;> split <;> exact hz
  · intro q
    rw [attach_value_nodes, attach_canonical_nodes, hn3]
    split <;> split <;> exact Or.inl rfl
  · intro t ht
    rw [attach_value_subs, attach_canonical_subs, hsub t ht]
  · intro t ht
    rw [attach_value_subs, attach_canonical_subs, hsub t ht]
  · intro t
    rw [attach_value_subs, attach_canonical_subs]
    by_cases e : t = s
    · subst e; rw [hs3, hfl]
    · rw [hsub t e]
  · intro q hq
    rw [attach_value_subs, attach_canonical_subs, hs3, hvA] at hq
    simp at hq
    rw [attach_value_nodes, attach_canonical_nodes, hn3]
    rw [if_neg hq]
    split <;> rfl
  · intro q hq
    rw [hvA] at hq
    cases hq
  · intro q hq _
    rw [attach_value_subs, attach_canonical_subs, hs3] at hq
    rw [attach_value_nodes, attach_canonical_nodes, hn3]
    rw [if_pos hq]
    split <;> rfl
  · intro q hq
    rw [attach_value_subs, attach_canonical_subs, hs3] at hq
    exact hv q hq
  · intro q hq
    rw [attach_value_subs, attach_canonical_subs, hs3, hcA] at hq
    simp at hq
    rw [attach_value_nodes, attach_canonical_nodes, hn3]
    rw [if_neg hq]
    split <;> exact ⟨rfl, rfl, rfl⟩
  · intro q hq
    rw [hcA] at hq
    cases hq
  · intro q hq _
    rw [attach_value_subs, attach_canonical_subs, hs3] at hq
    rw [attach_value_nodes, attach_canonical_nodes, hn3]
    rw [if_pos hq]
    split <;> rfl
  · intro q hq
    rw [attach_value_subs, attach_canonical_subs, hs3] at hq
    exact hc q hq
  · intro q hq hql hqz
    rw [attach_value_subs, attach_canonical_subs, hs3, hcA] at hq
    simp at hq
    have hm := hA.monitored q hql hqz
    have hms := hA.multi_sub q hql hqz
    rw [attach_value_nodes, attach_canonical_nodes, hn3, hs3]
    rw [if_pos hq]
    have hX : ∀ (f : SubFlags → Bool) (b : Bool),
        (b = true ↔ ∃ t ∈ (stA.nodes q).hp_canonical_subscriptions,
          f (stA.subs t).hps_flags = true) →
        ((b || f sb.hps_flags) = true ↔
          ∃ t ∈ s :: (stA.nodes q).hp_canonical_subscriptions,
            f (stA.subs t).hps_flags = true) := by
      intro f b hb
      rw [Bool.or_eq_true, hb]
      constructor
      · rintro (⟨t, ht, hf⟩ | hf)
        · exact ⟨t, List.mem_cons_of_mem _ ht, hf⟩
        · exact ⟨s, List.mem_cons_self _ _, by rw [hfl]; exact hf⟩
      · rintro ⟨t, ht, hf⟩
        rcases List.mem_cons.mp ht with e | ht'
        · subst e
          right
          rw [hfl] at hf
          exact hf
        · exact Or.inl ⟨t, ht', hf⟩
    constructor
    · have := hX (fun f => f.PROP_SUB_SUBSCRIPTION_MONITOR) _ hm
      split <;> exact this
    · have := hX (fun f => f.PROP_SUB_MULTI) _ hms
      split <;> exact this

/-- The invariant after a new subscription has been allocated and put at the head of the
  lists of its referents, which are allocated nodes. -/
theorem storeOk_attached {E : Nat → Prop} {st1 : State F} (h : StoreOk E st1)
    (sb : prop_sub_t) (st3 : State F) (hn3 : st3.nodes = st1.nodes)
    (hnn : st3.nnodes = st1.nnodes) (hns : st3.nsubs = st1.nsubs + 1)
    (hsub : st3.subs = fun q => if q = st1.nsubs then sb else st1.subs q)
    (hc : ∀ c, sb.hps_canonical_prop = some c → c < st1.nnodes)
    (hv : ∀ v, sb.hps_value_prop = some v → v < st1.nnodes) :
    StoreOk E (attach_value (attach_canonical st3 st1.nsubs sb.hps_canonical_prop)
      st1.nsubs sb.hps_value_prop) := by
  have hA := h.alloc_sub { sb with hps_canonical_prop := none, hps_value_prop := none } rfl rfl
  refine storeOk_attached_aux hA st1.nsubs (Nat.lt_succ_self _) sb st3 hn3 hnn hns ?_ ?_ ?_ ?_ ?_
    hc hv
  · intro t ht
    rw [hsub]
    simp [ht]
  · rw [hsub]; simp
  · simp
  · simp
  · simp

theorem shrink_attach_value_back (st : State F) (s : Nat) (v : Option Nat) :
    Shrink (attach_value st s v) st := by
  cases v with
  | none => exact Shrink.sh_refl _
  | some v =>
    refine ⟨le_refl _, fun q => ?_⟩
    rw [attach_value_nodes]
    split
    · exact ⟨Or.inl rfl, List.Subperm.refl _⟩
    · exact ⟨Or.inl rfl, List.Subperm.refl _⟩

theorem shrink_attach_canonical_back (st : State F) (s : Nat) (c : Option Nat) :
    Shrink (attach_canonical st s c) st := by
  cases c with
  | none => exact Shrink.sh_refl _
  | some c =>
    refine ⟨le_refl _, fun q => ?_⟩
    rw [attach_canonical_nodes]
    split
    · exact ⟨Or.inl rfl, List.Subperm.refl _⟩
    · exact ⟨Or.inl rfl, List.Subperm.refl _⟩

theorem resolve_tree_alloc {st : State F} {n : String} {prl : List prop_root_t} {p : Nat}
    (h : prop_resolve_tree st n prl = .ok (some p))
    (hr : ∀ pr ∈ prl, pr.p < st.nnodes) (hg : ∀ g, st.prop_global = some g → g < st.nnodes) :
    p < st.nnodes := by
  unfold prop_resolve_tree at h
  split at h
  · split at h
    · cases h
    · next g hgl =>
      simp only [Except.ok.injEq] at h
      split at h
      · cases h
      · cases h; exact hg _ hgl
  · split at h
    · cases h
    · next pr hf =>
      simp only [Except.ok.injEq] at h
      split at h
      · cases h
      · cases h; exact hr pr (List.mem_of_find?_eq_some hf)

theorem storeOk_of_subscribe_resolve {E : Nat → Prop} {st st' : State F} {a : subscribe_args}
    {c v : Option Nat} (h : subscribe_resolve st a = .ok (st', c, v)) (hok : StoreOk E st)
    (hr : ∀ pr ∈ a.proproots, pr.p < st.nnodes)
    (hg : ∀ g, st.prop_global = some g → g < st.nnodes) :
    StoreOk E st' ∧ Grown st st' ∧ (∀ q, c = some q → q < st'.nnodes) ∧
      (∀ q, v = some q → q < st'.nnodes) := by
  unfold subscribe_resolve at h
  split at h
  · split at h
    · next pr hpr =>
      cases h
      have : pr.p < st.nnodes := hr pr (List.mem_of_mem_head? hpr)
      exact ⟨hok, Grown.g_refl _, (fun q hq => by cases hq; exact this),
        (fun q hq => by cases hq; exact this)⟩
    · cases h
      exact ⟨hok, Grown.g_refl _, (fun q hq => by cases hq), (fun q hq => by cases hq)⟩
  · cases h
  · next n0 name _ =>
    split at h
    · cases h
    · cases h
      exact ⟨hok, Grown.g_refl _, (fun q hq => by cases hq), (fun q hq => by cases hq)⟩
    · next p hp =>
      have hpa := resolve_tree_alloc hp hr hg
      cases h1 : prop_subfind st p name false false with
      | error e => simp [h1] at h
      | ok r1 =>
        obtain ⟨st1, canonical⟩ := r1
        simp only [h1] at h
        obtain ⟨o1, g1, c1⟩ := storeOk_of_subfind _ _ _ _ _ _ _ h1 hok hpa
        cases h2 : prop_subfind st1 p name true false with
        | error e => simp [h2] at h
        | ok r2 =>
          obtain ⟨st2, value⟩ := r2
          simp only [h2, Except.ok.injEq, Prod.mk.injEq] at h
          obtain ⟨e1, e2, e3⟩ := h
          subst e1 e2 e3
          obtain ⟨o2, g2, c2⟩ := storeOk_of_subfind _ _ _ _ _ _ _ h2 o1
            (lt_of_lt_of_le hpa g1.nnodes)
          exact ⟨o2, g1.g_trans g2, fun q hq => lt_of_lt_of_le (c1 q hq) g2.nnodes, c2⟩

theorem bind_live_some {st1 : State F} {o : Option Nat} {c : Nat}
    (h : (o.bind fun c =>
      if (st1.nodes c).hp_type = .PROP_ZOMBIE then none else some c) = some c) :
    o = some c := by
  cases o with
  | none => simp at h
  | some c0 =>
    by_cases hz : (st1.nodes c0).hp_type = .PROP_ZOMBIE
    · simp [hz] at h
    · simp [hz] at h
      rw [h]

/-- The function prop_subscribe keeps the invariant of the links and subscription lists when
  the roots it is given and the global root are allocated. -/
theorem storeOk_of_subscribe {E : Nat → Prop} {st st' : State F} {a : subscribe_args}
    {r : Option Nat} (h : prop_subscribe st a = .ok (st', r)) (hok : StoreOk E st)
    (hr : ∀ pr ∈ a.proproots, pr.p < st.nnodes)
    (hg : ∀ g, st.prop_global = some g → g < st.nnodes) : StoreOk E st' := by
  unfold prop_subscribe at h
  dsimp only at h
  split at h
  · cases h
  · next st1 canonical0 value0 hrs =>
    obtain ⟨o1, g1, hc0, hv0⟩ := storeOk_of_subscribe_resolve hrs hok hr hg
    split at h
    · cases h
    · cases h; exact o1
    · split at h
      · cases h
      · next st4 act hc =>
        have t4 := tame_of_subscribe_canonical hc
        have s4 := shrink_of_subscribe_canonical hc
        split at h
        · cases h
        · next st5 hv =>
          have t5 := tame_of_subscribe_value hv
          have s5 := shrink_of_subscribe_value hv
          have o5 : StoreOk E st5 :=
            StoreOk.ok_of_tame
              (((shrink_attach_value_back _ _ _).sh_trans
                (shrink_attach_canonical_back _ _ _)).sh_trans (s4.sh_trans s5))
              ((t4.cons_value _ _).t_trans t5)
              (storeOk_attached o1
                { hps_zombie := false
                  hps_flags := a.flags
                  hps_trampoline := a.trampoline
                  hps_callback := a.callback
                  hps_userptr := a.userptr
                  hps_refcount := 1
                  hps_user_int := a.user_int
                  hps_courier := a.courier.getD st1.global_courier
                  hps_canonical_prop := canonical0.bind fun c =>
                    if (st1.nodes c).hp_type = .PROP_ZOMBIE then none else some c
                  hps_value_prop := value0.bind fun v =>
                    if (st1.nodes v).hp_type = .PROP_ZOMBIE then none else some v }
                _ (by rfl) (by rfl) (by rfl) (by rfl)
                (fun c hcc => hc0 c (bind_live_some hcc))
                (fun v hvv => hv0 v (bind_live_some hvv)))
          split at h
          · cases h
          · next st6 ha =>
            have s6 : SameTree st5 st6 := by
              split at ha
              · split at ha
                · exact sameTree_of_monitor_active _ _ _ ha
                · cases ha; exact SameTree.st_refl _
              · cases ha; exact SameTree.st_refl _
            have o6 := o5.ok_of_sameTree s6
            split at h
            · split at h
              · cases h
                exact o6.ok_of_sameTree (sameTree_call_direct _ _)
              · split at h
                · cases h
                · next st7 hd =>
                  cases h
                  exact o6.ok_of_sameTree (sameTree_of_notify_destroyed hd)
            · cases h; exact o6

theorem detach_value_nodes (st : State F) (s : Nat) (q : Nat) :
    (detach_value st s).nodes q =
      if (st.subs s).hps_value_prop = some q then { st.nodes q with
        hp_value_subscriptions := (st.nodes q).hp_value_subscriptions.erase s }
      else st.nodes q := by
  unfold detach_value
  split
  · next hn => simp [hn]
  · next v hv =>
    by_cases e : q = v
    · subst e; simp [hv]
    · simp [hv, e, Ne.symm e]

theorem detach_canonical_nodes (st : State F) (s : Nat) (q : Nat) :
    (detach_canonical st s).nodes q =
      if (st.subs s).hps_canonical_prop = some q then { st.nodes q with
        hp_canonical_subscriptions := (st.nodes q).hp_canonical_subscriptions.erase s
        hp_flags := { (st.nodes q).hp_flags with
          PROP_MONITORED := (st.nodes q).hp_flags.PROP_MONITORED
            && !(((st.subs s).hps_flags.PROP_SUB_SUBSCRIPTION_MONITOR
                || (st.subs s).hps_flags.PROP_SUB_MULTI)
              && !(((st.nodes q).hp_canonical_subscriptions.erase s).any
                fun t => (st.subs t).hps_flags.PROP_SUB_SUBSCRIPTION_MONITOR))
          PROP_MULTI_SUB := (st.nodes q).hp_flags.PROP_MULTI_SUB
            && !(((st.subs s).hps_flags.PROP_SUB_SUBSCRIPTION_MONITOR
                || (st.subs s).hps_flags.PROP_SUB_MULTI)
              && !(((st.nodes q).hp_canonical_subscriptions.erase s).any
                fun t => (st.subs t).hps_flags.PROP_SUB_MULTI)) } }
      else st.nodes q := by
  unfold detach_canonical
  split
  · next hn => simp [hn]
  · next c hc =>
    by_cases e : q = c
    · subst e; simp [hc]
    · simp [hc, e, Ne.symm e]

theorem detach_value_subs (st : State F) (s : Nat) : (detach_value st s).subs = st.subs := by
  unfold detach_value
  split <;> rfl

theorem detach_canonical_subs (st : State F) (s : Nat) :
    (detach_canonical st s).subs = st.subs := by
  unfold detach_canonical
  split <;> rfl

theorem detach_value_nnodes (st : State F) (s : Nat) :
    (detach_value st s).nnodes = st.nnodes := by
  unfold detach_value
  split <;> rfl

theorem detach_canonical_nnodes (st : State F) (s : Nat) :
    (detach_canonical st s).nnodes = st.nnodes := by
  unfold detach_canonical
  split <;> rfl

theorem detach_value_nsubs (st : State F) (s : Nat) :
    (detach_value st s).nsubs = st.nsubs := by
  unfold detach_value
  split <;> rfl

theorem detach_canonical_nsubs (st : State F) (s : Nat) :
    (detach_canonical st s).nsubs = st.nsubs := by
  unfold detach_canonical
  split <;> rfl

theorem shrink_detach_value (st : State F) (s : Nat) : Shrink st (detach_value st s) := by
  unfold detach_value
  split
  · exact Shrink.sh_refl _
  · exact Shrink.sh_setNode st _ _ (Or.inl rfl) (List.Subperm.refl _)

theorem shrink_detach_canonical (st : State F) (s : Nat) :
    Shrink st (detach_canonical st s) := by
  unfold detach_canonical
  split
  · exact Shrink.sh_refl _
  · exact Shrink.sh_setNode st _ _ (Or.inl rfl) (List.Subperm.refl _)

theorem shrink_unsubscribed (st : State F) (s : Nat) : Shrink st (unsubscribed st s) :=
  ((shrink_detach_value st s).sh_trans (shrink_detach_canonical _ s)).sh_trans
    (Shrink.sh_setSub _ _ _)

theorem unsubscribed_nodes (st : State F) (s : Nat) (q : Nat) :
    (unsubscribed st s).nodes q = (detach_canonical (detach_value st s) s).nodes q := rfl

theorem mem_erase_flag {l : List Nat} {s : Nat} (f : Nat → Bool) (hs : f s = false) :
    (∃ t ∈ l.erase s, f t = true) ↔ ∃ t ∈ l, f t = true := by
  constructor
  · rintro ⟨t, ht, hf⟩
    exact ⟨t, List.mem_of_mem_erase ht, hf⟩
  · rintro ⟨t, ht, hf⟩
    have hne : t ≠ s := by
      intro e; subst e; rw [hs] at hf; cases hf
    exact ⟨t, (List.mem_erase_of_ne hne).mpr ht, hf⟩

/-- The invariant holds of the store `unsubscribed st s` when it holds of st and s is an
  allocated subscription. -/
theorem storeOk_unsubscribed {E : Nat → Prop} {st : State F} (h : StoreOk E st) (s : Nat)
    (hs : s < st.nsubs) : StoreOk E (unsubscribed st s) := by
  have hsh := shrink_unsubscribed st s
  have hsub : ∀ t, (unsubscribed st s).subs t =
      if t = s then
        { st.subs s with
          hps_zombie := true
          hps_value_prop := none
          hps_canonical_prop := none }
      else st.subs t := by
    intro t
    unfold unsubscribed
    rw [setSub_subs, detach_canonical_subs, detach_value_subs]
  have hnode : ∀ q, (unsubscribed st s).nodes q =
      (detach_canonical (detach_value st s) s).nodes q := fun q => rfl
  refine h.rewired s hs (h.names.shrink hsh) (h.above.ka_shrink hsh) ?_ ?_ ?_ ?_ ?_ ?_ ?_ ?_ ?_
    ?_ ?_ ?_ ?_ ?_ ?_ ?_ ?_ ?_
  · show (detach_canonical (detach_value st s) s).nnodes = st.nnodes
    rw [detach_canonical_nnodes, detach_value_nnodes]
  · show (detach_canonical (detach_value st s) s).nsubs = st.nsubs
    rw [detach_canonical_nsubs, detach_value_nsubs]
  · intro q
    rw [hnode, detach_canonical_nodes, detach_value_nodes]
    split <;> split <;> rfl
  · intro q
    rw [hnode, detach_canonical_nodes, detach_value_nodes]
    split <;> split <;> rfl
  · intro q hz
    rw [hnode, detach_canonical_nodes, detach_value_nodes]
    split <;> split <;> exact hz
  · intro q
    rw [hnode, detach_canonical_nodes, detach_value_nodes]
    split <;> split <;> exact Or.inl rfl
  · intro t ht
    rw [hsub, if_neg ht]
  · intro t ht
    rw [hsub, if_neg ht]
  · intro t
    rw [hsub]
    split
    · next e => subst e; rfl
    · rfl
  · intro q hq
    rw [hsub, if_pos rfl] at hq
    have hq' : (st.subs s).hps_value_prop ≠ some q := fun e => by
      have := hq.mp e
      cases this
    rw [hnode, detach_canonical_nodes, detach_value_nodes, detach_value_subs, if_neg hq']
    split <;> rfl
  · intro q hq _
    rw [hnode, detach_canonical_nodes, detach_value_nodes, detach_value_subs, if_pos hq]
    split <;> rfl
  · intro q hq
    rw [hsub, if_pos rfl] at hq
    cases hq
  · intro q hq
    rw [hsub, if_pos rfl] at hq
    cases hq
  · intro q hq
    rw [hsub, if_pos rfl] at hq
    have hq' : (st.subs s).hps_canonical_prop ≠ some q := fun e => by
      have := hq.mp e
      cases this
    rw [hnode, detach_canonical_nodes, detach_value_nodes, detach_value_subs, if_neg hq']
    split <;> exact ⟨rfl, rfl, rfl⟩
  · intro q hq _
    rw [hnode, detach_canonical_nodes, detach_value_nodes, detach_value_subs, if_pos hq]
    split <;> rfl
  · intro q hq
    rw [hsub, if_pos rfl] at hq
    cases hq
  · intro q hq
    rw [hsub, if_pos rfl] at hq
    cases hq
  · intro q hq hql hqz
    rw [hsub, if_pos rfl] at hq
    have hq' : (st.subs s).hps_canonical_prop = some q := by
      by_contra e
      exact hq ⟨fun e' => absurd e' e, fun e' => by cases e'⟩
    have hm := h.monitored q hql hqz
    have hms := h.multi_sub q hql hqz
    rw [hnode, detach_canonical_nodes, detach_value_subs, if_pos hq']
    have hcan : ((detach_value st s).nodes q).hp_canonical_subscriptions =
        (st.nodes q).hp_canonical_subscriptions := by
      rw [detach_value_nodes]; split <;> rfl
    have hfl : ((detach_value st s).nodes q).hp_flags = (st.nodes q).hp_flags := by
      rw [detach_value_nodes]; split <;> rfl
    simp only [hcan, hfl]
    have hX : ∀ (f : SubFlags → Bool) (b : Bool),
        (b = true ↔ ∃ t ∈ (st.nodes q).hp_canonical_subscriptions,
          f (st.subs t).hps_flags = true) →
        (f (st.subs s).hps_flags = true →
          ((st.subs s).hps_flags.PROP_SUB_SUBSCRIPTION_MONITOR
            || (st.subs s).hps_flags.PROP_SUB_MULTI) = true) →
        ((b && !(((st.subs s).hps_flags.PROP_SUB_SUBSCRIPTION_MONITOR
                || (st.subs s).hps_flags.PROP_SUB_MULTI)
              && !(((st.nodes q).hp_canonical_subscriptions.erase s).any
                fun t => f (st.subs t).hps_flags))) = true ↔
          ∃ t ∈ (st.nodes q).hp_canonical_subscriptions.erase s,
            f (st.subs t).hps_flags = true) := by
      intro f b hb hrec
      have hany : (((st.nodes q).hp_canonical_subscriptions.erase s).any
          fun t => f (st.subs t).hps_flags) = true ↔
          ∃ t ∈ (st.nodes q).hp_canonical_subscriptions.erase s,
            f (st.subs t).hps_flags = true := by
        rw [List.any_eq_true]
      constructor
      · intro hh
        simp only [Bool.and_eq_true, Bool.not_eq_true', Bool.and_eq_false_iff,
          Bool.not_eq_false'] at hh
        obtain ⟨hb1, hr⟩ := hh
        rcases hr with hr | hr
        · have hfs : f (st.subs s).hps_flags = false := by
            by_contra e
            have := hrec (by simpa using e)
            rw [hr] at this
            cases this
          exact (mem_erase_flag (fun t => f (st.subs t).hps_flags) hfs).mpr (hb.mp hb1)
        · exact hany.mp hr
      · rintro ⟨t, ht, hf⟩
        have hb1 : b = true := hb.mpr ⟨t, List.mem_of_mem_erase ht, hf⟩
        have ha : (((st.nodes q).hp_canonical_subscriptions.erase s).any
          fun t => f (st.subs t).hps_flags) = true := hany.mpr ⟨t, ht, hf⟩
        simp [hb1, ha]
    exact ⟨hX (fun f => f.PROP_SUB_SUBSCRIPTION_MONITOR) _ hm (fun e => by simp [e]),
      hX (fun f => f.PROP_SUB_MULTI) _ hms (fun e => by simp [e])⟩

theorem detach_canonical_congr {A B : State F} (s : Nat) (hn : A.nodes = B.nodes)
    (hf : ∀ t, (A.subs t).hps_flags = (B.subs t).hps_flags)
    (hc : (A.subs s).hps_canonical_prop = (B.subs s).hps_canonical_prop) :
    (detach_canonical A s).nodes = (detach_canonical B s).nodes := by
  funext q
  rw [detach_canonical_nodes, detach_canonical_nodes, hn, hc]
  simp only [hf]

/-- Two states with the same nodes and the same referents and flags of subscriptions. -/
theorem Tame.of_eq_nodes {A B : State F} (hn : B.nodes = A.nodes) (hnn : B.nnodes = A.nnodes)
    (hns : B.nsubs = A.nsubs)
    (hv : ∀ t, (B.subs t).hps_value_prop = (A.subs t).hps_value_prop)
    (hc : ∀ t, (B.subs t).hps_canonical_prop = (A.subs t).hps_canonical_prop)
    (hf : ∀ t, (B.subs t).hps_flags = (A.subs t).hps_flags) : Tame A B where
  nnodes := hnn
  nsubs := hns
  originator := fun q => by rw [hn]
  targets := fun q => by rw [hn]
  value := fun q => by rw [hn]
  canonical := fun q => by rw [hn]
  monitored := fun q => by rw [hn]
  multi_sub := fun q => by rw [hn]
  zombie := fun q h => by rw [hn]; exact h
  parent := fun q => Or.inl (by rw [hn])
  value_prop := hv
  canonical_prop := hc
  flags := hf

theorem Tame.clear_canonical {A B : State F} (h : Tame A B) (s : Nat) :
    Tame (A.setSub s { A.subs s with hps_canonical_prop := none })
      (B.setSub s { B.subs s with hps_canonical_prop := none }) where
  nnodes := h.nnodes
  nsubs := h.nsubs
  originator := h.originator
  targets := h.targets
  value := h.value
  canonical := h.canonical
  monitored := h.monitored
  multi_sub := h.multi_sub
  zombie := h.zombie
  parent := h.parent
  value_prop := fun t => by by_cases e : t = s <;> simp [e, h.value_prop]
  canonical_prop := fun t => by by_cases e : t = s <;> simp [e, h.canonical_prop]
  flags := fun t => by by_cases e : t = s <;> simp [e, h.flags]

theorem PropFlags.eta_and_monitored (f : PropFlags) (x : Bool)
    (h : f.PROP_MONITORED = (f.PROP_MONITORED && x)) :
    f = { f with PROP_MONITORED := f.PROP_MONITORED && x } := by
  cases f
  simp_all

/-- The function prop_unsubscribe0 does to what the invariant reads what `unsubscribed`
  does. -/
theorem tame_of_unsubscribe0 {st st' : State F} {s : Nat}
    (h : prop_unsubscribe0 st s = .ok st') :
    Tame (unsubscribed st s) st' ∧ Shrink (unsubscribed st s) st' := by
  unfold prop_unsubscribe0 at h
  dsimp only at h
  split at h
  · cases h
  · next st3 hval =>
    have F3 : st3.nodes = (detach_value st s).nodes ∧ st3.nnodes = st.nnodes ∧
        st3.nsubs = st.nsubs ∧ (∀ t, t ≠ s → st3.subs t = st.subs t) ∧
        (st3.subs s).hps_value_prop = none ∧
        (st3.subs s).hps_canonical_prop = (st.subs s).hps_canonical_prop ∧
        (st3.subs s).hps_flags = (st.subs s).hps_flags := by
      split at hval
      · next hv =>
        cases hval
        simp only [setCourier_subs, setSub_subs, if_true] at hv
        refine ⟨?_, rfl, rfl, fun t ht => by simp [ht], by simpa using hv, by simp, by simp⟩
        funext q
        rw [detach_value_nodes, if_neg (by rw [hv]; exact fun e => by cases e)]
        rfl
      · next v hv =>
        simp only [setCourier_subs, setSub_subs, if_true] at hv
        split at hval
        · cases hval
        · next l hl =>
          cases hval
          have hle : l = (st.nodes v).hp_value_subscriptions.erase s := by
            unfold tailq_remove at hl
            split at hl
            · cases hl; rfl
            · cases hl
          subst hle
          refine ⟨?_, rfl, rfl, fun t ht => by simp [ht], by simp, by simp, by simp⟩
          funext q
          rw [detach_value_nodes]
          by_cases e : q = v
          · subst e; simp [hv]
          · have : (st.subs s).hps_value_prop ≠ some q := by
              rw [hv]; intro e'; cases e'; exact e rfl
            simp [e, this]
    obtain ⟨f1, f2, f3, f4, f5, f6, f7⟩ := F3
    have f8 : ∀ t, (st3.subs t).hps_flags = (st.subs t).hps_flags := by
      intro t
      by_cases e : t = s
      · subst e; exact f7
      · rw [f4 t e]
    split at h
    · cases h
    · next st7 hcan =>
      cases h
      have F7 : Tame ((detach_canonical st3 s).setSub s
          { st3.subs s with hps_canonical_prop := none }) st7 ∧
          Shrink ((detach_canonical st3 s).setSub s
          { st3.subs s with hps_canonical_prop := none }) st7 := by
        split at hcan
        · next hc =>
          cases hcan
          have hd : detach_canonical st3 s = st3 := by
            unfold detach_canonical
            rw [hc]
          rw [hd]
          refine ⟨Tame.of_eq_nodes rfl rfl rfl ?_ ?_ ?_, Shrink.of_nodes rfl (le_refl _)⟩
          · intro t; by_cases e : t = s <;> simp [e]
          · intro t; by_cases e : t = s
            · subst e; simp [hc]
            · simp [e]
          · intro t; by_cases e : t = s <;> simp [e]
        · next c hc =>
          split at hcan
          · cases hcan
          · next l hl =>
            have hle : l = (st3.nodes c).hp_canonical_subscriptions.erase s := by
              unfold tailq_remove at hl
              split at hl
              · cases hl; rfl
              · cases hl
            subst hle
            split at hcan
            · cases hcan
            · next st6 hrec =>
              cases hcan
              have hdn : (detach_canonical st3 s).nodes c = { st3.nodes c with
                  hp_canonical_subscriptions := (st3.nodes c).hp_canonical_subscriptions.erase s
                  hp_flags := { (st3.nodes c).hp_flags with
                    PROP_MONITORED := (st3.nodes c).hp_flags.PROP_MONITORED
                      && !(((st3.subs s).hps_flags.PROP_SUB_SUBSCRIPTION_MONITOR
                          || (st3.subs s).hps_flags.PROP_SUB_MULTI)
                        && !(((st3.nodes c).hp_canonical_subscriptions.erase s).any
                          fun t => (st3.subs t).hps_flags.PROP_SUB_SUBSCRIPTION_MONITOR))
                    PROP_MULTI_SUB := (st3.nodes c).hp_flags.PROP_MULTI_SUB
                      && !(((st3.subs s).hps_flags.PROP_SUB_SUBSCRIPTION_MONITOR
                          || (st3.subs s).hps_flags.PROP_SUB_MULTI)
                        && !(((st3.nodes c).hp_canonical_subscriptions.erase s).any
                          fun t => (st3.subs t).hps_flags.PROP_SUB_MULTI)) } } := by
                rw [detach_canonical_nodes, if_pos hc]
              have hdq : ∀ q, q ≠ c → (detach_canonical st3 s).nodes q = st3.nodes q := by
                intro q hq
                rw [detach_canonical_nodes, if_neg (by rw [hc]; intro e; cases e; exact hq rfl)]
              have key : Tame (detach_canonical st3 s) st6 ∧
                  Shrink (detach_canonical st3 s) st6 := by
                have a4 : (st3.setNode c { st3.nodes c with hp_canonical_subscriptions :=
                      (st3.nodes c).hp_canonical_subscriptions.erase s }).nnodes = st3.nnodes ∧
                    (st3.setNode c { st3.nodes c with hp_canonical_subscriptions :=
                      (st3.nodes c).hp_canonical_subscriptions.erase s }).nsubs = st3.nsubs ∧
                    (st3.setNode c { st3.nodes c with hp_canonical_subscriptions :=
                      (st3.nodes c).hp_canonical_subscriptions.erase s }).subs = st3.subs ∧
                    (∀ q, q ≠ c → (st3.setNode c { st3.nodes c with hp_canonical_subscriptions :=
                      (st3.nodes c).hp_canonical_subscriptions.erase s }).nodes q =
                      st3.nodes q) ∧
                    (st3.setNode c { st3.nodes c with hp_canonical_subscriptions :=
                      (st3.nodes c).hp_canonical_subscriptions.erase s }).nodes c =
                      { st3.nodes c with hp_canonical_subscriptions :=
                        (st3.nodes c).hp_canonical_subscriptions.erase s } :=
                  ⟨rfl, rfl, rfl, fun q hq => by simp [hq], by simp⟩
                generalize st3.setNode c { st3.nodes c with hp_canonical_subscriptions :=
                      (st3.nodes c).hp_canonical_subscriptions.erase s } = st4 at hrec a4
                obtain ⟨n4, ns4, sb4, q4, c4⟩ := a4
                split at hrec
                · next hre =>
                  rw [sb4] at hre
                  split at hrec
                  · cases hrec
                  · have a5 : ∀ st5 : State F, st5 = (if ((st4.nodes
                          c).hp_canonical_subscriptions.any fun t =>
                          (st4.subs t).hps_flags.PROP_SUB_SUBSCRIPTION_MONITOR) = true then st4
                        else st4.setNode c { st4.nodes c with
                          hp_flags := { (st4.nodes c).hp_flags with PROP_MONITORED := false } }) →
                        st5.nnodes = st3.nnodes ∧ st5.nsubs = st3.nsubs ∧ st5.subs = st3.subs ∧
                        (∀ q, q ≠ c → st5.nodes q = st3.nodes q) ∧
                        st5.nodes c = { st3.nodes c with
                          hp_canonical_subscriptions :=
                            (st3.nodes c).hp_canonical_subscriptions.erase s
                          hp_flags := { (st3.nodes c).hp_flags with
                            PROP_MONITORED := (st3.nodes c).hp_flags.PROP_MONITORED
                              && (((st3.nodes c).hp_canonical_subscriptions.erase s).any
                                fun t => (st3.subs t).hps_flags.PROP_SUB_SUBSCRIPTION_MONITOR) } } := by
                      intro st5 e
                      subst e
                      rw [sb4, c4]
                      dsimp only
                      split
                      · next hmon =>
                        refine ⟨n4, ns4, sb4, q4, ?_⟩
                        rw [c4]
                        have e := PropFlags.eta_and_monitored (st3.nodes c).hp_flags
                          (((st3.nodes c).hp_canonical_subscriptions.erase s).any
                            fun t => (st3.subs t).hps_flags.PROP_SUB_SUBSCRIPTION_MONITOR)
                          (by rw [hmon]; simp)
                        simp only [prop_t.mk.injEq, true_and, and_true]
                        exact e
                      · next hmon =>
                        refine ⟨n4, ns4, sb4, fun q hq => by simp [hq, q4 q hq], ?_⟩
                        simp only [Bool.not_eq_true] at hmon
                        simp [c4, hmon]
                    have a5' := a5 _ rfl
                    generalize (if ((st4.nodes c).hp_canonical_subscriptions.any fun t =>
                          (st4.subs t).hps_flags.PROP_SUB_SUBSCRIPTION_MONITOR) = true then st4
                        else st4.setNode c { st4.nodes c with
                          hp_flags := { (st4.nodes c).hp_flags with PROP_MONITORED := false } }) = st5
                      at hrec a5'
                    obtain ⟨n5, ns5, sb5, q5, c5⟩ := a5'
                    rw [sb4, c4] at hrec
                    dsimp only at hrec
                    split at hrec
                    · next hmul =>
                      cases hrec
                      refine ⟨Tame.of_node c ?_ ?_ ?_ ?_ ?_, ?_⟩
                      · rw [detach_canonical_nnodes]; exact n5
                      · rw [detach_canonical_nsubs]; exact ns5
                      · rw [detach_canonical_subs]; exact sb5
                      · intro q hq; rw [hdq q hq, q5 q hq]
                      · rw [hdn, c5]
                        refine ⟨rfl, rfl, rfl, rfl, ?_, ?_, fun h => h, Or.inl rfl⟩
                        · simp [hre]
                        · simp [hre, hmul]
                      · refine ⟨by rw [detach_canonical_nnodes, n5], fun q => ?_⟩
                        by_cases e : q = c
                        · subst e
                          rw [hdn, c5]
                          exact ⟨Or.inl rfl, List.Subperm.refl _⟩
                        · rw [hdq q e, q5 q e]
                          exact ⟨Or.inl rfl, List.Subperm.refl _⟩
                    · next hmul =>
                      have t6 := tame_of_clr_multi hrec
                      have s6 := shrink_of_clr_multi hrec
                      refine ⟨Tame.t_trans (Tame.of_node c ?_ ?_ ?_ ?_ ?_) t6,
                        Shrink.sh_trans ?_ s6⟩
                      · rw [detach_canonical_nnodes]; exact n5
                      · rw [detach_canonical_nsubs]; exact ns5
                      · rw [detach_canonical_subs]; exact sb5
                      · intro q hq; rw [hdq q hq]; simp [hq, q5 q hq]
                      · rw [hdn]
                        simp only [setNode_nodes, if_true]
                        rw [c5]
                        refine ⟨rfl, rfl, rfl, rfl, ?_, ?_, fun h => h, Or.inl rfl⟩
                        · simp [hre]
                        · simp only [Bool.not_eq_true] at hmul
                          simp [hre, hmul]
                      · refine ⟨by rw [detach_canonical_nnodes, n5], fun q => ?_⟩
                        by_cases e : q = c
                        · subst e
                          rw [hdn, c5]
                          exact ⟨Or.inl rfl, List.Subperm.refl _⟩
                        · rw [hdq q e, q5 q e]
                          exact ⟨Or.inl rfl, List.Subperm.refl _⟩
                · next hre =>
                  rw [sb4] at hre
                  cases hrec
                  refine ⟨Tame.of_node c ?_ ?_ ?_ ?_ ?_, ?_⟩
                  · rw [detach_canonical_nnodes]; exact n4
                  · rw [detach_canonical_nsubs]; exact ns4
                  · rw [detach_canonical_subs]; exact sb4
                  · intro q hq; rw [hdq q hq, q4 q hq]
                  · rw [hdn, c4]
                    simp only [Bool.not_eq_true] at hre
                    refine ⟨rfl, rfl, rfl, rfl, ?_, ?_, fun h => h, Or.inl rfl⟩
                    · simp [hre]
                    · simp [hre]
                  · refine ⟨by rw [detach_canonical_nnodes, n4], fun q => ?_⟩
                    by_cases e : q = c
                    · subst e
                      rw [hdn, c4]
                      exact ⟨Or.inl rfl, List.Subperm.refl _⟩
                    · rw [hdq q e, q4 q e]
                      exact ⟨Or.inl rfl, List.Subperm.refl _⟩
              have t6 := key.1.clear_canonical s
              rw [detach_canonical_subs] at t6
              exact ⟨t6, key.2.1, key.2.2⟩
      have hsubY : ∀ t, ((detach_canonical st3 s).setSub s
          { st3.subs s with hps_canonical_prop := none }).subs t =
          if t = s then { st3.subs s with hps_canonical_prop := none } else st3.subs t := by
        intro t
        rw [setSub_subs, detach_canonical_subs]
      have hsubU : ∀ t, (unsubscribed st s).subs t =
          if t = s then
            { st.subs s with
              hps_zombie := true
              hps_value_prop := none
              hps_canonical_prop := none }
          else st.subs t := by
        intro t
        unfold unsubscribed
        rw [setSub_subs, detach_canonical_subs, detach_value_subs]
      have hnodes : (detach_canonical st3 s).nodes = (unsubscribed st s).nodes :=
        detach_canonical_congr s f1 (fun t => by rw [detach_value_subs]; exact f8 t)
          (by rw [detach_value_subs]; exact f6)
      have T0 : Tame (unsubscribed st s) ((detach_canonical st3 s).setSub s
          { st3.subs s with hps_canonical_prop := none }) := by
        refine Tame.of_eq_nodes hnodes ?_ ?_ ?_ ?_ ?_
        · show (detach_canonical st3 s).nnodes = (detach_canonical (detach_value st s) s).nnodes
          rw [detach_canonical_nnodes, detach_canonical_nnodes, detach_value_nnodes, f2]
        · show (detach_canonical st3 s).nsubs = (detach_canonical (detach_value st s) s).nsubs
          rw [detach_canonical_nsubs, detach_canonical_nsubs, detach_value_nsubs, f3]
        · intro t
          rw [hsubY, hsubU]
          by_cases e : t = s
          · subst e; simp [f5]
          · simp [e, f4 t e]
        · intro t
          rw [hsubY, hsubU]
          by_cases e : t = s
          · subst e; simp
          · simp [e, f4 t e]
        · intro t
          rw [hsubY, hsubU]
          by_cases e : t = s
          · subst e; simp [f7]
          · simp [e, f4 t e]
      have S0 : Shrink (unsubscribed st s) ((detach_canonical st3 s).setSub s
          { st3.subs s with hps_canonical_prop := none }) := by
        refine Shrink.of_nodes hnodes ?_
        show (detach_canonical (detach_value st s) s).nnodes ≤ (detach_canonical st3 s).nnodes
        rw [detach_canonical_nnodes, detach_canonical_nnodes, detach_value_nnodes, f2]
      unfold prop_sub_ref_dec_locked
      exact ⟨(T0.t_trans F7.1).t_trans (Tame.t_setSub st7 s _ (by rfl) (by rfl) (by rfl)),
        (S0.sh_trans F7.2).sh_trans (Shrink.sh_setSub _ _ _)⟩

/-- The invariant is kept by prop_unsubscribe0 of an allocated subscription. -/
theorem storeOk_of_unsubscribe0 {E : Nat → Prop} {st st' : State F} {s : Nat}
    (h : prop_unsubscribe0 st s = .ok st') (hok : StoreOk E st) (hs : s < st.nsubs) :
    StoreOk E st' ∧ st'.nnodes = st.nnodes ∧ st'.nsubs = st.nsubs := by
  obtain ⟨t, sh⟩ := tame_of_unsubscribe0 h
  have o := (storeOk_unsubscribed hok s hs).ok_of_tame sh t
  refine ⟨o, ?_, ?_⟩
  · rw [t.nnodes]
    show (detach_canonical (detach_value st s) s).nnodes = st.nnodes
    rw [detach_canonical_nnodes, detach_value_nnodes]
  · rw [t.nsubs]
    show (detach_canonical (detach_value st s) s).nsubs = st.nsubs
    rw [detach_canonical_nsubs, detach_value_nsubs]

theorem KidsAllocated.kl_shrink {st st' : State F} (h : Shrink st st') (hk : KidsAllocated st) :
    KidsAllocated st' :=
  fun d c hc => lt_of_lt_of_le (hk d c ((h.2 d).2.subset hc)) h.1

theorem foldlM_total {α : Type} (f : State F → α → Except Fault (State F))
    (I : State F → Prop) :
    ∀ (l : List α) (st : State F), I st →
      (∀ c ∈ l, ∀ a, I a → ∃ r, f a c = .ok r ∧ I r) →
      ∃ st', List.foldlM f st l = .ok st' ∧ I st' := by
  intro l
  induction l with
  | nil => intro st h _; exact ⟨st, rfl, h⟩
  | cons a l ih =>
    intro st h hf
    obtain ⟨r, hr, hI⟩ := hf a (List.mem_cons_self _ _) st h
    obtain ⟨st', h', hI'⟩ := ih r hI (fun c hc => hf c (List.mem_cons_of_mem _ hc))
    refine ⟨st', ?_, hI'⟩
    rw [List.foldlM_cons, hr]
    exact h'

/-- The function prop_flood_flag returns when its fuel is more than the number of indices
  from p on: a child has a larger index than its parent. -/
theorem flood_flag_total : ∀ (fuel : Nat) (st : State F) (p : Nat) (set clr : PropFlags),
    KidsAbove st → KidsAllocated st → p < st.nnodes → st.nnodes - p < fuel →
    ∃ st', prop_flood_flag fuel st p set clr = .ok st' ∧
      KidsAbove st' ∧ KidsAllocated st' ∧ st'.nnodes = st.nnodes := by
  intro fuel
  induction fuel with
  | zero => intro st p set clr _ _ _ hf; exact absurd hf (Nat.not_lt_zero _)
  | succ fuel ih =>
    intro st p set clr ha hk hp hf
    unfold prop_flood_flag
    have h1 : Shrink st (st.setNode p
        { st.nodes p with hp_flags := ((st.nodes p).hp_flags.or set).andNot clr }) :=
      Shrink.sh_setNode st p _ (Or.inl rfl) (List.Subperm.refl _)
    have ha1 := ha.ka_shrink h1
    have hk1 := hk.kl_shrink h1
    have hn1 : (st.setNode p
        { st.nodes p with hp_flags := ((st.nodes p).hp_flags.or set).andNot clr }).nnodes =
        st.nnodes := rfl
    have hc1 : ((st.setNode p
        { st.nodes p with hp_flags := ((st.nodes p).hp_flags.or set).andNot clr }).nodes
        p).hp_childs = (st.nodes p).hp_childs := by simp [prop_t.hp_childs]
    generalize st.setNode p
        { st.nodes p with hp_flags := ((st.nodes p).hp_flags.or set).andNot clr } = st1
      at ha1 hk1 hn1 hc1
    dsimp only
    split
    · next cs sel hu =>
      have hcs : (st1.nodes p).hp_childs = cs := by simp [prop_t.hp_childs, hu]
      have := foldlM_total (fun acc c => prop_flood_flag fuel acc c set clr)
        (fun a => KidsAbove a ∧ KidsAllocated a ∧ a.nnodes = st.nnodes) cs st1
        ⟨ha1, hk1, hn1⟩ (by
          intro c hc a hI
          obtain ⟨ia, ik, inn⟩ := hI
          have hpc : p < c := ha1 p c (by rw [hcs]; exact hc)
          have hcn : c < st1.nnodes := hk1 p c (by rw [hcs]; exact hc)
          obtain ⟨r, hr, ra, rk, rn⟩ := ih a c set clr ia ik (by omega) (by omega)
          exact ⟨r, hr, ra, rk, by omega⟩)
      obtain ⟨st', h', hI⟩ := this
      exact ⟨st', h', hI⟩
    · exact ⟨st1, rfl, ha1, hk1, hn1⟩

theorem flood_flag_on_childs_total (st : State F) (p : Nat) (set clr : PropFlags)
    (ha : KidsAbove st) (hk : KidsAllocated st) :
    ∃ st', prop_flood_flag_on_childs st p set clr = .ok st' := by
  unfold prop_flood_flag_on_childs
  obtain ⟨st', h', _⟩ := foldlM_total
    (fun acc c => prop_flood_flag (st.nnodes + 1) acc c set clr)
    (fun a => KidsAbove a ∧ KidsAllocated a ∧ a.nnodes = st.nnodes) (st.nodes p).hp_childs st
    ⟨ha, hk, rfl⟩ (by
      intro c hc a hI
      obtain ⟨ia, ik, inn⟩ := hI
      have hcn : c < st.nnodes := hk p c hc
      obtain ⟨r, hr, ra, rk, rn⟩ := flood_flag_total (st.nnodes + 1) a c set clr ia ik
        (by omega) (by omega)
      exact ⟨r, hr, ra, rk, by omega⟩)
  exact ⟨st', h'⟩

theorem clr_multi_total (st : State F) (p : Nat) (ha : KidsAbove st) (hk : KidsAllocated st) :
    ∃ st', prop_clr_multi st p = .ok st' := by
  unfold prop_clr_multi
  have h1 : Shrink st (st.setNode p { st.nodes p with
      hp_flags := { (st.nodes p).hp_flags with PROP_MULTI_SUB := false } }) :=
    Shrink.sh_setNode st p _ (Or.inl rfl) (List.Subperm.refl _)
  dsimp only
  split
  · exact flood_flag_on_childs_total _ p _ _ (ha.ka_shrink h1) (hk.kl_shrink h1)
  · exact ⟨_, rfl⟩

/-- The function prop_unsubscribe0 returns for a subscription whose canonical node, if any,
  is not a zombie: the subscription is on the lists it is taken off, the assertion holds
  and clearing the flags below the node comes to an end. -/
theorem unsubscribe0_total {E : Nat → Prop} {st : State F} (hok : StoreOk E st) (s : Nat)
    (hz : ∀ c, (st.subs s).hps_canonical_prop = some c →
      (st.nodes c).hp_type ≠ .PROP_ZOMBIE) :
    ∃ st', prop_unsubscribe0 st s = .ok st' := by
  cases h : prop_unsubscribe0 st s with
  | ok st' => exact ⟨st', rfl⟩
  | error e =>
  exfalso
  unfold prop_unsubscribe0 at h
  dsimp only at h
  split at h
  · next e1 hval =>
    split at hval
    · cases hval
    · next v hv =>
      simp only [setCourier_subs, setSub_subs, if_true] at hv
      have hm : s ∈ (st.nodes v).hp_value_subscriptions :=
        mem_of_count_one (hok.value_count s v hv)
      split at hval
      · next hl =>
        unfold tailq_remove at hl
        simp [hm] at hl
      · cases hval
  · next st3 hval =>
    have F3 : st3.nodes = (detach_value st s).nodes ∧ st3.nnodes = st.nnodes ∧
        st3.nsubs = st.nsubs ∧ (∀ t, t ≠ s → st3.subs t = st.subs t) ∧
        (st3.subs s).hps_value_prop = none ∧
        (st3.subs s).hps_canonical_prop = (st.subs s).hps_canonical_prop ∧
        (st3.subs s).hps_flags = (st.subs s).hps_flags := by
      split at hval
      · next hv =>
        cases hval
        simp only [setCourier_subs, setSub_subs, if_true] at hv
        refine ⟨?_, rfl, rfl, fun t ht => by simp [ht], by simpa using hv, by simp, by simp⟩
        funext q
        rw [detach_value_nodes, if_neg (by rw [hv]; exact fun e => by cases e)]
        rfl
      · next v hv =>
        simp only [setCourier_subs, setSub_subs, if_true] at hv
        split at hval
        · cases hval
        · next l hl =>
          cases hval
          have hle : l = (st.nodes v).hp_value_subscriptions.erase s := by
            unfold tailq_remove at hl
            split at hl
            · cases hl; rfl
            · cases hl
          subst hle
          refine ⟨?_, rfl, rfl, fun t ht => by simp [ht], by simp, by simp, by simp⟩
          funext q
          rw [detach_value_nodes]
          by_cases e : q = v
          · subst e; simp [hv]
          · have : (st.subs s).hps_value_prop ≠ some q := by
              rw [hv]; intro e'; cases e'; exact e rfl
            simp [e, this]
    obtain ⟨f1, f2, f3, f4, f5, f6, f7⟩ := F3
    have f8 : ∀ t, (st3.subs t).hps_flags = (st.subs t).hps_flags := by
      intro t
      by_cases e : t = s
      · subst e; exact f7
      · rw [f4 t e]
    split at h
    · next e2 hcan =>
      split at hcan
      · cases hcan
      · next c hc =>
        rw [f6] at hc
        have hm : s ∈ (st.nodes c).hp_canonical_subscriptions :=
          mem_of_count_one (hok.canonical_count s c hc)
        have hcl := (hok.canonical_back c s hm).2.2
        have hn3 : (st3.nodes c).hp_canonical_subscriptions =
              (st.nodes c).hp_canonical_subscriptions ∧
            (st3.nodes c).hp_flags = (st.nodes c).hp_flags := by
          rw [f1, detach_value_nodes]
          split <;> exact ⟨rfl, rfl⟩
        have hsh3 : Shrink st st3 :=
          (shrink_detach_value st s).sh_trans (Shrink.of_nodes f1 (le_of_eq (by
            rw [detach_value_nnodes, f2])))
        split at hcan
        · next hl =>
          unfold tailq_remove at hl
          rw [hn3.1] at hl
          simp [hm] at hl
        · next l hl =>
          split at hcan
          · next e3 hrec =>
            split at hrec
            · next hre =>
              split at hrec
              · next hass =>
                simp only [setNode_subs, setNode_nodes, if_true] at hass hre
                rw [hn3.2] at hass
                rw [f7] at hre
                have hmon := hok.monitored c hcl (hz c hc)
                have hmul := hok.multi_sub c hcl (hz c hc)
                simp only [Bool.or_eq_true] at hre
                simp only [Bool.not_eq_true', Bool.or_eq_false_iff] at hass
                rcases hre with hre | hre
                · have := hmon.mpr ⟨s, hm, hre⟩
                  rw [hass.1] at this
                  cases this
                · have := hmul.mpr ⟨s, hm, hre⟩
                  rw [hass.2] at this
                  cases this
              · split at hrec
                · cases hrec
                · have key : ∀ X : State F, Shrink st3 X → ∀ e4,
                      prop_clr_multi X c ≠ .error e4 := by
                    intro X hX e4 he
                    obtain ⟨x, hx⟩ := clr_multi_total X c
                      (hok.above.ka_shrink (hsh3.sh_trans hX))
                      (hok.names.2.kl_shrink (hsh3.sh_trans hX))
                    rw [hx] at he
                    cases he
                  refine key _ ?_ _ hrec
                  have hA : Shrink st3 (st3.setNode c { st3.nodes c with
                      hp_canonical_subscriptions := l }) :=
                    Shrink.sh_setNode st3 c _ (Or.inl (by rfl)) (by exact List.Subperm.refl _)
                  refine hA.sh_trans ?_
                  split
                  · exact Shrink.sh_refl _
                  · exact Shrink.sh_setNode _ c _ (Or.inl (by rfl))
                      (by exact List.Subperm.refl _)
            · cases hrec
          · cases hcan
    · cases h

theorem storeOk_courier_create {E : Nat → Prop} {st : State F} (h : StoreOk E st) :
    StoreOk E (prop_courier_create st).1 := by
  have hs : Shrink st (prop_courier_create st).1 := Shrink.of_nodes rfl (le_refl _)
  have ht : Tame st (prop_courier_create st).1 :=
    Tame.of_eq_nodes rfl rfl rfl (fun _ => rfl) (fun _ => rfl) (fun _ => rfl)
  exact h.ok_of_tame hs ht

theorem option_all_lt {o : Option Nat} {n : Nat} (h : (o.all fun p => decide (p < n)) = true) :
    ∀ q, o = some q → q < n := by
  intro q hq
  subst hq
  simpa using h

/-- A call that builds trees, links them or subscribes keeps the invariant of the links and
  subscription lists when its pointers are allocated. -/
theorem storeOk_of_run [CFloat F] {st st' : State F} (c : api_call F) (hw : c.wiring = true)
    (hv : c.valid st = true) (hr : c.run st = .ok st') (hok : StoreOk (fun _ => False) st) :
    StoreOk (fun _ => False) st' := by
  cases c with
  | store c =>
    cases c with
    | create_root name noalloc =>
      cases hr
      exact storeOk_prop_make hok name noalloc none (fun d hd => by cases hd)
    | create parent name skipme noalloc incref =>
      simp only [api_call.run, store_call.run] at hr
      split at hr
      · cases hr
      · next st1 r h1 =>
        cases hr
        exact storeOk_of_create_ex h1 hok (option_all_lt hv)
    | courier_create =>
      cases hr
      exact storeOk_courier_create hok
    | subscribe a =>
      simp only [api_call.run, store_call.run] at hr
      simp only [api_call.valid, store_call.valid, Bool.and_eq_true, List.all_eq_true,
        decide_eq_true_eq] at hv
      split at hr
      · cases hr
      · next st1 r h1 =>
        cases hr
        exact storeOk_of_subscribe h1 hok hv.1 (option_all_lt hv.2)
    | link fuel src dst skipme hard =>
      simp only [api_call.valid, store_call.valid, Bool.and_eq_true,
        decide_eq_true_eq] at hv
      exact storeOk_of_link0 hr hok hv.1 hv.2
    | unlink fuel p skipme => exact storeOk_of_unlink_ex hr hok
    | destroy fuel p => exact storeOk_of_destroy hr hok (option_all_lt hv)
    | _ => cases hw
  | unsubscribe s =>
    cases s with
    | none => cases hr; exact hok
    | some s =>
      have hs : s < st.nsubs := by
        simpa [api_call.valid] using hv
      exact (storeOk_of_unsubscribe0 hr hok hs).1
  | _ => cases hw

/-- The invariant of the links and subscription lists holds in every state reached by the
  calls that build trees, link them and subscribe. -/
theorem storeOk_of_wired [CFloat F] {st : State F} (h : Wired st) :
    StoreOk (fun _ => False) st := by
  induction h with
  | init => exact storeOk_empty
  | step c _ hw hv hr ih => exact storeOk_of_run c hw hv hr ih

/-- A sequence of calls that `wired_run` accepts leads from a state of `Wired` to one. -/
theorem wired_of_run [CFloat F] : ∀ (calls : List (api_call F)) (st : State F), Wired st →
    wired_run calls st = true → Wired (state_after (run_api calls st)) := by
  intro calls
  induction calls with
  | nil => intro st h _; exact h
  | cons c rest ih =>
    intro st h hr
    unfold wired_run at hr
    unfold run_api
    cases hc : c.run st with
    | error e => rw [hc] at hr; simp at hr
    | ok st1 =>
      rw [hc] at hr
      simp only [Bool.and_eq_true] at hr
      exact ih st1 (Wired.step c h hr.1.1 hr.1.2 hc) hr.2

theorem unsubscribed_canonical_list (st : State F) (s p : Nat)
    (hc : (st.subs s).hps_canonical_prop = some p) :
    ((unsubscribed st s).nodes p).hp_canonical_subscriptions =
      (st.nodes p).hp_canonical_subscriptions.erase s := by
  rw [unsubscribed_nodes, detach_canonical_nodes, detach_value_subs, if_pos hc,
    detach_value_nodes]
  split <;> rfl

theorem unsubscribed_type (st : State F) (s p : Nat) :
    ((unsubscribed st s).nodes p).hp_type = (st.nodes p).hp_type := by
  rw [unsubscribed_nodes, detach_canonical_nodes, detach_value_nodes]
  split <;> split <;> rfl

theorem unsubscribed_flags (st : State F) (s t : Nat) :
    ((unsubscribed st s).subs t).hps_flags = (st.subs t).hps_flags := by
  unfold unsubscribed
  rw [setSub_subs, detach_canonical_subs, detach_value_subs]
  split
  · next e => subst e; rfl
  · rfl

theorem unsubscribed_nnodes (st : State F) (s : Nat) :
    (unsubscribed st s).nnodes = st.nnodes := by
  show (detach_canonical (detach_value st s) s).nnodes = st.nnodes
  rw [detach_canonical_nnodes, detach_value_nnodes]

theorem mem_erase_of_count_one {l : List Nat} {s t : Nat} (h : l.count s = 1) :
    t ∈ l.erase s ↔ t ∈ l ∧ t ≠ s := by
  constructor
  · intro ht
    refine ⟨List.mem_of_mem_erase ht, fun e => ?_⟩
    subst e
    have hc : (l.erase t).count t = 0 := by
      rw [List.count_erase_self, h]
    exact absurd ht (List.count_eq_zero.mp hc)
  · rintro ⟨ht, hne⟩
    exact (List.mem_erase_of_ne hne).mpr ht

/-- C16: in every state reached from the empty store by calls that return of prop_link_ex,
  prop_unlink_ex and prop_destroy (and of prop_create_root_ex, prop_create_ex,
  prop_courier_create, prop_subscribe and prop_unsubscribe, which build what is linked) on
  allocated nodes, a node p whose hp_originator is the node o is on the hp_targets list of o
  exactly once, and every node on the hp_targets list of o has o as its hp_originator. -/
theorem targets_consistent [CFloat F] (st : State F) (h : Wired st) : TargetsOk st :=
  ⟨fun p o hp => (storeOk_of_wired h).link_count p o hp (fun e => e),
    fun o t ht => ((storeOk_of_wired h).link_back o t ht).1⟩

/-- Witness for C16: the store `ex_loop`, where node 1 follows node 0 and node 3 follows
  node 1. -/
theorem targets_consistent_witness :
    Wired ex_loop ∧ (ex_loop.nodes 1).hp_originator = some 0 ∧
    (ex_loop.nodes 3).hp_originator = some 1 ∧ TargetsOk ex_loop :=
  have hw : Wired ex_loop := wired_of_run ex_loop_calls State.empty Wired.init (by decide)
  ⟨hw, by decide, by decide, targets_consistent ex_loop hw⟩

/-- C17: in every state reached from the empty store by calls that return of prop_subscribe,
  prop_unsubscribe, prop_link_ex, prop_unlink_ex and prop_destroy (and of
  prop_create_root_ex, prop_create_ex and prop_courier_create) on allocated nodes and
  subscriptions, a subscription s whose hps_value_prop is the node v is on the
  hp_value_subscriptions list of v exactly once, and a subscription on the
  hp_value_subscriptions list of a node has that node as its hps_value_prop, so that s is on
  no other value list and on none when hps_value_prop is NULL; the same holds of
  hps_canonical_prop and the hp_canonical_subscriptions lists. -/
theorem subscription_lists_consistent [CFloat F] (st : State F) (h : Wired st) :
    ValueSubsOk st ∧ CanonicalSubsOk st :=
  ⟨⟨(storeOk_of_wired h).value_count,
      fun v s hs => ((storeOk_of_wired h).value_back v s hs).1⟩,
    ⟨(storeOk_of_wired h).canonical_count,
      fun c s hs => ((storeOk_of_wired h).canonical_back c s hs).1⟩⟩

/-- Witness for C17: the store `ex_loop`, where the subscription 0 has the canonical node 3
  and, through the links, the value node 0. -/
theorem subscription_lists_consistent_witness :
    Wired ex_loop ∧ (ex_loop.subs 0).hps_value_prop = some 0 ∧
    (ex_loop.subs 0).hps_canonical_prop = some 3 ∧
    ValueSubsOk ex_loop ∧ CanonicalSubsOk ex_loop :=
  have hw : Wired ex_loop := wired_of_run ex_loop_calls State.empty Wired.init (by decide)
  ⟨hw, by decide, by decide, subscription_lists_consistent ex_loop hw⟩

/-- C19: in every state reached from the empty store by calls that return of prop_subscribe
  and prop_unsubscribe (and of prop_create_root_ex, prop_create_ex, prop_courier_create,
  prop_link_ex, prop_unlink_ex and prop_destroy) on allocated nodes and subscriptions, an
  allocated node p that is not a zombie has PROP_MONITORED set if and only if a subscription
  on its hp_canonical_subscriptions list has PROP_SUB_SUBSCRIPTION_MONITOR; and
  prop_unsubscribe of a subscription s on that list returns and leaves PROP_MONITORED set on
  p if and only if another subscription on the list has PROP_SUB_SUBSCRIPTION_MONITOR: the
  flag is cleared with the last such subscription and stays set otherwise. -/
theorem monitored_iff_monitor_subscription [CFloat F] (st : State F) (h : Wired st) (p : Nat)
    (hp : p < st.nnodes) (hz : (st.nodes p).hp_type ≠ .PROP_ZOMBIE) :
    MonitoredOk st p ∧
    ∀ s ∈ (st.nodes p).hp_canonical_subscriptions,
      ∃ st', prop_unsubscribe st (some s) = .ok st' ∧
        ((st'.nodes p).hp_flags.PROP_MONITORED = true ↔
          ∃ t ∈ (st.nodes p).hp_canonical_subscriptions, t ≠ s ∧
            (st.subs t).hps_flags.PROP_SUB_SUBSCRIPTION_MONITOR = true) := by
  have hok := storeOk_of_wired h
  refine ⟨hok.monitored p hp hz, fun s hs => ?_⟩
  obtain ⟨hc, hsn, _⟩ := hok.canonical_back p s hs
  obtain ⟨st', hr⟩ := unsubscribe0_total hok s (fun c hcc => by
    rw [hc] at hcc
    cases hcc
    exact hz)
  refine ⟨st', hr, ?_⟩
  have ht := (tame_of_unsubscribe0 hr).1
  have hU := (storeOk_unsubscribed hok s hsn).monitored p
    (by rw [unsubscribed_nnodes]; exact hp) (by rw [unsubscribed_type]; exact hz)
  rw [ht.monitored p, hU, unsubscribed_canonical_list st s p hc]
  constructor
  · rintro ⟨t, htm, hf⟩
    rw [unsubscribed_flags] at hf
    have := (mem_erase_of_count_one (hok.canonical_count s p hc)).mp htm
    exact ⟨t, this.1, this.2, hf⟩
  · rintro ⟨t, htm, hne, hf⟩
    refine ⟨t, (mem_erase_of_count_one (hok.canonical_count s p hc)).mpr ⟨htm, hne⟩, ?_⟩
    rw [unsubscribed_flags]
    exact hf

/-- Witness for C19: the root of `ex_monitor`, with the subscriptions 2, 1 and 0 on its
  canonical list, of which 1 and 0 have PROP_SUB_SUBSCRIPTION_MONITOR. -/
theorem monitored_iff_monitor_subscription_witness :
    Wired ex_monitor ∧ 0 < ex_monitor.nnodes ∧
    (ex_monitor.nodes 0).hp_type ≠ .PROP_ZOMBIE ∧
    (ex_monitor.nodes 0).hp_canonical_subscriptions = [2, 1, 0] ∧
    (MonitoredOk ex_monitor 0 ∧
      ∀ s ∈ (ex_monitor.nodes 0).hp_canonical_subscriptions,
        ∃ st', prop_unsubscribe ex_monitor (some s) = .ok st' ∧
          ((st'.nodes 0).hp_flags.PROP_MONITORED = true ↔
            ∃ t ∈ (ex_monitor.nodes 0).hp_canonical_subscriptions, t ≠ s ∧
              (ex_monitor.subs t).hps_flags.PROP_SUB_SUBSCRIPTION_MONITOR = true)) :=
  have hw : Wired ex_monitor :=
    wired_of_run ex_monitor_calls State.empty Wired.init (by decide)
  ⟨hw, by decide, by decide, by decide,
    monitored_iff_monitor_subscription ex_monitor hw 0 (by decide) (by decide)⟩

theorem build_notify_child_in_none (st : State F) (s : Nat) (p : Option Nat)
    (event : prop_event_t) (direct : Bool) (flags : Int) :
    prop_build_notify_child_in none st s p event direct flags =
      prop_build_notify_child st s p event direct flags := rfl

theorem notify_child_in_none (child : Option Nat) (event : prop_event_t)
    (skipme : Option Nat) (flags : Int) : ∀ (l : List Nat) (st : State F),
    prop_notify_child_in none child event skipme flags l st =
      prop_notify_child child event skipme flags l st := by
  intro l
  induction l with
  | nil => intro st; rfl
  | cons s rest ih =>
    intro st
    unfold prop_notify_child_in prop_notify_child
    rw [build_notify_child_in_none]
    split
    · exact ih st
    · cases prop_build_notify_child st s child event false flags with
      | error e => rfl
      | ok st1 => exact ih st1

/-- With NULL in the field hpn_prop2 of the blocks, `prop_unselect_ex_in` is
  `prop_unselect_ex`. -/
theorem unselect_ex_in_none (st : State F) (parent : Nat) (skipme : Option Nat) :
    prop_unselect_ex_in none st parent skipme = prop_unselect_ex st parent skipme := by
  simp only [prop_unselect_ex_in, prop_unselect_ex, notify_child_in_none]

/-- C20, at the failing input: after `ex_unselect_calls` the first poll of the courier
  dispatches the record of PROP_SET_VOID about node 1 (hpn_prop2 = 1) and leaves node 1, a
  PROP_VOID node, with refcount 1. `prop_unselect(root)` then queues a record of
  PROP_SELECT_CHILD whose hpn_prop2 nothing assigns: in the block of the dispatched record
  it is still 1. The next poll releases it: prop_ref_dec takes the refcount of node 1, which
  is no zombie, from 1 to 0 and the assertion fails, although no caller released a
  reference. With NULL in the block every call returns. -/
theorem unselect_record_releases_stale_reference :
    called_records (prop_courier_poll ex_unselect 0) =
      some [{ hpn_sub := 1, hpn_event := .PROP_SET_VOID, hpn_prop2 := some 1 }] ∧
    (ex_unselect_polled.nodes 1).hp_type = .PROP_VOID ∧
    (ex_unselect_polled.nodes 1).hp_refcount = 1 ∧
    ((state_after (prop_unselect_ex_in (some 1) ex_unselect_polled 0 none)).couriers
        0).pc_queue_nor =
      [{ hpn_sub := 0, hpn_event := .PROP_SELECT_CHILD, u := .p none, hpn_prop2 := some 1 }] ∧
    fault_of (prop_unselect_ex_in (some 1) ex_unselect_polled 0 none) = none ∧
    fault_of (prop_courier_poll
      (state_after (prop_unselect_ex_in (some 1) ex_unselect_polled 0 none)) 0) =
      some .assert ∧
    fault_of (prop_courier_poll
      (state_after (prop_unselect_ex ex_unselect_polled 0 none)) 0) = none := by
  decide

/-! ## C29: the order of the two queues in a drain -/

/-- C29: in `ex_two_queues` the normal queue of courier 0 holds the record of subscription 0
  and the expedited queue the record of subscription 1. `prop_courier_poll` and a wakeup of
  the thread `prop_courier` call the expedited record first, while
  `prop_courier_wait_and_dispatch` calls the record of the normal queue before the record
  of the expedited queue. -/
theorem wait_and_dispatch_normal_first :
    (ex_two_queues.couriers 0).pc_queue_nor.map (fun n => (n.hpn_sub, n.hpn_event))
        = [(0, .PROP_SET_INT)] ∧
      (ex_two_queues.couriers 0).pc_queue_exp.map (fun n => (n.hpn_sub, n.hpn_event))
        = [(1, .PROP_SET_INT)] ∧
      called_events (prop_courier_poll ex_two_queues 0)
        = some [(1, .PROP_SET_INT), (0, .PROP_SET_INT)] ∧
      called_events (prop_courier_wakeup ex_two_queues 0)
        = some [(1, .PROP_SET_INT), (0, .PROP_SET_INT)] ∧
      called_events (prop_courier_wait_and_dispatch ex_two_queues 0)
        = some [(0, .PROP_SET_INT), (1, .PROP_SET_INT)] := by
  decide

/-! ## C26: a multi subscription on a root after another one came and went -/

/-- C26: in `ex_multi_root` the node a (0) is a root with the child b (1) and carries the
  live subscription 0 with PROP_SUB_MULTI as canonical and value node, as it did when the
  subscription was made; in between a multi subscription on a node above a was added and
  removed. `prop_set_int(b, 5)` changes the value of b and queues no record at all, while
  the same call right after subscription 0 was made queues one record for it with the
  referent a. -/
theorem multi_root_misses_descendant :
    returned (run_api ex_multi_root_calls State.empty) = true ∧
      (ex_multi_root.nodes 0).hp_parent = none ∧
      (ex_multi_root.nodes 1).hp_parent = some 0 ∧
      (ex_multi_root.nodes 0).hp_childs = [1] ∧
      (ex_multi_root.nodes 0).hp_canonical_subscriptions = [0] ∧
      (ex_multi_root.nodes 0).hp_value_subscriptions = [0] ∧
      (ex_multi_root.subs 0).hps_flags.PROP_SUB_MULTI = true ∧
      (ex_multi_root.subs 0).hps_zombie = false ∧
      (ex_multi_root.nodes 1).u = .PROP_VOID ∧
      queued_events ex_multi_root 0 = [] ∧
      returned (prop_set_int_ex ex_multi_root (some 1) none 5) = true ∧
      ((state_after (prop_set_int_ex ex_multi_root (some 1) none 5)).nodes 1).u
        = .PROP_INT 5 0 0 ∧
      queued_events (state_after (prop_set_int_ex ex_multi_root (some 1) none 5)) 0 = [] ∧
      (state_after (prop_set_int_ex ex_multi_root (some 1) none 5)).log = [] ∧
      queued_events (state_after (prop_set_int_ex
        (state_after (run_api (ex_multi_root_calls.take 5) State.empty)) (some 1) none 5)) 0
        = [(0, .PROP_SET_DIR, some 0)] := by
  decide

/-! ## C30: the records a dispatch hands to a callback -/

/-- One prop_ref_dec_locked per node of a list, as far as none fails. -/
theorem release_all_ok : ∀ (ps rest : List Nat) (st : State F),
    (∀ p ∈ ps ++ rest, (((ps ++ rest).count p : Nat) : Int) < (st.nodes p).hp_refcount) →
    ∃ st', ps.foldlM (fun acc p => prop_ref_dec_locked acc (some p)) st = .ok st' ∧
      st'.subs = st.subs ∧ st'.couriers = st.couriers ∧
      (∀ p ∈ rest, ((rest.count p : Nat) : Int) < (st'.nodes p).hp_refcount) := by
  intro ps
  induction ps with
  | nil =>
    intro rest st h
    exact ⟨st, rfl, rfl, rfl, by simpa using h⟩
  | cons p ps ih =>
    intro rest st h
    have hp := h p (by simp)
    rw [List.cons_append, List.count_cons_self] at hp
    have h1 : (1 : Int) < (st.nodes p).hp_refcount := by
      push_cast at hp
      omega
    have hstep : prop_ref_dec_locked st (some p)
        = .ok (st.setNode p { st.nodes p with hp_refcount := (st.nodes p).hp_refcount - 1 }) := by
      simp [prop_ref_dec_locked, h1]
    obtain ⟨st', e1, e2, e3, e4⟩ := ih rest
      (st.setNode p { st.nodes p with hp_refcount := (st.nodes p).hp_refcount - 1 }) (by
        intro q hq
        have hq' := h q (List.mem_cons_of_mem _ hq)
        rw [List.cons_append] at hq'
        by_cases e : q = p
        · subst e
          rw [List.count_cons_self] at hq'
          simp only [setNode_nodes, if_true]
          push_cast at hq'
          omega
        · rw [List.count_cons_of_ne e] at hq'
          simp only [setNode_nodes, if_neg e]
          exact hq')
    refine ⟨st', ?_, e2, e3, e4⟩
    rw [List.foldlM_cons, hstep]
    exact e1

theorem ref_dec_none (st : State F) : prop_ref_dec_locked st none = .ok st := rfl

theorem release_option (st : State F) (o : Option Nat) :
    prop_ref_dec_locked st o
      = o.toList.foldlM (fun acc p => prop_ref_dec_locked acc (some p)) st := by
  cases o with
  | none => rfl
  | some p =>
    simp only [Option.toList, List.foldlM_cons, List.foldlM_nil]
    cases prop_ref_dec_locked st (some p) <;> rfl

theorem release_two (st : State F) (a b : Option Nat) :
    (match prop_ref_dec_locked st a with
      | .error e => .error e
      | .ok st1 => prop_ref_dec_locked st1 b)
      = (a.toList ++ b.toList).foldlM (fun acc p => prop_ref_dec_locked acc (some p)) st := by
  rw [List.foldlM_append, ← release_option]
  cases prop_ref_dec_locked st a with
  | error e => rfl
  | ok st1 => exact release_option st1 b

/-- The switch of prop_notify_dispatch gives back the references of `record_refs`. -/
theorem dispatch_release_eq (st : State F) (n : prop_notify_t F) :
    dispatch_release st n
      = (record_refs n).foldlM (fun acc p => prop_ref_dec_locked acc (some p)) st := by
  unfold dispatch_release record_refs prop_ref_dec
  cases n.hpn_event <;> dsimp only <;>
    first
    | exact release_option st _
    | exact release_two st _ _
    | rfl

theorem release_option_free (st : State F) (o : Option Nat) (s : Nat) :
    (match prop_ref_dec_locked st o with
      | .error e => .error e
      | .ok st1 => .ok (prop_sub_ref_dec_locked st1 s) : Except Fault (State F))
      = match o.toList.foldlM (fun acc p => prop_ref_dec_locked acc (some p)) st with
        | .error e => .error e
        | .ok st1 => .ok (prop_sub_ref_dec_locked st1 s) := by
  have h := release_option st o
  generalize o.toList.foldlM (fun acc p => prop_ref_dec_locked acc (some p)) st = r at h ⊢
  subst h
  rfl

theorem release_two_free (st : State F) (a b : Option Nat) (s : Nat) :
    (match (match prop_ref_dec_locked st a with
        | .error e => .error e
        | .ok st1 => prop_ref_dec_locked st1 b : Except Fault (State F)) with
      | .error e => .error e
      | .ok st1 => .ok (prop_sub_ref_dec_locked st1 s) : Except Fault (State F))
      = match (a.toList ++ b.toList).foldlM
            (fun acc p => prop_ref_dec_locked acc (some p)) st with
        | .error e => .error e
        | .ok st1 => .ok (prop_sub_ref_dec_locked st1 s) := by
  have h := release_two st a b
  generalize (a.toList ++ b.toList).foldlM
    (fun acc p => prop_ref_dec_locked acc (some p)) st = r at h ⊢
  subst h
  rfl

theorem notify_free_eq (st : State F) (n : prop_notify_t F) :
    prop_notify_free st n
      = match (record_refs n).foldlM (fun acc p => prop_ref_dec_locked acc (some p)) st with
        | .error e => .error e
        | .ok st1 => .ok (prop_sub_ref_dec_locked st1 n.hpn_sub) := by
  unfold prop_notify_free record_refs
  cases n.hpn_event <;> dsimp only <;>
    first
    | rfl
    | exact release_option_free st _ _
    | exact release_two_free st _ _ _

/-- The two records that no builder of records makes: the switch of prop_notify_dispatch has
  `case PROP_SET_STRING: break;`, so a record of that event, which no function assigns to
  hpn_event, would invoke nothing, and the loop starts with the assertion that the
  subscription of the record has no PROP_SUB_INTERNAL, which get_notify asserts as well
  before it hands out a record. -/
theorem dispatch_skips_set_string :
    (ex_two_queues.subs 1).hps_zombie = false ∧
      called_records (prop_notify_dispatch
        [{ hpn_sub := 1, hpn_event := .PROP_SET_STRING }] ex_two_queues) = some [] ∧
      (ex_internal.subs 0).hps_zombie = false ∧
      fault_of (prop_notify_dispatch
        [{ hpn_sub := 0, hpn_event := .PROP_SET_VOID }] ex_internal) = some .assert := by
  decide

theorem routed_append (st : State F) (c : Nat) (e : Bool) (L1 L2 : List (Delivery F)) :
    routed st c e (L1 ++ L2) = routed st c e L1 ++ routed st c e L2 := by
  unfold routed
  rw [List.filterMap_append]

theorem routed_sameTree {a b : State F} (h : SameTree a b) (c : Nat) (e : Bool)
    (L : List (Delivery F)) : routed b c e L = routed a c e L := by
  unfold routed
  congr 1
  funext d
  cases d with
  | direct n => rfl
  | queued n => simp only [h.hps_courier, h.hps_flags]

theorem Routed.r_refl (st : State F) : Routed st st [] :=
  ⟨by simp, fun c => by simp [routed]⟩

theorem Routed.r_trans {a b c : State F} {L1 L2 : List (Delivery F)} (hs : SameTree a b)
    (h1 : Routed a b L1) (h2 : Routed b c L2) : Routed a c (L1 ++ L2) := by
  refine ⟨by rw [h2.1, h1.1, List.append_assoc], fun k => ?_⟩
  rw [(h2.2 k).1, (h2.2 k).2, (h1.2 k).1, (h1.2 k).2, routed_append, routed_append,
    routed_sameTree hs, routed_sameTree hs, List.append_assoc, List.append_assoc]
  exact ⟨rfl, rfl⟩

/-- The deliveries between two stores are those the log grew by. -/
theorem Routed.of_log {a b : State F} {L L' : List (Delivery F)} (h : Routed a b L)
    (hl : b.log = a.log ++ L') : Routed a b L' := by
  have : L = L' := List.append_cancel_left (h.1.symm.trans hl)
  rw [← this]
  exact h

theorem routed_of_nodes {a b : State F} (hc : b.couriers = a.couriers)
    (hl : b.log = a.log) : Routed a b [] :=
  ⟨by rw [hl]; simp, fun c => by rw [hc]; simp [routed]⟩

theorem courier_notify_queues (st : State F) (c k : Nat) :
    ((courier_notify st c).couriers k).pc_queue_exp = (st.couriers k).pc_queue_exp ∧
      ((courier_notify st c).couriers k).pc_queue_nor = (st.couriers k).pc_queue_nor := by
  unfold courier_notify
  dsimp only
  split
  · unfold State.setCourier
    dsimp only
    split
    · next e => subst e; exact ⟨rfl, rfl⟩
    · exact ⟨rfl, rfl⟩
  · split
    · unfold State.setCourier
      dsimp only
      split
      · next e => subst e; exact ⟨rfl, rfl⟩
      · exact ⟨rfl, rfl⟩
    · exact ⟨rfl, rfl⟩

theorem routed_courier_enqueue (st : State F) (n : prop_notify_t F) :
    Routed st (courier_enqueue st n.hpn_sub n) [.queued n] := by
  refine ⟨by simp, fun k => ?_⟩
  unfold courier_enqueue
  dsimp only
  rw [(courier_notify_queues _ _ k).1, (courier_notify_queues _ _ k).2]
  unfold queue_insert_tail routed
  dsimp only
  by_cases hk : k = (st.subs n.hpn_sub).hps_courier
  · subst hk
    cases he : (st.subs n.hpn_sub).hps_flags.PROP_SUB_EXPEDITE <;>
      simp [State.setCourier, he]
  · have hk2 : ¬ (st.subs n.hpn_sub).hps_courier = k := fun e => hk e.symm
    cases he : (st.subs n.hpn_sub).hps_flags.PROP_SUB_EXPEDITE <;>
      simp [State.setCourier, he, hk, hk2]

theorem routed_of_build_notify_value {st st' : State F} {s p : Nat} {direct : Bool}
    {pnq pnq' : Option (List (prop_notify_t F))} {how : Int}
    (h : prop_build_notify_value st s direct p pnq how = .ok (st', pnq')) :
    ∃ L, Routed st st' L := by
  unfold prop_build_notify_value at h
  split at h
  · split at h
    · cases h
    · cases h
      exact ⟨_, rfl, fun c => by simp [routed, call_direct]⟩
  · split at h
    · cases h
    · next st1 hg =>
      have hst := sameTree_get_notify hg
      have h1 : Routed st (prop_ref_inc st1 p) [] := by
        unfold get_notify at hg
        split at hg
        · cases hg
        · cases hg
          exact routed_of_nodes rfl rfl
      dsimp only at h
      split at h
      · cases h
      · split at h
        · cases h; exact ⟨_, h1⟩
        · cases h
          next ev a _ _ =>
          exact ⟨_, Routed.r_trans (hst.st_trans (sameTree_ref_inc _ p)) h1
            (routed_courier_enqueue (prop_ref_inc st1 p)
              { hpn_sub := s, hpn_event := ev, u := a, hpn_prop2 := some p })⟩

theorem routed_of_notify_value_subs (skipme : Option Nat) (how : Int) :
    ∀ (l : List Nat) (st st' : State F), notify_value_subs skipme how l st = .ok st' →
      ∃ L, Routed st st' L := by
  intro l
  induction l with
  | nil => intro st st' h; cases h; exact ⟨_, Routed.r_refl _⟩
  | cons s rest ih =>
    intro st st' h
    unfold notify_value_subs at h
    split at h
    · exact ih st st' h
    · split at h
      · cases h
      · split at h
        · cases h
        · next st1 _ hb =>
          obtain ⟨L1, r1⟩ := routed_of_build_notify_value hb
          obtain ⟨L2, r2⟩ := ih st1 st' h
          exact ⟨_, Routed.r_trans (sameTree_of_build_notify_value hb) r1 r2⟩

theorem routed_of_notify_multi_subs (q : Nat) :
    ∀ (l : List Nat) (st st' : State F), notify_multi_subs q l st = .ok st' →
      ∃ L, Routed st st' L := by
  intro l
  induction l with
  | nil => intro st st' h; cases h; exact ⟨_, Routed.r_refl _⟩
  | cons s rest ih =>
    intro st st' h
    unfold notify_multi_subs at h
    split at h
    · split at h
      · cases h
      · next st1 _ hb =>
        obtain ⟨L1, r1⟩ := routed_of_build_notify_value hb
        obtain ⟨L2, r2⟩ := ih st1 st' h
        exact ⟨_, Routed.r_trans (sameTree_of_build_notify_value hb) r1 r2⟩
    · exact ih st st' h

theorem routed_of_notify_multi_walk :
    ∀ (fuel : Nat) (st st' : State F) (p : Nat), notify_multi_walk fuel st p = .ok st' →
      ∃ L, Routed st st' L := by
  intro fuel
  induction fuel with
  | zero => intro st st' p h; cases h
  | succ n ih =>
    intro st st' p h
    unfold notify_multi_walk at h
    split at h
    · cases h; exact ⟨_, Routed.r_refl _⟩
    · split at h
      · split at h
        · cases h
        · next st1 hm =>
          obtain ⟨L1, r1⟩ := routed_of_notify_multi_subs _ _ _ _ hm
          obtain ⟨L2, r2⟩ := ih st1 st' _ h
          exact ⟨_, Routed.r_trans (sameTree_of_notify_multi_subs _ _ _ _ hm) r1 r2⟩
      · exact ih st st' _ h

theorem routed_of_prop_notify_value {st st' : State F} {p : Nat} {skipme : Option Nat}
    {how : Int} (h : prop_notify_value st p skipme how = .ok st') : ∃ L, Routed st st' L := by
  unfold prop_notify_value at h
  split at h
  · cases h
  · next st1 h1 =>
    obtain ⟨L1, r1⟩ := routed_of_notify_value_subs _ _ _ _ _ h1
    split at h
    · obtain ⟨L2, r2⟩ := routed_of_notify_multi_walk _ _ _ _ h
      exact ⟨_, Routed.r_trans (sameTree_of_notify_value_subs _ _ _ _ _ h1) r1 r2⟩
    · cases h; exact ⟨_, r1⟩

theorem value_record_shape (st : State F) (s p : Nat) (how : Int)
    (hz : (st.nodes p).hp_type ≠ .PROP_ZOMBIE) :
    ∃ n : prop_notify_t F, n.hpn_sub = s ∧ n.hpn_prop2 = some p ∧
      value_record st s p how
        = [if (st.subs s).hps_flags.PROP_SUB_INTERNAL then .direct n else .queued n] := by
  unfold value_record
  by_cases hi : (st.subs s).hps_flags.PROP_SUB_INTERNAL = true
  · obtain ⟨⟨ev, a⟩, hr⟩ := direct_value_args_ok (st.nodes p).u how hz
    rw [if_pos hi, hr]
    exact ⟨_, rfl, rfl, by rw [if_pos hi]⟩
  · obtain ⟨⟨ev, a⟩, hr⟩ := queued_value_args_ok (st.nodes p).u how hz
    rw [if_neg hi, hr]
    exact ⟨_, rfl, rfl, by rw [if_neg hi]⟩

/-- C27 (as stated): in `ex_direct` the subscription 0 on the value list of the root has
  PROP_SUB_DIRECT_UPDATE and not PROP_SUB_INTERNAL. `prop_set_int(root, 5)` invokes inline
  only the callback of subscription 1, which has PROP_SUB_INTERNAL, and appends a record for
  subscription 0 to the normal queue of its courier, after the record of subscription 3. -/
theorem direct_update_is_queued :
    (ex_direct.nodes 0).hp_value_subscriptions = [3, 2, 1, 0] ∧
      (ex_direct.subs 0).hps_flags.PROP_SUB_DIRECT_UPDATE = true ∧
      (ex_direct.subs 0).hps_flags.PROP_SUB_INTERNAL = false ∧
      (ex_direct.couriers 0).pc_queue_nor = [] ∧
      (ex_direct.couriers 0).pc_queue_exp = [] ∧
      ((state_after (prop_set_int_ex ex_direct (some 0) none 5)).log.drop
          ex_direct.log.length).filterMap (fun d =>
            match d with
            | .direct n => some (n.hpn_sub, n.hpn_event)
            | .queued _ => none) = [(1, .PROP_SET_INT)] ∧
      ((state_after (prop_set_int_ex ex_direct (some 0) none 5)).couriers 0).pc_queue_nor.map
          (fun n => (n.hpn_sub, n.hpn_event)) = [(3, .PROP_SET_INT), (0, .PROP_SET_INT)] ∧
      ((state_after (prop_set_int_ex ex_direct (some 0) none 5)).couriers 0).pc_queue_exp.map
          (fun n => (n.hpn_sub, n.hpn_event)) = [(2, .PROP_SET_INT)] := by
  decide

/-- C27 (amended): prop_notify_value on a node p that is no zombie returns, and what it
  delivers is `notify_records`: for every subscription s on the value list of p but skipme,
  in list order, one delivery about p, then the deliveries of the upward walk. The delivery
  to s is the inline call of its callback when s has PROP_SUB_INTERNAL and else, also
  with PROP_SUB_DIRECT_UPDATE, one record; the expedited queue of every courier grows at
  its tail by exactly the records for its subscriptions with PROP_SUB_EXPEDITE and its
  normal queue by the records for its other subscriptions, in the order of delivery. -/
theorem value_change_delivery (st : State F) (p : Nat) (skipme : Option Nat) (how : Int)
    (hz : (st.nodes p).hp_type ≠ .PROP_ZOMBIE) (hn : NotifyOk st p skipme) :
    ∃ st', prop_notify_value st p skipme how = .ok st' ∧
      Routed st st' (notify_records st p skipme how) ∧
      ∀ s, ∃ n : prop_notify_t F, n.hpn_sub = s ∧ n.hpn_prop2 = some p ∧
        value_record st s p how
          = [if (st.subs s).hps_flags.PROP_SUB_INTERNAL then .direct n else .queued n] := by
  obtain ⟨st', h1, _, h3⟩ := prop_notify_value_ok st p skipme how hz hn
  obtain ⟨L, hr⟩ := routed_of_prop_notify_value h1
  exact ⟨st', h1, hr.of_log h3, fun s => value_record_shape st s p how hz⟩

theorem value_change_delivery_witness :
    (ex_direct.nodes 0).hp_type ≠ .PROP_ZOMBIE ∧
      ∃ st', prop_notify_value ex_direct 0 none 0 = .ok st' ∧
        Routed ex_direct st' (notify_records ex_direct 0 none 0) ∧
        ∀ s, ∃ n : prop_notify_t SmallFloat, n.hpn_sub = s ∧ n.hpn_prop2 = some 0 ∧
          value_record ex_direct s 0 0
            = [if (ex_direct.subs s).hps_flags.PROP_SUB_INTERNAL then .direct n
              else .queued n] :=
  ⟨by decide, value_change_delivery ex_direct 0 none 0 (by decide)
    ⟨by decide, fun h => absurd h (by decide)⟩⟩

/-! ## C25: the reference a link holds on its origin -/

/-- C25: in `ex_relinked` the node d was linked to a with PROP_LINK_XREFED and unlinked,
  which took hp_xref of a from 1 to 2 and back to 1 and left PROP_XREFED_ORIGINATOR set on
  d. The soft link of d to b leaves hp_xref of b at 1 and finds the flag set; the
  `prop_unlink(d)` after it takes hp_xref of b to 0 and makes b a zombie. Without the earlier hard link the same soft link
  and unlink leave b alone. -/
theorem soft_unlink_drops_origin :
    returned (run_api ex_relinked_calls State.empty) = true ∧
      ((ex_relinked 3).nodes 0).hp_xref = 1 ∧
      ((ex_relinked 4).nodes 0).hp_xref = 2 ∧
      ((ex_relinked 4).nodes 2).hp_flags.PROP_XREFED_ORIGINATOR = true ∧
      ((ex_relinked 5).nodes 0).hp_xref = 1 ∧
      ((ex_relinked 5).nodes 2).hp_originator = none ∧
      ((ex_relinked 5).nodes 2).hp_flags.PROP_XREFED_ORIGINATOR = true ∧
      ((ex_relinked 5).nodes 1).hp_xref = 1 ∧
      ((ex_relinked 6).nodes 1).hp_xref = 1 ∧
      ((ex_relinked 6).nodes 2).hp_originator = some 1 ∧
      ((ex_relinked 6).nodes 2).hp_flags.PROP_XREFED_ORIGINATOR = true ∧
      ((ex_relinked 7).nodes 2).hp_originator = none ∧
      ((ex_relinked 7).nodes 1).hp_xref = 0 ∧
      ((ex_relinked 7).nodes 1).hp_type = .PROP_ZOMBIE ∧
      (ex_soft_only.nodes 1).hp_xref = 1 ∧
      (ex_soft_only.nodes 1).hp_type = .PROP_VOID := by
  decide

/-! ## C22: a link between scalar nodes -/

theorem monitor_active_ok : ∀ (l : List Nat) (st : State F),
    (∀ t ∈ l, (st.subs t).hps_flags.PROP_SUB_SUBSCRIPTION_MONITOR = true →
      (st.subs t).hps_flags.PROP_SUB_INTERNAL = false) →
    ∃ st' M, prop_send_subscription_monitor_active l st = .ok st' ∧ SameTree st st' ∧
      st'.log = st.log ++ M ∧
      ∀ d ∈ M, d.n.hpn_event = .PROP_SUBSCRIPTION_MONITOR_ACTIVE := by
  intro l
  induction l with
  | nil => intro st _; exact ⟨st, [], rfl, SameTree.st_refl _, by simp, by simp⟩
  | cons t rest ih =>
    intro st h
    unfold prop_send_subscription_monitor_active
    by_cases hm : (st.subs t).hps_flags.PROP_SUB_SUBSCRIPTION_MONITOR = true
    · have hi := h t (List.mem_cons_self _ _) hm
      have hg : get_notify st t = .ok (st.setSub t
          { st.subs t with hps_refcount := (st.subs t).hps_refcount + 1 }) := by
        simp [get_notify, hi]
      have hs1 := sameTree_get_notify hg
      rw [if_pos hm, hg]
      dsimp only
      have hs2 := hs1.st_trans (sameTree_courier_enqueue
        (st.setSub t { st.subs t with hps_refcount := (st.subs t).hps_refcount + 1 }) t
        { hpn_sub := t, hpn_event := .PROP_SUBSCRIPTION_MONITOR_ACTIVE })
      obtain ⟨st', M, e1, e2, e3, e4⟩ := ih _ (fun x hx hxm => by
        rw [hs2.hps_flags x] at hxm ⊢
        exact h x (List.mem_cons_of_mem _ hx) hxm)
      refine ⟨st', Delivery.queued
        { hpn_sub := t, hpn_event := .PROP_SUBSCRIPTION_MONITOR_ACTIVE } :: M, e1,
        hs2.st_trans e2, ?_, ?_⟩
      · rw [e3]
        simp
      · intro d hd
        rcases List.mem_cons.1 hd with e | hd
        · subst e; rfl
        · exact e4 d hd
    · rw [if_neg hm]
      exact ih st (fun x hx => h x (List.mem_cons_of_mem _ hx))

theorem value_compare_congr [CFloat F] {a a' b b' : prop_t F} (ha : a'.u = a.u)
    (hb : b'.u = b.u) : prop_value_compare a' b' = prop_value_compare a b := by
  unfold prop_value_compare
  rw [ha, hb]

theorem tailq_remove_mem {l : List Nat} {s : Nat} (h : s ∈ l) :
    tailq_remove l s = some (l.erase s) := by
  unfold tailq_remove
  simp [h]

theorem courier_enqueue_nodes (st : State F) (s : Nat) (n : prop_notify_t F) :
    (courier_enqueue st s n).nodes = st.nodes := by
  unfold courier_enqueue courier_notify queue_insert_tail
  dsimp only
  cases (st.subs s).hps_flags.PROP_SUB_EXPEDITE <;> (repeat' split) <;> rfl

theorem courier_enqueue_subs (st : State F) (s : Nat) (n : prop_notify_t F) :
    (courier_enqueue st s n).subs = st.subs := by
  unfold courier_enqueue courier_notify queue_insert_tail
  dsimp only
  cases (st.subs s).hps_flags.PROP_SUB_EXPEDITE <;> (repeat' split) <;> rfl

theorem monitor_active_nodes : ∀ (l : List Nat) (st st' : State F),
    prop_send_subscription_monitor_active l st = .ok st' → st'.nodes = st.nodes := by
  intro l
  induction l with
  | nil => intro st st' h; cases h; rfl
  | cons t rest ih =>
    intro st st' h
    unfold prop_send_subscription_monitor_active at h
    split at h
    · split at h
      · cases h
      · rename_i st1 hg
        rw [ih _ _ h, courier_enqueue_nodes]
        unfold get_notify at hg
        split at hg
        · cases hg
        · cases hg; rfl
    · exact ih _ _ h

theorem build_value_ok (st : State F) (s p : Nat) (how : Int)
    (pnq : prop_notify_queue F) (hz : (st.nodes p).hp_type ≠ .PROP_ZOMBIE) :
    ∃ st', prop_build_notify_value st s false p pnq how
        = .ok (st', pnq.map fun q => q ++ queued_of (value_record st s p how)) ∧
      SameTree st st' ∧
      st'.log = st.log ++
        (if pnq.isSome then direct_of (value_record st s p how)
          else value_record st s p how) ∧
      ∀ q, (st'.nodes q).hp_refcount = (st.nodes q).hp_refcount
        + if q = p then ((queued_of (value_record st s p how)).length : Int) else 0 := by
  unfold prop_build_notify_value value_record
  by_cases hi : (st.subs s).hps_flags.PROP_SUB_INTERNAL = true
  · obtain ⟨⟨ev, a⟩, hr⟩ := direct_value_args_ok (st.nodes p).u how hz
    simp only [hi, Bool.or_true, if_true, hr]
    refine ⟨call_direct st { hpn_sub := s, hpn_event := ev, u := a, hpn_prop2 := some p }, ?_,
      sameTree_call_direct _ _, ?_, ?_⟩
    · cases pnq <;> simp [queued_of]
    · cases pnq <;> simp [direct_of, call_direct]
    · intro q
      simp [call_direct, queued_of]
  · have hg : get_notify st s = .ok (st.setSub s
        { st.subs s with hps_refcount := (st.subs s).hps_refcount + 1 }) := by
      simp [get_notify, hi]
    have hst := sameTree_get_notify hg
    have hu2 : ((prop_ref_inc (st.setSub s
        { st.subs s with hps_refcount := (st.subs s).hps_refcount + 1 }) p).nodes p).u
        = (st.nodes p).u := by
      rw [(sameTree_ref_inc _ p).u p, hst.u p]
    obtain ⟨⟨ev, a⟩, hr⟩ := queued_value_args_ok (st.nodes p).u how hz
    simp only [hi, Bool.or_false, Bool.false_eq_true, if_false, hg, hu2, hr]
    cases pnq with
    | none =>
      refine ⟨_, rfl, (hst.st_trans (sameTree_ref_inc _ p)).st_trans
        (sameTree_courier_enqueue _ _ _), ?_, ?_⟩
      · simp [prop_ref_inc]
      · intro x
        rw [courier_enqueue_nodes]
        by_cases e : x = p
        · subst e; simp [prop_ref_inc, queued_of]
        · simp [prop_ref_inc, queued_of, e]
    | some q =>
      refine ⟨prop_ref_inc (st.setSub s
        { st.subs s with hps_refcount := (st.subs s).hps_refcount + 1 }) p, ?_,
        hst.st_trans (sameTree_ref_inc _ p), ?_, ?_⟩
      · simp [queued_of]
      · simp [prop_ref_inc, direct_of]
      · intro x
        by_cases e : x = p
        · subst e; simp [prop_ref_inc, queued_of]
        · simp [prop_ref_inc, queued_of, e]

theorem SameTree.set_pending {a b : State F} (h : SameTree a b) (s : Nat) (x : Bool) :
    SameTree (a.setSub s { a.subs s with hps_pending_unlink := x })
      (b.setSub s { b.subs s with hps_pending_unlink := x }) := by
  obtain ⟨h1, h2, h3, h4⟩ := h
  refine ⟨h1, h2, fun q => by simpa using h3 q, fun t => ?_⟩
  by_cases e : t = s
  · subst e
    simp only [setSub_subs, if_true]
    rw [h4 t]
  · simp only [setSub_subs, if_neg e]
    exact h4 t

theorem value_record_congr {a b : State F} (s p : Nat) (how : Int)
    (hf : (b.subs s).hps_flags = (a.subs s).hps_flags) (hu : (b.nodes p).u = (a.nodes p).u) :
    value_record b s p how = value_record a s p how := by
  unfold value_record
  rw [hf, hu]

theorem relinked_pending (st : State F) (s v r : Nat) (x : Bool) :
    (relinked st s v r (st.subs s).hps_pending_unlink).setSub s
        { (relinked st s v r (st.subs s).hps_pending_unlink).subs s with
          hps_pending_unlink := x }
      = relinked st s v r x := by
  unfold relinked
  dsimp only
  unfold State.setSub
  simp only [State.mk.injEq, true_and, and_true]
  funext q
  by_cases e : q = s <;> simp [e]

theorem relink_one_ok [CFloat F] (st : State F) (r v s : Nat) (skipme : Option Nat)
    (pnq : prop_notify_queue F) (eq : Bool)
    (hv : (st.subs s).hps_value_prop = some v) (hvr : v ≠ r)
    (hmem : s ∈ (st.nodes v).hp_value_subscriptions)
    (hvd : (st.nodes v).hp_type ≠ .PROP_DIR)
    (hcmp : prop_value_compare (st.nodes v) (st.nodes r) = .ok eq)
    (hrz : (st.nodes r).hp_type ≠ .PROP_ZOMBIE) (hrd : (st.nodes r).hp_type ≠ .PROP_DIR)
    (hmon : ∀ t ∈ s :: (st.nodes r).hp_value_subscriptions,
      (st.subs t).hps_flags.PROP_SUB_SUBSCRIPTION_MONITOR = true →
      (st.subs t).hps_flags.PROP_SUB_INTERNAL = false) :
    ∃ st' M, relink_one r skipme s st pnq
        = .ok (st', if some s = skipme ∨ eq = true then pnq
          else pnq.map fun q => q ++ queued_of (value_record st s r 0)) ∧
      SameTree (relinked st s v r
        (if some s = skipme ∨ eq = true then (st.subs s).hps_pending_unlink
          else pnq.isSome)) st' ∧
      (∀ d ∈ M, d.n.hpn_event = .PROP_SUBSCRIPTION_MONITOR_ACTIVE) ∧
      st'.log = st.log ++ M ++
        (if some s = skipme ∨ eq = true then []
          else if pnq.isSome then direct_of (value_record st s r 0)
          else value_record st s r 0) ∧
      ∀ q, (st'.nodes q).hp_refcount = (st.nodes q).hp_refcount
        + if q = r then ((if some s = skipme ∨ eq = true then []
            else queued_of (value_record st s r 0)).length : Int) else 0 := by
  have hne : (st.subs s).hps_value_prop ≠ some r := by
    rw [hv]; intro e; cases e; exact hvr rfl
  -- the store after the subscription changed lists
  have h4 : relinked st s v r (st.subs s).hps_pending_unlink
      = ((st.setNode v { st.nodes v with hp_value_subscriptions :=
            (st.nodes v).hp_value_subscriptions.erase s }).setNode r
          { (st.setNode v { st.nodes v with hp_value_subscriptions :=
              (st.nodes v).hp_value_subscriptions.erase s }).nodes r with
            hp_value_subscriptions := s :: ((st.setNode v { st.nodes v with
              hp_value_subscriptions :=
                (st.nodes v).hp_value_subscriptions.erase s }).nodes r).hp_value_subscriptions
          }).setSub s
          { ((st.setNode v { st.nodes v with hp_value_subscriptions :=
            (st.nodes v).hp_value_subscriptions.erase s }).setNode r
          { (st.setNode v { st.nodes v with hp_value_subscriptions :=
              (st.nodes v).hp_value_subscriptions.erase s }).nodes r with
            hp_value_subscriptions := s :: ((st.setNode v { st.nodes v with
              hp_value_subscriptions :=
                (st.nodes v).hp_value_subscriptions.erase s }).nodes r).hp_value_subscriptions
          }).subs s with hps_value_prop := some r } := by
    unfold relinked
    rfl
  have hrv : r ≠ v := fun e => hvr e.symm
  have hlist : ((relinked st s v r (st.subs s).hps_pending_unlink).nodes r).hp_value_subscriptions
      = s :: (st.nodes r).hp_value_subscriptions := by
    unfold relinked
    simp [hrv]
  have hfl : ∀ t, ((relinked st s v r (st.subs s).hps_pending_unlink).subs t).hps_flags
      = (st.subs t).hps_flags := by
    intro t
    unfold relinked
    by_cases e : t = s
    · subst e; simp
    · simp [e]
  have hur : ((relinked st s v r (st.subs s).hps_pending_unlink).nodes r).u = (st.nodes r).u := by
    unfold relinked
    simp [hrv]
  have hflag : ((relinked st s v r (st.subs s).hps_pending_unlink).nodes r).hp_flags
      = (st.nodes r).hp_flags := by
    unfold relinked
    simp [hrv]
  -- the monitors
  have hmonitored : ∃ st5 M, (if ((relinked st s v r
        (st.subs s).hps_pending_unlink).nodes r).hp_flags.PROP_MONITORED = true then
        prop_send_subscription_monitor_active
          ((relinked st s v r (st.subs s).hps_pending_unlink).nodes r).hp_value_subscriptions
          (relinked st s v r (st.subs s).hps_pending_unlink)
        else .ok (relinked st s v r (st.subs s).hps_pending_unlink)) = .ok st5 ∧
      SameTree (relinked st s v r (st.subs s).hps_pending_unlink) st5 ∧
      st5.log = st.log ++ M ∧
      ∀ d ∈ M, d.n.hpn_event = .PROP_SUBSCRIPTION_MONITOR_ACTIVE := by
    split
    · obtain ⟨st5, M, e1, e2, e3, e4⟩ := monitor_active_ok
        ((relinked st s v r (st.subs s).hps_pending_unlink).nodes r).hp_value_subscriptions
        (relinked st s v r (st.subs s).hps_pending_unlink) (by
          intro t ht
          rw [hlist] at ht
          rw [hfl t]
          exact hmon t ht)
      exact ⟨st5, M, e1, e2, by rw [e3]; rfl, e4⟩
    · exact ⟨_, [], rfl, SameTree.st_refl _, by simp [relinked], by simp⟩
  obtain ⟨st5, M, hm1, hm2, hm3, hm4⟩ := hmonitored
  have hm5 : ∀ q, (st5.nodes q).hp_refcount = (st.nodes q).hp_refcount := by
    intro q
    have hn : st5.nodes = (relinked st s v r (st.subs s).hps_pending_unlink).nodes := by
      split at hm1
      · exact monitor_active_nodes _ _ _ hm1
      · cases hm1; rfl
    rw [hn]
    unfold relinked
    by_cases e1 : q = r
    · subst e1; simp [hrv]
    · by_cases e2 : q = v
      · subst e2; simp [e1]
      · simp [e1, e2]
  have hcmp2 : prop_value_compare
      ((st.setNode v { st.nodes v with hp_value_subscriptions :=
        (st.nodes v).hp_value_subscriptions.erase s }).nodes v)
      ((st.setNode v { st.nodes v with hp_value_subscriptions :=
        (st.nodes v).hp_value_subscriptions.erase s }).nodes r) = .ok eq := by
    rw [← hcmp]
    apply value_compare_congr
    · simp
    · simp [hrv]
  unfold relink_one
  rw [if_neg hne]
  simp only [hv]
  have hvd' : ((st.nodes v).hp_type = .PROP_DIR && decide (some s ≠ skipme)) = false := by
    simp [hvd]
  rw [hvd']
  simp only [Bool.false_eq_true, if_false, tailq_remove_mem hmem, hcmp2]
  rw [← h4, hm1]
  dsimp only
  by_cases hskip : some s = skipme ∨ eq = true
  · rw [if_pos hskip, if_pos hskip, if_pos hskip]
    have : (decide (some s = skipme) || eq) = true := by
      rcases hskip with e | e
      · simp [e]
      · simp [e]
    rw [if_pos this]
    exact ⟨st5, M, rfl, hm2, hm4, by rw [hm3]; simp, fun q => by rw [hm5 q, if_pos hskip]; simp⟩
  · rw [if_neg hskip, if_neg hskip, if_neg hskip]
    have : ¬ ((decide (some s = skipme) || eq) = true) := by
      intro h
      apply hskip
      simpa using h
    rw [if_neg this]
    have hz6 : ((st5.setSub s { st5.subs s with hps_pending_unlink := pnq.isSome }).nodes
        r).hp_type ≠ .PROP_ZOMBIE := by
      rw [setSub_nodes, hm2.hp_type r]
      unfold prop_t.hp_type
      rw [hur]
      exact hrz
    obtain ⟨st7, b1, b2, b3, b4⟩ := build_value_ok
      (st5.setSub s { st5.subs s with hps_pending_unlink := pnq.isSome }) s r 0 pnq hz6
    have hvr6 : value_record (st5.setSub s { st5.subs s with hps_pending_unlink := pnq.isSome })
        s r 0 = value_record st s r 0 := by
      apply value_record_congr
      · simp only [setSub_subs, if_true]
        rw [hm2.hps_flags s, hfl s]
      · rw [setSub_nodes, hm2.u r, hur]
    rw [hvr6] at b1 b3 b4
    rw [b1]
    dsimp only
    have hd7 : ¬ ((st7.nodes r).hp_type = .PROP_DIR) := by
      rw [b2.hp_type r, setSub_nodes, hm2.hp_type r]
      unfold prop_t.hp_type
      rw [hur]
      exact hrd
    rw [if_neg hd7]
    refine ⟨st7, M, rfl, ?_, hm4, ?_, fun q => by rw [b4 q, setSub_nodes, hm5 q, if_neg hskip]⟩
    · have := (hm2.set_pending s pnq.isSome).st_trans b2
      rw [relinked_pending] at this
      exact this
    · rw [b3]
      simp only [setSub_log]
      rw [hm3]

theorem Kept.k_refl (st : State F) : Kept st st :=
  ⟨rfl, fun _ => rfl, fun _ => rfl, fun _ => rfl, fun _ => rfl, fun _ => rfl, fun _ => rfl,
    fun _ => rfl, fun _ => rfl⟩

theorem Kept.k_trans {a b c : State F} (h1 : Kept a b) (h2 : Kept b c) : Kept a c :=
  ⟨h2.nnodes.trans h1.nnodes, fun q => (h2.u q).trans (h1.u q),
    fun q => (h2.parent q).trans (h1.parent q),
    fun q => (h2.originator q).trans (h1.originator q),
    fun q => (h2.targets q).trans (h1.targets q), fun q => (h2.multi q).trans (h1.multi q),
    fun q => (h2.clipped q).trans (h1.clipped q),
    fun s => (h2.flags s).trans (h1.flags s), fun s => (h2.courier s).trans (h1.courier s)⟩

theorem Kept.k_of_sameTree {a b : State F} (h : SameTree a b) : Kept a b :=
  ⟨h.1, fun q => h.u q, fun q => h.hp_parent q, fun q => h.hp_originator q,
    fun q => h.hp_targets q, fun q => by rw [h.hp_flags q], fun q => by rw [h.hp_flags q],
    fun s => h.hps_flags s, fun s => h.hps_courier s⟩

theorem kept_relinked (st : State F) (s v r : Nat) (x : Bool) :
    Kept st (relinked st s v r x) := by
  unfold relinked
  refine ⟨rfl, fun q => ?_, fun q => ?_, fun q => ?_, fun q => ?_, fun q => ?_, fun q => ?_,
    fun t => ?_, fun t => ?_⟩
  · by_cases e0 : r = v
    · subst e0; by_cases e1 : q = r
      · subst e1; simp
      · simp [e1]
    · by_cases e1 : q = r
      · subst e1; simp [e0]
      · by_cases e2 : q = v
        · subst e2; simp [e1]
        · simp [e1, e2]
  · by_cases e0 : r = v
    · subst e0; by_cases e1 : q = r
      · subst e1; simp
      · simp [e1]
    · by_cases e1 : q = r
      · subst e1; simp [e0]
      · by_cases e2 : q = v
        · subst e2; simp [e1]
        · simp [e1, e2]
  · by_cases e0 : r = v
    · subst e0; by_cases e1 : q = r
      · subst e1; simp
      · simp [e1]
    · by_cases e1 : q = r
      · subst e1; simp [e0]
      · by_cases e2 : q = v
        · subst e2; simp [e1]
        · simp [e1, e2]
  · by_cases e0 : r = v
    · subst e0; by_cases e1 : q = r
      · subst e1; simp
      · simp [e1]
    · by_cases e1 : q = r
      · subst e1; simp [e0]
      · by_cases e2 : q = v
        · subst e2; simp [e1]
        · simp [e1, e2]
  · by_cases e0 : r = v
    · subst e0; by_cases e1 : q = r
      · subst e1; simp
      · simp [e1]
    · by_cases e1 : q = r
      · subst e1; simp [e0]
      · by_cases e2 : q = v
        · subst e2; simp [e1]
        · simp [e1, e2]
  · by_cases e0 : r = v
    · subst e0; by_cases e1 : q = r
      · subst e1; simp
      · simp [e1]
    · by_cases e1 : q = r
      · subst e1; simp [e0]
      · by_cases e2 : q = v
        · subst e2; simp [e1]
        · simp [e1, e2]
  · by_cases e : t = s <;> simp [e]
  · by_cases e : t = s <;> simp [e]

theorem relinked_subs_ne (st : State F) (s v r : Nat) (x : Bool) (t : Nat) (h : t ≠ s) :
    (relinked st s v r x).subs t = st.subs t := by
  unfold relinked
  simp [h]

theorem relinked_subs_self (st : State F) (s v r : Nat) (x : Bool) :
    (relinked st s v r x).subs s
      = { st.subs s with hps_value_prop := some r, hps_pending_unlink := x } := by
  unfold relinked
  simp

theorem relinked_list_old (st : State F) (s v r : Nat) (x : Bool) (h : v ≠ r) :
    ((relinked st s v r x).nodes v).hp_value_subscriptions
      = (st.nodes v).hp_value_subscriptions.erase s := by
  unfold relinked
  simp [h]

theorem relinked_list_new (st : State F) (s v r : Nat) (x : Bool) (h : v ≠ r) :
    ((relinked st s v r x).nodes r).hp_value_subscriptions
      = s :: (st.nodes r).hp_value_subscriptions := by
  have h' : r ≠ v := fun e => h e.symm
  unfold relinked
  simp [h']

theorem relinked_list_other (st : State F) (s v r : Nat) (x : Bool) (q : Nat) (h1 : q ≠ v)
    (h2 : q ≠ r) :
    ((relinked st s v r x).nodes q).hp_value_subscriptions
      = (st.nodes q).hp_value_subscriptions := by
  unfold relinked
  simp [h1, h2]

theorem relinked_canonical (st : State F) (s v r : Nat) (x : Bool) (q : Nat) :
    ((relinked st s v r x).nodes q).hp_canonical_subscriptions
      = (st.nodes q).hp_canonical_subscriptions := by
  unfold relinked
  by_cases e0 : r = v
  · subst e0; by_cases e1 : q = r
    · subst e1; simp
    · simp [e1]
  · by_cases e1 : q = r
    · subst e1; simp [e0]
    · by_cases e2 : q = v
      · subst e2; simp [e1]
      · simp [e1, e2]

theorem value_record_events (st : State F) (s p : Nat) (how : Int) :
    ∀ d ∈ value_record st s p how, d.n.hpn_sub = s ∧ d.n.hpn_event.is_value = true := by
  intro d hd
  unfold value_record at hd
  split at hd
  · cases hu : (st.nodes p).u <;> simp [hu, direct_value_args] at hd <;> subst hd <;>
      exact ⟨rfl, rfl⟩
  · cases hu : (st.nodes p).u <;> simp [hu, queued_value_args] at hd <;> subst hd <;>
      exact ⟨rfl, rfl⟩

theorem relinked_xref (st : State F) (s v r : Nat) (x : Bool) (q : Nat) :
    ((relinked st s v r x).nodes q).hp_xref = (st.nodes q).hp_xref := by
  unfold relinked
  by_cases e0 : r = v
  · subst e0; by_cases e1 : q = r
    · subst e1; simp
    · simp [e1]
  · by_cases e1 : q = r
    · subst e1; simp [e0]
    · by_cases e2 : q = v
      · subst e2; simp [e1]
      · simp [e1, e2]

theorem monitor_events_filtered (M : List (Delivery F)) (s : Nat)
    (h : ∀ d ∈ M, d.n.hpn_event = .PROP_SUBSCRIPTION_MONITOR_ACTIVE) :
    M.filter (fun d => decide (d.n.hpn_sub = s) && d.n.hpn_event.is_value) = [] := by
  apply List.filter_eq_nil_iff.2
  intro d hd
  rw [h d hd]
  simp [prop_event_t.is_value]

theorem value_record_filtered (st : State F) (t p : Nat) (how : Int) (s : Nat)
    (X : List (Delivery F)) (hX : ∀ d ∈ X, d ∈ value_record st t p how) :
    X.filter (fun d => decide (d.n.hpn_sub = s) && d.n.hpn_event.is_value)
      = if s = t then X else [] := by
  split
  · next e =>
    apply List.filter_eq_self.2
    intro d hd
    obtain ⟨h1, h2⟩ := value_record_events st t p how d (hX d hd)
    simp [h1, h2, e]
  · next e =>
    apply List.filter_eq_nil_iff.2
    intro d hd
    obtain ⟨h1, _⟩ := value_record_events st t p how d (hX d hd)
    simp only [h1, Bool.and_eq_true, decide_eq_true_eq, not_and, Bool.not_eq_true]
    intro x
    exact absurd x.symm e

theorem direct_of_mem (L : List (Delivery F)) : ∀ d ∈ direct_of L, d ∈ L := by
  intro d hd
  unfold direct_of at hd
  exact (List.mem_filter.1 hd).1

/-- The first loop of relink_subscriptions over subscriptions that all read the node v,
  which is no directory, towards a node r that is neither a directory nor a zombie. -/
theorem relink_subs_ok [CFloat F] (r v : Nat) (skipme : Option Nat) (eq : Bool)
    (hvr : v ≠ r) :
    ∀ (l : List Nat) (st : State F) (pnq : prop_notify_queue F),
      l.Nodup →
      (∀ t ∈ l, (st.subs t).hps_value_prop = some v ∧
        t ∈ (st.nodes v).hp_value_subscriptions) →
      (st.nodes v).hp_type ≠ .PROP_DIR →
      prop_value_compare (st.nodes v) (st.nodes r) = .ok eq →
      (st.nodes r).hp_type ≠ .PROP_ZOMBIE → (st.nodes r).hp_type ≠ .PROP_DIR →
      (∀ t ∈ l ++ (st.nodes r).hp_value_subscriptions,
        (st.subs t).hps_flags.PROP_SUB_SUBSCRIPTION_MONITOR = true →
        (st.subs t).hps_flags.PROP_SUB_INTERNAL = false) →
      ∃ st' L, relink_subs r skipme l st pnq
          = .ok (st', pnq.map fun q => q ++ l.flatMap fun t =>
            if some t = skipme ∨ eq = true then [] else queued_of (value_record st t r 0)) ∧
        Kept st st' ∧
        (∀ t ∈ l, (st'.subs t).hps_value_prop = some r ∧
          (st'.subs t).hps_pending_unlink
            = if some t = skipme ∨ eq = true then (st.subs t).hps_pending_unlink
              else pnq.isSome) ∧
        (∀ t, t ∉ l → (st'.subs t).hps_value_prop = (st.subs t).hps_value_prop ∧
          (st'.subs t).hps_pending_unlink = (st.subs t).hps_pending_unlink) ∧
        (∀ q, (st'.nodes q).hp_canonical_subscriptions
          = (st.nodes q).hp_canonical_subscriptions) ∧
        (st'.nodes r).hp_value_subscriptions
          = l.reverse ++ (st.nodes r).hp_value_subscriptions ∧
        st'.log = st.log ++ L ∧
        (∀ s, L.filter (fun d => decide (d.n.hpn_sub = s) && d.n.hpn_event.is_value)
          = if s ∈ l ∧ ¬ (some s = skipme ∨ eq = true) then
              (if pnq.isSome then direct_of (value_record st s r 0)
                else value_record st s r 0)
            else []) ∧
        (∀ q, (st'.nodes q).hp_refcount = (st.nodes q).hp_refcount
          + if q = r then ((l.flatMap fun t =>
              if some t = skipme ∨ eq = true then []
              else queued_of (value_record st t r 0)).length : Int) else 0) ∧
        (∀ q, ∀ t ∈ (st'.nodes q).hp_value_subscriptions,
          t ∈ (st.nodes q).hp_value_subscriptions ∨ t ∈ l) ∧
        ∀ q, (st'.nodes q).hp_xref = (st.nodes q).hp_xref := by
  intro l
  induction l with
  | nil =>
    intro st pnq _ _ _ _ _ _ _
    refine ⟨st, [], ?_, Kept.k_refl _, by simp, fun t _ => ⟨rfl, rfl⟩, fun _ => rfl, by simp,
      by simp, by simp, by simp, fun q t h => Or.inl h, fun _ => rfl⟩
    cases pnq <;> simp [relink_subs]
  | cons t rest ih =>
    intro st pnq hnd hl hvd hcmp hrz hrd hmon
    obtain ⟨ht1, ht2⟩ := hl t (List.mem_cons_self _ _)
    obtain ⟨st1, M, e1, e2, e3, e4, e5⟩ := relink_one_ok st r v t skipme pnq eq ht1 hvr ht2 hvd hcmp
      hrz hrd (fun x hx => hmon x (by
        rcases List.mem_cons.1 hx with e | hx
        · subst e; simp
        · simp [hx]))
    have hk1 : Kept st st1 := (kept_relinked _ _ _ _ _).k_trans (Kept.k_of_sameTree e2)
    have hnt : t ∉ rest := (List.nodup_cons.1 hnd).1
    have hsub1 : ∀ x, x ≠ t → (st1.subs x).hps_value_prop = (st.subs x).hps_value_prop ∧
        (st1.subs x).hps_pending_unlink = (st.subs x).hps_pending_unlink := by
      intro x hx
      have h4 := e2.2.2.2 x
      rw [relinked_subs_ne _ _ _ _ _ _ hx] at h4
      rw [h4]
      exact ⟨rfl, rfl⟩
    have hself : (st1.subs t).hps_value_prop = some r ∧ (st1.subs t).hps_pending_unlink
        = if some t = skipme ∨ eq = true then (st.subs t).hps_pending_unlink
          else pnq.isSome := by
      have h4 := e2.2.2.2 t
      rw [relinked_subs_self] at h4
      rw [h4]
      exact ⟨rfl, rfl⟩
    have hcan1 : ∀ q, (st1.nodes q).hp_canonical_subscriptions
        = (st.nodes q).hp_canonical_subscriptions := by
      intro q
      rw [e2.hp_canonical_subscriptions q, relinked_canonical]
    have hvr1 : ∀ x, value_record st1 x r 0 = value_record st x r 0 :=
      fun x => value_record_congr x r 0 (hk1.flags x) (hk1.u r)
    obtain ⟨st', L, f1, f2, f3, f4, f5, f8, f6, f7, f9, f10, f11⟩ := ih st1
      (if some t = skipme ∨ eq = true then pnq
        else pnq.map fun q => q ++ queued_of (value_record st t r 0))
      (List.nodup_cons.1 hnd).2
      (fun x hx => by
        have hxt : x ≠ t := fun e => hnt (e ▸ hx)
        obtain ⟨a1, a2⟩ := hl x (List.mem_cons_of_mem _ hx)
        refine ⟨by rw [(hsub1 x hxt).1]; exact a1, ?_⟩
        rw [e2.hp_value_subscriptions v, relinked_list_old _ _ _ _ _ hvr]
        exact (List.mem_erase_of_ne hxt).2 a2)
      (by unfold prop_t.hp_type; rw [hk1.u v]; exact hvd)
      (by rw [← hcmp]; exact value_compare_congr (hk1.u v) (hk1.u r))
      (by unfold prop_t.hp_type; rw [hk1.u r]; exact hrz)
      (by unfold prop_t.hp_type; rw [hk1.u r]; exact hrd)
      (fun x hx => by
        rw [hk1.flags x]
        apply hmon x
        rw [e2.hp_value_subscriptions r, relinked_list_new _ _ _ _ _ hvr] at hx
        simp only [List.mem_append, List.mem_cons] at hx ⊢
        tauto)
    refine ⟨st', M ++ (if some t = skipme ∨ eq = true then []
          else if pnq.isSome then direct_of (value_record st t r 0)
          else value_record st t r 0) ++ L, ?_, hk1.k_trans f2, ?_, ?_, ?_, ?_, ?_, ?_, ?_, ?_,
      fun q => by rw [f11 q, e2.hp_xref q, relinked_xref]⟩
    · unfold relink_subs
      rw [e1]
      dsimp only
      have hfun : (fun x => if some x = skipme ∨ eq = true then []
            else queued_of (value_record st1 x r 0))
          = fun x => if some x = skipme ∨ eq = true then []
            else queued_of (value_record st x r 0) := by
        funext x
        rw [hvr1 x]
      rw [f1, hfun]
      by_cases hs : some t = skipme ∨ eq = true
      · rw [if_pos hs]
        simp only [List.flatMap_cons, if_pos hs, List.nil_append]
      · rw [if_neg hs]
        cases pnq with
        | none => rfl
        | some q0 =>
          simp only [Option.map_some', List.flatMap_cons, if_neg hs, List.append_assoc]
    · intro x hx
      rcases List.mem_cons.1 hx with e | hx
      · subst e
        obtain ⟨a1, a2⟩ := f4 x hnt
        rw [a1, a2]
        exact hself
      · have hxt : x ≠ t := fun e => hnt (e ▸ hx)
        obtain ⟨a1, a2⟩ := f3 x hx
        refine ⟨a1, ?_⟩
        rw [a2, (hsub1 x hxt).2]
        by_cases hs : some t = skipme ∨ eq = true
        · simp only [if_pos hs]
        · simp only [if_neg hs]
          cases pnq <;> rfl
    · intro x hx
      have hxt : x ≠ t := fun e => hx (e ▸ List.mem_cons_self _ _)
      have hxr : x ∉ rest := fun e => hx (List.mem_cons_of_mem _ e)
      obtain ⟨a1, a2⟩ := f4 x hxr
      rw [a1, a2]
      exact hsub1 x hxt
    · intro q
      rw [f5 q, hcan1 q]
    · rw [f8, e2.hp_value_subscriptions r, relinked_list_new _ _ _ _ _ hvr]
      simp
    · rw [f6, e4]
      simp only [List.append_assoc]
    · intro s
      rw [List.filter_append, List.filter_append, monitor_events_filtered M s e3, f7 s]
      simp only [List.nil_append, List.mem_cons]
      have hX : (if some t = skipme ∨ eq = true then ([] : List (Delivery F))
          else if pnq.isSome then direct_of (value_record st t r 0)
          else value_record st t r 0).filter
            (fun d => decide (d.n.hpn_sub = s) && d.n.hpn_event.is_value)
          = if s = t then (if some t = skipme ∨ eq = true then []
              else if pnq.isSome then direct_of (value_record st t r 0)
              else value_record st t r 0) else [] := by
        apply value_record_filtered st t r 0
        intro d hd
        split at hd
        · cases hd
        · split at hd
          · exact direct_of_mem _ d hd
          · exact hd
      rw [hX]
      by_cases hst : s = t
      · subst hst
        simp only [if_true, hnt, true_or, true_and, false_and, if_false, List.append_nil]
        by_cases hs : some s = skipme ∨ eq = true
        · simp [hs]
        · simp only [hs, not_false_eq_true, if_true, if_false]
      · simp only [hst, if_false, false_or, List.nil_append]
        by_cases hs : some s = skipme ∨ eq = true
        · simp [hs]
        · simp only [hs, not_false_eq_true, and_true]
          have hiso : (if some t = skipme ∨ eq = true then pnq
              else pnq.map fun q => q ++ queued_of (value_record st t r 0)).isSome
              = pnq.isSome := by
            split
            · rfl
            · cases pnq <;> rfl
          rw [hiso, hvr1 s]
    · intro q
      have hfun : (fun x => if some x = skipme ∨ eq = true then []
            else queued_of (value_record st1 x r 0))
          = fun x => if some x = skipme ∨ eq = true then []
            else queued_of (value_record st x r 0) := by
        funext x
        rw [hvr1 x]
      rw [f9 q, e5 q, hfun]
      by_cases e : q = r
      · simp only [if_pos e, List.flatMap_cons, List.length_append]
        push_cast
        omega
      · simp only [if_neg e]
        omega
    · intro q x hx
      rcases f10 q x hx with h | h
      · rw [e2.hp_value_subscriptions q] at h
        by_cases e1 : q = r
        · subst e1
          rw [relinked_list_new _ _ _ _ _ hvr] at h
          rcases List.mem_cons.1 h with h | h
          · exact Or.inr (h ▸ List.mem_cons_self _ _)
          · exact Or.inl h
        · by_cases e2 : q = v
          · subst e2
            rw [relinked_list_old _ _ _ _ _ hvr] at h
            exact Or.inl (List.mem_of_mem_erase h)
          · rw [relinked_list_other _ _ _ _ _ _ e2 e1] at h
            exact Or.inl h
      · exact Or.inr (List.mem_cons_of_mem _ h)

theorem follow_unlinked (fuel : Nat) (st : State F) (p : Nat)
    (h : (st.nodes p).hp_originator = none) : follow_originators (fuel + 1) st p = .ok p := by
  unfold follow_originators
  rw [h]

/-- The function relink_subscriptions towards an unlinked node when dst is no directory:
  its first loop is all it does. -/
theorem relink_scalar_ok [CFloat F] (fuel : Nat) (st : State F) (r dst : Nat)
    (skipme no_descend : Option Nat) (pnq : prop_notify_queue F)
    (st' : State F) (pnq' : prop_notify_queue F)
    (hr : (st.nodes r).hp_originator = none)
    (hd : (st.nodes dst).hp_type ≠ .PROP_DIR)
    (hk : ∀ q, (st'.nodes q).u = (st.nodes q).u)
    (h : relink_subs r skipme (st.nodes dst).hp_canonical_subscriptions st pnq
      = .ok (st', pnq')) :
    relink_subscriptions (fuel + 1) st r dst skipme pnq no_descend = .ok (st', pnq') := by
  unfold relink_subscriptions
  rw [follow_unlinked fuel st r hr]
  dsimp only
  rw [h]
  dsimp only
  have : ((st'.nodes dst).hp_type = .PROP_DIR && (st'.nodes r).hp_type = .PROP_DIR) = false := by
    have e : (st'.nodes dst).hp_type = (st.nodes dst).hp_type := by
      unfold prop_t.hp_type
      rw [hk dst]
    rw [e]
    simp [hd]
  rw [this]
  rfl

theorem link_parents_idle [CFloat F] (fuel0 : Nat) (skipme : Option Nat) :
    ∀ (fuel : Nat) (st : State F) (dst : Nat) (no_descend : Option Nat) (anc : List Nat),
      prop_ancestors fuel st dst = some anc →
      (∀ d ∈ anc, ∀ nd, relink_targets fuel0 d skipme nd (st.nodes d).hp_targets st = .ok st) →
      link_parents fuel0 skipme fuel st dst no_descend = .ok st := by
  intro fuel
  induction fuel with
  | zero => intro st dst nd anc h; simp [prop_ancestors] at h
  | succ n ih =>
    intro st dst nd anc h ht
    unfold link_parents
    unfold prop_ancestors at h
    cases hp : (st.nodes dst).hp_parent with
    | none => rfl
    | some d =>
      rw [hp] at h
      dsimp only at h ⊢
      cases ha : prop_ancestors n st d with
      | none => rw [ha] at h; cases h
      | some l' =>
        rw [ha] at h
        cases h
        rw [ht d (List.mem_cons_self _ _)]
        exact ih st d (some d) l' ha (fun x hx => ht x (List.mem_cons_of_mem _ hx))

theorem unlink_parents_idle [CFloat F] (fuel0 : Nat) (skipme : Option Nat) :
    ∀ (fuel : Nat) (st : State F) (p : Nat) (anc : List Nat),
      prop_ancestors fuel st p = some anc →
      (∀ d ∈ anc, (st.nodes d).hp_targets = []) →
      unlink_parents fuel0 skipme fuel st p = .ok st := by
  intro fuel
  induction fuel with
  | zero => intro st p anc h; simp [prop_ancestors] at h
  | succ n ih =>
    intro st p anc h ht
    unfold unlink_parents
    unfold prop_ancestors at h
    cases hp : (st.nodes p).hp_parent with
    | none => rfl
    | some d =>
      rw [hp] at h
      dsimp only at h ⊢
      cases ha : prop_ancestors n st d with
      | none => rw [ha] at h; cases h
      | some l' =>
        rw [ha] at h
        cases h
        rw [ht d (List.mem_cons_self _ _)]
        simp only [relink_targets]
        exact ih st d l' ha (fun x hx => ht x (List.mem_cons_of_mem _ hx))

theorem relink_subs_idle [CFloat F] (r : Nat) (skipme : Option Nat) :
    ∀ (l : List Nat) (st : State F) (pnq : prop_notify_queue F),
      (∀ t ∈ l, (st.subs t).hps_value_prop = some r) →
      relink_subs r skipme l st pnq = .ok (st, pnq) := by
  intro l
  induction l with
  | nil => intro st pnq _; rfl
  | cons t rest ih =>
    intro st pnq h
    unfold relink_subs
    have : relink_one r skipme t st pnq = .ok (st, pnq) := by
      unfold relink_one
      rw [if_pos (h t (List.mem_cons_self _ _))]
    rw [this]
    exact ih st pnq (fun x hx => h x (List.mem_cons_of_mem _ hx))

theorem pointed_subs (st : State F) (src dst : Nat) : (pointed st src dst).subs = st.subs := rfl

theorem pointed_log (st : State F) (src dst : Nat) : (pointed st src dst).log = st.log := rfl

theorem pointed_nnodes (st : State F) (src dst : Nat) :
    (pointed st src dst).nnodes = st.nnodes := rfl

theorem pointed_node (st : State F) (src dst q : Nat) :
    ((pointed st src dst).nodes q).u = (st.nodes q).u ∧
      ((pointed st src dst).nodes q).hp_parent = (st.nodes q).hp_parent ∧
      ((pointed st src dst).nodes q).hp_flags = (st.nodes q).hp_flags ∧
      ((pointed st src dst).nodes q).hp_value_subscriptions
        = (st.nodes q).hp_value_subscriptions ∧
      ((pointed st src dst).nodes q).hp_canonical_subscriptions
        = (st.nodes q).hp_canonical_subscriptions ∧
      ((pointed st src dst).nodes q).hp_xref = (st.nodes q).hp_xref ∧
      ((pointed st src dst).nodes q).hp_refcount = (st.nodes q).hp_refcount := by
  unfold pointed
  by_cases e0 : src = dst
  · subst e0; by_cases e1 : q = src
    · subst e1; simp
    · simp [e1]
  · by_cases e1 : q = src
    · subst e1; simp [e0]
    · by_cases e2 : q = dst
      · subst e2; simp [e1]
      · simp [e1, e2]

theorem pointed_originator (st : State F) (src dst q : Nat) (h : src ≠ dst) :
    ((pointed st src dst).nodes q).hp_originator
      = if q = dst then some src else (st.nodes q).hp_originator := by
  unfold pointed
  by_cases e1 : q = src
  · subst e1; simp [h]
  · by_cases e2 : q = dst
    · subst e2; simp [e1]
    · simp [e1, e2]

theorem pointed_targets (st : State F) (src dst q : Nat) (h : src ≠ dst) :
    ((pointed st src dst).nodes q).hp_targets
      = if q = src then dst :: (st.nodes src).hp_targets else (st.nodes q).hp_targets := by
  unfold pointed
  by_cases e1 : q = src
  · subst e1; simp [h]
  · by_cases e2 : q = dst
    · subst e2; simp [e1]
    · simp [e1, e2]

theorem link_tail_ok [CFloat F] (n : Nat) (st st3 : State F) (src dst : Nat)
    (skipme : Option Nat) (anc : List Nat) (eq : Bool) (hN : Near st st3)
    (hsd : src ≠ dst)
    (hsz : (st.nodes src).hp_type ≠ .PROP_ZOMBIE) (hsdir : (st.nodes src).hp_type ≠ .PROP_DIR)
    (hddir : (st.nodes dst).hp_type ≠ .PROP_DIR)
    (hso : (st.nodes src).hp_originator = none)
    (hanc : prop_ancestors (n + 1) st dst = some anc)
    (hnt : ∀ d ∈ anc, (st.nodes d).hp_targets = [])
    (hnd : (st.nodes dst).hp_canonical_subscriptions.Nodup)
    (hread : ∀ t ∈ (st.nodes dst).hp_canonical_subscriptions,
      (st.subs t).hps_value_prop = some dst ∧ t ∈ (st.nodes dst).hp_value_subscriptions)
    (hmon : ∀ t ∈ (st.nodes dst).hp_canonical_subscriptions
        ++ (st.nodes src).hp_value_subscriptions,
      (st.subs t).hps_flags.PROP_SUB_SUBSCRIPTION_MONITOR = true →
      (st.subs t).hps_flags.PROP_SUB_INTERNAL = false)
    (hcmp : prop_value_compare (st.nodes dst) (st.nodes src) = .ok eq) :
    ∃ st' L, link_follow dst (n + 1) (pointed st3 src dst) src = .ok src ∧
      relink_subscriptions (n + 1) (pointed st3 src dst) src dst skipme none none
        = .ok (st', none) ∧
      link_parents (n + 1) skipme (n + 1) st' dst none = .ok st' ∧
      (st'.nodes dst).hp_originator = some src ∧
      Kept (pointed st3 src dst) st' ∧
      (∀ t ∈ (st.nodes dst).hp_canonical_subscriptions,
        (st'.subs t).hps_value_prop = some src) ∧
      (∀ t, t ∉ (st.nodes dst).hp_canonical_subscriptions →
        (st'.subs t).hps_value_prop = (st.subs t).hps_value_prop) ∧
      (st'.nodes src).hp_value_subscriptions
        = (st.nodes dst).hp_canonical_subscriptions.reverse
          ++ (st.nodes src).hp_value_subscriptions ∧
      st'.log = st.log ++ L ∧
      (∀ s, L.filter (fun d => decide (d.n.hpn_sub = s) && d.n.hpn_event.is_value)
        = if s ∈ (st.nodes dst).hp_canonical_subscriptions
            ∧ ¬ (some s = skipme ∨ eq = true) then value_record st s src 0
          else []) ∧
      (∀ t, (st'.subs t).hps_pending_unlink
        = if t ∈ (st.nodes dst).hp_canonical_subscriptions
            ∧ ¬ (some t = skipme ∨ eq = true) then false
          else (st.subs t).hps_pending_unlink) ∧
      ∀ q, (st.nodes q).hp_refcount ≤ (st'.nodes q).hp_refcount := by
  have hU : ∀ q, ((pointed st3 src dst).nodes q).u = (st.nodes q).u := fun q => by
    rw [(pointed_node st3 src dst q).1, hN.kept.u q]
  have hV : ∀ q, ((pointed st3 src dst).nodes q).hp_value_subscriptions
      = (st.nodes q).hp_value_subscriptions := fun q => by
    rw [(pointed_node st3 src dst q).2.2.2.1, hN.value q]
  have hC : ∀ q, ((pointed st3 src dst).nodes q).hp_canonical_subscriptions
      = (st.nodes q).hp_canonical_subscriptions := fun q => by
    rw [(pointed_node st3 src dst q).2.2.2.2.1, hN.canonical q]
  have hS : (pointed st3 src dst).subs = st.subs := by rw [pointed_subs, hN.subs]
  have hT : ∀ q, ((pointed st3 src dst).nodes q).hp_type = (st.nodes q).hp_type := fun q => by
    unfold prop_t.hp_type
    rw [hU q]
  have hO : ((pointed st3 src dst).nodes src).hp_originator = none := by
    rw [pointed_originator _ _ _ _ hsd, if_neg hsd, hN.kept.originator src, hso]
  have hds : dst ≠ src := fun e => hsd e.symm
  obtain ⟨st', L, e1, e2, e3, e4, e5, e6, e7, e8, e9, _⟩ := relink_subs_ok src dst skipme eq hds
    ((pointed st3 src dst).nodes dst).hp_canonical_subscriptions (pointed st3 src dst) none
    (by rw [hC]; exact hnd)
    (fun t ht => by
      rw [hC] at ht
      rw [hS, hV]
      exact hread t ht)
    (by rw [hT]; exact hddir)
    (by rw [← hcmp]; exact value_compare_congr (hU dst) (hU src))
    (by rw [hT]; exact hsz) (by rw [hT]; exact hsdir)
    (fun t ht => by
      rw [hC, hV] at ht
      rw [hS]
      exact hmon t ht)
  have hvr : ∀ x, value_record (pointed st3 src dst) x src 0 = value_record st x src 0 :=
    fun x => value_record_congr x src 0 (by rw [hS]) (hU src)
  refine ⟨st', L, ?_, ?_, ?_, ?_, e2, ?_, ?_, ?_, ?_, ?_, ?_, ?_⟩
  · unfold link_follow
    rw [hO]
  · exact relink_scalar_ok n (pointed st3 src dst) src dst skipme none none st' none hO
      (by rw [hT]; exact hddir) e2.u (by simpa using e1)
  · apply link_parents_idle (n + 1) skipme (n + 1) st' dst none anc
    · rw [← hanc]
      apply prop_ancestors_congr
      intro q
      rw [e2.parent q, (pointed_node st3 src dst q).2.1, hN.kept.parent q]
    · intro d hd nd
      rw [e2.targets d, pointed_targets _ _ _ _ hsd, hN.kept.targets d, hnt d hd]
      by_cases a2 : d = src
      · subst a2
        rw [if_pos rfl, hN.kept.targets d, hnt d hd]
        unfold relink_targets
        have hidle := relink_subs_idle d skipme (st'.nodes dst).hp_canonical_subscriptions st'
          none (fun t ht => by
            rw [e5 dst, hC] at ht
            exact (e3 t (by rw [hC]; exact ht)).1)
        rw [relink_scalar_ok n st' d dst skipme nd none st' none
          (by rw [e2.originator d]; exact hO)
          (by unfold prop_t.hp_type; rw [e2.u dst, hU dst]; exact hddir)
          (fun _ => rfl) hidle]
        rfl
      · rw [if_neg a2]
        rfl
  · rw [e2.originator dst, pointed_originator _ _ _ _ hsd, if_pos rfl]
  · intro t ht
    exact (e3 t (by rw [hC]; exact ht)).1
  · intro t ht
    rw [(e4 t (by rw [hC]; exact ht)).1, hS]
  · rw [e6, hC, hV]
  · rw [e7, pointed_log, hN.log]
  · intro s
    rw [e8 s, hC, hvr s]
    simp
  · intro t
    by_cases ht : t ∈ (st.nodes dst).hp_canonical_subscriptions
    · rw [(e3 t (by rw [hC]; exact ht)).2, hS]
      by_cases hs : some t = skipme ∨ eq = true
      · simp [hs]
      · simp [hs, ht]
    · rw [(e4 t (by rw [hC]; exact ht)).2, hS]
      simp [ht]
  · intro q
    have hp : ((pointed st3 src dst).nodes q).hp_refcount = (st3.nodes q).hp_refcount := by
      unfold pointed
      by_cases a1 : q = src
      · subst a1; simp [hsd]
      · by_cases a2 : q = dst
        · subst a2; simp [a1]
        · simp [a1, a2]
    rw [e9 q, hp, hN.refs q]
    split
    · omega
    · omega

theorem Near.n_refl (st : State F) : Near st st :=
  ⟨Kept.k_refl st, rfl, rfl, fun _ => rfl, fun _ => rfl, fun _ => rfl⟩

theorem near_anchor (st : State F) (src dst : Nat) (h : src ≠ dst) :
    Near st ((st.setNode dst { st.nodes dst with
        hp_flags := { (st.nodes dst).hp_flags with PROP_XREFED_ORIGINATOR := true } }).setNode src
      { (st.setNode dst { st.nodes dst with
          hp_flags := { (st.nodes dst).hp_flags with PROP_XREFED_ORIGINATOR := true } }).nodes src
        with hp_xref := ((st.setNode dst { st.nodes dst with
          hp_flags := { (st.nodes dst).hp_flags with
            PROP_XREFED_ORIGINATOR := true } }).nodes src).hp_xref + 1 }) := by
  refine ⟨⟨rfl, fun q => ?_, fun q => ?_, fun q => ?_, fun q => ?_, fun q => ?_, fun q => ?_,
    fun _ => rfl, fun _ => rfl⟩, rfl, rfl, fun q => ?_, fun q => ?_, fun q => ?_⟩
  all_goals
    by_cases e1 : q = src
    · subst e1; simp [h]
    · by_cases e2 : q = dst
      · subst e2; simp [e1]
      · simp [e1, e2]

/-- The function prop_link0 on an unlinked node dst that is no directory, below no node with
  a target, towards an unlinked node src that is no directory either, when every
  subscription on the canonical list of dst reads dst. -/
theorem link0_scalar_ok [CFloat F] (fuel : Nat) (st : State F) (src dst : Nat)
    (skipme : Option Nat) (hard : prop_link_hard) (anc : List Nat) (eq : Bool)
    (hsd : src ≠ dst)
    (hsz : (st.nodes src).hp_type ≠ .PROP_ZOMBIE) (hsdir : (st.nodes src).hp_type ≠ .PROP_DIR)
    (hdz : (st.nodes dst).hp_type ≠ .PROP_ZOMBIE) (hddir : (st.nodes dst).hp_type ≠ .PROP_DIR)
    (hso : (st.nodes src).hp_originator = none) (hdo : (st.nodes dst).hp_originator = none)
    (hanc : prop_ancestors fuel st dst = some anc)
    (hnt : ∀ d ∈ anc, (st.nodes d).hp_targets = [])
    (hnd : (st.nodes dst).hp_canonical_subscriptions.Nodup)
    (hread : ∀ t ∈ (st.nodes dst).hp_canonical_subscriptions,
      (st.subs t).hps_value_prop = some dst ∧ t ∈ (st.nodes dst).hp_value_subscriptions)
    (hmon : ∀ t ∈ (st.nodes dst).hp_canonical_subscriptions
        ++ (st.nodes src).hp_value_subscriptions,
      (st.subs t).hps_flags.PROP_SUB_SUBSCRIPTION_MONITOR = true →
      (st.subs t).hps_flags.PROP_SUB_INTERNAL = false)
    (hx : (st.nodes src).hp_xref < 255)
    (hcmp : prop_value_compare (st.nodes dst) (st.nodes src) = .ok eq) :
    ∃ st' L, prop_link0 fuel st src dst skipme hard = .ok st' ∧
      (st'.nodes dst).hp_originator = some src ∧
      st'.nnodes = st.nnodes ∧
      (∀ q, (st'.nodes q).u = (st.nodes q).u ∧
        (st'.nodes q).hp_parent = (st.nodes q).hp_parent ∧
        (st'.nodes q).hp_flags.PROP_MULTI_NOTIFY
          = (st.nodes q).hp_flags.PROP_MULTI_NOTIFY ∧
        (st'.nodes q).hp_flags.PROP_CLIPPED_VALUE
          = (st.nodes q).hp_flags.PROP_CLIPPED_VALUE) ∧
      (∀ t, (st'.subs t).hps_flags = (st.subs t).hps_flags) ∧
      (∀ t ∈ (st.nodes dst).hp_canonical_subscriptions,
        (st'.subs t).hps_value_prop = some src) ∧
      (∀ t, t ∉ (st.nodes dst).hp_canonical_subscriptions →
        (st'.subs t).hps_value_prop = (st.subs t).hps_value_prop) ∧
      (st'.nodes src).hp_value_subscriptions
        = (st.nodes dst).hp_canonical_subscriptions.reverse
          ++ (st.nodes src).hp_value_subscriptions ∧
      st'.log = st.log ++ L ∧
      ∀ s, L.filter (fun d => decide (d.n.hpn_sub = s) && d.n.hpn_event.is_value)
        = if s ∈ (st.nodes dst).hp_canonical_subscriptions
            ∧ ¬ (some s = skipme ∨ eq = true) then value_record st s src 0
          else [] := by
  cases fuel with
  | zero => simp [prop_ancestors] at hanc
  | succ n =>
    have tail : ∀ st3 : State F, Near st st3 →
        ∃ st' L, (match link_follow dst (n + 1) (pointed st3 src dst) src with
          | .error e => (.error e : Except Fault (State F))
          | .ok src1 =>
            match relink_subscriptions (n + 1) (pointed st3 src dst) src1 dst skipme none
                none with
            | .error e => .error e
            | .ok (st6, _) =>
              match link_parents (n + 1) skipme (n + 1) st6 dst none with
              | .error e => .error e
              | .ok st7 => link_flush ((some [] : prop_notify_queue F).getD []) st7)
            = .ok st' ∧
          (st'.nodes dst).hp_originator = some src ∧
          st'.nnodes = st.nnodes ∧
          (∀ q, (st'.nodes q).u = (st.nodes q).u ∧
            (st'.nodes q).hp_parent = (st.nodes q).hp_parent ∧
            (st'.nodes q).hp_flags.PROP_MULTI_NOTIFY
              = (st.nodes q).hp_flags.PROP_MULTI_NOTIFY ∧
            (st'.nodes q).hp_flags.PROP_CLIPPED_VALUE
              = (st.nodes q).hp_flags.PROP_CLIPPED_VALUE) ∧
          (∀ t, (st'.subs t).hps_flags = (st.subs t).hps_flags) ∧
          (∀ t ∈ (st.nodes dst).hp_canonical_subscriptions,
            (st'.subs t).hps_value_prop = some src) ∧
          (∀ t, t ∉ (st.nodes dst).hp_canonical_subscriptions →
            (st'.subs t).hps_value_prop = (st.subs t).hps_value_prop) ∧
          (st'.nodes src).hp_value_subscriptions
            = (st.nodes dst).hp_canonical_subscriptions.reverse
              ++ (st.nodes src).hp_value_subscriptions ∧
          st'.log = st.log ++ L ∧
          ∀ s, L.filter (fun d => decide (d.n.hpn_sub = s) && d.n.hpn_event.is_value)
            = if s ∈ (st.nodes dst).hp_canonical_subscriptions
                ∧ ¬ (some s = skipme ∨ eq = true) then value_record st s src 0
              else [] := by
      intro st3 hN
      obtain ⟨st', L, t1, t2, t3, t4, t5, t6, t7, t8, t9, t10, _, _⟩ := link_tail_ok n st st3 src dst
        skipme anc eq hN hsd hsz hsdir hddir hso hanc hnt hnd hread hmon hcmp
      refine ⟨st', L, ?_, t4, ?_, ?_, ?_, t6, t7, t8, t9, t10⟩
      · rw [t1]
        dsimp only
        rw [t2]
        dsimp only
        rw [t3]
        rfl
      · rw [t5.nnodes, pointed_nnodes, hN.kept.nnodes]
      · intro q
        refine ⟨?_, ?_, ?_, ?_⟩
        · rw [t5.u q, (pointed_node st3 src dst q).1, hN.kept.u q]
        · rw [t5.parent q, (pointed_node st3 src dst q).2.1, hN.kept.parent q]
        · rw [t5.multi q, (pointed_node st3 src dst q).2.2.1, hN.kept.multi q]
        · rw [t5.clipped q, (pointed_node st3 src dst q).2.2.1, hN.kept.clipped q]
      · intro t
        rw [t5.flags t, pointed_subs, hN.subs]
    unfold prop_link0
    rw [if_neg hsd]
    have hzz : ((st.nodes src).hp_type = .PROP_ZOMBIE || (st.nodes dst).hp_type = .PROP_ZOMBIE)
        = false := by simp [hsz, hdz]
    rw [hzz]
    simp only [Bool.false_eq_true, if_false]
    have h0 : ¬ ((st.nodes dst).hp_originator ≠ none) := by simp [hdo]
    rw [if_neg h0]
    dsimp only
    by_cases hc : (hard = .PROP_LINK_XREFED
        || (hard = .PROP_LINK_XREFED_IF_ORPHANED && (st.nodes src).hp_parent = none)) = true
    · rw [if_pos hc]
      have hx' : ((st.setNode dst { st.nodes dst with hp_flags := { (st.nodes dst).hp_flags with
          PROP_XREFED_ORIGINATOR := true } }).nodes src).hp_xref < 255 := by
        simp [hsd, hx]
      rw [if_pos hx']
      exact tail _ (near_anchor st src dst hsd)
    · rw [if_neg hc]
      exact tail st (Near.n_refl st)

theorem prop_ancestors_mono : ∀ (fuel : Nat) (st : State F) (p : Nat) (l : List Nat),
    prop_ancestors fuel st p = some l → ∀ k, prop_ancestors (fuel + k) st p = some l := by
  intro fuel
  induction fuel with
  | zero => intro st p l h; simp [prop_ancestors] at h
  | succ n ih =>
    intro st p l h k
    rw [show n + 1 + k = (n + k) + 1 by omega]
    unfold prop_ancestors at h ⊢
    cases hp : (st.nodes p).hp_parent with
    | none => rw [hp] at h; exact h
    | some q =>
      rw [hp] at h
      dsimp only at h ⊢
      cases ha : prop_ancestors n st q with
      | none => rw [ha] at h; cases h
      | some l' =>
        rw [ha] at h
        rw [ih st q l' ha k]
        exact h

theorem prop_ancestors_shorter : ∀ (fuel : Nat) (st : State F) (p : Nat) (l : List Nat),
    prop_ancestors fuel st p = some l →
    ∀ q ∈ l, ∃ l' f, prop_ancestors f st q = some l' ∧ l'.length < l.length := by
  intro fuel
  induction fuel with
  | zero => intro st p l h; simp [prop_ancestors] at h
  | succ n ih =>
    intro st p l h q hq
    unfold prop_ancestors at h
    cases hp : (st.nodes p).hp_parent with
    | none => rw [hp] at h; cases h; cases hq
    | some d =>
      rw [hp] at h
      dsimp only at h
      cases ha : prop_ancestors n st d with
      | none => rw [ha] at h; cases h
      | some l1 =>
        rw [ha] at h
        cases h
        rcases List.mem_cons.1 hq with e | hq
        · subst e
          exact ⟨l1, n, ha, by simp⟩
        · obtain ⟨l', f, h1, h2⟩ := ih st d l1 ha q hq
          exact ⟨l', f, h1, by simp; omega⟩

/-- A node is none of its own ancestors when its parent chain ends. -/
theorem prop_ancestors_acyclic (fuel : Nat) (st : State F) (p : Nat) (l : List Nat)
    (h : prop_ancestors fuel st p = some l) : p ∉ l := by
  intro hp
  obtain ⟨l', f, h1, h2⟩ := prop_ancestors_shorter fuel st p l h p hp
  have a := prop_ancestors_mono fuel st p l h f
  have b := prop_ancestors_mono f st p l' h1 fuel
  rw [Nat.add_comm] at b
  rw [a] at b
  cases b
  exact Nat.lt_irrefl _ h2

theorem set_int_exact [CFloat F] (st : State F) (p : Nat) (skipme : Option Nat) (v : Int)
    (hn : NotifyOk st p skipme) (hz : (st.nodes p).hp_type ≠ .PROP_ZOMBIE)
    (hd : (st.nodes p).hp_type ≠ .PROP_DIR)
    (hc : (st.nodes p).hp_flags.PROP_CLIPPED_VALUE = true →
      (st.nodes p).hp_type = .PROP_INT ∨ (st.nodes p).hp_type = .PROP_FLOAT) :
    ∃ st', prop_set_int_ex st (some p) skipme v = .ok st' ∧
      ((st.nodes p).u.holds_int v = true → st' = st) ∧
      ((st.nodes p).u.holds_int v = false →
        Notified st st' p skipme 0 ∧ (st'.nodes p).hp_type = .PROP_INT ∧
        SameTree (st.setU p (st'.nodes p).u) st') := by
  have step : ∀ w : prop_value F, w.hp_type = .PROP_INT →
      ∃ st', prop_notify_value (st.setU p w) p skipme 0 = .ok st' ∧
        Notified st st' p skipme 0 ∧ (st'.nodes p).hp_type = .PROP_INT ∧
        SameTree (st.setU p (st'.nodes p).u) st' := by
    intro w hw
    have hwz : w.hp_type ≠ .PROP_ZOMBIE := by rw [hw]; exact fun e => by cases e
    obtain ⟨st', h1, h2, h3⟩ := notify_step st p skipme 0 w hwz hn
    obtain ⟨st2, k1, k2, _, _⟩ := setU_notify_ok st p skipme 0 w hwz hn
    rw [h1] at k1
    cases k1
    refine ⟨st', h1, h3, ?_, ?_⟩
    · unfold prop_t.hp_type; rw [h2]; exact hw
    · rw [h2]; exact k2
  unfold prop_set_int_ex prop_set_int_exl
  dsimp only
  unfold prop_t.hp_type at hz hd hc
  cases hu : (st.nodes p).u with
  | PROP_ZOMBIE => rw [hu] at hz; exact absurd rfl hz
  | PROP_DIR cs sel => rw [hu] at hd; exact absurd rfl hd
  | PROP_INT val min max =>
    dsimp only
    by_cases e : val = v
    · rw [if_pos e]
      exact ⟨st, rfl, fun _ => rfl, fun h => by simp [prop_value.holds_int, e] at h⟩
    · rw [if_neg e]
      split
      · obtain ⟨st', a, b⟩ := step (.PROP_INT (clip_int v min max) min max) rfl
        exact ⟨st', a, fun h => by simp [prop_value.holds_int, e] at h, fun _ => b⟩
      · obtain ⟨st', a, b⟩ := step (.PROP_INT v min max) rfl
        exact ⟨st', a, fun h => by simp [prop_value.holds_int, e] at h, fun _ => b⟩
  | PROP_FLOAT val min max =>
    dsimp only
    obtain ⟨st', a, b⟩ := step
      ((prop_float_to_int (.PROP_FLOAT val min max)).set_hp_int v) rfl
    exact ⟨st', a, fun h => by simp [prop_value.holds_int] at h, fun _ => b⟩
  | PROP_VOID =>
    dsimp only
    have hcl : prop_clean (st.nodes p) = false := by
      unfold prop_clean
      rw [hu] at hc
      by_cases x : (st.nodes p).hp_flags.PROP_CLIPPED_VALUE = true
      · rcases hc x with y | y <;> cases y
      · simp [x, hu]
    rw [hcl]
    obtain ⟨st', a, b⟩ := step (.PROP_INT v 0 0) rfl
    exact ⟨st', a, fun h => by simp [prop_value.holds_int] at h, fun _ => b⟩
  | PROP_RSTRING s t =>
    dsimp only
    have hcl : prop_clean (st.nodes p) = false := by
      unfold prop_clean
      rw [hu] at hc
      by_cases x : (st.nodes p).hp_flags.PROP_CLIPPED_VALUE = true
      · rcases hc x with y | y <;> cases y
      · simp [x, hu]
    rw [hcl]
    obtain ⟨st', a, b⟩ := step (.PROP_INT v 0 0) rfl
    exact ⟨st', a, fun h => by simp [prop_value.holds_int] at h, fun _ => b⟩
  | PROP_CSTRING s =>
    dsimp only
    have hcl : prop_clean (st.nodes p) = false := by
      unfold prop_clean
      rw [hu] at hc
      by_cases x : (st.nodes p).hp_flags.PROP_CLIPPED_VALUE = true
      · rcases hc x with y | y <;> cases y
      · simp [x, hu]
    rw [hcl]
    obtain ⟨st', a, b⟩ := step (.PROP_INT v 0 0) rfl
    exact ⟨st', a, fun h => by simp [prop_value.holds_int] at h, fun _ => b⟩
  | PROP_LINK t l =>
    dsimp only
    have hcl : prop_clean (st.nodes p) = false := by
      unfold prop_clean
      rw [hu] at hc
      by_cases x : (st.nodes p).hp_flags.PROP_CLIPPED_VALUE = true
      · rcases hc x with y | y <;> cases y
      · simp [x, hu]
    rw [hcl]
    obtain ⟨st', a, b⟩ := step (.PROP_INT v 0 0) rfl
    exact ⟨st', a, fun h => by simp [prop_value.holds_int] at h, fun _ => b⟩

theorem flatMap_pick {α : Type} (l : List Nat) (s : Nat) (X : List α) (h : l.count s = 1) :
    l.flatMap (fun t => if t = s then X else []) = X := by
  induction l with
  | nil => simp at h
  | cons a l ih =>
    by_cases e : a = s
    · subst e
      have h0 : l.count a = 0 := by
        rw [List.count_cons_self] at h
        omega
      have hnot : ∀ t ∈ l, (if t = a then X else []) = ([] : List α) := by
        intro t ht
        have : t ≠ a := fun x => by
          subst x
          exact (List.count_eq_zero.1 h0) ht
        rw [if_neg this]
      rw [List.flatMap_cons, if_pos rfl]
      have : l.flatMap (fun t => if t = a then X else []) = [] := by
        rw [List.flatMap_eq_nil_iff]
        exact hnot
      rw [this, List.append_nil]
    · rw [List.count_cons_of_ne (fun x : s = a => e x.symm)] at h
      rw [List.flatMap_cons, if_neg e, List.nil_append]
      exact ih h

theorem filter_flatMap_records (st : State F) (l : List Nat) (p : Nat) (how : Int) (s : Nat) :
    (l.flatMap fun t => value_record st t p how).filter (fun d => decide (d.n.hpn_sub = s))
      = l.flatMap fun t => if t = s then value_record st s p how else [] := by
  induction l with
  | nil => rfl
  | cons a l ih =>
    rw [List.flatMap_cons, List.filter_append, ih, List.flatMap_cons]
    congr 1
    by_cases e : a = s
    · subst e
      rw [if_pos rfl]
      apply List.filter_eq_self.2
      intro d hd
      simp [(value_record_events st a p how d hd).1]
    · rw [if_neg e]
      apply List.filter_eq_nil_iff.2
      intro d hd
      simp [(value_record_events st a p how d hd).1, e]

theorem multi_records_subs (st : State F) (l : List Nat) :
    ∀ d ∈ multi_records st l, ∃ q ∈ l, d.n.hpn_sub ∈ (st.nodes q).hp_value_subscriptions := by
  intro d hd
  unfold multi_records at hd
  rw [List.mem_flatMap] at hd
  obtain ⟨q, hq, hd⟩ := hd
  split at hd
  · rw [List.mem_flatMap] at hd
    obtain ⟨t, ht, hd⟩ := hd
    refine ⟨q, hq, ?_⟩
    rw [(value_record_events st t q 0 d hd).1]
    exact (List.mem_filter.1 ht).1
  · cases hd

/-- What the subscription s gets of a notification of p on whose value list it is once,
  when it is on the value list of no ancestor of p. -/
theorem notified_to (st st' : State F) (p s : Nat) (how : Int)
    (hN : Notified st st' p none how)
    (hc : (st'.nodes p).hp_value_subscriptions.count s = 1)
    (hm : ∀ l, prop_ancestors (st'.nnodes + 1) st' p = some l →
      ∀ q ∈ l, s ∉ (st'.nodes q).hp_value_subscriptions) :
    (emitted st st').filter (fun d => decide (d.n.hpn_sub = s)) = value_record st' s p how := by
  obtain ⟨h1, _, _⟩ := hN
  unfold emitted
  rw [h1, List.append_assoc, List.drop_left, List.filter_append]
  have hA : ((st'.nodes p).hp_value_subscriptions.filter fun t => some t ≠ none)
      = (st'.nodes p).hp_value_subscriptions := by
    apply List.filter_eq_self.2
    intro t _
    simp
  rw [hA, filter_flatMap_records, flatMap_pick _ _ _ hc]
  have hB : (multi_part st' p).filter (fun d => decide (d.n.hpn_sub = s)) = [] := by
    apply List.filter_eq_nil_iff.2
    intro d hd
    unfold multi_part at hd
    split at hd
    · split at hd
      · next l hl =>
        obtain ⟨q, hq, hin⟩ := multi_records_subs st' l d hd
        intro e
        have e' : d.n.hpn_sub = s := by simpa using e
        rw [e'] at hin
        exact hm l hl q hq hin
      · cases hd
    · cases hd
  rw [hB, List.append_nil]

theorem value_record_int (st : State F) (s p : Nat) (how : Int)
    (h : (st.nodes p).hp_type = .PROP_INT) :
    ∃ n : prop_notify_t F, n.hpn_event = .PROP_SET_INT ∧ n.hpn_sub = s ∧
      n.hpn_prop2 = some p ∧
      value_record st s p how
        = [if (st.subs s).hps_flags.PROP_SUB_INTERNAL then .direct n else .queued n] := by
  unfold prop_t.hp_type at h
  unfold value_record
  cases hu : (st.nodes p).u <;> rw [hu] at h <;> try (cases h)
  by_cases hi : (st.subs s).hps_flags.PROP_SUB_INTERNAL = true
  · rw [if_pos hi]
    simp only [direct_value_args]
    exact ⟨_, rfl, rfl, rfl, by rw [if_pos hi]⟩
  · rw [if_neg hi]
    simp only [queued_value_args]
    exact ⟨_, rfl, rfl, rfl, by rw [if_neg hi]⟩

theorem nodup_of_count_one {l : List Nat} (h : ∀ a ∈ l, l.count a = 1) : l.Nodup := by
  rw [List.nodup_iff_count_le_one]
  intro a
  by_cases ha : a ∈ l
  · rw [h a ha]
  · rw [List.count_eq_zero.2 ha]
    exact Nat.zero_le _

/-- C22 (amended): in a store that satisfies the invariant of the links and subscription
  lists, let src and dst be distinct allocated nodes that are neither directories nor
  zombies and not linked, with no target on any ancestor of dst, and every subscription on
  the canonical list of dst reading dst. Then
  prop_link_ex(src, dst, skipme, hard) returns, dst has the originator src, and every
  subscription s on the canonical list of dst has src as its value node and got exactly the
  value record of src when s is not skipme and prop_value_compare(dst, src) is 0, and no
  value record otherwise. After it `prop_set_int(src, v)` returns and delivers nothing at
  all when src holds the int v; otherwise src becomes an int node and s gets exactly one
  delivery, of PROP_SET_INT about src. -/
theorem link_scalar_delivers [CFloat F] (fuel : Nat) (st : State F) (src dst : Nat)
    (skipme : Option Nat) (hard : prop_link_hard) (anc : List Nat) (eq : Bool)
    (hok : StoreOk (fun _ => False) st) (hsa : src < st.nnodes) (hda : dst < st.nnodes)
    (hsd : src ≠ dst)
    (hsz : (st.nodes src).hp_type ≠ .PROP_ZOMBIE) (hsdir : (st.nodes src).hp_type ≠ .PROP_DIR)
    (hdz : (st.nodes dst).hp_type ≠ .PROP_ZOMBIE) (hddir : (st.nodes dst).hp_type ≠ .PROP_DIR)
    (hso : (st.nodes src).hp_originator = none) (hdo : (st.nodes dst).hp_originator = none)
    (hanc : prop_ancestors fuel st dst = some anc)
    (hnt : ∀ d ∈ anc, (st.nodes d).hp_targets = [])
    (hread : ∀ t ∈ (st.nodes dst).hp_canonical_subscriptions,
      (st.subs t).hps_value_prop = some dst)
    (hmon : ∀ t ∈ (st.nodes dst).hp_canonical_subscriptions
        ++ (st.nodes src).hp_value_subscriptions,
      (st.subs t).hps_flags.PROP_SUB_SUBSCRIPTION_MONITOR = true →
      (st.subs t).hps_flags.PROP_SUB_INTERNAL = false)
    (hx : (st.nodes src).hp_xref < 255)
    (hcmp : prop_value_compare (st.nodes dst) (st.nodes src) = .ok eq)
    (hn : NotifyOk st src none)
    (hsc : (st.nodes src).hp_flags.PROP_CLIPPED_VALUE = true →
      (st.nodes src).hp_type = .PROP_INT ∨ (st.nodes src).hp_type = .PROP_FLOAT) :
    ∃ st', prop_link_ex fuel st src dst skipme hard = .ok st' ∧
      (st'.nodes dst).hp_originator = some src ∧
      ∀ s ∈ (st.nodes dst).hp_canonical_subscriptions,
        (st'.subs s).hps_value_prop = some src ∧
        value_deliveries st st' s
          = (if some s = skipme ∨ eq = true then [] else value_record st s src 0) ∧
        ∀ v, ∃ st'', prop_set_int_ex st' (some src) none v = .ok st'' ∧
          ((st.nodes src).u.holds_int v = true → emitted st' st'' = []) ∧
          ((st.nodes src).u.holds_int v = false →
            ∃ n : prop_notify_t F, n.hpn_event = .PROP_SET_INT ∧ n.hpn_sub = s ∧
              n.hpn_prop2 = some src ∧
              (emitted st' st'').filter (fun d => decide (d.n.hpn_sub = s))
                = [if (st.subs s).hps_flags.PROP_SUB_INTERNAL then .direct n
                  else .queued n]) := by
  have hnd : (st.nodes dst).hp_canonical_subscriptions.Nodup :=
    nodup_of_count_one fun a ha =>
      hok.canonical_count a dst (hok.canonical_back dst a ha).1
  obtain ⟨st', L, k1, k2, k3, k4, k5, k6, k7, k8, k9, k10⟩ := link0_scalar_ok fuel st src dst
    skipme hard anc eq hsd hsz hsdir hdz hddir hso hdo hanc hnt hnd
    (fun t ht => ⟨hread t ht, mem_of_count_one (hok.value_count t dst (hread t ht))⟩)
    hmon hx hcmp
  have hok' : StoreOk (fun _ => False) st' := storeOk_of_link0 k1 hok hsa hda
  have hT : ∀ q, (st'.nodes q).hp_type = (st.nodes q).hp_type := fun q => by
    unfold prop_t.hp_type
    rw [(k4 q).1]
  have hanc' : ∀ f, prop_ancestors f st' src = prop_ancestors f st src :=
    fun f => prop_ancestors_congr (fun q => (k4 q).2.1) f src
  have hn' : NotifyOk st' src none := by
    refine ⟨fun t ht _ => (hok'.value_back src t ht).1, fun hm => ?_⟩
    rw [(k4 src).2.2.1] at hm
    obtain ⟨l, h1, h2⟩ := hn.2 hm
    refine ⟨l, by rw [k3, hanc']; exact h1, fun q hq => by rw [hT]; exact h2 q hq⟩
  refine ⟨st', k1, k2, fun s hs => ⟨k6 s hs, ?_, fun v => ?_⟩⟩
  · unfold value_deliveries emitted
    rw [k9, List.drop_left, k10 s]
    by_cases hsk : some s = skipme ∨ eq = true
    · simp [hsk]
    · simp [hsk, hs]
  · obtain ⟨st'', s1, s2, s3⟩ := set_int_exact st' src none v hn' (by rw [hT]; exact hsz)
      (by rw [hT]; exact hsdir) (by rw [(k4 src).2.2.2, hT]; exact hsc)
    refine ⟨st'', s1, fun h => ?_, fun h => ?_⟩
    · rw [s2 (by rw [(k4 src).1]; exact h)]
      simp [emitted]
    · obtain ⟨n1, n2, n3⟩ := s3 (by rw [(k4 src).1]; exact h)
      have hl'' : ∀ q, (st''.nodes q).hp_value_subscriptions
          = (st'.nodes q).hp_value_subscriptions := by
        intro q
        rw [n3.hp_value_subscriptions q]
        by_cases e : q = src
        · subst e; simp [State.setU]
        · simp [State.setU, e]
      have hp'' : ∀ q, (st''.nodes q).hp_parent = (st'.nodes q).hp_parent := by
        intro q
        rw [n3.hp_parent q]
        by_cases e : q = src
        · subst e; simp [State.setU]
        · simp [State.setU, e]
      have hcount : (st''.nodes src).hp_value_subscriptions.count s = 1 := by
        rw [hl'' src]
        exact hok'.value_count s src (k6 s hs)
      have hnn : st''.nnodes = st'.nnodes := by
        rw [n3.1]
        rfl
      have key := notified_to st' st'' src s 0 n1 hcount (by
        intro l hl q hq hin
        rw [hl'' q] at hin
        have hv := (hok'.value_back q s hin).1
        rw [k6 s hs] at hv
        cases hv
        exact prop_ancestors_acyclic _ _ _ _ hl hq)
      obtain ⟨n, m1, m2, m3, m4⟩ := value_record_int st'' s src 0 n2
      refine ⟨n, m1, m2, m3, ?_⟩
      rw [key, m4]
      have : (st''.subs s).hps_flags = (st.subs s).hps_flags := by
        rw [n3.hps_flags s]
        simp only [State.setU, setNode_subs]
        exact k5 s
      rw [this]

theorem tame_of_set_int_ex [CFloat F] {st st' : State F} {p : Option Nat}
    {skipme : Option Nat} {v : Int} (h : prop_set_int_ex st p skipme v = .ok st') :
    Tame st st' := by
  unfold prop_set_int_ex at h
  split at h
  · cases h; exact Tame.t_refl _
  · next p =>
    unfold prop_set_int_exl at h
    have step : ∀ w : prop_value F, (st.nodes p).hp_type ≠ .PROP_ZOMBIE →
        prop_notify_value (st.setU p w) p skipme 0 = .ok st' → Tame st st' := by
      intro w hw hh
      exact (Tame.t_setU st p w (fun hz => absurd hz hw)).t_trans
        (Tame.t_of_sameTree (sameTree_of_prop_notify_value hh))
    unfold prop_t.hp_type at step
    cases hu : (st.nodes p).u <;> rw [hu] at h step <;> dsimp only at h
    all_goals first
      | (cases h; exact Tame.t_refl _)
      | exact step _ (fun e => by cases e) h
      | (split at h
         · cases h; exact Tame.t_refl _
         · first
           | exact step _ (fun e => by cases e) h
           | (split at h
              · exact step _ (fun e => by cases e) h
              · exact step _ (fun e => by cases e) h))

/-- A call that returned gave the store that `state_after` reads. -/
theorem eq_ok_state_after (r : Except Fault (State F)) (h : returned r = true) :
    r = .ok (state_after r) := by
  cases r with
  | ok st => rfl
  | error e => cases h

/-- The store `ex_scalars` satisfies the invariant of the links and subscription lists. -/
theorem storeOk_ex_scalars : StoreOk (fun _ => False) ex_scalars := by
  have h0 : StoreOk (fun _ => False) (state_after (run_api ex_scalar_calls State.empty)) :=
    storeOk_of_wired (wired_of_run ex_scalar_calls State.empty Wired.init (by decide))
  have e1 := eq_ok_state_after (prop_set_int_ex
    (state_after (run_api ex_scalar_calls State.empty)) (some 0) none 5) (by decide)
  have h1 := StoreOk.ok_of_tame (shrink_of_set_int_ex e1) (tame_of_set_int_ex e1) h0
  have e2 := eq_ok_state_after (prop_set_int_ex
    (state_after (prop_set_int_ex (state_after (run_api ex_scalar_calls State.empty))
      (some 0) none 5)) (some 1) none 9) (by decide)
  exact StoreOk.ok_of_tame (shrink_of_set_int_ex e2) (tame_of_set_int_ex e2) h1

/-- C22 fails as stated when src is itself linked. In `ex_linked_src` the node 1 holds the
  int 5 and is linked to the node 0 that holds the int 3; the node 2 holds the int 9, is not
  linked, and the queued subscription 0 reads it. `prop_link(1, 2)` returns and the
  subscription gets one value record, but it carries the 3 of the node 0, which is now its
  value node; after it `prop_set_int(1, 7)` returns, changes the int of the node 1 from 5
  to 7 and delivers nothing. -/
theorem link_follows_source_origin :
    (ex_linked_src.nodes 1).u = .PROP_INT 5 0 0 ∧
    (ex_linked_src.nodes 2).u = .PROP_INT 9 0 0 ∧
    (ex_linked_src.nodes 1).hp_originator = some 0 ∧
    (ex_linked_src.nodes 2).hp_originator = none ∧
    (ex_linked_src.subs 0).hps_value_prop = some 2 ∧
    (ex_linked_src.subs 0).hps_flags.PROP_SUB_INTERNAL = false ∧
    returned (prop_link_ex 4 ex_linked_src 1 2 none .PROP_LINK_NORMAL) = true ∧
    ((state_after (prop_link_ex 4 ex_linked_src 1 2 none .PROP_LINK_NORMAL)).subs 0).hps_value_prop
      = some 0 ∧
    value_deliveries ex_linked_src
        (state_after (prop_link_ex 4 ex_linked_src 1 2 none .PROP_LINK_NORMAL)) 0
      = [.queued { hpn_sub := 0, hpn_event := .PROP_SET_INT, u := .fslot 3,
                   hpn_prop2 := some 0 }] ∧
    returned (prop_set_int_ex
      (state_after (prop_link_ex 4 ex_linked_src 1 2 none .PROP_LINK_NORMAL))
      (some 1) none 7) = true ∧
    ((state_after (prop_set_int_ex
      (state_after (prop_link_ex 4 ex_linked_src 1 2 none .PROP_LINK_NORMAL))
      (some 1) none 7)).nodes 1).u = .PROP_INT 7 0 0 ∧
    emitted (state_after (prop_link_ex 4 ex_linked_src 1 2 none .PROP_LINK_NORMAL))
      (state_after (prop_set_int_ex
        (state_after (prop_link_ex 4 ex_linked_src 1 2 none .PROP_LINK_NORMAL))
        (some 1) none 7)) = [] := by
  decide

/-- The amended C22 at `ex_scalars`, where the root 0 holds the int 5, the root 1 the
  int 9 and the queued subscription 0 reads the root 1: `prop_link(0, 1)` gives the
  subscription the record of the root 0, which is PROP_SET_INT with 5. -/
theorem link_scalar_delivers_witness :
    StoreOk (fun _ => False) ex_scalars ∧
    value_record ex_scalars 0 0 0
      = [.queued { hpn_sub := 0, hpn_event := .PROP_SET_INT, u := .fslot 5,
                   hpn_prop2 := some 0 }] ∧
    ∃ st', prop_link_ex 4 ex_scalars 0 1 none .PROP_LINK_NORMAL = .ok st' ∧
      (st'.nodes 1).hp_originator = some 0 ∧
      ∀ s ∈ (ex_scalars.nodes 1).hp_canonical_subscriptions,
        (st'.subs s).hps_value_prop = some 0 ∧
        value_deliveries ex_scalars st' s
          = (if some s = none ∨ false = true then [] else value_record ex_scalars s 0 0) ∧
        ∀ v, ∃ st'', prop_set_int_ex st' (some 0) none v = .ok st'' ∧
          ((ex_scalars.nodes 0).u.holds_int v = true → emitted st' st'' = []) ∧
          ((ex_scalars.nodes 0).u.holds_int v = false →
            ∃ n : prop_notify_t SmallFloat, n.hpn_event = .PROP_SET_INT ∧ n.hpn_sub = s ∧
              n.hpn_prop2 = some 0 ∧
              (emitted st' st'').filter (fun d => decide (d.n.hpn_sub = s))
                = [if (ex_scalars.subs s).hps_flags.PROP_SUB_INTERNAL then .direct n
                  else .queued n]) :=
  ⟨storeOk_ex_scalars, by decide,
    link_scalar_delivers 4 ex_scalars 0 1 none .PROP_LINK_NORMAL [] false storeOk_ex_scalars
      (by decide) (by decide) (by decide) (by decide) (by decide) (by decide) (by decide)
      (by decide) (by decide) (by decide) (fun d hd => by cases hd) (by decide) (by decide)
      (by decide) rfl ⟨by decide, fun h => absurd h (by decide)⟩
      (fun h => absurd h (by decide))⟩

/-! ## C24: a second link on a linked node -/

theorem value_record_refs (st : State F) (s p : Nat) (how : Int) :
    ∀ n ∈ queued_of (value_record st s p how), record_refs n = [p] ∧ n.hpn_sub = s := by
  intro n hn
  unfold queued_of value_record at hn
  split at hn
  · cases hu : (st.nodes p).u <;> simp [hu, direct_value_args] at hn
  · cases hu : (st.nodes p).u <;> simp [hu, queued_value_args] at hn <;> subst hn <;>
      exact ⟨rfl, rfl⟩

/-- The last loop of prop_link0 on records whose subscriptions are all marked: every record
  goes to its courier. -/
theorem link_flush_pending : ∀ (l : List (prop_notify_t F)) (st : State F),
    (l.map fun n => n.hpn_sub).Nodup →
    (∀ n ∈ l, (st.subs n.hpn_sub).hps_pending_unlink = true) →
    ∃ st', link_flush l st = .ok st' ∧ st'.nodes = st.nodes ∧
      (∀ t, (st'.subs t).hps_value_prop = (st.subs t).hps_value_prop) ∧
      st'.log = st.log ++ l.map .queued := by
  intro l
  induction l with
  | nil => intro st _ _; exact ⟨st, rfl, rfl, fun _ => rfl, by simp⟩
  | cons n rest ih =>
    intro st hnd hp
    unfold link_flush
    dsimp only
    rw [if_pos (hp n (List.mem_cons_self _ _))]
    rw [List.map_cons, List.nodup_cons] at hnd
    obtain ⟨st', e1, e2, e3, e4⟩ := ih
      (courier_enqueue (st.setSub n.hpn_sub
        { st.subs n.hpn_sub with hps_pending_unlink := false }) n.hpn_sub n) hnd.2
      (fun m hm => by
        have hne : m.hpn_sub ≠ n.hpn_sub := fun e =>
          hnd.1 (List.mem_map.2 ⟨m, hm, e⟩)
        rw [courier_enqueue_subs]
        simp only [setSub_subs, if_neg hne]
        exact hp m (List.mem_cons_of_mem _ hm))
    refine ⟨st', e1, ?_, ?_, ?_⟩
    · rw [e2, courier_enqueue_nodes]
      rfl
    · intro t
      rw [e3 t, courier_enqueue_subs]
      by_cases e : t = n.hpn_sub
      · subst e; simp only [setSub_subs, if_true]
      · simp only [setSub_subs, if_neg e]
    · rw [e4, courier_enqueue_log]
      simp

/-- The last loop of prop_link0 on records of the node dst whose subscriptions are not
  marked: every record is freed, which takes one reference from dst each time. -/
theorem link_flush_free (dst : Nat) : ∀ (l : List (prop_notify_t F)) (st : State F),
    (∀ n ∈ l, (st.subs n.hpn_sub).hps_pending_unlink = false ∧ record_refs n = [dst]) →
    (l.length : Int) < (st.nodes dst).hp_refcount →
    ∃ st', link_flush l st = .ok st' ∧ SameTree st st' ∧ st'.log = st.log := by
  intro l
  induction l with
  | nil => intro st _ _; exact ⟨st, rfl, SameTree.st_refl _, rfl⟩
  | cons n rest ih =>
    intro st h hr
    obtain ⟨h1, h2⟩ := h n (List.mem_cons_self _ _)
    have hgt : (st.nodes dst).hp_refcount > 1 := by
      rw [List.length_cons] at hr
      push_cast at hr
      omega
    have hdec : prop_ref_dec_locked st (some dst)
        = .ok (st.setNode dst { st.nodes dst with
          hp_refcount := (st.nodes dst).hp_refcount - 1 }) := by
      unfold prop_ref_dec_locked
      dsimp only
      rw [if_pos hgt]
    have hfree : prop_notify_free st n
        = .ok (prop_sub_ref_dec_locked (st.setNode dst { st.nodes dst with
          hp_refcount := (st.nodes dst).hp_refcount - 1 }) n.hpn_sub) := by
      rw [notify_free_eq, h2]
      simp only [List.foldlM_cons, List.foldlM_nil]
      rw [hdec]
      rfl
    have hs : SameTree st (prop_sub_ref_dec_locked (st.setNode dst { st.nodes dst with
        hp_refcount := (st.nodes dst).hp_refcount - 1 }) n.hpn_sub) := by
      refine ⟨rfl, rfl, fun q => ?_, fun t => ?_⟩
      · unfold prop_sub_ref_dec_locked
        by_cases e : q = dst
        · subst e; simp
        · simp [e]
      · unfold prop_sub_ref_dec_locked
        by_cases e : t = n.hpn_sub
        · subst e; simp
        · simp [e]
    unfold link_flush
    dsimp only
    rw [if_neg (by rw [h1]; simp), hfree]
    dsimp only
    obtain ⟨st', e1, e2, e3⟩ := ih _ (fun m hm => by
        obtain ⟨a1, a2⟩ := h m (List.mem_cons_of_mem _ hm)
        refine ⟨?_, a2⟩
        rw [hs.2.2.2 m.hpn_sub]
        exact a1)
      (by
        unfold prop_sub_ref_dec_locked
        simp only [setSub_nodes, setNode_nodes, if_true]
        rw [List.length_cons] at hr
        push_cast at hr
        omega)
    exact ⟨st', e1, hs.st_trans e2, by rw [e3]; rfl⟩

theorem unpointed_subs (st : State F) (o dst : Nat) : (unpointed st o dst).subs = st.subs := rfl

theorem unpointed_log (st : State F) (o dst : Nat) : (unpointed st o dst).log = st.log := rfl

theorem unpointed_nnodes (st : State F) (o dst : Nat) :
    (unpointed st o dst).nnodes = st.nnodes := rfl

theorem unpointed_node (st : State F) (o dst q : Nat) :
    ((unpointed st o dst).nodes q).u = (st.nodes q).u ∧
      ((unpointed st o dst).nodes q).hp_parent = (st.nodes q).hp_parent ∧
      ((unpointed st o dst).nodes q).hp_flags = (st.nodes q).hp_flags ∧
      ((unpointed st o dst).nodes q).hp_value_subscriptions
        = (st.nodes q).hp_value_subscriptions ∧
      ((unpointed st o dst).nodes q).hp_canonical_subscriptions
        = (st.nodes q).hp_canonical_subscriptions ∧
      ((unpointed st o dst).nodes q).hp_xref = (st.nodes q).hp_xref ∧
      ((unpointed st o dst).nodes q).hp_refcount = (st.nodes q).hp_refcount := by
  unfold unpointed
  by_cases e0 : o = dst
  · subst e0; by_cases e1 : q = o
    · subst e1; simp
    · simp [e1]
  · by_cases e1 : q = o
    · subst e1; simp [e0]
    · by_cases e2 : q = dst
      · subst e2; simp [e1]
      · simp [e1, e2]

theorem unpointed_originator (st : State F) (o dst q : Nat) :
    ((unpointed st o dst).nodes q).hp_originator
      = if q = dst then none else (st.nodes q).hp_originator := by
  unfold unpointed
  by_cases e2 : q = dst
  · subst e2; simp
  · by_cases e1 : q = o
    · subst e1; simp [e2]
    · simp [e1, e2]

theorem unpointed_targets (st : State F) (o dst q : Nat) (h : o ≠ dst) :
    ((unpointed st o dst).nodes q).hp_targets
      = if q = o then (st.nodes o).hp_targets.erase dst else (st.nodes q).hp_targets := by
  unfold unpointed
  by_cases e1 : q = o
  · subst e1; simp [h]
  · by_cases e2 : q = dst
    · subst e2; simp [e1]
    · simp [e1, e2]

/-- The function prop_remove_from_originator on a node whose link holds no reference on
  its originator. -/
theorem remove_from_originator_ok (destroy : State F → Nat → Except Fault (State F × Bool))
    (st : State F) (o dst : Nat) (ho : (st.nodes dst).hp_originator = some o)
    (hmem : dst ∈ (st.nodes o).hp_targets)
    (hx : (st.nodes dst).hp_flags.PROP_XREFED_ORIGINATOR = false) (hod : o ≠ dst) :
    prop_remove_from_originator destroy st dst = .ok (unpointed st o dst) := by
  unfold prop_remove_from_originator
  rw [ho]
  dsimp only
  rw [tailq_remove_mem hmem]
  dsimp only
  have hd : dst ≠ o := fun e => hod e.symm
  have hf : ((st.setNode o { st.nodes o with
      hp_targets := (st.nodes o).hp_targets.erase dst }).nodes dst).hp_flags.PROP_XREFED_ORIGINATOR
      = false := by
    simp [hd, hx]
  rw [hf]
  rfl

/-- The function prop_unlink0 with a private queue on a node dst that is no directory, whose
  link holds no reference, when every subscription on the canonical list of dst reads the
  node v, which is no directory: the records are collected in the queue. -/
theorem unlink0_scalar_ok [CFloat F]
    (destroy : State F → Nat → Except Fault (State F × Bool)) (n : Nat) (st : State F)
    (o v dst : Nat) (skipme : Option Nat) (eq1 : Bool)
    (ho : (st.nodes dst).hp_originator = some o) (hmem : dst ∈ (st.nodes o).hp_targets)
    (hx : (st.nodes dst).hp_flags.PROP_XREFED_ORIGINATOR = false) (hod : o ≠ dst)
    (hvd : v ≠ dst) (hvdir : (st.nodes v).hp_type ≠ .PROP_DIR)
    (hdz : (st.nodes dst).hp_type ≠ .PROP_ZOMBIE) (hddir : (st.nodes dst).hp_type ≠ .PROP_DIR)
    (hnd : (st.nodes dst).hp_canonical_subscriptions.Nodup)
    (hread : ∀ t ∈ (st.nodes dst).hp_canonical_subscriptions,
      (st.subs t).hps_value_prop = some v ∧ t ∈ (st.nodes v).hp_value_subscriptions)
    (hmon : ∀ t ∈ (st.nodes dst).hp_canonical_subscriptions
        ++ (st.nodes dst).hp_value_subscriptions,
      (st.subs t).hps_flags.PROP_SUB_SUBSCRIPTION_MONITOR = true →
      (st.subs t).hps_flags.PROP_SUB_INTERNAL = false)
    (hcmp : prop_value_compare (st.nodes v) (st.nodes dst) = .ok eq1) :
    ∃ st1 L, prop_unlink0 destroy (n + 1) st dst skipme (some [])
        = .ok (st1, some ((st.nodes dst).hp_canonical_subscriptions.flatMap fun t =>
            if some t = skipme ∨ eq1 = true then []
            else queued_of (value_record st t dst 0))) ∧
      Kept (unpointed st o dst) st1 ∧
      (∀ t ∈ (st.nodes dst).hp_canonical_subscriptions,
        (st1.subs t).hps_value_prop = some dst ∧
        (st1.subs t).hps_pending_unlink
          = if some t = skipme ∨ eq1 = true then (st.subs t).hps_pending_unlink else true) ∧
      (∀ t, t ∉ (st.nodes dst).hp_canonical_subscriptions →
        (st1.subs t).hps_value_prop = (st.subs t).hps_value_prop ∧
        (st1.subs t).hps_pending_unlink = (st.subs t).hps_pending_unlink) ∧
      (∀ q, (st1.nodes q).hp_canonical_subscriptions
        = (st.nodes q).hp_canonical_subscriptions) ∧
      (st1.nodes dst).hp_value_subscriptions
        = (st.nodes dst).hp_canonical_subscriptions.reverse
          ++ (st.nodes dst).hp_value_subscriptions ∧
      st1.log = st.log ++ L ∧
      (∀ s, L.filter (fun d => decide (d.n.hpn_sub = s) && d.n.hpn_event.is_value)
        = if s ∈ (st.nodes dst).hp_canonical_subscriptions
            ∧ ¬ (some s = skipme ∨ eq1 = true) then direct_of (value_record st s dst 0)
          else []) ∧
      (∀ q, (st1.nodes q).hp_refcount = (st.nodes q).hp_refcount
        + if q = dst then (((st.nodes dst).hp_canonical_subscriptions.flatMap fun t =>
            if some t = skipme ∨ eq1 = true then []
            else queued_of (value_record st t dst 0)).length : Int) else 0) ∧
      (∀ q, ∀ t ∈ (st1.nodes q).hp_value_subscriptions,
        t ∈ (st.nodes q).hp_value_subscriptions ∨
          t ∈ (st.nodes dst).hp_canonical_subscriptions) ∧
      ∀ q, (st1.nodes q).hp_xref = (st.nodes q).hp_xref := by
  have hU : ∀ q, ((unpointed st o dst).nodes q).u = (st.nodes q).u :=
    fun q => (unpointed_node st o dst q).1
  have hV : ∀ q, ((unpointed st o dst).nodes q).hp_value_subscriptions
      = (st.nodes q).hp_value_subscriptions := fun q => (unpointed_node st o dst q).2.2.2.1
  have hC : ∀ q, ((unpointed st o dst).nodes q).hp_canonical_subscriptions
      = (st.nodes q).hp_canonical_subscriptions := fun q => (unpointed_node st o dst q).2.2.2.2.1
  have hR : ∀ q, ((unpointed st o dst).nodes q).hp_refcount = (st.nodes q).hp_refcount :=
    fun q => (unpointed_node st o dst q).2.2.2.2.2.2
  have hS : (unpointed st o dst).subs = st.subs := unpointed_subs st o dst
  have hT : ∀ q, ((unpointed st o dst).nodes q).hp_type = (st.nodes q).hp_type := fun q => by
    unfold prop_t.hp_type
    rw [hU q]
  have hO : ((unpointed st o dst).nodes dst).hp_originator = none := by
    rw [unpointed_originator, if_pos rfl]
  obtain ⟨st1, L, e1, e2, e3, e4, e5, e6, e7, e8, e9, e10, e11⟩ := relink_subs_ok dst v skipme eq1 hvd
    ((unpointed st o dst).nodes dst).hp_canonical_subscriptions (unpointed st o dst) (some [])
    (by rw [hC]; exact hnd)
    (fun t ht => by
      rw [hC] at ht
      rw [hS, hV]
      exact hread t ht)
    (by rw [hT]; exact hvdir)
    (by rw [← hcmp]; exact value_compare_congr (hU v) (hU dst))
    (by rw [hT]; exact hdz) (by rw [hT]; exact hddir)
    (fun t ht => by
      rw [hC, hV] at ht
      rw [hS]
      exact hmon t ht)
  have hvr : (fun t => if some t = skipme ∨ eq1 = true then []
        else queued_of (value_record (unpointed st o dst) t dst 0))
      = fun t => if some t = skipme ∨ eq1 = true then []
        else queued_of (value_record st t dst 0) := by
    funext t
    rw [value_record_congr t dst 0 (by rw [hS]) (hU dst)]
  rw [hC, hvr] at e1 e9
  rw [hC] at e3 e4 e6 e8 e10
  refine ⟨st1, L, ?_, e2, ?_, ?_, ?_, ?_, ?_, ?_, ?_, ?_,
    fun q => by rw [e11 q, (unpointed_node st o dst q).2.2.2.2.2.1]⟩
  · unfold prop_unlink0
    rw [remove_from_originator_ok destroy st o dst ho hmem hx hod]
    dsimp only
    rw [relink_scalar_ok n (unpointed st o dst) dst dst skipme none (some []) st1 _ hO
      (by rw [hT]; exact hddir) e2.u (by rw [hC]; exact e1)]
    simp
  · intro t ht
    obtain ⟨a1, a2⟩ := e3 t ht
    refine ⟨a1, ?_⟩
    rw [a2, hS]
    rfl
  · intro t ht
    obtain ⟨a1, a2⟩ := e4 t ht
    rw [a1, a2, hS]
    exact ⟨rfl, rfl⟩
  · intro q
    rw [e5 q, hC]
  · rw [e6, hV]
  · rw [e7, unpointed_log]
  · intro s
    rw [e8 s, value_record_congr s dst 0 (by rw [hS]) (hU dst)]
    rfl
  · intro q
    rw [e9 q, hR]
  · intro q t ht
    have := e10 q t ht
    rw [hV] at this
    exact this

theorem value_record_short (st : State F) (s p : Nat) (how : Int) :
    (queued_of (value_record st s p how)).length ≤ 1 := by
  unfold queued_of value_record
  split
  · cases hu : (st.nodes p).u <;> simp [direct_value_args]
  · cases hu : (st.nodes p).u <;> simp [queued_value_args]

theorem queued_of_mem (L : List (Delivery F)) (n : prop_notify_t F) (h : n ∈ queued_of L) :
    Delivery.queued n ∈ L := by
  unfold queued_of at h
  obtain ⟨d, hd, e⟩ := List.mem_filterMap.1 h
  cases d with
  | queued m =>
    simp only [Option.some.injEq] at e
    subst e
    exact hd
  | direct m => cases e

/-- The subscriptions of the records that a loop over distinct subscriptions collects, at
  most one record each, are distinct. -/
theorem flatMap_subs_nodup (f : Nat → List (prop_notify_t F))
    (hf : ∀ t, ∀ n ∈ f t, n.hpn_sub = t) (h1 : ∀ t, (f t).length ≤ 1) :
    ∀ l : List Nat, l.Nodup → ((l.flatMap f).map fun n => n.hpn_sub).Nodup := by
  intro l
  induction l with
  | nil => intro _; simp
  | cons a l ih =>
    intro hnd
    rw [List.nodup_cons] at hnd
    rw [List.flatMap_cons, List.map_append, List.nodup_append]
    refine ⟨?_, ih hnd.2, ?_⟩
    · have := h1 a
      match hfa : f a with
      | [] => simp
      | [x] => simp
      | x :: y :: r => rw [hfa] at this; simp at this
    · intro x hx1 hx2
      obtain ⟨n, hn, e⟩ := List.mem_map.1 hx1
      obtain ⟨m, hm, e2⟩ := List.mem_map.1 hx2
      obtain ⟨t, ht, hmt⟩ := List.mem_flatMap.1 hm
      have a1 := hf a n hn
      have a2 := hf t m hmt
      have : t = a := by rw [← a2, e2, ← e, a1]
      subst this
      exact hnd.1 ht

/-- The deliveries to subscription s among the records that a loop over distinct
  subscriptions collects. -/
theorem filter_flatMap_sub (f : Nat → List (prop_notify_t F))
    (hf : ∀ t, ∀ n ∈ f t, n.hpn_sub = t ∧ n.hpn_event.is_value = true) (s : Nat) :
    ∀ l : List Nat, l.Nodup →
      ((l.flatMap f).map Delivery.queued).filter
          (fun d => decide (d.n.hpn_sub = s) && d.n.hpn_event.is_value)
        = if s ∈ l then (f s).map Delivery.queued else [] := by
  intro l
  induction l with
  | nil => intro _; simp
  | cons a l ih =>
    intro hnd
    rw [List.nodup_cons] at hnd
    rw [List.flatMap_cons, List.map_append, List.filter_append, ih hnd.2]
    by_cases e : a = s
    · subst e
      have h1 : ((f a).map Delivery.queued).filter
          (fun d => decide (d.n.hpn_sub = a) && d.n.hpn_event.is_value)
          = (f a).map Delivery.queued := by
        apply List.filter_eq_self.2
        intro d hd
        obtain ⟨n, hn, e⟩ := List.mem_map.1 hd
        subst e
        obtain ⟨b1, b2⟩ := hf a n hn
        simp [Delivery.n, b1, b2]
      rw [h1, if_neg hnd.1]
      simp
    · have h1 : ((f a).map Delivery.queued).filter
          (fun d => decide (d.n.hpn_sub = s) && d.n.hpn_event.is_value) = [] := by
        apply List.filter_eq_nil_iff.2
        intro d hd
        obtain ⟨n, hn, e1⟩ := List.mem_map.1 hd
        subst e1
        obtain ⟨b1, _⟩ := hf a n hn
        simp [Delivery.n, b1, e]
      rw [h1]
      have : (s ∈ a :: l) ↔ s ∈ l := by
        simp only [List.mem_cons]
        constructor
        · rintro (x | x)
          · exact absurd x.symm e
          · exact x
        · exact Or.inr
      simp only [this, List.nil_append]

/-- The function prop_link0 on a node dst that is linked by a link that holds no reference,
  below no node with a target, towards an unlinked node src, when neither node is a
  directory and every subscription on the canonical list of dst reads the node v, which is
  no directory: the unlink collects the records of the own value of dst, the link sends
  the records of src, and the collected records go to the couriers when the link sent
  none. -/
theorem link0_relink_ok [CFloat F] (fuel : Nat) (st : State F) (o v src dst : Nat)
    (skipme : Option Nat) (hard : prop_link_hard) (anc : List Nat) (eq1 eq2 : Bool)
    (hsd : src ≠ dst)
    (hsz : (st.nodes src).hp_type ≠ .PROP_ZOMBIE) (hsdir : (st.nodes src).hp_type ≠ .PROP_DIR)
    (hdz : (st.nodes dst).hp_type ≠ .PROP_ZOMBIE) (hddir : (st.nodes dst).hp_type ≠ .PROP_DIR)
    (hso : (st.nodes src).hp_originator = none)
    (ho : (st.nodes dst).hp_originator = some o) (hmem : dst ∈ (st.nodes o).hp_targets)
    (hx : (st.nodes dst).hp_flags.PROP_XREFED_ORIGINATOR = false) (hod : o ≠ dst)
    (hvd : v ≠ dst) (hvdir : (st.nodes v).hp_type ≠ .PROP_DIR)
    (hanc : prop_ancestors fuel st dst = some anc)
    (hnt : ∀ d ∈ anc, (st.nodes d).hp_targets = [])
    (hnd : (st.nodes dst).hp_canonical_subscriptions.Nodup)
    (hread : ∀ t ∈ (st.nodes dst).hp_canonical_subscriptions,
      (st.subs t).hps_value_prop = some v ∧ t ∈ (st.nodes v).hp_value_subscriptions)
    (hmon : ∀ t ∈ (st.nodes dst).hp_canonical_subscriptions
        ++ (st.nodes dst).hp_value_subscriptions ++ (st.nodes src).hp_value_subscriptions,
      (st.subs t).hps_flags.PROP_SUB_SUBSCRIPTION_MONITOR = true →
      (st.subs t).hps_flags.PROP_SUB_INTERNAL = false)
    (hxr : (st.nodes src).hp_xref < 255)
    (hcmp1 : prop_value_compare (st.nodes v) (st.nodes dst) = .ok eq1)
    (hcmp2 : prop_value_compare (st.nodes dst) (st.nodes src) = .ok eq2)
    (href : 0 < (st.nodes dst).hp_refcount) :
    ∃ st' L, prop_link0 fuel st src dst skipme hard = .ok st' ∧
      (st'.nodes dst).hp_originator = some src ∧
      (∀ t ∈ (st.nodes dst).hp_canonical_subscriptions,
        (st'.subs t).hps_value_prop = some src) ∧
      st'.log = st.log ++ L ∧
      ∀ s, L.filter (fun d => decide (d.n.hpn_sub = s) && d.n.hpn_event.is_value)
        = (if s ∈ (st.nodes dst).hp_canonical_subscriptions
              ∧ ¬ (some s = skipme ∨ eq1 = true) then direct_of (value_record st s dst 0)
            else [])
          ++ (if s ∈ (st.nodes dst).hp_canonical_subscriptions
              ∧ ¬ (some s = skipme ∨ eq2 = true) then value_record st s src 0
            else [])
          ++ (if s ∈ (st.nodes dst).hp_canonical_subscriptions
              ∧ ¬ (some s = skipme ∨ eq1 = true) ∧ eq2 = true then
              (queued_of (value_record st s dst 0)).map Delivery.queued
            else []) := by
  cases fuel with
  | zero => simp [prop_ancestors] at hanc
  | succ n =>
    obtain ⟨st1, L1, u0, uK, u3, u4, u5, u6, u7, u8, u9, u10, u11⟩ := unlink0_scalar_ok
      (fun s q => prop_destroy0 (n + 1) s q) n st o v dst skipme eq1 ho hmem hx hod hvd hvdir
      hdz hddir hnd hread
      (fun t ht => hmon t (by simp only [List.mem_append] at ht ⊢; tauto)) hcmp1
    have hU1 : ∀ q, (st1.nodes q).u = (st.nodes q).u := fun q => by
      rw [uK.u q, (unpointed_node st o dst q).1]
    have hT1 : ∀ q, (st1.nodes q).hp_type = (st.nodes q).hp_type := fun q => by
      unfold prop_t.hp_type
      rw [hU1 q]
    have hP1 : ∀ q, (st1.nodes q).hp_parent = (st.nodes q).hp_parent := fun q => by
      rw [uK.parent q, (unpointed_node st o dst q).2.1]
    have hso1 : (st1.nodes src).hp_originator = none := by
      rw [uK.originator src, unpointed_originator, if_neg hsd, hso]
    have hanc1 : prop_ancestors (n + 1) st1 dst = some anc := by
      rw [← hanc]
      exact prop_ancestors_congr hP1 (n + 1) dst
    have hnt1 : ∀ d ∈ anc, (st1.nodes d).hp_targets = [] := by
      intro d hd
      rw [uK.targets d, unpointed_targets _ _ _ _ hod]
      split
      · next e =>
        subst e
        rw [hnt d hd]
        rfl
      · exact hnt d hd
    have hF1 : ∀ t, (st1.subs t).hps_flags = (st.subs t).hps_flags := fun t => by
      rw [uK.flags t, unpointed_subs]
    have hread1 : ∀ t ∈ (st1.nodes dst).hp_canonical_subscriptions,
        (st1.subs t).hps_value_prop = some dst ∧ t ∈ (st1.nodes dst).hp_value_subscriptions := by
      intro t ht
      rw [u5] at ht
      refine ⟨(u3 t ht).1, ?_⟩
      rw [u6]
      simp [ht]
    have hmon1 : ∀ t ∈ (st1.nodes dst).hp_canonical_subscriptions
          ++ (st1.nodes src).hp_value_subscriptions,
        (st1.subs t).hps_flags.PROP_SUB_SUBSCRIPTION_MONITOR = true →
        (st1.subs t).hps_flags.PROP_SUB_INTERNAL = false := by
      intro t ht
      rw [hF1 t]
      apply hmon t
      rw [u5] at ht
      rcases List.mem_append.1 ht with h | h
      · simp [h]
      · rcases u10 src t h with h | h
        · simp [h]
        · simp [h]
    have hcmp21 : prop_value_compare (st1.nodes dst) (st1.nodes src) = .ok eq2 := by
      rw [← hcmp2]
      exact value_compare_congr (hU1 dst) (hU1 src)
    have hvrd : ∀ x, value_record st1 x src 0 = value_record st x src 0 :=
      fun x => value_record_congr x src 0 (hF1 x) (hU1 src)
    -- the collected records
    have hfsub : ∀ t, ∀ m ∈ (if some t = skipme ∨ eq1 = true then []
        else queued_of (value_record st t dst 0)),
        m.hpn_sub = t ∧ m.hpn_event.is_value = true ∧ record_refs m = [dst]
          ∧ ¬ (some t = skipme ∨ eq1 = true) := by
      intro t m hm
      split at hm
      · cases hm
      · next hs =>
        obtain ⟨a1, a2⟩ := value_record_refs st t dst 0 m hm
        have a3 := (value_record_events st t dst 0 _ (queued_of_mem _ m hm)).2
        exact ⟨a2, a3, a1, hs⟩
    have hflen : ∀ t, (if some t = skipme ∨ eq1 = true then []
        else queued_of (value_record st t dst 0)).length ≤ 1 := by
      intro t
      split
      · simp
      · exact value_record_short st t dst 0
    have hXnd := flatMap_subs_nodup (fun t => if some t = skipme ∨ eq1 = true then []
        else queued_of (value_record st t dst 0)) (fun t m hm => (hfsub t m hm).1) hflen
      (st.nodes dst).hp_canonical_subscriptions hnd
    have hXf := fun s => filter_flatMap_sub (fun t => if some t = skipme ∨ eq1 = true then []
        else queued_of (value_record st t dst 0))
      (fun t m hm => ⟨(hfsub t m hm).1, (hfsub t m hm).2.1⟩) s
      (st.nodes dst).hp_canonical_subscriptions hnd
    have hXmem : ∀ m ∈ (st.nodes dst).hp_canonical_subscriptions.flatMap (fun t =>
        if some t = skipme ∨ eq1 = true then [] else queued_of (value_record st t dst 0)),
        m.hpn_sub ∈ (st.nodes dst).hp_canonical_subscriptions
          ∧ ¬ (some m.hpn_sub = skipme ∨ eq1 = true) ∧ record_refs m = [dst] := by
      intro m hm
      obtain ⟨t, ht, hmt⟩ := List.mem_flatMap.1 hm
      obtain ⟨a1, _, a3, a4⟩ := hfsub t m hmt
      rw [a1]
      exact ⟨ht, a4, a3⟩
    have tail : ∀ st3 : State F, Near st1 st3 →
        ∃ st' L, (match link_follow dst (n + 1) (pointed st3 src dst) src with
          | .error e => (.error e : Except Fault (State F))
          | .ok src1 =>
            match relink_subscriptions (n + 1) (pointed st3 src dst) src1 dst skipme none
                none with
            | .error e => .error e
            | .ok (st6, _) =>
              match link_parents (n + 1) skipme (n + 1) st6 dst none with
              | .error e => .error e
              | .ok st7 =>
                link_flush ((some ((st.nodes dst).hp_canonical_subscriptions.flatMap fun t =>
                  if some t = skipme ∨ eq1 = true then []
                  else queued_of (value_record st t dst 0)) : prop_notify_queue F).getD []) st7)
            = .ok st' ∧
          (st'.nodes dst).hp_originator = some src ∧
          (∀ t ∈ (st.nodes dst).hp_canonical_subscriptions,
            (st'.subs t).hps_value_prop = some src) ∧
          st'.log = st1.log ++ L ∧
          ∀ s, L.filter (fun d => decide (d.n.hpn_sub = s) && d.n.hpn_event.is_value)
            = (if s ∈ (st.nodes dst).hp_canonical_subscriptions
                  ∧ ¬ (some s = skipme ∨ eq2 = true) then value_record st s src 0
                else [])
              ++ (if s ∈ (st.nodes dst).hp_canonical_subscriptions
                  ∧ ¬ (some s = skipme ∨ eq1 = true) ∧ eq2 = true then
                  (queued_of (value_record st s dst 0)).map Delivery.queued
                else []) := by
      intro st3 hN
      obtain ⟨st7, L2, t1, t2, t3, t4, t5, t6, t7, t8, t9, t10, t11, t12⟩ := link_tail_ok n st1 st3
        src dst skipme anc eq2 hN hsd (by rw [hT1]; exact hsz) (by rw [hT1]; exact hsdir)
        (by rw [hT1]; exact hddir) hso1 hanc1 hnt1 (by rw [u5]; exact hnd) hread1 hmon1 hcmp21
      rw [u5] at t6 t10 t11
      rw [t1]
      dsimp only
      rw [t2]
      dsimp only
      rw [t3]
      dsimp only
      rw [Option.getD_some]
      cases eq2 with
      | true =>
        obtain ⟨st', f1, f2, f3, f4⟩ := link_flush_pending _ st7 hXnd (fun m hm => by
          obtain ⟨a1, a2, _⟩ := hXmem m hm
          rw [t11 m.hpn_sub, if_neg (by simp), (u3 _ a1).2, if_neg a2])
        refine ⟨st', L2 ++ ((st.nodes dst).hp_canonical_subscriptions.flatMap fun t =>
            if some t = skipme ∨ eq1 = true then []
            else queued_of (value_record st t dst 0)).map Delivery.queued, f1, ?_, ?_, ?_, ?_⟩
        · rw [f2]
          exact t4
        · intro t ht
          rw [f3 t]
          exact t6 t ht
        · rw [f4, t9, List.append_assoc]
        · intro s
          rw [List.filter_append, t10 s, hXf s]
          by_cases hs : s ∈ (st.nodes dst).hp_canonical_subscriptions
          · by_cases hk : some s = skipme ∨ eq1 = true
            · simp [hs, hk]
            · simp [hs, hk]
          · simp [hs]
      | false =>
        obtain ⟨st', f1, f2, f3⟩ := link_flush_free dst _ st7 (fun m hm => by
            obtain ⟨a1, a2, a3⟩ := hXmem m hm
            refine ⟨?_, a3⟩
            rw [t11 m.hpn_sub, if_pos ⟨a1, by
              intro h
              rcases h with h | h
              · exact a2 (Or.inl h)
              · cases h⟩])
          (by
            have h1 := t12 dst
            have h2 := u9 dst
            rw [if_pos rfl] at h2
            omega)
        refine ⟨st', L2, f1, ?_, ?_, ?_, ?_⟩
        · rw [f2.hp_originator dst]
          exact t4
        · intro t ht
          rw [f2.hps_value_prop t]
          exact t6 t ht
        · rw [f3, t9]
        · intro s
          rw [t10 s, hvrd s]
          simp
    have finish : ∀ r : Except Fault (State F),
        (∃ st' L, r = .ok st' ∧
          (st'.nodes dst).hp_originator = some src ∧
          (∀ t ∈ (st.nodes dst).hp_canonical_subscriptions,
            (st'.subs t).hps_value_prop = some src) ∧
          st'.log = st1.log ++ L ∧
          ∀ s, L.filter (fun d => decide (d.n.hpn_sub = s) && d.n.hpn_event.is_value)
            = (if s ∈ (st.nodes dst).hp_canonical_subscriptions
                  ∧ ¬ (some s = skipme ∨ eq2 = true) then value_record st s src 0
                else [])
              ++ (if s ∈ (st.nodes dst).hp_canonical_subscriptions
                  ∧ ¬ (some s = skipme ∨ eq1 = true) ∧ eq2 = true then
                  (queued_of (value_record st s dst 0)).map Delivery.queued
                else [])) →
        ∃ st' L, r = .ok st' ∧
          (st'.nodes dst).hp_originator = some src ∧
          (∀ t ∈ (st.nodes dst).hp_canonical_subscriptions,
            (st'.subs t).hps_value_prop = some src) ∧
          st'.log = st.log ++ L ∧
          ∀ s, L.filter (fun d => decide (d.n.hpn_sub = s) && d.n.hpn_event.is_value)
            = (if s ∈ (st.nodes dst).hp_canonical_subscriptions
                  ∧ ¬ (some s = skipme ∨ eq1 = true) then direct_of (value_record st s dst 0)
                else [])
              ++ (if s ∈ (st.nodes dst).hp_canonical_subscriptions
                  ∧ ¬ (some s = skipme ∨ eq2 = true) then value_record st s src 0
                else [])
              ++ (if s ∈ (st.nodes dst).hp_canonical_subscriptions
                  ∧ ¬ (some s = skipme ∨ eq1 = true) ∧ eq2 = true then
                  (queued_of (value_record st s dst 0)).map Delivery.queued
                else []) := by
      rintro r ⟨st', L, g1, g2, g3, g4, g5⟩
      refine ⟨st', L1 ++ L, g1, g2, g3, by rw [g4, u7, List.append_assoc], fun s => ?_⟩
      rw [List.filter_append, u8 s, g5 s, List.append_assoc]
    apply finish
    unfold prop_link0
    rw [if_neg hsd]
    have hzz : ((st.nodes src).hp_type = .PROP_ZOMBIE || (st.nodes dst).hp_type = .PROP_ZOMBIE)
        = false := by simp [hsz, hdz]
    rw [hzz]
    simp only [Bool.false_eq_true, if_false]
    have h0 : (st.nodes dst).hp_originator ≠ none := by simp [ho]
    rw [if_pos h0, u0]
    dsimp only
    by_cases hc : (hard = .PROP_LINK_XREFED
        || (hard = .PROP_LINK_XREFED_IF_ORPHANED && (st1.nodes src).hp_parent = none)) = true
    · rw [if_pos hc]
      have hx' : ((st1.setNode dst { st1.nodes dst with hp_flags := { (st1.nodes dst).hp_flags with
          PROP_XREFED_ORIGINATOR := true } }).nodes src).hp_xref < 255 := by
        simp [hsd, u11 src, hxr]
      rw [if_pos hx']
      exact tail _ (near_anchor st1 src dst hsd)
    · rw [if_neg hc]
      exact tail st1 (Near.n_refl st1)

theorem value_record_length (st : State F) (s p : Nat) (how : Int) :
    (value_record st s p how).length ≤ 1 := by
  unfold value_record
  split
  · cases hu : (st.nodes p).u <;> simp [direct_value_args]
  · cases hu : (st.nodes p).u <;> simp [queued_value_args]

theorem value_record_queued (st : State F) (s p : Nat) (how : Int)
    (h : (st.subs s).hps_flags.PROP_SUB_INTERNAL = false) :
    direct_of (value_record st s p how) = [] ∧
      (queued_of (value_record st s p how)).map Delivery.queued = value_record st s p how := by
  unfold value_record
  rw [h]
  simp only [Bool.false_eq_true, if_false]
  cases hu : (st.nodes p).u <;> simp [queued_value_args, direct_of, queued_of]

/-- C24 (amended): in a store that satisfies the invariant of the links and subscription
  lists, let dst be linked to src1 by a link that holds no reference on src1, let src2 be
  an unlinked node other than dst, none of dst, src2 and the node v a directory, dst and
  src2 no zombies, no ancestor of dst with a target, and let every subscription on the
  canonical list of dst read v (the value that src1 resolves to). Then
  prop_link_ex(src2, dst, skipme, hard) returns, dst has the originator src2, and every
  subscription s without PROP_SUB_INTERNAL on the canonical list of dst has src2 as its
  value node and got at most one value record for the whole re-link: none when s is
  skipme; else the record of src2 when prop_value_compare(dst, src2) is 0, whatever the
  value of v; else the collected record of the own value of dst, which compares equal to
  the value of src2, when prop_value_compare(v, dst) is 0; else none. -/
theorem relink_delivers [CFloat F] (fuel : Nat) (st : State F) (src1 v src2 dst : Nat)
    (skipme : Option Nat) (hard : prop_link_hard) (anc : List Nat) (eq1 eq2 : Bool)
    (hok : StoreOk (fun _ => False) st)
    (h2d : src2 ≠ dst) (h1d : src1 ≠ dst) (hvd : v ≠ dst)
    (hsz : (st.nodes src2).hp_type ≠ .PROP_ZOMBIE)
    (hsdir : (st.nodes src2).hp_type ≠ .PROP_DIR)
    (hdz : (st.nodes dst).hp_type ≠ .PROP_ZOMBIE) (hddir : (st.nodes dst).hp_type ≠ .PROP_DIR)
    (hvdir : (st.nodes v).hp_type ≠ .PROP_DIR)
    (hso : (st.nodes src2).hp_originator = none)
    (ho : (st.nodes dst).hp_originator = some src1)
    (hx : (st.nodes dst).hp_flags.PROP_XREFED_ORIGINATOR = false)
    (hanc : prop_ancestors fuel st dst = some anc)
    (hnt : ∀ d ∈ anc, (st.nodes d).hp_targets = [])
    (hread : ∀ t ∈ (st.nodes dst).hp_canonical_subscriptions,
      (st.subs t).hps_value_prop = some v)
    (hmon : ∀ t ∈ (st.nodes dst).hp_canonical_subscriptions
        ++ (st.nodes dst).hp_value_subscriptions ++ (st.nodes src2).hp_value_subscriptions,
      (st.subs t).hps_flags.PROP_SUB_SUBSCRIPTION_MONITOR = true →
      (st.subs t).hps_flags.PROP_SUB_INTERNAL = false)
    (hxr : (st.nodes src2).hp_xref < 255)
    (hcmp1 : prop_value_compare (st.nodes v) (st.nodes dst) = .ok eq1)
    (hcmp2 : prop_value_compare (st.nodes dst) (st.nodes src2) = .ok eq2)
    (href : 0 < (st.nodes dst).hp_refcount) :
    ∃ st', prop_link_ex fuel st src2 dst skipme hard = .ok st' ∧
      (st'.nodes dst).hp_originator = some src2 ∧
      ∀ s ∈ (st.nodes dst).hp_canonical_subscriptions,
        (st.subs s).hps_flags.PROP_SUB_INTERNAL = false →
        (st'.subs s).hps_value_prop = some src2 ∧
        (value_deliveries st st' s).length ≤ 1 ∧
        value_deliveries st st' s
          = (if some s = skipme then []
            else if eq2 = false then value_record st s src2 0
            else if eq1 = false then value_record st s dst 0
            else []) := by
  have hnd : (st.nodes dst).hp_canonical_subscriptions.Nodup :=
    nodup_of_count_one fun a ha =>
      hok.canonical_count a dst (hok.canonical_back dst a ha).1
  obtain ⟨st', L, k1, k2, k3, k4, k5⟩ := link0_relink_ok fuel st src1 v src2 dst skipme hard anc
    eq1 eq2 h2d hsz hsdir hdz hddir hso ho
    (mem_of_count_one (hok.link_count dst src1 ho (fun h => h))) hx h1d hvd hvdir hanc hnt hnd
    (fun t ht => ⟨hread t ht, mem_of_count_one (hok.value_count t v (hread t ht))⟩)
    hmon hxr hcmp1 hcmp2 href
  refine ⟨st', k1, k2, fun s hs hi => ?_⟩
  have hv : value_deliveries st st' s
      = (if some s = skipme then []
        else if eq2 = false then value_record st s src2 0
        else if eq1 = false then value_record st s dst 0
        else []) := by
    unfold value_deliveries emitted
    rw [k4, List.drop_left, k5 s]
    obtain ⟨a1, a2⟩ := value_record_queued st s dst 0 hi
    rw [a1, a2]
    by_cases hk : some s = skipme
    · simp [hk]
    · cases eq1 <;> cases eq2 <;> simp [hs, hk]
  refine ⟨k3 s hs, ?_, hv⟩
  rw [hv]
  split
  · simp
  · split
    · exact value_record_length st s src2 0
    · split
      · exact value_record_length st s dst 0
      · simp

/-- The store `ex_relink` satisfies the invariant of the links and subscription lists. -/
theorem storeOk_ex_relink : StoreOk (fun _ => False) ex_relink := by
  have h0 : StoreOk (fun _ => False) (state_after (run_api ex_relink_calls State.empty)) :=
    storeOk_of_wired (wired_of_run ex_relink_calls State.empty Wired.init (by decide))
  have e1 := eq_ok_state_after (prop_set_int_ex
    (state_after (run_api ex_relink_calls State.empty)) (some 0) none 5) (by decide)
  have h1 := StoreOk.ok_of_tame (shrink_of_set_int_ex e1) (tame_of_set_int_ex e1) h0
  have e2 := eq_ok_state_after (prop_set_int_ex
    (state_after (prop_set_int_ex (state_after (run_api ex_relink_calls State.empty))
      (some 0) none 5)) (some 1) none 5) (by decide)
  have h2 := StoreOk.ok_of_tame (shrink_of_set_int_ex e2) (tame_of_set_int_ex e2) h1
  have e3 := eq_ok_state_after (prop_set_int_ex
    (state_after (prop_set_int_ex
      (state_after (prop_set_int_ex (state_after (run_api ex_relink_calls State.empty))
        (some 0) none 5)) (some 1) none 5)) (some 2) none 9) (by decide)
  have h3 : StoreOk (fun _ => False) ex_relink_set :=
    StoreOk.ok_of_tame (shrink_of_set_int_ex e3) (tame_of_set_int_ex e3) h2
  have e4 := eq_ok_state_after (prop_link_ex 4 ex_relink_set 0 2 none .PROP_LINK_NORMAL)
    (by decide)
  exact storeOk_of_link0 e4 h3 (by decide) (by decide)

/-- C24 fails as stated when the new value equals the old one and differs from the own
  value of dst. In `ex_relink` the node 2 holds the own value 9 and is linked to the node
  0 with the int 5, which the queued subscription 0 on the node 2 reads; the node 1 holds
  the int 5 as well. `prop_link(1, 2)` returns and the subscription gets a record of
  PROP_SET_INT with 5 about the node 1, and `prop_link(0, 2)`, the link to the same node
  once more, gives it a record of PROP_SET_INT with 5 about the node 0. -/
theorem relink_repeats_equal_value :
    (ex_relink.nodes 0).u = .PROP_INT 5 0 0 ∧
    (ex_relink.nodes 1).u = .PROP_INT 5 0 0 ∧
    (ex_relink.nodes 2).u = .PROP_INT 9 0 0 ∧
    (ex_relink.nodes 2).hp_originator = some 0 ∧
    (ex_relink.subs 0).hps_canonical_prop = some 2 ∧
    (ex_relink.subs 0).hps_value_prop = some 0 ∧
    (ex_relink.subs 0).hps_flags.PROP_SUB_INTERNAL = false ∧
    returned (prop_link_ex 4 ex_relink 1 2 none .PROP_LINK_NORMAL) = true ∧
    value_deliveries ex_relink
        (state_after (prop_link_ex 4 ex_relink 1 2 none .PROP_LINK_NORMAL)) 0
      = [.queued { hpn_sub := 0, hpn_event := .PROP_SET_INT, u := .fslot 5,
                   hpn_prop2 := some 1 }] ∧
    returned (prop_link_ex 4 ex_relink 0 2 none .PROP_LINK_NORMAL) = true ∧
    value_deliveries ex_relink
        (state_after (prop_link_ex 4 ex_relink 0 2 none .PROP_LINK_NORMAL)) 0
      = [.queued { hpn_sub := 0, hpn_event := .PROP_SET_INT, u := .fslot 5,
                   hpn_prop2 := some 0 }] := by
  decide

/-- The amended C24 at `ex_relink` for `prop_link(1, 2)`: the own value 9 of the node 2
  compares unequal to the 5 of the node 1, so the subscription 0 gets the record of the
  node 1. -/
theorem relink_delivers_witness :
    StoreOk (fun _ => False) ex_relink ∧
    ∃ st', prop_link_ex 4 ex_relink 1 2 none .PROP_LINK_NORMAL = .ok st' ∧
      (st'.nodes 2).hp_originator = some 1 ∧
      ∀ s ∈ (ex_relink.nodes 2).hp_canonical_subscriptions,
        (ex_relink.subs s).hps_flags.PROP_SUB_INTERNAL = false →
        (st'.subs s).hps_value_prop = some 1 ∧
        (value_deliveries ex_relink st' s).length ≤ 1 ∧
        value_deliveries ex_relink st' s
          = (if some s = none then []
            else if false = false then value_record ex_relink s 1 0
            else if false = false then value_record ex_relink s 2 0
            else []) :=
  ⟨storeOk_ex_relink,
    relink_delivers 4 ex_relink 0 0 1 2 none .PROP_LINK_NORMAL [] false false
      storeOk_ex_relink (by decide) (by decide) (by decide) (by decide) (by decide)
      (by decide) (by decide) (by decide) (by decide) (by decide) (by decide) (by decide)
      (fun d hd => by cases hd) (by decide) (by decide) (by decide) rfl rfl (by decide)⟩

/-! ## C28: the order of the records of one subscription -/

theorem queued_of_append (L M : List (Delivery F)) :
    queued_of (L ++ M) = queued_of L ++ queued_of M := by
  unfold queued_of
  rw [List.filterMap_append]

theorem enqueued_of_append (f : SubFlags) (s : Nat) (exp : Bool) (L M : List (Delivery F)) :
    enqueued_of f s exp (L ++ M) = enqueued_of f s exp L ++ enqueued_of f s exp M := by
  unfold enqueued_of records_of
  rw [queued_of_append, List.filter_append, List.filter_append]

theorem SubQueued.sq_refl (s : Nat) (st : State F) : SubQueued s st st :=
  ⟨Nat.le_refl _, Nat.le_refl _, fun _ _ => ⟨rfl, rfl, [], by simp, by simp [queued_of, records_of],
    by simp [enqueued_of, queued_of, records_of], by simp [enqueued_of, queued_of, records_of]⟩⟩

theorem SubQueued.sq_trans {s : Nat} {a b c : State F} (h1 : SubQueued s a b)
    (h2 : SubQueued s b c) : SubQueued s a c := by
  obtain ⟨a1, a2, a3⟩ := h1
  obtain ⟨b1, b2, b3⟩ := h2
  refine ⟨Nat.le_trans a1 b1, Nat.le_trans a2 b2, fun hs hc => ?_⟩
  obtain ⟨f1, c1, L, l1, e0, e1, e2⟩ := a3 hs hc
  obtain ⟨f2, c2, M, l2, g0, g1, g2⟩ := b3 (Nat.lt_of_lt_of_le hs a1)
    (by rw [c1]; exact Nat.lt_of_lt_of_le hc a2)
  rw [c1, f1] at g1 g2
  refine ⟨by rw [f2, f1], by rw [c2, c1], L ++ M, by rw [l2, l1, List.append_assoc], ?_, ?_, ?_⟩
  · intro n hn
    rw [queued_of_append] at hn
    unfold records_of at hn
    rw [List.filter_append] at hn
    rcases List.mem_append.1 hn with h | h
    · exact e0 n h
    · exact g0 n h
  · rw [g1, e1, enqueued_of_append, List.append_assoc]
  · rw [g2, e2, enqueued_of_append, List.append_assoc]

/-- A step that leaves the subscriptions, the couriers and the log alone. -/
theorem SubQueued.of_frame (s : Nat) {st st' : State F} (h1 : st'.subs = st.subs)
    (h2 : st'.couriers = st.couriers) (h3 : st'.log = st.log) (h4 : st'.nsubs = st.nsubs)
    (h5 : st'.ncouriers = st.ncouriers) : SubQueued s st st' := by
  refine ⟨by rw [h4], by rw [h5], fun _ _ => ⟨by rw [h1], by rw [h1], [], by simp [h3], ?_, ?_, ?_⟩⟩
  · simp [queued_of, records_of]
  · simp [enqueued_of, queued_of, records_of, h2]
  · simp [enqueued_of, queued_of, records_of, h2]

/-- A subscription takes new fields but keeps its flags and its courier. -/
theorem SubQueued.sq_setSub (s : Nat) (st : State F) (t : Nat) (sb : prop_sub_t)
    (hf : sb.hps_flags = (st.subs t).hps_flags)
    (hc : sb.hps_courier = (st.subs t).hps_courier) : SubQueued s st (st.setSub t sb) := by
  refine ⟨Nat.le_refl _, Nat.le_refl _, fun _ _ => ⟨?_, ?_, [], by simp, ?_, ?_, ?_⟩⟩
  · by_cases e : s = t
    · subst e; simp [hf]
    · simp [e]
  · by_cases e : s = t
    · subst e; simp [hc]
    · simp [e]
  · simp [queued_of, records_of]
  · simp [enqueued_of, queued_of, records_of, State.setSub]
  · simp [enqueued_of, queued_of, records_of, State.setSub]

theorem SubQueued.sq_call_direct (s : Nat) (st : State F) (n : prop_notify_t F) :
    SubQueued s st (call_direct st n) := by
  refine ⟨Nat.le_refl _, Nat.le_refl _, fun _ _ => ⟨rfl, rfl, [.direct n], rfl, ?_, ?_, ?_⟩⟩
  · simp [queued_of, records_of]
  · simp [enqueued_of, queued_of, records_of, call_direct]
  · simp [enqueued_of, queued_of, records_of, call_direct]

/-- A record for the subscription t is put at the tail of the queue of the courier of t
  that `SubFlags.expedited` names. -/
theorem SubQueued.sq_insert (s : Nat) (st : State F) (t : Nat) (n : prop_notify_t F)
    (hn : n.hpn_sub = t) (hev : n.hpn_event ≠ .PROP_SET_STRING) :
    SubQueued s st (courier_notify (queue_insert_tail st (st.subs t).hps_courier
      ((st.subs t).hps_flags.expedited n.hpn_event) n) (st.subs t).hps_courier) := by
  have hsubs : (courier_notify (queue_insert_tail st (st.subs t).hps_courier
      ((st.subs t).hps_flags.expedited n.hpn_event) n) (st.subs t).hps_courier).subs
      = st.subs := by
    unfold courier_notify queue_insert_tail
    dsimp only
    cases (st.subs t).hps_flags.expedited n.hpn_event <;> (repeat' split) <;> rfl
  have hns : (courier_notify (queue_insert_tail st (st.subs t).hps_courier
      ((st.subs t).hps_flags.expedited n.hpn_event) n) (st.subs t).hps_courier).nsubs
      = st.nsubs := by
    unfold courier_notify queue_insert_tail
    dsimp only
    cases (st.subs t).hps_flags.expedited n.hpn_event <;> (repeat' split) <;> rfl
  have hnc : (courier_notify (queue_insert_tail st (st.subs t).hps_courier
      ((st.subs t).hps_flags.expedited n.hpn_event) n) (st.subs t).hps_courier).ncouriers
      = st.ncouriers := by
    unfold courier_notify queue_insert_tail
    dsimp only
    cases (st.subs t).hps_flags.expedited n.hpn_event <;> (repeat' split) <;> rfl
  refine ⟨by rw [hns], by rw [hnc], fun _ _ => ⟨by rw [hsubs], by rw [hsubs], [.queued n], ?_,
    ?_, ?_, ?_⟩⟩
  · rw [courier_notify_log, queue_insert_tail_log]
  · intro m hm
    simp only [queued_of, records_of, List.filterMap_cons, List.filterMap_nil,
      List.mem_filter, List.mem_singleton] at hm
    rw [hm.1]
    exact hev
  · rw [(courier_notify_queues _ _ _).1]
    unfold queue_insert_tail enqueued_of records_of queued_of
    by_cases e : t = s
    · subst e
      cases hx : (st.subs t).hps_flags.expedited n.hpn_event <;>
        simp [State.setCourier, hn, hx]
    · have hne : n.hpn_sub ≠ s := by rw [hn]; exact e
      by_cases ec : (st.subs s).hps_courier = (st.subs t).hps_courier
      · cases hx : (st.subs t).hps_flags.expedited n.hpn_event <;>
          simp [State.setCourier, hne, ec]
      · cases hx : (st.subs t).hps_flags.expedited n.hpn_event <;>
          simp [State.setCourier, hne, ec]
  · rw [(courier_notify_queues _ _ _).2]
    unfold queue_insert_tail enqueued_of records_of queued_of
    by_cases e : t = s
    · subst e
      cases hx : (st.subs t).hps_flags.expedited n.hpn_event <;>
        simp [State.setCourier, hn, hx]
    · have hne : n.hpn_sub ≠ s := by rw [hn]; exact e
      by_cases ec : (st.subs s).hps_courier = (st.subs t).hps_courier
      · cases hx : (st.subs t).hps_flags.expedited n.hpn_event <;>
          simp [State.setCourier, hne, ec]
      · cases hx : (st.subs t).hps_flags.expedited n.hpn_event <;>
          simp [State.setCourier, hne, ec]

/-- The function courier_enqueue with a record for the subscription s0 itself whose event
  is one of `prop_event_t.enqueued`. -/
theorem sq_courier_enqueue (s : Nat) (st : State F) (t : Nat) (n : prop_notify_t F)
    (hn : n.hpn_sub = t) (hev : n.hpn_event.enqueued = true) :
    SubQueued s st (courier_enqueue st t n) := by
  unfold prop_event_t.enqueued at hev
  simp only [Bool.and_eq_true, decide_eq_true_eq] at hev
  have hx : (st.subs t).hps_flags.PROP_SUB_EXPEDITE
      = (st.subs t).hps_flags.expedited n.hpn_event := by
    unfold SubFlags.expedited
    simp [hev.1]
  unfold courier_enqueue
  dsimp only
  rw [hx]
  exact SubQueued.sq_insert s st t n hn hev.2

theorem sq_get_notify (s : Nat) {st st' : State F} {t : Nat} (h : get_notify st t = .ok st') :
    SubQueued s st st' := by
  unfold get_notify at h
  split at h
  · cases h
  · cases h
    exact SubQueued.sq_setSub s st t _ rfl rfl

theorem SubQueued.sq_setNode (s : Nat) (st : State F) (p : Nat) (nd : prop_t F) :
    SubQueued s st (st.setNode p nd) := SubQueued.of_frame s rfl rfl rfl rfl rfl

theorem SubQueued.sq_ref_inc (s : Nat) (st : State F) (p : Nat) :
    SubQueued s st (prop_ref_inc st p) := SubQueued.of_frame s rfl rfl rfl rfl rfl

theorem SubQueued.sq_setU (s : Nat) (st : State F) (p : Nat) (v : prop_value F) :
    SubQueued s st (st.setU p v) := SubQueued.of_frame s rfl rfl rfl rfl rfl

theorem SubQueued.sq_setChilds (s : Nat) (st : State F) (p : Nat) (cs : List Nat) :
    SubQueued s st (st.setChilds p cs) := by
  unfold State.setChilds
  split
  · exact SubQueued.sq_setU s st _ _
  · exact SubQueued.sq_refl s st

theorem SubQueued.sq_setSelected (s : Nat) (st : State F) (p : Nat) (sel : Option Nat) :
    SubQueued s st (st.setSelected p sel) := by
  unfold State.setSelected
  split
  · exact SubQueued.sq_setU s st _ _
  · exact SubQueued.sq_refl s st

theorem queued_value_args_enqueued {u : prop_value F} {how : Int} {ev : prop_event_t}
    {a : notify_u F} (h : queued_value_args u how = .ok (ev, a)) : ev.enqueued = true := by
  cases u <;> simp [queued_value_args] at h <;> (obtain ⟨h1, _⟩ := h; subst h1; rfl)

theorem pnqOk_none : PnqOk (none : Option (List (prop_notify_t F))) := by
  intro n hn
  simp at hn

theorem pnqOk_nil : PnqOk (some [] : Option (List (prop_notify_t F))) := by
  intro n hn
  simp at hn

theorem sq_build_notify_value (s : Nat) {st st' : State F} {t : Nat} {direct : Bool} {p : Nat}
    {pnq pnq' : Option (List (prop_notify_t F))} {how : Int}
    (h : prop_build_notify_value st t direct p pnq how = .ok (st', pnq')) (hq : PnqOk pnq) :
    SubQueued s st st' ∧ PnqOk pnq' := by
  unfold prop_build_notify_value at h
  split at h
  · split at h
    · cases h
    · cases h
      exact ⟨SubQueued.sq_call_direct s st _, hq⟩
  · split at h
    · cases h
    · next st1 hg =>
      dsimp only at h
      split at h
      · cases h
      · next ev a ha =>
        have hev := queued_value_args_enqueued ha
        split at h
        · next q =>
          cases h
          refine ⟨(sq_get_notify s hg).sq_trans (SubQueued.sq_ref_inc s st1 p), ?_⟩
          intro n hn
          simp only [Option.getD_some, List.mem_append, List.mem_singleton] at hn
          rcases hn with hn | hn
          · exact hq n (by simpa using hn)
          · subst hn; exact hev
        · cases h
          exact ⟨((sq_get_notify s hg).sq_trans (SubQueued.sq_ref_inc s st1 p)).sq_trans
            (sq_courier_enqueue s (prop_ref_inc st1 p) t _ rfl hev), hq⟩

theorem sq_build_notify_value_none (s : Nat) {st st' : State F} {t : Nat} {direct : Bool}
    {p : Nat} {pnq' : Option (List (prop_notify_t F))} {how : Int}
    (h : prop_build_notify_value st t direct p none how = .ok (st', pnq')) :
    SubQueued s st st' :=
  (sq_build_notify_value s h pnqOk_none).1

theorem sq_notify_value_subs (s : Nat) (skipme : Option Nat) (how : Int) :
    ∀ (l : List Nat) (st st' : State F), notify_value_subs skipme how l st = .ok st' →
      SubQueued s st st' := by
  intro l
  induction l with
  | nil => intro st st' h; cases h; exact SubQueued.sq_refl s st
  | cons t rest ih =>
    intro st st' h
    unfold notify_value_subs at h
    split at h
    · exact ih _ _ h
    · split at h
      · cases h
      · split at h
        · cases h
        · next st1 _ hb => exact (sq_build_notify_value_none s hb).sq_trans (ih _ _ h)

theorem sq_notify_multi_subs (s : Nat) (p : Nat) :
    ∀ (l : List Nat) (st st' : State F), notify_multi_subs p l st = .ok st' →
      SubQueued s st st' := by
  intro l
  induction l with
  | nil => intro st st' h; cases h; exact SubQueued.sq_refl s st
  | cons t rest ih =>
    intro st st' h
    unfold notify_multi_subs at h
    split at h
    · split at h
      · cases h
      · next st1 _ hb => exact (sq_build_notify_value_none s hb).sq_trans (ih _ _ h)
    · exact ih _ _ h

theorem sq_notify_multi_walk (s : Nat) :
    ∀ (fuel : Nat) (st st' : State F) (p : Nat), notify_multi_walk fuel st p = .ok st' →
      SubQueued s st st' := by
  intro fuel
  induction fuel with
  | zero => intro st st' p h; cases h
  | succ n ih =>
    intro st st' p h
    unfold notify_multi_walk at h
    split at h
    · cases h; exact SubQueued.sq_refl s st
    · split at h
      · split at h
        · cases h
        · next st1 hm => exact (sq_notify_multi_subs s _ _ _ _ hm).sq_trans (ih _ _ _ h)
      · exact ih _ _ _ h

theorem sq_notify_value (s : Nat) {st st' : State F} {p : Nat} {skipme : Option Nat}
    {how : Int} (h : prop_notify_value st p skipme how = .ok st') : SubQueued s st st' := by
  unfold prop_notify_value at h
  split at h
  · cases h
  · next st1 hv =>
    have h1 := sq_notify_value_subs s _ _ _ _ _ hv
    split at h
    · exact h1.sq_trans (sq_notify_multi_walk s _ _ _ _ h)
    · cases h; exact h1

/-- A node takes a new value and the change is reported. -/
theorem sq_setU_notify (s : Nat) {st st' : State F} {p : Nat} {v : prop_value F}
    {skipme : Option Nat} {how : Int}
    (h : prop_notify_value (st.setU p v) p skipme how = .ok st') : SubQueued s st st' :=
  (SubQueued.sq_setU s st p v).sq_trans (sq_notify_value s h)

theorem sq_build_notify_child (s : Nat) {st st' : State F} {t : Nat} {p : Option Nat}
    {event : prop_event_t} {direct : Bool} {flags : Int}
    (h : prop_build_notify_child st t p event direct flags = .ok st')
    (hev : event.enqueued = true) : SubQueued s st st' := by
  unfold prop_build_notify_child at h
  split at h
  · cases h
    exact SubQueued.sq_call_direct s st _
  · split at h
    · cases h
    · next st1 hg =>
      cases h
      cases p with
      | none => exact (sq_get_notify s hg).sq_trans (sq_courier_enqueue s st1 t _ rfl hev)
      | some q =>
        exact ((sq_get_notify s hg).sq_trans (SubQueued.sq_ref_inc s st1 q)).sq_trans
          (sq_courier_enqueue s (prop_ref_inc st1 q) t _ rfl hev)

theorem sq_notify_child (s : Nat) (child : Option Nat) (event : prop_event_t)
    (skipme : Option Nat) (flags : Int) :
    ∀ (l : List Nat) (st st' : State F),
      prop_notify_child child event skipme flags l st = .ok st' →
      event.enqueued = true → SubQueued s st st' := by
  intro l
  induction l with
  | nil => intro st st' h _; cases h; exact SubQueued.sq_refl s st
  | cons t rest ih =>
    intro st st' h hev
    unfold prop_notify_child at h
    split at h
    · exact ih _ _ h hev
    · split at h
      · cases h
      · next st1 hb => exact (sq_build_notify_child s hb hev).sq_trans (ih _ _ h hev)

theorem sq_make_dir (s : Nat) {st st' : State F} {p : Nat} {skipme : Option Nat}
    (h : prop_make_dir st p skipme = .ok st') : SubQueued s st st' := by
  unfold prop_make_dir at h
  split at h
  · cases h; exact SubQueued.sq_refl s st
  · split at h
    · cases h
    · exact sq_setU_notify s h

theorem sq_of_set_void_exl (s : Nat) {st st' : State F} {p : Nat} {skipme : Option Nat}
    (h : prop_set_void_exl st p skipme = .ok st') : SubQueued s st st' := by
  unfold prop_set_void_exl at h
  repeat' split at h
  all_goals first
    | (cases h; exact SubQueued.sq_refl s _)
    | exact sq_setU_notify s h

theorem sq_of_set_void_ex (s : Nat) {st st' : State F} {p : Option Nat} {skipme : Option Nat}
    (h : prop_set_void_ex st p skipme = .ok st') : SubQueued s st st' := by
  unfold prop_set_void_ex at h
  split at h
  · cases h; exact SubQueued.sq_refl s _
  · exact sq_of_set_void_exl s h

theorem sq_of_set_string_exl (s : Nat) {st st' : State F} {p : Nat} {skipme : Option Nat}
    {str : String} {type : Nat} (h : prop_set_string_exl st p skipme str type = .ok st') :
    SubQueued s st st' := by
  unfold prop_set_string_exl at h
  repeat' split at h
  all_goals first
    | (cases h; exact SubQueued.sq_refl s _)
    | exact sq_setU_notify s h

theorem sq_of_set_rstring_exl (s : Nat) {st st' : State F} {p : Nat} {skipme : Option Nat}
    {rstr : String} (h : prop_set_rstring_exl st p skipme rstr = .ok st') :
    SubQueued s st st' := by
  unfold prop_set_rstring_exl at h
  repeat' split at h
  all_goals first
    | (cases h; exact SubQueued.sq_refl s _)
    | exact sq_setU_notify s h

theorem sq_of_set_string_ex (s : Nat) {st st' : State F} {p : Option Nat} {skipme : Option Nat}
    {str : Option String} {type : Nat} (h : prop_set_string_ex st p skipme str type = .ok st') :
    SubQueued s st st' := by
  unfold prop_set_string_ex at h
  repeat' split at h
  all_goals first
    | (cases h; exact SubQueued.sq_refl s _)
    | exact sq_of_set_void_ex s h
    | exact sq_of_set_string_exl s h

theorem sq_of_set_rstring_ex (s : Nat) {st st' : State F} {p : Option Nat} {skipme : Option Nat}
    {rstr : Option String} (h : prop_set_rstring_ex st p skipme rstr = .ok st') :
    SubQueued s st st' := by
  unfold prop_set_rstring_ex at h
  repeat' split at h
  all_goals first
    | (cases h; exact SubQueued.sq_refl s _)
    | exact sq_of_set_void_ex s h
    | exact sq_of_set_rstring_exl s h

theorem sq_of_set_cstring_ex (s : Nat) {st st' : State F} {p : Option Nat} {skipme : Option Nat}
    {cstr : Option String} (h : prop_set_cstring_ex st p skipme cstr = .ok st') :
    SubQueued s st st' := by
  unfold prop_set_cstring_ex at h
  repeat' split at h
  all_goals first
    | (cases h; exact SubQueued.sq_refl s _)
    | exact sq_of_set_void_ex s h
    | exact sq_setU_notify s h

theorem sq_of_set_link_ex (s : Nat) {st st' : State F} {p : Option Nat} {skipme : Option Nat}
    {title url : Option String} (h : prop_set_link_ex st p skipme title url = .ok st') :
    SubQueued s st st' := by
  unfold prop_set_link_ex at h
  repeat' split at h
  all_goals first
    | (cases h; exact SubQueued.sq_refl s _)
    | exact sq_of_set_void_ex s h
    | exact sq_setU_notify s h

theorem sq_of_set_int_exl (s : Nat) [CFloat F] {st st' : State F} {p : Nat} {skipme : Option Nat}
    {v : Int} (h : prop_set_int_exl st p skipme v = .ok st') : SubQueued s st st' := by
  unfold prop_set_int_exl at h
  repeat' split at h
  all_goals first
    | (cases h; exact SubQueued.sq_refl s _)
    | exact sq_setU_notify s h

theorem sq_of_set_int_ex (s : Nat) [CFloat F] {st st' : State F} {p : Option Nat}
    {skipme : Option Nat} {v : Int} (h : prop_set_int_ex st p skipme v = .ok st') :
    SubQueued s st st' := by
  unfold prop_set_int_ex at h
  split at h
  · cases h; exact SubQueued.sq_refl s _
  · exact sq_of_set_int_exl s h

theorem sq_of_int_head (s : Nat) [CFloat F] {st st1 : State F} {p : Nat}
    (h : prop_int_head st p = some st1) : SubQueued s st st1 := by
  unfold prop_int_head at h
  repeat' split at h
  all_goals first
    | (cases h; exact SubQueued.sq_refl s _)
    | (cases h; exact SubQueued.sq_setU s _ _ _)
    | cases h

theorem sq_of_get_float (s : Nat) [CFloat F] {st st1 : State F} {p q : Option Nat} {b : Bool}
    (h : prop_get_float st p = (st1, q, b)) : SubQueued s st st1 := by
  unfold prop_get_float at h
  repeat' split at h
  all_goals first
    | (cases h; exact SubQueued.sq_refl s _)
    | (cases h; exact SubQueued.sq_setU s _ _ _)

theorem sq_of_add_int_ex (s : Nat) [CFloat F] {st st' : State F} {p : Option Nat}
    {skipme : Option Nat} {v : Int} (h : prop_add_int_ex st p skipme v = .ok st') :
    SubQueued s st st' := by
  unfold prop_add_int_ex at h
  split at h
  · cases h; exact SubQueued.sq_refl s _
  · split at h
    · cases h; exact SubQueued.sq_refl s _
    · next st1 hh =>
      refine (sq_of_int_head s hh).sq_trans ?_
      dsimp only at h
      repeat' split at h
      all_goals first
        | (cases h; exact SubQueued.sq_refl s _)
        | exact sq_setU_notify s h

theorem sq_of_toggle_int_ex (s : Nat) [CFloat F] {st st' : State F} {p : Option Nat}
    {skipme : Option Nat} (h : prop_toggle_int_ex st p skipme = .ok st') :
    SubQueued s st st' := by
  unfold prop_toggle_int_ex at h
  split at h
  · cases h; exact SubQueued.sq_refl s _
  · split at h
    · cases h; exact SubQueued.sq_refl s _
    · next st1 hh =>
      refine (sq_of_int_head s hh).sq_trans ?_
      dsimp only at h
      exact sq_setU_notify s h

theorem sq_of_set_int_clipping_range (s : Nat) [CFloat F] {st st' : State F} {p : Option Nat}
    {min max : Int} (h : prop_set_int_clipping_range st p min max = .ok st') :
    SubQueued s st st' := by
  unfold prop_set_int_clipping_range at h
  split at h
  · cases h; exact SubQueued.sq_refl s _
  · next p =>
    split at h
    · cases h; exact SubQueued.sq_refl s _
    · next st1 hh =>
      refine (sq_of_int_head s hh).sq_trans ?_
      dsimp only at h
      have h2 : SubQueued s st1 (st1.setNode p { st1.nodes p with
          hp_flags := { (st1.nodes p).hp_flags with PROP_CLIPPED_VALUE := true },
          u := .PROP_INT (st1.nodes p).u.hp_int min max }) :=
        SubQueued.sq_setNode s st1 p _
      split at h
      · exact h2.sq_trans (sq_setU_notify s h)
      · cases h; exact h2

theorem sq_of_set_float_ex (s : Nat) [CFloat F] {st st' : State F} {p : Option Nat}
    {skipme : Option Nat} {v : F} {how : Int}
    (h : prop_set_float_ex st p skipme v how = .ok st') : SubQueued s st st' := by
  unfold prop_set_float_ex at h
  split at h
  · cases h; exact SubQueued.sq_refl s _
  · next st1 q forced hg =>
    refine (sq_of_get_float s hg).sq_trans ?_
    dsimp only at h
    repeat' split at h
    all_goals first
      | (cases h; exact SubQueued.sq_refl s _)
      | exact sq_setU_notify s h

theorem sq_of_add_float_ex (s : Nat) [CFloat F] {st st' : State F} {p : Option Nat}
    {skipme : Option Nat} {v : F}
    (h : prop_add_float_ex st p skipme v = .ok st') : SubQueued s st st' := by
  unfold prop_add_float_ex at h
  split at h
  · cases h; exact SubQueued.sq_refl s _
  · next st1 q forced hg =>
    refine (sq_of_get_float s hg).sq_trans ?_
    dsimp only at h
    repeat' split at h
    all_goals first
      | (cases h; exact SubQueued.sq_refl s _)
      | exact sq_setU_notify s h

theorem sq_of_set_float_clipping_range (s : Nat) [CFloat F] {st st' : State F} {p : Option Nat}
    {min max : F} (h : prop_set_float_clipping_range st p min max = .ok st') :
    SubQueued s st st' := by
  unfold prop_set_float_clipping_range at h
  split at h
  · cases h; exact SubQueued.sq_refl s _
  · next st1 q forced hg =>
    refine (sq_of_get_float s hg).sq_trans ?_
    dsimp only at h
    have h2 : SubQueued s st1 (st1.setNode q { st1.nodes q with
        hp_flags := { (st1.nodes q).hp_flags with PROP_CLIPPED_VALUE := true },
        u := .PROP_FLOAT (st1.nodes q).u.hp_float min max }) :=
      SubQueued.sq_setNode s st1 q _
    split at h
    · exact h2.sq_trans (sq_setU_notify s h)
    · cases h; exact h2

theorem sq_of_setter_run (s : Nat) [CFloat F] {st st' : State F} (c : setter_call F) {p : Nat}
    {skipme : Option Nat} (h : c.run st p skipme = .ok st') : SubQueued s st st' := by
  cases c <;> simp only [setter_call.run] at h
  · exact sq_of_set_string_ex s h
  · exact sq_of_set_rstring_ex s h
  · exact sq_of_set_cstring_ex s h
  · exact sq_of_set_link_ex s h
  · exact sq_of_set_int_ex s h
  · exact sq_of_set_float_ex s h
  · exact sq_of_set_void_ex s h
  · exact sq_of_toggle_int_ex s h
  · exact sq_of_add_int_ex s h
  · exact sq_of_add_float_ex s h
  · exact sq_of_set_int_clipping_range s h
  · exact sq_of_set_float_clipping_range s h

theorem sq_of_seti (s : Nat) [CFloat F] {st st' : State F} {skipme : Option Nat} {p : Nat}
    {arg : seti_arg} (h : prop_seti st skipme p arg = .ok st') : SubQueued s st st' := by
  unfold prop_seti at h
  split at h
  · exact sq_of_set_void_exl s h
  · exact sq_of_set_string_exl s h
  · exact sq_of_set_void_exl s h
  · exact sq_of_set_rstring_exl s h
  · exact sq_of_set_int_exl s h
  · exact sq_of_set_void_exl s h
  · cases h


theorem sq_of_make_dir (s : Nat) {st st' : State F} {p : Nat} {skipme : Option Nat}
    (h : prop_make_dir st p skipme = .ok st') : SubQueued s st st' := sq_make_dir s h

theorem foldlM_sq (s : Nat) {α : Type} (f : State F → α → Except Fault (State F))
    (hf : ∀ a c r, f a c = .ok r → SubQueued s a r) :
    ∀ (l : List α) (st st' : State F), List.foldlM f st l = .ok st' → SubQueued s st st' := by
  intro l
  induction l with
  | nil =>
    intro st st' h
    cases h
    exact SubQueued.sq_refl s st
  | cons a l ih =>
    intro st st' h
    rw [List.foldlM_cons] at h
    cases hfa : f st a with
    | error e => rw [hfa] at h; cases h
    | ok st1 =>
      rw [hfa] at h
      exact (hf st a st1 hfa).sq_trans (ih st1 st' h)

theorem sq_of_flood_flag (s : Nat) :
    ∀ (fuel : Nat) (st st' : State F) (p : Nat) (set clr : PropFlags),
      prop_flood_flag fuel st p set clr = .ok st' → SubQueued s st st' := by
  intro fuel
  induction fuel with
  | zero => intro st st' p set clr h; cases h
  | succ fuel ih =>
    intro st st' p set clr h
    unfold prop_flood_flag at h
    have h1 : SubQueued s st (st.setNode p
        { st.nodes p with hp_flags := ((st.nodes p).hp_flags.or set).andNot clr }) :=
      SubQueued.sq_setNode s st p _
    dsimp only at h
    split at h
    · exact h1.sq_trans (foldlM_sq s _ (fun a c r hr => ih a r c set clr hr) _ _ _ h)
    · cases h; exact h1

theorem sq_of_notify_void (s : Nat) {st st' : State F} {t : Nat}
    (h : prop_notify_void st t = .ok st') : SubQueued s st st' := by
  unfold prop_notify_void at h
  split at h
  · cases h; exact SubQueued.sq_call_direct s _ _
  · cases hg : get_notify st t with
    | error e => simp [hg] at h
    | ok st1 =>
      simp only [hg, Except.ok.injEq] at h
      subst h
      exact (sq_get_notify s hg).sq_trans (sq_courier_enqueue s _ _ _ rfl rfl)

theorem sq_of_notify_destroyed (s : Nat) {st st' : State F} {t : Nat}
    (h : prop_notify_destroyed st t = .ok st') : SubQueued s st st' := by
  unfold prop_notify_destroyed at h
  split at h
  · cases h; exact SubQueued.sq_call_direct s _ _
  · cases hg : get_notify st t with
    | error e => simp [hg] at h
    | ok st1 =>
      simp only [hg, Except.ok.injEq] at h
      subst h
      have hx : ((st1.subs t).hps_flags.PROP_SUB_EXPEDITE
          || (st1.subs t).hps_flags.PROP_SUB_TRACK_DESTROY_EXP)
          = (st1.subs t).hps_flags.expedited
            ({ hpn_sub := t, hpn_event := .PROP_DESTROYED } : prop_notify_t F).hpn_event := by
        simp [SubFlags.expedited]
      rw [hx]
      exact (sq_get_notify s hg).sq_trans
        (SubQueued.sq_insert s st1 t _ rfl (by simp))

theorem sq_of_monitor_active (s : Nat) :
    ∀ (l : List Nat) (st st' : State F),
      prop_send_subscription_monitor_active l st = .ok st' → SubQueued s st st' := by
  intro l
  induction l with
  | nil => intro st st' h; cases h; exact SubQueued.sq_refl s _
  | cons t rest ih =>
    intro st st' h
    unfold prop_send_subscription_monitor_active at h
    split at h
    · cases hg : get_notify st t with
      | error e => simp [hg] at h
      | ok st1 =>
        simp only [hg] at h
        refine (sq_get_notify s hg).sq_trans (SubQueued.sq_trans ?_ (ih _ _ h))
        exact sq_courier_enqueue s _ _ _ rfl rfl
    · exact ih _ _ h

theorem sq_of_build_notify_childv (s : Nat) {st st' : State F} {t : Nat} {pv : List Nat}
    {event : prop_event_t} {p2 : Option Nat} {direct : Bool}
    (h : prop_build_notify_childv st t pv event p2 direct = .ok st')
    (hev : event.enqueued = true) : SubQueued s st st' := by
  unfold prop_build_notify_childv at h
  split at h
  · cases h; exact SubQueued.sq_call_direct s _ _
  · cases hg : get_notify st t with
    | error e => simp [hg] at h
    | ok st1 =>
      simp only [hg, Except.ok.injEq] at h
      subst h
      refine (sq_get_notify s hg).sq_trans ?_
      cases p2 with
      | none => exact sq_courier_enqueue s _ _ _ rfl hev
      | some q =>
        exact (SubQueued.sq_ref_inc s _ _).sq_trans (sq_courier_enqueue s _ _ _ rfl hev)

theorem sq_of_notify_childv (s : Nat) (pv : List Nat) (event : prop_event_t)
    (skipme p2 : Option Nat) :
    ∀ (l : List Nat) (st st' : State F),
      prop_notify_childv pv event skipme p2 l st = .ok st' →
      event.enqueued = true → SubQueued s st st' := by
  intro l
  induction l with
  | nil => intro st st' h _; cases h; exact SubQueued.sq_refl s _
  | cons t rest ih =>
    intro st st' h hev
    unfold prop_notify_childv at h
    split at h
    · exact ih _ _ h hev
    · cases hb : prop_build_notify_childv st t pv event p2 false with
      | error e => simp [hb] at h
      | ok st1 =>
        simp only [hb] at h
        exact (sq_of_build_notify_childv s hb hev).sq_trans (ih _ _ h hev)

theorem sq_of_subscribe_add_childs (s : Nat) (t value : Nat) (direct : Bool) :
    ∀ (l : List Nat) (st st' : State F),
      subscribe_add_childs t value direct l st = .ok st' → SubQueued s st st' := by
  intro l
  induction l with
  | nil => intro st st' h; cases h; exact SubQueued.sq_refl s _
  | cons c rest ih =>
    intro st st' h
    unfold subscribe_add_childs at h
    cases hb : prop_build_notify_child st t (some c) .PROP_ADD_CHILD direct
        (gen_add_flags st c value) with
    | error e => simp [hb] at h
    | ok st1 =>
      simp only [hb] at h
      exact (sq_build_notify_child s hb rfl).sq_trans (ih _ _ h)

theorem sq_of_build_notify_child2 (s : Nat) {st st' : State F} {t : Nat} {p : Nat}
    {extra : Option Nat} {event : prop_event_t} {direct : Bool} {flags : Int}
    (h : prop_build_notify_child2 st t p extra event direct flags = .ok st')
    (hev : event.enqueued = true) : SubQueued s st st' := by
  unfold prop_build_notify_child2 at h
  split at h
  · cases h; exact SubQueued.sq_call_direct s _ _
  · cases hg : get_notify st t with
    | error e => simp [hg] at h
    | ok st1 =>
      simp only [hg, Except.ok.injEq] at h
      subst h
      refine ((sq_get_notify s hg).sq_trans (SubQueued.sq_ref_inc s st1 p)).sq_trans ?_
      cases extra with
      | none => exact sq_courier_enqueue s _ _ _ rfl hev
      | some q =>
        exact (SubQueued.sq_ref_inc s _ _).sq_trans (sq_courier_enqueue s _ _ _ rfl hev)

theorem sq_of_notify_child2 (s : Nat) (child : Nat) (sibling : Option Nat)
    (event : prop_event_t) (skipme : Option Nat) (flags : Int) :
    ∀ (l : List Nat) (st st' : State F),
      prop_notify_child2 child sibling event skipme flags l st = .ok st' →
      event.enqueued = true → SubQueued s st st' := by
  intro l
  induction l with
  | nil => intro st st' h _; cases h; exact SubQueued.sq_refl s _
  | cons t rest ih =>
    intro st st' h hev
    unfold prop_notify_child2 at h
    split at h
    · exact ih _ _ h hev
    · cases hb : prop_build_notify_child2 st t child sibling event false flags with
      | error e => simp [hb] at h
      | ok st1 =>
        simp only [hb] at h
        exact (sq_of_build_notify_child2 s hb hev).sq_trans (ih _ _ h hev)

theorem sq_of_ref_dec_locked (s : Nat) {st st' : State F} {p : Option Nat}
    (h : prop_ref_dec_locked st p = .ok st') : SubQueued s st st' := by
  unfold prop_ref_dec_locked at h
  cases p with
  | none => cases h; exact SubQueued.sq_refl s _
  | some p =>
    have h1 : SubQueued s st (st.setNode p
        { st.nodes p with hp_refcount := (st.nodes p).hp_refcount - 1 }) :=
      SubQueued.sq_setNode s st p _
    dsimp only at h
    split at h
    · cases h; exact h1
    · split at h
      · cases h
      · cases h; exact h1

theorem sq_of_notify_free (s : Nat) {st st' : State F} {n : prop_notify_t F}
    (h : prop_notify_free st n = .ok st') : SubQueued s st st' := by
  unfold prop_notify_free at h
  dsimp only at h
  split at h
  · cases h
  · next st1 hr =>
    cases h
    refine SubQueued.sq_trans ?_ (SubQueued.sq_setSub s _ _ _ rfl rfl)
    split at hr
    all_goals first
      | exact sq_of_ref_dec_locked s hr
      | (cases hr; exact SubQueued.sq_refl s _)
      | skip
    all_goals
      split at hr
      · cases hr
      · next st2 h2 =>
        exact (sq_of_ref_dec_locked s h2).sq_trans (sq_of_ref_dec_locked s hr)

theorem sq_of_insert (s : Nat) {st st' : State F} {p parent : Nat} {before skipme : Option Nat}
    (h : prop_insert st p parent before skipme = .ok st') : SubQueued s st st' := by
  unfold prop_insert at h
  split at h
  · split at h
    · cases h
    · exact (SubQueued.sq_setChilds s st _ _).sq_trans
        (sq_of_notify_child2 s _ _ _ _ _ _ _ _ h rfl)
  · exact (SubQueued.sq_setChilds s st _ _).sq_trans
      (sq_notify_child s _ _ _ _ _ _ _ h rfl)

theorem sq_of_make (s : Nat) (st : State F) (name : Option String) (noalloc : Bool)
    (parent : Option Nat) : SubQueued s st (prop_make st name noalloc parent).1 :=
  SubQueued.of_frame s rfl rfl rfl rfl rfl

theorem sq_of_create0 (s : Nat) {st st' : State F} {parent c : Nat} {name : Option String}
    {skipme : Option Nat} {noalloc : Bool}
    (h : prop_create0 st parent name skipme noalloc = .ok (st', c)) : SubQueued s st st' := by
  unfold prop_create0 at h
  split at h
  · cases h
  · cases hm : prop_make_dir st parent skipme with
    | error e => simp [hm] at h
    | ok st1 =>
      have n1 := sq_make_dir s hm
      simp only [hm] at h
      cases hf : name.bind (find_child_by_name st1 (st1.nodes parent).hp_childs) with
      | some hp =>
        simp only [hf] at h
        split at h
        · simp only [Except.ok.injEq, Prod.mk.injEq] at h
          obtain ⟨h1, _⟩ := h
          subst h1
          exact n1.sq_trans (SubQueued.sq_setNode s st1 hp _)
        · cases h; exact n1
      | none =>
        simp only [hf] at h
        have n2 := sq_of_make s st1 name noalloc (some parent)
        generalize hst2 : prop_make st1 name noalloc (some parent) = r at h n2
        obtain ⟨st2, hp⟩ := r
        dsimp only at h n2
        generalize hfl : (if (st2.nodes parent).hp_flags.PROP_MULTI_SUB
              || (st2.nodes parent).hp_flags.PROP_MULTI_NOTIFY then
            prop_flood_flag (st2.nnodes + 1) st2 hp PROP_MULTI_NOTIFY {}
          else .ok st2) = fl at h
        cases fl with
        | error e => simp at h
        | ok st3 =>
          have s23 : SubQueued s st2 st3 := by
            split at hfl
            · exact sq_of_flood_flag s _ _ _ _ _ _ hfl
            · cases hfl; exact SubQueued.sq_refl s _
          simp only at h
          cases hi : prop_insert st3 hp parent none skipme with
          | error e => simp [hi] at h
          | ok st4 =>
            simp only [hi, Except.ok.injEq, Prod.mk.injEq] at h
            obtain ⟨h4, _⟩ := h
            subst h4
            exact ((n1.sq_trans n2).sq_trans s23).sq_trans (sq_of_insert s hi)

theorem sq_of_create_ex (s : Nat) {st st' : State F} {parent r : Option Nat}
    {name : Option String} {skipme : Option Nat} {noalloc incref : Bool}
    (h : prop_create_ex st parent name skipme noalloc incref = .ok (st', r)) :
    SubQueued s st st' := by
  unfold prop_create_ex at h
  split at h
  · cases h; exact SubQueued.sq_refl s _
  · split at h
    · split at h
      · cases h
      · next st1 p hc =>
        have h1 := sq_of_create0 s hc
        simp only [Except.ok.injEq, Prod.mk.injEq] at h
        obtain ⟨h2, _⟩ := h
        subst h2
        split
        · exact h1.sq_trans (SubQueued.sq_ref_inc s st1 p)
        · exact h1
    · cases h; exact SubQueued.sq_refl s _

theorem sq_of_create_root_ex (s : Nat) (st : State F) (name : Option String) (noalloc : Bool) :
    SubQueued s st (prop_create_root_ex st name noalloc).1 :=
  sq_of_make s st name noalloc none

theorem sq_of_unparent_tail (s : Nat) (st : State F) (p parent : Nat) (cs : List Nat) :
    SubQueued s st
      (if (((st.setChilds parent cs).setNode p
            { (st.setChilds parent cs).nodes p with hp_parent := none }).nodes parent).hp_selected
            = some p then
        ((st.setChilds parent cs).setNode p
            { (st.setChilds parent cs).nodes p with hp_parent := none }).setSelected parent none
       else (st.setChilds parent cs).setNode p
            { (st.setChilds parent cs).nodes p with hp_parent := none }) := by
  have h1 : SubQueued s st (st.setChilds parent cs) := SubQueued.sq_setChilds s st parent _
  have h2 := h1.sq_trans (SubQueued.sq_setNode s (st.setChilds parent cs)
    p { (st.setChilds parent cs).nodes p with hp_parent := none })
  split
  · exact h2.sq_trans (SubQueued.sq_setSelected s _ _ _)
  · exact h2

theorem sq_of_unparent0 (s : Nat) {st st' : State F} {p : Nat} {skipme : Option Nat}
    (h : prop_unparent0 st p skipme = .ok st') : SubQueued s st st' := by
  unfold prop_unparent0 at h
  split at h
  · cases h; exact SubQueued.sq_refl s _
  · next parent _ =>
    split at h
    · cases h
    · split at h
      · cases h
      · next st1 hn =>
        split at h
        · cases h
        · next cs hcs =>
          cases h
          exact (sq_notify_child s _ _ _ _ _ _ _ hn rfl).sq_trans
            (sq_of_unparent_tail s st1 p parent cs)

theorem sq_of_destroy_unparent (s : Nat) {st st' : State F} {p : Nat}
    (h : destroy_unparent st p = .ok st') : SubQueued s st st' := by
  unfold destroy_unparent at h
  split at h
  · cases h; exact SubQueued.sq_refl s _
  · next parent _ =>
    split at h
    · cases h
    · next st1 hn =>
      split at h
      · cases h
      · next cs hcs =>
        cases h
        exact (sq_notify_child s _ _ _ _ _ _ _ hn rfl).sq_trans
          (sq_of_unparent_tail s st1 p parent cs)

theorem sq_of_move0 (s : Nat) {st st' : State F} {p : Nat} {before skipme : Option Nat}
    (h : prop_move0 st p before skipme = .ok st') : SubQueued s st st' := by
  unfold prop_move0 at h
  split at h
  · cases h
  · split at h
    · cases h; exact SubQueued.sq_refl s _
    · split at h
      · cases h
      · next parent _ =>
        split at h
        · split at h
          · cases h
          · next cs hcs =>
            dsimp only at h
            exact SubQueued.sq_trans (SubQueued.sq_setChilds s st parent _)
              (sq_of_notify_child2 s _ _ _ _ _ _ _ _ h rfl)
        · cases h; exact SubQueued.sq_refl s _

theorem sq_of_move (s : Nat) {st st' : State F} {p : Nat} {before : Option Nat}
    (h : prop_move st p before = .ok st') : SubQueued s st st' :=
  sq_of_move0 s h

theorem sq_of_setv_from [CFloat F] (s : Nat) (skipme : Option Nat) (arg : seti_arg) :
    ∀ (names : List String) (st st' : State F) (p : Nat),
      setv_from skipme arg names st p = .ok st' → SubQueued s st st' := by
  intro names
  induction names with
  | nil =>
    intro st st' p h
    unfold setv_from at h
    exact sq_of_seti s h
  | cons n rest ih =>
    intro st st' p h
    unfold setv_from at h
    split at h
    · cases h; exact SubQueued.sq_refl s _
    · split at h
      · exact ih _ _ _ h
      · cases hc : prop_create0 st p (some n) skipme false with
        | error e => simp [hc] at h
        | ok r1 =>
          obtain ⟨st1, c⟩ := r1
          simp only [hc] at h
          exact (sq_of_create0 s hc).sq_trans (ih _ _ _ h)

theorem sq_of_setv_ex [CFloat F] (s : Nat) {st st' : State F} {skipme p : Option Nat}
    {names : List String} {arg : seti_arg}
    (h : prop_setv_ex st skipme p names arg = .ok st') : SubQueued s st st' := by
  unfold prop_setv_ex at h
  split at h
  · cases h; exact SubQueued.sq_refl s _
  · split at h
    · cases h; exact SubQueued.sq_refl s _
    · exact sq_of_setv_from s skipme arg names _ _ _ h

theorem sq_of_set_ex [CFloat F] (s : Nat) {st st' : State F} {p : Option Nat}
    {name : Option String} {noalloc : Bool} {arg : seti_arg}
    (h : prop_set_ex st p name noalloc arg = .ok st') : SubQueued s st st' := by
  unfold prop_set_ex at h
  split at h
  · cases h; exact SubQueued.sq_refl s _
  · next p =>
    split at h
    · cases hc : prop_create0 st p name none noalloc with
      | error e => simp [hc] at h
      | ok r1 =>
        obtain ⟨st1, c⟩ := r1
        simp only [hc] at h
        exact (sq_of_create0 s hc).sq_trans (sq_of_seti s h)
    · cases h; exact SubQueued.sq_refl s _

theorem sq_of_subfind_enter (s : Nat) {st st1 : State F} {p : Nat}
    (h : subfind_enter st p = .ok (some st1)) : SubQueued s st st1 := by
  unfold subfind_enter at h
  split at h
  · split at h
    · cases h
    · cases hn : prop_notify_value (st.setU p (.PROP_DIR [] none)) p none 0 with
      | error e => simp [hn] at h
      | ok st2 =>
        simp only [hn, Except.ok.injEq, Option.some.injEq] at h
        subst h
        exact sq_setU_notify s hn
  · cases h; exact SubQueued.sq_refl s _

theorem sq_of_subfind_child (s : Nat) {st st' : State F} {p : Nat} {name : String}
    {allow_indexing : Bool} {r : Option Nat}
    (h : subfind_child st p name allow_indexing = .ok (st', r)) : SubQueued s st st' := by
  unfold subfind_child at h
  split at h
  · dsimp only at h
    split at h <;> (cases h; exact SubQueued.sq_refl s _)
  · split at h
    · cases h; exact SubQueued.sq_refl s _
    · cases hc : prop_create0 st p (some name) none false with
      | error e => simp [hc] at h
      | ok r1 =>
        obtain ⟨st1, c⟩ := r1
        simp only [hc, Except.ok.injEq, Prod.mk.injEq] at h
        obtain ⟨h1, _⟩ := h
        subst h1
        exact sq_of_create0 s hc

theorem sq_of_subfind (s : Nat) (follow_symlinks allow_indexing : Bool) :
    ∀ (name : List String) (st st' : State F) (p : Nat) (r : Option Nat),
      prop_subfind st p name follow_symlinks allow_indexing = .ok (st', r) →
      SubQueued s st st' := by
  intro name
  induction name with
  | nil =>
    intro st st' p r h
    unfold prop_subfind at h
    split at h
    · split at h
      · cases h
      · cases h; exact SubQueued.sq_refl s _
    · cases h; exact SubQueued.sq_refl s _
  | cons n rest ih =>
    intro st st' p r h
    unfold prop_subfind at h
    split at h
    · cases h
    · next p1 _ =>
      cases he : subfind_enter st p1 with
      | error e => simp [he] at h
      | ok o =>
        cases o with
        | none => simp only [he] at h; cases h; exact SubQueued.sq_refl s _
        | some st1 =>
          simp only [he] at h
          have n1 := sq_of_subfind_enter s he
          cases hc : subfind_child st1 p1 n allow_indexing with
          | error e => simp [hc, subfind_next] at h
          | ok r1 =>
            obtain ⟨st2, c⟩ := r1
            have n2 := n1.sq_trans (sq_of_subfind_child s hc)
            cases c with
            | none =>
              simp only [hc, subfind_next, Except.ok.injEq, Prod.mk.injEq] at h
              obtain ⟨h1, _⟩ := h
              subst h1
              exact n2
            | some c =>
              simp only [hc, subfind_next] at h
              exact n2.sq_trans (ih _ _ _ _ h)

/-- The store takes a new subscription at the next unused index. -/
theorem SubQueued.sq_alloc (s : Nat) (st : State F) (sb : prop_sub_t) :
    SubQueued s st { st with
      subs := fun q => if q = st.nsubs then sb else st.subs q, nsubs := st.nsubs + 1 } := by
  refine ⟨Nat.le_succ _, Nat.le_refl _, fun hs _ => ?_⟩
  have hne : s ≠ st.nsubs := Nat.ne_of_lt hs
  refine ⟨by simp [hne], by simp [hne], [], by simp, ?_, ?_, ?_⟩
  · simp [queued_of, records_of]
  · simp [enqueued_of, queued_of, records_of]
  · simp [enqueued_of, queued_of, records_of]

/-- A courier takes new fields but keeps its queues. -/
theorem SubQueued.sq_setCourier (s : Nat) (st : State F) (c : Nat) (pc : prop_courier_t F)
    (h1 : pc.pc_queue_exp = (st.couriers c).pc_queue_exp)
    (h2 : pc.pc_queue_nor = (st.couriers c).pc_queue_nor) :
    SubQueued s st (st.setCourier c pc) := by
  refine ⟨Nat.le_refl _, Nat.le_refl _, fun _ _ => ⟨rfl, rfl, [], by simp, ?_, ?_, ?_⟩⟩
  · simp [queued_of, records_of]
  · by_cases e : (st.subs s).hps_courier = c
    · simp [enqueued_of, queued_of, records_of, State.setCourier, e, h1]
    · simp [enqueued_of, queued_of, records_of, State.setCourier, e]
  · by_cases e : (st.subs s).hps_courier = c
    · simp [enqueued_of, queued_of, records_of, State.setCourier, e, h2]
    · simp [enqueued_of, queued_of, records_of, State.setCourier, e]

/-- The function prop_courier_create: the couriers of the store keep their queues. -/
theorem sq_of_courier_create (s : Nat) (st : State F) :
    SubQueued s st (prop_courier_create st).1 := by
  refine ⟨Nat.le_refl _, Nat.le_succ _, fun _ hc => ⟨rfl, rfl, [], by simp [prop_courier_create],
    ?_, ?_, ?_⟩⟩
  · simp [queued_of, records_of]
  · have hne : (st.subs s).hps_courier ≠ st.ncouriers := Nat.ne_of_lt hc
    simp [enqueued_of, queued_of, records_of, prop_courier_create, hne]
  · have hne : (st.subs s).hps_courier ≠ st.ncouriers := Nat.ne_of_lt hc
    simp [enqueued_of, queued_of, records_of, prop_courier_create, hne]

theorem sq_of_flood_flag_on_childs (s : Nat) {st st' : State F} {p : Nat}
    {set clr : PropFlags}
    (h : prop_flood_flag_on_childs st p set clr = .ok st') : SubQueued s st st' := by
  unfold prop_flood_flag_on_childs at h
  exact foldlM_sq s _ (fun a c r hr => sq_of_flood_flag s _ a r c set clr hr) _ _ _ h

theorem sq_of_set_multi (s : Nat) {st st' : State F} {p : Nat}
    (h : prop_set_multi st p = .ok st') : SubQueued s st st' := by
  unfold prop_set_multi at h
  split at h
  · cases h; exact SubQueued.sq_refl s _
  · dsimp only at h
    have h1 : SubQueued s st (st.setNode p { st.nodes p with
        hp_flags := { (st.nodes p).hp_flags with PROP_MULTI_SUB := true } }) :=
      SubQueued.sq_setNode s st p _
    split at h
    · exact h1.sq_trans (sq_of_flood_flag_on_childs s h)
    · cases h; exact h1

theorem sq_of_subscribe_resolve (s : Nat) {st st' : State F} {a : subscribe_args}
    {c v : Option Nat} (h : subscribe_resolve st a = .ok (st', c, v)) :
    SubQueued s st st' := by
  unfold subscribe_resolve at h
  split at h
  · split at h <;> (cases h; exact SubQueued.sq_refl s _)
  · cases h
  · next n0 name _ =>
    split at h
    · cases h
    · cases h; exact SubQueued.sq_refl s _
    · next p _ =>
      cases h1 : prop_subfind st p name false false with
      | error e => simp [h1] at h
      | ok r1 =>
        obtain ⟨st1, canonical⟩ := r1
        simp only [h1] at h
        cases h2 : prop_subfind st1 p name true false with
        | error e => simp [h2] at h
        | ok r2 =>
          obtain ⟨st2, value⟩ := r2
          simp only [h2, Except.ok.injEq, Prod.mk.injEq] at h
          obtain ⟨e, _⟩ := h
          subst e
          exact (sq_of_subfind s _ _ _ _ _ _ _ h1).sq_trans (sq_of_subfind s _ _ _ _ _ _ _ h2)

theorem sq_of_subscribe_canonical (s : Nat) {st st' : State F} {t : Nat}
    {canonical : Option Nat} {b : Bool}
    (h : subscribe_canonical st t canonical = .ok (st', b)) : SubQueued s st st' := by
  unfold subscribe_canonical at h
  split at h
  · cases h; exact SubQueued.sq_refl s _
  · next c =>
    dsimp only at h
    have h1 : SubQueued s st (st.setNode c { st.nodes c with
        hp_canonical_subscriptions := t :: (st.nodes c).hp_canonical_subscriptions }) :=
      SubQueued.sq_setNode s st c _
    generalize hst1 : st.setNode c { st.nodes c with
        hp_canonical_subscriptions := t :: (st.nodes c).hp_canonical_subscriptions } = st1
      at h h1
    have h2 : SubQueued s st1 (if ((st1.subs t).hps_flags.PROP_SUB_SUBSCRIPTION_MONITOR
          && !(st1.nodes c).hp_flags.PROP_MONITORED) = true then
        st1.setNode c { st1.nodes c with
          hp_flags := { (st1.nodes c).hp_flags with PROP_MONITORED := true } } else st1) := by
      split
      · exact SubQueued.sq_setNode s st1 c _
      · exact SubQueued.sq_refl s _
    generalize (if ((st1.subs t).hps_flags.PROP_SUB_SUBSCRIPTION_MONITOR
          && !(st1.nodes c).hp_flags.PROP_MONITORED) = true then
        st1.setNode c { st1.nodes c with
          hp_flags := { (st1.nodes c).hp_flags with PROP_MONITORED := true } } else st1) = st2
      at h h2
    split at h
    · split at h
      · cases h
      · next st3 hm =>
        cases h
        exact h1.sq_trans (h2.sq_trans (sq_of_set_multi s hm))
    · cases h
      exact h1.sq_trans h2

theorem sq_of_subscribe_value (s : Nat) {st st' : State F} {t : Nat} {value : Option Nat}
    {direct notify_now : Bool} (h : subscribe_value st t value direct notify_now = .ok st') :
    SubQueued s st st' := by
  unfold subscribe_value at h
  split at h
  · cases h; exact SubQueued.sq_refl s _
  · next v =>
    dsimp only at h
    have h1 : SubQueued s st (st.setNode v { st.nodes v with
        hp_value_subscriptions := t :: (st.nodes v).hp_value_subscriptions }) :=
      SubQueued.sq_setNode s st v _
    generalize st.setNode v { st.nodes v with
        hp_value_subscriptions := t :: (st.nodes v).hp_value_subscriptions } = st1 at h h1
    split at h
    · cases h
    · next st3 hu =>
      have h3 : SubQueued s st1 st3 := by
        split at hu
        · split at hu
          · cases hu
          · next st2 pq hb =>
            have hb' := sq_build_notify_value_none s hb
            split at hu
            · split at hu
              · exact hb'.sq_trans (sq_of_build_notify_childv s hu rfl)
              · exact hb'.sq_trans (sq_of_subscribe_add_childs s _ _ _ _ _ _ hu)
            · cases hu; exact hb'
        · cases hu; exact SubQueued.sq_refl s _
      split at h
      · exact h1.sq_trans (h3.sq_trans (sq_of_monitor_active s _ _ _ h))
      · cases h; exact h1.sq_trans h3

theorem sq_of_subscribe (s : Nat) {st st' : State F} {a : subscribe_args} {r : Option Nat}
    (h : prop_subscribe st a = .ok (st', r)) : SubQueued s st st' := by
  unfold prop_subscribe at h
  dsimp only at h
  split at h
  · cases h
  · next st1 canonical0 value0 hr =>
    have n1 := sq_of_subscribe_resolve s hr
    split at h
    · cases h
    · cases h; exact n1
    · split at h
      · cases h
      · next st4 act hc =>
        have s4 := sq_of_subscribe_canonical s hc
        split at h
        · cases h
        · next st5 hv =>
          have s5 := sq_of_subscribe_value s hv
          split at h
          · cases h
          · next st6 ha =>
            have s6 : SubQueued s st5 st6 := by
              split at ha
              · split at ha
                · exact sq_of_monitor_active s _ _ _ ha
                · cases ha; exact SubQueued.sq_refl s _
              · cases ha; exact SubQueued.sq_refl s _
            have n3 : SubQueued s st st6 := by
              refine n1.sq_trans (SubQueued.sq_trans ?_ (s4.sq_trans (s5.sq_trans s6)))
              exact (SubQueued.sq_alloc s st1 _).sq_trans
                (SubQueued.sq_setCourier s _ _ _ rfl rfl)
            split at h
            · split at h
              · cases h
                exact n3.sq_trans (SubQueued.sq_call_direct s _ _)
              · split at h
                · cases h
                · next st7 hd =>
                  cases h
                  exact n3.sq_trans (sq_of_notify_destroyed s hd)
            · cases h; exact n3

theorem sq_of_relink_one [CFloat F] (s : Nat) {src : Nat} {skipme : Option Nat} {t : Nat}
    {st st' : State F} {pnq pnq' : prop_notify_queue F}
    (h : relink_one src skipme t st pnq = .ok (st', pnq')) (hq : PnqOk pnq) :
    SubQueued s st st' ∧ PnqOk pnq' := by
  unfold relink_one at h
  split at h
  · cases h; exact ⟨SubQueued.sq_refl s _, hq⟩
  · dsimp only at h
    split at h
    · cases h
    · next st2 equal hd =>
      have s2 : SubQueued s st st2 := by
        split at hd
        · next v _ =>
          split at hd
          · cases hd
          · next st1 hf =>
            have s1 : SubQueued s st st1 := by
              split at hf
              · exact sq_of_notify_void s hf
              · cases hf; exact SubQueued.sq_refl s _
            split at hd
            · cases hd
            · split at hd
              · cases hd
              · cases hd
                exact s1.sq_trans (SubQueued.sq_setNode s st1 v _)
        · cases hd; exact SubQueued.sq_refl s _
      have s4 : SubQueued s st2 ((st2.setNode src { st2.nodes src with
          hp_value_subscriptions := t :: (st2.nodes src).hp_value_subscriptions }).setSub t
          { (st2.setNode src { st2.nodes src with
              hp_value_subscriptions := t :: (st2.nodes src).hp_value_subscriptions }).subs t with
            hps_value_prop := some src }) :=
        (SubQueued.sq_setNode s st2 src _).sq_trans (SubQueued.sq_setSub s _ _ _ rfl rfl)
      generalize (st2.setNode src { st2.nodes src with
          hp_value_subscriptions := t :: (st2.nodes src).hp_value_subscriptions }).setSub t
          { (st2.setNode src { st2.nodes src with
              hp_value_subscriptions := t :: (st2.nodes src).hp_value_subscriptions }).subs t with
            hps_value_prop := some src } = st4 at h s4
      split at h
      · cases h
      · next st5 hm =>
        have s5 : SubQueued s st4 st5 := by
          split at hm
          · exact sq_of_monitor_active s _ _ _ hm
          · cases hm; exact SubQueued.sq_refl s _
        have s05 := s2.sq_trans (s4.sq_trans s5)
        split at h
        · cases h; exact ⟨s05, hq⟩
        · split at h
          · cases h
          · next st7 pnq1 hb =>
            obtain ⟨b1, b2⟩ := sq_build_notify_value s hb hq
            have s7 := s05.sq_trans ((SubQueued.sq_setSub s st5 t
              { st5.subs t with hps_pending_unlink := pnq.isSome } rfl rfl).sq_trans b1)
            split at h
            · split at h
              · cases h
              · next st8 ha =>
                cases h
                exact ⟨s7.sq_trans (sq_of_subscribe_add_childs s _ _ _ _ _ _ ha), b2⟩
            · cases h; exact ⟨s7, b2⟩

theorem sq_of_relink_subs [CFloat F] (s : Nat) (src : Nat) (skipme : Option Nat) :
    ∀ (l : List Nat) (st st' : State F) (pnq pnq' : prop_notify_queue F),
      relink_subs src skipme l st pnq = .ok (st', pnq') → PnqOk pnq →
      SubQueued s st st' ∧ PnqOk pnq' := by
  intro l
  induction l with
  | nil => intro st st' pnq pnq' h hq; cases h; exact ⟨SubQueued.sq_refl s _, hq⟩
  | cons t rest ih =>
    intro st st' pnq pnq' h hq
    unfold relink_subs at h
    split at h
    · cases h
    · next st1 pnq1 h1 =>
      obtain ⟨a1, a2⟩ := sq_of_relink_one s h1 hq
      obtain ⟨b1, b2⟩ := ih _ _ _ _ h a2
      exact ⟨a1.sq_trans b1, b2⟩

theorem sq_of_relink_childs (s : Nat)
    (recur : State F → Nat → Nat → prop_notify_queue F →
      Except Fault (State F × prop_notify_queue F))
    (hrec : ∀ st z c q st' q', recur st z c q = .ok (st', q') → PnqOk q →
      SubQueued s st st' ∧ PnqOk q')
    (src dst : Nat) (skipme no_descend : Option Nat) :
    ∀ (fuel : Nat) (st st' : State F) (c : Option Nat) (pnq pnq' : prop_notify_queue F),
      relink_childs recur src dst skipme no_descend fuel st c pnq = .ok (st', pnq') →
      PnqOk pnq → SubQueued s st st' ∧ PnqOk pnq' := by
  intro fuel
  induction fuel with
  | zero => intro st st' c pnq pnq' h; cases c <;> cases h
  | succ fuel ih =>
    intro st st' c pnq pnq' h hq
    cases c with
    | none => unfold relink_childs at h; cases h; exact ⟨SubQueued.sq_refl s _, hq⟩
    | some c =>
      unfold relink_childs at h
      dsimp only at h
      split at h
      · cases h
      · next st1 pnq1 hb =>
        have body : SubQueued s st st1 ∧ PnqOk pnq1 := by
          split at hb
          · cases hb; exact ⟨SubQueued.sq_refl s _, hq⟩
          · next name _ =>
            split at hb
            · cases hb; exact ⟨SubQueued.sq_refl s _, hq⟩
            · split at hb
              · cases hb
              · next st2 z hc =>
                have n2 := sq_of_create0 s hc
                split at hb
                · cases hb
                · next st3 hm =>
                  have n3 : SubQueued s st st3 := by
                    split at hm
                    · exact n2.sq_trans (sq_of_make_dir s hm)
                    · cases hm; exact n2
                  obtain ⟨r1, r2⟩ := hrec _ _ _ _ _ _ hb hq
                  exact ⟨n3.sq_trans r1, r2⟩
        obtain ⟨c1, c2⟩ := ih _ _ _ _ _ h body.2
        exact ⟨body.1.sq_trans c1, c2⟩

theorem sq_of_relink_subscriptions [CFloat F] (s : Nat) :
    ∀ (fuel : Nat) (st st' : State F) (src dst : Nat) (skipme : Option Nat)
      (pnq pnq' : prop_notify_queue F) (no_descend : Option Nat),
      relink_subscriptions fuel st src dst skipme pnq no_descend = .ok (st', pnq') →
      PnqOk pnq → SubQueued s st st' ∧ PnqOk pnq' := by
  intro fuel
  induction fuel with
  | zero => intro st st' src dst skipme pnq pnq' nd h; cases h
  | succ fuel ih =>
    intro st st' src0 dst skipme pnq pnq' nd h hq
    unfold relink_subscriptions at h
    split at h
    · cases h
    · next src _ =>
      split at h
      · cases h
      · next st1 pnq1 hs =>
        obtain ⟨n1, q1⟩ := sq_of_relink_subs s _ _ _ _ _ _ _ hs hq
        split at h
        · obtain ⟨n2, q2⟩ := sq_of_relink_childs s _
            (fun a z c q a' q' hr hs => ih a a' z c skipme q q' none hr hs)
            _ _ _ _ _ _ _ _ _ _ h q1
          exact ⟨n1.sq_trans n2, q2⟩
        · cases h; exact ⟨n1, q1⟩

theorem sq_of_remove_from_originator (s : Nat)
    (destroy : State F → Nat → Except Fault (State F × Bool))
    (hd : ∀ st p st' b, destroy st p = .ok (st', b) → SubQueued s st st')
    {st st' : State F} {p : Nat}
    (h : prop_remove_from_originator destroy st p = .ok st') : SubQueued s st st' := by
  unfold prop_remove_from_originator at h
  split at h
  · cases h
  · next o _ =>
    split at h
    · cases h
    · next l _ =>
      dsimp only at h
      have n1 : SubQueued s st (st.setNode o { st.nodes o with hp_targets := l }) :=
        SubQueued.sq_setNode s st o _
      split at h
      · cases h
      · next st2 hr =>
        cases h
        have n2 : SubQueued s st st2 := by
          split at hr
          · split at hr
            · cases hr
            · next st3 b hd3 => cases hr; exact n1.sq_trans (hd _ _ _ _ hd3)
          · cases hr; exact n1
        exact n2.sq_trans (SubQueued.sq_setNode s st2 p _)

theorem sq_of_unlink0 [CFloat F] (s : Nat)
    (destroy : State F → Nat → Except Fault (State F × Bool))
    (hd : ∀ st p st' b, destroy st p = .ok (st', b) → SubQueued s st st')
    {fuel : Nat} {st st' : State F} {p : Nat} {skipme : Option Nat}
    {pnq pnq' : prop_notify_queue F}
    (h : prop_unlink0 destroy fuel st p skipme pnq = .ok (st', pnq')) (hq : PnqOk pnq) :
    SubQueued s st st' ∧ PnqOk pnq' := by
  unfold prop_unlink0 at h
  split at h
  · cases h
  · next st1 hr =>
    obtain ⟨a1, a2⟩ := sq_of_relink_subscriptions s _ _ _ _ _ _ _ _ _ h hq
    exact ⟨(sq_of_remove_from_originator s destroy hd hr).sq_trans a1, a2⟩

theorem sq_of_destroy_child (s : Nat)
    (destroy : State F → Nat → Except Fault (State F × Bool))
    (hd : ∀ st p st' b, destroy st p = .ok (st', b) → SubQueued s st st')
    {st st' : State F} {p c : Nat}
    (h : prop_destroy_child destroy st p c = .ok st') : SubQueued s st st' := by
  unfold prop_destroy_child at h
  split at h
  · cases h
  · next st1 hd1 => cases h; exact hd _ _ _ _ hd1
  · next st1 hd1 =>
    have n1 := hd _ _ _ _ hd1
    split at h
    · cases h
    · next st2 hn2 =>
      have n2 := n1.sq_trans (sq_notify_child s _ _ _ _ _ _ _ hn2 rfl)
      split at h
      · cases h
      · next cs hcs =>
        cases h
        exact n2.sq_trans ((SubQueued.sq_setChilds s st2 p cs).sq_trans
          (SubQueued.sq_setNode s _ c _))

theorem sq_of_destroy_childs_loop (s : Nat)
    (destroy : State F → Nat → Except Fault (State F × Bool))
    (hd : ∀ st p st' b, destroy st p = .ok (st', b) → SubQueued s st st')
    (p : Nat) :
    ∀ (fuel : Nat) (st st' : State F) (c : Option Nat),
      destroy_childs_loop destroy p fuel st c = .ok st' → SubQueued s st st' := by
  intro fuel
  induction fuel with
  | zero => intro st st' c h; cases c <;> cases h
  | succ fuel ih =>
    intro st st' c h
    cases c with
    | none => unfold destroy_childs_loop at h; cases h; exact SubQueued.sq_refl s _
    | some c =>
      unfold destroy_childs_loop at h
      dsimp only at h
      split at h
      · cases h
      · next st1 h1 => exact (sq_of_destroy_child s destroy hd h1).sq_trans (ih _ _ _ h)

theorem sq_of_destroy_canonical_subs (s : Nat) (p : Nat) :
    ∀ (l : List Nat) (st st' : State F),
      destroy_canonical_subs p l st = .ok st' → SubQueued s st st' := by
  intro l
  induction l with
  | nil => intro st st' h; cases h; exact SubQueued.sq_refl s _
  | cons t rest ih =>
    intro st st' h
    unfold destroy_canonical_subs at h
    dsimp only at h
    have h2 : SubQueued s st ((st.setNode p { st.nodes p with
          hp_canonical_subscriptions := rest }).setSub
        t { (st.setNode p { st.nodes p with hp_canonical_subscriptions := rest }).subs t with
          hps_canonical_prop := none }) :=
      (SubQueued.sq_setNode s st p _).sq_trans (SubQueued.sq_setSub s _ _ _ rfl rfl)
    split at h
    · split at h
      · cases h
      · next st3 h3 =>
        exact h2.sq_trans ((sq_of_notify_destroyed s h3).sq_trans (ih _ _ h))
    · exact h2.sq_trans (ih _ _ h)

theorem sq_of_destroy_value_subs (s : Nat) (p : Nat) :
    ∀ (l : List Nat) (st st' : State F),
      destroy_value_subs p l st = .ok st' → SubQueued s st st' := by
  intro l
  induction l with
  | nil => intro st st' h; cases h; exact SubQueued.sq_refl s _
  | cons t rest ih =>
    intro st st' h
    unfold destroy_value_subs at h
    split at h
    · cases h
    · next st1 h1 =>
      dsimp only at h
      refine (sq_of_notify_void s h1).sq_trans (SubQueued.sq_trans ?_ (ih _ _ h))
      exact (SubQueued.sq_setNode s st1 p _).sq_trans (SubQueued.sq_setSub s _ _ _ rfl rfl)

theorem sq_of_destroy_targets (s : Nat) (unlink : State F → Nat → Except Fault (State F))
    (hu : ∀ st c st', unlink st c = .ok st' → SubQueued s st st') (p : Nat) :
    ∀ (fuel : Nat) (st st' : State F),
      destroy_targets unlink p fuel st = .ok st' → SubQueued s st st' := by
  intro fuel
  induction fuel with
  | zero => intro st st' h; cases h
  | succ fuel ih =>
    intro st st' h
    unfold destroy_targets at h
    split at h
    · cases h; exact SubQueued.sq_refl s _
    · split at h
      · cases h
      · next st1 h1 => exact (hu _ _ _ h1).sq_trans (ih _ _ h)

/-- The function prop_destroy0 queues the records of a subscription where
  `SubFlags.expedited` says. -/
theorem sq_of_destroy0 [CFloat F] (s : Nat) :
    ∀ (fuel : Nat) (st : State F) (p : Nat) (st' : State F) (b : Bool),
      prop_destroy0 fuel st p = .ok (st', b) → SubQueued s st st' := by
  intro fuel
  induction fuel with
  | zero => intro st p st' b h; cases h
  | succ fuel ih =>
    intro st p st' b h
    have hd : ∀ (a : State F) (q : Nat) (a' : State F) (b : Bool),
        (fun a q => prop_destroy0 fuel a q) a q = .ok (a', b) → SubQueued s a a' :=
      fun a q a' b hq => ih a q a' b hq
    unfold prop_destroy0 at h
    split at h
    · cases h; exact SubQueued.sq_refl s _
    · dsimp only at h
      have n1 : SubQueued s st
          (st.setNode p { st.nodes p with hp_xref := ((st.nodes p).hp_xref - 1) % 256 }) :=
        SubQueued.sq_setNode s st p _
      generalize st.setNode p { st.nodes p with hp_xref := ((st.nodes p).hp_xref - 1) % 256 } = st1
        at h n1
      split at h
      · cases h; exact n1
      · split at h
        · cases h
        · next st2 h2 =>
          have n2 := n1.sq_trans (sq_of_destroy_childs_loop s _ hd p _ _ _ _ h2)
          have n3 : SubQueued s st (st2.setU p .PROP_ZOMBIE) :=
            n2.sq_trans (SubQueued.sq_setU s st2 p _)
          generalize st2.setU p .PROP_ZOMBIE = st3 at h n3
          split at h
          · cases h
          · next st4 h4 =>
            have n4 := n3.sq_trans (sq_of_destroy_canonical_subs s _ _ _ _ h4)
            split at h
            · cases h
            · next st5 h5 =>
              have n5 := n4.sq_trans (sq_of_destroy_value_subs s _ _ _ _ h5)
              split at h
              · cases h
              · next st6 h6 =>
                have n6 : SubQueued s st st6 := by
                  refine n5.sq_trans (sq_of_destroy_targets s _ ?_ p _ _ _ h6)
                  intro a c a' hs
                  split at hs
                  · cases hs
                  · next s1 q1 hu =>
                    cases hs
                    exact (sq_of_unlink0 s _ hd hu pnqOk_none).1
                split at h
                · cases h
                · next st7 h7 =>
                  have n7 : SubQueued s st st7 := by
                    split at h7
                    · exact n6.sq_trans (sq_of_remove_from_originator s _ hd h7)
                    · cases h7; exact n6
                  split at h
                  · cases h
                  · next st8 h8 =>
                    have n8 := n7.sq_trans (sq_of_destroy_unparent s h8)
                    have n9 : SubQueued s st
                        (st8.setNode p { st8.nodes p with hp_name := none }) :=
                      n8.sq_trans (SubQueued.sq_setNode s st8 p _)
                    split at h
                    · cases h
                    · next st10 h10 =>
                      cases h
                      exact n9.sq_trans (sq_of_ref_dec_locked s h10)

theorem sq_of_destroy [CFloat F] (s : Nat) {fuel : Nat} {st st' : State F} {p : Option Nat}
    (h : prop_destroy fuel st p = .ok st') : SubQueued s st st' := by
  unfold prop_destroy at h
  split at h
  · cases h; exact SubQueued.sq_refl s _
  · split at h
    · cases h
    · next st1 b h1 => cases h; exact sq_of_destroy0 s _ _ _ _ _ h1

theorem sq_of_relink_targets [CFloat F] (s : Nat) (fuel : Nat) (dst : Nat)
    (skipme no_descend : Option Nat) :
    ∀ (l : List Nat) (st st' : State F),
      relink_targets fuel dst skipme no_descend l st = .ok st' → SubQueued s st st' := by
  intro l
  induction l with
  | nil => intro st st' h; cases h; exact SubQueued.sq_refl s _
  | cons t rest ih =>
    intro st st' h
    unfold relink_targets at h
    split at h
    · cases h
    · next st1 q1 h1 =>
      exact (sq_of_relink_subscriptions s _ _ _ _ _ _ _ _ _ h1 pnqOk_none).1.sq_trans
        (ih _ _ h)

theorem sq_of_link_parents [CFloat F] (s : Nat) (fuel0 : Nat) (skipme : Option Nat) :
    ∀ (fuel : Nat) (st st' : State F) (dst : Nat) (no_descend : Option Nat),
      link_parents fuel0 skipme fuel st dst no_descend = .ok st' → SubQueued s st st' := by
  intro fuel
  induction fuel with
  | zero => intro st st' dst nd h; cases h
  | succ fuel ih =>
    intro st st' dst nd h
    unfold link_parents at h
    split at h
    · cases h; exact SubQueued.sq_refl s _
    · split at h
      · cases h
      · next st1 h1 =>
        exact (sq_of_relink_targets s _ _ _ _ _ _ _ h1).sq_trans (ih _ _ _ _ h)

theorem sq_of_unlink_parents [CFloat F] (s : Nat) (fuel0 : Nat) (skipme : Option Nat) :
    ∀ (fuel : Nat) (st st' : State F) (p : Nat),
      unlink_parents fuel0 skipme fuel st p = .ok st' → SubQueued s st st' := by
  intro fuel
  induction fuel with
  | zero => intro st st' p h; cases h
  | succ fuel ih =>
    intro st st' p h
    unfold unlink_parents at h
    split at h
    · cases h; exact SubQueued.sq_refl s _
    · split at h
      · cases h
      · next st1 h1 =>
        exact (sq_of_relink_targets s _ _ _ _ _ _ _ h1).sq_trans (ih _ _ _ h)

theorem sq_of_link_flush (s : Nat) :
    ∀ (l : List (prop_notify_t F)) (st st' : State F),
      link_flush l st = .ok st' → (∀ n ∈ l, n.hpn_event.enqueued = true) →
      SubQueued s st st' := by
  intro l
  induction l with
  | nil => intro st st' h _; cases h; exact SubQueued.sq_refl s _
  | cons n rest ih =>
    intro st st' h hq
    have hrest : ∀ m ∈ rest, m.hpn_event.enqueued = true :=
      fun m hm => hq m (List.mem_cons_of_mem _ hm)
    unfold link_flush at h
    dsimp only at h
    split at h
    · refine SubQueued.sq_trans ?_ (ih _ _ h hrest)
      exact (SubQueued.sq_setSub s st n.hpn_sub
          { st.subs n.hpn_sub with hps_pending_unlink := false } rfl rfl).sq_trans
        (sq_courier_enqueue s _ _ _ rfl (hq n (List.mem_cons_self _ _)))
    · split at h
      · cases h
      · next st1 h1 => exact (sq_of_notify_free s h1).sq_trans (ih _ _ h hrest)

theorem sq_of_link0 [CFloat F] (s : Nat) {fuel : Nat} {st st' : State F} {src dst : Nat}
    {skipme : Option Nat} {hard : prop_link_hard}
    (h : prop_link0 fuel st src dst skipme hard = .ok st') : SubQueued s st st' := by
  have hd : ∀ (a : State F) (q : Nat) (a' : State F) (b : Bool),
      (fun a q => prop_destroy0 fuel a q) a q = .ok (a', b) → SubQueued s a a' :=
    fun a q a' b hq => sq_of_destroy0 s fuel a q a' b hq
  unfold prop_link0 at h
  split at h
  · cases h
  · split at h
    · cases h; exact SubQueued.sq_refl s _
    · dsimp only at h
      split at h
      · cases h
      · next st1 pnq hu =>
        have n1 : SubQueued s st st1 ∧ PnqOk pnq := by
          split at hu
          · exact sq_of_unlink0 s _ hd hu pnqOk_nil
          · cases hu; exact ⟨SubQueued.sq_refl s _, pnqOk_nil⟩
        split at h
        · cases h
        · next st3 ha =>
          have n3 : SubQueued s st st3 := by
            split at ha
            · split at ha
              · cases ha
                exact n1.1.sq_trans ((SubQueued.sq_setNode s st1 dst _).sq_trans
                  (SubQueued.sq_setNode s _ src _))
              · cases ha
            · cases ha; exact n1.1
          have n5 : SubQueued s st
              ((st3.setNode dst { st3.nodes dst with hp_originator := some src }).setNode
              src { (st3.setNode dst { st3.nodes dst with hp_originator := some src }).nodes src with
                hp_targets := dst ::
                  ((st3.setNode dst { st3.nodes dst with hp_originator := some src }).nodes
                    src).hp_targets }) :=
            n3.sq_trans ((SubQueued.sq_setNode s st3 dst _).sq_trans
              (SubQueued.sq_setNode s _ src _))
          generalize (st3.setNode dst { st3.nodes dst with hp_originator := some src }).setNode
              src { (st3.setNode dst { st3.nodes dst with hp_originator := some src }).nodes src with
                hp_targets := dst ::
                  ((st3.setNode dst { st3.nodes dst with hp_originator := some src }).nodes
                    src).hp_targets } = st5 at h n5
          split at h
          · cases h
          · next src1 _ =>
            split at h
            · cases h
            · next st6 q6 h6 =>
              have n6 := n5.sq_trans
                (sq_of_relink_subscriptions s _ _ _ _ _ _ _ _ _ h6 pnqOk_none).1
              split at h
              · cases h
              · next st7 h7 =>
                have n7 := n6.sq_trans (sq_of_link_parents s _ _ _ _ _ _ _ h7)
                exact n7.sq_trans (sq_of_link_flush s _ _ _ h n1.2)

theorem sq_of_unlink_ex [CFloat F] (s : Nat) {fuel : Nat} {st st' : State F}
    {p skipme : Option Nat}
    (h : prop_unlink_ex fuel st p skipme = .ok st') : SubQueued s st st' := by
  have hd : ∀ (a : State F) (q : Nat) (a' : State F) (b : Bool),
      (fun a q => prop_destroy0 fuel a q) a q = .ok (a', b) → SubQueued s a a' :=
    fun a q a' b hq => sq_of_destroy0 s fuel a q a' b hq
  unfold prop_unlink_ex at h
  split at h
  · cases h; exact SubQueued.sq_refl s _
  · next p =>
    split at h
    · cases h; exact SubQueued.sq_refl s _
    · dsimp only at h
      split at h
      · cases h
      · next st1 hu =>
        refine SubQueued.sq_trans ?_ (sq_of_unlink_parents s _ _ _ _ _ _ h)
        split at hu
        · split at hu
          · cases hu
          · next s1 q1 hu1 => cases hu; exact (sq_of_unlink0 s _ hd hu1 pnqOk_none).1
        · cases hu; exact SubQueued.sq_refl s _

theorem sq_of_set_parent0 (s : Nat) {st st' : State F} {p parent : Nat}
    {before skipme : Option Nat} {r : Int}
    (h : prop_set_parent0 st p parent before skipme = .ok (st', r)) : SubQueued s st st' := by
  unfold prop_set_parent0 at h
  split at h
  · cases h; exact SubQueued.sq_refl s _
  · split at h
    · cases h
    · next st1 hm =>
      have n1 := sq_make_dir s hm
      split at h
      · split at h
        · cases h
        · next st2 hu =>
          have n2 := n1.sq_trans (sq_of_unparent0 s hu)
          dsimp only at h
          have n3 : SubQueued s st (st2.setNode p { st2.nodes p with hp_parent := some parent }) :=
            n2.sq_trans (SubQueued.sq_setNode s st2 p _)
          generalize st2.setNode p { st2.nodes p with hp_parent := some parent } = st3 at h n3
          split at h
          · cases h
          · next st4 hf =>
            have n4 : SubQueued s st st4 := by
              split at hf
              · exact n3.sq_trans (sq_of_flood_flag s _ _ _ _ _ _ hf)
              · cases hf; exact n3
            split at h
            · cases h
            · next st5 hi =>
              cases h
              exact n4.sq_trans (sq_of_insert s hi)
      · split at h
        · cases h
        · next st2 hv =>
          cases h
          exact n1.sq_trans (sq_of_move0 s hv)

theorem sq_of_set_parent_ex (s : Nat) {st st' : State F} {p : Nat}
    {parent before skipme : Option Nat} {r : Int}
    (h : prop_set_parent_ex st p parent before skipme = .ok (st', r)) :
    SubQueued s st st' := by
  unfold prop_set_parent_ex at h
  split at h
  · cases h; exact SubQueued.sq_refl s _
  · exact sq_of_set_parent0 s h

theorem sq_of_set_parent_vector_destroy [CFloat F] (s : Nat) (fuel : Nat) :
    ∀ (l : List Nat) (st st' : State F),
      set_parent_vector_destroy fuel l st = .ok st' → SubQueued s st st' := by
  intro l
  induction l with
  | nil => intro st st' h; cases h; exact SubQueued.sq_refl s _
  | cons p rest ih =>
    intro st st' h
    unfold set_parent_vector_destroy at h
    split at h
    · cases h
    · next st1 b h1 => exact (sq_of_destroy0 s _ _ _ _ _ h1).sq_trans (ih _ _ h)

theorem sq_of_set_parent_vector_insert (s : Nat) (parent : Nat) (before : Option Nat) :
    ∀ (l : List Nat) (st st' : State F),
      set_parent_vector_insert parent before l st = .ok st' → SubQueued s st st' := by
  intro l
  induction l with
  | nil => intro st st' h; cases h; exact SubQueued.sq_refl s _
  | cons p rest ih =>
    intro st st' h
    unfold set_parent_vector_insert at h
    dsimp only at h
    have n1 : SubQueued s st (st.setNode p { st.nodes p with hp_parent := some parent }) :=
      SubQueued.sq_setNode s st p _
    generalize st.setNode p { st.nodes p with hp_parent := some parent } = st1 at h n1
    split at h
    · cases h
    · next st2 hf =>
      have n2 : SubQueued s st st2 := by
        split at hf
        · exact n1.sq_trans (sq_of_flood_flag s _ _ _ _ _ _ hf)
        · cases hf; exact n1
      exact n2.sq_trans ((SubQueued.sq_setChilds s st2 parent _).sq_trans (ih _ _ h))

theorem sq_of_set_parent_vector [CFloat F] (s : Nat) {fuel : Nat} {st st' : State F}
    {pv : List Nat} {parent before skipme : Option Nat}
    (h : prop_set_parent_vector fuel st pv parent before skipme = .ok st') :
    SubQueued s st st' := by
  unfold prop_set_parent_vector at h
  split at h
  · exact sq_of_set_parent_vector_destroy s _ _ _ _ h
  · split at h
    · cases h
    · next st1 hm =>
      split at h
      · cases h
      · next st2 hi =>
        refine ((sq_make_dir s hm).sq_trans
          (sq_of_set_parent_vector_insert s _ _ _ _ _ hi)).sq_trans
          (sq_of_notify_childv s _ _ _ _ _ _ _ h ?_)
        cases before <;> rfl

theorem sq_of_clr_multi (s : Nat) {st st' : State F} {p : Nat}
    (h : prop_clr_multi st p = .ok st') : SubQueued s st st' := by
  unfold prop_clr_multi at h
  dsimp only at h
  have h1 : SubQueued s st (st.setNode p { st.nodes p with
      hp_flags := { (st.nodes p).hp_flags with PROP_MULTI_SUB := false } }) :=
    SubQueued.sq_setNode s st p _
  split at h
  · exact h1.sq_trans (sq_of_flood_flag_on_childs s h)
  · cases h; exact h1

theorem sq_of_xref_addref (s : Nat) {st st' : State F} {p : Option Nat}
    (h : prop_xref_addref st p = .ok st') : SubQueued s st st' := by
  unfold prop_xref_addref at h
  split at h
  · cases h; exact SubQueued.sq_refl s _
  · split at h
    · cases h; exact SubQueued.sq_setNode s st _ _
    · cases h

theorem sq_of_select_ex (s : Nat) {st st' : State F} {p : Nat} {extra skipme : Option Nat}
    (h : prop_select_ex st p extra skipme = .ok st') : SubQueued s st st' := by
  unfold prop_select_ex at h
  split at h
  · cases h; exact SubQueued.sq_refl s _
  · split at h
    · cases h; exact SubQueued.sq_refl s _
    · split at h
      · cases h
      · split at h
        · cases h
        · next st1 hn =>
          cases h
          exact (sq_of_notify_child2 s _ _ _ _ _ _ _ _ hn rfl).sq_trans
            (SubQueued.sq_setSelected s st1 _ _)

theorem sq_of_unselect_ex (s : Nat) {st st' : State F} {parent : Nat} {skipme : Option Nat}
    (h : prop_unselect_ex st parent skipme = .ok st') : SubQueued s st st' := by
  unfold prop_unselect_ex at h
  split at h
  · split at h
    · cases h
    · next st1 hn =>
      cases h
      exact (sq_notify_child s _ _ _ _ _ _ _ hn rfl).sq_trans
        (SubQueued.sq_setSelected s st1 _ _)
  · cases h; exact SubQueued.sq_refl s _

theorem sq_of_destroy_childs [CFloat F] (s : Nat) {fuel : Nat} {st st' : State F}
    {p : Option Nat} (h : prop_destroy_childs fuel st p = .ok st') : SubQueued s st st' := by
  unfold prop_destroy_childs at h
  split at h
  · cases h; exact SubQueued.sq_refl s _
  · split at h
    · exact sq_of_destroy_childs_loop s _ (fun a q a' b hq => sq_of_destroy0 s fuel a q a' b hq)
        _ _ _ _ _ h
    · cases h; exact SubQueued.sq_refl s _

theorem sq_of_destroy_unnamed_loop (s : Nat)
    (destroy : State F → Nat → Except Fault (State F × Bool))
    (hd : ∀ st p st' b, destroy st p = .ok (st', b) → SubQueued s st st')
    (p : Nat) :
    ∀ (fuel : Nat) (st st' : State F) (c : Option Nat),
      destroy_unnamed_loop destroy p fuel st c = .ok st' → SubQueued s st st' := by
  intro fuel
  induction fuel with
  | zero => intro st st' c h; cases c <;> cases h
  | succ fuel ih =>
    intro st st' c h
    cases c with
    | none => unfold destroy_unnamed_loop at h; cases h; exact SubQueued.sq_refl s _
    | some c =>
      unfold destroy_unnamed_loop at h
      dsimp only at h
      split at h
      · split at h
        · cases h
        · next st1 h1 => exact (sq_of_destroy_child s destroy hd h1).sq_trans (ih _ _ _ h)
      · exact ih _ _ _ h

theorem sq_of_destroy_by_name [CFloat F] (s : Nat) {fuel : Nat} {st st' : State F} {p : Nat}
    {name : Option String} (h : prop_destroy_by_name fuel st p name = .ok st') :
    SubQueued s st st' := by
  have hd : ∀ (a : State F) (q : Nat) (a' : State F) (b : Bool),
      (fun a q => prop_destroy0 fuel a q) a q = .ok (a', b) → SubQueued s a a' :=
    fun a q a' b hq => sq_of_destroy0 s fuel a q a' b hq
  unfold prop_destroy_by_name at h
  split at h
  · split at h
    · exact sq_of_destroy_unnamed_loop s _ hd _ _ _ _ _ h
    · split at h
      · exact sq_of_destroy_child s _ hd h
      · cases h; exact SubQueued.sq_refl s _
  · cases h; exact SubQueued.sq_refl s _

theorem sq_of_destroy_first [CFloat F] (s : Nat) {fuel : Nat} {st st' : State F} {p : Nat}
    (h : prop_destroy_first fuel st p = .ok st') : SubQueued s st st' := by
  have hd : ∀ (a : State F) (q : Nat) (a' : State F) (b : Bool),
      (fun a q => prop_destroy0 fuel a q) a q = .ok (a', b) → SubQueued s a a' :=
    fun a q a' b hq => sq_of_destroy0 s fuel a q a' b hq
  unfold prop_destroy_first at h
  split at h
  · split at h
    · exact sq_of_destroy_child s _ hd h
    · cases h; exact SubQueued.sq_refl s _
  · cases h; exact SubQueued.sq_refl s _

theorem sq_of_mark_fold (s : Nat) : ∀ (l : List Nat) (st : State F),
    SubQueued s st (l.foldl (fun acc c => acc.setNode c { acc.nodes c with
      hp_flags := { (acc.nodes c).hp_flags with PROP_MARKED := true } }) st) := by
  intro l
  induction l with
  | nil => intro st; exact SubQueued.sq_refl s _
  | cons c rest ih =>
    intro st
    rw [List.foldl_cons]
    exact (SubQueued.sq_setNode s st c _).sq_trans (ih _)

theorem sq_of_mark_childs (s : Nat) (st : State F) (p : Nat) :
    SubQueued s st (prop_mark_childs st p) := by
  unfold prop_mark_childs
  split
  · exact sq_of_mark_fold s _ _
  · exact SubQueued.sq_refl s _

theorem sq_of_unmark (s : Nat) (st : State F) (p : Nat) :
    SubQueued s st (prop_unmark st p) := SubQueued.sq_setNode s st p _

theorem sq_of_destroy_marked_loop (s : Nat)
    (destroy : State F → Nat → Except Fault (State F × Bool))
    (hd : ∀ st p st' b, destroy st p = .ok (st', b) → SubQueued s st st')
    (p : Nat) :
    ∀ (fuel : Nat) (st st' : State F) (c : Option Nat),
      destroy_marked_loop destroy p fuel st c = .ok st' → SubQueued s st st' := by
  intro fuel
  induction fuel with
  | zero => intro st st' c h; cases c <;> cases h
  | succ fuel ih =>
    intro st st' c h
    cases c with
    | none => unfold destroy_marked_loop at h; cases h; exact SubQueued.sq_refl s _
    | some c =>
      unfold destroy_marked_loop at h
      dsimp only at h
      split at h
      · split at h
        · cases h
        · next st1 b h1 => exact (hd _ _ _ _ h1).sq_trans (ih _ _ _ h)
      · exact ih _ _ _ h

theorem sq_of_destroy_marked_childs [CFloat F] (s : Nat) {fuel : Nat} {st st' : State F}
    {p : Nat} (h : prop_destroy_marked_childs fuel st p = .ok st') : SubQueued s st st' := by
  unfold prop_destroy_marked_childs at h
  split at h
  · exact sq_of_destroy_marked_loop s _
      (fun a q a' b hq => sq_of_destroy0 s fuel a q a' b hq) _ _ _ _ _ h
  · cases h; exact SubQueued.sq_refl s _

theorem sq_of_sub_ref_dec_locked (s : Nat) (st : State F) (t : Nat) :
    SubQueued s st (prop_sub_ref_dec_locked st t) :=
  SubQueued.sq_setSub s st t { st.subs t with hps_refcount := (st.subs t).hps_refcount - 1 }
    rfl rfl

theorem sq_of_unsubscribe0 (s : Nat) {st st' : State F} {t : Nat}
    (h : prop_unsubscribe0 st t = .ok st') : SubQueued s st st' := by
  unfold prop_unsubscribe0 at h
  dsimp only at h
  have n1 : SubQueued s st (st.setSub t { st.subs t with hps_zombie := true }) :=
    SubQueued.sq_setSub s st t { st.subs t with hps_zombie := true } rfl rfl
  generalize st.setSub t { st.subs t with hps_zombie := true } = st1 at h n1
  have n2 : SubQueued s st (st1.setCourier (st1.subs t).hps_courier
      { st1.couriers (st1.subs t).hps_courier with
        pc_refcount := (st1.couriers (st1.subs t).hps_courier).pc_refcount - 1 }) :=
    n1.sq_trans (SubQueued.sq_setCourier s st1 _ _ rfl rfl)
  generalize st1.setCourier (st1.subs t).hps_courier
      { st1.couriers (st1.subs t).hps_courier with
        pc_refcount := (st1.couriers (st1.subs t).hps_courier).pc_refcount - 1 } = st2 at h n2
  split at h
  · cases h
  · next st3 hv =>
    have n3 : SubQueued s st st3 := by
      split at hv
      · cases hv; exact n2
      · next v _ =>
        split at hv
        · cases hv
        · next l _ =>
          cases hv
          have n2b : SubQueued s st
              (st2.setNode v { st2.nodes v with hp_value_subscriptions := l }) :=
            n2.sq_trans (SubQueued.sq_setNode s st2 v _)
          generalize st2.setNode v { st2.nodes v with hp_value_subscriptions := l } = st2b
            at n2b
          exact n2b.sq_trans (SubQueued.sq_setSub s st2b t
            { st2b.subs t with hps_value_prop := none } rfl rfl)
    split at h
    · cases h
    · next st7 hc =>
      cases h
      refine SubQueued.sq_trans ?_ (sq_of_sub_ref_dec_locked s st7 t)
      split at hc
      · cases hc; exact n3
      · next c _ =>
        split at hc
        · cases hc
        · next l _ =>
          have n4 : SubQueued s st
              (st3.setNode c { st3.nodes c with hp_canonical_subscriptions := l }) :=
            n3.sq_trans (SubQueued.sq_setNode s st3 c _)
          generalize st3.setNode c { st3.nodes c with hp_canonical_subscriptions := l } = st4
            at hc n4
          split at hc
          · cases hc
          · next st6 hr =>
            cases hc
            refine SubQueued.sq_trans ?_ (SubQueued.sq_setSub s st6 t
              { st6.subs t with hps_canonical_prop := none } rfl rfl)
            split at hr
            · split at hr
              · cases hr
              · split at hr
                · cases hr
                  split
                  · exact n4
                  · exact n4.sq_trans (SubQueued.sq_setNode s st4 c _)
                · refine SubQueued.sq_trans ?_ (sq_of_clr_multi s hr)
                  split
                  · exact n4
                  · exact n4.sq_trans (SubQueued.sq_setNode s st4 c _)
            · cases hr; exact n4

theorem sq_of_unsubscribe (s : Nat) {st st' : State F} {t : Option Nat}
    (h : prop_unsubscribe st t = .ok st') : SubQueued s st st' := by
  unfold prop_unsubscribe at h
  split at h
  · cases h; exact SubQueued.sq_refl s _
  · exact sq_of_unsubscribe0 s h

theorem sq_of_store_run [CFloat F] (s : Nat) {st st' : State F} (c : store_call F)
    (h : c.run st = .ok st') : SubQueued s st st' := by
  cases c <;> simp only [store_call.run] at h
  · cases h; exact sq_of_create_root_ex s st _ _
  · split at h
    · cases h
    · next st1 r h1 => cases h; exact sq_of_create_ex s h1
  · exact sq_of_setv_ex s h
  · exact sq_of_set_ex s h
  · exact sq_of_setter_run s _ h
  · split at h
    · cases h
    · next st1 r h1 => cases h; exact sq_of_subfind s _ _ _ _ _ _ _ h1
  · cases h; exact sq_of_courier_create s st
  · split at h
    · cases h
    · next st1 r h1 => cases h; exact sq_of_subscribe s h1
  · exact sq_of_move s h
  · exact sq_of_link0 s h
  · exact sq_of_unlink_ex s h
  · exact sq_of_destroy s h
  · split at h
    · cases h
    · next st1 r h1 => cases h; exact sq_of_set_parent_ex s h1
  · exact sq_of_set_parent_vector s h

theorem sq_of_api_run [CFloat F] (s : Nat) {st st' : State F} (c : api_call F)
    (h : c.run st = .ok st') : SubQueued s st st' := by
  cases c <;> simp only [api_call.run] at h
  · exact sq_of_store_run s _ h
  · exact sq_of_unsubscribe s h
  · exact sq_of_select_ex s h
  · exact sq_of_unselect_ex s h
  · exact sq_of_unparent0 s h
  · exact sq_of_destroy_childs s h
  · exact sq_of_destroy_by_name s h
  · exact sq_of_destroy_first s h
  · exact sq_of_xref_addref s h
  · cases h; exact sq_of_mark_childs s st _
  · cases h; exact sq_of_unmark s st _
  · exact sq_of_destroy_marked_childs s h

theorem sq_of_run_api [CFloat F] (s : Nat) : ∀ (calls : List (api_call F)) (st st' : State F),
    run_api calls st = .ok st' → SubQueued s st st' := by
  intro calls
  induction calls with
  | nil => intro st st' h; cases h; exact SubQueued.sq_refl s _
  | cons c rest ih =>
    intro st st' h
    unfold run_api at h
    split at h
    · cases h
    · next st1 h1 => exact (sq_of_api_run s c h1).sq_trans (ih _ _ h)

/-! ## C28: one poll of a courier -/

theorem queue_refs_append : ∀ (a b : List (prop_notify_t F)),
    queue_refs (a ++ b) = queue_refs a ++ queue_refs b := by
  intro a
  induction a with
  | nil => intro b; rfl
  | cons n rest ih =>
    intro b
    show record_refs n ++ queue_refs (rest ++ b) = (record_refs n ++ queue_refs rest) ++ queue_refs b
    rw [ih, List.append_assoc]

theorem sub_ref_dec_keeps (st : State F) (t s : Nat) :
    (prop_sub_ref_dec_locked st t).nodes = st.nodes ∧
      ((prop_sub_ref_dec_locked st t).subs s).hps_zombie = (st.subs s).hps_zombie ∧
      ((prop_sub_ref_dec_locked st t).subs s).hps_flags = (st.subs s).hps_flags := by
  unfold prop_sub_ref_dec_locked
  refine ⟨rfl, ?_, ?_⟩
  · rw [setSub_subs]
    split
    · next e => rw [e]
    · rfl
  · rw [setSub_subs]
    split
    · next e => rw [e]
    · rfl

theorem sub_ref_dec_fold_keeps : ∀ (l : List (prop_notify_t F)) (st : State F) (s : Nat),
    (l.foldl (fun acc n => prop_sub_ref_dec_locked acc n.hpn_sub) st).nodes = st.nodes ∧
      ((l.foldl (fun acc n => prop_sub_ref_dec_locked acc n.hpn_sub) st).subs s).hps_zombie
        = (st.subs s).hps_zombie ∧
      ((l.foldl (fun acc n => prop_sub_ref_dec_locked acc n.hpn_sub) st).subs s).hps_flags
        = (st.subs s).hps_flags := by
  intro l
  induction l with
  | nil => intro st s; exact ⟨rfl, rfl, rfl⟩
  | cons n rest ih =>
    intro st s
    rw [List.foldl_cons]
    obtain ⟨a1, a2, a3⟩ := ih (prop_sub_ref_dec_locked st n.hpn_sub) s
    obtain ⟨b1, b2, b3⟩ := sub_ref_dec_keeps st n.hpn_sub s
    exact ⟨a1.trans b1, a2.trans b2, a3.trans b3⟩

/-- One prop_ref_dec_locked per node of a list returns when every node holds the references
  taken from it and the last reference is taken from a zombie only. -/
theorem release_all_held : ∀ (ps rest : List Nat) (st : State F),
    Held st (ps ++ rest) →
    ∃ st', ps.foldlM (fun acc p => prop_ref_dec_locked acc (some p)) st = .ok st' ∧
      st'.subs = st.subs ∧ Held st' rest := by
  intro ps
  induction ps with
  | nil =>
    intro rest st h
    exact ⟨st, rfl, rfl, by simpa using h⟩
  | cons p ps ih =>
    intro rest st h
    have hp := h p (by simp)
    rw [List.cons_append, List.count_cons_self] at hp
    push_cast at hp
    have hstep : prop_ref_dec_locked st (some p)
        = .ok (st.setNode p { st.nodes p with hp_refcount := (st.nodes p).hp_refcount - 1 }) := by
      unfold prop_ref_dec_locked
      dsimp only
      by_cases h1 : (st.nodes p).hp_refcount > 1
      · rw [if_pos h1]
      · rw [if_neg h1]
        have hz : (st.nodes p).hp_type = .PROP_ZOMBIE := by
          rcases hp with hp | hp
          · omega
          · exact hp.1
        rw [if_neg (fun hne => hne (by
          rw [setNode_nodes, if_pos rfl]
          exact hz))]
    obtain ⟨st', e1, e2, e4⟩ := ih rest
      (st.setNode p { st.nodes p with hp_refcount := (st.nodes p).hp_refcount - 1 }) (by
        intro q hq
        have hq' := h q (List.mem_cons_of_mem _ hq)
        rw [List.cons_append] at hq'
        by_cases e : q = p
        · subst e
          rw [List.count_cons_self] at hq'
          simp only [setNode_nodes, if_true]
          push_cast at hq'
          rcases hq' with hq' | hq'
          · left; omega
          · right; exact ⟨hq'.1, by omega⟩
        · rw [List.count_cons_of_ne e] at hq'
          simp only [setNode_nodes, if_neg e]
          exact hq')
    refine ⟨st', ?_, e2, e4⟩
    rw [List.foldlM_cons, hstep]
    exact e1

theorem held_of_nodes {st st' : State F} {R : List Nat} (h : st'.nodes = st.nodes)
    (hr : Held st R) : Held st' R := by
  intro p hp
  rw [h]
  exact hr p hp

/-- The first loop of prop_notify_dispatch on a queue q, when the nodes hold the references
  that the records of q and the further list R give back: it returns, keeps the records of
  the subscriptions that are no zombies, changes neither the flags nor the zombie marks,
  and leaves the references of R held. -/
theorem dispatch_loop_cover : ∀ (q : List (prop_notify_t F)) (R : List Nat) (st : State F),
    (∀ n ∈ q, (st.subs n.hpn_sub).hps_flags.PROP_SUB_INTERNAL = false) →
    Held st (queue_refs q ++ R) →
    ∃ st', dispatch_loop q st
        = .ok (st', q.filter fun n => !(st.subs n.hpn_sub).hps_zombie) ∧
      (∀ s, (st'.subs s).hps_zombie = (st.subs s).hps_zombie ∧
        (st'.subs s).hps_flags = (st.subs s).hps_flags) ∧
      Held st' R := by
  intro q
  induction q with
  | nil =>
    intro R st _ h
    exact ⟨st, rfl, fun _ => ⟨rfl, rfl⟩, by simpa [queue_refs] using h⟩
  | cons n rest ih =>
    intro R st hint hcov
    obtain ⟨st1, e1, e2, e4⟩ := release_all_held (record_refs n) (queue_refs rest ++ R) st
      (by simpa only [queue_refs, List.append_assoc] using hcov)
    have hi := hint n (List.mem_cons_self _ _)
    unfold dispatch_loop
    rw [if_neg (by rw [hi]; exact Bool.false_ne_true)]
    by_cases hz : (st.subs n.hpn_sub).hps_zombie = true
    · rw [if_pos hz, notify_free_eq, e1]
      dsimp only
      have hk : ∀ s, ((prop_sub_ref_dec_locked st1 n.hpn_sub).subs s).hps_zombie
            = (st.subs s).hps_zombie ∧
          ((prop_sub_ref_dec_locked st1 n.hpn_sub).subs s).hps_flags
            = (st.subs s).hps_flags := by
        intro s
        obtain ⟨_, b2, b3⟩ := sub_ref_dec_keeps st1 n.hpn_sub s
        rw [e2] at b2 b3
        exact ⟨b2, b3⟩
      obtain ⟨st2, f1, f2, f3⟩ := ih R (prop_sub_ref_dec_locked st1 n.hpn_sub) (by
          intro m hm
          rw [(hk m.hpn_sub).2]
          exact hint m (List.mem_cons_of_mem _ hm))
          (held_of_nodes (sub_ref_dec_keeps st1 n.hpn_sub 0).1 e4)
      refine ⟨st2, ?_, ?_, f3⟩
      · rw [f1, List.filter_cons_of_neg (by simp [hz])]
        congr 2
        apply List.filter_congr
        intro m _
        rw [(hk m.hpn_sub).1]
      · intro s
        exact ⟨(f2 s).1.trans (hk s).1, (f2 s).2.trans (hk s).2⟩
    · rw [if_neg hz, dispatch_release_eq, e1]
      dsimp only
      obtain ⟨st2, f1, f2, f3⟩ := ih R st1 (by
          intro m hm
          rw [e2]
          exact hint m (List.mem_cons_of_mem _ hm)) e4
      refine ⟨st2, ?_, ?_, f3⟩
      · rw [f1, List.filter_cons_of_pos (by simpa using hz)]
        dsimp only
        rw [e2]
      · intro s
        rw [(f2 s).1, (f2 s).2, e2]
        exact ⟨rfl, rfl⟩

/-- The function prop_notify_dispatch under the hypotheses of `dispatch_loop_cover`. -/
theorem dispatch_cover (q : List (prop_notify_t F)) (R : List Nat) (st : State F)
    (hint : ∀ n ∈ q, (st.subs n.hpn_sub).hps_flags.PROP_SUB_INTERNAL = false)
    (hcov : Held st (queue_refs q ++ R)) :
    ∃ st', prop_notify_dispatch q st = .ok (st', q.filter fun n =>
        !(st.subs n.hpn_sub).hps_zombie && decide (n.hpn_event ≠ .PROP_SET_STRING)) ∧
      (∀ s, (st'.subs s).hps_zombie = (st.subs s).hps_zombie ∧
        (st'.subs s).hps_flags = (st.subs s).hps_flags) ∧
      Held st' R := by
  obtain ⟨st1, e1, e2, e3⟩ := dispatch_loop_cover q R st hint hcov
  unfold prop_notify_dispatch
  rw [e1]
  dsimp only
  have hf : (q.filter fun n => !(st.subs n.hpn_sub).hps_zombie).filter
        (fun n => decide (n.hpn_event ≠ .PROP_SET_STRING))
      = q.filter fun n =>
        !(st.subs n.hpn_sub).hps_zombie && decide (n.hpn_event ≠ .PROP_SET_STRING) := by
    rw [List.filter_filter]
    apply List.filter_congr
    intro n _
    rw [Bool.and_comm]
  rw [hf]
  refine ⟨_, rfl, ?_, ?_⟩
  · intro s
    obtain ⟨_, a2, a3⟩ := sub_ref_dec_fold_keeps
      (q.filter fun n => !(st.subs n.hpn_sub).hps_zombie) st1 s
    exact ⟨a2.trans (e2 s).1, a3.trans (e2 s).2⟩
  · exact held_of_nodes
      (sub_ref_dec_fold_keeps (q.filter fun n => !(st.subs n.hpn_sub).hps_zombie) st1 0).1 e3

/-- The function prop_courier_poll returns when no record of the two queues belongs to a
  subscription with PROP_SUB_INTERNAL and the nodes hold the references the records give
  back; the callbacks invoked are the records of the expedited queue and then those of the
  normal queue, each without the records of zombies and of PROP_SET_STRING. -/
theorem courier_poll_total (st : State F) (pc : Nat)
    (hint : ∀ n ∈ (st.couriers pc).pc_queue_exp ++ (st.couriers pc).pc_queue_nor,
      (st.subs n.hpn_sub).hps_flags.PROP_SUB_INTERNAL = false)
    (hcov : RefsHeld st ((st.couriers pc).pc_queue_exp ++ (st.couriers pc).pc_queue_nor)) :
    ∃ st', prop_courier_poll st pc = .ok (st',
      ((st.couriers pc).pc_queue_exp ++ (st.couriers pc).pc_queue_nor).filter fun n =>
        !(st.subs n.hpn_sub).hps_zombie && decide (n.hpn_event ≠ .PROP_SET_STRING)) := by
  unfold RefsHeld at hcov
  rw [queue_refs_append] at hcov
  obtain ⟨st2, e1, e2, e3⟩ := dispatch_cover (st.couriers pc).pc_queue_exp
    (queue_refs (st.couriers pc).pc_queue_nor)
    (st.setCourier pc { st.couriers pc with pc_queue_exp := [], pc_queue_nor := [] })
    (fun n hn => hint n (List.mem_append_left _ hn)) hcov
  obtain ⟨st3, f1, _, _⟩ := dispatch_cover (st.couriers pc).pc_queue_nor [] st2
    (fun n hn => by
      rw [(e2 n.hpn_sub).2]
      exact hint n (List.mem_append_right _ hn))
    (by simpa using e3)
  refine ⟨st3, ?_⟩
  unfold prop_courier_poll
  dsimp only
  rw [e1]
  dsimp only
  rw [f1]
  dsimp only
  rw [List.filter_append]
  congr 3
  apply List.filter_congr
  intro n _
  rw [(e2 n.hpn_sub).1]
  rfl

theorem emitted_of_log {st st' : State F} {L : List (Delivery F)}
    (h : st'.log = st.log ++ L) : emitted st st' = L := by
  unfold emitted
  rw [h, List.drop_left]

theorem enqueued_of_mem {f : SubFlags} {s : Nat} {exp : Bool} {L : List (Delivery F)}
    {n : prop_notify_t F} (h : n ∈ enqueued_of f s exp L) :
    n ∈ records_of s (queued_of L) ∧ n.hpn_sub = s := by
  unfold enqueued_of at h
  have h1 := (List.mem_filter.mp h).1
  refine ⟨h1, ?_⟩
  unfold records_of at h1
  simpa using (List.mem_filter.mp h1).2

/-- With PROP_SUB_EXPEDITE, or without PROP_SUB_TRACK_DESTROY_EXP, the records of a
  subscription all go to one queue. -/
theorem enqueued_of_one_queue (f : SubFlags) (s : Nat) (L : List (Delivery F))
    (hf : f.PROP_SUB_EXPEDITE = true ∨ f.PROP_SUB_TRACK_DESTROY_EXP = false) :
    enqueued_of f s true L ++ enqueued_of f s false L = records_of s (queued_of L) := by
  unfold enqueued_of
  by_cases he : f.PROP_SUB_EXPEDITE = true
  · have h1 : (records_of s (queued_of L)).filter (fun n => f.expedited n.hpn_event == true)
        = records_of s (queued_of L) := by
      rw [List.filter_eq_self]
      intro n _
      simp [SubFlags.expedited, he]
    have h2 : (records_of s (queued_of L)).filter (fun n => f.expedited n.hpn_event == false)
        = [] := by
      rw [List.filter_eq_nil_iff]
      intro n _
      simp [SubFlags.expedited, he]
    rw [h1, h2, List.append_nil]
  · have ht : f.PROP_SUB_TRACK_DESTROY_EXP = false := by
      rcases hf with h | h
      · exact absurd h he
      · exact h
    have he2 : f.PROP_SUB_EXPEDITE = false := by simpa using he
    have h1 : (records_of s (queued_of L)).filter (fun n => f.expedited n.hpn_event == true)
        = [] := by
      rw [List.filter_eq_nil_iff]
      intro n _
      simp [SubFlags.expedited, he2, ht]
    have h2 : (records_of s (queued_of L)).filter (fun n => f.expedited n.hpn_event == false)
        = records_of s (queued_of L) := by
      rw [List.filter_eq_self]
      intro n _
      simp [SubFlags.expedited, he2, ht]
    rw [h1, h2, List.nil_append]

/-- The callbacks of subscription s among the records a poll invokes. -/
theorem records_of_live (s : Nat) (st : State F) (X : List (prop_notify_t F))
    (hx : ∀ n ∈ records_of s X, n.hpn_event ≠ .PROP_SET_STRING) :
    records_of s (X.filter fun n =>
        !(st.subs n.hpn_sub).hps_zombie && decide (n.hpn_event ≠ .PROP_SET_STRING))
      = if (st.subs s).hps_zombie then [] else records_of s X := by
  have hc : records_of s (X.filter fun n =>
        !(st.subs n.hpn_sub).hps_zombie && decide (n.hpn_event ≠ .PROP_SET_STRING))
      = (records_of s X).filter fun n =>
        !(st.subs n.hpn_sub).hps_zombie && decide (n.hpn_event ≠ .PROP_SET_STRING) := by
    unfold records_of
    rw [List.filter_filter, List.filter_filter]
    apply List.filter_congr
    intro n _
    rw [Bool.and_comm]
  rw [hc]
  have hsub : ∀ n ∈ records_of s X, n.hpn_sub = s := by
    intro n hn
    unfold records_of at hn
    simpa using (List.mem_filter.mp hn).2
  split
  · next hz =>
    rw [List.filter_eq_nil_iff]
    intro n hn
    rw [hsub n hn, hz]
    simp
  · next hz =>
    rw [List.filter_eq_self]
    intro n hn
    rw [hsub n hn]
    have := hx n hn
    simp [hz, this]

/-- C28 (as stated): subscription 0 of `ex_track` has PROP_SUB_TRACK_DESTROY_EXP and not
  PROP_SUB_EXPEDITE. After prop_set_int(root, 5) and prop_destroy(root) its records were
  enqueued in the order PROP_SET_INT, PROP_DESTROYED, PROP_SET_VOID, and the poll of its
  courier invokes PROP_DESTROYED first: prop_notify_destroyed puts the record in the
  expedited queue, which the poll dispatches before the normal one. And after
  prop_set_int(root, 5) and prop_unsubscribe the record of PROP_SET_INT is enqueued and the
  poll invokes no callback of the subscription. -/
theorem destroyed_overtakes_set_int :
    (records_of 0 (queued_of (emitted ex_track ex_track_mutated))).map (fun n => n.hpn_event)
        = [.PROP_SET_INT, .PROP_DESTROYED, .PROP_SET_VOID] ∧
      called_events (prop_courier_poll ex_track_mutated 0)
        = some [(0, .PROP_DESTROYED), (0, .PROP_SET_INT), (0, .PROP_SET_VOID)] ∧
      (records_of 0 (queued_of (emitted ex_track ex_track_unsub))).map (fun n => n.hpn_event)
        = [.PROP_SET_INT] ∧
      called_events (prop_courier_poll ex_track_unsub 0) = some [] := by
  decide

/-- C28 (amended): let s be a subscription of the store st0 with none of its records in the
  queues of its courier, and let a sequence of calls of the interface return the store st,
  in which no record in the two queues of the courier belongs to a subscription with
  PROP_SUB_INTERNAL and the nodes hold the references these records give back. Then
  prop_courier_poll of the courier returns, and the callbacks of s it invokes are: none
  when s has been unsubscribed; otherwise the records enqueued for s during the calls,
  those of the expedited queue first and then those of the normal queue, each in the order
  enqueued. A record goes to the expedited queue when s has PROP_SUB_EXPEDITE, and a record
  of PROP_DESTROYED also when s has PROP_SUB_TRACK_DESTROY_EXP. So with PROP_SUB_EXPEDITE,
  or without PROP_SUB_TRACK_DESTROY_EXP, the callbacks of a subscription that is not
  unsubscribed are invoked in exactly the order in which its records were enqueued. -/
theorem poll_order_follows_queues [CFloat F] (calls : List (api_call F)) (st0 st : State F)
    (s : Nat) (hs : s < st0.nsubs) (hc : (st0.subs s).hps_courier < st0.ncouriers)
    (he : records_of s (st0.couriers (st0.subs s).hps_courier).pc_queue_exp = [])
    (hn : records_of s (st0.couriers (st0.subs s).hps_courier).pc_queue_nor = [])
    (hrun : run_api calls st0 = .ok st)
    (hint : ∀ n ∈ (st.couriers (st0.subs s).hps_courier).pc_queue_exp
        ++ (st.couriers (st0.subs s).hps_courier).pc_queue_nor,
      (st.subs n.hpn_sub).hps_flags.PROP_SUB_INTERNAL = false)
    (hcov : RefsHeld st ((st.couriers (st0.subs s).hps_courier).pc_queue_exp
        ++ (st.couriers (st0.subs s).hps_courier).pc_queue_nor)) :
    ∃ st' called, prop_courier_poll st (st0.subs s).hps_courier = .ok (st', called) ∧
      records_of s called
        = (if (st.subs s).hps_zombie then []
          else enqueued_of (st0.subs s).hps_flags s true (emitted st0 st)
            ++ enqueued_of (st0.subs s).hps_flags s false (emitted st0 st)) ∧
      ((st0.subs s).hps_flags.PROP_SUB_EXPEDITE = true
          ∨ (st0.subs s).hps_flags.PROP_SUB_TRACK_DESTROY_EXP = false →
        records_of s called
          = if (st.subs s).hps_zombie then []
            else records_of s (queued_of (emitted st0 st))) := by
  obtain ⟨_, _, hq⟩ := sq_of_run_api s calls st0 st hrun
  obtain ⟨_, _, L, hL, hss, hqe, hqn⟩ := hq hs hc
  rw [he, List.nil_append] at hqe
  rw [hn, List.nil_append] at hqn
  obtain ⟨st', hp⟩ := courier_poll_total st (st0.subs s).hps_courier hint hcov
  have hrec : records_of s ((st.couriers (st0.subs s).hps_courier).pc_queue_exp
        ++ (st.couriers (st0.subs s).hps_courier).pc_queue_nor)
      = enqueued_of (st0.subs s).hps_flags s true L
        ++ enqueued_of (st0.subs s).hps_flags s false L := by
    unfold records_of at hqe hqn ⊢
    rw [List.filter_append, hqe, hqn]
  have hmain := records_of_live s st
    ((st.couriers (st0.subs s).hps_courier).pc_queue_exp
      ++ (st.couriers (st0.subs s).hps_courier).pc_queue_nor) (by
      rw [hrec]
      intro n hm
      rcases List.mem_append.mp hm with hm | hm
      · exact hss n (enqueued_of_mem hm).1
      · exact hss n (enqueued_of_mem hm).1)
  rw [hrec] at hmain
  rw [emitted_of_log hL]
  refine ⟨st', _, hp, hmain, ?_⟩
  intro hf
  rw [hmain, enqueued_of_one_queue _ s L hf]

theorem poll_order_follows_queues_witness :
    ∃ st' called, prop_courier_poll ex_track_mutated (ex_track.subs 0).hps_courier
        = .ok (st', called) ∧
      records_of 0 called
        = (if (ex_track_mutated.subs 0).hps_zombie then []
          else enqueued_of (ex_track.subs 0).hps_flags 0 true (emitted ex_track ex_track_mutated)
            ++ enqueued_of (ex_track.subs 0).hps_flags 0 false
              (emitted ex_track ex_track_mutated)) ∧
      ((ex_track.subs 0).hps_flags.PROP_SUB_EXPEDITE = true
          ∨ (ex_track.subs 0).hps_flags.PROP_SUB_TRACK_DESTROY_EXP = false →
        records_of 0 called
          = if (ex_track_mutated.subs 0).hps_zombie then []
            else records_of 0 (queued_of (emitted ex_track ex_track_mutated))) :=
  poll_order_follows_queues ex_track_mutations ex_track ex_track_mutated 0
    (by decide) (by decide) (by decide) (by decide)
    (eq_ok_state_after (run_api ex_track_mutations ex_track) (by decide))
    (by decide) (by unfold RefsHeld Held; decide)

/-! ## C36: calls on a zombie -/

/-- C36 (amended): on a zombie node p each of the setters and adders (prop_set_string_ex,
  prop_set_rstring_ex, prop_set_cstring_ex, prop_set_link_ex, prop_set_int_ex,
  prop_set_float_ex, prop_add_int_ex, prop_add_float_ex, prop_toggle_int_ex,
  prop_set_void_ex, the two clipping-range setters), prop_setv_ex, prop_link_ex with p as
  source or as destination and a node other than p at the other end, prop_unlink_ex,
  prop_select_ex and prop_destroy returns the store it was given: no field of any node,
  subscription or courier changes and the log of deliveries gains no record. And
  prop_create_ex with a NULL or zombie parent returns NULL and the store it was given. -/
theorem zombie_calls_are_noops [CFloat F] (st : State F) (p : Nat)
    (hz : (st.nodes p).hp_type = .PROP_ZOMBIE) :
    (∀ (c : setter_call F) (skipme : Option Nat), c.run st p skipme = .ok st) ∧
      (∀ (skipme : Option Nat) (names : List String) (arg : seti_arg),
        prop_setv_ex st skipme (some p) names arg = .ok st) ∧
      (∀ (fuel q : Nat) (skipme : Option Nat) (hard : prop_link_hard), q ≠ p →
        prop_link_ex fuel st p q skipme hard = .ok st ∧
        prop_link_ex fuel st q p skipme hard = .ok st) ∧
      (∀ (fuel : Nat) (skipme : Option Nat), prop_unlink_ex fuel st (some p) skipme = .ok st) ∧
      (∀ (extra skipme : Option Nat), prop_select_ex st p extra skipme = .ok st) ∧
      (∀ (fuel : Nat), prop_destroy (fuel + 1) st (some p) = .ok st) ∧
      (∀ (name : Option String) (skipme : Option Nat) (noalloc incref : Bool),
        prop_create_ex st (some p) name skipme noalloc incref = .ok (st, none) ∧
        prop_create_ex st none name skipme noalloc incref = .ok (st, none)) := by
  have hu : (st.nodes p).u = .PROP_ZOMBIE := by
    unfold prop_t.hp_type at hz
    cases h : (st.nodes p).u <;> rw [h] at hz <;> first | rfl | cases hz
  refine ⟨?_, ?_, ?_, ?_, ?_, ?_, ?_⟩
  · intro c skipme
    cases c <;>
      simp [setter_call.run, prop_set_string_ex, prop_set_string_exl, prop_set_rstring_ex,
        prop_set_rstring_exl, prop_set_cstring_ex, prop_set_link_ex, prop_set_int_ex,
        prop_set_int_exl, prop_set_float_ex, prop_get_float, prop_set_void_ex,
        prop_set_void_exl, prop_toggle_int_ex, prop_add_int_ex, prop_add_float_ex,
        prop_set_int_clipping_range, prop_set_float_clipping_range, prop_int_head, prop_clean,
        hz, hu]
  · intro skipme names arg
    simp [prop_setv_ex, hz]
  · intro fuel q skipme hard hq
    constructor
    · simp [prop_link_ex, prop_link0, hz, Ne.symm hq]
    · simp [prop_link_ex, prop_link0, hz, hq]
  · intro fuel skipme
    simp [prop_unlink_ex, hz]
  · intro extra skipme
    simp [prop_select_ex, hz]
  · intro fuel
    simp [prop_destroy, prop_destroy0, hz]
  · intro name skipme noalloc incref
    constructor
    · simp [prop_create_ex, hz]
    · simp [prop_create_ex]

theorem zombie_calls_are_noops_witness :
    (ex_track_mutated.nodes 0).hp_type = .PROP_ZOMBIE ∧
      (∀ (c : setter_call SmallFloat) (skipme : Option Nat),
        c.run ex_track_mutated 0 skipme = .ok ex_track_mutated) ∧
      (∀ (fuel : Nat), prop_destroy (fuel + 1) ex_track_mutated (some 0)
        = .ok ex_track_mutated) :=
  ⟨by decide, (zombie_calls_are_noops ex_track_mutated 0 (by decide)).1,
    (zombie_calls_are_noops ex_track_mutated 0 (by decide)).2.2.2.2.2.1⟩

/-! ## C39: records for subscriptions with PROP_SUB_INTERNAL -/

/-- C39 (failing input): the store `ex_internal_monitor` is reached by calls that return: a
  root with the subscription 0, which has PROP_SUB_INTERNAL and
  PROP_SUB_SUBSCRIPTION_MONITOR. A further prop_subscribe on the root, by a subscription
  without PROP_SUB_SUBSCRIPTION_MONITOR, runs prop_send_subscription_monitor_active, which
  calls get_notify for subscription 0 without the test of PROP_SUB_INTERNAL that
  prop_send_event makes: the assertion of get_notify fails. -/
theorem monitor_active_asserts_on_internal :
    returned (run_api ex_internal_monitor_calls State.empty) = true ∧
      (ex_internal_monitor.subs 0).hps_flags.PROP_SUB_INTERNAL = true ∧
      fault_of (get_notify ex_internal_monitor 0) = some .assert ∧
      fault_of (prop_send_subscription_monitor_active
        (ex_internal_monitor.nodes 0).hp_value_subscriptions ex_internal_monitor)
          = some .assert ∧
      fault_of (prop_subscribe ex_internal_monitor
        { flags := { PROP_SUB_NO_INITIAL_UPDATE := true }
          callback := some 1, proproots := [{ p := 0, name := none }] }) = some .assert := by
  decide

/-! ## C37: the references of a record, taken and given back -/

/-- C37 (failing input): in `ex_unselect_held` node 1 holds two references and the queues
  are empty. prop_unselect_ex(root, NULL) builds one record of PROP_SELECT_CHILD for the
  subscription 0 and takes no reference: node 1 still holds two. The field hpn_prop2 of
  the record is what the block held, node 1, since prop_build_notify_child does not assign
  it. The next poll invokes the callback for that one record, returns, and has released
  hpn_prop2: node 1 is left with one reference. Building and consuming the record took a
  reference from node 1 that no one acquired. -/
theorem unselect_record_unbalanced :
    (ex_unselect_held.couriers 0).pc_queue_nor = [] ∧
      (ex_unselect_held.couriers 0).pc_queue_exp = [] ∧
      (ex_unselect_held.nodes 1).hp_refcount = 2 ∧
      fault_of (prop_unselect_ex_in (some 1) ex_unselect_held 0 none) = none ∧
      (ex_unselect_held_built.nodes 1).hp_refcount = 2 ∧
      (ex_unselect_held_built.couriers 0).pc_queue_nor =
        [{ hpn_sub := 0, hpn_event := .PROP_SELECT_CHILD, u := .p none,
           hpn_prop2 := some 1 }] ∧
      called_events (prop_courier_poll ex_unselect_held_built 0)
        = some [(0, .PROP_SELECT_CHILD)] ∧
      (ex_unselect_held_consumed.nodes 1).hp_refcount = 1 := by
  decide

/-! ## C32: the handle prop_subscribe returns -/

/-- The flags of the new subscription when the last test of prop_subscribe reads them are
  those of the call. -/
theorem subscribe_flags_at_end {st3 st4 st5 st6 : State F} {s : Nat}
    {canonical value : Option Nat} {b direct notify_now : Bool}
    (h4 : subscribe_canonical st3 s canonical = .ok (st4, b))
    (h5 : subscribe_value st4 s value direct notify_now = .ok st5)
    (h6 : SameTree st5 st6) :
    (st6.subs s).hps_flags = (st3.subs s).hps_flags := by
  have e4 := (tame_of_subscribe_canonical h4).flags s
  rw [attach_canonical_subs] at e4
  have e5 := (tame_of_subscribe_value h5).flags s
  rw [attach_value_subs] at e5
  rw [h6.hps_flags s, e5, e4]

/-- C32 (amended): let the path of a call of prop_subscribe resolve (to the canonical node
  c0 and the value node v0, either may be NULL) in the store st1, which is the store of the
  call when no name is given. When PROP_SUB_SINGLETON is set and a subscription with the
  callback and opaque pointer of the call is on the value list of the value node, the call
  returns NULL and the store st1: no subscription is allocated or put on a list, no courier
  changes and no record is delivered. And a call that returns, returns NULL exactly in that
  case and in one more: the subscription is direct (PROP_SUB_DIRECT_UPDATE or
  PROP_SUB_INTERNAL), tracks destruction and its canonical node is NULL or a zombie; then
  the callback was invoked with PROP_DESTROYED and the handle set to NULL. In every other
  case the handle returned is the new subscription. -/
theorem subscribe_null_handle (st st1 : State F) (a : subscribe_args) (c0 v0 : Option Nat)
    (hres : subscribe_resolve st a = .ok (st1, c0, v0)) :
    (a.collides st1 v0 = true → prop_subscribe st a = .ok (st1, none)) ∧
      (a.name = none → st1 = st) ∧
      ∀ st' r, prop_subscribe st a = .ok (st', r) →
        (r = none ↔ (a.collides st1 v0 = true ∨ a.destroyed_now st1 c0 = true)) ∧
        (r ≠ none → r = some st1.nsubs) := by
  refine ⟨?_, ?_, ?_⟩
  · intro hc
    unfold subscribe_args.collides at hc
    rw [Bool.and_eq_true] at hc
    obtain ⟨hs, hv⟩ := hc
    cases v0 with
    | none => cases hv
    | some v =>
      dsimp only at hv
      unfold prop_subscribe
      simp only [hres, hs, if_true, hv]
  · intro hn
    unfold subscribe_resolve at hres
    rw [hn] at hres
    dsimp only at hres
    split at hres <;> cases hres <;> rfl
  · intro st' r h
    unfold prop_subscribe at h
    simp only [hres] at h
    split at h
    · cases h
    · next hsing =>
      -- the singleton test found a subscription
      cases h
      have hc : a.collides st1 v0 = true := by
        unfold subscribe_args.collides
        split at hsing
        · next hs =>
          split at hsing
          · cases hsing
          · next v =>
            rw [hs, Bool.true_and]
            exact (Except.ok.inj hsing)
        · cases hsing
      exact ⟨⟨fun _ => Or.inl hc, fun _ => rfl⟩, fun hne => absurd rfl hne⟩
    · next hsing =>
      have hnc : ¬ a.collides st1 v0 = true := by
        unfold subscribe_args.collides
        split at hsing
        · next hs =>
          split at hsing
          · cases hsing
          · next v =>
            rw [hs, Bool.true_and]
            try dsimp only
            rw [Except.ok.inj hsing]
            exact Bool.false_ne_true
        · next hs =>
          rw [Bool.and_eq_true]
          exact fun hh => hs hh.1
      split at h
      · cases h
      · next st4 act h4 =>
        split at h
        · cases h
        · next st5 h5 =>
          split at h
          · cases h
          · next st6 h6 =>
            have hsame : SameTree st5 st6 := by
              split at h6
              · split at h6
                · exact sameTree_of_monitor_active _ _ _ h6
                · cases h6; exact SameTree.st_refl _
              · cases h6; exact SameTree.st_refl _
            have hfl := subscribe_flags_at_end h4 h5 hsame
            simp only [State.setCourier, if_true] at hfl
            rw [hfl] at h
            have horph : ((c0.bind fun c => if (st1.nodes c).hp_type = .PROP_ZOMBIE then none
                  else some c) = none) = (subscribe_args.orphan st1 c0 = true) := by
              unfold subscribe_args.orphan
              cases c0 with
              | none => simp
              | some c => by_cases hz : (st1.nodes c).hp_type = .PROP_ZOMBIE <;> simp [hz]
            by_cases hd : a.destroyed_now st1 c0 = true
            · have hd' := hd
              unfold subscribe_args.destroyed_now at hd'
              rw [Bool.and_eq_true, Bool.and_eq_true] at hd'
              obtain ⟨⟨hdir, htr⟩, horp⟩ := hd'
              have hcn := horph.mpr horp
              rw [hcn] at h
              simp only [decide_True, Bool.true_and, htr, if_true, hdir] at h
              cases h
              exact ⟨⟨fun _ => Or.inr hd, fun _ => rfl⟩, fun hne => absurd rfl hne⟩
            · have hr : r = some st1.nsubs := by
                split at h
                · split at h
                  · next hcond hdir =>
                    exfalso
                    apply hd
                    unfold subscribe_args.destroyed_now
                    rw [Bool.and_eq_true] at hcond
                    rw [Bool.and_eq_true, Bool.and_eq_true]
                    refine ⟨⟨hdir, hcond.2⟩, horph.mp ?_⟩
                    simpa using hcond.1
                  · split at h
                    · cases h
                    · cases h; rfl
                · cases h; rfl
              rw [hr]
              refine ⟨⟨fun e => Option.noConfusion e, fun e => ?_⟩, fun _ => rfl⟩
              rcases e with e | e
              · exact absurd e hnc
              · exact absurd e hd

/-- C32 (as stated): in `ex_root_courier` no subscription exists. The call of
  `ex_orphan_args` has no PROP_SUB_SINGLETON, is direct, tracks destruction and names no
  node: prop_subscribe invokes the callback with PROP_DESTROYED and returns NULL, after it
  allocated the subscription 0 and attached it to the courier. -/
theorem subscribe_null_without_singleton :
    ex_orphan_args.flags.PROP_SUB_SINGLETON = false ∧
      ex_root_courier.nsubs = 0 ∧
      (ex_root_courier.couriers 0).pc_refcount = 0 ∧
      handle_of (prop_subscribe ex_root_courier ex_orphan_args) = some none ∧
      ex_orphan.nsubs = 1 ∧
      (ex_orphan.couriers 0).pc_refcount = 1 ∧
      ex_orphan.log.map Delivery.key = [(true, 0, .PROP_DESTROYED, none)] := by
  decide

theorem subscribe_null_handle_witness :
    ex_single_args.collides ex_single (some 0) = true ∧
      prop_subscribe ex_single ex_single_args = .ok (ex_single, none) :=
  ⟨by decide,
    (subscribe_null_handle ex_single ex_single ex_single_args (some 0) (some 0) rfl).1
      (by decide)⟩

/-! ## C33: the record of PROP_DESTROYED that prop_subscribe delivers -/

theorem NoDestroyed.nd_refl (st : State F) : NoDestroyed st st :=
  ⟨[], by simp, fun _ h => by cases h⟩

theorem NoDestroyed.nd_trans {a b c : State F} (h1 : NoDestroyed a b) (h2 : NoDestroyed b c) :
    NoDestroyed a c := by
  obtain ⟨L1, e1, p1⟩ := h1
  obtain ⟨L2, e2, p2⟩ := h2
  refine ⟨L1 ++ L2, by rw [e2, e1, List.append_assoc], ?_⟩
  intro d hd
  rcases List.mem_append.mp hd with hd | hd
  · exact p1 d hd
  · exact p2 d hd

theorem NoDestroyed.nd_of_log {a b : State F} (h : b.log = a.log) : NoDestroyed a b :=
  ⟨[], by simp [h], fun _ h => by cases h⟩

theorem NoDestroyed.of_one {a b : State F} (d : Delivery F) (h : b.log = a.log ++ [d])
    (hd : d.n.hpn_event ≠ .PROP_DESTROYED) : NoDestroyed a b :=
  ⟨[d], h, fun x hx => by rw [List.mem_singleton] at hx; rw [hx]; exact hd⟩

theorem value_args_not_destroyed {u : prop_value F} {how : Int} {ev : prop_event_t}
    {a : notify_u F} :
    (direct_value_args u how = .ok (ev, a) → ev ≠ .PROP_DESTROYED) ∧
      (queued_value_args u how = .ok (ev, a) → ev ≠ .PROP_DESTROYED) := by
  constructor <;> intro h e <;> subst e <;>
    cases u <;> simp [direct_value_args, queued_value_args] at h

theorem nd_of_build_notify_value {st st' : State F} {s p : Nat} {direct : Bool}
    {pnq' : Option (List (prop_notify_t F))} {how : Int}
    (h : prop_build_notify_value st s direct p none how = .ok (st', pnq')) :
    NoDestroyed st st' := by
  unfold prop_build_notify_value at h
  split at h
  · split at h
    · cases h
    · next ev a hv =>
      cases h
      exact NoDestroyed.of_one
          (.direct { hpn_sub := s, hpn_event := ev, u := a, hpn_prop2 := some p })
          rfl (value_args_not_destroyed.1 hv)
  · split at h
    · cases h
    · next st1 hg =>
      dsimp only at h
      split at h
      · cases h
      · next ev a hv =>
        cases h
        refine NoDestroyed.of_one
            (.queued { hpn_sub := s, hpn_event := ev, u := a, hpn_prop2 := some p })
            ?_ (value_args_not_destroyed.2 hv)
        rw [courier_enqueue_log]
        show st1.log ++ _ = st.log ++ _
        rw [get_notify_log hg]

theorem nd_of_build_notify_child {st st' : State F} {s : Nat} {p : Option Nat}
    {event : prop_event_t} {direct : Bool} {flags : Int}
    (h : prop_build_notify_child st s p event direct flags = .ok st')
    (hev : event ≠ .PROP_DESTROYED) : NoDestroyed st st' := by
  unfold prop_build_notify_child at h
  split at h
  · cases h
    exact NoDestroyed.of_one
        (.direct { hpn_sub := s, hpn_event := event, u := .p p, hpn_flags := flags })
        rfl hev
  · split at h
    · cases h
    · next st1 hg =>
      cases h
      refine NoDestroyed.of_one
          (.queued { hpn_sub := s, hpn_event := event, u := .p p, hpn_flags := flags })
          ?_ hev
      rw [courier_enqueue_log]
      cases p <;> (show st1.log ++ _ = st.log ++ _) <;> rw [get_notify_log hg]

theorem nd_of_build_notify_childv {st st' : State F} {s : Nat} {pv : List Nat}
    {event : prop_event_t} {p2 : Option Nat} {direct : Bool}
    (h : prop_build_notify_childv st s pv event p2 direct = .ok st')
    (hev : event ≠ .PROP_DESTROYED) : NoDestroyed st st' := by
  unfold prop_build_notify_childv at h
  split at h
  · cases h
    exact NoDestroyed.of_one
        (.direct { hpn_sub := s, hpn_event := event, u := .pv pv, hpn_prop2 := p2 })
        rfl hev
  · split at h
    · cases h
    · next st1 hg =>
      cases h
      refine NoDestroyed.of_one
          (.queued { hpn_sub := s, hpn_event := event, u := .pv pv, hpn_prop2 := p2, hpn_flags := 0 })
          ?_ hev
      rw [courier_enqueue_log]
      cases p2 <;> (show st1.log ++ _ = st.log ++ _) <;> rw [get_notify_log hg]

theorem nd_of_subscribe_add_childs (s value : Nat) (direct : Bool) :
    ∀ (l : List Nat) (st st' : State F),
      subscribe_add_childs s value direct l st = .ok st' → NoDestroyed st st' := by
  intro l
  induction l with
  | nil => intro st st' h; cases h; exact NoDestroyed.nd_refl _
  | cons c rest ih =>
    intro st st' h
    unfold subscribe_add_childs at h
    split at h
    · cases h
    · next st1 h1 =>
      exact (nd_of_build_notify_child h1 (by decide)).nd_trans (ih _ _ h)

theorem nd_of_monitor_active : ∀ (l : List Nat) (st st' : State F),
    prop_send_subscription_monitor_active l st = .ok st' → NoDestroyed st st' := by
  intro l
  induction l with
  | nil => intro st st' h; cases h; exact NoDestroyed.nd_refl _
  | cons s rest ih =>
    intro st st' h
    unfold prop_send_subscription_monitor_active at h
    split at h
    · split at h
      · cases h
      · next st1 hg =>
        refine NoDestroyed.nd_trans ?_ (ih _ _ h)
        refine NoDestroyed.of_one
            (.queued ({ hpn_sub := s, hpn_event := .PROP_SUBSCRIPTION_MONITOR_ACTIVE }
              : prop_notify_t F))
            ?_ (fun e => prop_event_t.noConfusion e)
        rw [courier_enqueue_log, get_notify_log hg]
    · exact ih _ _ h

theorem nd_of_subscribe_value {st st' : State F} {s : Nat} {value : Option Nat}
    {direct notify_now : Bool} (h : subscribe_value st s value direct notify_now = .ok st') :
    NoDestroyed st st' := by
  unfold subscribe_value at h
  split at h
  · cases h; exact NoDestroyed.nd_refl _
  · next v =>
    dsimp only at h
    have h1 : NoDestroyed st (st.setNode v { st.nodes v with
        hp_value_subscriptions := s :: (st.nodes v).hp_value_subscriptions }) :=
      NoDestroyed.nd_of_log rfl
    generalize st.setNode v { st.nodes v with
        hp_value_subscriptions := s :: (st.nodes v).hp_value_subscriptions } = st1 at h h1
    split at h
    · cases h
    · next st3 hu =>
      have h3 : NoDestroyed st1 st3 := by
        split at hu
        · split at hu
          · cases hu
          · next st2 pq hb =>
            have hb' := nd_of_build_notify_value hb
            split at hu
            · split at hu
              · exact hb'.nd_trans (nd_of_build_notify_childv hu (by decide))
              · exact hb'.nd_trans (nd_of_subscribe_add_childs _ _ _ _ _ _ hu)
            · cases hu; exact hb'
        · cases hu; exact NoDestroyed.nd_refl _
      split at h
      · exact h1.nd_trans (h3.nd_trans (nd_of_monitor_active _ _ _ h))
      · cases h; exact h1.nd_trans h3

theorem orphan_bind (st : State F) (c0 : Option Nat) :
    ((c0.bind fun c => if (st.nodes c).hp_type = .PROP_ZOMBIE then none else some c) = none)
      = (subscribe_args.orphan st c0 = true) := by
  unfold subscribe_args.orphan
  cases c0 with
  | none => simp
  | some c => by_cases hz : (st.nodes c).hp_type = .PROP_ZOMBIE <;> simp [hz]

theorem destroyed_of_quiet {L : List (Delivery F)} (s : Nat)
    (h : ∀ d ∈ L, d.n.hpn_event ≠ .PROP_DESTROYED) : destroyed_of s L = [] := by
  unfold destroyed_of
  rw [List.filter_eq_nil_iff]
  intro d hd
  simp [h d hd]

/-- The function prop_notify_destroyed for a subscription without PROP_SUB_INTERNAL: the
  record is appended to the expedited queue of the courier of s when s has
  PROP_SUB_EXPEDITE or PROP_SUB_TRACK_DESTROY_EXP, else to the normal queue. -/
theorem notify_destroyed_queue (st6 : State F) (s : Nat)
    (hi : (st6.subs s).hps_flags.PROP_SUB_INTERNAL = false) :
    ∃ st', prop_notify_destroyed st6 s = .ok st' ∧
      st'.log = st6.log ++ [.queued (destroyed_record s)] ∧
      (if (st6.subs s).hps_flags.PROP_SUB_EXPEDITE
          || (st6.subs s).hps_flags.PROP_SUB_TRACK_DESTROY_EXP
        then (st'.couriers (st'.subs s).hps_courier).pc_queue_exp
        else (st'.couriers (st'.subs s).hps_courier).pc_queue_nor).getLast?
        = some (destroyed_record s) := by
  have hg : get_notify st6 s = .ok (st6.setSub s
      { st6.subs s with hps_refcount := (st6.subs s).hps_refcount + 1 }) := by
    simp [get_notify, hi]
  refine ⟨courier_notify
      (queue_insert_tail (st6.setSub s
        { st6.subs s with hps_refcount := (st6.subs s).hps_refcount + 1 })
        (st6.subs s).hps_courier
        ((st6.subs s).hps_flags.PROP_SUB_EXPEDITE
          || (st6.subs s).hps_flags.PROP_SUB_TRACK_DESTROY_EXP) (destroyed_record s))
      (st6.subs s).hps_courier, ?_, ?_, ?_⟩
  · unfold prop_notify_destroyed
    simp [hi, hg, destroyed_record]
  · simp only [courier_notify_log, queue_insert_tail]
    congr 1
    split <;> rfl
  · have hs : ((courier_notify
        (queue_insert_tail (st6.setSub s
          { st6.subs s with hps_refcount := (st6.subs s).hps_refcount + 1 })
          (st6.subs s).hps_courier
          ((st6.subs s).hps_flags.PROP_SUB_EXPEDITE
            || (st6.subs s).hps_flags.PROP_SUB_TRACK_DESTROY_EXP) (destroyed_record s))
        (st6.subs s).hps_courier).subs s).hps_courier = (st6.subs s).hps_courier := by
      rw [(sameTree_courier_notify _ _).hps_courier,
        (sameTree_queue_insert_tail _ _ _ _).hps_courier]
      simp
    rw [hs, (courier_notify_queues _ _ _).1, (courier_notify_queues _ _ _).2]
    cases he : ((st6.subs s).hps_flags.PROP_SUB_EXPEDITE
        || (st6.subs s).hps_flags.PROP_SUB_TRACK_DESTROY_EXP) <;>
      simp [queue_insert_tail, State.setCourier]

/-- C33 (amended): let the path of a call of prop_subscribe with PROP_SUB_TRACK_DESTROY or
  PROP_SUB_TRACK_DESTROY_EXP, and without PROP_SUB_SINGLETON, resolve to no canonical node:
  c0 is NULL or a zombie, because no root has the name, the path runs into a node that
  holds a value, or the node is destroyed (a missing child of a directory or void node is
  no such case: prop_subfind creates it). Then a call that returns has delivered exactly one
  PROP_DESTROYED to the new subscription: inline when the subscription is direct
  (PROP_SUB_DIRECT_UPDATE or PROP_SUB_INTERNAL), else as the last record of the expedited
  queue of its courier when it has PROP_SUB_EXPEDITE or PROP_SUB_TRACK_DESTROY_EXP and of
  the normal queue otherwise. And the call returns when there is no live value node
  either. -/
theorem subscribe_orphan_destroyed (st st1 : State F) (a : subscribe_args) (c0 v0 : Option Nat)
    (hres : subscribe_resolve st a = .ok (st1, c0, v0))
    (horph : subscribe_args.orphan st1 c0 = true)
    (htrack : (a.flags.PROP_SUB_TRACK_DESTROY || a.flags.PROP_SUB_TRACK_DESTROY_EXP) = true)
    (hsing : a.flags.PROP_SUB_SINGLETON = false) :
    (subscribe_args.orphan st1 v0 = true → ∃ st' r, prop_subscribe st a = .ok (st', r)) ∧
      ∀ st' r, prop_subscribe st a = .ok (st', r) →
        destroyed_of st1.nsubs (emitted st1 st')
          = [if a.flags.PROP_SUB_DIRECT_UPDATE || a.flags.PROP_SUB_INTERNAL
              then .direct (destroyed_record st1.nsubs)
              else .queued (destroyed_record st1.nsubs)] ∧
        ((a.flags.PROP_SUB_DIRECT_UPDATE || a.flags.PROP_SUB_INTERNAL) = false →
          (if a.flags.PROP_SUB_EXPEDITE || a.flags.PROP_SUB_TRACK_DESTROY_EXP
            then (st'.couriers (st'.subs st1.nsubs).hps_courier).pc_queue_exp
            else (st'.couriers (st'.subs st1.nsubs).hps_courier).pc_queue_nor).getLast?
            = some (destroyed_record st1.nsubs)) := by
  have hcn := (orphan_bind st1 c0).mpr horph
  -- what a returning call has done
  have hmain : ∀ st' r, prop_subscribe st a = .ok (st', r) →
      ∃ L, (∀ d ∈ L, d.n.hpn_event ≠ .PROP_DESTROYED) ∧
        st'.log = st1.log ++ L ++
          [if a.flags.PROP_SUB_DIRECT_UPDATE || a.flags.PROP_SUB_INTERNAL
            then .direct (destroyed_record st1.nsubs)
            else .queued (destroyed_record st1.nsubs)] ∧
        ((a.flags.PROP_SUB_DIRECT_UPDATE || a.flags.PROP_SUB_INTERNAL) = false →
          (if a.flags.PROP_SUB_EXPEDITE || a.flags.PROP_SUB_TRACK_DESTROY_EXP
            then (st'.couriers (st'.subs st1.nsubs).hps_courier).pc_queue_exp
            else (st'.couriers (st'.subs st1.nsubs).hps_courier).pc_queue_nor).getLast?
            = some (destroyed_record st1.nsubs)) := by
    intro st' r h
    unfold prop_subscribe at h
    simp only [hres] at h
    split at h
    · cases h
    · next hs => simp [hsing] at hs
    · split at h
      · cases h
      · next st4 act h4 =>
        rw [hcn] at h4
        cases h4
        split at h
        · cases h
        · next st5 h5 =>
          split at h
          · cases h
          · next st6 h6 =>
            rw [hcn] at h6
            cases h6
            obtain ⟨L, hL, hq⟩ := nd_of_subscribe_value h5
            have hfl := (tame_of_subscribe_value h5).flags st1.nsubs
            rw [attach_value_subs] at hfl
            simp only [State.setCourier, if_true] at hfl
            rw [hfl, hcn] at h
            simp only [decide_True, Bool.true_and, htrack, if_true] at h
            refine ⟨L, hq, ?_⟩
            cases hdir : (a.flags.PROP_SUB_DIRECT_UPDATE || a.flags.PROP_SUB_INTERNAL) with
            | true =>
              rw [hdir] at h
              simp only [if_true] at h
              cases h
              refine ⟨?_, fun e => by cases e⟩
              simp only [if_true]
              show st5.log ++ _ = _
              rw [hL]
              rfl
            | false =>
              rw [hdir] at h
              simp only [Bool.false_eq_true, if_false] at h
              have hint : (st5.subs st1.nsubs).hps_flags.PROP_SUB_INTERNAL = false := by
                rw [hfl]
                rw [Bool.or_eq_false_iff] at hdir
                exact hdir.2
              obtain ⟨st7, e7, l7, q7⟩ := notify_destroyed_queue st5 st1.nsubs hint
              rw [e7] at h
              cases h
              refine ⟨?_, fun _ => ?_⟩
              · simp only [Bool.false_eq_true, if_false]
                rw [l7, hL]
                rfl
              · rw [hfl] at q7
                exact q7
  constructor
  · intro hv
    have hvn := (orphan_bind st1 v0).mpr hv
    unfold prop_subscribe
    simp only [hres, hsing, Bool.false_eq_true, if_false, hcn, hvn, subscribe_canonical,
      subscribe_value, Bool.true_and, decide_True, htrack, if_true]
    have key : ∀ (X : State F), ∃ st' r,
        (match prop_notify_destroyed X st1.nsubs with
          | .error e => .error e
          | .ok st7 => .ok (st7, some st1.nsubs) : Except Fault (State F × Option Nat))
          = .ok (st', r) := by
      intro X
      obtain ⟨st7, e7, _⟩ := notify_destroyed_ok X st1.nsubs
      exact ⟨st7, _, by rw [e7]⟩
    split
    · split
      · exact ⟨_, _, rfl⟩
      · exact key _
    · exact ⟨_, _, rfl⟩
  · intro st' r h
    obtain ⟨L, hq, hl, hqu⟩ := hmain st' r h
    refine ⟨?_, hqu⟩
    rw [List.append_assoc] at hl
    rw [emitted_of_log hl]
    unfold destroyed_of
    rw [List.filter_append]
    have e1 := destroyed_of_quiet st1.nsubs hq
    unfold destroyed_of at e1
    rw [e1, List.nil_append]
    cases (a.flags.PROP_SUB_DIRECT_UPDATE || a.flags.PROP_SUB_INTERNAL) <;>
      simp [destroyed_record, Delivery.n]

/-- C33 (as stated): in `ex_root_courier` the root 0, given as the named root x, is a void
  node without children. The queued subscription of `ex_path_args` to the path x.y tracks
  destruction: prop_subfind makes the root a directory and creates the child y (node 1), the
  subscription 0 gets y as its canonical node, and no PROP_DESTROYED is delivered to it. -/
theorem subscribe_creates_missing_child :
    (ex_root_courier.nodes 0).hp_type = .PROP_VOID ∧
      ex_root_courier.nnodes = 1 ∧
      ex_path_args.flags.PROP_SUB_TRACK_DESTROY = true ∧
      handle_of (prop_subscribe ex_root_courier ex_path_args) = some (some 0) ∧
      (ex_path.nodes 0).hp_childs = [1] ∧
      (ex_path.nodes 1).hp_name = some "y" ∧
      (ex_path.subs 0).hps_canonical_prop = some 1 ∧
      destroyed_of 0 (emitted ex_root_courier ex_path) = [] := by
  decide

theorem subscribe_orphan_destroyed_witness :
    subscribe_args.orphan ex_root_courier none = true ∧
      (∃ st' r, prop_subscribe ex_root_courier ex_lost_args = .ok (st', r)) ∧
      destroyed_of 0 (emitted ex_root_courier ex_lost) = [.queued (destroyed_record 0)] :=
  ⟨by decide,
    (subscribe_orphan_destroyed ex_root_courier ex_root_courier ex_lost_args none none rfl
      (by decide) (by decide) (by decide)).1 (by decide),
    ((subscribe_orphan_destroyed ex_root_courier ex_root_courier ex_lost_args none none rfl
      (by decide) (by decide) (by decide)).2 ex_lost (some 0) rfl).1⟩

/-! ## C34: the first report of a subscription to a directory -/

/-- The function prop_subscribe after the path is resolved and the test of
  PROP_SUB_SINGLETON has found nothing. -/
theorem subscribe_eq_tail {st st1 : State F} {a : subscribe_args} {c0 v0 : Option Nat}
    (hres : subscribe_resolve st a = .ok (st1, c0, v0))
    (hcol : a.collides st1 v0 = false)
    (hv : a.flags.PROP_SUB_SINGLETON = true → v0 ≠ none) :
    prop_subscribe st a
      = subscribe_tail
          (subscribe_alloc st1 a
            (c0.bind fun c => if (st1.nodes c).hp_type = .PROP_ZOMBIE then none else some c)
            (v0.bind fun v => if (st1.nodes v).hp_type = .PROP_ZOMBIE then none else some v))
          st1.nsubs
          (c0.bind fun c => if (st1.nodes c).hp_type = .PROP_ZOMBIE then none else some c)
          (v0.bind fun v => if (st1.nodes v).hp_type = .PROP_ZOMBIE then none else some v)
          (a.flags.PROP_SUB_DIRECT_UPDATE || a.flags.PROP_SUB_INTERNAL)
          (!a.flags.PROP_SUB_NO_INITIAL_UPDATE) := by
  unfold prop_subscribe
  simp only [hres]
  cases hs : a.flags.PROP_SUB_SINGLETON with
  | false =>
    simp only [Bool.false_eq_true, if_false]
    rfl
  | true =>
    cases v0 with
    | none => exact absurd rfl (hv hs)
    | some v =>
      unfold subscribe_args.collides at hcol
      rw [hs, Bool.true_and] at hcol
      dsimp only at hcol
      simp only [if_true, hcol]
      rfl

/-- The function prop_send_subscription_monitor_active returns when no subscription with
  PROP_SUB_SUBSCRIPTION_MONITOR on the list has PROP_SUB_INTERNAL; every delivery is a
  queued record of PROP_SUBSCRIPTION_MONITOR_ACTIVE for a subscription with that flag. -/
theorem monitor_active_to : ∀ (l : List Nat) (st : State F),
    (∀ t ∈ l, (st.subs t).hps_flags.PROP_SUB_SUBSCRIPTION_MONITOR = true →
      (st.subs t).hps_flags.PROP_SUB_INTERNAL = false) →
    ∃ (st' : State F) (M : List (prop_notify_t F)),
      prop_send_subscription_monitor_active l st = .ok st' ∧ SameTree st st' ∧
      st'.log = st.log ++ M.map Delivery.queued ∧
      ∀ n ∈ M, n.hpn_event = .PROP_SUBSCRIPTION_MONITOR_ACTIVE ∧
        (st.subs n.hpn_sub).hps_flags.PROP_SUB_SUBSCRIPTION_MONITOR = true := by
  intro l
  induction l with
  | nil => intro st _; exact ⟨st, [], rfl, SameTree.st_refl _, by simp, by simp⟩
  | cons t rest ih =>
    intro st h
    unfold prop_send_subscription_monitor_active
    by_cases hm : (st.subs t).hps_flags.PROP_SUB_SUBSCRIPTION_MONITOR = true
    · have hi := h t (List.mem_cons_self _ _) hm
      have hg : get_notify st t = .ok (st.setSub t
          { st.subs t with hps_refcount := (st.subs t).hps_refcount + 1 }) := by
        simp [get_notify, hi]
      have hs1 := sameTree_get_notify hg
      rw [if_pos hm, hg]
      dsimp only
      have hs2 := hs1.st_trans (sameTree_courier_enqueue
        (st.setSub t { st.subs t with hps_refcount := (st.subs t).hps_refcount + 1 }) t
        { hpn_sub := t, hpn_event := .PROP_SUBSCRIPTION_MONITOR_ACTIVE })
      obtain ⟨st', M, e1, e2, e3, e4⟩ := ih _ (fun x hx hxm => by
        rw [hs2.hps_flags x] at hxm ⊢
        exact h x (List.mem_cons_of_mem _ hx) hxm)
      refine ⟨st', ({ hpn_sub := t, hpn_event := .PROP_SUBSCRIPTION_MONITOR_ACTIVE }
        : prop_notify_t F) :: M, e1, hs2.st_trans e2, ?_, ?_⟩
      · rw [e3]
        simp
      · intro n hn
        rcases List.mem_cons.1 hn with e | hn
        · subst e; exact ⟨rfl, hm⟩
        · have := e4 n hn
          rw [hs2.hps_flags] at this
          exact this
    · rw [if_neg hm]
      exact ih st (fun x hx => h x (List.mem_cons_of_mem _ hx))

theorem gen_add_flags_sameTree {a b : State F} (h : SameTree a b) (k d : Nat) :
    gen_add_flags b k d = gen_add_flags a k d := by
  unfold gen_add_flags prop_t.hp_selected
  rw [h.u d]

/-- The loop of prop_subscribe over the children of a directory, for a subscription that is
  not internal: one queued record of PROP_ADD_CHILD per child, in list order. -/
theorem subscribe_add_childs_ok (s d : Nat) : ∀ (l : List Nat) (st : State F),
    (st.subs s).hps_flags.PROP_SUB_INTERNAL = false →
    ∃ st', subscribe_add_childs s d false l st = .ok st' ∧ SameTree st st' ∧
      st'.log = st.log ++ (l.map (add_child_record st s d)).map Delivery.queued := by
  intro l
  induction l with
  | nil => intro st _; exact ⟨st, rfl, SameTree.st_refl _, by simp⟩
  | cons k rest ih =>
    intro st hi
    obtain ⟨st1, e1, s1, l1⟩ := build_notify_child_ok st s (some k) .PROP_ADD_CHILD
      (gen_add_flags st k d)
    obtain ⟨st', e2, s2, l2⟩ := ih st1 (by rw [s1.hps_flags]; exact hi)
    refine ⟨st', ?_, s1.st_trans s2, ?_⟩
    · unfold subscribe_add_childs
      rw [e1]
      exact e2
    · rw [l2, l1]
      have e : (fun k => add_child_record st1 s d k) = fun k => add_child_record st s d k := by
        funext k
        unfold add_child_record
        rw [gen_add_flags_sameTree s1]
      have e' : add_child_record st1 s d = add_child_record st s d := e
      rw [e']
      simp [child_record, hi, add_child_record, List.append_assoc]

/-- The part of prop_subscribe on the canonical node for a subscription without
  PROP_SUB_MULTI: it returns, and changes flags of the canonical node at most. -/
theorem subscribe_canonical_plain (st3 : State F) (s : Nat) (canonical : Option Nat)
    (hm : (st3.subs s).hps_flags.PROP_SUB_MULTI = false) :
    ∃ st4 act, subscribe_canonical st3 s canonical = .ok (st4, act) ∧
      st4.subs = st3.subs ∧ st4.log = st3.log ∧ st4.couriers = st3.couriers ∧
      (∀ q, (st4.nodes q).u = (st3.nodes q).u ∧
        (st4.nodes q).hp_value_subscriptions = (st3.nodes q).hp_value_subscriptions) ∧
      (act = true → (st3.subs s).hps_flags.PROP_SUB_SUBSCRIPTION_MONITOR = true) := by
  cases canonical with
  | none => exact ⟨st3, false, rfl, rfl, rfl, rfl, fun _ => ⟨rfl, rfl⟩, fun e => by cases e⟩
  | some c =>
    unfold subscribe_canonical
    dsimp only
    by_cases hmon : ((st3.subs s).hps_flags.PROP_SUB_SUBSCRIPTION_MONITOR
        && !(st3.nodes c).hp_flags.PROP_MONITORED) = true
    · simp only [setNode_subs, setNode_nodes, if_true, hmon, hm, Bool.false_eq_true, if_false]
      refine ⟨_, _, rfl, rfl, rfl, rfl, ?_, ?_⟩
      · intro q
        by_cases e : q = c
        · subst e; simp
        · simp [e]
      · intro _
        rw [Bool.and_eq_true] at hmon
        exact hmon.1
    · simp only [setNode_subs, setNode_nodes, if_true, hmon, hm, Bool.false_eq_true, if_false,
        Bool.false_and]
      refine ⟨_, _, rfl, rfl, rfl, rfl, ?_, ?_⟩
      · intro q
        by_cases e : q = c
        · subst e; simp
        · simp [e]
      · intro h
        cases h

theorem value_record_dir (st : State F) (s d : Nat)
    (hi : (st.subs s).hps_flags.PROP_SUB_INTERNAL = false)
    (hd : (st.nodes d).hp_type = .PROP_DIR) :
    value_record st s d 0 = [.queued (dir_record s d)] := by
  unfold value_record dir_record
  unfold prop_t.hp_type at hd
  cases hu : (st.nodes d).u <;> rw [hu] at hd <;>
    first
    | (simp only [hi, queued_value_args, Bool.false_eq_true, if_false]; done)
    | cases hd

/-- The part of prop_subscribe on the value node, for a queued subscription without
  PROP_SUB_MULTI to a directory with a first report: it returns and has delivered to s the
  record of PROP_SET_DIR and one record of PROP_ADD_CHILD per child, in list order; a
  record of PROP_SUBSCRIPTION_MONITOR_ACTIVE goes to other subscriptions only. -/
theorem subscribe_value_dir (st4 : State F) (s d : Nat)
    (hi : (st4.subs s).hps_flags.PROP_SUB_INTERNAL = false)
    (hm : (st4.subs s).hps_flags.PROP_SUB_MULTI = false)
    (hd : (st4.nodes d).hp_type = .PROP_DIR)
    (hmon : ∀ t ∈ (st4.nodes d).hp_value_subscriptions,
      (st4.subs t).hps_flags.PROP_SUB_SUBSCRIPTION_MONITOR = true →
      (st4.subs t).hps_flags.PROP_SUB_INTERNAL = false) :
    ∃ (st5 : State F) (M : List (prop_notify_t F)),
      subscribe_value st4 s (some d) false true = .ok st5 ∧
      SameTree (st4.setNode d { st4.nodes d with
        hp_value_subscriptions := s :: (st4.nodes d).hp_value_subscriptions }) st5 ∧
      st5.log = st4.log ++ ((dir_record s d
        :: (st4.nodes d).hp_childs.map (add_child_record st4 s d)) ++ M).map Delivery.queued ∧
      ∀ n ∈ M, n.hpn_event = .PROP_SUBSCRIPTION_MONITOR_ACTIVE ∧ n.hpn_sub ≠ s := by
  unfold subscribe_value
  dsimp only
  generalize hst1 : st4.setNode d { st4.nodes d with
    hp_value_subscriptions := s :: (st4.nodes d).hp_value_subscriptions } = st1
  have h1s : st1.subs = st4.subs := by rw [← hst1]; rfl
  have h1l : st1.log = st4.log := by rw [← hst1]; rfl
  have h1u : ∀ q, (st1.nodes q).u = (st4.nodes q).u := by
    intro q
    rw [← hst1]
    by_cases e : q = d
    · subst e; simp
    · simp [e]
  have h1t : (st1.nodes d).hp_type = .PROP_DIR := by
    unfold prop_t.hp_type at hd ⊢
    rw [h1u]
    exact hd
  obtain ⟨st2, e2, s2, l2, _⟩ := build_value_ok st1 s d 0 none (by rw [h1t]; decide)
  rw [value_record_dir st1 s d (by rw [h1s]; exact hi) h1t] at l2
  simp only [if_true, e2]
  have h2t : (st2.nodes d).hp_type = .PROP_DIR := by rw [s2.hp_type]; exact h1t
  have h2m : (st2.subs s).hps_flags.PROP_SUB_MULTI = false := by
    rw [s2.hps_flags, h1s]; exact hm
  have h2i : (st2.subs s).hps_flags.PROP_SUB_INTERNAL = false := by
    rw [s2.hps_flags, h1s]; exact hi
  simp only [h2t, h2m, decide_True, Bool.not_false, Bool.and_true, if_true, Bool.and_false,
    Bool.false_eq_true, if_false]
  obtain ⟨st3, e3, s3, l3⟩ := subscribe_add_childs_ok s d (st2.nodes d).hp_childs st2 h2i
  rw [e3]
  dsimp only
  have hch : (st2.nodes d).hp_childs = (st4.nodes d).hp_childs := by
    rw [s2.hp_childs]
    unfold prop_t.hp_childs
    rw [h1u]
  have hrec : add_child_record st2 s d = add_child_record st4 s d := by
    funext k
    unfold add_child_record gen_add_flags prop_t.hp_selected
    rw [s2.u, h1u]
  have s13 := s2.st_trans s3
  by_cases hcond : (!(st3.subs s).hps_flags.PROP_SUB_SUBSCRIPTION_MONITOR
      && (st3.nodes d).hp_flags.PROP_MONITORED) = true
  · rw [if_pos hcond]
    obtain ⟨st5, M, e5, s5, l5, m5⟩ := monitor_active_to
      (st3.nodes d).hp_value_subscriptions st3 (by
        intro t ht
        rw [s13.hp_value_subscriptions, ← hst1] at ht
        simp only [setNode_nodes, if_true, List.mem_cons] at ht
        rw [s13.hps_flags, h1s]
        rcases ht with e | ht
        · subst e; exact fun _ => hi
        · exact hmon t ht)
    refine ⟨st5, M, e5, s13.st_trans s5, ?_, ?_⟩
    · rw [l5, l3, l2, h1l, hch, hrec]
      simp [List.append_assoc]
    · intro n hn
      refine ⟨(m5 n hn).1, fun e => ?_⟩
      have := (m5 n hn).2
      rw [e] at this
      rw [Bool.and_eq_true] at hcond
      simp [this] at hcond
  · rw [if_neg hcond]
    refine ⟨st3, [], rfl, s13, ?_, by simp⟩
    rw [l3, l2, h1l, hch, hrec]
    simp [List.append_assoc]

theorem subscribe_alloc_facts (st1 : State F) (a : subscribe_args) (canonical value : Option Nat) :
    (subscribe_alloc st1 a canonical value).nodes = st1.nodes ∧
      (subscribe_alloc st1 a canonical value).log = st1.log ∧
      ((subscribe_alloc st1 a canonical value).subs st1.nsubs).hps_flags = a.flags ∧
      ∀ t, t ≠ st1.nsubs → (subscribe_alloc st1 a canonical value).subs t = st1.subs t := by
  unfold subscribe_alloc
  refine ⟨rfl, rfl, ?_, ?_⟩
  · simp
  · intro t ht
    simp [ht]

theorem deliveries_to_append (s : Nat) (L1 L2 : List (Delivery F)) :
    deliveries_to s (L1 ++ L2) = deliveries_to s L1 ++ deliveries_to s L2 := by
  unfold deliveries_to
  rw [List.filter_append]

theorem deliveries_to_all (s : Nat) (Q : List (prop_notify_t F))
    (h : ∀ n ∈ Q, n.hpn_sub = s) : deliveries_to s (Q.map Delivery.queued) = Q.map Delivery.queued := by
  unfold deliveries_to
  rw [List.filter_eq_self]
  intro d hd
  obtain ⟨n, hn, e⟩ := List.mem_map.mp hd
  subst e
  simp [Delivery.n, h n hn]

theorem deliveries_to_none (s : Nat) (Q : List (prop_notify_t F))
    (h : ∀ n ∈ Q, n.hpn_sub ≠ s) : deliveries_to s (Q.map Delivery.queued) = [] := by
  unfold deliveries_to
  rw [List.filter_eq_nil_iff]
  intro d hd
  obtain ⟨n, hn, e⟩ := List.mem_map.mp hd
  subst e
  simp [Delivery.n, h n hn]

theorem deliveries_to_queued (s : Nat) (Q : List (prop_notify_t F)) :
    deliveries_to s (Q.map Delivery.queued)
      = (Q.filter fun n => decide (n.hpn_sub = s)).map Delivery.queued := by
  unfold deliveries_to
  induction Q with
  | nil => rfl
  | cons n rest ih =>
    by_cases e : n.hpn_sub = s
    · simp [List.filter_cons, Delivery.n, e] at ih ⊢
      exact ih
    · simp [List.filter_cons, Delivery.n, e] at ih ⊢
      exact ih

/-- C34: prop_subscribe for a queued subscription (neither PROP_SUB_DIRECT_UPDATE nor
  PROP_SUB_INTERNAL) without PROP_SUB_MULTI and without PROP_SUB_NO_INITIAL_UPDATE, whose
  value node d is a directory with the children c1..cn in list order and whose canonical
  node is live, when the test of PROP_SUB_SINGLETON finds nothing and no subscription with
  PROP_SUB_SUBSCRIPTION_MONITOR on the value lists of d and of the canonical node has
  PROP_SUB_INTERNAL: the call returns the new subscription s, and the deliveries to s are
  queued records, in this order: one PROP_SET_DIR about d, then one PROP_ADD_CHILD per
  child with the payloads c1..cn, where the record of a child carries the flag
  PROP_ADD_SELECTED (1) exactly when that child is the selected child of d, and after them
  nothing but records of PROP_SUBSCRIPTION_MONITOR_ACTIVE, none at all when s has no
  PROP_SUB_SUBSCRIPTION_MONITOR. -/
theorem subscribe_directory_first_report (st st1 : State F) (a : subscribe_args) (c d : Nat)
    (hres : subscribe_resolve st a = .ok (st1, some c, some d))
    (hdir : (st1.nodes d).hp_type = .PROP_DIR)
    (hcz : (st1.nodes c).hp_type ≠ .PROP_ZOMBIE)
    (hq : a.flags.PROP_SUB_DIRECT_UPDATE = false) (hint : a.flags.PROP_SUB_INTERNAL = false)
    (hmulti : a.flags.PROP_SUB_MULTI = false)
    (hinit : a.flags.PROP_SUB_NO_INITIAL_UPDATE = false)
    (hcol : a.collides st1 (some d) = false)
    (hmon : ∀ t ∈ (st1.nodes d).hp_value_subscriptions ++ (st1.nodes c).hp_value_subscriptions,
      t ≠ st1.nsubs → (st1.subs t).hps_flags.PROP_SUB_SUBSCRIPTION_MONITOR = true →
      (st1.subs t).hps_flags.PROP_SUB_INTERNAL = false) :
    ∃ (st' : State F) (M : List (prop_notify_t F)),
      prop_subscribe st a = .ok (st', some st1.nsubs) ∧
      deliveries_to st1.nsubs (emitted st1 st')
        = ((dir_record st1.nsubs d
            :: (st1.nodes d).hp_childs.map (add_child_record st1 st1.nsubs d)) ++ M).map
          Delivery.queued ∧
      (∀ n ∈ M, n.hpn_event = .PROP_SUBSCRIPTION_MONITOR_ACTIVE) ∧
      (a.flags.PROP_SUB_SUBSCRIPTION_MONITOR = false → M = []) := by
  have hdz : (st1.nodes d).hp_type ≠ .PROP_ZOMBIE := by rw [hdir]; decide
  rw [subscribe_eq_tail hres hcol (fun _ => by simp)]
  simp only [Option.some_bind, if_neg hcz, if_neg hdz, hq, hint, hinit, Bool.or_false,
    Bool.not_false]
  obtain ⟨f1, f2, f3, f4⟩ := subscribe_alloc_facts st1 a (some c) (some d)
  generalize subscribe_alloc st1 a (some c) (some d) = st3 at f1 f2 f3 f4
  -- the flags of the subscriptions of st3 read by the senders
  have hmon3 : ∀ t ∈ (st1.nodes d).hp_value_subscriptions
        ++ (st1.nodes c).hp_value_subscriptions,
      (st3.subs t).hps_flags.PROP_SUB_SUBSCRIPTION_MONITOR = true →
      (st3.subs t).hps_flags.PROP_SUB_INTERNAL = false := by
    intro t ht
    by_cases e : t = st1.nsubs
    · subst e
      rw [f3]
      exact fun _ => hint
    · rw [f4 t e]
      exact hmon t ht e
  unfold subscribe_tail
  obtain ⟨st4, act, e4, s4, l4, _, n4, a4⟩ :=
    subscribe_canonical_plain st3 st1.nsubs (some c) (by rw [f3]; exact hmulti)
  rw [e4]
  dsimp only
  have h4t : (st4.nodes d).hp_type = .PROP_DIR := by
    unfold prop_t.hp_type at hdir ⊢
    rw [(n4 d).1, f1]
    exact hdir
  obtain ⟨st5, M, e5, s5, l5, m5⟩ := subscribe_value_dir st4 st1.nsubs d
    (by rw [s4, f3]; exact hint) (by rw [s4, f3]; exact hmulti) h4t (by
      intro t ht
      rw [(n4 d).2, f1] at ht
      rw [s4]
      exact hmon3 t (List.mem_append_left _ ht))
  rw [e5]
  dsimp only
  have hch : (st4.nodes d).hp_childs = (st1.nodes d).hp_childs := by
    unfold prop_t.hp_childs
    rw [(n4 d).1, f1]
  have hrec : add_child_record st4 st1.nsubs d = add_child_record st1 st1.nsubs d := by
    funext k
    unfold add_child_record gen_add_flags prop_t.hp_selected
    rw [(n4 d).1, f1]
  rw [hch, hrec, l4, f2] at l5
  have hself : ∀ n ∈ dir_record st1.nsubs d
      :: (st1.nodes d).hp_childs.map (add_child_record st1 st1.nsubs d),
      n.hpn_sub = st1.nsubs := by
    intro n hn
    rcases List.mem_cons.mp hn with e | hn
    · rw [e]; rfl
    · obtain ⟨k, _, e⟩ := List.mem_map.mp hn
      rw [← e]; rfl
  have hfirst : deliveries_to st1.nsubs (((dir_record st1.nsubs d
        :: (st1.nodes d).hp_childs.map (add_child_record st1 st1.nsubs d)) ++ M).map
        Delivery.queued)
      = (dir_record st1.nsubs d
        :: (st1.nodes d).hp_childs.map (add_child_record st1 st1.nsubs d)).map
          Delivery.queued := by
    rw [List.map_append, deliveries_to_append, deliveries_to_all _ _ hself,
      deliveries_to_none _ _ (fun n hn => (m5 n hn).2), List.append_nil]
  cases hact : act with
  | false =>
    simp only [Bool.false_eq_true, if_false, reduceCtorEq, Bool.false_and]
    refine ⟨st5, [], rfl, ?_, by simp, fun _ => rfl⟩
    rw [emitted_of_log l5, hfirst, List.append_nil]
  | true =>
    simp only [if_true]
    have hM : (st3.subs st1.nsubs).hps_flags.PROP_SUB_SUBSCRIPTION_MONITOR = true :=
      a4 hact
    obtain ⟨st6, M2, e6, s6, l6, m6⟩ := monitor_active_to
      (st5.nodes c).hp_value_subscriptions st5 (by
        intro t ht
        rw [s5.hps_flags, setNode_subs, s4]
        rw [s5.hp_value_subscriptions] at ht
        by_cases e : c = d
        · subst e
          simp only [setNode_nodes, if_true, List.mem_cons] at ht
          rcases ht with e | ht
          · subst e; rw [f3]; exact fun _ => hint
          · rw [(n4 c).2, f1] at ht
            exact hmon3 t (List.mem_append_left _ ht)
        · simp only [setNode_nodes, if_neg e] at ht
          rw [(n4 c).2, f1] at ht
          exact hmon3 t (List.mem_append_right _ ht))
    rw [e6]
    simp only [reduceCtorEq, Bool.false_and, Bool.false_eq_true, if_false]
    refine ⟨st6, M2.filter (fun n => decide (n.hpn_sub = st1.nsubs)), rfl, ?_, ?_, ?_⟩
    · have hl : st6.log = st1.log ++ (((dir_record st1.nsubs d
            :: (st1.nodes d).hp_childs.map (add_child_record st1 st1.nsubs d)) ++ M).map
            Delivery.queued ++ M2.map Delivery.queued) := by
        rw [l6, l5, List.append_assoc]
      rw [emitted_of_log hl, deliveries_to_append, hfirst, deliveries_to_queued,
        ← List.map_append]
    · intro n hn
      exact (m6 n (List.mem_filter.mp hn).1).1
    · intro hf
      rw [f3, hf] at hM
      cases hM

theorem subscribe_directory_first_report_witness :
    (ex_bcd.nodes 0).hp_childs = [1, 2, 3] ∧ (ex_bcd.nodes 0).hp_selected = some 2 ∧
      (dir_record ex_bcd.nsubs 0
          :: (ex_bcd.nodes 0).hp_childs.map (add_child_record ex_bcd ex_bcd.nsubs 0))
        = [{ hpn_sub := 0, hpn_event := .PROP_SET_DIR, hpn_prop2 := some 0 },
           { hpn_sub := 0, hpn_event := .PROP_ADD_CHILD, u := .p (some 1), hpn_flags := 0 },
           { hpn_sub := 0, hpn_event := .PROP_ADD_CHILD, u := .p (some 2), hpn_flags := 1 },
           { hpn_sub := 0, hpn_event := .PROP_ADD_CHILD, u := .p (some 3), hpn_flags := 0 }] ∧
      (ex_bcd_subscribed.couriers 0).pc_queue_nor
        = [{ hpn_sub := 0, hpn_event := .PROP_SET_DIR, hpn_prop2 := some 0 },
           { hpn_sub := 0, hpn_event := .PROP_ADD_CHILD, u := .p (some 1), hpn_flags := 0 },
           { hpn_sub := 0, hpn_event := .PROP_ADD_CHILD, u := .p (some 2), hpn_flags := 1 },
           { hpn_sub := 0, hpn_event := .PROP_ADD_CHILD, u := .p (some 3), hpn_flags := 0 }] ∧
      ∃ (st' : State SmallFloat) (M : List (prop_notify_t SmallFloat)),
        prop_subscribe ex_bcd ex_bcd_args = .ok (st', some ex_bcd.nsubs) ∧
        deliveries_to ex_bcd.nsubs (emitted ex_bcd st')
          = ((dir_record ex_bcd.nsubs 0
              :: (ex_bcd.nodes 0).hp_childs.map (add_child_record ex_bcd ex_bcd.nsubs 0))
              ++ M).map Delivery.queued ∧
        (∀ n ∈ M, n.hpn_event = .PROP_SUBSCRIPTION_MONITOR_ACTIVE) ∧
        (ex_bcd_args.flags.PROP_SUB_SUBSCRIPTION_MONITOR = false → M = []) :=
  ⟨by decide, by decide, by decide, by decide,
    subscribe_directory_first_report ex_bcd ex_bcd ex_bcd_args 0 0 rfl (by decide) (by decide)
      (by decide) (by decide) (by decide) (by decide) (by decide) (by decide)⟩

/-! ## C35: prop_move -/

theorem tailq_next_insert_before : ∀ (l : List Nat) (b p : Nat), b ∈ l → p ∉ l →
    tailq_next (tailq_insert_before l b p) p = some b := by
  intro l
  induction l with
  | nil => intro b p hb _; cases hb
  | cons c rest ih =>
    intro b p hb hp
    unfold tailq_insert_before
    by_cases e : c = b
    · rw [if_pos e]
      simp [tailq_next, e]
    · rw [if_neg e]
      have hcp : c ≠ p := fun h => hp (by rw [h]; exact List.mem_cons_self _ _)
      unfold tailq_next
      rw [if_neg hcp]
      apply ih
      · rcases List.mem_cons.mp hb with h | h
        · exact absurd h.symm e
        · exact h
      · exact fun h => hp (List.mem_cons_of_mem _ h)

theorem erase_insert_before : ∀ (l : List Nat) (b p : Nat), p ∉ l →
    (tailq_insert_before l b p).erase p = l := by
  intro l
  induction l with
  | nil => intro b p _; simp [tailq_insert_before]
  | cons c rest ih =>
    intro b p hp
    have hcp : c ≠ p := fun h => hp (by rw [h]; exact List.mem_cons_self _ _)
    unfold tailq_insert_before
    by_cases e : c = b
    · rw [if_pos e]
      simp
    · rw [if_neg e, List.erase_cons_tail (by simpa using hcp)]
      rw [ih b p (fun h => hp (List.mem_cons_of_mem _ h))]

theorem tailq_next_append_last : ∀ (l : List Nat) (p : Nat), p ∉ l →
    tailq_next (l ++ [p]) p = none := by
  intro l
  induction l with
  | nil => intro p _; simp [tailq_next]
  | cons c rest ih =>
    intro p hp
    have hcp : c ≠ p := fun h => hp (by rw [h]; exact List.mem_cons_self _ _)
    rw [List.cons_append]
    unfold tailq_next
    rw [if_neg hcp]
    exact ih p (fun h => hp (List.mem_cons_of_mem _ h))

theorem erase_append_last (l : List Nat) (p : Nat) (hp : p ∉ l) : (l ++ [p]).erase p = l := by
  rw [List.erase_append_right _ hp]
  simp

/-- The function prop_notify_child2 returns, and delivers one record per subscription of
  the list other than skipme, in list order. -/
theorem notify_child2_log (child : Nat) (sibling : Option Nat) (event : prop_event_t)
    (skipme : Option Nat) (flags : Int) :
    ∀ (l : List Nat) (st : State F),
      ∃ st', prop_notify_child2 child sibling event skipme flags l st = .ok st' ∧
        SameTree st st' ∧
        st'.log = st.log ++ (l.filter fun s => some s ≠ skipme).map fun s =>
          if (st.subs s).hps_flags.PROP_SUB_INTERNAL then
            Delivery.direct { hpn_sub := s, hpn_event := event, u := .p (some child),
                              hpn_prop2 := sibling, hpn_flags := flags }
          else
            Delivery.queued { hpn_sub := s, hpn_event := event, u := .p (some child),
                              hpn_prop2 := sibling, hpn_flags := flags } := by
  intro l
  induction l with
  | nil => intro st; exact ⟨st, rfl, SameTree.st_refl st, by simp⟩
  | cons s rest ih =>
    intro st
    by_cases hs : some s = skipme
    · obtain ⟨st', h1, h2, h3⟩ := ih st
      refine ⟨st', by simp [prop_notify_child2, hs, h1], h2, ?_⟩
      simpa [hs] using h3
    · have hb : ∃ st1, prop_build_notify_child2 st s child sibling event false flags = .ok st1 ∧
          SameTree st st1 ∧
          st1.log = st.log ++ [if (st.subs s).hps_flags.PROP_SUB_INTERNAL then
            Delivery.direct { hpn_sub := s, hpn_event := event, u := .p (some child),
                              hpn_prop2 := sibling, hpn_flags := flags }
          else
            Delivery.queued { hpn_sub := s, hpn_event := event, u := .p (some child),
                              hpn_prop2 := sibling, hpn_flags := flags }] := by
        unfold prop_build_notify_child2
        by_cases hi : (st.subs s).hps_flags.PROP_SUB_INTERNAL = true
        · simp only [hi, Bool.or_true, if_true]
          exact ⟨_, rfl, sameTree_call_direct _ _, rfl⟩
        · have hg : get_notify st s = .ok (st.setSub s
              { st.subs s with hps_refcount := (st.subs s).hps_refcount + 1 }) := by
            simp [get_notify, hi]
          have hst := sameTree_get_notify hg
          simp only [hi, Bool.or_false, Bool.false_eq_true, if_false, hg]
          cases sibling with
          | none =>
            exact ⟨_, rfl, (hst.st_trans (sameTree_ref_inc _ child)).st_trans
              (sameTree_courier_enqueue _ _ _), by simp [prop_ref_inc]⟩
          | some q =>
            exact ⟨_, rfl, ((hst.st_trans (sameTree_ref_inc _ child)).st_trans
              (sameTree_ref_inc _ q)).st_trans (sameTree_courier_enqueue _ _ _),
              by simp [prop_ref_inc]⟩
      obtain ⟨st1, e1, s1, l1⟩ := hb
      obtain ⟨st', h1, h2, h3⟩ := ih st1
      refine ⟨st', by simp [prop_notify_child2, hs, e1, h1], s1.st_trans h2, ?_⟩
      rw [h3, l1]
      simp [hs, s1.hps_flags, List.append_assoc]

theorem setChilds_of_mem (st : State F) (d p : Nat) (cs : List Nat)
    (h : p ∈ (st.nodes d).hp_childs) :
    ((st.setChilds d cs).nodes d).hp_childs = cs ∧
      ((st.setChilds d cs).nodes d).hp_value_subscriptions
        = (st.nodes d).hp_value_subscriptions := by
  unfold prop_t.hp_childs at h
  unfold State.setChilds
  cases hu : (st.nodes d).u <;> rw [hu] at h <;>
    first
    | (simp [State.setU, prop_t.hp_childs]; done)
    | cases h

/-- C35 (amended): let p be a child of the directory d, on its child list, which holds no
  node twice, and let `before` be NULL or another child of d on that list. When p is
  already followed by `before` (p is last when `before` is NULL), prop_move(p, before)
  returns the store it was given: the child list is unchanged and no record is delivered.
  Otherwise it returns and p is followed by `before` (p is last when `before` is NULL), the
  list without p is what it was without p, so that the other children keep their order and
  none is lost, and the deliveries made are one record of PROP_MOVE_CHILD about p and
  `before` per subscription on the value list of d, in list order. -/
theorem move_places_child (st : State F) (p d : Nat) (before : Option Nat)
    (hpar : (st.nodes p).hp_parent = some d)
    (hmem : p ∈ (st.nodes d).hp_childs)
    (hnd : (st.nodes d).hp_childs.Nodup)
    (hb : ∀ b, before = some b →
      b ≠ p ∧ (st.nodes b).hp_parent = some d ∧ b ∈ (st.nodes d).hp_childs) :
    (tailq_next (st.nodes d).hp_childs p = before → prop_move st p before = .ok st) ∧
      (tailq_next (st.nodes d).hp_childs p ≠ before →
        ∃ st', prop_move st p before = .ok st' ∧
          tailq_next (st'.nodes d).hp_childs p = before ∧
          (st'.nodes d).hp_childs.erase p = (st.nodes d).hp_childs.erase p ∧
          (st'.nodes d).hp_childs.Perm (st.nodes d).hp_childs ∧
          emitted st st' = (st.nodes d).hp_value_subscriptions.map fun s =>
            move_record st s p before) := by
  have hne : before ≠ some p := fun e => (hb p e).1 rfl
  have hsame : (before.any fun b =>
      decide ((st.nodes p).hp_parent ≠ (st.nodes b).hp_parent)) = false := by
    cases before with
    | none => rfl
    | some b =>
      have := (hb b rfl).2.1
      simp [hpar, this]
  have hperase : p ∉ (st.nodes d).hp_childs.erase p := fun h =>
    (List.Nodup.mem_erase_iff hnd).mp h |>.1 rfl
  constructor
  · intro hn
    unfold prop_move prop_move0
    rw [if_neg hne, hsame]
    simp only [Bool.false_eq_true, if_false, hpar, hn, ne_eq, not_true_eq_false]
  · intro hn
    unfold prop_move prop_move0
    rw [if_neg hne, hsame]
    simp only [Bool.false_eq_true, if_false, hpar, ne_eq, hn,
      not_false_eq_true, if_true, tailq_remove, if_pos hmem]
    obtain ⟨cs', hcs⟩ : ∃ cs', (match before with
      | some b => tailq_insert_before ((st.nodes d).hp_childs.erase p) b p
      | none => (st.nodes d).hp_childs.erase p ++ [p]) = cs' := ⟨_, rfl⟩
    obtain ⟨c1, c2⟩ := setChilds_of_mem st d p cs' hmem
    obtain ⟨st', e1, s1, l1⟩ := notify_child2_log p before .PROP_MOVE_CHILD none 0
      ((st.setChilds d cs').nodes d).hp_value_subscriptions (st.setChilds d cs')
    refine ⟨st', ?_, ?_, ?_, ?_, ?_⟩
    · rw [← hcs] at e1
      cases before <;> exact e1
    · rw [s1.hp_childs, c1, ← hcs]
      cases before with
      | none => exact tailq_next_append_last _ _ hperase
      | some b =>
        exact tailq_next_insert_before _ _ _
          ((List.mem_erase_of_ne (hb b rfl).1).mpr (hb b rfl).2.2) hperase
    · rw [s1.hp_childs, c1, ← hcs]
      cases before with
      | none => exact erase_append_last _ _ hperase
      | some b => exact erase_insert_before _ _ _ hperase
    · rw [s1.hp_childs, c1, ← hcs]
      cases before with
      | none =>
        exact (List.perm_append_comm).trans (List.perm_cons_erase hmem).symm
      | some b =>
        exact (tailq_insert_before_perm _ _ _).trans (List.perm_cons_erase hmem).symm
    · rw [c2, setChilds_log, setChilds_subs] at l1
      rw [emitted_of_log l1]
      simp [move_record]

/-- C35 (as stated): in `ex_bcd` the node c (2) is a child of the root, and
  prop_move(c, c) does not return: the call stops at `assert(p != before)`. -/
theorem move_before_itself_asserts :
    (ex_bcd.nodes 2).hp_parent = some 0 ∧ (ex_bcd.nodes 0).hp_childs = [1, 2, 3] ∧
      fault_of (prop_move ex_bcd 2 (some 2)) = some .assert := by
  decide

theorem move_places_child_witness :
    (ex_bcd_subscribed.nodes 3).hp_parent = some 0 ∧
      (ex_bcd_subscribed.nodes 0).hp_childs = [1, 2, 3] ∧
      (ex_bcd_subscribed.nodes 0).hp_value_subscriptions = [0] ∧
      ∃ st', prop_move ex_bcd_subscribed 3 (some 1) = .ok st' ∧
        tailq_next (st'.nodes 0).hp_childs 3 = some 1 ∧
        (st'.nodes 0).hp_childs.erase 3 = (ex_bcd_subscribed.nodes 0).hp_childs.erase 3 ∧
        (st'.nodes 0).hp_childs.Perm (ex_bcd_subscribed.nodes 0).hp_childs ∧
        emitted ex_bcd_subscribed st'
          = (ex_bcd_subscribed.nodes 0).hp_value_subscriptions.map fun s =>
            move_record ex_bcd_subscribed s 3 (some 1) :=
  ⟨by decide, by decide, by decide,
    (move_places_child ex_bcd_subscribed 3 0 (some 1) (by decide) (by decide) (by decide)
      (fun b e => by cases e; decide)).2 (by decide)⟩

/-! ## C31: the lock order of prop_notify_dispatch -/

theorem locks_run_append (strict : Bool) : ∀ (A B : List lock_op) (held : Option Nat × Bool),
    locks_run strict held (A ++ B) = (locks_run strict held A).bind fun h => locks_run strict h B := by
  intro A
  induction A with
  | nil => intro B held; simp [locks_run]
  | cons a A ih =>
    intro B held
    obtain ⟨o, t⟩ := held
    cases a <;> cases o <;> cases t <;> simp only [List.cons_append, locks_run, ih] <;>
      first
      | rfl
      | (split <;> first | rfl | exact ih _ _)
      | exact ih _ _

theorem ref_dec_locks_run (st : State F) (p : Option Nat) (o : Option Nat) :
    locks_run false (o, false) (ref_dec_locks st p) = some (o, false) := by
  unfold ref_dec_locks
  cases p with
  | none => simp [locks_run]
  | some q =>
    dsimp only
    split
    · simp [locks_run]
    · cases o <;> simp [locks_run]

theorem dispatch_release_locks_run (st : State F) (n : prop_notify_t F) (o : Option Nat) :
    locks_run false (o, false) (dispatch_release_locks st n) = some (o, false) := by
  unfold dispatch_release_locks
  dsimp only
  split
  all_goals first
    | exact ref_dec_locks_run _ _ _
    | (rw [locks_run_append, ref_dec_locks_run]
       simp only [Option.bind]
       split
       · simp [locks_run]
       · exact ref_dec_locks_run _ _ _)
    | simp [locks_run]

theorem dispatch_loop_locks_returns (hps_lock : Nat → Option Nat) :
    ∀ (q : List (prop_notify_t F)) (st st' : State F) (kept : List (prop_notify_t F)),
      dispatch_loop q st = .ok (st', kept) → ∃ T, dispatch_loop_locks hps_lock q st = .ok T := by
  intro q
  induction q with
  | nil => intro st st' kept _; exact ⟨[], rfl⟩
  | cons n rest ih =>
    intro st st' kept h
    unfold dispatch_loop at h
    unfold dispatch_loop_locks
    split at h
    · cases h
    · next hi =>
      rw [if_neg hi]
      dsimp only
      split at h
      · next hz =>
        rw [if_pos hz]
        split at h
        · cases h
        · next st1 h1 =>
          try rw [h1]
          try dsimp only
          obtain ⟨T, hT⟩ := ih _ _ _ h
          rw [hT]
          exact ⟨_, rfl⟩
      · next hz =>
        rw [if_neg hz]
        split at h
        · cases h
        · next st1 h1 =>
          try rw [h1]
          try dsimp only
          split at h
          · cases h
          · next st2 called h2 =>
            obtain ⟨T, hT⟩ := ih _ _ _ h2
            rw [hT]
            exact ⟨_, rfl⟩

theorem dispatch_loop_locks_run (hps_lock : Nat → Option Nat) :
    ∀ (q : List (prop_notify_t F)) (st : State F) (T : List lock_op),
      dispatch_loop_locks hps_lock q st = .ok T →
        locks_run false (none, false) T = some (none, false) := by
  intro q
  induction q with
  | nil => intro st T h; cases h; rfl
  | cons n rest ih =>
    intro st T h
    unfold dispatch_loop_locks at h
    split at h
    · cases h
    · dsimp only at h
      split at h
      · split at h
        · cases h
        · next st1 h1 =>
          split at h
          · cases h
          · next T1 hT =>
            cases h
            rw [locks_run_append]
            have hb : locks_run false (none, false)
                ((match hps_lock n.hpn_sub with
                  | some l => [lock_op.observer_lock l]
                  | none => []) ++ [lock_op.tree_lock, lock_op.tree_unlock] ++
                  (match hps_lock n.hpn_sub with
                  | some l => [lock_op.observer_unlock l]
                  | none => [])) = some (none, false) := by
              cases hps_lock n.hpn_sub <;> simp [locks_run]
            rw [hb]
            exact ih _ _ hT
      · split at h
        · cases h
        · next st1 h1 =>
          split at h
          · cases h
          · next T1 hT =>
            cases h
            rw [locks_run_append]
            have hb : locks_run false (none, false)
                ((match hps_lock n.hpn_sub with
                  | some l => [lock_op.observer_lock l]
                  | none => []) ++ dispatch_release_locks st n ++
                  (match hps_lock n.hpn_sub with
                  | some l => [lock_op.observer_unlock l]
                  | none => [])) = some (none, false) := by
              rw [locks_run_append, locks_run_append]
              cases hps_lock n.hpn_sub
              · simp only [locks_run, Option.bind, dispatch_release_locks_run]
              · simp only [locks_run, Option.bind, dispatch_release_locks_run, if_pos]
            rw [hb]
            exact ih _ _ hT

theorem ref_dec_locks_quiet (st : State F) (p : Option Nat)
    (h : ∀ q, p = some q → 1 < (st.nodes q).hp_refcount) : ref_dec_locks st p = [] := by
  unfold ref_dec_locks
  cases p with
  | none => rfl
  | some q => dsimp only; rw [if_pos (h q rfl)]

theorem release_two_quiet (st : State F) (a b : Option Nat)
    (h : ∀ p ∈ a.toList ++ b.toList,
      (((a.toList ++ b.toList).count p : Nat) : Int) < (st.nodes p).hp_refcount) :
    (ref_dec_locks st a ++
      match prop_ref_dec st a with
      | .error _ => []
      | .ok st1 => ref_dec_locks st1 b) = [] := by
  have ha : ref_dec_locks st a = [] := by
    apply ref_dec_locks_quiet
    intro q e
    subst e
    have := h q (by simp)
    have h1 : 0 < ((some q).toList ++ b.toList).count q := List.count_pos_iff.2 (by simp)
    omega
  rw [ha, List.nil_append]
  split
  · rfl
  · next st1 h1 =>
    apply ref_dec_locks_quiet
    intro q e
    subst e
    cases a with
    | none =>
      cases h1
      have := h q (by simp)
      simp at this
      exact this
    | some p =>
      have hq := h q (by simp)
      have hp := h p (by simp)
      unfold prop_ref_dec prop_ref_dec_locked at h1
      dsimp only at h1
      have h2 : st1 = st.setNode p
          { st.nodes p with hp_refcount := (st.nodes p).hp_refcount - 1 } := by
        split at h1
        · exact (Except.ok.inj h1).symm
        · split at h1
          · cases h1
          · exact (Except.ok.inj h1).symm
      rw [h2, setNode_nodes]
      by_cases e : q = p
      · subst e
        rw [if_pos rfl]
        simp at hq
        dsimp only
        omega
      · rw [if_neg e]
        simp [List.count_cons, e, Ne.symm e] at hq
        omega

theorem dispatch_release_locks_quiet (st : State F) (n : prop_notify_t F)
    (h : ∀ p ∈ record_refs n,
      (((record_refs n).count p : Nat) : Int) < (st.nodes p).hp_refcount) :
    dispatch_release_locks st n = [] := by
  obtain ⟨s, ev, u, p2, fl⟩ := n
  unfold dispatch_release_locks
  unfold record_refs at h
  dsimp only at h ⊢
  cases ev <;> dsimp only at h ⊢ <;>
    first
    | rfl
    | exact release_two_quiet st _ _ h
    | (apply ref_dec_locks_quiet
       intro q e
       rw [e] at h
       have := h q (by simp)
       simp at this
       exact this)
    | (cases u <;> dsimp only at h ⊢ <;>
        first
        | rfl
        | exact release_two_quiet st _ _ h
        | (apply ref_dec_locks_quiet
           intro q e
           rw [e] at h
           have := h q (by simp)
           simp at this
           exact this))

theorem dispatch_loop_locks_strict (hps_lock : Nat → Option Nat) :
    ∀ (q : List (prop_notify_t F)) (st : State F) (T : List lock_op),
      (∀ n ∈ q, (st.subs n.hpn_sub).hps_zombie = false) → RefsCovered st q →
      dispatch_loop_locks hps_lock q st = .ok T →
        locks_run true (none, false) T = some (none, false) := by
  intro q
  induction q with
  | nil => intro st T _ _ h; cases h; rfl
  | cons n rest ih =>
    intro st T hz hcov h
    obtain ⟨st1, e1, e2, _, e4⟩ := release_all_ok (record_refs n) (queue_refs rest) st hcov
    have hq : dispatch_release_locks st n = [] := by
      apply dispatch_release_locks_quiet
      intro p hp
      have h1 := hcov p (List.mem_append_left _ hp)
      have h2 : (record_refs n).count p ≤ (queue_refs (n :: rest)).count p := by
        show _ ≤ (record_refs n ++ queue_refs rest).count p
        rw [List.count_append]
        exact Nat.le_add_right _ _
      omega
    unfold dispatch_loop_locks at h
    split at h
    · cases h
    · dsimp only at h
      rw [if_neg (by rw [hz n (List.mem_cons_self _ _)]; exact Bool.false_ne_true),
        dispatch_release_eq, e1] at h
      dsimp only at h
      split at h
      · cases h
      · next T1 hT =>
        cases h
        rw [hq, List.append_nil, locks_run_append]
        have hb : locks_run true (none, false)
            ((match hps_lock n.hpn_sub with
              | some l => [lock_op.observer_lock l]
              | none => []) ++
              (match hps_lock n.hpn_sub with
              | some l => [lock_op.observer_unlock l]
              | none => [])) = some (none, false) := by
          cases hps_lock n.hpn_sub <;> simp [locks_run]
        rw [hb]
        exact ih st1 T1 (fun m hm => by rw [e2]; exact hz m (List.mem_cons_of_mem _ hm)) e4 hT

/-- C31 (counterexample): with the observer lock 7 on subscription 0, the dispatch of the
  record of the zombie subscription of `ex_track_unsub` takes prop_mutex between taking and
  releasing lock 7, and so does the dispatch of the queue of `ex_track_mutated`, whose
  first record gives back the last reference to the destroyed root after the callback of a
  live subscription: both runs break the discipline in which prop_mutex is taken only
  while no observer lock is held. -/
theorem dispatch_takes_tree_lock_under_observer_lock :
    (ex_track_unsub.subs 0).hps_zombie = true ∧
      ex_zombie_locks = some [.observer_lock 7, .tree_lock, .tree_unlock, .observer_unlock 7,
        .tree_lock, .tree_unlock] ∧
      ex_zombie_locks.bind (locks_run true (none, false)) = none ∧
      (ex_track_mutated.subs 0).hps_zombie = false ∧
      ex_release_locks = some [.observer_lock 7, .tree_lock, .tree_unlock, .observer_unlock 7,
        .observer_lock 7, .observer_unlock 7, .tree_lock, .tree_unlock] ∧
      ex_release_locks.bind (locks_run true (none, false)) = none := by
  decide

/-- C31 (amended): whenever prop_notify_dispatch returns, its lock operations are
  well nested: an observer lock is taken only while neither prop_mutex nor another observer
  lock is held and is released with prop_mutex free, prop_mutex is taken only when free,
  and nothing is held at the end. prop_mutex may be taken while the observer lock is held,
  to free the record of a zombie subscription or to give back a last reference after the
  callback: when no record of the queue belongs to a zombie subscription and every node
  holds more references than the queue gives back, prop_mutex is taken only while no
  observer lock is held. -/
theorem dispatch_lock_order (hps_lock : Nat → Option Nat) (q : List (prop_notify_t F))
    (st : State F) :
    (∀ r, prop_notify_dispatch q st = .ok r →
        ∃ T, prop_notify_dispatch_locks hps_lock q st = .ok T) ∧
      ∀ T, prop_notify_dispatch_locks hps_lock q st = .ok T →
        locks_run false (none, false) T = some (none, false) ∧
        ((∀ n ∈ q, (st.subs n.hpn_sub).hps_zombie = false) → RefsCovered st q →
          locks_run true (none, false) T = some (none, false)) := by
  constructor
  · intro r h
    unfold prop_notify_dispatch at h
    unfold prop_notify_dispatch_locks
    split at h
    · cases h
    · next st1 kept h1 =>
      obtain ⟨T, hT⟩ := dispatch_loop_locks_returns hps_lock q st st1 kept h1
      rw [hT]
      exact ⟨_, rfl⟩
  · intro T h
    unfold prop_notify_dispatch_locks at h
    split at h
    · cases h
    · next T1 hT =>
      cases h
      refine ⟨?_, fun hz hcov => ?_⟩
      · rw [locks_run_append, dispatch_loop_locks_run hps_lock q st T1 hT]
        rfl
      · rw [locks_run_append, dispatch_loop_locks_strict hps_lock q st T1 hz hcov hT]
        rfl

theorem dispatch_lock_order_witness :
    prop_notify_dispatch_locks (fun _ => some 7) (ex_track_set.couriers 0).pc_queue_nor
        ex_track_set
      = .ok [.observer_lock 7, .observer_unlock 7, .tree_lock, .tree_unlock] ∧
    (∀ n ∈ (ex_track_set.couriers 0).pc_queue_nor,
      (ex_track_set.subs n.hpn_sub).hps_zombie = false) ∧
    RefsCovered ex_track_set (ex_track_set.couriers 0).pc_queue_nor ∧
    locks_run false (none, false)
      [.observer_lock 7, .observer_unlock 7, .tree_lock, .tree_unlock] = some (none, false) ∧
    locks_run true (none, false)
      [.observer_lock 7, .observer_unlock 7, .tree_lock, .tree_unlock] = some (none, false) :=
  have h : prop_notify_dispatch_locks (fun _ => some 7) (ex_track_set.couriers 0).pc_queue_nor
        ex_track_set
      = .ok [.observer_lock 7, .observer_unlock 7, .tree_lock, .tree_unlock] := by rfl
  ⟨h, by decide, by unfold RefsCovered; decide,
    ((dispatch_lock_order (fun _ => some 7) (ex_track_set.couriers 0).pc_queue_nor
      ex_track_set).2 _ h).1,
    ((dispatch_lock_order (fun _ => some 7) (ex_track_set.couriers 0).pc_queue_nor
      ex_track_set).2 _ h).2 (by decide) (by unfold RefsCovered; decide)⟩

/-! ## C38 and C40: what the calls do to originators, clipping ranges and zombies -/

theorem OriginsKept.og_refl (st : State F) : OriginsKept st st := fun _ => Or.inl rfl

theorem OriginsKept.og_trans {a b c : State F} (h1 : OriginsKept a b) (h2 : OriginsKept b c) :
    OriginsKept a c := by
  intro q
  rcases h2 q with h | h
  · rw [h]; exact h1 q
  · exact Or.inr h

theorem Steady.sd_refl (st : State F) : Steady st st := fun _ => ⟨Or.inl rfl, id, id⟩

theorem Steady.sd_trans {a b c : State F} (h1 : Steady a b) (h2 : Steady b c) : Steady a c := by
  intro q
  obtain ⟨a1, a2, a3⟩ := h1 q
  obtain ⟨b1, b2, b3⟩ := h2 q
  refine ⟨?_, fun h => a2 (b2 h), fun h => a3 (b3 h)⟩
  rcases b1 with h | h
  · rw [h]; exact a1
  · exact Or.inr h

theorem Steady.kept {a b : State F} (h : Steady a b) : OriginsKept a b := fun q => (h q).1

theorem Steady.unclipped {a b : State F} (h : Steady a b) (hu : Unclipped a) : Unclipped b := by
  intro q
  cases hc : (b.nodes q).hp_flags.PROP_CLIPPED_VALUE with
  | false => rfl
  | true => have := (h q).2.1 hc; rw [hu q] at this; cases this

theorem Steady.noZombie {a b : State F} (h : Steady a b) (hz : NoZombie a) : NoZombie b :=
  fun q e => hz q ((h q).2.2 e)

/-- A step that leaves the originators, the flags and the types of the nodes alone. -/
theorem Steady.sd_of_nodes {st st' : State F}
    (h1 : ∀ q, (st'.nodes q).hp_originator = (st.nodes q).hp_originator)
    (h2 : ∀ q, (st'.nodes q).hp_flags = (st.nodes q).hp_flags)
    (h3 : ∀ q, (st'.nodes q).u = (st.nodes q).u) : Steady st st' := by
  intro q
  refine ⟨Or.inl (h1 q), fun h => by rw [← h2 q]; exact h, fun h => ?_⟩
  unfold prop_t.hp_type at h ⊢
  rw [← h3 q]
  exact h

theorem Steady.sd_of_sameTree {st st' : State F} (h : SameTree st st') : Steady st st' :=
  Steady.sd_of_nodes (fun q => h.hp_originator q) (fun q => h.hp_flags q) (fun q => h.u q)

theorem Steady.sd_setNode (st : State F) (p : Nat) (nd : prop_t F)
    (h1 : nd.hp_originator = (st.nodes p).hp_originator ∨ nd.hp_originator = none)
    (h2 : nd.hp_flags.PROP_CLIPPED_VALUE = true → (st.nodes p).hp_flags.PROP_CLIPPED_VALUE = true)
    (h3 : nd.hp_type = .PROP_ZOMBIE → (st.nodes p).hp_type = .PROP_ZOMBIE) :
    Steady st (st.setNode p nd) := by
  intro q
  rw [setNode_nodes]
  split
  · next e => subst e; exact ⟨h1, h2, h3⟩
  · exact ⟨Or.inl rfl, id, id⟩

theorem Steady.sd_setU (st : State F) (p : Nat) (v : prop_value F)
    (hv : v.hp_type ≠ .PROP_ZOMBIE) : Steady st (st.setU p v) :=
  Steady.sd_setNode st p _ (Or.inl rfl) id (fun h => absurd h hv)

theorem Steady.sd_setChilds (st : State F) (p : Nat) (cs : List Nat) :
    Steady st (st.setChilds p cs) := by
  unfold State.setChilds
  split
  · exact Steady.sd_setU st _ _ (by simp [prop_value.hp_type])
  · exact Steady.sd_refl st

theorem Steady.sd_setSelected (st : State F) (p : Nat) (sel : Option Nat) :
    Steady st (st.setSelected p sel) := by
  unfold State.setSelected
  split
  · exact Steady.sd_setU st _ _ (by simp [prop_value.hp_type])
  · exact Steady.sd_refl st

theorem Steady.sd_ref_inc (st : State F) (p : Nat) : Steady st (prop_ref_inc st p) :=
  Steady.sd_setNode st p _ (Or.inl rfl) id id

theorem Steady.sd_setSub (st : State F) (t : Nat) (sb : prop_sub_t) :
    Steady st (st.setSub t sb) := Steady.sd_of_nodes (fun _ => rfl) (fun _ => rfl) (fun _ => rfl)

theorem Steady.sd_setCourier (st : State F) (c : Nat) (pc : prop_courier_t F) :
    Steady st (st.setCourier c pc) :=
  Steady.sd_of_nodes (fun _ => rfl) (fun _ => rfl) (fun _ => rfl)

theorem OriginsKept.og_setNode (st : State F) (p : Nat) (nd : prop_t F)
    (h : nd.hp_originator = (st.nodes p).hp_originator ∨ nd.hp_originator = none) :
    OriginsKept st (st.setNode p nd) := by
  intro q
  rw [setNode_nodes]
  split
  · next e => subst e; exact h
  · exact Or.inl rfl

theorem OriginsKept.og_of_nodes {st st' : State F}
    (h : ∀ q, (st'.nodes q).hp_originator = (st.nodes q).hp_originator) : OriginsKept st st' :=
  fun q => Or.inl (h q)

theorem OriginsKept.og_of_tame {st st' : State F} (h : Tame st st') : OriginsKept st st' :=
  OriginsKept.og_of_nodes h.originator

theorem OriginsKept.og_setU (st : State F) (p : Nat) (v : prop_value F) :
    OriginsKept st (st.setU p v) := OriginsKept.og_setNode st p _ (Or.inl rfl)

theorem OriginsKept.og_setChilds (st : State F) (p : Nat) (cs : List Nat) :
    OriginsKept st (st.setChilds p cs) := (Steady.sd_setChilds st p cs).kept

theorem OriginsKept.og_setSelected (st : State F) (p : Nat) (sel : Option Nat) :
    OriginsKept st (st.setSelected p sel) := (Steady.sd_setSelected st p sel).kept

theorem OriginsKept.og_setSub (st : State F) (t : Nat) (sb : prop_sub_t) :
    OriginsKept st (st.setSub t sb) := (Steady.sd_setSub st t sb).kept

theorem OriginsKept.og_setCourier (st : State F) (c : Nat) (pc : prop_courier_t F) :
    OriginsKept st (st.setCourier c pc) := (Steady.sd_setCourier st c pc).kept

/-- When every node keeps or loses its originator, the walk along the originators still
  ends, within the same number of steps. -/
theorem follow_of_kept {st st' : State F} (h : OriginsKept st st') :
    ∀ (n : Nat) (p r : Nat), follow_originators n st p = .ok r →
      ∃ r', follow_originators n st' p = .ok r' := by
  intro n
  induction n with
  | zero => intro p r hf; cases hf
  | succ n ih =>
    intro p r hf
    unfold follow_originators at hf ⊢
    rcases h p with e | e
    · rw [e]
      split at hf
      · exact ⟨p, rfl⟩
      · exact ih _ _ hf
    · rw [e]
      exact ⟨p, rfl⟩

theorem Acyclic.of_kept {st st' : State F} (ha : Acyclic st) (h : OriginsKept st st') :
    Acyclic st' := by
  intro p
  obtain ⟨n, r, hf⟩ := ha p
  obtain ⟨r', hr⟩ := follow_of_kept h n p r hf
  exact ⟨n, r', hr⟩

theorem sd_notify_value {st st' : State F} {p : Nat} {skipme : Option Nat}
    {how : Int} (h : prop_notify_value st p skipme how = .ok st') : Steady st st' :=
  Steady.sd_of_sameTree (sameTree_of_prop_notify_value h)

/-- A node takes a new value that is no zombie and the change is reported. -/
theorem sd_setU_notify {st st' : State F} {p : Nat} {v : prop_value F}
    {skipme : Option Nat} {how : Int}
    (h : prop_notify_value (st.setU p v) p skipme how = .ok st')
    (hv : v.hp_type ≠ .PROP_ZOMBIE) : Steady st st' :=
  (Steady.sd_setU st p v hv).sd_trans (sd_notify_value h)

theorem og_setU_notify {st st' : State F} {p : Nat} {v : prop_value F}
    {skipme : Option Nat} {how : Int}
    (h : prop_notify_value (st.setU p v) p skipme how = .ok st') : OriginsKept st st' :=
  (OriginsKept.og_setU st p v).og_trans (sd_notify_value h).kept

theorem sd_make_dir {st st' : State F} {p : Nat} {skipme : Option Nat}
    (h : prop_make_dir st p skipme = .ok st') : Steady st st' := by
  unfold prop_make_dir at h
  split at h
  · cases h; exact Steady.sd_refl st
  · split at h
    · cases h
    · exact sd_setU_notify h (by simp [prop_value.hp_type, prop_float_to_int, prop_int_to_float, prop_value.set_hp_int, prop_value.set_hp_float])

theorem sd_of_set_void_exl {st st' : State F} {p : Nat} {skipme : Option Nat}
    (h : prop_set_void_exl st p skipme = .ok st') : Steady st st' := by
  unfold prop_set_void_exl at h
  repeat' split at h
  all_goals first
    | (cases h; exact Steady.sd_refl _)
    | exact sd_setU_notify h (by simp [prop_value.hp_type, prop_float_to_int, prop_int_to_float, prop_value.set_hp_int, prop_value.set_hp_float])

theorem sd_of_set_void_ex {st st' : State F} {p : Option Nat} {skipme : Option Nat}
    (h : prop_set_void_ex st p skipme = .ok st') : Steady st st' := by
  unfold prop_set_void_ex at h
  split at h
  · cases h; exact Steady.sd_refl _
  · exact sd_of_set_void_exl h

theorem sd_of_set_string_exl {st st' : State F} {p : Nat} {skipme : Option Nat}
    {str : String} {type : Nat} (h : prop_set_string_exl st p skipme str type = .ok st') :
    Steady st st' := by
  unfold prop_set_string_exl at h
  repeat' split at h
  all_goals first
    | (cases h; exact Steady.sd_refl _)
    | exact sd_setU_notify h (by simp [prop_value.hp_type, prop_float_to_int, prop_int_to_float, prop_value.set_hp_int, prop_value.set_hp_float])

theorem sd_of_set_rstring_exl {st st' : State F} {p : Nat} {skipme : Option Nat}
    {rstr : String} (h : prop_set_rstring_exl st p skipme rstr = .ok st') :
    Steady st st' := by
  unfold prop_set_rstring_exl at h
  repeat' split at h
  all_goals first
    | (cases h; exact Steady.sd_refl _)
    | exact sd_setU_notify h (by simp [prop_value.hp_type, prop_float_to_int, prop_int_to_float, prop_value.set_hp_int, prop_value.set_hp_float])

theorem sd_of_set_int_exl [CFloat F] {st st' : State F} {p : Nat} {skipme : Option Nat}
    {v : Int} (h : prop_set_int_exl st p skipme v = .ok st') : Steady st st' := by
  unfold prop_set_int_exl at h
  repeat' split at h
  all_goals first
    | (cases h; exact Steady.sd_refl _)
    | exact sd_setU_notify h (by simp [prop_value.hp_type, prop_float_to_int, prop_int_to_float, prop_value.set_hp_int, prop_value.set_hp_float])

theorem sd_of_seti [CFloat F] {st st' : State F} {skipme : Option Nat} {p : Nat}
    {arg : seti_arg} (h : prop_seti st skipme p arg = .ok st') : Steady st st' := by
  unfold prop_seti at h
  split at h
  · exact sd_of_set_void_exl h
  · exact sd_of_set_string_exl h
  · exact sd_of_set_void_exl h
  · exact sd_of_set_rstring_exl h
  · exact sd_of_set_int_exl h
  · exact sd_of_set_void_exl h
  · cases h



theorem og_of_set_void_exl {st st' : State F} {p : Nat} {skipme : Option Nat}
    (h : prop_set_void_exl st p skipme = .ok st') : OriginsKept st st' := by
  unfold prop_set_void_exl at h
  repeat' split at h
  all_goals first
    | (cases h; exact OriginsKept.og_refl _)
    | exact og_setU_notify h

theorem og_of_set_void_ex {st st' : State F} {p : Option Nat} {skipme : Option Nat}
    (h : prop_set_void_ex st p skipme = .ok st') : OriginsKept st st' := by
  unfold prop_set_void_ex at h
  split at h
  · cases h; exact OriginsKept.og_refl _
  · exact og_of_set_void_exl h

theorem og_of_set_string_exl {st st' : State F} {p : Nat} {skipme : Option Nat}
    {str : String} {type : Nat} (h : prop_set_string_exl st p skipme str type = .ok st') :
    OriginsKept st st' := by
  unfold prop_set_string_exl at h
  repeat' split at h
  all_goals first
    | (cases h; exact OriginsKept.og_refl _)
    | exact og_setU_notify h

theorem og_of_set_rstring_exl {st st' : State F} {p : Nat} {skipme : Option Nat}
    {rstr : String} (h : prop_set_rstring_exl st p skipme rstr = .ok st') :
    OriginsKept st st' := by
  unfold prop_set_rstring_exl at h
  repeat' split at h
  all_goals first
    | (cases h; exact OriginsKept.og_refl _)
    | exact og_setU_notify h

theorem og_of_set_string_ex {st st' : State F} {p : Option Nat} {skipme : Option Nat}
    {str : Option String} {type : Nat} (h : prop_set_string_ex st p skipme str type = .ok st') :
    OriginsKept st st' := by
  unfold prop_set_string_ex at h
  repeat' split at h
  all_goals first
    | (cases h; exact OriginsKept.og_refl _)
    | exact og_of_set_void_ex h
    | exact og_of_set_string_exl h

theorem og_of_set_rstring_ex {st st' : State F} {p : Option Nat} {skipme : Option Nat}
    {rstr : Option String} (h : prop_set_rstring_ex st p skipme rstr = .ok st') :
    OriginsKept st st' := by
  unfold prop_set_rstring_ex at h
  repeat' split at h
  all_goals first
    | (cases h; exact OriginsKept.og_refl _)
    | exact og_of_set_void_ex h
    | exact og_of_set_rstring_exl h

theorem og_of_set_cstring_ex {st st' : State F} {p : Option Nat} {skipme : Option Nat}
    {cstr : Option String} (h : prop_set_cstring_ex st p skipme cstr = .ok st') :
    OriginsKept st st' := by
  unfold prop_set_cstring_ex at h
  repeat' split at h
  all_goals first
    | (cases h; exact OriginsKept.og_refl _)
    | exact og_of_set_void_ex h
    | exact og_setU_notify h

theorem og_of_set_link_ex {st st' : State F} {p : Option Nat} {skipme : Option Nat}
    {title url : Option String} (h : prop_set_link_ex st p skipme title url = .ok st') :
    OriginsKept st st' := by
  unfold prop_set_link_ex at h
  repeat' split at h
  all_goals first
    | (cases h; exact OriginsKept.og_refl _)
    | exact og_of_set_void_ex h
    | exact og_setU_notify h

theorem og_of_set_int_exl [CFloat F] {st st' : State F} {p : Nat} {skipme : Option Nat}
    {v : Int} (h : prop_set_int_exl st p skipme v = .ok st') : OriginsKept st st' := by
  unfold prop_set_int_exl at h
  repeat' split at h
  all_goals first
    | (cases h; exact OriginsKept.og_refl _)
    | exact og_setU_notify h

theorem og_of_set_int_ex [CFloat F] {st st' : State F} {p : Option Nat}
    {skipme : Option Nat} {v : Int} (h : prop_set_int_ex st p skipme v = .ok st') :
    OriginsKept st st' := by
  unfold prop_set_int_ex at h
  split at h
  · cases h; exact OriginsKept.og_refl _
  · exact og_of_set_int_exl h

theorem og_of_int_head [CFloat F] {st st1 : State F} {p : Nat}
    (h : prop_int_head st p = some st1) : OriginsKept st st1 := by
  unfold prop_int_head at h
  repeat' split at h
  all_goals first
    | (cases h; exact OriginsKept.og_refl _)
    | (cases h; exact OriginsKept.og_setU _ _ _)
    | cases h

theorem og_of_get_float [CFloat F] {st st1 : State F} {p q : Option Nat} {b : Bool}
    (h : prop_get_float st p = (st1, q, b)) : OriginsKept st st1 := by
  unfold prop_get_float at h
  repeat' split at h
  all_goals first
    | (cases h; exact OriginsKept.og_refl _)
    | (cases h; exact OriginsKept.og_setU _ _ _)

theorem og_of_add_int_ex [CFloat F] {st st' : State F} {p : Option Nat}
    {skipme : Option Nat} {v : Int} (h : prop_add_int_ex st p skipme v = .ok st') :
    OriginsKept st st' := by
  unfold prop_add_int_ex at h
  split at h
  · cases h; exact OriginsKept.og_refl _
  · split at h
    · cases h; exact OriginsKept.og_refl _
    · next st1 hh =>
      refine (og_of_int_head hh).og_trans ?_
      dsimp only at h
      repeat' split at h
      all_goals first
        | (cases h; exact OriginsKept.og_refl _)
        | exact og_setU_notify h

theorem og_of_toggle_int_ex [CFloat F] {st st' : State F} {p : Option Nat}
    {skipme : Option Nat} (h : prop_toggle_int_ex st p skipme = .ok st') :
    OriginsKept st st' := by
  unfold prop_toggle_int_ex at h
  split at h
  · cases h; exact OriginsKept.og_refl _
  · split at h
    · cases h; exact OriginsKept.og_refl _
    · next st1 hh =>
      refine (og_of_int_head hh).og_trans ?_
      dsimp only at h
      exact og_setU_notify h

theorem og_of_set_int_clipping_range [CFloat F] {st st' : State F} {p : Option Nat}
    {min max : Int} (h : prop_set_int_clipping_range st p min max = .ok st') :
    OriginsKept st st' := by
  unfold prop_set_int_clipping_range at h
  split at h
  · cases h; exact OriginsKept.og_refl _
  · next p =>
    split at h
    · cases h; exact OriginsKept.og_refl _
    · next st1 hh =>
      refine (og_of_int_head hh).og_trans ?_
      dsimp only at h
      have h2 : OriginsKept st1 (st1.setNode p { st1.nodes p with
          hp_flags := { (st1.nodes p).hp_flags with PROP_CLIPPED_VALUE := true },
          u := .PROP_INT (st1.nodes p).u.hp_int min max }) :=
        OriginsKept.og_setNode st1 p _ (Or.inl rfl)
      split at h
      · exact h2.og_trans (og_setU_notify h)
      · cases h; exact h2

theorem og_of_set_float_ex [CFloat F] {st st' : State F} {p : Option Nat}
    {skipme : Option Nat} {v : F} {how : Int}
    (h : prop_set_float_ex st p skipme v how = .ok st') : OriginsKept st st' := by
  unfold prop_set_float_ex at h
  split at h
  · cases h; exact OriginsKept.og_refl _
  · next st1 q forced hg =>
    refine (og_of_get_float hg).og_trans ?_
    dsimp only at h
    repeat' split at h
    all_goals first
      | (cases h; exact OriginsKept.og_refl _)
      | exact og_setU_notify h

theorem og_of_add_float_ex [CFloat F] {st st' : State F} {p : Option Nat}
    {skipme : Option Nat} {v : F}
    (h : prop_add_float_ex st p skipme v = .ok st') : OriginsKept st st' := by
  unfold prop_add_float_ex at h
  split at h
  · cases h; exact OriginsKept.og_refl _
  · next st1 q forced hg =>
    refine (og_of_get_float hg).og_trans ?_
    dsimp only at h
    repeat' split at h
    all_goals first
      | (cases h; exact OriginsKept.og_refl _)
      | exact og_setU_notify h

theorem og_of_set_float_clipping_range [CFloat F] {st st' : State F} {p : Option Nat}
    {min max : F} (h : prop_set_float_clipping_range st p min max = .ok st') :
    OriginsKept st st' := by
  unfold prop_set_float_clipping_range at h
  split at h
  · cases h; exact OriginsKept.og_refl _
  · next st1 q forced hg =>
    refine (og_of_get_float hg).og_trans ?_
    dsimp only at h
    have h2 : OriginsKept st1 (st1.setNode q { st1.nodes q with
        hp_flags := { (st1.nodes q).hp_flags with PROP_CLIPPED_VALUE := true },
        u := .PROP_FLOAT (st1.nodes q).u.hp_float min max }) :=
      OriginsKept.og_setNode st1 q _ (Or.inl rfl)
    split at h
    · exact h2.og_trans (og_setU_notify h)
    · cases h; exact h2

theorem og_of_setter_run [CFloat F] {st st' : State F} (c : setter_call F) {p : Nat}
    {skipme : Option Nat} (h : c.run st p skipme = .ok st') : OriginsKept st st' := by
  cases c <;> simp only [setter_call.run] at h
  · exact og_of_set_string_ex h
  · exact og_of_set_rstring_ex h
  · exact og_of_set_cstring_ex h
  · exact og_of_set_link_ex h
  · exact og_of_set_int_ex h
  · exact og_of_set_float_ex h
  · exact og_of_set_void_ex h
  · exact og_of_toggle_int_ex h
  · exact og_of_add_int_ex h
  · exact og_of_add_float_ex h
  · exact og_of_set_int_clipping_range h
  · exact og_of_set_float_clipping_range h

theorem og_of_seti [CFloat F] {st st' : State F} {skipme : Option Nat} {p : Nat}
    {arg : seti_arg} (h : prop_seti st skipme p arg = .ok st') : OriginsKept st st' := by
  unfold prop_seti at h
  split at h
  · exact og_of_set_void_exl h
  · exact og_of_set_string_exl h
  · exact og_of_set_void_exl h
  · exact og_of_set_rstring_exl h
  · exact og_of_set_int_exl h
  · exact og_of_set_void_exl h
  · cases h


theorem sd_notify_child (child : Option Nat) (event : prop_event_t)
    (skipme : Option Nat) (flags : Int) (l : List Nat) (st st' : State F)
    (h : prop_notify_child child event skipme flags l st = .ok st') : Steady st st' :=
  Steady.sd_of_sameTree (sameTree_of_prop_notify_child child event skipme flags l st st' h)

theorem sd_of_notify_child2 (child : Nat) (sibling : Option Nat)
    (event : prop_event_t) (skipme : Option Nat) (flags : Int) (l : List Nat) (st st' : State F)
    (h : prop_notify_child2 child sibling event skipme flags l st = .ok st') : Steady st st' :=
  Steady.sd_of_sameTree (sameTree_of_prop_notify_child2 child sibling event skipme flags l st st' h)

theorem sd_build_notify_value {st st' : State F} {t : Nat} {direct : Bool} {p : Nat}
    {pnq pnq' : Option (List (prop_notify_t F))} {how : Int}
    (h : prop_build_notify_value st t direct p pnq how = .ok (st', pnq')) : Steady st st' :=
  Steady.sd_of_sameTree (sameTree_of_build_notify_value h)

theorem sd_of_notify_void {st st' : State F} {t : Nat}
    (h : prop_notify_void st t = .ok st') : Steady st st' :=
  Steady.sd_of_sameTree (sameTree_of_notify_void h)

theorem sd_of_notify_destroyed {st st' : State F} {t : Nat}
    (h : prop_notify_destroyed st t = .ok st') : Steady st st' :=
  Steady.sd_of_sameTree (sameTree_of_notify_destroyed h)

theorem sd_of_monitor_active (l : List Nat) (st st' : State F)
    (h : prop_send_subscription_monitor_active l st = .ok st') : Steady st st' :=
  Steady.sd_of_sameTree (sameTree_of_monitor_active l st st' h)

theorem sd_of_notify_childv (pv : List Nat) (event : prop_event_t)
    (skipme p2 : Option Nat) (l : List Nat) (st st' : State F)
    (h : prop_notify_childv pv event skipme p2 l st = .ok st') : Steady st st' :=
  Steady.sd_of_sameTree (sameTree_of_notify_childv pv event skipme p2 l st st' h)

theorem sd_of_subscribe_add_childs (t value : Nat) (direct : Bool) (l : List Nat)
    (st st' : State F) (h : subscribe_add_childs t value direct l st = .ok st') :
    Steady st st' :=
  Steady.sd_of_sameTree (sameTree_of_subscribe_add_childs t value direct l st st' h)

theorem sd_of_ref_dec_locked {st st' : State F} {p : Option Nat}
    (h : prop_ref_dec_locked st p = .ok st') : Steady st st' :=
  Steady.sd_of_sameTree (sameTree_of_ref_dec_locked h)

theorem foldlM_sd {α : Type} (f : State F → α → Except Fault (State F))
    (hf : ∀ a c r, f a c = .ok r → Steady a r) :
    ∀ (l : List α) (st st' : State F), List.foldlM f st l = .ok st' → Steady st st' := by
  intro l
  induction l with
  | nil =>
    intro st st' h
    cases h
    exact Steady.sd_refl st
  | cons a l ih =>
    intro st st' h
    rw [List.foldlM_cons] at h
    cases hfa : f st a with
    | error e => rw [hfa] at h; cases h
    | ok st1 =>
      rw [hfa] at h
      exact (hf st a st1 hfa).sd_trans (ih st1 st' h)

theorem foldlM_og {α : Type} (f : State F → α → Except Fault (State F))
    (hf : ∀ a c r, f a c = .ok r → OriginsKept a r) :
    ∀ (l : List α) (st st' : State F), List.foldlM f st l = .ok st' → OriginsKept st st' := by
  intro l
  induction l with
  | nil =>
    intro st st' h
    cases h
    exact OriginsKept.og_refl st
  | cons a l ih =>
    intro st st' h
    rw [List.foldlM_cons] at h
    cases hfa : f st a with
    | error e => rw [hfa] at h; cases h
    | ok st1 =>
      rw [hfa] at h
      exact (hf st a st1 hfa).og_trans (ih st1 st' h)

/-- Flooding a flag other than PROP_CLIPPED_VALUE over a subtree. -/
theorem sd_of_flood_flag :
    ∀ (fuel : Nat) (st st' : State F) (p : Nat) (set clr : PropFlags),
      set.PROP_CLIPPED_VALUE = false →
      prop_flood_flag fuel st p set clr = .ok st' → Steady st st' := by
  intro fuel
  induction fuel with
  | zero => intro st st' p set clr _ h; cases h
  | succ fuel ih =>
    intro st st' p set clr hs h
    unfold prop_flood_flag at h
    have h1 : Steady st (st.setNode p
        { st.nodes p with hp_flags := ((st.nodes p).hp_flags.or set).andNot clr }) := by
      refine Steady.sd_setNode st p _ (Or.inl rfl) (fun hc => ?_) id
      simp only [PropFlags.or, PropFlags.andNot, hs, Bool.or_false, Bool.and_eq_true] at hc
      exact hc.1
    dsimp only at h
    split at h
    · exact h1.sd_trans (foldlM_sd _ (fun a c r hr => ih a r c set clr hs hr) _ _ _ h)
    · cases h; exact h1

theorem og_of_flood_flag :
    ∀ (fuel : Nat) (st st' : State F) (p : Nat) (set clr : PropFlags),
      prop_flood_flag fuel st p set clr = .ok st' → OriginsKept st st' := by
  intro fuel
  induction fuel with
  | zero => intro st st' p set clr h; cases h
  | succ fuel ih =>
    intro st st' p set clr h
    unfold prop_flood_flag at h
    have h1 : OriginsKept st (st.setNode p
        { st.nodes p with hp_flags := ((st.nodes p).hp_flags.or set).andNot clr }) :=
      OriginsKept.og_setNode st p _ (Or.inl rfl)
    dsimp only at h
    split at h
    · exact h1.og_trans (foldlM_og _ (fun a c r hr => ih a r c set clr hr) _ _ _ h)
    · cases h; exact h1

theorem og_of_notify_free {st st' : State F} {n : prop_notify_t F}
    (h : prop_notify_free st n = .ok st') : OriginsKept st st' :=
  OriginsKept.og_of_tame (tame_of_notify_free h)

theorem sd_of_insert {st st' : State F} {p parent : Nat} {before skipme : Option Nat}
    (h : prop_insert st p parent before skipme = .ok st') : Steady st st' := by
  unfold prop_insert at h
  split at h
  · split at h
    · cases h
    · exact (Steady.sd_setChilds st _ _).sd_trans
        (sd_of_notify_child2 _ _ _ _ _ _ _ _ h)
  · exact (Steady.sd_setChilds st _ _).sd_trans
      (sd_notify_child _ _ _ _ _ _ _ h)

theorem sd_of_make (st : State F) (name : Option String) (noalloc : Bool)
    (parent : Option Nat) : Steady st (prop_make st name noalloc parent).1 :=
  by
  intro q
  unfold prop_make
  dsimp only
  split
  · refine ⟨Or.inr rfl, ?_, ?_⟩ <;> intro h <;>
      simp [prop_t.hp_type, prop_value.hp_type] at h
  · exact ⟨Or.inl rfl, id, id⟩

theorem sd_of_create0 {st st' : State F} {parent c : Nat} {name : Option String}
    {skipme : Option Nat} {noalloc : Bool}
    (h : prop_create0 st parent name skipme noalloc = .ok (st', c)) : Steady st st' := by
  unfold prop_create0 at h
  split at h
  · cases h
  · cases hm : prop_make_dir st parent skipme with
    | error e => simp [hm] at h
    | ok st1 =>
      have n1 := sd_make_dir hm
      simp only [hm] at h
      cases hf : name.bind (find_child_by_name st1 (st1.nodes parent).hp_childs) with
      | some hp =>
        simp only [hf] at h
        split at h
        · simp only [Except.ok.injEq, Prod.mk.injEq] at h
          obtain ⟨h1, _⟩ := h
          subst h1
          exact n1.sd_trans (Steady.sd_setNode st1 hp _ (Or.inl rfl) id id)
        · cases h; exact n1
      | none =>
        simp only [hf] at h
        have n2 := sd_of_make st1 name noalloc (some parent)
        generalize hst2 : prop_make st1 name noalloc (some parent) = r at h n2
        obtain ⟨st2, hp⟩ := r
        dsimp only at h n2
        generalize hfl : (if (st2.nodes parent).hp_flags.PROP_MULTI_SUB
              || (st2.nodes parent).hp_flags.PROP_MULTI_NOTIFY then
            prop_flood_flag (st2.nnodes + 1) st2 hp PROP_MULTI_NOTIFY {}
          else .ok st2) = fl at h
        cases fl with
        | error e => simp at h
        | ok st3 =>
          have s23 : Steady st2 st3 := by
            split at hfl
            · exact sd_of_flood_flag _ _ _ _ _ _ rfl hfl
            · cases hfl; exact Steady.sd_refl _
          simp only at h
          cases hi : prop_insert st3 hp parent none skipme with
          | error e => simp [hi] at h
          | ok st4 =>
            simp only [hi, Except.ok.injEq, Prod.mk.injEq] at h
            obtain ⟨h4, _⟩ := h
            subst h4
            exact ((n1.sd_trans n2).sd_trans s23).sd_trans (sd_of_insert hi)

theorem sd_of_create_ex {st st' : State F} {parent r : Option Nat}
    {name : Option String} {skipme : Option Nat} {noalloc incref : Bool}
    (h : prop_create_ex st parent name skipme noalloc incref = .ok (st', r)) :
    Steady st st' := by
  unfold prop_create_ex at h
  split at h
  · cases h; exact Steady.sd_refl _
  · split at h
    · split at h
      · cases h
      · next st1 p hc =>
        have h1 := sd_of_create0 hc
        simp only [Except.ok.injEq, Prod.mk.injEq] at h
        obtain ⟨h2, _⟩ := h
        subst h2
        split
        · exact h1.sd_trans (Steady.sd_ref_inc st1 p)
        · exact h1
    · cases h; exact Steady.sd_refl _

theorem sd_of_create_root_ex (st : State F) (name : Option String) (noalloc : Bool) :
    Steady st (prop_create_root_ex st name noalloc).1 :=
  sd_of_make st name noalloc none

theorem sd_of_unparent_tail (st : State F) (p parent : Nat) (cs : List Nat) :
    Steady st
      (if (((st.setChilds parent cs).setNode p
            { (st.setChilds parent cs).nodes p with hp_parent := none }).nodes parent).hp_selected
            = some p then
        ((st.setChilds parent cs).setNode p
            { (st.setChilds parent cs).nodes p with hp_parent := none }).setSelected parent none
       else (st.setChilds parent cs).setNode p
            { (st.setChilds parent cs).nodes p with hp_parent := none }) := by
  have h1 : Steady st (st.setChilds parent cs) := Steady.sd_setChilds st parent _
  have h2 := h1.sd_trans (Steady.sd_setNode (st.setChilds parent cs)
    p { (st.setChilds parent cs).nodes p with hp_parent := none } (Or.inl rfl) id id)
  split
  · exact h2.sd_trans (Steady.sd_setSelected _ _ _)
  · exact h2

theorem sd_of_unparent0 {st st' : State F} {p : Nat} {skipme : Option Nat}
    (h : prop_unparent0 st p skipme = .ok st') : Steady st st' := by
  unfold prop_unparent0 at h
  split at h
  · cases h; exact Steady.sd_refl _
  · next parent _ =>
    split at h
    · cases h
    · split at h
      · cases h
      · next st1 hn =>
        split at h
        · cases h
        · next cs hcs =>
          cases h
          exact (sd_notify_child _ _ _ _ _ _ _ hn).sd_trans
            (sd_of_unparent_tail st1 p parent cs)

theorem sd_of_destroy_unparent {st st' : State F} {p : Nat}
    (h : destroy_unparent st p = .ok st') : Steady st st' := by
  unfold destroy_unparent at h
  split at h
  · cases h; exact Steady.sd_refl _
  · next parent _ =>
    split at h
    · cases h
    · next st1 hn =>
      split at h
      · cases h
      · next cs hcs =>
        cases h
        exact (sd_notify_child _ _ _ _ _ _ _ hn).sd_trans
          (sd_of_unparent_tail st1 p parent cs)

theorem sd_of_move0 {st st' : State F} {p : Nat} {before skipme : Option Nat}
    (h : prop_move0 st p before skipme = .ok st') : Steady st st' := by
  unfold prop_move0 at h
  split at h
  · cases h
  · split at h
    · cases h; exact Steady.sd_refl _
    · split at h
      · cases h
      · next parent _ =>
        split at h
        · split at h
          · cases h
          · next cs hcs =>
            dsimp only at h
            exact Steady.sd_trans (Steady.sd_setChilds st parent _)
              (sd_of_notify_child2 _ _ _ _ _ _ _ _ h)
        · cases h; exact Steady.sd_refl _

theorem sd_of_move {st st' : State F} {p : Nat} {before : Option Nat}
    (h : prop_move st p before = .ok st') : Steady st st' :=
  sd_of_move0 h

theorem sd_of_setv_from [CFloat F] (skipme : Option Nat) (arg : seti_arg) :
    ∀ (names : List String) (st st' : State F) (p : Nat),
      setv_from skipme arg names st p = .ok st' → Steady st st' := by
  intro names
  induction names with
  | nil =>
    intro st st' p h
    unfold setv_from at h
    exact sd_of_seti h
  | cons n rest ih =>
    intro st st' p h
    unfold setv_from at h
    split at h
    · cases h; exact Steady.sd_refl _
    · split at h
      · exact ih _ _ _ h
      · cases hc : prop_create0 st p (some n) skipme false with
        | error e => simp [hc] at h
        | ok r1 =>
          obtain ⟨st1, c⟩ := r1
          simp only [hc] at h
          exact (sd_of_create0 hc).sd_trans (ih _ _ _ h)

theorem sd_of_setv_ex [CFloat F] {st st' : State F} {skipme p : Option Nat}
    {names : List String} {arg : seti_arg}
    (h : prop_setv_ex st skipme p names arg = .ok st') : Steady st st' := by
  unfold prop_setv_ex at h
  split at h
  · cases h; exact Steady.sd_refl _
  · split at h
    · cases h; exact Steady.sd_refl _
    · exact sd_of_setv_from skipme arg names _ _ _ h

theorem sd_of_set_ex [CFloat F] {st st' : State F} {p : Option Nat}
    {name : Option String} {noalloc : Bool} {arg : seti_arg}
    (h : prop_set_ex st p name noalloc arg = .ok st') : Steady st st' := by
  unfold prop_set_ex at h
  split at h
  · cases h; exact Steady.sd_refl _
  · next p =>
    split at h
    · cases hc : prop_create0 st p name none noalloc with
      | error e => simp [hc] at h
      | ok r1 =>
        obtain ⟨st1, c⟩ := r1
        simp only [hc] at h
        exact (sd_of_create0 hc).sd_trans (sd_of_seti h)
    · cases h; exact Steady.sd_refl _

theorem sd_of_subfind_enter {st st1 : State F} {p : Nat}
    (h : subfind_enter st p = .ok (some st1)) : Steady st st1 := by
  unfold subfind_enter at h
  split at h
  · split at h
    · cases h
    · cases hn : prop_notify_value (st.setU p (.PROP_DIR [] none)) p none 0 with
      | error e => simp [hn] at h
      | ok st2 =>
        simp only [hn, Except.ok.injEq, Option.some.injEq] at h
        subst h
        exact sd_setU_notify hn (by simp [prop_value.hp_type])
  · cases h; exact Steady.sd_refl _

theorem sd_of_subfind_child {st st' : State F} {p : Nat} {name : String}
    {allow_indexing : Bool} {r : Option Nat}
    (h : subfind_child st p name allow_indexing = .ok (st', r)) : Steady st st' := by
  unfold subfind_child at h
  split at h
  · dsimp only at h
    split at h <;> (cases h; exact Steady.sd_refl _)
  · split at h
    · cases h; exact Steady.sd_refl _
    · cases hc : prop_create0 st p (some name) none false with
      | error e => simp [hc] at h
      | ok r1 =>
        obtain ⟨st1, c⟩ := r1
        simp only [hc, Except.ok.injEq, Prod.mk.injEq] at h
        obtain ⟨h1, _⟩ := h
        subst h1
        exact sd_of_create0 hc

theorem sd_of_subfind (follow_symlinks allow_indexing : Bool) :
    ∀ (name : List String) (st st' : State F) (p : Nat) (r : Option Nat),
      prop_subfind st p name follow_symlinks allow_indexing = .ok (st', r) →
      Steady st st' := by
  intro name
  induction name with
  | nil =>
    intro st st' p r h
    unfold prop_subfind at h
    split at h
    · split at h
      · cases h
      · cases h; exact Steady.sd_refl _
    · cases h; exact Steady.sd_refl _
  | cons n rest ih =>
    intro st st' p r h
    unfold prop_subfind at h
    split at h
    · cases h
    · next p1 _ =>
      cases he : subfind_enter st p1 with
      | error e => simp [he] at h
      | ok o =>
        cases o with
        | none => simp only [he] at h; cases h; exact Steady.sd_refl _
        | some st1 =>
          simp only [he] at h
          have n1 := sd_of_subfind_enter he
          cases hc : subfind_child st1 p1 n allow_indexing with
          | error e => simp [hc, subfind_next] at h
          | ok r1 =>
            obtain ⟨st2, c⟩ := r1
            have n2 := n1.sd_trans (sd_of_subfind_child hc)
            cases c with
            | none =>
              simp only [hc, subfind_next, Except.ok.injEq, Prod.mk.injEq] at h
              obtain ⟨h1, _⟩ := h
              subst h1
              exact n2
            | some c =>
              simp only [hc, subfind_next] at h
              exact n2.sd_trans (ih _ _ _ _ h)

theorem sd_of_relink_one [CFloat F] {src : Nat} {skipme : Option Nat} {t : Nat}
    {st st' : State F} {pnq pnq' : prop_notify_queue F}
    (h : relink_one src skipme t st pnq = .ok (st', pnq')) : Steady st st' := by
  unfold relink_one at h
  split at h
  · cases h; exact Steady.sd_refl _
  · dsimp only at h
    split at h
    · cases h
    · next st2 equal hd =>
      have s2 : Steady st st2 := by
        split at hd
        · next v _ =>
          split at hd
          · cases hd
          · next st1 hf =>
            have s1 : Steady st st1 := by
              split at hf
              · exact sd_of_notify_void hf
              · cases hf; exact Steady.sd_refl _
            split at hd
            · cases hd
            · split at hd
              · cases hd
              · cases hd
                exact s1.sd_trans (Steady.sd_setNode st1 v _ (Or.inl rfl) id id)
        · cases hd; exact Steady.sd_refl _
      have s4 : Steady st2 ((st2.setNode src { st2.nodes src with
          hp_value_subscriptions := t :: (st2.nodes src).hp_value_subscriptions }).setSub t
          { (st2.setNode src { st2.nodes src with
              hp_value_subscriptions := t :: (st2.nodes src).hp_value_subscriptions }).subs t with
            hps_value_prop := some src }) := by
        have a : Steady st2 (st2.setNode src { st2.nodes src with
            hp_value_subscriptions := t :: (st2.nodes src).hp_value_subscriptions }) :=
          Steady.sd_setNode st2 src _ (Or.inl rfl) id id
        exact a.sd_trans (Steady.sd_setSub _ _ _)
      generalize (st2.setNode src { st2.nodes src with
          hp_value_subscriptions := t :: (st2.nodes src).hp_value_subscriptions }).setSub t
          { (st2.setNode src { st2.nodes src with
              hp_value_subscriptions := t :: (st2.nodes src).hp_value_subscriptions }).subs t with
            hps_value_prop := some src } = st4 at h s4
      split at h
      · cases h
      · next st5 hm =>
        have s5 : Steady st4 st5 := by
          split at hm
          · exact sd_of_monitor_active _ _ _ hm
          · cases hm; exact Steady.sd_refl _
        have s05 := s2.sd_trans (s4.sd_trans s5)
        split at h
        · cases h; exact s05
        · split at h
          · cases h
          · next st7 pnq1 hb =>
            have b1 := sd_build_notify_value hb
            have s7 := s05.sd_trans ((Steady.sd_setSub st5 t
              { st5.subs t with hps_pending_unlink := pnq.isSome }).sd_trans b1)
            split at h
            · split at h
              · cases h
              · next st8 ha =>
                cases h
                exact s7.sd_trans (sd_of_subscribe_add_childs _ _ _ _ _ _ ha)
            · cases h; exact s7

theorem sd_of_relink_subs [CFloat F] (src : Nat) (skipme : Option Nat) :
    ∀ (l : List Nat) (st st' : State F) (pnq pnq' : prop_notify_queue F),
      relink_subs src skipme l st pnq = .ok (st', pnq') → Steady st st' := by
  intro l
  induction l with
  | nil => intro st st' pnq pnq' h; cases h; exact Steady.sd_refl _
  | cons t rest ih =>
    intro st st' pnq pnq' h
    unfold relink_subs at h
    split at h
    · cases h
    · next st1 pnq1 h1 => exact (sd_of_relink_one h1).sd_trans (ih _ _ _ _ h)

theorem sd_of_relink_childs
    (recur : State F → Nat → Nat → prop_notify_queue F →
      Except Fault (State F × prop_notify_queue F))
    (hrec : ∀ st z c q st' q', recur st z c q = .ok (st', q') → Steady st st')
    (src dst : Nat) (skipme no_descend : Option Nat) :
    ∀ (fuel : Nat) (st st' : State F) (c : Option Nat) (pnq pnq' : prop_notify_queue F),
      relink_childs recur src dst skipme no_descend fuel st c pnq = .ok (st', pnq') →
      Steady st st' := by
  intro fuel
  induction fuel with
  | zero => intro st st' c pnq pnq' h; cases c <;> cases h
  | succ fuel ih =>
    intro st st' c pnq pnq' h
    cases c with
    | none => unfold relink_childs at h; cases h; exact Steady.sd_refl _
    | some c =>
      unfold relink_childs at h
      dsimp only at h
      split at h
      · cases h
      · next st1 pnq1 hb =>
        have body : Steady st st1 := by
          split at hb
          · cases hb; exact Steady.sd_refl _
          · next name _ =>
            split at hb
            · cases hb; exact Steady.sd_refl _
            · split at hb
              · cases hb
              · next st2 z hc =>
                have n2 := sd_of_create0 hc
                split at hb
                · cases hb
                · next st3 hm =>
                  have n3 : Steady st st3 := by
                    split at hm
                    · exact n2.sd_trans (sd_make_dir hm)
                    · cases hm; exact n2
                  exact n3.sd_trans (hrec _ _ _ _ _ _ hb)
        exact body.sd_trans (ih _ _ _ _ _ h)

theorem sd_of_relink_subscriptions [CFloat F] :
    ∀ (fuel : Nat) (st st' : State F) (src dst : Nat) (skipme : Option Nat)
      (pnq pnq' : prop_notify_queue F) (no_descend : Option Nat),
      relink_subscriptions fuel st src dst skipme pnq no_descend = .ok (st', pnq') →
      Steady st st' := by
  intro fuel
  induction fuel with
  | zero => intro st st' src dst skipme pnq pnq' nd h; cases h
  | succ fuel ih =>
    intro st st' src0 dst skipme pnq pnq' nd h
    unfold relink_subscriptions at h
    split at h
    · cases h
    · next src _ =>
      split at h
      · cases h
      · next st1 pnq1 hs =>
        have n1 := sd_of_relink_subs _ _ _ _ _ _ _ hs
        split at h
        · exact n1.sd_trans (sd_of_relink_childs _
            (fun a z c q a' q' hr => ih a a' z c skipme q q' none hr)
            _ _ _ _ _ _ _ _ _ _ h)
        · cases h; exact n1

theorem sd_of_relink_targets [CFloat F] (fuel : Nat) (dst : Nat)
    (skipme no_descend : Option Nat) :
    ∀ (l : List Nat) (st st' : State F),
      relink_targets fuel dst skipme no_descend l st = .ok st' → Steady st st' := by
  intro l
  induction l with
  | nil => intro st st' h; cases h; exact Steady.sd_refl _
  | cons t rest ih =>
    intro st st' h
    unfold relink_targets at h
    split at h
    · cases h
    · next st1 q1 h1 =>
      exact (sd_of_relink_subscriptions _ _ _ _ _ _ _ _ _ h1).sd_trans (ih _ _ h)

theorem OriginsKept.og_call_direct (st : State F) (n : prop_notify_t F) :
    OriginsKept st (call_direct st n) := OriginsKept.og_refl st

theorem OriginsKept.og_ref_inc (st : State F) (p : Nat) : OriginsKept st (prop_ref_inc st p) :=
  (Steady.sd_ref_inc st p).kept

theorem OriginsKept.og_alloc (st : State F) (sb : prop_sub_t) :
    OriginsKept st { st with
      subs := fun q => if q = st.nsubs then sb else st.subs q, nsubs := st.nsubs + 1 } :=
  OriginsKept.og_refl st

theorem og_notify_value {st st' : State F} {p : Nat} {skipme : Option Nat}
    {how : Int} (h : prop_notify_value st p skipme how = .ok st') : OriginsKept st st' :=
  (sd_notify_value h).kept

theorem og_notify_child (child : Option Nat) (event : prop_event_t)
    (skipme : Option Nat) (flags : Int) (l : List Nat) (st st' : State F)
    (h : prop_notify_child child event skipme flags l st = .ok st') : OriginsKept st st' :=
  (sd_notify_child child event skipme flags l st st' h).kept

theorem og_of_notify_child2 (child : Nat) (sibling : Option Nat)
    (event : prop_event_t) (skipme : Option Nat) (flags : Int) (l : List Nat) (st st' : State F)
    (h : prop_notify_child2 child sibling event skipme flags l st = .ok st') :
    OriginsKept st st' :=
  (sd_of_notify_child2 child sibling event skipme flags l st st' h).kept

theorem og_build_notify_value_none {st st' : State F} {t : Nat} {direct : Bool} {p : Nat}
    {pnq pnq' : Option (List (prop_notify_t F))} {how : Int}
    (h : prop_build_notify_value st t direct p pnq how = .ok (st', pnq')) :
    OriginsKept st st' := (sd_build_notify_value h).kept

theorem og_of_build_notify_childv {st st' : State F} {t : Nat} {pv : List Nat}
    {event : prop_event_t} {p2 : Option Nat} {direct : Bool}
    (h : prop_build_notify_childv st t pv event p2 direct = .ok st') : OriginsKept st st' :=
  (Steady.sd_of_sameTree (sameTree_of_build_notify_childv h)).kept

theorem og_of_notify_void {st st' : State F} {t : Nat}
    (h : prop_notify_void st t = .ok st') : OriginsKept st st' := (sd_of_notify_void h).kept

theorem og_of_notify_destroyed {st st' : State F} {t : Nat}
    (h : prop_notify_destroyed st t = .ok st') : OriginsKept st st' :=
  (sd_of_notify_destroyed h).kept

theorem og_of_monitor_active (l : List Nat) (st st' : State F)
    (h : prop_send_subscription_monitor_active l st = .ok st') : OriginsKept st st' :=
  (sd_of_monitor_active l st st' h).kept

theorem og_of_notify_childv (pv : List Nat) (event : prop_event_t)
    (skipme p2 : Option Nat) (l : List Nat) (st st' : State F)
    (h : prop_notify_childv pv event skipme p2 l st = .ok st') : OriginsKept st st' :=
  (sd_of_notify_childv pv event skipme p2 l st st' h).kept

theorem og_of_subscribe_add_childs (t value : Nat) (direct : Bool) (l : List Nat)
    (st st' : State F) (h : subscribe_add_childs t value direct l st = .ok st') :
    OriginsKept st st' := (sd_of_subscribe_add_childs t value direct l st st' h).kept

theorem og_of_ref_dec_locked {st st' : State F} {p : Option Nat}
    (h : prop_ref_dec_locked st p = .ok st') : OriginsKept st st' :=
  (sd_of_ref_dec_locked h).kept

theorem og_of_make_dir {st st' : State F} {p : Nat} {skipme : Option Nat}
    (h : prop_make_dir st p skipme = .ok st') : OriginsKept st st' := (sd_make_dir h).kept

theorem og_of_insert {st st' : State F} {p parent : Nat} {before skipme : Option Nat}
    (h : prop_insert st p parent before skipme = .ok st') : OriginsKept st st' :=
  (sd_of_insert h).kept

theorem og_of_create0 {st st' : State F} {parent c : Nat} {name : Option String}
    {skipme : Option Nat} {noalloc : Bool}
    (h : prop_create0 st parent name skipme noalloc = .ok (st', c)) : OriginsKept st st' :=
  (sd_of_create0 h).kept

theorem og_of_create_ex {st st' : State F} {parent r : Option Nat}
    {name : Option String} {skipme : Option Nat} {noalloc incref : Bool}
    (h : prop_create_ex st parent name skipme noalloc incref = .ok (st', r)) :
    OriginsKept st st' := (sd_of_create_ex h).kept

theorem og_of_create_root_ex (st : State F) (name : Option String) (noalloc : Bool) :
    OriginsKept st (prop_create_root_ex st name noalloc).1 :=
  (sd_of_create_root_ex st name noalloc).kept

theorem og_of_unparent0 {st st' : State F} {p : Nat} {skipme : Option Nat}
    (h : prop_unparent0 st p skipme = .ok st') : OriginsKept st st' := (sd_of_unparent0 h).kept

theorem og_of_destroy_unparent {st st' : State F} {p : Nat}
    (h : destroy_unparent st p = .ok st') : OriginsKept st st' :=
  (sd_of_destroy_unparent h).kept

theorem og_of_move0 {st st' : State F} {p : Nat} {before skipme : Option Nat}
    (h : prop_move0 st p before skipme = .ok st') : OriginsKept st st' := (sd_of_move0 h).kept

theorem og_of_move {st st' : State F} {p : Nat} {before : Option Nat}
    (h : prop_move st p before = .ok st') : OriginsKept st st' := (sd_of_move h).kept

theorem og_of_setv_ex [CFloat F] {st st' : State F} {skipme p : Option Nat}
    {names : List String} {arg : seti_arg}
    (h : prop_setv_ex st skipme p names arg = .ok st') : OriginsKept st st' :=
  (sd_of_setv_ex h).kept

theorem og_of_set_ex [CFloat F] {st st' : State F} {p : Option Nat} {name : Option String}
    {noalloc : Bool} {arg : seti_arg}
    (h : prop_set_ex st p name noalloc arg = .ok st') : OriginsKept st st' :=
  (sd_of_set_ex h).kept

theorem og_of_relink_subscriptions [CFloat F] (fuel : Nat) (st st' : State F) (src dst : Nat)
    (skipme : Option Nat) (pnq pnq' : prop_notify_queue F) (no_descend : Option Nat)
    (h : relink_subscriptions fuel st src dst skipme pnq no_descend = .ok (st', pnq')) :
    OriginsKept st st' :=
  (sd_of_relink_subscriptions fuel st st' src dst skipme pnq pnq' no_descend h).kept

theorem og_of_relink_targets [CFloat F] (fuel : Nat) (dst : Nat)
    (skipme no_descend : Option Nat) (l : List Nat) (st st' : State F)
    (h : relink_targets fuel dst skipme no_descend l st = .ok st') : OriginsKept st st' :=
  (sd_of_relink_targets fuel dst skipme no_descend l st st' h).kept

theorem og_of_subfind (follow_symlinks allow_indexing : Bool) (name : List String)
    (st st' : State F) (p : Nat) (r : Option Nat)
    (h : prop_subfind st p name follow_symlinks allow_indexing = .ok (st', r)) :
    OriginsKept st st' :=
  (sd_of_subfind follow_symlinks allow_indexing name st st' p r h).kept

theorem og_of_courier_create (st : State F) : OriginsKept st (prop_courier_create st).1 :=
  OriginsKept.og_refl st

theorem og_of_flood_flag_on_childs {st st' : State F} {p : Nat}
    {set clr : PropFlags}
    (h : prop_flood_flag_on_childs st p set clr = .ok st') : OriginsKept st st' := by
  unfold prop_flood_flag_on_childs at h
  exact foldlM_og _ (fun a c r hr => og_of_flood_flag _ a r c set clr hr) _ _ _ h

theorem og_of_set_multi {st st' : State F} {p : Nat}
    (h : prop_set_multi st p = .ok st') : OriginsKept st st' := by
  unfold prop_set_multi at h
  split at h
  · cases h; exact OriginsKept.og_refl _
  · dsimp only at h
    have h1 : OriginsKept st (st.setNode p { st.nodes p with
        hp_flags := { (st.nodes p).hp_flags with PROP_MULTI_SUB := true } }) :=
      OriginsKept.og_setNode st p _ (Or.inl rfl)
    split at h
    · exact h1.og_trans (og_of_flood_flag_on_childs h)
    · cases h; exact h1

theorem og_of_subscribe_resolve {st st' : State F} {a : subscribe_args}
    {c v : Option Nat} (h : subscribe_resolve st a = .ok (st', c, v)) :
    OriginsKept st st' := by
  unfold subscribe_resolve at h
  split at h
  · split at h <;> (cases h; exact OriginsKept.og_refl _)
  · cases h
  · next n0 name _ =>
    split at h
    · cases h
    · cases h; exact OriginsKept.og_refl _
    · next p _ =>
      cases h1 : prop_subfind st p name false false with
      | error e => simp [h1] at h
      | ok r1 =>
        obtain ⟨st1, canonical⟩ := r1
        simp only [h1] at h
        cases h2 : prop_subfind st1 p name true false with
        | error e => simp [h2] at h
        | ok r2 =>
          obtain ⟨st2, value⟩ := r2
          simp only [h2, Except.ok.injEq, Prod.mk.injEq] at h
          obtain ⟨e, _⟩ := h
          subst e
          exact (og_of_subfind _ _ _ _ _ _ _ h1).og_trans (og_of_subfind _ _ _ _ _ _ _ h2)

theorem og_of_subscribe_canonical {st st' : State F} {t : Nat}
    {canonical : Option Nat} {b : Bool}
    (h : subscribe_canonical st t canonical = .ok (st', b)) : OriginsKept st st' := by
  unfold subscribe_canonical at h
  split at h
  · cases h; exact OriginsKept.og_refl _
  · next c =>
    dsimp only at h
    have h1 : OriginsKept st (st.setNode c { st.nodes c with
        hp_canonical_subscriptions := t :: (st.nodes c).hp_canonical_subscriptions }) :=
      OriginsKept.og_setNode st c _ (Or.inl rfl)
    generalize hst1 : st.setNode c { st.nodes c with
        hp_canonical_subscriptions := t :: (st.nodes c).hp_canonical_subscriptions } = st1
      at h h1
    have h2 : OriginsKept st1 (if ((st1.subs t).hps_flags.PROP_SUB_SUBSCRIPTION_MONITOR
          && !(st1.nodes c).hp_flags.PROP_MONITORED) = true then
        st1.setNode c { st1.nodes c with
          hp_flags := { (st1.nodes c).hp_flags with PROP_MONITORED := true } } else st1) := by
      split
      · exact OriginsKept.og_setNode st1 c _ (Or.inl rfl)
      · exact OriginsKept.og_refl _
    generalize (if ((st1.subs t).hps_flags.PROP_SUB_SUBSCRIPTION_MONITOR
          && !(st1.nodes c).hp_flags.PROP_MONITORED) = true then
        st1.setNode c { st1.nodes c with
          hp_flags := { (st1.nodes c).hp_flags with PROP_MONITORED := true } } else st1) = st2
      at h h2
    split at h
    · split at h
      · cases h
      · next st3 hm =>
        cases h
        exact h1.og_trans (h2.og_trans (og_of_set_multi hm))
    · cases h
      exact h1.og_trans h2

theorem og_of_subscribe_value {st st' : State F} {t : Nat} {value : Option Nat}
    {direct notify_now : Bool} (h : subscribe_value st t value direct notify_now = .ok st') :
    OriginsKept st st' := by
  unfold subscribe_value at h
  split at h
  · cases h; exact OriginsKept.og_refl _
  · next v =>
    dsimp only at h
    have h1 : OriginsKept st (st.setNode v { st.nodes v with
        hp_value_subscriptions := t :: (st.nodes v).hp_value_subscriptions }) :=
      OriginsKept.og_setNode st v _ (Or.inl rfl)
    generalize st.setNode v { st.nodes v with
        hp_value_subscriptions := t :: (st.nodes v).hp_value_subscriptions } = st1 at h h1
    split at h
    · cases h
    · next st3 hu =>
      have h3 : OriginsKept st1 st3 := by
        split at hu
        · split at hu
          · cases hu
          · next st2 pq hb =>
            have hb' := og_build_notify_value_none hb
            split at hu
            · split at hu
              · exact hb'.og_trans (og_of_build_notify_childv hu)
              · exact hb'.og_trans (og_of_subscribe_add_childs _ _ _ _ _ _ hu)
            · cases hu; exact hb'
        · cases hu; exact OriginsKept.og_refl _
      split at h
      · exact h1.og_trans (h3.og_trans (og_of_monitor_active _ _ _ h))
      · cases h; exact h1.og_trans h3

theorem og_of_subscribe {st st' : State F} {a : subscribe_args} {r : Option Nat}
    (h : prop_subscribe st a = .ok (st', r)) : OriginsKept st st' := by
  unfold prop_subscribe at h
  dsimp only at h
  split at h
  · cases h
  · next st1 canonical0 value0 hr =>
    have n1 := og_of_subscribe_resolve hr
    split at h
    · cases h
    · cases h; exact n1
    · split at h
      · cases h
      · next st4 act hc =>
        have s4 := og_of_subscribe_canonical hc
        split at h
        · cases h
        · next st5 hv =>
          have s5 := og_of_subscribe_value hv
          split at h
          · cases h
          · next st6 ha =>
            have s6 : OriginsKept st5 st6 := by
              split at ha
              · split at ha
                · exact og_of_monitor_active _ _ _ ha
                · cases ha; exact OriginsKept.og_refl _
              · cases ha; exact OriginsKept.og_refl _
            have n3 : OriginsKept st st6 := by
              refine n1.og_trans (OriginsKept.og_trans ?_ (s4.og_trans (s5.og_trans s6)))
              exact (OriginsKept.og_alloc st1 _).og_trans
                (OriginsKept.og_setCourier _ _ _)
            split at h
            · split at h
              · cases h
                exact n3.og_trans (OriginsKept.og_call_direct _ _)
              · split at h
                · cases h
                · next st7 hd =>
                  cases h
                  exact n3.og_trans (og_of_notify_destroyed hd)
            · cases h; exact n3

theorem og_of_remove_from_originator
    (destroy : State F → Nat → Except Fault (State F × Bool))
    (hd : ∀ st p st' b, destroy st p = .ok (st', b) → OriginsKept st st')
    {st st' : State F} {p : Nat}
    (h : prop_remove_from_originator destroy st p = .ok st') : OriginsKept st st' := by
  unfold prop_remove_from_originator at h
  split at h
  · cases h
  · next o _ =>
    split at h
    · cases h
    · next l _ =>
      dsimp only at h
      have n1 : OriginsKept st (st.setNode o { st.nodes o with hp_targets := l }) :=
        OriginsKept.og_setNode st o _ (Or.inl rfl)
      split at h
      · cases h
      · next st2 hr =>
        cases h
        have n2 : OriginsKept st st2 := by
          split at hr
          · split at hr
            · cases hr
            · next st3 b hd3 => cases hr; exact n1.og_trans (hd _ _ _ _ hd3)
          · cases hr; exact n1
        exact n2.og_trans (OriginsKept.og_setNode st2 p _ (Or.inr rfl))

theorem og_of_unlink0 [CFloat F]
    (destroy : State F → Nat → Except Fault (State F × Bool))
    (hd : ∀ st p st' b, destroy st p = .ok (st', b) → OriginsKept st st')
    {fuel : Nat} {st st' : State F} {p : Nat} {skipme : Option Nat}
    {pnq pnq' : prop_notify_queue F}
    (h : prop_unlink0 destroy fuel st p skipme pnq = .ok (st', pnq')) :
    OriginsKept st st' := by
  unfold prop_unlink0 at h
  split at h
  · cases h
  · next st1 hr =>
    exact (og_of_remove_from_originator destroy hd hr).og_trans
      (og_of_relink_subscriptions _ _ _ _ _ _ _ _ _ h)

theorem og_of_destroy_child
    (destroy : State F → Nat → Except Fault (State F × Bool))
    (hd : ∀ st p st' b, destroy st p = .ok (st', b) → OriginsKept st st')
    {st st' : State F} {p c : Nat}
    (h : prop_destroy_child destroy st p c = .ok st') : OriginsKept st st' := by
  unfold prop_destroy_child at h
  split at h
  · cases h
  · next st1 hd1 => cases h; exact hd _ _ _ _ hd1
  · next st1 hd1 =>
    have n1 := hd _ _ _ _ hd1
    split at h
    · cases h
    · next st2 hn2 =>
      have n2 := n1.og_trans (og_notify_child _ _ _ _ _ _ _ hn2)
      split at h
      · cases h
      · next cs hcs =>
        cases h
        exact n2.og_trans ((OriginsKept.og_setChilds st2 p cs).og_trans
          (OriginsKept.og_setNode _ c _ (by exact Or.inl rfl)))

theorem og_of_destroy_childs_loop
    (destroy : State F → Nat → Except Fault (State F × Bool))
    (hd : ∀ st p st' b, destroy st p = .ok (st', b) → OriginsKept st st')
    (p : Nat) :
    ∀ (fuel : Nat) (st st' : State F) (c : Option Nat),
      destroy_childs_loop destroy p fuel st c = .ok st' → OriginsKept st st' := by
  intro fuel
  induction fuel with
  | zero => intro st st' c h; cases c <;> cases h
  | succ fuel ih =>
    intro st st' c h
    cases c with
    | none => unfold destroy_childs_loop at h; cases h; exact OriginsKept.og_refl _
    | some c =>
      unfold destroy_childs_loop at h
      dsimp only at h
      split at h
      · cases h
      · next st1 h1 => exact (og_of_destroy_child destroy hd h1).og_trans (ih _ _ _ h)

theorem og_of_destroy_canonical_subs (p : Nat) :
    ∀ (l : List Nat) (st st' : State F),
      destroy_canonical_subs p l st = .ok st' → OriginsKept st st' := by
  intro l
  induction l with
  | nil => intro st st' h; cases h; exact OriginsKept.og_refl _
  | cons t rest ih =>
    intro st st' h
    unfold destroy_canonical_subs at h
    dsimp only at h
    have h2 : OriginsKept st ((st.setNode p { st.nodes p with
          hp_canonical_subscriptions := rest }).setSub
        t { (st.setNode p { st.nodes p with hp_canonical_subscriptions := rest }).subs t with
          hps_canonical_prop := none }) :=
      (OriginsKept.og_setNode st p _ (by exact Or.inl rfl)).og_trans (OriginsKept.og_setSub _ _ _)
    split at h
    · split at h
      · cases h
      · next st3 h3 =>
        exact h2.og_trans ((og_of_notify_destroyed h3).og_trans (ih _ _ h))
    · exact h2.og_trans (ih _ _ h)

theorem og_of_destroy_value_subs (p : Nat) :
    ∀ (l : List Nat) (st st' : State F),
      destroy_value_subs p l st = .ok st' → OriginsKept st st' := by
  intro l
  induction l with
  | nil => intro st st' h; cases h; exact OriginsKept.og_refl _
  | cons t rest ih =>
    intro st st' h
    unfold destroy_value_subs at h
    split at h
    · cases h
    · next st1 h1 =>
      dsimp only at h
      refine (og_of_notify_void h1).og_trans (OriginsKept.og_trans ?_ (ih _ _ h))
      exact (OriginsKept.og_setNode st1 p _ (by exact Or.inl rfl)).og_trans (OriginsKept.og_setSub _ _ _)

theorem og_of_destroy_targets (unlink : State F → Nat → Except Fault (State F))
    (hu : ∀ st c st', unlink st c = .ok st' → OriginsKept st st') (p : Nat) :
    ∀ (fuel : Nat) (st st' : State F),
      destroy_targets unlink p fuel st = .ok st' → OriginsKept st st' := by
  intro fuel
  induction fuel with
  | zero => intro st st' h; cases h
  | succ fuel ih =>
    intro st st' h
    unfold destroy_targets at h
    split at h
    · cases h; exact OriginsKept.og_refl _
    · split at h
      · cases h
      · next st1 h1 => exact (hu _ _ _ h1).og_trans (ih _ _ h)

theorem og_of_destroy0 [CFloat F] :
    ∀ (fuel : Nat) (st : State F) (p : Nat) (st' : State F) (b : Bool),
      prop_destroy0 fuel st p = .ok (st', b) → OriginsKept st st' := by
  intro fuel
  induction fuel with
  | zero => intro st p st' b h; cases h
  | succ fuel ih =>
    intro st p st' b h
    have hd : ∀ (a : State F) (q : Nat) (a' : State F) (b : Bool),
        (fun a q => prop_destroy0 fuel a q) a q = .ok (a', b) → OriginsKept a a' :=
      fun a q a' b hq => ih a q a' b hq
    unfold prop_destroy0 at h
    split at h
    · cases h; exact OriginsKept.og_refl _
    · dsimp only at h
      have n1 : OriginsKept st
          (st.setNode p { st.nodes p with hp_xref := ((st.nodes p).hp_xref - 1) % 256 }) :=
        OriginsKept.og_setNode st p _ (by exact Or.inl rfl)
      generalize st.setNode p { st.nodes p with hp_xref := ((st.nodes p).hp_xref - 1) % 256 } = st1
        at h n1
      split at h
      · cases h; exact n1
      · split at h
        · cases h
        · next st2 h2 =>
          have n2 := n1.og_trans (og_of_destroy_childs_loop _ hd p _ _ _ _ h2)
          have n3 : OriginsKept st (st2.setU p .PROP_ZOMBIE) :=
            n2.og_trans (OriginsKept.og_setU st2 p _)
          generalize st2.setU p .PROP_ZOMBIE = st3 at h n3
          split at h
          · cases h
          · next st4 h4 =>
            have n4 := n3.og_trans (og_of_destroy_canonical_subs _ _ _ _ h4)
            split at h
            · cases h
            · next st5 h5 =>
              have n5 := n4.og_trans (og_of_destroy_value_subs _ _ _ _ h5)
              split at h
              · cases h
              · next st6 h6 =>
                have n6 : OriginsKept st st6 := by
                  refine n5.og_trans (og_of_destroy_targets _ ?_ p _ _ _ h6)
                  intro a c a' hs
                  split at hs
                  · cases hs
                  · next s1 q1 hu =>
                    cases hs
                    exact og_of_unlink0 _ hd hu
                split at h
                · cases h
                · next st7 h7 =>
                  have n7 : OriginsKept st st7 := by
                    split at h7
                    · exact n6.og_trans (og_of_remove_from_originator _ hd h7)
                    · cases h7; exact n6
                  split at h
                  · cases h
                  · next st8 h8 =>
                    have n8 := n7.og_trans (og_of_destroy_unparent h8)
                    have n9 : OriginsKept st
                        (st8.setNode p { st8.nodes p with hp_name := none }) :=
                      n8.og_trans (OriginsKept.og_setNode st8 p _ (by exact Or.inl rfl))
                    split at h
                    · cases h
                    · next st10 h10 =>
                      cases h
                      exact n9.og_trans (og_of_ref_dec_locked h10)

theorem og_of_destroy [CFloat F] {fuel : Nat} {st st' : State F} {p : Option Nat}
    (h : prop_destroy fuel st p = .ok st') : OriginsKept st st' := by
  unfold prop_destroy at h
  split at h
  · cases h; exact OriginsKept.og_refl _
  · split at h
    · cases h
    · next st1 b h1 => cases h; exact og_of_destroy0 _ _ _ _ _ h1

theorem og_of_link_parents [CFloat F] (fuel0 : Nat) (skipme : Option Nat) :
    ∀ (fuel : Nat) (st st' : State F) (dst : Nat) (no_descend : Option Nat),
      link_parents fuel0 skipme fuel st dst no_descend = .ok st' → OriginsKept st st' := by
  intro fuel
  induction fuel with
  | zero => intro st st' dst nd h; cases h
  | succ fuel ih =>
    intro st st' dst nd h
    unfold link_parents at h
    split at h
    · cases h; exact OriginsKept.og_refl _
    · split at h
      · cases h
      · next st1 h1 =>
        exact (og_of_relink_targets _ _ _ _ _ _ _ h1).og_trans (ih _ _ _ _ h)

theorem og_of_unlink_parents [CFloat F] (fuel0 : Nat) (skipme : Option Nat) :
    ∀ (fuel : Nat) (st st' : State F) (p : Nat),
      unlink_parents fuel0 skipme fuel st p = .ok st' → OriginsKept st st' := by
  intro fuel
  induction fuel with
  | zero => intro st st' p h; cases h
  | succ fuel ih =>
    intro st st' p h
    unfold unlink_parents at h
    split at h
    · cases h; exact OriginsKept.og_refl _
    · split at h
      · cases h
      · next st1 h1 =>
        exact (og_of_relink_targets _ _ _ _ _ _ _ h1).og_trans (ih _ _ _ h)

theorem og_of_link_flush (l : List (prop_notify_t F)) (st st' : State F)
    (h : link_flush l st = .ok st') : OriginsKept st st' :=
  OriginsKept.og_of_tame (tame_of_link_flush l st st' h)

theorem og_of_unlink_ex [CFloat F] {fuel : Nat} {st st' : State F}
    {p skipme : Option Nat}
    (h : prop_unlink_ex fuel st p skipme = .ok st') : OriginsKept st st' := by
  have hd : ∀ (a : State F) (q : Nat) (a' : State F) (b : Bool),
      (fun a q => prop_destroy0 fuel a q) a q = .ok (a', b) → OriginsKept a a' :=
    fun a q a' b hq => og_of_destroy0 fuel a q a' b hq
  unfold prop_unlink_ex at h
  split at h
  · cases h; exact OriginsKept.og_refl _
  · next p =>
    split at h
    · cases h; exact OriginsKept.og_refl _
    · dsimp only at h
      split at h
      · cases h
      · next st1 hu =>
        refine OriginsKept.og_trans ?_ (og_of_unlink_parents _ _ _ _ _ _ h)
        split at hu
        · split at hu
          · cases hu
          · next s1 q1 hu1 => cases hu; exact og_of_unlink0 _ hd hu1
        · cases hu; exact OriginsKept.og_refl _

/-- The loop of prop_link0 that follows the originators of src walks as
  `follow_originators` does when none of its assertions fails. -/
theorem follow_of_link_follow (dst : Nat) (st : State F) :
    ∀ (fuel : Nat) (src r : Nat), link_follow dst fuel st src = .ok r →
      follow_originators fuel st src = .ok r := by
  intro fuel
  induction fuel with
  | zero => intro src r h; cases h
  | succ fuel ih =>
    intro src r h
    unfold link_follow at h
    unfold follow_originators
    split at h
    · exact h
    · next o e =>
      split at h
      · cases h
      · exact ih _ _ h

/-- The step of prop_link0 that makes src the originator of dst keeps the walks along the
  originators finite when the loop that follows the originators of src returns. -/
theorem acyclic_of_link_step {st st5 : State F} {src dst : Nat} (ha : Acyclic st)
    (hd : (st5.nodes dst).hp_originator = some src)
    (ho : ∀ q, q ≠ dst → (st5.nodes q).hp_originator = (st.nodes q).hp_originator)
    {fuel r : Nat} (hf : link_follow dst fuel st5 src = .ok r) : Acyclic st5 := by
  have hsrc := follow_of_link_follow dst st5 fuel src r hf
  have key : ∀ (n : Nat) (p r0 : Nat), follow_originators n st p = .ok r0 →
      ∃ m r', follow_originators m st5 p = .ok r' := by
    intro n
    induction n with
    | zero => intro p r0 h; cases h
    | succ n ih =>
      intro p r0 h
      by_cases e : p = dst
      · subst e
        refine ⟨fuel + 1, r, ?_⟩
        unfold follow_originators
        rw [hd]
        exact hsrc
      · unfold follow_originators at h
        cases hp : (st.nodes p).hp_originator with
        | none =>
          refine ⟨1, p, ?_⟩
          unfold follow_originators
          rw [ho p e, hp]
        | some o =>
          rw [hp] at h
          obtain ⟨m, r', hm⟩ := ih o r0 h
          refine ⟨m + 1, r', ?_⟩
          unfold follow_originators
          rw [ho p e, hp]
          exact hm
  intro p
  obtain ⟨n, r0, h0⟩ := ha p
  exact key n p r0 h0

/-- The function prop_link0 keeps the walks along the originators finite: the assertion
  in its loop over the originators of src fails when the new link closes a cycle. -/
theorem acyclic_of_link0 [CFloat F] {fuel : Nat} {st st' : State F} {src dst : Nat}
    {skipme : Option Nat} {hard : prop_link_hard}
    (h : prop_link0 fuel st src dst skipme hard = .ok st') (ha : Acyclic st) : Acyclic st' := by
  have hd : ∀ (a : State F) (q : Nat) (a' : State F) (b : Bool),
      (fun a q => prop_destroy0 fuel a q) a q = .ok (a', b) → OriginsKept a a' :=
    fun a q a' b hq => og_of_destroy0 fuel a q a' b hq
  unfold prop_link0 at h
  split at h
  · cases h
  · next hne =>
    split at h
    · cases h; exact ha
    · dsimp only at h
      split at h
      · cases h
      · next st1 pnq hu =>
        have n1 : OriginsKept st st1 := by
          split at hu
          · exact og_of_unlink0 _ hd hu
          · cases hu; exact OriginsKept.og_refl _
        split at h
        · cases h
        · next st3 ha3 =>
          have n3 : OriginsKept st st3 := by
            split at ha3
            · split at ha3
              · cases ha3
                exact n1.og_trans ((OriginsKept.og_setNode st1 dst _
                  (by exact Or.inl rfl)).og_trans
                  (OriginsKept.og_setNode _ src _ (by exact Or.inl rfl)))
              · cases ha3
            · cases ha3; exact n1
          have a3 : Acyclic st3 := ha.of_kept n3
          split at h
          · cases h
          · next src1 hf =>
            have a5 := acyclic_of_link_step a3
              (by rw [setNode_nodes, if_neg (Ne.symm hne), setNode_nodes, if_pos rfl])
              (by
                intro q hq
                rw [setNode_nodes]
                split
                · next e => subst e; rw [setNode_nodes, if_neg hq]
                · rw [setNode_nodes, if_neg hq]) hf
            split at h
            · cases h
            · next st6 q6 h6 =>
              have n6 := og_of_relink_subscriptions _ _ _ _ _ _ _ _ _ h6
              split at h
              · cases h
              · next st7 h7 =>
                have n7 := n6.og_trans (og_of_link_parents _ _ _ _ _ _ _ h7)
                exact a5.of_kept (n7.og_trans (og_of_link_flush _ _ _ h))

theorem og_of_set_parent0 {st st' : State F} {p parent : Nat}
    {before skipme : Option Nat} {r : Int}
    (h : prop_set_parent0 st p parent before skipme = .ok (st', r)) : OriginsKept st st' := by
  unfold prop_set_parent0 at h
  split at h
  · cases h; exact OriginsKept.og_refl _
  · split at h
    · cases h
    · next st1 hm =>
      have n1 := og_of_make_dir hm
      split at h
      · split at h
        · cases h
        · next st2 hu =>
          have n2 := n1.og_trans (og_of_unparent0 hu)
          dsimp only at h
          have n3 : OriginsKept st (st2.setNode p { st2.nodes p with hp_parent := some parent }) :=
            n2.og_trans (OriginsKept.og_setNode st2 p _ (by exact Or.inl rfl))
          generalize st2.setNode p { st2.nodes p with hp_parent := some parent } = st3 at h n3
          split at h
          · cases h
          · next st4 hf =>
            have n4 : OriginsKept st st4 := by
              split at hf
              · exact n3.og_trans (og_of_flood_flag _ _ _ _ _ _ hf)
              · cases hf; exact n3
            split at h
            · cases h
            · next st5 hi =>
              cases h
              exact n4.og_trans (og_of_insert hi)
      · split at h
        · cases h
        · next st2 hv =>
          cases h
          exact n1.og_trans (og_of_move0 hv)

theorem og_of_set_parent_ex {st st' : State F} {p : Nat}
    {parent before skipme : Option Nat} {r : Int}
    (h : prop_set_parent_ex st p parent before skipme = .ok (st', r)) :
    OriginsKept st st' := by
  unfold prop_set_parent_ex at h
  split at h
  · cases h; exact OriginsKept.og_refl _
  · exact og_of_set_parent0 h

theorem og_of_set_parent_vector_destroy [CFloat F] (fuel : Nat) :
    ∀ (l : List Nat) (st st' : State F),
      set_parent_vector_destroy fuel l st = .ok st' → OriginsKept st st' := by
  intro l
  induction l with
  | nil => intro st st' h; cases h; exact OriginsKept.og_refl _
  | cons p rest ih =>
    intro st st' h
    unfold set_parent_vector_destroy at h
    split at h
    · cases h
    · next st1 b h1 => exact (og_of_destroy0 _ _ _ _ _ h1).og_trans (ih _ _ h)

theorem og_of_set_parent_vector_insert (parent : Nat) (before : Option Nat) :
    ∀ (l : List Nat) (st st' : State F),
      set_parent_vector_insert parent before l st = .ok st' → OriginsKept st st' := by
  intro l
  induction l with
  | nil => intro st st' h; cases h; exact OriginsKept.og_refl _
  | cons p rest ih =>
    intro st st' h
    unfold set_parent_vector_insert at h
    dsimp only at h
    have n1 : OriginsKept st (st.setNode p { st.nodes p with hp_parent := some parent }) :=
      OriginsKept.og_setNode st p _ (by exact Or.inl rfl)
    generalize st.setNode p { st.nodes p with hp_parent := some parent } = st1 at h n1
    split at h
    · cases h
    · next st2 hf =>
      have n2 : OriginsKept st st2 := by
        split at hf
        · exact n1.og_trans (og_of_flood_flag _ _ _ _ _ _ hf)
        · cases hf; exact n1
      exact n2.og_trans ((OriginsKept.og_setChilds st2 parent _).og_trans (ih _ _ h))

theorem og_of_set_parent_vector [CFloat F] {fuel : Nat} {st st' : State F}
    {pv : List Nat} {parent before skipme : Option Nat}
    (h : prop_set_parent_vector fuel st pv parent before skipme = .ok st') :
    OriginsKept st st' := by
  unfold prop_set_parent_vector at h
  split at h
  · exact og_of_set_parent_vector_destroy _ _ _ _ h
  · split at h
    · cases h
    · next st1 hm =>
      split at h
      · cases h
      · next st2 hi =>
        exact ((og_of_make_dir hm).og_trans
          (og_of_set_parent_vector_insert _ _ _ _ _ hi)).og_trans
          (og_of_notify_childv _ _ _ _ _ _ _ h)

theorem og_of_clr_multi {st st' : State F} {p : Nat}
    (h : prop_clr_multi st p = .ok st') : OriginsKept st st' := by
  unfold prop_clr_multi at h
  dsimp only at h
  have h1 : OriginsKept st (st.setNode p { st.nodes p with
      hp_flags := { (st.nodes p).hp_flags with PROP_MULTI_SUB := false } }) :=
    OriginsKept.og_setNode st p _ (by exact Or.inl rfl)
  split at h
  · exact h1.og_trans (og_of_flood_flag_on_childs h)
  · cases h; exact h1

theorem og_of_xref_addref {st st' : State F} {p : Option Nat}
    (h : prop_xref_addref st p = .ok st') : OriginsKept st st' := by
  unfold prop_xref_addref at h
  split at h
  · cases h; exact OriginsKept.og_refl _
  · split at h
    · cases h; exact OriginsKept.og_setNode st _ _ (by exact Or.inl rfl)
    · cases h

theorem og_of_select_ex {st st' : State F} {p : Nat} {extra skipme : Option Nat}
    (h : prop_select_ex st p extra skipme = .ok st') : OriginsKept st st' := by
  unfold prop_select_ex at h
  split at h
  · cases h; exact OriginsKept.og_refl _
  · split at h
    · cases h; exact OriginsKept.og_refl _
    · split at h
      · cases h
      · split at h
        · cases h
        · next st1 hn =>
          cases h
          exact (og_of_notify_child2 _ _ _ _ _ _ _ _ hn).og_trans
            (OriginsKept.og_setSelected st1 _ _)

theorem og_of_unselect_ex {st st' : State F} {parent : Nat} {skipme : Option Nat}
    (h : prop_unselect_ex st parent skipme = .ok st') : OriginsKept st st' := by
  unfold prop_unselect_ex at h
  split at h
  · split at h
    · cases h
    · next st1 hn =>
      cases h
      exact (og_notify_child _ _ _ _ _ _ _ hn).og_trans
        (OriginsKept.og_setSelected st1 _ _)
  · cases h; exact OriginsKept.og_refl _

theorem og_of_destroy_childs [CFloat F] {fuel : Nat} {st st' : State F}
    {p : Option Nat} (h : prop_destroy_childs fuel st p = .ok st') : OriginsKept st st' := by
  unfold prop_destroy_childs at h
  split at h
  · cases h; exact OriginsKept.og_refl _
  · split at h
    · exact og_of_destroy_childs_loop _ (fun a q a' b hq => og_of_destroy0 fuel a q a' b hq)
        _ _ _ _ _ h
    · cases h; exact OriginsKept.og_refl _

theorem og_of_destroy_unnamed_loop
    (destroy : State F → Nat → Except Fault (State F × Bool))
    (hd : ∀ st p st' b, destroy st p = .ok (st', b) → OriginsKept st st')
    (p : Nat) :
    ∀ (fuel : Nat) (st st' : State F) (c : Option Nat),
      destroy_unnamed_loop destroy p fuel st c = .ok st' → OriginsKept st st' := by
  intro fuel
  induction fuel with
  | zero => intro st st' c h; cases c <;> cases h
  | succ fuel ih =>
    intro st st' c h
    cases c with
    | none => unfold destroy_unnamed_loop at h; cases h; exact OriginsKept.og_refl _
    | some c =>
      unfold destroy_unnamed_loop at h
      dsimp only at h
      split at h
      · split at h
        · cases h
        · next st1 h1 => exact (og_of_destroy_child destroy hd h1).og_trans (ih _ _ _ h)
      · exact ih _ _ _ h

theorem og_of_destroy_by_name [CFloat F] {fuel : Nat} {st st' : State F} {p : Nat}
    {name : Option String} (h : prop_destroy_by_name fuel st p name = .ok st') :
    OriginsKept st st' := by
  have hd : ∀ (a : State F) (q : Nat) (a' : State F) (b : Bool),
      (fun a q => prop_destroy0 fuel a q) a q = .ok (a', b) → OriginsKept a a' :=
    fun a q a' b hq => og_of_destroy0 fuel a q a' b hq
  unfold prop_destroy_by_name at h
  split at h
  · split at h
    · exact og_of_destroy_unnamed_loop _ hd _ _ _ _ _ h
    · split at h
      · exact og_of_destroy_child _ hd h
      · cases h; exact OriginsKept.og_refl _
  · cases h; exact OriginsKept.og_refl _

theorem og_of_destroy_first [CFloat F] {fuel : Nat} {st st' : State F} {p : Nat}
    (h : prop_destroy_first fuel st p = .ok st') : OriginsKept st st' := by
  have hd : ∀ (a : State F) (q : Nat) (a' : State F) (b : Bool),
      (fun a q => prop_destroy0 fuel a q) a q = .ok (a', b) → OriginsKept a a' :=
    fun a q a' b hq => og_of_destroy0 fuel a q a' b hq
  unfold prop_destroy_first at h
  split at h
  · split at h
    · exact og_of_destroy_child _ hd h
    · cases h; exact OriginsKept.og_refl _
  · cases h; exact OriginsKept.og_refl _

theorem og_of_mark_fold : ∀ (l : List Nat) (st : State F),
    OriginsKept st (l.foldl (fun acc c => acc.setNode c { acc.nodes c with
      hp_flags := { (acc.nodes c).hp_flags with PROP_MARKED := true } }) st) := by
  intro l
  induction l with
  | nil => intro st; exact OriginsKept.og_refl _
  | cons c rest ih =>
    intro st
    rw [List.foldl_cons]
    exact (OriginsKept.og_setNode st c _ (by exact Or.inl rfl)).og_trans (ih _)

theorem og_of_mark_childs (st : State F) (p : Nat) :
    OriginsKept st (prop_mark_childs st p) := by
  unfold prop_mark_childs
  split
  · exact og_of_mark_fold _ _
  · exact OriginsKept.og_refl _

theorem og_of_unmark (st : State F) (p : Nat) :
    OriginsKept st (prop_unmark st p) := OriginsKept.og_setNode st p _ (by exact Or.inl rfl)

theorem og_of_destroy_marked_loop
    (destroy : State F → Nat → Except Fault (State F × Bool))
    (hd : ∀ st p st' b, destroy st p = .ok (st', b) → OriginsKept st st')
    (p : Nat) :
    ∀ (fuel : Nat) (st st' : State F) (c : Option Nat),
      destroy_marked_loop destroy p fuel st c = .ok st' → OriginsKept st st' := by
  intro fuel
  induction fuel with
  | zero => intro st st' c h; cases c <;> cases h
  | succ fuel ih =>
    intro st st' c h
    cases c with
    | none => unfold destroy_marked_loop at h; cases h; exact OriginsKept.og_refl _
    | some c =>
      unfold destroy_marked_loop at h
      dsimp only at h
      split at h
      · split at h
        · cases h
        · next st1 b h1 => exact (hd _ _ _ _ h1).og_trans (ih _ _ _ h)
      · exact ih _ _ _ h

theorem og_of_destroy_marked_childs [CFloat F] {fuel : Nat} {st st' : State F}
    {p : Nat} (h : prop_destroy_marked_childs fuel st p = .ok st') : OriginsKept st st' := by
  unfold prop_destroy_marked_childs at h
  split at h
  · exact og_of_destroy_marked_loop _
      (fun a q a' b hq => og_of_destroy0 fuel a q a' b hq) _ _ _ _ _ h
  · cases h; exact OriginsKept.og_refl _

theorem og_of_sub_ref_dec_locked (st : State F) (t : Nat) :
    OriginsKept st (prop_sub_ref_dec_locked st t) :=
  OriginsKept.og_setSub st t { st.subs t with hps_refcount := (st.subs t).hps_refcount - 1 }

theorem og_of_unsubscribe0 {st st' : State F} {t : Nat}
    (h : prop_unsubscribe0 st t = .ok st') : OriginsKept st st' := by
  unfold prop_unsubscribe0 at h
  dsimp only at h
  have n1 : OriginsKept st (st.setSub t { st.subs t with hps_zombie := true }) :=
    OriginsKept.og_setSub st t { st.subs t with hps_zombie := true }
  generalize st.setSub t { st.subs t with hps_zombie := true } = st1 at h n1
  have n2 : OriginsKept st (st1.setCourier (st1.subs t).hps_courier
      { st1.couriers (st1.subs t).hps_courier with
        pc_refcount := (st1.couriers (st1.subs t).hps_courier).pc_refcount - 1 }) :=
    n1.og_trans (OriginsKept.og_setCourier st1 _ _)
  generalize st1.setCourier (st1.subs t).hps_courier
      { st1.couriers (st1.subs t).hps_courier with
        pc_refcount := (st1.couriers (st1.subs t).hps_courier).pc_refcount - 1 } = st2 at h n2
  split at h
  · cases h
  · next st3 hv =>
    have n3 : OriginsKept st st3 := by
      split at hv
      · cases hv; exact n2
      · next v _ =>
        split at hv
        · cases hv
        · next l _ =>
          cases hv
          have n2b : OriginsKept st
              (st2.setNode v { st2.nodes v with hp_value_subscriptions := l }) :=
            n2.og_trans (OriginsKept.og_setNode st2 v _ (by exact Or.inl rfl))
          generalize st2.setNode v { st2.nodes v with hp_value_subscriptions := l } = st2b
            at n2b
          exact n2b.og_trans (OriginsKept.og_setSub st2b t
            { st2b.subs t with hps_value_prop := none })
    split at h
    · cases h
    · next st7 hc =>
      cases h
      refine OriginsKept.og_trans ?_ (og_of_sub_ref_dec_locked st7 t)
      split at hc
      · cases hc; exact n3
      · next c _ =>
        split at hc
        · cases hc
        · next l _ =>
          have n4 : OriginsKept st
              (st3.setNode c { st3.nodes c with hp_canonical_subscriptions := l }) :=
            n3.og_trans (OriginsKept.og_setNode st3 c _ (by exact Or.inl rfl))
          generalize st3.setNode c { st3.nodes c with hp_canonical_subscriptions := l } = st4
            at hc n4
          split at hc
          · cases hc
          · next st6 hr =>
            cases hc
            refine OriginsKept.og_trans ?_ (OriginsKept.og_setSub st6 t
              { st6.subs t with hps_canonical_prop := none })
            split at hr
            · split at hr
              · cases hr
              · split at hr
                · cases hr
                  split
                  · exact n4
                  · exact n4.og_trans (OriginsKept.og_setNode st4 c _ (by exact Or.inl rfl))
                · refine OriginsKept.og_trans ?_ (og_of_clr_multi hr)
                  split
                  · exact n4
                  · exact n4.og_trans (OriginsKept.og_setNode st4 c _ (by exact Or.inl rfl))
            · cases hr; exact n4

theorem og_of_unsubscribe {st st' : State F} {t : Option Nat}
    (h : prop_unsubscribe st t = .ok st') : OriginsKept st st' := by
  unfold prop_unsubscribe at h
  split at h
  · cases h; exact OriginsKept.og_refl _
  · exact og_of_unsubscribe0 h


theorem acyclic_of_store_run [CFloat F] {st st' : State F} (c : store_call F)
    (h : c.run st = .ok st') (ha : Acyclic st) : Acyclic st' := by
  cases c <;> simp only [store_call.run] at h
  · cases h; exact ha.of_kept (og_of_create_root_ex st _ _)
  · split at h
    · cases h
    · next st1 r h1 => cases h; exact ha.of_kept (og_of_create_ex h1)
  · exact ha.of_kept (og_of_setv_ex h)
  · exact ha.of_kept (og_of_set_ex h)
  · exact ha.of_kept (og_of_setter_run _ h)
  · split at h
    · cases h
    · next st1 r h1 => cases h; exact ha.of_kept (og_of_subfind _ _ _ _ _ _ _ h1)
  · cases h; exact ha.of_kept (og_of_courier_create st)
  · split at h
    · cases h
    · next st1 r h1 => cases h; exact ha.of_kept (og_of_subscribe h1)
  · exact ha.of_kept (og_of_move h)
  · exact acyclic_of_link0 h ha
  · exact ha.of_kept (og_of_unlink_ex h)
  · exact ha.of_kept (og_of_destroy h)
  · split at h
    · cases h
    · next st1 r h1 => cases h; exact ha.of_kept (og_of_set_parent_ex h1)
  · exact ha.of_kept (og_of_set_parent_vector h)

theorem acyclic_of_api_run [CFloat F] {st st' : State F} (c : api_call F)
    (h : c.run st = .ok st') (ha : Acyclic st) : Acyclic st' := by
  cases c <;> simp only [api_call.run] at h
  · exact acyclic_of_store_run _ h ha
  · exact ha.of_kept (og_of_unsubscribe h)
  · exact ha.of_kept (og_of_select_ex h)
  · exact ha.of_kept (og_of_unselect_ex h)
  · exact ha.of_kept (og_of_unparent0 h)
  · exact ha.of_kept (og_of_destroy_childs h)
  · exact ha.of_kept (og_of_destroy_by_name h)
  · exact ha.of_kept (og_of_destroy_first h)
  · exact ha.of_kept (og_of_xref_addref h)
  · cases h; exact ha.of_kept (og_of_mark_childs st _)
  · cases h; exact ha.of_kept (og_of_unmark st _)
  · exact ha.of_kept (og_of_destroy_marked_childs h)

theorem acyclic_of_run_api [CFloat F] : ∀ (calls : List (api_call F)) (st st' : State F),
    run_api calls st = .ok st' → Acyclic st → Acyclic st' := by
  intro calls
  induction calls with
  | nil => intro st st' h ha; cases h; exact ha
  | cons c rest ih =>
    intro st st' h ha
    unfold run_api at h
    split at h
    · cases h
    · next st1 h1 => exact ih _ _ h (acyclic_of_api_run c h1 ha)

theorem acyclic_empty : Acyclic (State.empty : State F) :=
  fun p => ⟨1, p, rfl⟩

theorem follow_ends (st : State F) : ∀ (n : Nat) (p r : Nat),
    follow_originators n st p = .ok r →
      (st.nodes r).hp_originator = none ∧ ∀ m, n ≤ m → follow_originators m st p = .ok r := by
  intro n
  induction n with
  | zero => intro p r h; cases h
  | succ n ih =>
    intro p r h
    unfold follow_originators at h
    split at h
    · next e =>
      cases h
      refine ⟨e, fun m hm => ?_⟩
      obtain ⟨k, rfl⟩ : ∃ k, m = k + 1 := ⟨m - 1, by omega⟩
      unfold follow_originators
      rw [e]
    · next o e =>
      obtain ⟨h1, h2⟩ := ih o r h
      refine ⟨h1, fun m hm => ?_⟩
      obtain ⟨k, rfl⟩ : ∃ k, m = k + 1 := ⟨m - 1, by omega⟩
      unfold follow_originators
      rw [e]
      exact h2 k (by omega)

/-- C38: in every state reached by calls of the interface that all returned, so that no
  assertion failed, from a state in which the walk along the originators ends from every
  node (the empty store is one), the origin relation is acyclic: from every node p the loop
  `while(p->hp_originator != NULL) p = p->hp_originator`, which prop_subfind,
  relink_subscriptions and prop_link0 run, comes to a node r without originator within some
  number n of steps, and with every larger number of steps allowed it returns the same
  r. -/
theorem origin_walks_end [CFloat F] (calls : List (api_call F)) (st0 st : State F)
    (h0 : Acyclic st0) (h : run_api calls st0 = .ok st) (p : Nat) :
    ∃ n r, follow_originators n st p = .ok r ∧ (st.nodes r).hp_originator = none ∧
      ∀ m, n ≤ m → follow_originators m st p = .ok r := by
  obtain ⟨n, r, hf⟩ := acyclic_of_run_api calls st0 st h h0 p
  exact ⟨n, r, hf, follow_ends st n p r hf⟩

theorem origin_walks_end_witness :
    Acyclic (State.empty : State SmallFloat) ∧
      run_api ex_chain_calls State.empty = .ok ex_chain ∧
      (ex_chain.nodes 2).hp_originator = some 1 ∧ (ex_chain.nodes 1).hp_originator = some 0 ∧
      fault_of (run_api [.store (.link 4 2 0 none .PROP_LINK_NORMAL)] ex_chain)
        = some .assert ∧
      ∃ n r, follow_originators n ex_chain 2 = .ok r ∧ (ex_chain.nodes r).hp_originator = none ∧
        ∀ m, n ≤ m → follow_originators m ex_chain 2 = .ok r :=
  ⟨acyclic_empty, eq_ok_state_after _ (by decide), by decide, by decide, by decide,
    origin_walks_end ex_chain_calls State.empty ex_chain acyclic_empty
      (eq_ok_state_after _ (by decide)) 2⟩

/-! ## C40: the abort of prop_make_dir -/

theorem na_get_notify {st : State F} {s : Nat} (h : get_notify st s = .error .abort) :
    False := by
  unfold get_notify at h
  split at h <;> cases h

theorem na_build_notify_value {st : State F} {s : Nat} {direct : Bool} {p : Nat}
    {pnq : Option (List (prop_notify_t F))} {how : Int} (hz : NoZombie st)
    (h : prop_build_notify_value st s direct p pnq how = .error .abort) : False := by
  unfold prop_build_notify_value at h
  split at h
  · split at h
    · next e he =>
      obtain ⟨x, hx⟩ := direct_value_args_ok (st.nodes p).u how (hz p)
      rw [hx] at he
      cases he
    · cases h
  · split at h
    · next e he => cases h; exact na_get_notify he
    · next st1 hg =>
      dsimp only at h
      split at h
      · next e he =>
        have hz1 : NoZombie (prop_ref_inc st1 p) := by
          unfold get_notify at hg
          split at hg
          · cases hg
          · cases hg
            exact ((Steady.sd_setSub st s _).sd_trans (Steady.sd_ref_inc _ p)).noZombie hz
        obtain ⟨x, hx⟩ := queued_value_args_ok ((prop_ref_inc st1 p).nodes p).u how (hz1 p)
        rw [hx] at he
        cases he
      · split at h <;> cases h

theorem na_notify_value_subs (skipme : Option Nat) (how : Int) :
    ∀ (l : List Nat) (st : State F), NoZombie st →
      notify_value_subs skipme how l st = .error .abort → False := by
  intro l
  induction l with
  | nil => intro st _ h; cases h
  | cons s rest ih =>
    intro st hz h
    unfold notify_value_subs at h
    split at h
    · exact ih st hz h
    · split at h
      · cases h
      · split at h
        · next e he => cases h; exact na_build_notify_value hz he
        · next st1 q1 hb => exact ih st1 ((sd_build_notify_value hb).noZombie hz) h

theorem na_notify_multi_subs (p : Nat) :
    ∀ (l : List Nat) (st : State F), NoZombie st →
      notify_multi_subs p l st = .error .abort → False := by
  intro l
  induction l with
  | nil => intro st _ h; cases h
  | cons s rest ih =>
    intro st hz h
    unfold notify_multi_subs at h
    split at h
    · split at h
      · next e he => cases h; exact na_build_notify_value hz he
      · next st1 q1 hb => exact ih st1 ((sd_build_notify_value hb).noZombie hz) h
    · exact ih st hz h

theorem na_notify_multi_walk :
    ∀ (fuel : Nat) (st : State F) (p : Nat), NoZombie st →
      notify_multi_walk fuel st p = .error .abort → False := by
  intro fuel
  induction fuel with
  | zero => intro st p _ h; cases h
  | succ fuel ih =>
    intro st p hz h
    unfold notify_multi_walk at h
    split at h
    · cases h
    · split at h
      · split at h
        · next e he => cases h; exact na_notify_multi_subs _ _ _ hz he
        · next st1 hm =>
          exact ih st1 _
            ((Steady.sd_of_sameTree (sameTree_of_notify_multi_subs _ _ _ _ hm)).noZombie hz) h
      · exact ih st _ hz h

theorem na_notify_value {st : State F} {p : Nat} {skipme : Option Nat} {how : Int}
    (hz : NoZombie st) (h : prop_notify_value st p skipme how = .error .abort) : False := by
  unfold prop_notify_value at h
  split at h
  · next e he => cases h; exact na_notify_value_subs _ _ _ _ hz he
  · next st1 hv =>
    split at h
    · exact na_notify_multi_walk _ _ _
        ((Steady.sd_of_sameTree (sameTree_of_notify_value_subs _ _ _ _ _ hv)).noZombie hz) h
    · cases h

/-- A node takes a new value that is no zombie and the change is reported. -/
theorem na_setU_notify {st : State F} {p : Nat} {v : prop_value F} {skipme : Option Nat}
    {how : Int} (hz : NoZombie st) (hv : v.hp_type ≠ .PROP_ZOMBIE)
    (h : prop_notify_value (st.setU p v) p skipme how = .error .abort) : False :=
  na_notify_value ((Steady.sd_setU st p v hv).noZombie hz) h

theorem na_build_notify_child {st : State F} {s : Nat} {p : Option Nat}
    {event : prop_event_t} {direct : Bool} {flags : Int}
    (h : prop_build_notify_child st s p event direct flags = .error .abort) : False := by
  unfold prop_build_notify_child at h
  split at h
  · cases h
  · split at h
    · next e he => cases h; exact na_get_notify he
    · cases h

theorem na_notify_child (child : Option Nat) (event : prop_event_t) (skipme : Option Nat)
    (flags : Int) : ∀ (l : List Nat) (st : State F),
      prop_notify_child child event skipme flags l st = .error .abort → False := by
  intro l
  induction l with
  | nil => intro st h; cases h
  | cons s rest ih =>
    intro st h
    unfold prop_notify_child at h
    split at h
    · exact ih st h
    · split at h
      · next e he => cases h; exact na_build_notify_child he
      · exact ih _ h

theorem na_build_notify_child2 {st : State F} {s p : Nat} {extra : Option Nat}
    {event : prop_event_t} {direct : Bool} {flags : Int}
    (h : prop_build_notify_child2 st s p extra event direct flags = .error .abort) :
    False := by
  unfold prop_build_notify_child2 at h
  split at h
  · cases h
  · split at h
    · next e he => cases h; exact na_get_notify he
    · cases h

theorem na_notify_child2 (child : Nat) (sibling : Option Nat) (event : prop_event_t)
    (skipme : Option Nat) (flags : Int) : ∀ (l : List Nat) (st : State F),
      prop_notify_child2 child sibling event skipme flags l st = .error .abort → False := by
  intro l
  induction l with
  | nil => intro st h; cases h
  | cons s rest ih =>
    intro st h
    unfold prop_notify_child2 at h
    split at h
    · exact ih st h
    · split at h
      · next e he => cases h; exact na_build_notify_child2 he
      · exact ih _ h

theorem na_foldlM {α : Type} (f : State F → α → Except Fault (State F))
    (hf : ∀ a c, f a c = .error .abort → False) :
    ∀ (l : List α) (st : State F), List.foldlM f st l = .error .abort → False := by
  intro l
  induction l with
  | nil => intro st h; cases h
  | cons a l ih =>
    intro st h
    rw [List.foldlM_cons] at h
    cases hfa : f st a with
    | error e =>
      rw [hfa] at h
      cases h
      exact hf st a hfa
    | ok st1 =>
      rw [hfa] at h
      exact ih st1 h

theorem na_flood_flag :
    ∀ (fuel : Nat) (st : State F) (p : Nat) (set clr : PropFlags),
      prop_flood_flag fuel st p set clr = .error .abort → False := by
  intro fuel
  induction fuel with
  | zero => intro st p set clr h; cases h
  | succ fuel ih =>
    intro st p set clr h
    unfold prop_flood_flag at h
    dsimp only at h
    split at h
    · exact na_foldlM _ (fun a c hc => ih a c set clr hc) _ _ h
    · cases h

theorem clean_of_unclipped {nd : prop_t F} (hd : nd.hp_type ≠ .PROP_DIR)
    (hz : nd.hp_type ≠ .PROP_ZOMBIE) (hc : nd.hp_flags.PROP_CLIPPED_VALUE = false) :
    prop_clean nd = false := by
  unfold prop_clean
  rw [hc]
  unfold prop_t.hp_type at hd hz
  cases hu : nd.u <;> rw [hu] at hd hz <;> simp [prop_value.hp_type] at hd hz ⊢

theorem na_make_dir {st : State F} {p : Nat} {skipme : Option Nat} (hz : NoZombie st)
    (hc : (st.nodes p).hp_type = .PROP_DIR ∨ (st.nodes p).hp_flags.PROP_CLIPPED_VALUE = false)
    (h : prop_make_dir st p skipme = .error .abort) : False := by
  unfold prop_make_dir at h
  split at h
  · cases h
  · next hd =>
    rcases hc with hc | hc
    · exact hd hc
    · rw [clean_of_unclipped hd (hz p) hc] at h
      exact na_setU_notify hz (by simp [prop_value.hp_type]) h

theorem na_insert {st : State F} {p parent : Nat} {before skipme : Option Nat}
    (h : prop_insert st p parent before skipme = .error .abort) : False := by
  unfold prop_insert at h
  split at h
  · split at h
    · cases h
    · exact na_notify_child2 _ _ _ _ _ _ _ h
  · exact na_notify_child _ _ _ _ _ _ h

theorem na_create0 {st : State F} {parent : Nat} {name : Option String}
    {skipme : Option Nat} {noalloc : Bool} (hz : NoZombie st)
    (hc : (st.nodes parent).hp_type = .PROP_DIR ∨
      (st.nodes parent).hp_flags.PROP_CLIPPED_VALUE = false)
    (h : prop_create0 st parent name skipme noalloc = .error .abort) : False := by
  unfold prop_create0 at h
  split at h
  · cases h
  · split at h
    · next e he => cases h; exact na_make_dir hz hc he
    · next st1 hm =>
      split at h
      · split at h <;> cases h
      · dsimp only at h
        split at h
        · next e he =>
          cases h
          split at he
          · exact na_flood_flag _ _ _ _ _ he
          · cases he
        · split at h
          · next e he => cases h; exact na_insert he
          · cases h

theorem na_create_ex {st : State F} {parent : Option Nat} {name : Option String}
    {skipme : Option Nat} {noalloc incref : Bool} (hz : NoZombie st) (hu : Unclipped st)
    (h : prop_create_ex st parent name skipme noalloc incref = .error .abort) : False := by
  unfold prop_create_ex at h
  split at h
  · cases h
  · next p =>
    split at h
    · split at h
      · next e he => cases h; exact na_create0 hz (Or.inr (hu p)) he
      · cases h
    · cases h

theorem na_unparent0 {st : State F} {p : Nat} {skipme : Option Nat}
    (h : prop_unparent0 st p skipme = .error .abort) : False := by
  unfold prop_unparent0 at h
  split at h
  · cases h
  · split at h
    · cases h
    · split at h
      · next e he => cases h; exact na_notify_child _ _ _ _ _ _ he
      · split at h <;> cases h

theorem na_move0 {st : State F} {p : Nat} {before skipme : Option Nat}
    (h : prop_move0 st p before skipme = .error .abort) : False := by
  unfold prop_move0 at h
  split at h
  · cases h
  · split at h
    · cases h
    · split at h
      · cases h
      · split at h
        · split at h
          · cases h
          · exact na_notify_child2 _ _ _ _ _ _ _ h
        · cases h

theorem na_set_parent0 {st : State F} {p parent : Nat} {before skipme : Option Nat}
    (hz : NoZombie st) (hu : Unclipped st)
    (h : prop_set_parent0 st p parent before skipme = .error .abort) : False := by
  unfold prop_set_parent0 at h
  split at h
  · cases h
  · split at h
    · next e he => cases h; exact na_make_dir hz (Or.inr (hu parent)) he
    · next st1 hm =>
      split at h
      · split at h
        · next e he => cases h; exact na_unparent0 he
        · next st2 hu2 =>
          dsimp only at h
          split at h
          · next e he =>
            cases h
            split at he
            · exact na_flood_flag _ _ _ _ _ he
            · cases he
          · split at h
            · next e he => cases h; exact na_insert he
            · cases h
      · split at h
        · next e he => cases h; exact na_move0 he
        · cases h

theorem na_set_parent_ex {st : State F} {p : Nat} {parent before skipme : Option Nat}
    (hz : NoZombie st) (hu : Unclipped st)
    (h : prop_set_parent_ex st p parent before skipme = .error .abort) : False := by
  unfold prop_set_parent_ex at h
  split at h
  · cases h
  · exact na_set_parent0 hz hu h

theorem na_set_void_exl {st : State F} {p : Nat} {skipme : Option Nat} (hz : NoZombie st)
    (h : prop_set_void_exl st p skipme = .error .abort) : False := by
  unfold prop_set_void_exl at h
  repeat' split at h
  all_goals first
    | cases h
    | exact na_setU_notify hz (by simp [prop_value.hp_type]) h

theorem na_set_string_exl {st : State F} {p : Nat} {skipme : Option Nat} {str : String}
    {type : Nat} (hz : NoZombie st)
    (h : prop_set_string_exl st p skipme str type = .error .abort) : False := by
  unfold prop_set_string_exl at h
  repeat' split at h
  all_goals first
    | cases h
    | exact na_setU_notify hz (by simp [prop_value.hp_type]) h

theorem na_set_rstring_exl {st : State F} {p : Nat} {skipme : Option Nat} {rstr : String}
    (hz : NoZombie st) (h : prop_set_rstring_exl st p skipme rstr = .error .abort) :
    False := by
  unfold prop_set_rstring_exl at h
  repeat' split at h
  all_goals first
    | cases h
    | exact na_setU_notify hz (by simp [prop_value.hp_type]) h

theorem na_set_int_exl [CFloat F] {st : State F} {p : Nat} {skipme : Option Nat} {v : Int}
    (hz : NoZombie st) (h : prop_set_int_exl st p skipme v = .error .abort) : False := by
  unfold prop_set_int_exl at h
  repeat' split at h
  all_goals first
    | cases h
    | exact na_setU_notify hz
        (by simp [prop_value.hp_type, prop_float_to_int, prop_value.set_hp_int]) h

theorem na_seti [CFloat F] {st : State F} {skipme : Option Nat} {p : Nat} {arg : seti_arg}
    (hz : NoZombie st) (h : prop_seti st skipme p arg = .error .abort) : False := by
  unfold prop_seti at h
  split at h
  · exact na_set_void_exl hz h
  · exact na_set_string_exl hz h
  · exact na_set_void_exl hz h
  · exact na_set_rstring_exl hz h
  · exact na_set_int_exl hz h
  · exact na_set_void_exl hz h
  · cases h

theorem na_setv_from [CFloat F] (skipme : Option Nat) (arg : seti_arg) :
    ∀ (names : List String) (st : State F) (p : Nat), NoZombie st → Unclipped st →
      setv_from skipme arg names st p = .error .abort → False := by
  intro names
  induction names with
  | nil => intro st p hz _ h; exact na_seti hz h
  | cons n rest ih =>
    intro st p hz hu h
    unfold setv_from at h
    split at h
    · cases h
    · split at h
      · exact ih _ _ hz hu h
      · split at h
        · next e he => cases h; exact na_create0 hz (Or.inr (hu p)) he
        · next st1 c hc =>
          exact ih _ _ ((sd_of_create0 hc).noZombie hz) ((sd_of_create0 hc).unclipped hu) h

theorem na_setv_ex [CFloat F] {st : State F} {skipme p : Option Nat} {names : List String}
    {arg : seti_arg} (hz : NoZombie st) (hu : Unclipped st)
    (h : prop_setv_ex st skipme p names arg = .error .abort) : False := by
  unfold prop_setv_ex at h
  split at h
  · cases h
  · split at h
    · cases h
    · exact na_setv_from _ _ _ _ _ hz hu h

theorem na_set_ex [CFloat F] {st : State F} {p : Option Nat} {name : Option String}
    {noalloc : Bool} {arg : seti_arg} (hz : NoZombie st) (hu : Unclipped st)
    (h : prop_set_ex st p name noalloc arg = .error .abort) : False := by
  unfold prop_set_ex at h
  split at h
  · cases h
  · next q =>
    split at h
    · split at h
      · next e he => cases h; exact na_create0 hz (Or.inr (hu q)) he
      · next st1 c hc => exact na_seti ((sd_of_create0 hc).noZombie hz) h
    · cases h

theorem na_notify_void {st : State F} {s : Nat}
    (h : prop_notify_void st s = .error .abort) : False := by
  unfold prop_notify_void at h
  split at h
  · cases h
  · split at h
    · next e he => cases h; exact na_get_notify he
    · cases h

theorem na_monitor_active : ∀ (l : List Nat) (st : State F),
    prop_send_subscription_monitor_active l st = .error .abort → False := by
  intro l
  induction l with
  | nil => intro st h; cases h
  | cons s rest ih =>
    intro st h
    unfold prop_send_subscription_monitor_active at h
    split at h
    · split at h
      · next e he => cases h; exact na_get_notify he
      · exact ih _ h
    · exact ih _ h

theorem na_subscribe_add_childs (s value : Nat) (direct : Bool) :
    ∀ (l : List Nat) (st : State F),
      subscribe_add_childs s value direct l st = .error .abort → False := by
  intro l
  induction l with
  | nil => intro st h; cases h
  | cons c rest ih =>
    intro st h
    unfold subscribe_add_childs at h
    split at h
    · next e he => cases h; exact na_build_notify_child he
    · exact ih _ h

theorem na_value_compare [CFloat F] {a b : prop_t F}
    (h : prop_value_compare a b = .error .abort) : False := by
  unfold prop_value_compare at h
  split at h <;> cases h

theorem na_relink_one [CFloat F] {src : Nat} {skipme : Option Nat} {t : Nat}
    {st : State F} {pnq : prop_notify_queue F} (hz : NoZombie st)
    (h : relink_one src skipme t st pnq = .error .abort) : False := by
  unfold relink_one at h
  split at h
  · cases h
  · dsimp only at h
    split at h
    · next e hd =>
      cases h
      split at hd
      · next v _ =>
        split at hd
        · next e2 hf =>
          cases hd
          split at hf
          · exact na_notify_void hf
          · cases hf
        · next st1 hf =>
          split at hd
          · cases hd
          · split at hd
            · next e3 hv => cases hd; exact na_value_compare hv
            · cases hd
      · cases hd
    · next st2 equal hd =>
      have s2 : Steady st st2 := by
        split at hd
        · next v _ =>
          split at hd
          · cases hd
          · next st1 hf =>
            have s1 : Steady st st1 := by
              split at hf
              · exact sd_of_notify_void hf
              · cases hf; exact Steady.sd_refl _
            split at hd
            · cases hd
            · split at hd
              · cases hd
              · cases hd
                exact s1.sd_trans (Steady.sd_setNode st1 v _ (Or.inl rfl) id id)
        · cases hd; exact Steady.sd_refl _
      have s4 : Steady st2 ((st2.setNode src { st2.nodes src with
          hp_value_subscriptions := t :: (st2.nodes src).hp_value_subscriptions }).setSub t
          { (st2.setNode src { st2.nodes src with
              hp_value_subscriptions := t :: (st2.nodes src).hp_value_subscriptions }).subs t with
            hps_value_prop := some src }) := by
        have a : Steady st2 (st2.setNode src { st2.nodes src with
            hp_value_subscriptions := t :: (st2.nodes src).hp_value_subscriptions }) :=
          Steady.sd_setNode st2 src _ (Or.inl rfl) id id
        exact a.sd_trans (Steady.sd_setSub _ _ _)
      generalize (st2.setNode src { st2.nodes src with
          hp_value_subscriptions := t :: (st2.nodes src).hp_value_subscriptions }).setSub t
          { (st2.setNode src { st2.nodes src with
              hp_value_subscriptions := t :: (st2.nodes src).hp_value_subscriptions }).subs t with
            hps_value_prop := some src } = st4 at h s4
      split at h
      · next e hm =>
        cases h
        split at hm
        · exact na_monitor_active _ _ hm
        · cases hm
      · next st5 hm =>
        have s5 : Steady st4 st5 := by
          split at hm
          · exact sd_of_monitor_active _ _ _ hm
          · cases hm; exact Steady.sd_refl _
        have s05 := s2.sd_trans (s4.sd_trans s5)
        split at h
        · cases h
        · split at h
          · next e hb =>
            cases h
            exact na_build_notify_value
              ((s05.sd_trans (Steady.sd_setSub st5 t _)).noZombie hz) hb
          · next st7 pnq1 hb =>
            split at h
            · split at h
              · next e ha => cases h; exact na_subscribe_add_childs _ _ _ _ _ ha
              · cases h
            · cases h

theorem na_relink_subs [CFloat F] (src : Nat) (skipme : Option Nat) :
    ∀ (l : List Nat) (st : State F) (pnq : prop_notify_queue F), NoZombie st →
      relink_subs src skipme l st pnq = .error .abort → False := by
  intro l
  induction l with
  | nil => intro st pnq _ h; cases h
  | cons t rest ih =>
    intro st pnq hz h
    unfold relink_subs at h
    split at h
    · next e he => cases h; exact na_relink_one hz he
    · next st1 pnq1 h1 => exact ih _ _ ((sd_of_relink_one h1).noZombie hz) h

theorem na_relink_childs
    (recur : State F → Nat → Nat → prop_notify_queue F →
      Except Fault (State F × prop_notify_queue F))
    (hrec : ∀ st z c q st' q', recur st z c q = .ok (st', q') → Steady st st')
    (hna : ∀ st z c q, NoZombie st → Unclipped st → recur st z c q = .error .abort → False)
    (src dst : Nat) (skipme no_descend : Option Nat) :
    ∀ (fuel : Nat) (st : State F) (c : Option Nat) (pnq : prop_notify_queue F),
      NoZombie st → Unclipped st →
      relink_childs recur src dst skipme no_descend fuel st c pnq = .error .abort → False := by
  intro fuel
  induction fuel with
  | zero => intro st c pnq _ _ h; cases c <;> cases h
  | succ fuel ih =>
    intro st c pnq hz hu h
    cases c with
    | none => unfold relink_childs at h; cases h
    | some c =>
      unfold relink_childs at h
      dsimp only at h
      split at h
      · next e hb =>
        cases h
        split at hb
        · cases hb
        · next name _ =>
          split at hb
          · cases hb
          · split at hb
            · next e2 hc => cases hb; exact na_create0 hz (Or.inr (hu src)) hc
            · next st2 z hc =>
              have n2 := sd_of_create0 hc
              split at hb
              · next e3 hm =>
                cases hb
                split at hm
                · exact na_make_dir (n2.noZombie hz) (Or.inr (n2.unclipped hu z)) hm
                · cases hm
              · next st3 hm =>
                have n3 : Steady st st3 := by
                  split at hm
                  · exact n2.sd_trans (sd_make_dir hm)
                  · cases hm; exact n2
                exact hna _ _ _ _ (n3.noZombie hz) (n3.unclipped hu) hb
      · next st1 pnq1 hb =>
        have body : Steady st st1 := by
          split at hb
          · cases hb; exact Steady.sd_refl _
          · next name _ =>
            split at hb
            · cases hb; exact Steady.sd_refl _
            · split at hb
              · cases hb
              · next st2 z hc =>
                have n2 := sd_of_create0 hc
                split at hb
                · cases hb
                · next st3 hm =>
                  have n3 : Steady st st3 := by
                    split at hm
                    · exact n2.sd_trans (sd_make_dir hm)
                    · cases hm; exact n2
                  exact n3.sd_trans (hrec _ _ _ _ _ _ hb)
        exact ih _ _ _ (body.noZombie hz) (body.unclipped hu) h

theorem na_relink_subscriptions [CFloat F] :
    ∀ (fuel : Nat) (st : State F) (src dst : Nat) (skipme : Option Nat)
      (pnq : prop_notify_queue F) (no_descend : Option Nat), NoZombie st → Unclipped st →
      relink_subscriptions fuel st src dst skipme pnq no_descend = .error .abort → False := by
  intro fuel
  induction fuel with
  | zero => intro st src dst skipme pnq nd _ _ h; cases h
  | succ fuel ih =>
    intro st src0 dst skipme pnq nd hz hu h
    unfold relink_subscriptions at h
    split at h
    · next e he =>
      cases h
      have : ∀ (n : Nat) (p : Nat), follow_originators n st p = .error .abort → False := by
        intro n
        induction n with
        | zero => intro p hp; cases hp
        | succ n ihn =>
          intro p hp
          unfold follow_originators at hp
          split at hp
          · cases hp
          · exact ihn _ hp
      exact this _ _ he
    · next src _ =>
      split at h
      · next e hs => cases h; exact na_relink_subs _ _ _ _ _ hz hs
      · next st1 pnq1 hs =>
        have n1 := sd_of_relink_subs _ _ _ _ _ _ _ hs
        split at h
        · exact na_relink_childs _
            (fun a z c q a' q' hr => sd_of_relink_subscriptions fuel a a' z c skipme q q' none hr)
            (fun a z c q hza hua hr => ih a z c skipme q none hza hua hr)
            _ _ _ _ _ _ _ _ (n1.noZombie hz) (n1.unclipped hu) h
        · cases h

theorem create0_of_make_dir {st stA : State F} {p : Nat} {name : Option String}
    {skipme : Option Nat} {noalloc : Bool} (hz : (st.nodes p).hp_type ≠ .PROP_ZOMBIE)
    (hmd : prop_make_dir st p skipme = .ok stA) (hd : (stA.nodes p).hp_type = .PROP_DIR) :
    prop_create0 st p name skipme noalloc = prop_create0 stA p name skipme noalloc := by
  have hzA : ¬ (stA.nodes p).hp_type = .PROP_ZOMBIE := by rw [hd]; decide
  have hmdA : prop_make_dir stA p skipme = .ok stA := by simp [prop_make_dir, hd]
  simp only [prop_create0, hz, hzA, if_false, hmd, hmdA]

theorem create0_on_dir_total (st : State F) (p : Nat) (name : Option String)
    (skipme : Option Nat) (noalloc : Bool) (hd : (st.nodes p).hp_type = .PROP_DIR)
    (hp : p < st.nnodes) : ∃ st' c, prop_create0 st p name skipme noalloc = .ok (st', c) := by
  have hu : ∃ cs sel, (st.nodes p).u = .PROP_DIR cs sel := by
    unfold prop_t.hp_type at hd
    cases hv : (st.nodes p).u <;> rw [hv] at hd <;> simp [prop_value.hp_type] at hd
    exact ⟨_, _, rfl⟩
  obtain ⟨cs, sel, hu⟩ := hu
  cases hf : name.bind (find_child_by_name st cs) with
  | none =>
    obtain ⟨st', h, _⟩ := prop_create0_new st p name skipme noalloc cs sel hu hp hf
    exact ⟨st', _, h⟩
  | some c =>
    cases name with
    | none => simp at hf
    | some n =>
      obtain ⟨st', h, _⟩ := prop_create0_found st p n skipme noalloc cs sel c hu
        (by simpa using hf)
      exact ⟨st', c, h⟩

theorem create0_total (st : State F) (p : Nat) (name : Option String)
    (skipme : Option Nat) (noalloc : Bool) (hz : (st.nodes p).hp_type ≠ .PROP_ZOMBIE)
    (hp : p < st.nnodes)
    (hc : (st.nodes p).hp_type = .PROP_DIR ∨
      ((st.nodes p).hp_flags.PROP_CLIPPED_VALUE = false ∧ NotifyOk st p skipme)) :
    ∃ st' c, prop_create0 st p name skipme noalloc = .ok (st', c) := by
  by_cases hd : (st.nodes p).hp_type = .PROP_DIR
  · exact create0_on_dir_total st p name skipme noalloc hd hp
  · rcases hc with hc | ⟨hc, hn⟩
    · exact absurd hc hd
    · obtain ⟨stA, hmd, huA, _⟩ :=
        prop_make_dir_ok st p skipme hd (clean_of_unclipped hd hz hc) hn
      have hdA : (stA.nodes p).hp_type = .PROP_DIR := by
        unfold prop_t.hp_type
        rw [huA]
        rfl
      have hnA : stA.nnodes = st.nnodes := (prop_make_dir_frame hmd hd).1
      rw [create0_of_make_dir hz hmd hdA]
      exact create0_on_dir_total stA p name skipme noalloc hdA (by rw [hnA]; exact hp)

theorem create0_on_clipped {st : State F} {p : Nat} {name : Option String}
    {skipme : Option Nat} {noalloc : Bool} (hz : (st.nodes p).hp_type ≠ .PROP_ZOMBIE)
    (hd : (st.nodes p).hp_type ≠ .PROP_DIR)
    (hc : (st.nodes p).hp_flags.PROP_CLIPPED_VALUE = true) :
    prop_create0 st p name skipme noalloc = .error .abort := by
  have h1 : prop_make_dir st p skipme = .error .abort := by
    simp [prop_make_dir, hd, prop_clean, hc]
  simp [prop_create0, hz, h1]

theorem noZombie_empty : NoZombie (State.empty : State F) :=
  fun _ h => by simp [State.empty, prop_t.hp_type, prop_value.hp_type] at h

theorem unclipped_empty : Unclipped (State.empty : State F) := fun _ => rfl

/-- C40 (counterexample): node 0 of `ex_clipped` is an int with a clipping range, no zombie
  and no directory, in a store reached by prop_create_root and
  prop_set_int_clipping_range. With it as parent prop_create_ex, prop_set_ex, prop_setv_ex
  and prop_set_parent_ex end in the abort of prop_make_dir. In `ex_clipped_child` the
  child "x" of the source is such an int and the child "x" of the destination a
  directory: the child walk of relink_subscriptions, alone and under prop_link_ex, ends in
  that abort too. -/
theorem clipped_parent_reaches_abort :
    (ex_clipped.nodes 0).hp_type = .PROP_INT ∧
      (ex_clipped.nodes 0).hp_flags.PROP_CLIPPED_VALUE = true ∧
      fault_of (prop_create_ex ex_clipped (some 0) (some "x") none false false)
        = some .abort ∧
      fault_of (prop_set_ex ex_clipped (some 0) (some "x") false (.PROP_SET_INT 1))
        = some .abort ∧
      fault_of (prop_setv_ex ex_clipped none (some 0) ["x"] (.PROP_SET_INT 1))
        = some .abort ∧
      fault_of (prop_set_parent_ex ex_clipped 1 (some 0) none none) = some .abort ∧
      (ex_clipped_child.nodes 1).hp_type = .PROP_INT ∧
      (ex_clipped_child.nodes 1).hp_flags.PROP_CLIPPED_VALUE = true ∧
      (ex_clipped_child.nodes 3).hp_type = .PROP_DIR ∧
      fault_of (relink_subscriptions 8 ex_clipped_child 0 2 none none none) = some .abort ∧
      fault_of (prop_link_ex 8 ex_clipped_child 0 2 none .PROP_LINK_NORMAL) = some .abort := by
  decide

/-- C40 (amended): for a parent that is no zombie and is a directory or carries no
  clipping range, prop_create_ex returns a child (an allocated parent whose value list
  is in order, where it has to be made a directory first); for a parent that is no zombie,
  no directory and carries a clipping range it ends in the abort of prop_make_dir. In a
  store in which no node carries a clipping range and no node is a zombie, none of
  prop_set_parent_ex, prop_setv_ex, prop_set_ex and relink_subscriptions with its child
  walk ends in an abort. -/
theorem make_dir_aborts_on_clipped_only [CFloat F] (st : State F) :
    (∀ (p : Nat) (name : Option String) (skipme : Option Nat) (noalloc incref : Bool),
        (st.nodes p).hp_type ≠ .PROP_ZOMBIE → p < st.nnodes →
        ((st.nodes p).hp_type = .PROP_DIR ∨
          ((st.nodes p).hp_flags.PROP_CLIPPED_VALUE = false ∧ NotifyOk st p skipme)) →
        ∃ st' c, prop_create_ex st (some p) name skipme noalloc incref = .ok (st', some c)) ∧
      (∀ (p : Nat) (name : Option String) (skipme : Option Nat) (noalloc incref : Bool),
        (st.nodes p).hp_type ≠ .PROP_ZOMBIE → (st.nodes p).hp_type ≠ .PROP_DIR →
        (st.nodes p).hp_flags.PROP_CLIPPED_VALUE = true →
        prop_create_ex st (some p) name skipme noalloc incref = .error .abort) ∧
      (NoZombie st → Unclipped st →
        (∀ (p : Nat) (parent before skipme : Option Nat),
          prop_set_parent_ex st p parent before skipme ≠ .error .abort) ∧
        (∀ (skipme p : Option Nat) (names : List String) (arg : seti_arg),
          prop_setv_ex st skipme p names arg ≠ .error .abort) ∧
        (∀ (p : Option Nat) (name : Option String) (noalloc : Bool) (arg : seti_arg),
          prop_set_ex st p name noalloc arg ≠ .error .abort) ∧
        (∀ (fuel src dst : Nat) (skipme : Option Nat) (pnq : prop_notify_queue F)
            (no_descend : Option Nat),
          relink_subscriptions fuel st src dst skipme pnq no_descend ≠ .error .abort)) := by
  refine ⟨?_, ?_, ?_⟩
  · intro p name skipme noalloc incref hz hp hc
    obtain ⟨st', c, h⟩ := create0_total st p name skipme noalloc hz hp hc
    unfold prop_create_ex
    dsimp only
    rw [if_pos hz, h]
    exact ⟨_, c, rfl⟩
  · intro p name skipme noalloc incref hz hd hc
    unfold prop_create_ex
    dsimp only
    rw [if_pos hz, create0_on_clipped hz hd hc]
  · intro hz hu
    exact ⟨fun _ _ _ _ h => na_set_parent_ex hz hu h, fun _ _ _ _ h => na_setv_ex hz hu h,
      fun _ _ _ _ h => na_set_ex hz hu h,
      fun _ _ _ _ _ _ h => na_relink_subscriptions _ _ _ _ _ _ _ hz hu h⟩

theorem make_dir_aborts_on_clipped_only_witness :
    (ex_root.nodes 0).hp_type ≠ .PROP_ZOMBIE ∧ 0 < ex_root.nnodes ∧
      (ex_root.nodes 0).hp_flags.PROP_CLIPPED_VALUE = false ∧ NotifyOk ex_root 0 none ∧
      (∃ st' c, prop_create_ex ex_root (some 0) (some "x") none false false
        = .ok (st', some c)) ∧
      NoZombie ex_root ∧ Unclipped ex_root ∧
      prop_set_parent_ex ex_root 0 (some 0) none none ≠ .error .abort ∧
      prop_setv_ex ex_root none (some 0) ["x", "y"] (.PROP_SET_INT 1) ≠ .error .abort ∧
      prop_set_ex ex_root (some 0) (some "x") false (.PROP_SET_INT 1) ≠ .error .abort ∧
      relink_subscriptions 4 ex_root 0 0 none none none ≠ .error .abort :=
  have hn : NotifyOk ex_root 0 none :=
    ⟨fun s hs => by simp [ex_root, prop_create_root_ex, prop_make, State.empty] at hs,
      fun h => by simp [ex_root, prop_create_root_ex, prop_make, State.empty] at h⟩
  have hz : NoZombie ex_root := (sd_of_create_root_ex State.empty none false).noZombie noZombie_empty
  have hu : Unclipped ex_root := (sd_of_create_root_ex State.empty none false).unclipped unclipped_empty
  ⟨by decide, by decide, by decide, hn,
    (make_dir_aborts_on_clipped_only ex_root).1 0 (some "x") none false false (by decide)
      (by decide) (Or.inr ⟨by decide, hn⟩),
    hz, hu,
    ((make_dir_aborts_on_clipped_only ex_root).2.2 hz hu).1 0 (some 0) none none,
    ((make_dir_aborts_on_clipped_only ex_root).2.2 hz hu).2.1 none (some 0) ["x", "y"]
      (.PROP_SET_INT 1),
    ((make_dir_aborts_on_clipped_only ex_root).2.2 hz hu).2.2.1 (some 0) (some "x") false
      (.PROP_SET_INT 1),
    ((make_dir_aborts_on_clipped_only ex_root).2.2 hz hu).2.2.2 4 0 0 none none none⟩

/-! ## C21: what relink_one and relink_subs change -/

theorem Moved.mv_refl (S : Nat → Prop) (r : Nat) (st : State F) : Moved S r st st :=
  ⟨rfl, rfl, fun _ => rfl, fun _ => rfl, fun _ => rfl, fun _ => rfl, fun _ => rfl, fun _ => rfl,
    fun _ => rfl, fun _ => rfl, fun _ => Or.inl rfl, fun _ _ h => Or.inl h⟩

theorem Moved.mv_trans {S : Nat → Prop} {r : Nat} {a b c : State F} (h1 : Moved S r a b)
    (h2 : Moved S r b c) : Moved S r a c := by
  refine ⟨by rw [h2.nnodes, h1.nnodes], by rw [h2.nsubs, h1.nsubs],
    fun q => by rw [h2.u, h1.u], fun q => by rw [h2.name, h1.name],
    fun q => by rw [h2.parent, h1.parent], fun q => by rw [h2.originator, h1.originator],
    fun q => by rw [h2.targets, h1.targets], fun q => by rw [h2.canonical, h1.canonical], fun q => by rw [h2.flags, h1.flags],
    fun t => by rw [h2.sflags, h1.sflags],
    fun t => ?_, fun q t ht => ?_⟩
  · rcases h2.value t with e2 | ⟨s2, e2⟩
    · rcases h1.value t with e1 | ⟨s1, e1⟩
      · exact Or.inl (by rw [e2, e1])
      · exact Or.inr ⟨s1, by rw [e2, e1]⟩
    · exact Or.inr ⟨s2, e2⟩
  · rcases h2.vsub q t ht with e2 | e2
    · exact h1.vsub q t e2
    · exact Or.inr e2

theorem Moved.mv_mono {S T : Nat → Prop} {r : Nat} {a b : State F} (h : Moved S r a b)
    (hst : ∀ t, S t → T t) : Moved T r a b :=
  ⟨h.nnodes, h.nsubs, h.u, h.name, h.parent, h.originator, h.targets, h.canonical, h.flags,
    h.sflags,
    fun t => (h.value t).imp id fun x => ⟨hst t x.1, x.2⟩,
    fun q t ht => (h.vsub q t ht).imp id (hst t)⟩

theorem Moved.mv_of_sameTree (S : Nat → Prop) (r : Nat) {st st' : State F}
    (h : SameTree st st') : Moved S r st st' :=
  ⟨h.1, h.2.1, h.u, h.hp_name, h.hp_parent, h.hp_originator, h.hp_targets,
    h.hp_canonical_subscriptions,
    h.hp_flags, h.hps_flags, fun t => Or.inl (h.hps_value_prop t),
    fun q t ht => Or.inl (by rw [← h.hp_value_subscriptions q]; exact ht)⟩

theorem Moved.mv_setValue (S : Nat → Prop) (r : Nat) (st : State F) (p : Nat) (l : List Nat)
    (hl : ∀ t ∈ l, t ∈ (st.nodes p).hp_value_subscriptions ∨ S t) :
    Moved S r st (st.setNode p { st.nodes p with hp_value_subscriptions := l }) := by
  refine ⟨rfl, rfl, ?_, ?_, ?_, ?_, ?_, ?_, ?_, fun _ => rfl, fun _ => Or.inl rfl, ?_⟩
  rotate_right
  · intro q t ht
    rw [setNode_nodes] at ht
    split at ht
    · next e => rw [e]; exact hl t ht
    · exact Or.inl ht
  all_goals
    intro q
    rw [setNode_nodes]
    split
    · next e => rw [e]
    · rfl

theorem Moved.mv_setSub (S : Nat → Prop) (r : Nat) (st : State F) (t : Nat) (sb : prop_sub_t)
    (h1 : sb.hps_flags = (st.subs t).hps_flags)
    (h2 : sb.hps_value_prop = (st.subs t).hps_value_prop ∨ (S t ∧ sb.hps_value_prop = some r)) :
    Moved S r st (st.setSub t sb) := by
  refine ⟨rfl, rfl, fun _ => rfl, fun _ => rfl, fun _ => rfl, fun _ => rfl, fun _ => rfl,
    fun _ => rfl, fun _ => rfl, ?_, ?_, fun _ _ h => Or.inl h⟩
  · intro x
    rw [setSub_subs]
    split
    · rename_i e; rw [e]; exact h1
    · rfl
  · intro x
    rw [setSub_subs]
    split
    · rename_i e; rw [e]; exact h2
    · exact Or.inl rfl

theorem Moved.mv_childs {S : Nat → Prop} {r : Nat} {a b : State F} (h : Moved S r a b)
    (q : Nat) : (b.nodes q).hp_childs = (a.nodes q).hp_childs := by
  unfold prop_t.hp_childs; rw [h.u q]

theorem Moved.mv_type {S : Nat → Prop} {r : Nat} {a b : State F} (h : Moved S r a b)
    (q : Nat) : (b.nodes q).hp_type = (a.nodes q).hp_type := by
  unfold prop_t.hp_type; rw [h.u q]

theorem quiet_iff (nd : prop_t F) : nd.quiet = true ↔
    nd.hp_type ≠ .PROP_ZOMBIE ∧ nd.hp_flags.PROP_CLIPPED_VALUE = false ∧
    nd.hp_flags.PROP_MULTI_SUB = false ∧ nd.hp_flags.PROP_MULTI_NOTIFY = false ∧
    ∀ t l, nd.u = .PROP_LINK t l → t ≠ none ∧ l ≠ none := by
  unfold prop_t.quiet
  cases hu : nd.u <;> simp [Option.isSome_iff_ne_none, and_assoc]

theorem quiet_congr {x y : prop_t F} (hu : x.u = y.u) (hf : x.hp_flags = y.hp_flags) :
    x.quiet = y.quiet := by
  unfold prop_t.quiet prop_t.hp_type
  rw [hu, hf]

theorem mv_of_relink_one [CFloat F] {r : Nat} {skipme : Option Nat} {s : Nat}
    {st st' : State F} {pnq pnq' : prop_notify_queue F}
    (h : relink_one r skipme s st pnq = .ok (st', pnq')) :
    Moved (fun t => t = s) r st st' ∧ (st'.subs s).hps_value_prop = some r := by
  unfold relink_one at h
  split at h
  · next e => cases h; exact ⟨Moved.mv_refl _ _ _, e⟩
  · dsimp only at h
    split at h
    · cases h
    · next st2 equal hd =>
      have s2 : Moved (fun t => t = s) r st st2 := by
        split at hd
        · next v _ =>
          split at hd
          · cases hd
          · next st1 hf =>
            have s1 : Moved (fun t => t = s) r st st1 := by
              split at hf
              · exact Moved.mv_of_sameTree _ _ (sameTree_of_notify_void hf)
              · cases hf; exact Moved.mv_refl _ _ _
            split at hd
            · cases hd
            · next l hr =>
              split at hd
              · cases hd
              · cases hd
                exact s1.mv_trans (Moved.mv_setValue _ _ st1 v _ (fun t ht => by
                  unfold tailq_remove at hr
                  split at hr
                  · cases hr; exact Or.inl (List.mem_of_mem_erase ht)
                  · cases hr))
        · cases hd; exact Moved.mv_refl _ _ _
      have s4 : Moved (fun t => t = s) r st2 ((st2.setNode r { st2.nodes r with
          hp_value_subscriptions := s :: (st2.nodes r).hp_value_subscriptions }).setSub s
          { (st2.setNode r { st2.nodes r with
              hp_value_subscriptions := s :: (st2.nodes r).hp_value_subscriptions }).subs s with
            hps_value_prop := some r }) := by
        have a : Moved (fun t => t = s) r st2 (st2.setNode r { st2.nodes r with
            hp_value_subscriptions := s :: (st2.nodes r).hp_value_subscriptions }) :=
          Moved.mv_setValue _ _ st2 r _ (fun t ht => by
            rcases List.mem_cons.1 ht with e | e
            · exact Or.inr e
            · exact Or.inl e)
        exact a.mv_trans (Moved.mv_setSub _ _ _ _ _ rfl (Or.inr ⟨rfl, rfl⟩))
      have v4 : (((st2.setNode r { st2.nodes r with
          hp_value_subscriptions := s :: (st2.nodes r).hp_value_subscriptions }).setSub s
          { (st2.setNode r { st2.nodes r with
              hp_value_subscriptions := s :: (st2.nodes r).hp_value_subscriptions }).subs s with
            hps_value_prop := some r }).subs s).hps_value_prop = some r := by
        simp
      generalize (st2.setNode r { st2.nodes r with
          hp_value_subscriptions := s :: (st2.nodes r).hp_value_subscriptions }).setSub s
          { (st2.setNode r { st2.nodes r with
              hp_value_subscriptions := s :: (st2.nodes r).hp_value_subscriptions }).subs s with
            hps_value_prop := some r } = st4 at h s4 v4
      split at h
      · cases h
      · next st5 hm =>
        have t5 : SameTree st4 st5 := by
          split at hm
          · exact sameTree_of_monitor_active _ _ _ hm
          · cases hm; exact SameTree.st_refl _
        have s05 := s2.mv_trans (s4.mv_trans (Moved.mv_of_sameTree _ _ t5))
        have v5 : (st5.subs s).hps_value_prop = some r := by
          rw [t5.hps_value_prop]; exact v4
        split at h
        · cases h; exact ⟨s05, v5⟩
        · split at h
          · cases h
          · next st7 pnq1 hb =>
            have b1 := sameTree_of_build_notify_value hb
            have s7 := s05.mv_trans ((Moved.mv_setSub (fun t => t = s) r st5 s
              { st5.subs s with hps_pending_unlink := pnq.isSome } rfl (Or.inl rfl)).mv_trans
                (Moved.mv_of_sameTree _ _ b1))
            have v7 : (st7.subs s).hps_value_prop = some r := by
              rw [b1.hps_value_prop]; simpa using v5
            split at h
            · split at h
              · cases h
              · next st8 ha =>
                cases h
                have t8 := sameTree_of_subscribe_add_childs _ _ _ _ _ _ ha
                exact ⟨s7.mv_trans (Moved.mv_of_sameTree _ _ t8), by
                  rw [t8.hps_value_prop]; exact v7⟩
            · cases h; exact ⟨s7, v7⟩

theorem mv_of_relink_subs [CFloat F] (r : Nat) (skipme : Option Nat) :
    ∀ (l : List Nat) (st st' : State F) (pnq pnq' : prop_notify_queue F),
      relink_subs r skipme l st pnq = .ok (st', pnq') →
      Moved (fun t => t ∈ l) r st st' ∧ ∀ s ∈ l, (st'.subs s).hps_value_prop = some r := by
  intro l
  induction l with
  | nil =>
    intro st st' pnq pnq' h
    cases h
    exact ⟨Moved.mv_refl _ _ _, by simp⟩
  | cons t rest ih =>
    intro st st' pnq pnq' h
    unfold relink_subs at h
    split at h
    · cases h
    · next st1 pnq1 h1 =>
      obtain ⟨m1, v1⟩ := mv_of_relink_one h1
      obtain ⟨m2, v2⟩ := ih _ _ _ _ h
      refine ⟨(m1.mv_mono (fun x e => by rw [e]; exact List.mem_cons_self _ _)).mv_trans
        (m2.mv_mono (fun x e => List.mem_cons_of_mem _ e)), ?_⟩
      intro s hs
      rcases List.mem_cons.1 hs with e | e
      · rcases m2.value s with e2 | ⟨_, e2⟩
        · rw [e2, e]; exact v1
        · exact e2
      · exact v2 s e

/-! ## C21: relink_one and relink_subs return -/

theorem value_compare_fault [CFloat F] {a b : prop_t F} {e : Fault}
    (h : prop_value_compare a b = .error e) :
    ∃ t l, (a.u = .PROP_LINK t l ∨ b.u = .PROP_LINK t l) ∧ (t = none ∨ l = none) := by
  unfold prop_value_compare at h
  cases ha : a.u <;> cases hb : b.u <;> rw [ha, hb] at h <;> try (simp at h; done)
  rename_i t1 l1 t2 l2
  cases t1 <;> cases l1 <;> cases t2 <;> cases l2 <;> simp at h <;>
    first
    | exact ⟨_, _, Or.inl rfl, Or.inl rfl⟩
    | exact ⟨_, _, Or.inl rfl, Or.inr rfl⟩
    | exact ⟨_, _, Or.inr rfl, Or.inl rfl⟩
    | exact ⟨_, _, Or.inr rfl, Or.inr rfl⟩

theorem subscribe_add_childs_total (s d : Nat) : ∀ (l : List Nat) (st : State F),
    ∃ st', subscribe_add_childs s d false l st = .ok st' := by
  intro l
  induction l with
  | nil => intro st; exact ⟨st, rfl⟩
  | cons k rest ih =>
    intro st
    obtain ⟨st1, e1, _, _⟩ := build_notify_child_ok st s (some k) .PROP_ADD_CHILD
      (gen_add_flags st k d)
    obtain ⟨st', e2⟩ := ih st1
    refine ⟨st', ?_⟩
    unfold subscribe_add_childs
    rw [e1]
    exact e2

theorem MonitorsQueued.mq_flags {st st' : State F} (h : MonitorsQueued st)
    (hn : st'.nsubs = st.nsubs)
    (hf : ∀ t, (st'.subs t).hps_flags = (st.subs t).hps_flags) : MonitorsQueued st' := by
  intro t ht
  rw [hf t]
  exact h t (by rw [← hn]; exact ht)

theorem nf_relink_one [CFloat F] {E : Nat → Prop} {r : Nat} {skipme : Option Nat} {s : Nat}
    {st : State F} {pnq : prop_notify_queue F} {e : Fault}
    (hok : StoreOk E st) (hqt : ∀ q, q < st.nnodes → (st.nodes q).quiet = true)
    (hq : MonitorsQueued st) (hs : s < st.nsubs) (hr : r < st.nnodes)
    (h : relink_one r skipme s st pnq = .error e) : False := by
  unfold relink_one at h
  split at h
  · cases h
  · dsimp only at h
    split at h
    · next e1 hd =>
      split at hd
      · next v hv =>
        split at hd
        · next e2 hf =>
          split at hf
          · obtain ⟨x, ex, _⟩ := notify_void_ok st s
            rw [ex] at hf
            cases hf
          · cases hf
        · next st1 hf =>
          have t1 : SameTree st st1 := by
            split at hf
            · exact sameTree_of_notify_void hf
            · cases hf; exact SameTree.st_refl _
          split at hd
          · next hr' =>
            have hc := hok.value_count s v hv
            have hm : s ∈ (st1.nodes v).hp_value_subscriptions := by
              rw [t1.hp_value_subscriptions]
              exact List.count_pos_iff.1 (by rw [hc]; exact Nat.one_pos)
            rw [tailq_remove_mem hm] at hr'
            cases hr'
          · split at hd
            · next e3 hc =>
              obtain ⟨t, l, hu, hn⟩ := value_compare_fault hc
              have hva : v < st.nnodes := by
                have hc := hok.value_count s v hv
                exact (hok.value_back v s (List.count_pos_iff.1
                  (by rw [hc]; exact Nat.one_pos))).2.2
              have hu2 : ∃ q, q < st.nnodes ∧ (st.nodes q).u = .PROP_LINK t l := by
                rcases hu with hu | hu
                · exact ⟨v, hva, by rw [← t1.u v]; simpa using hu⟩
                · refine ⟨r, hr, ?_⟩
                  rw [← t1.u r]
                  rw [setNode_nodes] at hu
                  split at hu
                  · next er => rw [er]; simpa using hu
                  · exact hu
              obtain ⟨q, hqa, hq2⟩ := hu2
              have := ((quiet_iff _).1 (hqt q hqa)).2.2.2.2 t l hq2
              rcases hn with hn | hn
              · exact this.1 hn
              · exact this.2 hn
            · cases hd
      · cases hd
    · next st2 equal hd =>
      have s2 : Moved (fun t => t = s) r st st2 := by
        split at hd
        · next v _ =>
          split at hd
          · cases hd
          · next st1 hf =>
            have s1 : Moved (fun t => t = s) r st st1 := by
              split at hf
              · exact Moved.mv_of_sameTree _ _ (sameTree_of_notify_void hf)
              · cases hf; exact Moved.mv_refl _ _ _
            split at hd
            · cases hd
            · next l hr =>
              split at hd
              · cases hd
              · cases hd
                exact s1.mv_trans (Moved.mv_setValue _ _ st1 v _ (fun t ht => by
                  unfold tailq_remove at hr
                  split at hr
                  · cases hr; exact Or.inl (List.mem_of_mem_erase ht)
                  · cases hr))
        · cases hd; exact Moved.mv_refl _ _ _
      have s4 : Moved (fun t => t = s) r st2 ((st2.setNode r { st2.nodes r with
          hp_value_subscriptions := s :: (st2.nodes r).hp_value_subscriptions }).setSub s
          { (st2.setNode r { st2.nodes r with
              hp_value_subscriptions := s :: (st2.nodes r).hp_value_subscriptions }).subs s with
            hps_value_prop := some r }) := by
        have a : Moved (fun t => t = s) r st2 (st2.setNode r { st2.nodes r with
            hp_value_subscriptions := s :: (st2.nodes r).hp_value_subscriptions }) :=
          Moved.mv_setValue _ _ st2 r _ (fun t ht => by
            rcases List.mem_cons.1 ht with e | e
            · exact Or.inr e
            · exact Or.inl e)
        exact a.mv_trans (Moved.mv_setSub _ _ _ _ _ rfl (Or.inr ⟨rfl, rfl⟩))
      generalize (st2.setNode r { st2.nodes r with
          hp_value_subscriptions := s :: (st2.nodes r).hp_value_subscriptions }).setSub s
          { (st2.setNode r { st2.nodes r with
              hp_value_subscriptions := s :: (st2.nodes r).hp_value_subscriptions }).subs s with
            hps_value_prop := some r } = st4 at h s4
      have s04 := s2.mv_trans s4
      split at h
      · next e5 hm =>
        split at hm
        · obtain ⟨x, M, ex, _⟩ := monitor_active_ok (st4.nodes r).hp_value_subscriptions st4
            (fun t ht => by
              rw [s04.sflags t]
              apply hq t
              rcases s04.vsub r t ht with e | e
              · exact (hok.value_back r t e).2.1
              · rw [e]; exact hs)
          rw [ex] at hm
          cases hm
        · cases hm
      · next st5 hm =>
        have t5 : SameTree st4 st5 := by
          split at hm
          · exact sameTree_of_monitor_active _ _ _ hm
          · cases hm; exact SameTree.st_refl _
        have s05 := s04.mv_trans (Moved.mv_of_sameTree _ _ t5)
        split at h
        · cases h
        · split at h
          · next e7 hb =>
            obtain ⟨x, ex, _⟩ := build_value_ok
              (st5.setSub s { st5.subs s with hps_pending_unlink := pnq.isSome }) s r 0 pnq (by
                rw [setSub_nodes, s05.mv_type]
                exact ((quiet_iff _).1 (hqt r hr)).1)
            rw [ex] at hb
            cases hb
          · next st7 pnq1 hb =>
            split at h
            · split at h
              · next e8 ha =>
                obtain ⟨x, ex⟩ := subscribe_add_childs_total s r (st7.nodes r).hp_childs st7
                rw [ex] at ha
                cases ha
              · cases h
            · cases h

theorem relink_subs_total [CFloat F] {E : Nat → Prop} (r : Nat) (skipme : Option Nat) :
    ∀ (l : List Nat) (st : State F) (pnq : prop_notify_queue F),
      StoreOk E st → (∀ q, q < st.nnodes → (st.nodes q).quiet = true) → MonitorsQueued st →
      (∀ s ∈ l, s < st.nsubs) → r < st.nnodes →
      ∃ st' pnq', relink_subs r skipme l st pnq = .ok (st', pnq') := by
  intro l
  induction l with
  | nil => intro st pnq _ _ _ _ _; exact ⟨st, pnq, rfl⟩
  | cons s rest ih =>
    intro st pnq hok hqt hq hs hr
    cases h1 : relink_one r skipme s st pnq with
    | error e =>
      exact (nf_relink_one hok hqt hq (hs s (List.mem_cons_self _ _)) hr h1).elim
    | ok x =>
      obtain ⟨st1, pnq1⟩ := x
      obtain ⟨o1, n1, _⟩ := storeOk_of_relink_one h1 hok (hs s (List.mem_cons_self _ _)) hr
      have m1 := (mv_of_relink_one h1).1
      have z1 : ∀ q, q < st1.nnodes → (st1.nodes q).quiet = true := fun q hq1 => by
        rw [quiet_congr (m1.u q) (m1.flags q)]
        exact hqt q (by rw [← m1.nnodes]; exact hq1)
      obtain ⟨st', pnq', e2⟩ := ih st1 pnq1 o1 z1 (hq.mq_flags m1.nsubs m1.sflags)
        (fun t ht => by rw [m1.nsubs]; exact hs t (List.mem_cons_of_mem _ ht))
        (by rw [n1]; exact hr)
      refine ⟨st', pnq', ?_⟩
      unfold relink_subs
      rw [h1]
      exact e2

/-! ## C21: the steps of the walk over the children -/

theorem Walked.wk_refl (st : State F) : Walked st st :=
  ⟨le_rfl, rfl, fun _ _ => rfl, fun _ _ => rfl, fun _ _ => rfl, fun _ _ => rfl, fun _ _ => rfl,
    fun _ _ => rfl, fun _ _ => ⟨[], by simp, by simp⟩, fun _ => rfl, fun _ _ e => e,
    fun q hq h => h hq⟩

theorem Walked.wk_trans {a b c : State F} (h1 : Walked a b) (h2 : Walked b c) :
    Walked a c := by
  refine ⟨le_trans h1.nnodes h2.nnodes, by rw [h2.nsubs, h1.nsubs], ?_, ?_, ?_, ?_, ?_, ?_, ?_,
    fun t => by rw [h2.sflags, h1.sflags],
    fun q hq e => h2.dir q (lt_of_lt_of_le hq h1.nnodes) (h1.dir q hq e),
    fun q hq h => h2.quiet q hq (fun hb => h1.quiet q hb h)⟩
  · intro q hq
    rw [h2.originator q (lt_of_lt_of_le hq h1.nnodes), h1.originator q hq]
  · intro q hq
    rw [h2.name q (lt_of_lt_of_le hq h1.nnodes), h1.name q hq]
  · intro q hq
    rw [h2.parent q (lt_of_lt_of_le hq h1.nnodes), h1.parent q hq]
  · intro q hq
    rw [h2.targets q (lt_of_lt_of_le hq h1.nnodes), h1.targets q hq]
  · intro q hq
    rw [h2.flags q (lt_of_lt_of_le hq h1.nnodes), h1.flags q hq]
  · intro q hq
    rw [h2.canonical q (lt_of_lt_of_le hq h1.nnodes), h1.canonical q hq]
  · intro q hq
    obtain ⟨e1, c1, d1⟩ := h1.childs q hq
    obtain ⟨e2, c2, d2⟩ := h2.childs q (lt_of_lt_of_le hq h1.nnodes)
    refine ⟨e1 ++ e2, by rw [c2, c1, List.append_assoc], fun x hx => ?_⟩
    rcases List.mem_append.1 hx with hx | hx
    · exact d1 x hx
    · exact le_trans h1.nnodes (d2 x hx)

theorem Walked.wk_of_moved {S : Nat → Prop} {r : Nat} {st st' : State F}
    (h : Moved S r st st') : Walked st st' :=
  ⟨le_of_eq h.nnodes.symm, h.nsubs, fun q _ => h.originator q, fun q _ => h.name q,
    fun q _ => h.parent q, fun q _ => h.targets q, fun q _ => h.flags q,
    fun q _ => h.canonical q, fun q _ => ⟨[], by rw [h.mv_childs]; simp, by simp⟩, h.sflags,
    fun q _ e => by rw [h.mv_type]; exact e,
    fun q hq hb => by
      rw [quiet_congr (h.u q) (h.flags q)]
      exact hb (by rw [← h.nnodes]; exact hq)⟩

theorem Walked.wk_of_sameTree {st st' : State F} (h : SameTree st st') : Walked st st' :=
  Walked.wk_of_moved (Moved.mv_of_sameTree (fun _ => False) 0 h)

theorem Walked.find_stable {E : Nat → Prop} {st st' : State F} (h : Walked st st')
    (hok : StoreOk E st) {x : Nat} (hx : x < st.nnodes) {nm : String} {z : Nat}
    (hf : find_child_by_name st (st.nodes x).hp_childs nm = some z) :
    find_child_by_name st' (st'.nodes x).hp_childs nm = some z := by
  obtain ⟨ext, e1, _⟩ := h.childs x hx
  rw [e1]
  have e2 : find_child_by_name st' (st.nodes x).hp_childs nm
      = find_child_by_name st (st.nodes x).hp_childs nm :=
    find_child_by_name_congr nm _ (fun c hc => h.name c (hok.names.2 x c hc))
  unfold find_child_by_name at e2 hf ⊢
  rw [List.find?_append, e2, hf]
  rfl

theorem hp_childs_of_same_u {x y : prop_t F} (h : x.u = y.u) : x.hp_childs = y.hp_childs := by
  unfold prop_t.hp_childs; rw [h]

theorem hp_type_of_same_u {x y : prop_t F} (h : x.u = y.u) : x.hp_type = y.hp_type := by
  unfold prop_t.hp_type; rw [h]

theorem hp_childs_of_leaf {nd : prop_t F} (hd : nd.hp_type ≠ .PROP_DIR) : nd.hp_childs = [] := by
  unfold prop_t.hp_type at hd
  unfold prop_t.hp_childs
  cases hu : nd.u <;> rw [hu] at hd <;> simp [prop_value.hp_type] at hd ⊢

theorem quiet_setDir {nd : prop_t F} (h : nd.quiet = true) (cs : List Nat)
    (sel : Option Nat) : ({ nd with u := .PROP_DIR cs sel } : prop_t F).quiet = true := by
  rw [quiet_iff] at h ⊢
  refine ⟨by simp [prop_t.hp_type, prop_value.hp_type], h.2.1, h.2.2.1, h.2.2.2.1, ?_⟩
  intro t l e
  cases e

theorem Walked.wk_setDir (st : State F) (z : Nat) (hd : (st.nodes z).hp_type ≠ .PROP_DIR) :
    Walked st (st.setU z (.PROP_DIR [] none)) := by
  refine ⟨le_rfl, rfl, ?_, ?_, ?_, ?_, ?_, ?_, ?_, fun _ => rfl, ?_, ?_⟩
  · intro q _; rw [setU_nodes]; split
    · next e => rw [e]
    · rfl
  · intro q _; rw [setU_nodes]; split
    · next e => rw [e]
    · rfl
  · intro q _; rw [setU_nodes]; split
    · next e => rw [e]
    · rfl
  · intro q _; rw [setU_nodes]; split
    · next e => rw [e]
    · rfl
  · intro q _; rw [setU_nodes]; split
    · next e => rw [e]
    · rfl
  · intro q _; rw [setU_nodes]; split
    · next e => rw [e]
    · rfl
  · intro q _
    refine ⟨[], ?_, by simp⟩
    rw [setU_nodes]; split
    · next e => rw [e, hp_childs_of_leaf hd]; rfl
    · simp
  · intro q _ e
    rw [setU_nodes]; split
    · rfl
    · exact e
  · intro q hq hb
    rw [setU_nodes]; split
    · next e => exact quiet_setDir (by rw [← e]; exact hb hq) _ _
    · exact hb hq

theorem make_dir_walk {E : Nat → Prop} (st : State F) (z : Nat) (skipme : Option Nat)
    (hok : StoreOk E st) (hqt : (st.nodes z).quiet = true) :
    ∃ st2, prop_make_dir st z skipme = .ok st2 ∧ Walked st st2 ∧
      (∀ q, q ≠ z → (st2.nodes q).u = (st.nodes q).u) ∧
      (∀ s, (st2.subs s).hps_value_prop = (st.subs s).hps_value_prop) ∧
      (st2.nodes z).hp_type = .PROP_DIR ∧
      (st2.nodes z).hp_childs = (st.nodes z).hp_childs ∧ st2.nnodes = st.nnodes := by
  by_cases hd : (st.nodes z).hp_type = .PROP_DIR
  · exact ⟨st, by simp [prop_make_dir, hd], Walked.wk_refl _, fun _ _ => rfl, fun _ => rfl, hd,
      rfl, rfl⟩
  · have hq := (quiet_iff _).1 hqt
    obtain ⟨stA, hmd, huA, _⟩ := prop_make_dir_ok st z skipme hd
      (clean_of_unclipped hd hq.1 hq.2.1)
      ⟨fun s hs _ => (hok.value_back z s hs).1, fun e => by rw [hq.2.2.2.1] at e; cases e⟩
    have fr := prop_make_dir_frame hmd hd
    refine ⟨stA, hmd, (Walked.wk_setDir st z hd).wk_trans (Walked.wk_of_sameTree fr), ?_, ?_,
      hp_type_of_dir huA, ?_, ?_⟩
    · intro q hq
      rw [fr.u q, setU_nodes, if_neg hq]
    · intro s
      rw [fr.hps_value_prop s]
      rfl
    · rw [hp_childs_of_u huA, hp_childs_of_leaf hd]
    · rw [fr.1]; rfl

/-! ## C23: a relink between equal values makes no value record -/

theorem Silent.sl_refl (st : State F) : Silent st st := ⟨[], by simp, by simp⟩

theorem Silent.sl_trans {a b c : State F} (h1 : Silent a b) (h2 : Silent b c) : Silent a c := by
  obtain ⟨M1, e1, p1⟩ := h1
  obtain ⟨M2, e2, p2⟩ := h2
  refine ⟨M1 ++ M2, by rw [e2, e1, List.append_assoc], fun d hd => ?_⟩
  rcases List.mem_append.1 hd with h | h
  · exact p1 d h
  · exact p2 d h

theorem Silent.sl_of_log {a b : State F} (h : b.log = a.log) : Silent a b :=
  ⟨[], by simp [h], by simp⟩

theorem silent_of_relink_one [CFloat F] {E : Nat → Prop} {r : Nat} {skipme : Option Nat}
    {s : Nat} {st st' : State F} {pnq pnq' : prop_notify_queue F}
    (hok : StoreOk E st) (hq : MonitorsQueued st) (hs : s < st.nsubs)
    (hc : reads_equal st r s)
    (h : relink_one r skipme s st pnq = .ok (st', pnq')) : Silent st st' := by
  unfold relink_one at h
  split at h
  · cases h; exact Silent.sl_refl _
  · next hne =>
    obtain ⟨v, hv, hvd, hcmp⟩ : ∃ v, (st.subs s).hps_value_prop = some v ∧
        (st.nodes v).hp_type ≠ .PROP_DIR ∧
        prop_value_compare (st.nodes v) (st.nodes r) = .ok true := by
      rcases hc with hc | hc
      · exact absurd hc hne
      · exact hc
    dsimp only at h
    split at h
    · cases h
    · next st2 equal hd =>
      have s2 : Moved (fun t => t = s) r st st2 ∧ st2.log = st.log ∧ equal = true := by
        split at hd
        · next v' hv' =>
          rw [hv] at hv'
          cases hv'
          have hcond : ¬ (((st.nodes v).hp_type = .PROP_DIR && decide (some s ≠ skipme))
              = true) := by simp [hvd]
          rw [if_neg hcond] at hd
          dsimp only at hd
          split at hd
          · cases hd
          · next l hr =>
            split at hd
            · cases hd
            · next eq' hc' =>
              cases hd
              refine ⟨Moved.mv_setValue _ _ st v _ (fun t ht => by
                unfold tailq_remove at hr
                split at hr
                · cases hr; exact Or.inl (List.mem_of_mem_erase ht)
                · cases hr), rfl, ?_⟩
              have e : prop_value_compare
                  ((st.setNode v { st.nodes v with hp_value_subscriptions := l }).nodes v)
                  ((st.setNode v { st.nodes v with hp_value_subscriptions := l }).nodes r)
                  = prop_value_compare (st.nodes v) (st.nodes r) := by
                apply value_compare_congr
                · simp
                · rw [setNode_nodes]
                  split
                  · next er => rw [er]
                  · rfl
              rw [e, hcmp] at hc'
              cases hc'
              rfl
        · next hn => rw [hv] at hn; cases hn
      obtain ⟨s2, l2, heq⟩ := s2
      subst heq
      have s4 : Moved (fun t => t = s) r st2 ((st2.setNode r { st2.nodes r with
          hp_value_subscriptions := s :: (st2.nodes r).hp_value_subscriptions }).setSub s
          { (st2.setNode r { st2.nodes r with
              hp_value_subscriptions := s :: (st2.nodes r).hp_value_subscriptions }).subs s with
            hps_value_prop := some r }) := by
        have a : Moved (fun t => t = s) r st2 (st2.setNode r { st2.nodes r with
            hp_value_subscriptions := s :: (st2.nodes r).hp_value_subscriptions }) :=
          Moved.mv_setValue _ _ st2 r _ (fun t ht => by
            rcases List.mem_cons.1 ht with e | e
            · exact Or.inr e
            · exact Or.inl e)
        exact a.mv_trans (Moved.mv_setSub _ _ _ _ _ rfl (Or.inr ⟨rfl, rfl⟩))
      have l4 : ((st2.setNode r { st2.nodes r with
          hp_value_subscriptions := s :: (st2.nodes r).hp_value_subscriptions }).setSub s
          { (st2.setNode r { st2.nodes r with
              hp_value_subscriptions := s :: (st2.nodes r).hp_value_subscriptions }).subs s with
            hps_value_prop := some r }).log = st2.log := rfl
      generalize (st2.setNode r { st2.nodes r with
          hp_value_subscriptions := s :: (st2.nodes r).hp_value_subscriptions }).setSub s
          { (st2.setNode r { st2.nodes r with
              hp_value_subscriptions := s :: (st2.nodes r).hp_value_subscriptions }).subs s with
            hps_value_prop := some r } = st4 at h s4 l4
      have s04 := s2.mv_trans s4
      split at h
      · cases h
      · next st5 hm =>
        have s5 : Silent st st5 := by
          split at hm
          · obtain ⟨x, M, ex, _, lx, mx⟩ := monitor_active_ok
              (st4.nodes r).hp_value_subscriptions st4 (fun t ht => by
                rw [s04.sflags t]
                apply hq t
                rcases s04.vsub r t ht with e | e
                · exact (hok.value_back r t e).2.1
                · rw [e]; exact hs)
            rw [ex] at hm
            cases hm
            refine ⟨M, by rw [lx, l4, l2], fun d hd => ?_⟩
            rw [mx d hd]
            rfl
          · cases hm
            exact Silent.sl_of_log (by rw [l4, l2])
        simp only [Bool.or_true, if_true] at h
        cases h
        exact s5

theorem reads_equal_moved [CFloat F] {r s t : Nat} {st st' : State F}
    (hm : Moved (fun x => x = t) r st st') (h : reads_equal st r s) : reads_equal st' r s := by
  rcases hm.value s with e | ⟨_, e⟩
  · rcases h with h | ⟨v, h1, h2, h3⟩
    · exact Or.inl (by rw [e]; exact h)
    · refine Or.inr ⟨v, by rw [e]; exact h1, by rw [hm.mv_type]; exact h2, ?_⟩
      rw [value_compare_congr (hm.u v) (hm.u r)]
      exact h3
  · exact Or.inl e

theorem silent_of_relink_subs [CFloat F] {E : Nat → Prop} (r : Nat) (skipme : Option Nat) :
    ∀ (l : List Nat) (st st' : State F) (pnq pnq' : prop_notify_queue F),
      StoreOk E st → MonitorsQueued st → (∀ s ∈ l, s < st.nsubs) → r < st.nnodes →
      (∀ s ∈ l, reads_equal st r s) →
      relink_subs r skipme l st pnq = .ok (st', pnq') → Silent st st' := by
  intro l
  induction l with
  | nil => intro st st' pnq pnq' _ _ _ _ _ h; cases h; exact Silent.sl_refl _
  | cons s rest ih =>
    intro st st' pnq pnq' hok hq hs hr hc h
    unfold relink_subs at h
    split at h
    · cases h
    · next st1 pnq1 h1 =>
      have a1 := silent_of_relink_one hok hq (hs s (List.mem_cons_self _ _))
        (hc s (List.mem_cons_self _ _)) h1
      obtain ⟨o1, n1, _⟩ := storeOk_of_relink_one h1 hok (hs s (List.mem_cons_self _ _)) hr
      have m1 := (mv_of_relink_one h1).1
      exact a1.sl_trans (ih st1 st' pnq1 pnq' o1 (hq.mq_flags m1.nsubs m1.sflags)
        (fun t ht => by rw [m1.nsubs]; exact hs t (List.mem_cons_of_mem _ ht))
        (by rw [n1]; exact hr)
        (fun t ht => reads_equal_moved m1 (hc t (List.mem_cons_of_mem _ ht))) h)

theorem create0_walk {E : Nat → Prop} (st : State F) (a : Nat) (nm : String)
    (hok : StoreOk E st) (hd : (st.nodes a).hp_type = .PROP_DIR) (ha : a < st.nnodes)
    (hm : (st.nodes a).hp_flags.PROP_MULTI_SUB = false ∧
      (st.nodes a).hp_flags.PROP_MULTI_NOTIFY = false) :
    ∃ st1 z, prop_create0 st a (some nm) none false = .ok (st1, z) ∧ Walked st st1 ∧
      (∀ q, q < st.nnodes → q ≠ a → (st1.nodes q).u = (st.nodes q).u) ∧
      (∀ s, (st1.subs s).hps_value_prop = (st.subs s).hps_value_prop) ∧
      find_child_by_name st1 (st1.nodes a).hp_childs nm = some z ∧
      (st1.nodes a).hp_type = .PROP_DIR ∧ z < st1.nnodes ∧
      (z ∈ (st.nodes a).hp_childs ∨ st.nnodes ≤ z) := by
  have hu : ∃ cs sel, (st.nodes a).u = .PROP_DIR cs sel := by
    unfold prop_t.hp_type at hd
    cases hv : (st.nodes a).u <;> rw [hv] at hd <;> simp [prop_value.hp_type] at hd
    exact ⟨_, _, rfl⟩
  obtain ⟨cs, sel, hu⟩ := hu
  have hcs := hp_childs_of_u hu
  cases hf : find_child_by_name st cs nm with
  | none =>
    obtain ⟨st', h, n1, ua, unew, nnew, _, _, hother, hparent, hsubs, _, hflags⟩ :=
      prop_create0_new st a (some nm) none false cs sel hu ha (by simpa using hf)
    have g := (storeOk_of_create0 h hok ha).2.1
    have hne : a ≠ st.nnodes := Nat.ne_of_lt ha
    have hfl := hflags hm.1 hm.2
    have hnames : ∀ q, q < st.nnodes → (st'.nodes q).hp_name = (st.nodes q).hp_name := by
      intro q hq
      by_cases e : q = a
      · rw [e, hparent]
      · rw [hother q e (Nat.ne_of_lt hq)]
    refine ⟨st', st.nnodes, h, ⟨g.nnodes, g.nsubs, g.originator, hnames, ?_, ?_, ?_, ?_, ?_,
        ?_, ?_, ?_⟩,
      ?_, ?_, ?_, hp_type_of_dir ua, by rw [n1]; exact Nat.lt_succ_self _, Or.inr le_rfl⟩
    · intro q hq
      by_cases e : q = a
      · rw [e, hparent]
      · rw [hother q e (Nat.ne_of_lt hq)]
    · intro q hq
      by_cases e : q = a
      · rw [e, hparent]
      · rw [hother q e (Nat.ne_of_lt hq)]
    · intro q hq
      by_cases e : q = a
      · rw [e, hparent]
      · rw [hother q e (Nat.ne_of_lt hq)]
    · intro q hq
      by_cases e : q = a
      · rw [e, hparent]
      · rw [hother q e (Nat.ne_of_lt hq)]
    · intro q hq
      by_cases e : q = a
      · rw [e, hp_childs_of_u ua, hcs]
        exact ⟨[st.nnodes], rfl, by simp⟩
      · refine ⟨[], ?_, by simp⟩
        rw [hother q e (Nat.ne_of_lt hq)]
        simp [prop_t.hp_childs]
    · intro s
      rw [hsubs s]
    · intro q hq e
      by_cases e1 : q = a
      · rw [e1]; exact hp_type_of_dir ua
      · rw [hp_type_of_same_u (show (st'.nodes q).u = (st.nodes q).u by
          rw [hother q e1 (Nat.ne_of_lt hq)])]
        exact e
    · intro q hq hb
      by_cases e1 : q = a
      · have hqa := (quiet_iff _).1 (hb (by rw [e1]; exact ha))
        rw [e1] at hqa ⊢
        rw [quiet_iff]
        refine ⟨by rw [hp_type_of_dir ua]; simp, ?_, ?_, ?_, ?_⟩
        · rw [hparent]; exact hqa.2.1
        · rw [hparent]; exact hqa.2.2.1
        · rw [hparent]; exact hqa.2.2.2.1
        · intro t l e
          rw [ua] at e
          cases e
      · by_cases e2 : q = st.nnodes
        · rw [e2, quiet_iff]
          refine ⟨?_, by rw [hfl], by rw [hfl], by rw [hfl], ?_⟩
          · unfold prop_t.hp_type
            rw [unew]
            simp [prop_value.hp_type]
          · intro t l e
            rw [unew] at e
            cases e
        · rw [hother q e1 e2]
          exact hb (by rw [n1] at hq; omega)
    · intro q hq e
      rw [hother q e (Nat.ne_of_lt hq)]
    · intro s
      rw [hsubs s]
    · rw [hp_childs_of_u ua]
      apply find_child_by_name_append_new
      · rw [find_child_by_name_congr nm cs (fun c hc => hnames c
          (hok.names.2 a c (by rw [hcs]; exact hc)))]
        exact hf
      · exact nnew
  | some c =>
    have hnz : ¬ (st.nodes a).hp_type = .PROP_ZOMBIE := by rw [hd]; decide
    have hmd : prop_make_dir st a none = .ok st := by simp [prop_make_dir, hd]
    have h : prop_create0 st a (some nm) none false = .ok (st, c) := by
      simp [prop_create0, hnz, hmd, hcs, hf]
    have hc := (find_child_by_name_some hf).1
    exact ⟨st, c, h, Walked.wk_refl _, fun _ _ _ => rfl, fun _ => rfl, by rw [hcs]; exact hf, hd,
      hok.names.2 a c (by rw [hcs]; exact hc), Or.inl (by rw [hcs]; exact hc)⟩

/-! ## C21: the invariants of the walk -/

theorem WalkOk.step {A : Nat → Prop} {st st' : State F} (h : WalkOk A st)
    (hok : StoreOk (fun _ => False) st') (hs : Steady st st') (hw : Walked st st') :
    WalkOk A st' := by
  refine ⟨hok, fun q hq => hw.quiet q hq (fun hb => h.quiet q hb),
    h.mon.mq_flags hw.nsubs hw.sflags, ?_, ?_, ?_⟩
  · intro q c hq hc
    by_cases hlt : q < st.nnodes
    · obtain ⟨ext, e1, e2⟩ := hw.childs q hlt
      rw [e1] at hc
      rcases List.mem_append.1 hc with hc | hc
      · exact h.cl q c hq hc
      · exact h.nw c (e2 c hc)
    · have := hok.above q c hc
      exact h.nw c (by omega)
  · intro q hq
    rcases hs.kept q with e | e
    · rw [e]; exact h.ul q hq
    · exact e
  · intro q hq
    exact h.nw q (le_trans hw.nnodes hq)

theorem WalkOk.alloc {A : Nat → Prop} {st : State F} (h : WalkOk A st) {y : Nat}
    (hy : ¬ A y) : y < st.nnodes := by
  by_contra hn
  exact hy (h.nw y (by omega))

theorem shallow_congr {a b : State F} : ∀ (k : Nat) (d : Nat),
    (∀ q ∈ subtree k a d, (b.nodes q).hp_childs = (a.nodes q).hp_childs) →
    shallow k b d = shallow k a d := by
  intro k
  induction k with
  | zero => intro d _; rfl
  | succ n ih =>
    intro d h
    unfold shallow
    rw [h d (mem_subtree_self _ _ _)]
    apply all_congr_mem
    intro c hc
    apply ih
    intro q hq
    apply h
    rw [subtree_succ]
    exact List.mem_cons_of_mem _ (List.mem_flatMap.2 ⟨c, hc, hq⟩)

theorem Ready.transfer {A : Nat → Prop} {n fuel : Nat} {st st' : State F} {b : Nat}
    (hu : ∀ y, ¬ A y → (st'.nodes y).u = (st.nodes y).u) (h : Ready A n fuel st b) :
    Ready A n fuel st' b ∧ subtree n st' b = subtree n st b := by
  obtain ⟨h1, h2, h3, h4⟩ := h
  have hc : ∀ q ∈ subtree n st b, (st'.nodes q).hp_childs = (st.nodes q).hp_childs :=
    fun q hq => hp_childs_of_same_u (hu q (h3 q hq))
  have e := subtree_congr n b hc
  refine ⟨⟨by rw [shallow_congr n b hc]; exact h1, by rw [e]; exact h2,
    by rw [e]; exact h3, ?_⟩, e⟩
  rw [e]
  intro y hy
  rw [hc y hy]
  exact h4 y hy

theorem mem_subtree_child {st : State F} {n b c y : Nat} (hc : c ∈ (st.nodes b).hp_childs)
    (hy : y ∈ subtree n st c) : y ∈ subtree (n + 1) st b := by
  rw [subtree_succ]
  exact List.mem_cons_of_mem _ (List.mem_flatMap.2 ⟨c, hc, hy⟩)

theorem Ready.child {A : Nat → Prop} {n fuel : Nat} {st : State F} {b c : Nat}
    (h : Ready A (n + 1) (fuel + 1) st b) (hc : c ∈ (st.nodes b).hp_childs) :
    Ready A n fuel st c := by
  obtain ⟨h1, h2, h3, h4⟩ := h
  refine ⟨?_, ?_, fun y hy => h3 y (mem_subtree_child hc hy), fun y hy => ?_⟩
  · unfold shallow at h1
    exact List.all_eq_true.1 h1 c hc
  · rw [subtree_succ] at h2
    exact (List.nodup_flatMap.1 (List.nodup_cons.1 h2).2).1 c hc
  · have := h4 y (mem_subtree_child hc hy)
    omega

theorem Paired_stable {E : Nat → Prop} : ∀ (n : Nat) (st st' : State F) (a b : Nat),
    StoreOk E st → Walked st st' → a < st.nnodes →
    (∀ y ∈ subtree n st b, y < st.nnodes ∧ (st'.nodes y).u = (st.nodes y).u) →
    (∀ y ∈ subtree n st b, ∀ s ∈ (st.nodes y).hp_canonical_subscriptions,
      (st'.subs s).hps_value_prop = (st.subs s).hps_value_prop) →
    Paired n st a b → Paired n st' a b := by
  intro n
  induction n with
  | zero => intro st st' a b _ _ _ _ _ _; trivial
  | succ n ih =>
    intro st st' a b hok hw ha hu hv hp
    obtain ⟨p1, p2⟩ := hp
    have hb := hu b (mem_subtree_self _ _ _)
    refine ⟨?_, ?_⟩
    · intro s hs
      rw [hw.canonical b hb.1] at hs
      rw [hv b (mem_subtree_self _ _ _) s hs]
      exact p1 s hs
    · intro c hc nm hn
      rw [hp_childs_of_same_u hb.2] at hc
      have hca := hu c (mem_subtree_child hc (mem_subtree_self _ _ _))
      rw [hw.name c hca.1] at hn
      obtain ⟨z, f1, f2, f3⟩ := p2 c hc nm hn
      have hz : z < st.nnodes := hok.names.2 a z (find_child_by_name_some f1).1
      refine ⟨z, hw.find_stable hok ha f1, by rw [hw.originator z hz]; exact f2, ?_⟩
      exact ih st st' z c hok hw hz (fun y hy => hu y (mem_subtree_child hc hy))
        (fun y hy => hv y (mem_subtree_child hc hy)) f3

/-! ## C21: the loops of relink_subscriptions -/

theorem relink_subs_walk [CFloat F] {A : Nat → Prop} (st : State F) (a b : Nat)
    (skipme : Option Nat) (pnq : prop_notify_queue F) (h : WalkOk A st) (ha : a < st.nnodes) :
    ∃ st1 pnq1, relink_subs a skipme (st.nodes b).hp_canonical_subscriptions st pnq
        = .ok (st1, pnq1) ∧ WalkOk A st1 ∧
      Moved (fun t => t ∈ (st.nodes b).hp_canonical_subscriptions) a st st1 ∧
      ∀ s ∈ (st.nodes b).hp_canonical_subscriptions, (st1.subs s).hps_value_prop = some a := by
  have hs : ∀ s ∈ (st.nodes b).hp_canonical_subscriptions, s < st.nsubs :=
    fun s hs => (h.store.canonical_back b s hs).2.1
  obtain ⟨st1, pnq1, e⟩ := relink_subs_total a skipme _ st pnq h.store h.quiet h.mon hs ha
  obtain ⟨o1, _, _⟩ := storeOk_of_relink_subs a skipme _ st st1 pnq pnq1 e h.store hs ha
  obtain ⟨m, v⟩ := mv_of_relink_subs a skipme _ st st1 pnq pnq1 e
  exact ⟨st1, pnq1, e, h.step o1 (sd_of_relink_subs a skipme _ st st1 pnq pnq1 e)
    (Walked.wk_of_moved m), m, v⟩

/-- The body of the loop over the children of dst for the child c. -/
theorem relink_child_walk [CFloat F] (A : Nat → Prop) (skipme : Option Nat) (n f : Nat)
    (IH : ∀ (st : State F) (a b : Nat) (pnq : prop_notify_queue F), WalkOk A st → A a →
      a < st.nnodes → Ready A n f st b →
      ∃ st' pnq', relink_subscriptions f st a b skipme pnq none = .ok (st', pnq') ∧
        WalkDone A n st st' a b)
    (a c : Nat) (st : State F) (pnq : prop_notify_queue F) (hw : WalkOk A st) (hA : A a)
    (ha : a < st.nnodes) (hd : (st.nodes a).hp_type = .PROP_DIR) (hr : Ready A n f st c) :
    ∃ st3 pnq3, (match (st.nodes c).hp_name with
        | none => (.ok (st, pnq) : Except Fault (State F × prop_notify_queue F))
        | some name =>
          if some c = (none : Option Nat) then .ok (st, pnq)
          else
            match prop_create0 st a (some name) none false with
            | .error e => .error e
            | .ok (st1, z) =>
              match (if (st1.nodes c).hp_type = prop_type_t.PROP_DIR then
                  prop_make_dir st1 z skipme
                else .ok st1) with
              | .error e => .error e
              | .ok st2 => relink_subscriptions f st2 z c skipme pnq none) = .ok (st3, pnq3) ∧
      WalkOk A st3 ∧ Walked st st3 ∧ (∀ y, ¬ A y → (st3.nodes y).u = (st.nodes y).u) ∧
      (∀ s, (st3.subs s).hps_value_prop ≠ (st.subs s).hps_value_prop →
        ∃ y ∈ subtree n st c, s ∈ (st.nodes y).hp_canonical_subscriptions) ∧
      ∀ nm, (st.nodes c).hp_name = some nm →
        ∃ z, find_child_by_name st3 (st3.nodes a).hp_childs nm = some z ∧ A z ∧
          z < st3.nnodes ∧ Paired n st3 z c := by
  have hcA : ¬ A c := hr.2.2.1 c (mem_subtree_self _ _ _)
  cases hn : (st.nodes c).hp_name with
  | none =>
    exact ⟨st, pnq, rfl, hw, Walked.wk_refl _, fun _ _ => rfl, fun s e => absurd rfl e,
      fun nm e => by cases e⟩
  | some nm =>
    obtain ⟨st1, z, e1, w1, u1, v1, f1, t1, z1, zc⟩ :=
      create0_walk st a nm hw.store hd ha
        ⟨((quiet_iff _).1 (hw.quiet a ha)).2.2.1, ((quiet_iff _).1 (hw.quiet a ha)).2.2.2.1⟩
    have ok1 : WalkOk A st1 :=
      hw.step (storeOk_of_create0 e1 hw.store ha).1 (sd_of_create0 e1) w1
    have hz : A z := by
      rcases zc with zc | zc
      · exact hw.cl a z hA zc
      · exact hw.nw z zc
    have hu1 : ∀ y, ¬ A y → (st1.nodes y).u = (st.nodes y).u := fun y hy =>
      u1 y (hw.alloc hy) (fun e => hy (e ▸ hA))
    have hcz : c ≠ z := fun e => hcA (e ▸ hz)
    obtain ⟨st2, e2, ok2, w2, u2, v2, t2, z2⟩ : ∃ st2,
        (if (st1.nodes c).hp_type = .PROP_DIR then prop_make_dir st1 z skipme
          else .ok st1) = .ok st2 ∧ WalkOk A st2 ∧ Walked st1 st2 ∧
        (∀ q, q ≠ z → (st2.nodes q).u = (st1.nodes q).u) ∧
        (∀ s, (st2.subs s).hps_value_prop = (st1.subs s).hps_value_prop) ∧
        ((st1.nodes c).hp_type = .PROP_DIR → (st2.nodes z).hp_type = .PROP_DIR) ∧
        st2.nnodes = st1.nnodes := by
      by_cases hcd : (st1.nodes c).hp_type = .PROP_DIR
      · obtain ⟨st2, e2, w2, u2, v2, t2, _, n2⟩ :=
          make_dir_walk st1 z skipme ok1.store (ok1.quiet z z1)
        have o2 : StoreOk (fun _ => False) st2 :=
          ok1.store.ok_of_tame (shrink_of_make_dir e2) (tame_of_make_dir e2)
        exact ⟨st2, by rw [if_pos hcd]; exact e2, ok1.step o2 (sd_make_dir e2) w2, w2, u2, v2,
          fun _ => t2, n2⟩
      · exact ⟨st1, by rw [if_neg hcd], ok1, Walked.wk_refl _, fun _ _ => rfl, fun _ => rfl,
          fun e => absurd e hcd, rfl⟩
    have hu2 : ∀ y, ¬ A y → (st2.nodes y).u = (st.nodes y).u := fun y hy => by
      rw [u2 y (fun e => hy (e ▸ hz)), hu1 y hy]
    obtain ⟨r2, s2⟩ := hr.transfer hu2
    have hz2 : z < st2.nnodes := by rw [z2]; exact z1
    obtain ⟨st3, pnq3, e3, ok3, w3, u3, wr3, _, pr3, _⟩ := IH st2 z c pnq ok2 hz hz2 r2
    have w02 := w1.wk_trans w2
    have hca : c < st.nnodes := hw.alloc hcA
    refine ⟨st3, pnq3, ?_, ok3, w02.wk_trans w3, fun y hy => by rw [u3 y hy, hu2 y hy], ?_, ?_⟩
    · simp only [reduceCtorEq, if_false, e1, e2, e3]
    · intro s hs
      rw [← v1 s, ← v2 s] at hs
      obtain ⟨y, hy, hys⟩ := wr3 s hs
      rw [s2] at hy
      refine ⟨y, hy, ?_⟩
      rw [← w02.canonical y (hw.alloc (hr.2.2.1 y hy))]
      exact hys
    · intro nm' hn'
      cases hn'
      have f2 : find_child_by_name st2 (st2.nodes a).hp_childs nm = some z :=
        w2.find_stable ok1.store (lt_of_lt_of_le ha w1.nnodes) f1
      refine ⟨z, w3.find_stable ok2.store (lt_of_lt_of_le ha w02.nnodes) f2, hz,
        lt_of_lt_of_le hz2 w3.nnodes, pr3 ?_⟩
      intro hcd
      apply t2
      rw [← hp_type_of_same_u (u2 c hcz)]
      exact hcd

theorem relink_childs_walk [CFloat F] (A : Nat → Prop) (skipme : Option Nat) (n f : Nat)
    (IH : ∀ (st : State F) (a b : Nat) (pnq : prop_notify_queue F), WalkOk A st → A a →
      a < st.nnodes → Ready A n f st b →
      ∃ st' pnq', relink_subscriptions f st a b skipme pnq none = .ok (st', pnq') ∧
        WalkDone A n st st' a b)
    (a b : Nat) (cs : List Nat) (hnd : cs.Nodup) :
    ∀ (rest pre : List Nat) (k : Nat) (st : State F) (pnq : prop_notify_queue F),
      cs = pre ++ rest → rest.length < k → WalkOk A st → A a → a < st.nnodes → ¬ A b →
      (st.nodes a).hp_type = .PROP_DIR → (st.nodes b).hp_childs = cs →
      (∀ c ∈ rest, Ready A n f st c) → (rest.flatMap (subtree n st)).Nodup →
      ∃ st' pnq', relink_childs (fun s z c q => relink_subscriptions f s z c skipme q none)
          a b skipme none k st rest.head? pnq = .ok (st', pnq') ∧
        WalkOk A st' ∧ Walked st st' ∧ (∀ y, ¬ A y → (st'.nodes y).u = (st.nodes y).u) ∧
        (∀ s, (st'.subs s).hps_value_prop ≠ (st.subs s).hps_value_prop →
          ∃ c ∈ rest, ∃ y ∈ subtree n st c, s ∈ (st.nodes y).hp_canonical_subscriptions) ∧
        ∀ c ∈ rest, ∀ nm, (st.nodes c).hp_name = some nm →
          ∃ z, find_child_by_name st' (st'.nodes a).hp_childs nm = some z ∧
            (st'.nodes z).hp_originator = none ∧ Paired n st' z c := by
  intro rest
  induction rest with
  | nil =>
    intro pre k st pnq _ hk hw _ _ _ _ _ _ _
    obtain ⟨k', rfl⟩ : ∃ k', k = k' + 1 := ⟨k - 1, by simp at hk; omega⟩
    exact ⟨st, pnq, by simp [relink_childs], hw, Walked.wk_refl _, fun _ _ => rfl,
      fun s e => absurd rfl e, by simp⟩
  | cons c rest' ih =>
    intro pre k st pnq hcs hk hw hA ha hb hd hch hr hdis
    obtain ⟨k', rfl⟩ : ∃ k', k = k' + 1 := ⟨k - 1, by simp at hk; omega⟩
    have hk' : rest'.length < k' := by simp at hk; omega
    have hcpre : c ∉ pre := by
      rw [hcs] at hnd
      intro hm
      exact (List.nodup_append.1 hnd).2.2 hm (List.mem_cons_self _ _)
    have hcs' : cs = (pre ++ [c]) ++ rest' := by rw [hcs]; simp
    have hrc := hr c (List.mem_cons_self _ _)
    rw [List.flatMap_cons] at hdis
    obtain ⟨_, hd2, hd3⟩ := List.nodup_append.1 hdis
    obtain ⟨st3, pnq3, e3, ok3, w3, u3, wr3, pr3⟩ :=
      relink_child_walk A skipme n f IH a c st pnq hw hA ha hd hrc
    have hch3 : (st3.nodes b).hp_childs = cs := by
      rw [hp_childs_of_same_u (u3 b hb)]; exact hch
    have hsub : ∀ c' ∈ rest', Ready A n f st3 c' ∧ subtree n st3 c' = subtree n st c' :=
      fun c' hc' => (hr c' (List.mem_cons_of_mem _ hc')).transfer u3
    have hfm : rest'.flatMap (subtree n st3) = rest'.flatMap (subtree n st) :=
      List.flatMap_congr (fun c' hc' => (hsub c' hc').2)
    obtain ⟨st', pnq', e', ok', w', u', wr', pr'⟩ := ih (pre ++ [c]) k' st3 pnq3 hcs' hk' ok3 hA
      (lt_of_lt_of_le ha w3.nnodes) hb (w3.dir a ha hd) hch3 (fun c' hc' => (hsub c' hc').1)
      (by rw [hfm]; exact hd2)
    have halloc : ∀ c' ∈ c :: rest', ∀ y ∈ subtree n st c', y < st.nnodes := fun c' hc' y hy =>
      hw.alloc ((hr c' hc').2.2.1 y hy)
    refine ⟨st', pnq', ?_, ok', w3.wk_trans w', fun y hy => by rw [u' y hy, u3 y hy], ?_, ?_⟩
    · unfold relink_childs
      simp only [List.head?_cons]
      split
      · next e hB =>
        have := hB.symm.trans e3
        cases this
      · next st1 pnq1 hB =>
        have := hB.symm.trans e3
        cases this
        rw [hch3, hcs, tailq_next_append c rest' pre hcpre]
        exact e'
    · intro s hs
      by_cases h3 : (st3.subs s).hps_value_prop = (st.subs s).hps_value_prop
      · rw [← h3] at hs
        obtain ⟨c', hc', y, hy, hys⟩ := wr' s hs
        rw [(hsub c' hc').2] at hy
        refine ⟨c', List.mem_cons_of_mem _ hc', y, hy, ?_⟩
        rw [← w3.canonical y (halloc c' (List.mem_cons_of_mem _ hc') y hy)]
        exact hys
      · obtain ⟨y, hy, hys⟩ := wr3 s h3
        exact ⟨c, List.mem_cons_self _ _, y, hy, hys⟩
    · intro c' hc' nm hn
      rcases List.mem_cons.1 hc' with e | hc''
      · subst e
        obtain ⟨z, f3, hz, hz3, p3⟩ := pr3 nm hn
        refine ⟨z, w'.find_stable ok3.store (lt_of_lt_of_le ha w3.nnodes) f3, ok'.ul z hz, ?_⟩
        have r3 := (hrc.transfer u3)
        apply Paired_stable n st3 st' z c' ok3.store w' hz3
        · intro y hy
          have hyA : ¬ A y := r3.1.2.2.1 y hy
          exact ⟨ok3.alloc hyA, u' y hyA⟩
        · intro y hy s hs
          by_contra hne
          obtain ⟨d, hd', y', hy', hys'⟩ := wr' s hne
          have e1 := (ok3.store.canonical_back y s hs).1
          have e2 := (ok3.store.canonical_back y' s hys').1
          rw [e1] at e2
          cases e2
          rw [r3.2] at hy
          rw [(hsub d hd').2] at hy'
          exact hd3 hy (List.mem_flatMap.2 ⟨d, hd', hy'⟩)
        · exact p3
      · have hn3 : (st3.nodes c').hp_name = some nm := by
          rw [w3.name c' (halloc c' hc' c' (mem_subtree_self _ _ _))]; exact hn
        exact pr' c' hc'' nm hn3

/-- The walk of relink_subscriptions from the pair (a, b) returns and leaves every
  subscription of the tree below b at the partner of its canonical node. -/
theorem relink_walk [CFloat F] (A : Nat → Prop) (skipme : Option Nat) :
    ∀ (n f : Nat) (st : State F) (a b : Nat) (pnq : prop_notify_queue F), WalkOk A st → A a →
      a < st.nnodes → Ready A n f st b →
      ∃ st' pnq', relink_subscriptions f st a b skipme pnq none = .ok (st', pnq') ∧
        WalkDone A n st st' a b := by
  intro n
  induction n with
  | zero =>
    intro f st a b pnq _ _ _ hr
    have := hr.1
    simp [shallow] at this
  | succ n ih =>
    intro f st a b pnq hw hA ha hr
    have hfb := hr.2.2.2 b (mem_subtree_self _ _ _)
    obtain ⟨f', rfl⟩ : ∃ f', f = f' + 1 := ⟨f - 1, by omega⟩
    have hfo : follow_originators (f' + 1) st a = .ok a := by
      simp [follow_originators, hw.ul a hA]
    obtain ⟨st1, pnq1, e1, ok1, m1, v1⟩ := relink_subs_walk st a b skipme pnq hw ha
    have hbA : ¬ A b := hr.2.2.1 b (mem_subtree_self _ _ _)
    have hb : b < st.nnodes := hw.alloc hbA
    have hnd2 := hr.2.1
    rw [subtree_succ] at hnd2
    obtain ⟨hbn, hfn⟩ := List.nodup_cons.1 hnd2
    have w1 := Walked.wk_of_moved m1
    by_cases hdd : (st1.nodes b).hp_type = .PROP_DIR ∧ (st1.nodes a).hp_type = .PROP_DIR
    · have hcs : (st1.nodes b).hp_childs = (st.nodes b).hp_childs := m1.mv_childs b
      have hu1 : ∀ y, ¬ A y → (st1.nodes y).u = (st.nodes y).u := fun y _ => m1.u y
      have hnd : (st.nodes b).hp_childs.Nodup :=
        childs_nodup_of_flatMap (fun d => mem_subtree_self n st d) hfn
      have hsub : ∀ c ∈ (st.nodes b).hp_childs,
          Ready A n f' st1 c ∧ subtree n st1 c = subtree n st c :=
        fun c hc => (hr.child hc).transfer hu1
      have hfm : (st.nodes b).hp_childs.flatMap (subtree n st1)
          = (st.nodes b).hp_childs.flatMap (subtree n st) :=
        List.flatMap_congr (fun c hc => (hsub c hc).2)
      obtain ⟨st', pnq', e', ok', w', u', wr', pr'⟩ := relink_childs_walk A skipme n f' (ih f')
        a b (st.nodes b).hp_childs hnd (st.nodes b).hp_childs [] (f' + 1) st1 pnq1 rfl
        (by omega) ok1 hA (by rw [m1.nnodes]; exact ha) hbA hdd.2 hcs
        (fun c hc => (hsub c hc).1) (by rw [hfm]; exact hfn)
      have heq : relink_subscriptions (f' + 1) st a b skipme pnq none = .ok (st', pnq') := by
        unfold relink_subscriptions
        rw [hfo]
        simp only [e1, hdd.1, hdd.2, decide_True, Bool.and_self, if_true]
        rw [hcs]
        exact e'
      have w0 := w1.wk_trans w'
      have hval : ∀ s ∈ (st.nodes b).hp_canonical_subscriptions,
          (st'.subs s).hps_value_prop = some a := by
        intro s hs
        rw [← v1 s hs]
        by_contra hne
        obtain ⟨c, hc, y, hy, hys⟩ := wr' s hne
        have e2 := (ok1.store.canonical_back y s hys).1
        have e3 := (ok1.store.canonical_back b s (by rw [m1.canonical]; exact hs)).1
        rw [e2] at e3
        cases e3
        rw [(hsub c hc).2] at hy
        exact hbn (List.mem_flatMap.2 ⟨c, hc, hy⟩)
      refine ⟨st', pnq', heq, ok', w0, fun y hy => by rw [u' y hy, hu1 y hy], ?_, hval, ?_,
        fun hnd' _ => absurd (by rw [← m1.mv_type]; exact hdd.1) hnd'⟩
      · intro s hs
        by_cases h1 : (st1.subs s).hps_value_prop = (st.subs s).hps_value_prop
        · rw [← h1] at hs
          obtain ⟨c, hc, y, hy, hys⟩ := wr' s hs
          rw [(hsub c hc).2] at hy
          refine ⟨y, mem_subtree_child hc hy, ?_⟩
          rw [← m1.canonical y]
          exact hys
        · rcases m1.value s with e | ⟨hs1, _⟩
          · exact absurd e h1
          · exact ⟨b, mem_subtree_self _ _ _, hs1⟩
      · intro _
        refine ⟨?_, ?_⟩
        · intro s hs
          rw [w0.canonical b hb] at hs
          exact hval s hs
        · intro c hc nm hn
          have hub : (st'.nodes b).u = (st.nodes b).u := by rw [u' b hbA, hu1 b hbA]
          rw [hp_childs_of_same_u hub] at hc
          have hca : c < st1.nnodes :=
            ok1.alloc ((hsub c hc).1.2.2.1 c (mem_subtree_self _ _ _))
          rw [w'.name c hca] at hn
          exact pr' c hc nm hn
    · have heq : relink_subscriptions (f' + 1) st a b skipme pnq none = .ok (st1, pnq1) := by
        unfold relink_subscriptions
        rw [hfo]
        simp only [e1]
        rw [if_neg]
        simpa using hdd
      refine ⟨st1, pnq1, heq, ok1, w1, fun y _ => m1.u y, ?_, v1, ?_,
        fun _ hre => silent_of_relink_subs a skipme _ st st1 pnq pnq1 hw.store hw.mon
          (fun s hs => (hw.store.canonical_back b s hs).2.1) ha hre e1⟩
      · intro s hs
        rcases m1.value s with e | ⟨hs1, _⟩
        · exact absurd e hs
        · exact ⟨b, mem_subtree_self _ _ _, hs1⟩
      · intro hg
        have hbd : (st1.nodes b).hp_type ≠ .PROP_DIR := by
          intro e
          apply hdd
          refine ⟨e, ?_⟩
          rw [m1.mv_type] at e ⊢
          exact hg e
        refine ⟨?_, ?_⟩
        · intro s hs
          rw [m1.canonical] at hs
          exact v1 s hs
        · intro c hc
          rw [hp_childs_of_leaf hbd] at hc
          cases hc

/-! ## C21: prop_link0 over directories -/

theorem link_follow_pointed (st : State F) (src dst o : Nat) (hsd : src ≠ dst)
    (hdo : (st.nodes dst).hp_originator = none) (hod : o ≠ dst) :
    ∀ (fuel p : Nat), follow_originators fuel st p = .ok o →
      link_follow dst fuel (pointed st src dst) p = .ok o := by
  intro fuel
  induction fuel with
  | zero => intro p h; cases h
  | succ fuel ih =>
    intro p h
    unfold follow_originators at h
    unfold link_follow
    have hpd : p ≠ dst := by
      intro e
      rw [e, hdo] at h
      cases h
      exact hod rfl
    rw [pointed_originator st src dst p hsd, if_neg hpd]
    split at h
    · next e =>
      (try rw [e])
      exact h
    · next q e =>
      (try rw [e])
      simp only [if_neg hpd]
      exact ih q h

theorem prop_ancestors_walked {st st' : State F} (hw : Walked st st')
    (hp : ∀ p d, (st.nodes p).hp_parent = some d → d < st.nnodes) :
    ∀ (fuel p : Nat), p < st.nnodes → prop_ancestors fuel st' p = prop_ancestors fuel st p := by
  intro fuel
  induction fuel with
  | zero => intro p _; rfl
  | succ n ih =>
    intro p hlt
    simp only [prop_ancestors, hw.parent p hlt]
    cases e : (st.nodes p).hp_parent with
    | none => rfl
    | some q => simp only [ih q (hp p q e)]

theorem prop_ancestors_alloc {st : State F}
    (hp : ∀ p d, (st.nodes p).hp_parent = some d → d < st.nnodes) :
    ∀ (fuel p : Nat) (l : List Nat), prop_ancestors fuel st p = some l →
      ∀ d ∈ l, d < st.nnodes := by
  intro fuel
  induction fuel with
  | zero => intro p l h; cases h
  | succ n ih =>
    intro p l h
    unfold prop_ancestors at h
    split at h
    · cases h; simp
    · next q e =>
      split at h
      · cases h
      · next l' e' =>
        cases h
        intro d hd
        rcases List.mem_cons.1 hd with e1 | e1
        · rw [e1]; exact hp p q e
        · exact ih q l' e' d e1

theorem WalkOk.of_same {A : Nat → Prop} {st st' : State F} (h : WalkOk A st)
    (hok : StoreOk (fun _ => False) st') (hn : st'.nnodes = st.nnodes)
    (hu : ∀ q, (st'.nodes q).u = (st.nodes q).u)
    (ho : ∀ q, A q → (st'.nodes q).hp_originator = (st.nodes q).hp_originator)
    (hf : ∀ q, (st'.nodes q).hp_flags.PROP_MULTI_SUB = (st.nodes q).hp_flags.PROP_MULTI_SUB ∧
      (st'.nodes q).hp_flags.PROP_MULTI_NOTIFY = (st.nodes q).hp_flags.PROP_MULTI_NOTIFY ∧
      (st'.nodes q).hp_flags.PROP_CLIPPED_VALUE = (st.nodes q).hp_flags.PROP_CLIPPED_VALUE)
    (hs : st'.subs = st.subs) (hns : st'.nsubs = st.nsubs) : WalkOk A st' := by
  refine ⟨hok, ?_, fun s hs' => by rw [hs]; exact h.mon s (by rw [← hns]; exact hs'), ?_, ?_, ?_⟩
  · intro q hq
    have hqt := (quiet_iff _).1 (h.quiet q (by rw [← hn]; exact hq))
    rw [quiet_iff, hp_type_of_same_u (hu q), (hf q).1, (hf q).2.1, (hf q).2.2, hu q]
    exact hqt
  · intro q c hq hc
    rw [hp_childs_of_same_u (hu q)] at hc
    exact h.cl q c hq hc
  · intro q hq
    rw [ho q hq]
    exact h.ul q hq
  · intro q hq
    exact h.nw q (by rw [← hn]; exact hq)

theorem storeOk_pointed {st : State F} (hok : StoreOk (fun _ => False) st) (src dst : Nat)
    (hdo : (st.nodes dst).hp_originator = none) (hs : src < st.nnodes)
    (hd : dst < st.nnodes) : StoreOk (fun _ => False) (pointed st src dst) := by
  have o4 := hok.set_originator src dst hdo hs
  unfold pointed
  exact StoreOk.enlist dst src o4 (by simp) (fun e => e) hd

theorem pointed_name (st : State F) (src dst q : Nat) :
    ((pointed st src dst).nodes q).hp_name = (st.nodes q).hp_name := by
  unfold pointed
  simp only [setNode_nodes]
  split
  · next e1 =>
    split
    · next e2 => rw [e1, e2]
    · rw [e1]
  · split
    · next e2 => rw [e2]
    · rfl

theorem link_flush_nil (st : State F) : link_flush [] st = .ok st := rfl

/-- The three loops of prop_link0 after the link is entered. -/
theorem link_tail_walk [CFloat F] (A : Nat → Prop) (n fuel : Nat) (st : State F)
    (src dst o : Nat) (skipme : Option Nat) (anc : List Nat) (hw : WalkOk A st)
    (hsd : src ≠ dst) (hs : src < st.nnodes) (hdo : (st.nodes dst).hp_originator = none)
    (hfo : follow_originators fuel st src = .ok o) (hod : o ≠ dst) (hAo : A o)
    (hr : Ready A n fuel st dst) (hanc : prop_ancestors fuel st dst = some anc)
    (hnt : ∀ d ∈ anc, (st.nodes d).hp_targets = []) (hsa : src ∉ anc) :
    ∃ st' pnq', link_follow dst fuel (pointed st src dst) src = .ok o ∧
      relink_subscriptions fuel (pointed st src dst) o dst skipme none none
        = .ok (st', pnq') ∧
      link_parents fuel skipme fuel st' dst none = .ok st' ∧
      WalkOk A st' ∧ st.nnodes ≤ st'.nnodes ∧
      (∀ y, ¬ A y → (st'.nodes y).u = (st.nodes y).u) ∧
      (∀ q, q < st.nnodes →
        (st'.nodes q).hp_canonical_subscriptions = (st.nodes q).hp_canonical_subscriptions ∧
        (st'.nodes q).hp_parent = (st.nodes q).hp_parent ∧
        (st'.nodes q).hp_name = (st.nodes q).hp_name ∧
        (st'.nodes q).hp_flags.PROP_XREFED_ORIGINATOR
          = (st.nodes q).hp_flags.PROP_XREFED_ORIGINATOR ∧
        (st'.nodes q).hp_targets
          = if q = src then dst :: (st.nodes src).hp_targets else (st.nodes q).hp_targets) ∧
      (st'.nodes dst).hp_originator = some src ∧
      (∀ s ∈ (st.nodes dst).hp_canonical_subscriptions, (st'.subs s).hps_value_prop = some o) ∧
      (((st.nodes dst).hp_type = .PROP_DIR → (st.nodes o).hp_type = .PROP_DIR) →
        Paired n st' o dst) ∧
      (∀ q, q < st.nnodes → q ≠ dst →
        (st'.nodes q).hp_originator = (st.nodes q).hp_originator) ∧
      ((st.nodes dst).hp_type ≠ .PROP_DIR →
        (∀ s ∈ (st.nodes dst).hp_canonical_subscriptions, reads_equal st o s) →
        Silent st st') := by
  have hdA : ¬ A dst := hr.2.2.1 dst (mem_subtree_self _ _ _)
  have hd : dst < st.nnodes := hw.alloc hdA
  have e1 := link_follow_pointed st src dst o hsd hdo hod fuel src hfo
  have ok5 := storeOk_pointed hw.store src dst hdo hs hd
  have hu5 : ∀ q, ((pointed st src dst).nodes q).u = (st.nodes q).u :=
    fun q => (pointed_node st src dst q).1
  have hw5 : WalkOk A (pointed st src dst) := by
    refine hw.of_same ok5 rfl hu5 ?_ ?_ rfl rfl
    · intro q hq
      rw [pointed_originator st src dst q hsd, if_neg (by intro e; rw [e] at hq; exact hdA hq)]
    · intro q
      rw [(pointed_node st src dst q).2.2.1]
      exact ⟨rfl, rfl, rfl⟩
  have ho5 : o < (pointed st src dst).nnodes := link_follow_alloc dst _ _ _ _ ok5 hs e1
  have t5 : ∀ y, ¬ A y → ((pointed st src dst).nodes y).u = (st.nodes y).u := fun y _ => hu5 y
  obtain ⟨r5, _⟩ := Ready.transfer t5 hr
  obtain ⟨st', pnq', e2, ok', w', u', _, v', p', sl'⟩ :=
    relink_walk A skipme n fuel (pointed st src dst) o dst none hw5 hAo ho5 r5
  have hpar : ∀ q, q < st.nnodes → (st'.nodes q).hp_parent = (st.nodes q).hp_parent := by
    intro q hq
    rw [w'.parent q hq, (pointed_node st src dst q).2.1]
  have hanc5 : prop_ancestors fuel (pointed st src dst) dst = some anc := by
    rw [prop_ancestors_congr (fun q => (pointed_node st src dst q).2.1)]
    exact hanc
  have hpp : ∀ p d, ((pointed st src dst).nodes p).hp_parent = some d →
      d < (pointed st src dst).nnodes := ok5.parents
  have hanc' : prop_ancestors fuel st' dst = some anc := by
    rw [prop_ancestors_walked w' hpp fuel dst hd]
    exact hanc5
  have e3 : link_parents fuel skipme fuel st' dst none = .ok st' := by
    apply link_parents_idle fuel skipme fuel st' dst none anc hanc'
    intro d hd' nd
    have hdl : d < (pointed st src dst).nnodes := prop_ancestors_alloc hpp fuel dst anc hanc5 d hd'
    rw [w'.targets d hdl, pointed_targets st src dst d hsd,
      if_neg (by intro e; rw [e] at hd'; exact hsa hd'), hnt d hd']
    rfl
  refine ⟨st', pnq', e1, e2, e3, ok', w'.nnodes, fun y hy => by rw [u' y hy, hu5 y], ?_, ?_,
    ?_, ?_, ?_, ?_⟩
  · intro q hq
    refine ⟨?_, hpar q hq, ?_, ?_, ?_⟩
    · rw [w'.canonical q hq, (pointed_node st src dst q).2.2.2.2.1]
    · rw [w'.name q hq, pointed_name]
    · rw [w'.flags q hq, (pointed_node st src dst q).2.2.1]
    · rw [w'.targets q hq, pointed_targets st src dst q hsd]
  · rw [w'.originator dst hd, pointed_originator st src dst dst hsd, if_pos rfl]
  · intro s hs'
    apply v'
    rw [(pointed_node st src dst dst).2.2.2.2.1]
    exact hs'
  · intro hg
    apply p'
    rw [hp_type_of_same_u (hu5 dst), hp_type_of_same_u (hu5 o)]
    exact hg
  · intro q hq hqd
    rw [w'.originator q hq, pointed_originator st src dst q hsd, if_neg hqd]
  · intro hnd hre
    have := sl' (by rw [hp_type_of_same_u (hu5 dst)]; exact hnd) (fun s hs' => by
      rw [(pointed_node st src dst dst).2.2.2.2.1] at hs'
      rcases hre s hs' with h | ⟨v, h1, h2, h3⟩
      · exact Or.inl h
      · refine Or.inr ⟨v, h1, by rw [hp_type_of_same_u (hu5 v)]; exact h2, ?_⟩
        rw [value_compare_congr (hu5 v) (hu5 o)]
        exact h3)
    obtain ⟨M, e, p⟩ := this
    exact ⟨M, e, p⟩

theorem anchored_node (st : State F) (src dst q : Nat) :
    ((anchored st src dst).nodes q).u = (st.nodes q).u ∧
    ((anchored st src dst).nodes q).hp_name = (st.nodes q).hp_name ∧
    ((anchored st src dst).nodes q).hp_parent = (st.nodes q).hp_parent ∧
    ((anchored st src dst).nodes q).hp_originator = (st.nodes q).hp_originator ∧
    ((anchored st src dst).nodes q).hp_targets = (st.nodes q).hp_targets ∧
    ((anchored st src dst).nodes q).hp_canonical_subscriptions
      = (st.nodes q).hp_canonical_subscriptions ∧
    ((anchored st src dst).nodes q).hp_flags.PROP_MULTI_SUB
      = (st.nodes q).hp_flags.PROP_MULTI_SUB ∧
    ((anchored st src dst).nodes q).hp_flags.PROP_MULTI_NOTIFY
      = (st.nodes q).hp_flags.PROP_MULTI_NOTIFY ∧
    ((anchored st src dst).nodes q).hp_flags.PROP_CLIPPED_VALUE
      = (st.nodes q).hp_flags.PROP_CLIPPED_VALUE := by
  unfold anchored
  simp only [setNode_nodes]
  split
  · next e1 =>
    split
    · next e2 => rw [e1, e2]; simp
    · rw [e1]; simp
  · split
    · next e2 => rw [e2]; simp
    · simp

theorem anchored_storeOk {st : State F} (hok : StoreOk (fun _ => False) st) (src dst : Nat) :
    StoreOk (fun _ => False) (anchored st src dst) := by
  have t2 : Tame st (st.setNode dst { st.nodes dst with
      hp_flags := { (st.nodes dst).hp_flags with PROP_XREFED_ORIGINATOR := true } }) :=
    Tame.t_setNode st dst _ ⟨rfl, rfl, rfl, rfl, rfl, rfl, fun hz => hz, Or.inl rfl⟩
  have t3 := t2.t_trans (Tame.t_setNode _ src
    { (st.setNode dst { st.nodes dst with
      hp_flags := { (st.nodes dst).hp_flags with PROP_XREFED_ORIGINATOR := true } }).nodes src with
      hp_xref := ((st.setNode dst { st.nodes dst with
      hp_flags := { (st.nodes dst).hp_flags with
        PROP_XREFED_ORIGINATOR := true } }).nodes src).hp_xref + 1 }
    ⟨rfl, rfl, rfl, rfl, rfl, rfl, fun hz => hz, Or.inl rfl⟩)
  unfold anchored
  refine hok.ok_of_tame ?_ t3
  exact (Shrink.sh_setNode st dst _ (Or.inl (by rfl)) (by exact List.Subperm.refl _)).sh_trans
    (Shrink.sh_setNode _ src _ (Or.inl (by rfl)) (by exact List.Subperm.refl _))

theorem follow_congr {a b : State F}
    (h : ∀ q, (b.nodes q).hp_originator = (a.nodes q).hp_originator) :
    ∀ (fuel p : Nat), follow_originators fuel b p = follow_originators fuel a p := by
  intro fuel
  induction fuel with
  | zero => intro p; rfl
  | succ n ih =>
    intro p
    simp only [follow_originators, h p]
    cases (a.nodes p).hp_originator with
    | none => rfl
    | some q => simp only [ih q]

theorem LinkReady.anchor {A : Nat → Prop} {n fuel : Nat} {st : State F} {src dst o : Nat}
    {anc : List Nat} (h : LinkReady A n fuel st src dst o anc) :
    LinkReady A n fuel (anchored st src dst) src dst o anc := by
  have hn := fun q => anchored_node st src dst q
  refine ⟨?_, h.diff, h.alloc, ?_, ?_, h.other, h.side, ?_, ?_, ?_, h.above⟩
  · exact h.walk.of_same (anchored_storeOk h.walk.store src dst) rfl (fun q => (hn q).1)
      (fun q _ => (hn q).2.2.2.1)
      (fun q => ⟨(hn q).2.2.2.2.2.2.1, (hn q).2.2.2.2.2.2.2.1, (hn q).2.2.2.2.2.2.2.2⟩) rfl rfl
  · rw [(hn dst).2.2.2.1]; exact h.unlinked
  · rw [follow_congr (fun q => (hn q).2.2.2.1)]; exact h.origin
  · exact (h.ready.transfer (fun y _ => (hn y).1)).1
  · rw [prop_ancestors_congr (fun q => (hn q).2.2.1)]; exact h.ancestors
  · intro d hd
    rw [(hn d).2.2.2.2.1]
    exact h.idle d hd

theorem link0_unfold [CFloat F] (fuel : Nat) (st : State F) (src dst : Nat)
    (skipme : Option Nat) (hard : prop_link_hard) (hsd : src ≠ dst)
    (hsz : (st.nodes src).hp_type ≠ .PROP_ZOMBIE) (hdz : (st.nodes dst).hp_type ≠ .PROP_ZOMBIE)
    (hdo : (st.nodes dst).hp_originator = none) (hx : (st.nodes src).hp_xref < 255) :
    prop_link0 fuel st src dst skipme hard
      = link_tail fuel (if hard = .PROP_LINK_XREFED
            || (hard = .PROP_LINK_XREFED_IF_ORPHANED && (st.nodes src).hp_parent = none) then
          anchored st src dst else st) src dst skipme := by
  unfold prop_link0
  rw [if_neg hsd]
  have hzz : ((st.nodes src).hp_type = .PROP_ZOMBIE || (st.nodes dst).hp_type = .PROP_ZOMBIE)
      = false := by simp [hsz, hdz]
  rw [hzz]
  simp only [Bool.false_eq_true, if_false]
  have h0 : ¬ ((st.nodes dst).hp_originator ≠ none) := by simp [hdo]
  rw [if_neg h0]
  dsimp only
  by_cases hc : (hard = .PROP_LINK_XREFED
      || (hard = .PROP_LINK_XREFED_IF_ORPHANED && (st.nodes src).hp_parent = none)) = true
  · rw [if_pos hc, if_pos hc]
    have hx' : ((st.setNode dst { st.nodes dst with hp_flags := { (st.nodes dst).hp_flags with
        PROP_XREFED_ORIGINATOR := true } }).nodes src).hp_xref < 255 := by
      simp [hsd, hx]
    rw [if_pos hx']
    rfl
  · rw [if_neg hc, if_neg hc]
    rfl

theorem link_tail_returns [CFloat F] (A : Nat → Prop) (n fuel : Nat) (st : State F)
    (src dst o : Nat) (skipme : Option Nat) (anc : List Nat)
    (h : LinkReady A n fuel st src dst o anc) :
    ∃ st', link_tail fuel st src dst skipme = .ok st' ∧ Linked A n st st' src dst o ∧
      (∀ q, q < st.nnodes → (st'.nodes q).hp_flags.PROP_XREFED_ORIGINATOR
        = (st.nodes q).hp_flags.PROP_XREFED_ORIGINATOR) ∧
      (∀ q, q < st.nnodes → q ≠ dst →
        (st'.nodes q).hp_originator = (st.nodes q).hp_originator) ∧
      ((st.nodes dst).hp_type ≠ .PROP_DIR →
        (∀ s ∈ (st.nodes dst).hp_canonical_subscriptions, reads_equal st o s) →
        Silent st st') := by
  obtain ⟨st', pnq', t1, t2, t3, c1, c2, c3, c4, c5, c6, c7, c8, c9⟩ :=
    link_tail_walk A n fuel st src dst o
    skipme anc h.walk h.diff h.alloc h.unlinked h.origin h.other h.side h.ready h.ancestors
    h.idle h.above
  refine ⟨st', ?_, ⟨c1, c2, c3, fun q hq => ⟨(c4 q hq).1, (c4 q hq).2.1, (c4 q hq).2.2.1,
    (c4 q hq).2.2.2.2⟩, c5, c6, c7⟩, fun q hq => (c4 q hq).2.2.2.1, c8, c9⟩
  unfold link_tail
  rw [t1]
  dsimp only
  rw [t2]
  dsimp only
  rw [t3]
  rfl

theorem Linked.of_anchor {A : Nat → Prop} {n : Nat} {st st' : State F} {src dst o : Nat}
    (h : Linked A n (anchored st src dst) st' src dst o) : Linked A n st st' src dst o := by
  have hn := fun q => anchored_node st src dst q
  obtain ⟨c1, c2, c3, c4, c5, c6, c7⟩ := h
  refine ⟨c1, c2, fun y hy => by rw [c3 y hy, (hn y).1], fun q hq => ?_, c5, ?_, ?_⟩
  · obtain ⟨d1, d2, d3, d4⟩ := c4 q hq
    refine ⟨by rw [d1, (hn q).2.2.2.2.2.1], by rw [d2, (hn q).2.2.1], by rw [d3, (hn q).2.1], ?_⟩
    rw [d4, (hn q).2.2.2.2.1, (hn src).2.2.2.2.1]
  · intro s hs
    apply c6
    rw [(hn dst).2.2.2.2.2.1]
    exact hs
  · intro hg
    apply c7
    rw [hp_type_of_same_u (hn dst).1, hp_type_of_same_u (hn o).1]
    exact hg

/-- The function prop_link0 on a store that is ready for the link from src to dst returns,
  and leaves the subscriptions below dst at the partners below the final origin of src. -/
theorem link0_walk [CFloat F] (A : Nat → Prop) (n fuel : Nat) (st : State F)
    (src dst o : Nat) (skipme : Option Nat) (hard : prop_link_hard) (anc : List Nat)
    (h : LinkReady A n fuel st src dst o anc) (hx : (st.nodes src).hp_xref < 255) :
    ∃ st', prop_link0 fuel st src dst skipme hard = .ok st' ∧
      Linked A n st st' src dst o := by
  rw [link0_unfold fuel st src dst skipme hard h.diff
    ((quiet_iff _).1 (h.walk.quiet src h.alloc)).1
    ((quiet_iff _).1 (h.walk.quiet dst
      (h.walk.alloc (h.ready.2.2.1 dst (mem_subtree_self _ _ _))))).1 h.unlinked hx]
  split
  · obtain ⟨st', e, l, _⟩ := link_tail_returns A n fuel _ src dst o skipme anc h.anchor
    exact ⟨st', e, l.of_anchor⟩
  · obtain ⟨st', e, l, _⟩ := link_tail_returns A n fuel _ src dst o skipme anc h
    exact ⟨st', e, l⟩

/-! ## C21: a link relocates the subscriptions below dst -/

theorem walkOk_of_side {A : Nat → Prop} {st : State F} (hok : StoreOk (fun _ => False) st)
    (hqt : ∀ q, q < st.nnodes → (st.nodes q).quiet = true) (hmq : MonitorsQueued st)
    (hAc : ∀ q c, A q → c ∈ (st.nodes q).hp_childs → A c)
    (hAu : ∀ q, A q → (st.nodes q).hp_originator = none) :
    WalkOk (fun q => A q ∨ st.nnodes ≤ q) st := by
  refine ⟨hok, hqt, hmq, ?_, ?_, fun q hq => Or.inr hq⟩
  · intro q c hq hc
    rcases hq with hq | hq
    · exact Or.inl (hAc q c hq hc)
    · have := hok.above q c hc
      exact Or.inr (by omega)
  · intro q hq
    rcases hq with hq | hq
    · exact hAu q hq
    · cases e : (st.nodes q).hp_originator with
      | none => rfl
      | some o' =>
        have hc := hok.link_count q o' e (fun x => x)
        have hm : q ∈ (st.nodes o').hp_targets :=
          List.count_pos_iff.1 (by rw [hc]; exact Nat.one_pos)
        have := (hok.link_back o' q hm).2.2.2
        omega

/-- C21 (amended): in a store that satisfies the invariant of the links and subscription
  lists, whose allocated nodes are quiet and whose subscription monitors are not internal,
  let src and dst be different allocated nodes, dst not linked, o the node that the
  originators of src lead to, o not dst and hp_xref of src below 255; let the tree below dst
  have fewer than n levels and no node twice, let A be a set of unlinked nodes with o that
  has with a node its children and has no node of the tree below dst, let the fuel cover
  the levels and the child lists, and let no ancestor of dst have a target or be src. Then
  prop_link0(src, dst, skipme, hard) returns, dst has the originator src, every subscription
  on the canonical list of dst has the value node o, and, when o is a directory where dst
  is one, every subscription on the canonical list of a named child of dst has as value node
  the child of o of that name, which is created when it is missing and is not linked, and so
  on down the tree (`Paired`). -/
theorem link_relocates_subtree [CFloat F] (A : Nat → Prop) (n fuel : Nat) (st : State F)
    (src dst o : Nat) (skipme : Option Nat) (hard : prop_link_hard) (anc : List Nat)
    (hok : StoreOk (fun _ => False) st)
    (hqt : ∀ q, q < st.nnodes → (st.nodes q).quiet = true) (hmq : MonitorsQueued st)
    (hsd : src ≠ dst) (hs : src < st.nnodes) (hdo : (st.nodes dst).hp_originator = none)
    (hx : (st.nodes src).hp_xref < 255)
    (hfo : follow_originators fuel st src = .ok o) (hod : o ≠ dst)
    (hAo : A o) (hAc : ∀ q c, A q → c ∈ (st.nodes q).hp_childs → A c)
    (hAu : ∀ q, A q → (st.nodes q).hp_originator = none)
    (hsh : shallow n st dst = true) (hnd : (subtree n st dst).Nodup)
    (hdj : ∀ y ∈ subtree n st dst, ¬ A y ∧ y < st.nnodes)
    (hfu : ∀ y ∈ subtree n st dst, (st.nodes y).hp_childs.length + n ≤ fuel)
    (hanc : prop_ancestors fuel st dst = some anc)
    (hnt : ∀ d ∈ anc, (st.nodes d).hp_targets = []) (hsa : src ∉ anc) :
    ∃ st', prop_link0 fuel st src dst skipme hard = .ok st' ∧
      (st'.nodes dst).hp_originator = some src ∧
      (∀ s ∈ (st'.nodes dst).hp_canonical_subscriptions,
        (st'.subs s).hps_value_prop = some o) ∧
      (((st.nodes dst).hp_type = .PROP_DIR → (st.nodes o).hp_type = .PROP_DIR) →
        Paired n st' o dst) := by
  have hr : LinkReady (fun q => A q ∨ st.nnodes ≤ q) n fuel st src dst o anc :=
    ⟨walkOk_of_side hok hqt hmq hAc hAu, hsd, hs, hdo, hfo, hod, Or.inl hAo,
      ⟨hsh, hnd, fun y hy h => by
        rcases h with h | h
        · exact (hdj y hy).1 h
        · have := (hdj y hy).2
          omega, hfu⟩, hanc, hnt, hsa⟩
  obtain ⟨st', e, _, _, _, c4, c5, c6, c7⟩ := link0_walk _ n fuel st src dst o skipme hard anc hr hx
  refine ⟨st', e, c5, ?_, c7⟩
  intro s hs'
  rw [(c4 dst (hdj dst (mem_subtree_self _ _ _)).2).1] at hs'
  exact c6 s hs'

/-- C21 fails as stated when an ancestor of dst is the origin of another node, and for the
  children of a linked src. In `ex_mirror` the node 1 "d" below the root 0 is linked to the
  root 0, its child 2 "x" has the copy 4 "x" below the root 0, and the subscription 0 is
  canonical on the node 2. `prop_link(3, 2)` returns, the node 2 has the origin 3, which is
  the final origin of 3, and the loop over the parents of dst in prop_link0 has moved the
  subscription to the node 4. In `ex_relay` the node 2 is linked to the node 0 and both
  have a child "x", the nodes 3 and 1; `prop_link(2, 4)` leaves the subscription on the
  child 5 "x" of the node 4 at the node 1, the child of the final origin of src, where the
  child 3 of src is its own final origin. -/
theorem link_parents_repoint_subscription :
    (3 : Nat) ≠ 2 ∧ (ex_mirror.nodes 3).hp_type ≠ .PROP_ZOMBIE ∧
    (ex_mirror.nodes 2).hp_type ≠ .PROP_ZOMBIE ∧
    returned (prop_link_ex 8 ex_mirror 3 2 none .PROP_LINK_NORMAL) = true ∧
    ((state_after (prop_link_ex 8 ex_mirror 3 2 none .PROP_LINK_NORMAL)).nodes 2).hp_originator
      = some 3 ∧
    (follow_originators 8 (state_after (prop_link_ex 8 ex_mirror 3 2 none .PROP_LINK_NORMAL))
      3).toOption = some 3 ∧
    ((state_after (prop_link_ex 8 ex_mirror 3 2 none .PROP_LINK_NORMAL)).nodes
      2).hp_canonical_subscriptions = [0] ∧
    ((state_after (prop_link_ex 8 ex_mirror 3 2 none .PROP_LINK_NORMAL)).subs 0).hps_value_prop
      = some 4 ∧
    returned (prop_link_ex 8 ex_relay 2 4 none .PROP_LINK_NORMAL) = true ∧
    find_child_by_name (state_after (prop_link_ex 8 ex_relay 2 4 none .PROP_LINK_NORMAL))
      ((state_after (prop_link_ex 8 ex_relay 2 4 none .PROP_LINK_NORMAL)).nodes 4).hp_childs "x"
      = some 5 ∧
    find_child_by_name (state_after (prop_link_ex 8 ex_relay 2 4 none .PROP_LINK_NORMAL))
      ((state_after (prop_link_ex 8 ex_relay 2 4 none .PROP_LINK_NORMAL)).nodes 2).hp_childs "x"
      = some 3 ∧
    (follow_originators 8 (state_after (prop_link_ex 8 ex_relay 2 4 none .PROP_LINK_NORMAL))
      3).toOption = some 3 ∧
    ((state_after (prop_link_ex 8 ex_relay 2 4 none .PROP_LINK_NORMAL)).nodes
      5).hp_canonical_subscriptions = [0] ∧
    ((state_after (prop_link_ex 8 ex_relay 2 4 none .PROP_LINK_NORMAL)).subs 0).hps_value_prop
      = some 1 := by
  decide

theorem link_relocates_subtree_witness :
    (3 : Nat) ≠ 0 ∧ (ex_shelf.nodes 0).hp_originator = none ∧
    subtree 2 ex_shelf 0 = [0, 1, 2] ∧
    (ex_shelf.nodes 0).hp_canonical_subscriptions = [2] ∧
    ∃ st', prop_link0 8 ex_shelf 3 0 none .PROP_LINK_NORMAL = .ok st' ∧
      (st'.nodes 0).hp_originator = some 3 ∧
      (∀ s ∈ (st'.nodes 0).hp_canonical_subscriptions,
        (st'.subs s).hps_value_prop = some 3) ∧
      (((ex_shelf.nodes 0).hp_type = .PROP_DIR → (ex_shelf.nodes 3).hp_type = .PROP_DIR) →
        Paired 2 st' 3 0) :=
  ⟨by decide, by decide, by decide, by decide,
    link_relocates_subtree (fun q => q = 3 ∨ q = 4) 2 8 ex_shelf 3 0 3 none .PROP_LINK_NORMAL []
      (storeOk_of_wired (wired_of_run ex_shelf_calls State.empty Wired.init (by decide)))
      (by decide) (by unfold MonitorsQueued; decide) (by decide) (by decide) (by decide)
      (by decide)
      (by
        have h : (ex_shelf.nodes 3).hp_originator = none := by decide
        simp [follow_originators, h])
      (by decide) (Or.inl rfl)
      (by
        intro q c hq hc
        rcases hq with rfl | rfl
        · have e : (ex_shelf.nodes 3).hp_childs = [4] := by decide
          rw [e] at hc
          simp at hc
          exact Or.inr hc
        · have e : (ex_shelf.nodes 4).hp_childs = [] := by decide
          rw [e] at hc
          cases hc)
      (by
        intro q hq
        rcases hq with rfl | rfl <;> decide)
      (by decide) (by decide) (by decide) (by decide) (by decide) (by simp) (by simp)⟩

/-! ## C23: relink_subscriptions of a node with itself -/

theorem Settled.se_refl (st : State F) : Settled st st :=
  ⟨rfl, rfl, fun _ => rfl, fun _ => rfl, fun _ => rfl, fun _ => rfl, fun _ => rfl, fun _ => rfl,
    fun _ => rfl, fun _ => rfl, fun _ => Or.inl rfl⟩

theorem Settled.se_trans {a b c : State F} (h1 : Settled a b) (h2 : Settled b c) :
    Settled a c := by
  refine ⟨by rw [h2.nnodes, h1.nnodes], by rw [h2.nsubs, h1.nsubs],
    fun q => by rw [h2.u, h1.u], fun q => by rw [h2.name, h1.name],
    fun q => by rw [h2.parent, h1.parent], fun q => by rw [h2.originator, h1.originator],
    fun q => by rw [h2.targets, h1.targets], fun q => by rw [h2.canonical, h1.canonical],
    fun q => by rw [h2.flags, h1.flags], fun t => by rw [h2.sflags, h1.sflags], fun t => ?_⟩
  rcases h2.value t with e2 | ⟨y, hy, e2⟩
  · rcases h1.value t with e1 | ⟨y, hy, e1⟩
    · exact Or.inl (by rw [e2, e1])
    · exact Or.inr ⟨y, hy, by rw [e2, e1]⟩
  · exact Or.inr ⟨y, by rw [← h1.canonical y]; exact hy, e2⟩

theorem Settled.se_of_moved {r : Nat} {st st' : State F}
    (h : Moved (fun t => t ∈ (st.nodes r).hp_canonical_subscriptions) r st st') :
    Settled st st' :=
  ⟨h.nnodes, h.nsubs, h.u, h.name, h.parent, h.originator, h.targets, h.canonical, h.flags,
    h.sflags, fun t => (h.value t).imp id fun x => ⟨r, x.1, x.2⟩⟩

theorem Settled.walked {st st' : State F} (h : Settled st st') : Walked st st' :=
  ⟨le_of_eq h.nnodes.symm, h.nsubs, fun q _ => h.originator q, fun q _ => h.name q,
    fun q _ => h.parent q, fun q _ => h.targets q, fun q _ => h.flags q,
    fun q _ => h.canonical q,
    fun q _ => ⟨[], by rw [hp_childs_of_same_u (h.u q)]; simp, by simp⟩, h.sflags,
    fun q _ e => by rw [hp_type_of_same_u (h.u q)]; exact e,
    fun q hq hb => by
      rw [quiet_congr (h.u q) (h.flags q)]
      exact hb (by rw [← h.nnodes]; exact hq)⟩

theorem Restored_stable {E : Nat → Prop} : ∀ (n : Nat) (st st' : State F) (b : Nat),
    StoreOk E st → Settled st st' → Restored n st b → Restored n st' b := by
  intro n
  induction n with
  | zero => intro st st' b _ _ _; trivial
  | succ n ih =>
    intro st st' b hok hs hp
    obtain ⟨p1, p2⟩ := hp
    refine ⟨?_, ?_⟩
    · intro s hm
      rw [hs.canonical b] at hm
      rcases hs.value s with e | ⟨y, hy, e⟩
      · rw [e]; exact p1 s hm
      · have e1 := (hok.canonical_back y s hy).1
        have e2 := (hok.canonical_back b s hm).1
        rw [e1] at e2
        cases e2
        exact e
    · intro c hc hn
      rw [hp_childs_of_same_u (hs.u b)] at hc
      rw [hs.name c] at hn
      exact ih st st' c hok hs (p2 c hc hn)

theorem find_child_by_name_unique (st : State F) (nm : String) (c : Nat) :
    ∀ (cs : List Nat),
      cs.Pairwise (fun a b => ∀ n, (st.nodes a).hp_name = some n → (st.nodes b).hp_name ≠ some n) →
      c ∈ cs → (st.nodes c).hp_name = some nm → find_child_by_name st cs nm = some c := by
  intro cs
  induction cs with
  | nil => intro _ h _; cases h
  | cons x rest ih =>
    intro hp hc hn
    unfold find_child_by_name
    rw [List.find?_cons]
    by_cases hx : (st.nodes x).hp_name = some nm
    · have : x = c := by
        rcases List.mem_cons.1 hc with e | e
        · exact e.symm
        · exact absurd hn ((List.pairwise_cons.1 hp).1 c e nm hx)
      subst this
      simp [hx]
    · have hc' : c ∈ rest := by
        rcases List.mem_cons.1 hc with e | e
        · rw [e] at hn; exact absurd hn hx
        · exact e
      simp only [hx, decide_False]
      exact ih (List.pairwise_cons.1 hp).2 hc' hn

theorem create0_finds {E : Nat → Prop} (st : State F) (b c : Nat) (nm : String)
    (hok : StoreOk E st) (hd : (st.nodes b).hp_type = .PROP_DIR)
    (hc : c ∈ (st.nodes b).hp_childs) (hn : (st.nodes c).hp_name = some nm) :
    prop_create0 st b (some nm) none false = .ok (st, c) := by
  have hf := find_child_by_name_unique st nm c _ (hok.names.1 b) hc hn
  have hnz : ¬ (st.nodes b).hp_type = .PROP_ZOMBIE := by rw [hd]; decide
  have hmd : prop_make_dir st b none = .ok st := by simp [prop_make_dir, hd]
  simp [prop_create0, hnz, hmd, hf]

theorem WalkOk.settled {A : Nat → Prop} {st st' : State F} (h : WalkOk A st)
    (hok : StoreOk (fun _ => False) st') (hs : Settled st st') : WalkOk A st' := by
  refine ⟨hok, fun q hq => hs.walked.quiet q hq (fun hb => h.quiet q hb),
    h.mon.mq_flags hs.nsubs hs.sflags, ?_, ?_, ?_⟩
  · intro q c hq hc
    rw [hp_childs_of_same_u (hs.u q)] at hc
    exact h.cl q c hq hc
  · intro q hq
    rw [hs.originator q]
    exact h.ul q hq
  · intro q hq
    exact h.nw q (by rw [← hs.nnodes]; exact hq)

/-- The body of the loop over the children of a node that is relinked with itself. -/
theorem restore_child_walk [CFloat F] (A : Nat → Prop) (skipme : Option Nat) (n f : Nat)
    (IH : ∀ (st : State F) (b : Nat) (pnq : prop_notify_queue F), WalkOk A st →
      Ready A n f st b → (∀ y ∈ subtree n st b, (st.nodes y).hp_originator = none) →
      ∃ st' pnq', relink_subscriptions f st b b skipme pnq none = .ok (st', pnq') ∧
        WalkOk A st' ∧ Settled st st' ∧ Restored n st' b)
    (b c : Nat) (st : State F) (pnq : prop_notify_queue F) (hw : WalkOk A st)
    (hd : (st.nodes b).hp_type = .PROP_DIR) (hc : c ∈ (st.nodes b).hp_childs)
    (hr : Ready A n f st c) (hl : ∀ y ∈ subtree n st c, (st.nodes y).hp_originator = none) :
    ∃ st3 pnq3, (match (st.nodes c).hp_name with
        | none => (.ok (st, pnq) : Except Fault (State F × prop_notify_queue F))
        | some name =>
          if some c = (none : Option Nat) then .ok (st, pnq)
          else
            match prop_create0 st b (some name) none false with
            | .error e => .error e
            | .ok (st1, z) =>
              match (if (st1.nodes c).hp_type = prop_type_t.PROP_DIR then
                  prop_make_dir st1 z skipme
                else .ok st1) with
              | .error e => .error e
              | .ok st2 => relink_subscriptions f st2 z c skipme pnq none) = .ok (st3, pnq3) ∧
      WalkOk A st3 ∧ Settled st st3 ∧ ((st.nodes c).hp_name ≠ none → Restored n st3 c) := by
  cases hn : (st.nodes c).hp_name with
  | none =>
    exact ⟨st, pnq, rfl, hw, Settled.se_refl _, fun e => absurd rfl e⟩
  | some nm =>
    have e1 := create0_finds st b c nm hw.store hd hc hn
    have e2 : (if (st.nodes c).hp_type = prop_type_t.PROP_DIR then prop_make_dir st c skipme
        else .ok st) = .ok st := by
      by_cases hcd : (st.nodes c).hp_type = .PROP_DIR
      · rw [if_pos hcd]
        simp [prop_make_dir, hcd]
      · rw [if_neg hcd]
    obtain ⟨st3, pnq3, e3, ok3, s3, r3⟩ := IH st c pnq hw hr hl
    refine ⟨st3, pnq3, ?_, ok3, s3, fun _ => r3⟩
    simp only [reduceCtorEq, if_false, e1, e2, e3]

theorem restore_childs_walk [CFloat F] (A : Nat → Prop) (skipme : Option Nat) (n f : Nat)
    (IH : ∀ (st : State F) (b : Nat) (pnq : prop_notify_queue F), WalkOk A st →
      Ready A n f st b → (∀ y ∈ subtree n st b, (st.nodes y).hp_originator = none) →
      ∃ st' pnq', relink_subscriptions f st b b skipme pnq none = .ok (st', pnq') ∧
        WalkOk A st' ∧ Settled st st' ∧ Restored n st' b)
    (b : Nat) (cs : List Nat) (hnd : cs.Nodup) :
    ∀ (rest pre : List Nat) (k : Nat) (st : State F) (pnq : prop_notify_queue F),
      cs = pre ++ rest → rest.length < k → WalkOk A st →
      (st.nodes b).hp_type = .PROP_DIR → (st.nodes b).hp_childs = cs →
      (∀ c ∈ rest, Ready A n f st c ∧
        ∀ y ∈ subtree n st c, (st.nodes y).hp_originator = none) →
      ∃ st' pnq', relink_childs (fun s z c q => relink_subscriptions f s z c skipme q none)
          b b skipme none k st rest.head? pnq = .ok (st', pnq') ∧
        WalkOk A st' ∧ Settled st st' ∧
        ∀ c ∈ rest, (st.nodes c).hp_name ≠ none → Restored n st' c := by
  intro rest
  induction rest with
  | nil =>
    intro pre k st pnq _ hk hw _ _ _
    obtain ⟨k', rfl⟩ : ∃ k', k = k' + 1 := ⟨k - 1, by simp at hk; omega⟩
    exact ⟨st, pnq, by simp [relink_childs], hw, Settled.se_refl _, by simp⟩
  | cons c rest' ih =>
    intro pre k st pnq hcs hk hw hd hch hr
    obtain ⟨k', rfl⟩ : ∃ k', k = k' + 1 := ⟨k - 1, by simp at hk; omega⟩
    have hk' : rest'.length < k' := by simp at hk; omega
    have hcpre : c ∉ pre := by
      rw [hcs] at hnd
      intro hm
      exact (List.nodup_append.1 hnd).2.2 hm (List.mem_cons_self _ _)
    have hcs' : cs = (pre ++ [c]) ++ rest' := by rw [hcs]; simp
    have hcm : c ∈ (st.nodes b).hp_childs := by rw [hch, hcs]; simp
    obtain ⟨hrc, hlc⟩ := hr c (List.mem_cons_self _ _)
    obtain ⟨st3, pnq3, e3, ok3, s3, r3⟩ :=
      restore_child_walk A skipme n f IH b c st pnq hw hd hcm hrc hlc
    have hch3 : (st3.nodes b).hp_childs = cs := by
      rw [hp_childs_of_same_u (s3.u b)]; exact hch
    obtain ⟨st', pnq', e', ok', s', r'⟩ := ih (pre ++ [c]) k' st3 pnq3 hcs' hk' ok3
      (by rw [hp_type_of_same_u (s3.u b)]; exact hd) hch3 (fun c' hc' => by
        obtain ⟨a1, a2⟩ := hr c' (List.mem_cons_of_mem _ hc')
        have t3 : ∀ y, ¬ A y → (st3.nodes y).u = (st.nodes y).u := fun y _ => s3.u y
        obtain ⟨b1, b2⟩ := Ready.transfer t3 a1
        refine ⟨b1, fun y hy => ?_⟩
        rw [b2] at hy
        rw [s3.originator y]
        exact a2 y hy)
    refine ⟨st', pnq', ?_, ok', s3.se_trans s', ?_⟩
    · unfold relink_childs
      simp only [List.head?_cons]
      split
      · next e hB =>
        have := hB.symm.trans e3
        cases this
      · next st1 pnq1 hB =>
        have := hB.symm.trans e3
        cases this
        rw [hch3, hcs, tailq_next_append c rest' pre hcpre]
        exact e'
    · intro c' hc' hn
      rcases List.mem_cons.1 hc' with e | hc''
      · subst e
        exact Restored_stable n st3 st' c' ok3.store s' (r3 hn)
      · exact r' c' hc'' (by rw [s3.name c']; exact hn)

/-- The walk of relink_subscriptions from a node with itself returns and leaves every
  subscription of the unlinked tree below the node at its canonical node. -/
theorem restore_walk [CFloat F] (A : Nat → Prop) (skipme : Option Nat) :
    ∀ (n f : Nat) (st : State F) (b : Nat) (pnq : prop_notify_queue F), WalkOk A st →
      Ready A n f st b → (∀ y ∈ subtree n st b, (st.nodes y).hp_originator = none) →
      ∃ st' pnq', relink_subscriptions f st b b skipme pnq none = .ok (st', pnq') ∧
        WalkOk A st' ∧ Settled st st' ∧ Restored n st' b ∧
        ((st.nodes b).hp_type ≠ .PROP_DIR →
          (∀ s ∈ (st.nodes b).hp_canonical_subscriptions, reads_equal st b s) →
          Silent st st') := by
  intro n
  induction n with
  | zero =>
    intro f st b pnq _ hr _
    have := hr.1
    simp [shallow] at this
  | succ n ih =>
    intro f st b pnq hw hr hl
    have hfb := hr.2.2.2 b (mem_subtree_self _ _ _)
    obtain ⟨f', rfl⟩ : ∃ f', f = f' + 1 := ⟨f - 1, by omega⟩
    have hbA : ¬ A b := hr.2.2.1 b (mem_subtree_self _ _ _)
    have hb : b < st.nnodes := hw.alloc hbA
    have hfo : follow_originators (f' + 1) st b = .ok b := by
      simp [follow_originators, hl b (mem_subtree_self _ _ _)]
    obtain ⟨st1, pnq1, e1, ok1, m1, v1⟩ := relink_subs_walk st b b skipme pnq hw hb
    have s1 := Settled.se_of_moved m1
    have hnd2 := hr.2.1
    rw [subtree_succ] at hnd2
    obtain ⟨_, hfn⟩ := List.nodup_cons.1 hnd2
    by_cases hdd : (st1.nodes b).hp_type = .PROP_DIR
    · have hcs : (st1.nodes b).hp_childs = (st.nodes b).hp_childs := m1.mv_childs b
      have hnd : (st.nodes b).hp_childs.Nodup :=
        childs_nodup_of_flatMap (fun d => mem_subtree_self n st d) hfn
      obtain ⟨st', pnq', e', ok', s', r'⟩ := restore_childs_walk A skipme n f'
        (fun st b pnq h1 h2 h3 => by
          obtain ⟨x, y, a1, a2, a3, a4, _⟩ := ih f' st b pnq h1 h2 h3
          exact ⟨x, y, a1, a2, a3, a4⟩)
        b (st.nodes b).hp_childs hnd (st.nodes b).hp_childs [] (f' + 1) st1 pnq1 rfl
        (by omega) ok1 hdd hcs (fun c hc => by
          have t1 : ∀ y, ¬ A y → (st1.nodes y).u = (st.nodes y).u := fun y _ => m1.u y
          obtain ⟨b1, b2⟩ := Ready.transfer t1 (hr.child hc)
          refine ⟨b1, fun y hy => ?_⟩
          rw [b2] at hy
          rw [m1.originator y]
          exact hl y (mem_subtree_child hc hy))
      have heq : relink_subscriptions (f' + 1) st b b skipme pnq none = .ok (st', pnq') := by
        unfold relink_subscriptions
        rw [hfo]
        simp only [e1, hdd, decide_True, Bool.and_self, if_true]
        rw [hcs]
        exact e'
      refine ⟨st', pnq', heq, ok', s1.se_trans s', ⟨?_, ?_⟩,
        fun hnd' _ => absurd (by rw [← m1.mv_type]; exact hdd) hnd'⟩
      · intro s hs
        rw [s'.canonical b, m1.canonical b] at hs
        rcases s'.value s with e | ⟨y, hy, e⟩
        · rw [e]; exact v1 s hs
        · have e2 := (ok1.store.canonical_back y s hy).1
          have e3 := (ok1.store.canonical_back b s (by rw [m1.canonical]; exact hs)).1
          rw [e2] at e3
          cases e3
          exact e
      · intro c hc hn
        rw [hp_childs_of_same_u (s'.u b), hcs] at hc
        rw [s'.name c] at hn
        exact r' c hc hn
    · have heq : relink_subscriptions (f' + 1) st b b skipme pnq none = .ok (st1, pnq1) := by
        unfold relink_subscriptions
        rw [hfo]
        simp only [e1]
        rw [if_neg]
        simpa using hdd
      refine ⟨st1, pnq1, heq, ok1, s1, ⟨?_, ?_⟩,
        fun _ hre => silent_of_relink_subs b skipme _ st st1 pnq pnq1 hw.store hw.mon
          (fun s hs => (hw.store.canonical_back b s hs).2.1) hb hre e1⟩
      · intro s hs
        rw [m1.canonical] at hs
        exact v1 s hs
      · intro c hc
        rw [hp_childs_of_leaf hdd] at hc
        cases hc

theorem storeOk_unpointed {st : State F} (hok : StoreOk (fun _ => False) st) (o dst : Nat)
    (ho : (st.nodes dst).hp_originator = some o) (hm : dst ∈ (st.nodes o).hp_targets)
    (hx : (st.nodes dst).hp_flags.PROP_XREFED_ORIGINATOR = false) (hod : o ≠ dst) :
    StoreOk (fun _ => False) (unpointed st o dst) :=
  (storeOk_of_remove_from_originator (fun s _ => .ok (s, false))
    (fun _ s _ s' _ h hk _ => by cases h; exact ⟨hk, Nat.le_refl _, rfl⟩)
    (remove_from_originator_ok (fun s _ => .ok (s, false)) st o dst ho hm hx hod) hok).1

theorem mem_targets_of_originator {st : State F} (hok : StoreOk (fun _ => False) st)
    {p o : Nat} (ho : (st.nodes p).hp_originator = some o) : p ∈ (st.nodes o).hp_targets := by
  have h := hok.link_count p o ho (fun x => x)
  exact List.count_pos_iff.1 (by rw [h]; exact Nat.one_pos)

/-- The function prop_unlink_ex on a node dst that is linked to src without a reference and
  whose tree is not linked below dst returns, and leaves every subscription of the tree at
  its canonical node. -/
theorem unlink_walk [CFloat F] (A : Nat → Prop) (n fuel : Nat) (st : State F) (src dst : Nat)
    (skipme : Option Nat) (anc : List Nat) (hw : WalkOk A st) (hsd : src ≠ dst)
    (ho : (st.nodes dst).hp_originator = some src)
    (hx : (st.nodes dst).hp_flags.PROP_XREFED_ORIGINATOR = false)
    (hr : Ready A n fuel st dst)
    (hl : ∀ y ∈ subtree n st dst, y ≠ dst → (st.nodes y).hp_originator = none)
    (hanc : prop_ancestors fuel st dst = some anc)
    (hnt : ∀ d ∈ anc, d ≠ src → (st.nodes d).hp_targets = []) (hsa : src ∉ anc) :
    ∃ st', prop_unlink_ex fuel st (some dst) skipme = .ok st' ∧ WalkOk A st' ∧
      Settled (unpointed st src dst) st' ∧ Restored n st' dst ∧
      ((st.nodes dst).hp_type ≠ .PROP_DIR →
        (∀ s ∈ (st.nodes dst).hp_canonical_subscriptions, reads_equal st dst s) →
        Silent st st') := by
  have hdA : ¬ A dst := hr.2.2.1 dst (mem_subtree_self _ _ _)
  have hd : dst < st.nnodes := hw.alloc hdA
  have hm := mem_targets_of_originator hw.store ho
  have e1 := remove_from_originator_ok (fun s q => prop_destroy0 fuel s q) st src dst ho hm hx hsd
  have ok1 := storeOk_unpointed hw.store src dst ho hm hx hsd
  have hu1 : ∀ q, ((unpointed st src dst).nodes q).u = (st.nodes q).u :=
    fun q => (unpointed_node st src dst q).1
  have hw1 : WalkOk A (unpointed st src dst) := by
    refine hw.of_same ok1 rfl hu1 ?_ ?_ rfl rfl
    · intro q hq
      rw [unpointed_originator, if_neg (by intro e; rw [e] at hq; exact hdA hq)]
    · intro q
      rw [(unpointed_node st src dst q).2.2.1]
      exact ⟨rfl, rfl, rfl⟩
  have t1 : ∀ y, ¬ A y → ((unpointed st src dst).nodes y).u = (st.nodes y).u :=
    fun y _ => hu1 y
  obtain ⟨r1, es⟩ := Ready.transfer t1 hr
  have hl1 : ∀ y ∈ subtree n (unpointed st src dst) dst,
      ((unpointed st src dst).nodes y).hp_originator = none := by
    intro y hy
    rw [es] at hy
    rw [unpointed_originator]
    split
    · rfl
    · next hne => exact hl y hy hne
  obtain ⟨st', pnq', e2, ok', s', r', sl'⟩ :=
    restore_walk A skipme n fuel (unpointed st src dst) dst none hw1 r1 hl1
  have hanc' : prop_ancestors fuel st' dst = some anc := by
    rw [prop_ancestors_congr (fun q => s'.parent q),
      prop_ancestors_congr (fun q => (unpointed_node st src dst q).2.1)]
    exact hanc
  have e3 : unlink_parents fuel skipme fuel st' dst = .ok st' := by
    apply unlink_parents_idle fuel skipme fuel st' dst anc hanc'
    intro d hd'
    have hds : d ≠ src := by intro e; rw [e] at hd'; exact hsa hd'
    rw [s'.targets d, unpointed_targets st src dst d hsd, if_neg hds]
    exact hnt d hd' hds
  have hz : (st.nodes dst).hp_type ≠ .PROP_ZOMBIE := ((quiet_iff _).1 (hw.quiet dst hd)).1
  refine ⟨st', ?_, ok', s', r', ?_⟩
  · unfold prop_unlink_ex
    dsimp only
    rw [if_neg hz, if_pos (by rw [ho]; simp)]
    unfold prop_unlink0
    rw [e1]
    dsimp only
    rw [e2]
    exact e3
  · intro hnd hre
    have := sl' (by rw [hp_type_of_same_u (hu1 dst)]; exact hnd) (fun s hs' => by
      rw [(unpointed_node st src dst dst).2.2.2.2.1] at hs'
      rcases hre s hs' with h | ⟨v, h1, h2, h3⟩
      · exact Or.inl h
      · refine Or.inr ⟨v, h1, by rw [hp_type_of_same_u (hu1 v)]; exact h2, ?_⟩
        rw [value_compare_congr (hu1 v) (hu1 dst)]
        exact h3)
    obtain ⟨M, e, p⟩ := this
    exact ⟨M, e, p⟩

theorem prop_ancestors_frame {st st' : State F}
    (hpar : ∀ q, q < st.nnodes → (st'.nodes q).hp_parent = (st.nodes q).hp_parent)
    (hp : ∀ p d, (st.nodes p).hp_parent = some d → d < st.nnodes) :
    ∀ (fuel p : Nat), p < st.nnodes → prop_ancestors fuel st' p = prop_ancestors fuel st p := by
  intro fuel
  induction fuel with
  | zero => intro p _; rfl
  | succ n ih =>
    intro p hlt
    simp only [prop_ancestors, hpar p hlt]
    cases e : (st.nodes p).hp_parent with
    | none => rfl
    | some q => simp only [ih q (hp p q e)]

theorem compare_true_leaf [CFloat F] {a b : prop_t F}
    (h : prop_value_compare a b = .ok true) :
    a.hp_type ≠ .PROP_DIR ∧ b.hp_type ≠ .PROP_DIR := by
  unfold prop_value_compare at h
  unfold prop_t.hp_type
  cases ha : a.u <;> cases hb : b.u <;> rw [ha, hb] at h <;>
    simp [prop_value.hp_type] at h ⊢

/-- The function prop_link0 for a link that takes no reference on src. -/
theorem link0_unfold_soft [CFloat F] (fuel : Nat) (st : State F) (src dst : Nat)
    (skipme : Option Nat) (hard : prop_link_hard) (hsd : src ≠ dst)
    (hsz : (st.nodes src).hp_type ≠ .PROP_ZOMBIE) (hdz : (st.nodes dst).hp_type ≠ .PROP_ZOMBIE)
    (hdo : (st.nodes dst).hp_originator = none)
    (hna : (hard = .PROP_LINK_XREFED
      || (hard = .PROP_LINK_XREFED_IF_ORPHANED && (st.nodes src).hp_parent = none)) = false) :
    prop_link0 fuel st src dst skipme hard = link_tail fuel st src dst skipme := by
  unfold prop_link0
  rw [if_neg hsd]
  have hzz : ((st.nodes src).hp_type = .PROP_ZOMBIE || (st.nodes dst).hp_type = .PROP_ZOMBIE)
      = false := by simp [hsz, hdz]
  rw [hzz]
  simp only [Bool.false_eq_true, if_false]
  have h0 : ¬ ((st.nodes dst).hp_originator ≠ none) := by simp [hdo]
  rw [if_neg h0]
  dsimp only
  rw [hna]
  simp only [Bool.false_eq_true, if_false]
  rfl

/-- The link to a node dst that is no directory changes the value of no node. -/
theorem link_tail_leaf [CFloat F] (A : Nat → Prop) (n fuel : Nat) (st st' : State F)
    (src dst o : Nat) (skipme : Option Nat) (anc : List Nat)
    (h : LinkReady A n fuel st src dst o anc) (hleaf : (st.nodes dst).hp_type ≠ .PROP_DIR)
    (e : link_tail fuel st src dst skipme = .ok st') :
    ∀ q, (st'.nodes q).u = (st.nodes q).u := by
  obtain ⟨s', pnq', t1, t2, t3, hw', _⟩ := link_tail_walk A n fuel st src dst o
    skipme anc h.walk h.diff h.alloc h.unlinked h.origin h.other h.side h.ready h.ancestors
    h.idle h.above
  have e' : link_tail fuel st src dst skipme = .ok s' := by
    unfold link_tail
    rw [t1]
    dsimp only
    rw [t2]
    dsimp only
    rw [t3]
    rfl
  rw [e'] at e
  cases e
  have hdA : ¬ A dst := h.ready.2.2.1 dst (mem_subtree_self _ _ _)
  have hd : dst < st.nnodes := h.walk.alloc hdA
  have ok5 := storeOk_pointed h.walk.store src dst h.unlinked h.alloc hd
  have hu5 : ∀ q, ((pointed st src dst).nodes q).u = (st.nodes q).u :=
    fun q => (pointed_node st src dst q).1
  have hw5 : WalkOk A (pointed st src dst) := by
    refine h.walk.of_same ok5 rfl hu5 ?_ ?_ rfl rfl
    · intro q hq
      rw [pointed_originator st src dst q h.diff,
        if_neg (by intro e; rw [e] at hq; exact hdA hq)]
    · intro q
      rw [(pointed_node st src dst q).2.2.1]
      exact ⟨rfl, rfl, rfl⟩
  have ho5 : o < (pointed st src dst).nnodes :=
    link_follow_alloc dst _ _ _ _ ok5 h.alloc t1
  obtain ⟨s1, p1, e1, _, m1, _⟩ := relink_subs_walk (pointed st src dst) o dst skipme none hw5 ho5
  have hfb := h.ready.2.2.2 dst (mem_subtree_self _ _ _)
  have hn : 0 < n := by
    rcases Nat.eq_zero_or_pos n with e0 | e0
    · have := h.ready.1
      rw [e0] at this
      simp [shallow] at this
    · exact e0
  obtain ⟨f', rfl⟩ : ∃ f', fuel = f' + 1 := ⟨fuel - 1, by omega⟩
  have hfo : follow_originators (f' + 1) (pointed st src dst) o = .ok o := by
    simp [follow_originators, hw5.ul o h.side]
  have hdd : ¬ (s1.nodes dst).hp_type = .PROP_DIR := by
    rw [m1.mv_type, hp_type_of_same_u (hu5 dst)]
    exact hleaf
  have heq : relink_subscriptions (f' + 1) (pointed st src dst) o dst skipme none none
      = .ok (s1, p1) := by
    unfold relink_subscriptions
    rw [hfo]
    simp only [e1]
    rw [if_neg]
    simp [hdd]
  rw [heq] at t2
  cases t2
  exact fun q => (m1.u q).trans (hu5 q)

/-- One round of prop_link0(src, dst) and prop_unlink_ex(dst): both return, the store is
  ready for another round, the subscriptions below dst are back at their canonical nodes,
  and no value record was made when the subscriptions on dst read dst and the values of dst
  and of the final origin of src compare equal. -/
theorem link_unlink_round [CFloat F] (A : Nat → Prop) (n fuel : Nat) (st : State F)
    (src dst o : Nat) (skipme : Option Nat) (hard : prop_link_hard) (anc : List Nat)
    (hr : RoundReady A n fuel st src dst o anc hard) :
    ∃ st1 st2, prop_link0 fuel st src dst skipme hard = .ok st1 ∧
      prop_unlink_ex fuel st1 (some dst) skipme = .ok st2 ∧
      RoundReady A n fuel st2 src dst o anc hard ∧ Restored n st2 dst ∧
      ((∀ s ∈ (st.nodes dst).hp_canonical_subscriptions,
          (st.subs s).hps_value_prop = some dst) →
        prop_value_compare (st.nodes dst) (st.nodes o) = .ok true →
        prop_value_compare (st.nodes o) (st.nodes dst) = .ok true → Silent st st2) ∧
      ((st.nodes dst).hp_type ≠ .PROP_DIR → ∀ q, (st2.nodes q).u = (st.nodes q).u) := by
  obtain ⟨h, hl, hxf, hna⟩ := hr
  have hdA : ¬ A dst := h.ready.2.2.1 dst (mem_subtree_self _ _ _)
  have hd : dst < st.nnodes := h.walk.alloc hdA
  have hsz : (st.nodes src).hp_type ≠ .PROP_ZOMBIE :=
    ((quiet_iff _).1 (h.walk.quiet src h.alloc)).1
  have hdz : (st.nodes dst).hp_type ≠ .PROP_ZOMBIE := ((quiet_iff _).1 (h.walk.quiet dst hd)).1
  obtain ⟨st1, e1, ⟨w1, n1, u1, c4, o1, v1, _⟩, f1, g1, sl1⟩ :=
    link_tail_returns A n fuel st src dst o skipme anc h
  have el : prop_link0 fuel st src dst skipme hard = .ok st1 := by
    rw [link0_unfold_soft fuel st src dst skipme hard h.diff hsz hdz h.unlinked hna]
    exact e1
  have hx1 : (st1.nodes dst).hp_flags.PROP_XREFED_ORIGINATOR = false := by
    rw [f1 dst hd]; exact hxf
  obtain ⟨r1, es1⟩ := Ready.transfer u1 h.ready
  have hl1 : ∀ y ∈ subtree n st1 dst, y ≠ dst → (st1.nodes y).hp_originator = none := by
    intro y hy hne
    rw [es1] at hy
    rw [g1 y (h.walk.alloc (h.ready.2.2.1 y hy)) hne]
    exact hl y hy
  have hpp := h.walk.store.parents
  have hanc1 : prop_ancestors fuel st1 dst = some anc := by
    rw [prop_ancestors_frame (fun q hq => (c4 q hq).2.1) hpp fuel dst hd]
    exact h.ancestors
  have hal : ∀ d ∈ anc, d < st.nnodes ∧ d ≠ src := by
    intro d hd'
    exact ⟨prop_ancestors_alloc hpp fuel dst anc h.ancestors d hd',
      by intro e; rw [e] at hd'; exact h.above hd'⟩
  have hnt1 : ∀ d ∈ anc, d ≠ src → (st1.nodes d).hp_targets = [] := by
    intro d hd' hds
    rw [(c4 d (hal d hd').1).2.2.2, if_neg hds]
    exact h.idle d hd'
  obtain ⟨st2, e2, w2, s2, r2, sl2⟩ :=
    unlink_walk A n fuel st1 src dst skipme anc w1 h.diff o1 hx1 r1 hl1 hanc1 hnt1 h.above
  have hor : ∀ q, (st2.nodes q).hp_originator = (st.nodes q).hp_originator := by
    intro q
    rw [s2.originator q, unpointed_originator]
    by_cases hq : q = dst
    · rw [if_pos hq, hq, h.unlinked]
    · rw [if_neg hq]
      by_cases hlt : q < st.nnodes
      · exact g1 q hlt hq
      · rw [w1.ul q (h.walk.nw q (by omega)), h.walk.ul q (h.walk.nw q (by omega))]
  have hu2 : ∀ y, ¬ A y → (st2.nodes y).u = (st.nodes y).u := fun y hy => by
    rw [s2.u y, (unpointed_node st1 src dst y).1, u1 y hy]
  have hpar2 : ∀ q, q < st.nnodes → (st2.nodes q).hp_parent = (st.nodes q).hp_parent := by
    intro q hq
    rw [s2.parent q, (unpointed_node st1 src dst q).2.1, (c4 q hq).2.1]
  obtain ⟨r2', es2⟩ := Ready.transfer hu2 h.ready
  have hn2 : st.nnodes ≤ st2.nnodes := by
    have := s2.nnodes
    rw [unpointed_nnodes] at this
    omega
  have hrd : LinkReady A n fuel st2 src dst o anc := by
    refine ⟨w2, h.diff, Nat.lt_of_lt_of_le h.alloc hn2, by rw [hor]; exact h.unlinked,
      by rw [follow_congr hor]; exact h.origin, h.other, h.side, r2', ?_, ?_, h.above⟩
    · rw [prop_ancestors_frame hpar2 hpp fuel dst hd]
      exact h.ancestors
    · intro d hd'
      obtain ⟨hdl, hds⟩ := hal d hd'
      rw [s2.targets d, unpointed_targets st1 src dst d h.diff, if_neg hds, (c4 d hdl).2.2.2,
        if_neg hds]
      exact h.idle d hd'
  refine ⟨st1, st2, el, e2, ⟨hrd, ?_, ?_, ?_⟩, r2, ?_, ?_⟩
  · intro y hy
    rw [es2] at hy
    rw [hor]
    exact hl y hy
  · rw [s2.flags dst, (unpointed_node st1 src dst dst).2.2.1, f1 dst hd]
    exact hxf
  · rw [hpar2 src h.alloc]
    exact hna
  · intro hv hc1 hc2
    obtain ⟨la, lb⟩ := compare_true_leaf hc1
    have a1 : Silent st st1 := sl1 la (fun s hs => Or.inr ⟨dst, hv s hs, la, hc1⟩)
    have hu1 := link_tail_leaf A n fuel st st1 src dst o skipme anc h la e1
    have a2 : Silent st1 st2 := sl2 (by rw [hp_type_of_same_u (hu1 dst)]; exact la)
      (fun s hs => by
        rw [(c4 dst hd).1] at hs
        exact Or.inr ⟨o, v1 s hs, by rw [hp_type_of_same_u (hu1 o)]; exact lb,
          by rw [value_compare_congr (hu1 o) (hu1 dst)]; exact hc2⟩)
    exact a1.sl_trans a2
  · intro la q
    rw [s2.u q, (unpointed_node st1 src dst q).1]
    exact link_tail_leaf A n fuel st st1 src dst o skipme anc h la e1 q

/-- C23 (amended): in a store that satisfies the invariant of the links and subscription
  lists, whose allocated nodes are quiet and whose subscription monitors are not internal,
  let src and dst be different allocated nodes, o the node that the originators of src lead
  to and o not dst; let the tree below dst have fewer than n levels, no node twice and no
  linked node, let A be a set of unlinked nodes with o that has with a node its children
  and has no node of the tree below dst, let the fuel cover the levels and the child lists,
  let no ancestor of dst have a target or be src, let dst not carry PROP_XREFED_ORIGINATOR
  and let the link take no reference on src. Then prop_link0(src, dst, skipme, hard)
  and prop_unlink_ex(dst, skipme) return one after the other, afterwards dst has no
  originator and is not on the target list of src, and every subscription on the canonical
  list of dst or of a named descendant of dst has that node as its value node
  (`Restored`); the same two calls return once more, and they add no value record to the log
  when the values of dst and of o compare equal. -/
theorem link_unlink_restores [CFloat F] (A : Nat → Prop) (n fuel : Nat) (st : State F)
    (src dst o : Nat) (skipme : Option Nat) (hard : prop_link_hard) (anc : List Nat)
    (hok : StoreOk (fun _ => False) st)
    (hqt : ∀ q, q < st.nnodes → (st.nodes q).quiet = true) (hmq : MonitorsQueued st)
    (hsd : src ≠ dst) (hs : src < st.nnodes)
    (hfo : follow_originators fuel st src = .ok o) (hod : o ≠ dst)
    (hAo : A o) (hAc : ∀ q c, A q → c ∈ (st.nodes q).hp_childs → A c)
    (hAu : ∀ q, A q → (st.nodes q).hp_originator = none)
    (hsh : shallow n st dst = true) (hnd : (subtree n st dst).Nodup)
    (hdj : ∀ y ∈ subtree n st dst, ¬ A y ∧ y < st.nnodes)
    (hfu : ∀ y ∈ subtree n st dst, (st.nodes y).hp_childs.length + n ≤ fuel)
    (hl : ∀ y ∈ subtree n st dst, (st.nodes y).hp_originator = none)
    (hanc : prop_ancestors fuel st dst = some anc)
    (hnt : ∀ d ∈ anc, (st.nodes d).hp_targets = []) (hsa : src ∉ anc)
    (hxf : (st.nodes dst).hp_flags.PROP_XREFED_ORIGINATOR = false)
    (hna : (hard = .PROP_LINK_XREFED
      || (hard = .PROP_LINK_XREFED_IF_ORPHANED && (st.nodes src).hp_parent = none)) = false) :
    ∃ st1 st2 st3 st4, prop_link0 fuel st src dst skipme hard = .ok st1 ∧
      prop_unlink_ex fuel st1 (some dst) skipme = .ok st2 ∧
      (st2.nodes dst).hp_originator = none ∧ dst ∉ (st2.nodes src).hp_targets ∧
      Restored n st2 dst ∧
      prop_link0 fuel st2 src dst skipme hard = .ok st3 ∧
      prop_unlink_ex fuel st3 (some dst) skipme = .ok st4 ∧
      (prop_value_compare (st.nodes dst) (st.nodes o) = .ok true →
        prop_value_compare (st.nodes o) (st.nodes dst) = .ok true → Silent st2 st4) := by
  have hr : RoundReady (fun q => A q ∨ st.nnodes ≤ q) n fuel st src dst o anc hard :=
    ⟨⟨walkOk_of_side hok hqt hmq hAc hAu, hsd, hs, hl dst (mem_subtree_self _ _ _), hfo, hod,
      Or.inl hAo, ⟨hsh, hnd, fun y hy h => by
        rcases h with h | h
        · exact (hdj y hy).1 h
        · have := (hdj y hy).2
          omega, hfu⟩, hanc, hnt, hsa⟩, hl, hxf, hna⟩
  obtain ⟨st1, st2, e1, e2, hr2, r2, _, hu2⟩ :=
    link_unlink_round _ n fuel st src dst o skipme hard anc hr
  obtain ⟨st3, st4, e3, e4, _, _, sl4, _⟩ :=
    link_unlink_round _ n fuel st2 src dst o skipme hard anc hr2
  refine ⟨st1, st2, st3, st4, e1, e2, hr2.1.unlinked, ?_, r2, e3, e4, ?_⟩
  · intro hm
    have := (hr2.1.walk.store.link_back src dst hm).1
    rw [hr2.1.unlinked] at this
    cases this
  · intro hc1 hc2
    have la := (compare_true_leaf hc1).1
    have hv : ∀ s ∈ (st2.nodes dst).hp_canonical_subscriptions,
        (st2.subs s).hps_value_prop = some dst := by
      cases n with
      | zero => simp [shallow] at hsh
      | succ m => exact r2.1
    refine sl4 hv ?_ ?_
    · rw [value_compare_congr (hu2 la dst) (hu2 la o)]
      exact hc1
    · rw [value_compare_congr (hu2 la o) (hu2 la dst)]
      exact hc2

/-- C23 fails as stated when an ancestor of dst is the origin of another node. In
  `ex_mirror` the node 1 "d" below the root 0 is linked to the root 0, its child 2 "x" has
  the copy 4 "x" below the root 0, and the subscription 0 is canonical on the node 2, which
  is not linked. `prop_link(3, 2)` and `prop_unlink(2)` return, the node 2 has no originator
  and is not on the target list of the node 3, and the loop over the parents in
  prop_unlink_ex has moved the subscription to the node 4 again, so its value node is not
  its canonical node 2. -/
theorem unlink_parents_repoint_subscription :
    (3 : Nat) ≠ 2 ∧ (ex_mirror.nodes 3).hp_type ≠ .PROP_ZOMBIE ∧
    (ex_mirror.nodes 2).hp_type ≠ .PROP_ZOMBIE ∧ (ex_mirror.nodes 2).hp_originator = none ∧
    returned (prop_link_ex 8 ex_mirror 3 2 none .PROP_LINK_NORMAL) = true ∧
    returned (prop_unlink_ex 8
      (state_after (prop_link_ex 8 ex_mirror 3 2 none .PROP_LINK_NORMAL)) (some 2) none)
      = true ∧
    (ex_mirror_round.nodes 2).hp_originator = none ∧
    2 ∉ (ex_mirror_round.nodes 3).hp_targets ∧
    (ex_mirror_round.nodes 2).hp_canonical_subscriptions = [0] ∧
    (ex_mirror_round.subs 0).hps_canonical_prop = some 2 ∧
    (ex_mirror_round.subs 0).hps_value_prop = some 4 := by
  decide

theorem link_unlink_restores_witness :
    ((3 : Nat) ≠ 0 ∧ subtree 2 ex_shelf 0 = [0, 1, 2] ∧
      (ex_shelf.nodes 1).hp_name = some "x" ∧
      ∃ st1 st2 st3 st4, prop_link0 8 ex_shelf 3 0 none .PROP_LINK_NORMAL = .ok st1 ∧
        prop_unlink_ex 8 st1 (some 0) none = .ok st2 ∧
        (st2.nodes 0).hp_originator = none ∧ 0 ∉ (st2.nodes 3).hp_targets ∧
        Restored 2 st2 0 ∧
        prop_link0 8 st2 3 0 none .PROP_LINK_NORMAL = .ok st3 ∧
        prop_unlink_ex 8 st3 (some 0) none = .ok st4) ∧
    ((0 : Nat) ≠ 1 ∧ (ex_voids.nodes 1).hp_canonical_subscriptions = [0] ∧
      prop_value_compare (ex_voids.nodes 1) (ex_voids.nodes 0) = .ok true ∧
      ∃ st1 st2 st3 st4, prop_link0 8 ex_voids 0 1 none .PROP_LINK_NORMAL = .ok st1 ∧
        prop_unlink_ex 8 st1 (some 1) none = .ok st2 ∧
        (st2.nodes 1).hp_originator = none ∧ 1 ∉ (st2.nodes 0).hp_targets ∧
        Restored 1 st2 1 ∧
        prop_link0 8 st2 0 1 none .PROP_LINK_NORMAL = .ok st3 ∧
        prop_unlink_ex 8 st3 (some 1) none = .ok st4 ∧ Silent st2 st4) := by
  have u0 : (ex_voids.nodes 0).u = .PROP_VOID := by decide
  have u1 : (ex_voids.nodes 1).u = .PROP_VOID := by decide
  have c1 : prop_value_compare (ex_voids.nodes 1) (ex_voids.nodes 0) = .ok true := by
    simp [prop_value_compare, u0, u1]
  have c2 : prop_value_compare (ex_voids.nodes 0) (ex_voids.nodes 1) = .ok true := by
    simp [prop_value_compare, u0, u1]
  refine ⟨⟨by decide, by decide, by decide, ?_⟩, by decide, by decide, c1, ?_⟩
  · obtain ⟨st1, st2, st3, st4, e1, e2, a1, a2, a3, e3, e4, _⟩ :=
      link_unlink_restores (fun q => q = 3 ∨ q = 4) 2 8 ex_shelf 3 0 3 none
        .PROP_LINK_NORMAL []
        (storeOk_of_wired (wired_of_run ex_shelf_calls State.empty Wired.init (by decide)))
        (by decide) (by unfold MonitorsQueued; decide) (by decide) (by decide)
        (by
          have h : (ex_shelf.nodes 3).hp_originator = none := by decide
          simp [follow_originators, h])
        (by decide) (Or.inl rfl)
        (by
          intro q c hq hc
          rcases hq with rfl | rfl
          · have e : (ex_shelf.nodes 3).hp_childs = [4] := by decide
            rw [e] at hc
            simp at hc
            exact Or.inr hc
          · have e : (ex_shelf.nodes 4).hp_childs = [] := by decide
            rw [e] at hc
            cases hc)
        (by
          intro q hq
          rcases hq with rfl | rfl <;> decide)
        (by decide) (by decide) (by decide) (by decide) (by decide) (by decide) (by simp)
        (by simp) (by decide) (by decide)
    exact ⟨st1, st2, st3, st4, e1, e2, a1, a2, a3, e3, e4⟩
  · obtain ⟨st1, st2, st3, st4, e1, e2, a1, a2, a3, e3, e4, sl⟩ :=
      link_unlink_restores (fun q => q = 0) 1 8 ex_voids 0 1 0 none .PROP_LINK_NORMAL []
        (storeOk_of_wired (wired_of_run ex_voids_calls State.empty Wired.init (by decide)))
        (by decide) (by unfold MonitorsQueued; decide) (by decide) (by decide)
        (by
          have h : (ex_voids.nodes 0).hp_originator = none := by decide
          simp [follow_originators, h])
        (by decide) rfl
        (by
          intro q c hq hc
          subst hq
          have e : (ex_voids.nodes 0).hp_childs = [] := by decide
          rw [e] at hc
          cases hc)
        (by
          intro q hq
          subst hq
          decide)
        (by decide) (by decide) (by decide) (by decide) (by decide) (by decide) (by simp)
        (by simp) (by decide) (by decide)
    exact ⟨st1, st2, st3, st4, e1, e2, a1, a2, a3, e3, e4, sl c1 c2⟩

/-- C36 fails as stated for the link of a zombie to itself: prop_link0 opens with
  `assert(src != dst)`, before it looks at hp_type. In `ex_track_mutated` the node 0 is a
  zombie, and `prop_link(0, 0)` ends in the assertion instead of returning. -/
theorem zombie_self_link_asserts :
    (ex_track_mutated.nodes 0).hp_type = .PROP_ZOMBIE ∧
    fault_of (prop_link_ex 4 ex_track_mutated 0 0 none .PROP_LINK_NORMAL) = some .assert ∧
    returned (prop_link_ex 4 ex_track_mutated 0 0 none .PROP_LINK_NORMAL) = false := by
  decide

/-! ## C5: the first report of a subscription to an int node -/

theorem value_record_int_queued (st : State F) (s d : Nat) (v lo hi : Int)
    (hi' : (st.subs s).hps_flags.PROP_SUB_INTERNAL = false)
    (hv : (st.nodes d).u = .PROP_INT v lo hi) :
    value_record st s d 0 = [.queued (int_record s d v)] := by
  unfold value_record int_record
  simp only [hi', hv, queued_value_args, Bool.false_eq_true, if_false]

theorem queued_of_map_queued (Q : List (prop_notify_t F)) :
    queued_of (Q.map Delivery.queued) = Q := by
  unfold queued_of
  induction Q with
  | nil => rfl
  | cons n rest ih => simp [List.filterMap_cons, ih]

/-- The part of prop_subscribe on the value node, for a queued subscription to an int node
  with a first report: it returns and has delivered to s one record of PROP_SET_INT with
  the int of the node; a record of PROP_SUBSCRIPTION_MONITOR_ACTIVE goes to other
  subscriptions only. -/
theorem subscribe_value_int (st4 : State F) (s d : Nat) (v lo hi : Int)
    (hi' : (st4.subs s).hps_flags.PROP_SUB_INTERNAL = false)
    (hv : (st4.nodes d).u = .PROP_INT v lo hi)
    (hmon : ∀ t ∈ (st4.nodes d).hp_value_subscriptions,
      (st4.subs t).hps_flags.PROP_SUB_SUBSCRIPTION_MONITOR = true →
      (st4.subs t).hps_flags.PROP_SUB_INTERNAL = false) :
    ∃ (st5 : State F) (M : List (prop_notify_t F)),
      subscribe_value st4 s (some d) false true = .ok st5 ∧
      SameTree (st4.setNode d { st4.nodes d with
        hp_value_subscriptions := s :: (st4.nodes d).hp_value_subscriptions }) st5 ∧
      st5.log = st4.log ++ (int_record s d v :: M).map Delivery.queued ∧
      ∀ n ∈ M, n.hpn_event = .PROP_SUBSCRIPTION_MONITOR_ACTIVE ∧ n.hpn_sub ≠ s := by
  unfold subscribe_value
  dsimp only
  generalize hst1 : st4.setNode d { st4.nodes d with
    hp_value_subscriptions := s :: (st4.nodes d).hp_value_subscriptions } = st1
  have h1s : st1.subs = st4.subs := by rw [← hst1]; rfl
  have h1l : st1.log = st4.log := by rw [← hst1]; rfl
  have h1u : ∀ q, (st1.nodes q).u = (st4.nodes q).u := by
    intro q
    rw [← hst1]
    by_cases e : q = d
    · subst e; simp
    · simp [e]
  have h1v : (st1.nodes d).u = .PROP_INT v lo hi := by rw [h1u]; exact hv
  have h1t : (st1.nodes d).hp_type = .PROP_INT := by
    unfold prop_t.hp_type
    rw [h1v]
    rfl
  obtain ⟨st2, e2, s2, l2, _⟩ := build_value_ok st1 s d 0 none (by rw [h1t]; decide)
  rw [value_record_int_queued st1 s d v lo hi (by rw [h1s]; exact hi') h1v] at l2
  simp only [if_true, e2]
  have h2t : (st2.nodes d).hp_type = .PROP_INT := by rw [s2.hp_type]; exact h1t
  simp only [h2t, reduceCtorEq, decide_False, Bool.false_and, Bool.false_eq_true, if_false]
  by_cases hcond : (!(st2.subs s).hps_flags.PROP_SUB_SUBSCRIPTION_MONITOR
      && (st2.nodes d).hp_flags.PROP_MONITORED) = true
  · rw [if_pos hcond]
    obtain ⟨st5, M, e5, s5, l5, m5⟩ := monitor_active_to
      (st2.nodes d).hp_value_subscriptions st2 (by
        intro t ht
        rw [s2.hp_value_subscriptions, ← hst1] at ht
        simp only [setNode_nodes, if_true, List.mem_cons] at ht
        rw [s2.hps_flags, h1s]
        rcases ht with e | ht
        · subst e; exact fun _ => hi'
        · exact hmon t ht)
    refine ⟨st5, M, e5, s2.st_trans s5, ?_, ?_⟩
    · rw [l5, l2, h1l]
      simp [List.append_assoc]
    · intro n hn
      refine ⟨(m5 n hn).1, fun e => ?_⟩
      have := (m5 n hn).2
      rw [e] at this
      rw [Bool.and_eq_true] at hcond
      simp [this] at hcond
  · rw [if_neg hcond]
    refine ⟨st2, [], rfl, s2, ?_, by simp⟩
    rw [l2, h1l]
    simp

/-- C5: let the path of a call of prop_subscribe without flags resolve to a live canonical
  node and to the value node d, an int node holding v, let the courier of the call exist
  and hold no record of the subscription to come, and let no subscription with
  PROP_SUB_SUBSCRIPTION_MONITOR on the value list of d have PROP_SUB_INTERNAL. Then the
  call returns the new subscription s, the deliveries to s are exactly one queued record,
  of PROP_SET_INT about d, built from the int v that d holds (`int_record`: the union was
  written by `n->hpn_float = p->hp_float`, and `n->hpn_int` reads v from it when hp_float
  and hp_int name one word of prop_t), it is the one record of s in the queues of the
  courier, in the normal queue, and a poll of the courier that finds no record of a
  subscription with PROP_SUB_INTERNAL and the references of the records held returns and
  invokes the callback of s for this record and for no other. -/
theorem subscribe_int_first_report (st st1 : State F) (a : subscribe_args) (c d : Nat)
    (v lo hi : Int)
    (hres : subscribe_resolve st a = .ok (st1, some c, some d))
    (hval : (st1.nodes d).u = .PROP_INT v lo hi)
    (hcz : (st1.nodes c).hp_type ≠ .PROP_ZOMBIE)
    (hflags : a.flags = {})
    (hmon : ∀ t ∈ (st1.nodes d).hp_value_subscriptions, t ≠ st1.nsubs →
      (st1.subs t).hps_flags.PROP_SUB_SUBSCRIPTION_MONITOR = true →
      (st1.subs t).hps_flags.PROP_SUB_INTERNAL = false)
    (hpc : a.courier.getD st1.global_courier < st1.ncouriers)
    (hfe : records_of st1.nsubs
      (st1.couriers (a.courier.getD st1.global_courier)).pc_queue_exp = [])
    (hfn : records_of st1.nsubs
      (st1.couriers (a.courier.getD st1.global_courier)).pc_queue_nor = []) :
    ∃ st', prop_subscribe st a = .ok (st', some st1.nsubs) ∧
      deliveries_to st1.nsubs (emitted st1 st') = [.queued (int_record st1.nsubs d v)] ∧
      (int_record st1.nsubs d v : prop_notify_t F).u.hpn_int true = some v ∧
      records_of st1.nsubs
        (st'.couriers (a.courier.getD st1.global_courier)).pc_queue_exp = [] ∧
      records_of st1.nsubs (st'.couriers (a.courier.getD st1.global_courier)).pc_queue_nor
        = [int_record st1.nsubs d v] ∧
      ((∀ n ∈ (st'.couriers (a.courier.getD st1.global_courier)).pc_queue_exp
            ++ (st'.couriers (a.courier.getD st1.global_courier)).pc_queue_nor,
          (st'.subs n.hpn_sub).hps_flags.PROP_SUB_INTERNAL = false) →
        RefsHeld st' ((st'.couriers (a.courier.getD st1.global_courier)).pc_queue_exp
          ++ (st'.couriers (a.courier.getD st1.global_courier)).pc_queue_nor) →
        ∃ st'' called,
          prop_courier_poll st' (a.courier.getD st1.global_courier) = .ok (st'', called) ∧
          records_of st1.nsubs called = [int_record st1.nsubs d v]) := by
  have hdt : (st1.nodes d).hp_type = .PROP_INT := by
    unfold prop_t.hp_type; rw [hval]; rfl
  have hdz : (st1.nodes d).hp_type ≠ .PROP_ZOMBIE := by rw [hdt]; decide
  have hq : a.flags.PROP_SUB_DIRECT_UPDATE = false := by rw [hflags]
  have hint : a.flags.PROP_SUB_INTERNAL = false := by rw [hflags]
  have hmulti : a.flags.PROP_SUB_MULTI = false := by rw [hflags]
  have hinit : a.flags.PROP_SUB_NO_INITIAL_UPDATE = false := by rw [hflags]
  have hnm : a.flags.PROP_SUB_SUBSCRIPTION_MONITOR = false := by rw [hflags]
  have hcol : a.collides st1 (some d) = false := by
    unfold subscribe_args.collides
    rw [hflags]
    rfl
  rw [subscribe_eq_tail hres hcol (fun _ => by simp)]
  simp only [Option.some_bind, if_neg hcz, if_neg hdz, hq, hint, hinit, Bool.or_false,
    Bool.not_false]
  obtain ⟨f1, f2, f3, f4⟩ := subscribe_alloc_facts st1 a (some c) (some d)
  have f5 : (subscribe_alloc st1 a (some c) (some d)).nsubs = st1.nsubs + 1 := rfl
  have f6 : (subscribe_alloc st1 a (some c) (some d)).ncouriers = st1.ncouriers := rfl
  have f7 : ((subscribe_alloc st1 a (some c) (some d)).subs st1.nsubs).hps_courier
      = a.courier.getD st1.global_courier := by
    unfold subscribe_alloc
    simp
  have f8 : ((subscribe_alloc st1 a (some c) (some d)).subs st1.nsubs).hps_zombie = false := by
    unfold subscribe_alloc
    simp
  have f9 : ((subscribe_alloc st1 a (some c) (some d)).couriers
        (a.courier.getD st1.global_courier)).pc_queue_exp
      = (st1.couriers (a.courier.getD st1.global_courier)).pc_queue_exp ∧
      ((subscribe_alloc st1 a (some c) (some d)).couriers
        (a.courier.getD st1.global_courier)).pc_queue_nor
      = (st1.couriers (a.courier.getD st1.global_courier)).pc_queue_nor := by
    unfold subscribe_alloc
    simp [State.setCourier]
  generalize subscribe_alloc st1 a (some c) (some d) = st3 at f1 f2 f3 f4 f5 f6 f7 f8 f9
  unfold subscribe_tail
  obtain ⟨st4, act, e4, s4, l4, _, n4, a4⟩ :=
    subscribe_canonical_plain st3 st1.nsubs (some c) (by rw [f3]; exact hmulti)
  have hact : act = false := by
    cases hb : act with
    | false => rfl
    | true =>
      have := a4 hb
      rw [f3, hnm] at this
      cases this
  subst hact
  have q4 := sq_of_subscribe_canonical st1.nsubs e4
  rw [e4]
  dsimp only
  have h4v : (st4.nodes d).u = .PROP_INT v lo hi := by rw [(n4 d).1, f1]; exact hval
  obtain ⟨st5, M, e5, s5, l5, m5⟩ := subscribe_value_int st4 st1.nsubs d v lo hi
    (by rw [s4, f3]; exact hint) h4v (by
      intro t ht
      rw [(n4 d).2, f1] at ht
      rw [s4]
      by_cases e : t = st1.nsubs
      · subst e
        rw [f3]
        exact fun _ => hint
      · rw [f4 t e]
        exact hmon t ht e)
  have q5 := q4.sq_trans (sq_of_subscribe_value st1.nsubs e5)
  rw [e5]
  simp only [Bool.false_eq_true, if_false, reduceCtorEq, Bool.false_and]
  have hl : st5.log = st1.log ++ (int_record st1.nsubs d v :: M).map Delivery.queued := by
    rw [l5, l4, f2]
  have hrec : records_of st1.nsubs (int_record st1.nsubs d v :: M)
      = [int_record st1.nsubs d v] := by
    unfold records_of
    rw [List.filter_cons_of_pos (by simp [int_record])]
    rw [List.filter_eq_nil_iff.2 (fun n hn => by simpa using (m5 n hn).2)]
  obtain ⟨_, _, L, hL, _, qe, qn⟩ := q5.2.2 (by rw [f5]; exact Nat.lt_succ_self _)
    (by rw [f7, f6]; exact hpc)
  have hLe : L = (int_record st1.nsubs d v :: M).map Delivery.queued := by
    rw [hl, ← f2] at hL
    exact (List.append_cancel_left hL).symm
  rw [f7, f9.1, hfe, List.nil_append] at qe
  rw [f7, f9.2, hfn, List.nil_append] at qn
  have hexp : ∀ ev, (st3.subs st1.nsubs).hps_flags.expedited ev = false := by
    intro ev
    rw [f3, hflags]
    simp [SubFlags.expedited]
  have hen : ∀ b, enqueued_of (st3.subs st1.nsubs).hps_flags st1.nsubs b L
      = if b then [] else [int_record st1.nsubs d v] := by
    intro b
    unfold enqueued_of
    rw [hLe, queued_of_map_queued, hrec]
    cases b <;> simp [hexp]
  rw [hen] at qe qn
  simp only [if_true, Bool.false_eq_true, if_false] at qe qn
  have hz5 : (st5.subs st1.nsubs).hps_zombie = false := by
    rw [s5.2.2.2 st1.nsubs]
    simp only [setNode_subs]
    rw [s4]
    exact f8
  refine ⟨st5, rfl, ?_, rfl, qe, qn, ?_⟩
  · have hsplit : (int_record st1.nsubs d v :: M).map Delivery.queued
        = [Delivery.queued (int_record st1.nsubs d v)] ++ M.map Delivery.queued := rfl
    rw [emitted_of_log hl, hsplit, deliveries_to_append,
      deliveries_to_none _ _ (fun n hn => (m5 n hn).2)]
    simp [deliveries_to, Delivery.n, int_record]
  · intro hi5 hc5
    obtain ⟨st'', hp⟩ := courier_poll_total st5 _ hi5 hc5
    refine ⟨st'', _, hp, ?_⟩
    have hx : ∀ n ∈ records_of st1.nsubs
        ((st5.couriers (a.courier.getD st1.global_courier)).pc_queue_exp
          ++ (st5.couriers (a.courier.getD st1.global_courier)).pc_queue_nor),
        n.hpn_event ≠ .PROP_SET_STRING := by
      intro n hn
      unfold records_of at hn qe qn
      rw [List.filter_append, qe, qn] at hn
      simp at hn
      rw [hn]
      simp [int_record]
    rw [records_of_live st1.nsubs st5 _ hx, hz5]
    simp only [Bool.false_eq_true, if_false]
    unfold records_of at qe qn ⊢
    rw [List.filter_append, qe, qn]
    rfl

theorem subscribe_int_first_report_witness :
    (subscribe_resolve ex_seven ex_seven_args).toOption.map (fun x => x.2)
      = some (some 0, some 0) ∧
    (ex_seven.nodes 0).u = .PROP_INT 7 0 0 ∧ ex_seven_args.flags = {} ∧
    ex_seven_args.trampoline = some .trampoline_int ∧ ex_seven.nsubs = 0 ∧
    prop_subscribe ex_seven ex_seven_args = .ok (ex_seven_subscribed, some 0) ∧
    deliveries_to 0 (emitted ex_seven ex_seven_subscribed) = [.queued (int_record 0 0 7)] ∧
    (int_record 0 0 7 : prop_notify_t SmallFloat).u.hpn_int true = some 7 ∧
    (ex_seven_subscribed.couriers 0).pc_queue_exp = [] ∧
    (ex_seven_subscribed.couriers 0).pc_queue_nor = [int_record 0 0 7] ∧
    ∃ st'' called, prop_courier_poll ex_seven_subscribed 0 = .ok (st'', called) ∧
      records_of 0 called = [int_record 0 0 7] := by
  obtain ⟨st', e, h1, h2, _, _, h5⟩ :=
    subscribe_int_first_report ex_seven ex_seven ex_seven_args 0 0 7 0 0 rfl
      (by decide) (by decide) (by decide) (by decide) (by decide) (by decide) (by decide)
  have hst : ex_seven_subscribed = st' := by
    unfold ex_seven_subscribed
    rw [e]
    rfl
  rw [← hst] at e h1 h5
  exact ⟨by decide, by decide, by decide, by decide, by decide, e, h1, h2, by decide,
    by decide, h5 (by decide) (by unfold RefsHeld Held; decide)⟩

/-! ## The walk that brings the subscriptions of a reader home -/

theorem filter_notin_mono {S T : List Nat} (hst : ∀ t ∈ S, t ∈ T) (l : List Nat) :
    l.filter (fun t => decide (t ∉ T))
      = (l.filter (fun t => decide (t ∉ S))).filter (fun t => decide (t ∉ T)) := by
  rw [List.filter_filter]
  apply List.filter_congr
  intro t _
  by_cases h : t ∈ T
  · simp [h]
  · have : t ∉ S := fun x => h (hst t x)
    simp [h, this]

theorem Homed.hm_refl (S : List Nat) (st : State F) : Homed S st st :=
  ⟨rfl, fun _ => rfl, fun _ => rfl, fun _ => rfl, fun _ => rfl, fun _ => rfl, fun _ => rfl,
    fun _ => rfl, fun _ => rfl, fun _ => rfl, fun _ => rfl, fun _ _ => rfl, [], by simp,
    by simp⟩

theorem Homed.hm_trans {S : List Nat} {a b c : State F} (h1 : Homed S a b)
    (h2 : Homed S b c) : Homed S a c := by
  obtain ⟨M1, e1, m1⟩ := h1.log
  obtain ⟨M2, e2, m2⟩ := h2.log
  exact ⟨h2.nnodes.trans h1.nnodes, fun q => (h2.name q).trans (h1.name q),
    fun q => (h2.flags q).trans (h1.flags q), fun q => (h2.xref q).trans (h1.xref q),
    fun q => (h2.parent q).trans (h1.parent q),
    fun q => (h2.originator q).trans (h1.originator q),
    fun q => (h2.targets q).trans (h1.targets q),
    fun q => (h2.canonical q).trans (h1.canonical q), fun q => (h2.u q).trans (h1.u q),
    fun q => (h2.value q).trans (h1.value q), fun t => (h2.sflags t).trans (h1.sflags t),
    fun t ht => (h2.svalue t ht).trans (h1.svalue t ht),
    M1 ++ M2, by rw [e2, e1, List.append_assoc], fun d hd => by
      rcases List.mem_append.1 hd with h | h
      · exact m1 d h
      · exact m2 d h⟩

theorem Homed.hm_mono {S T : List Nat} {a b : State F} (h : Homed S a b)
    (hst : ∀ t ∈ S, t ∈ T) : Homed T a b := by
  obtain ⟨M, e, m⟩ := h.log
  exact ⟨h.nnodes, h.name, h.flags, h.xref, h.parent, h.originator, h.targets, h.canonical,
    h.u, fun q => by rw [filter_notin_mono hst, h.value q, ← filter_notin_mono hst],
    h.sflags, fun t ht => h.svalue t (fun x => ht (hst t x)), M, e,
    fun d hd => hst _ (m d hd)⟩

theorem Homed.hm_of_sameTree {S : List Nat} {st st' : State F} (h : SameTree st st')
    (M : List (Delivery F)) (hl : st'.log = st.log ++ M) (hM : ∀ d ∈ M, d.n.hpn_sub ∈ S) :
    Homed S st st' :=
  ⟨h.1, h.hp_name, h.hp_flags, h.hp_xref, h.hp_parent, h.hp_originator, h.hp_targets,
    h.hp_canonical_subscriptions, h.u, fun q => by rw [h.hp_value_subscriptions],
    h.hps_flags, fun t _ => h.hps_value_prop t, M, hl, hM⟩

theorem Homed.hm_setValue (S : List Nat) (st : State F) (p : Nat) (l : List Nat)
    (hl : l.filter (fun t => decide (t ∉ S))
      = (st.nodes p).hp_value_subscriptions.filter (fun t => decide (t ∉ S))) :
    Homed S st (st.setNode p { st.nodes p with hp_value_subscriptions := l }) := by
  refine ⟨rfl, ?_, ?_, ?_, ?_, ?_, ?_, ?_, ?_, ?_, fun _ => rfl, fun _ _ => rfl, [], by simp,
    by simp⟩
  rotate_right
  · intro q
    rw [setNode_nodes]
    split
    · next e => rw [e]; exact hl
    · rfl
  all_goals
    intro q
    rw [setNode_nodes]
    split
    · next e => rw [e]
    · rfl

theorem Homed.hm_setSub (S : List Nat) (st : State F) (t : Nat) (sb : prop_sub_t)
    (h1 : sb.hps_flags = (st.subs t).hps_flags)
    (h2 : t ∈ S ∨ sb.hps_value_prop = (st.subs t).hps_value_prop) :
    Homed S st (st.setSub t sb) := by
  refine ⟨rfl, fun _ => rfl, fun _ => rfl, fun _ => rfl, fun _ => rfl, fun _ => rfl,
    fun _ => rfl, fun _ => rfl, fun _ => rfl, fun _ => rfl, ?_, ?_, [], by simp, by simp⟩
  · intro x
    rw [setSub_subs]
    split
    · next e => rw [e]; exact h1
    · rfl
  · intro x hx
    rw [setSub_subs]
    split
    · next e =>
      rw [e]
      rcases h2 with h2 | h2
      · exact absurd (e ▸ h2) hx
      · exact h2
    · rfl

theorem Homed.hm_type {S : List Nat} {a b : State F} (h : Homed S a b) (q : Nat) :
    (b.nodes q).hp_type = (a.nodes q).hp_type := by
  unfold prop_t.hp_type; rw [h.u q]

theorem Homed.hm_childs {S : List Nat} {a b : State F} (h : Homed S a b) (q : Nat) :
    (b.nodes q).hp_childs = (a.nodes q).hp_childs := by
  unfold prop_t.hp_childs; rw [h.u q]

/-- A store that differs by value lists, value nodes and the like has the same trees. -/
theorem reach_homed {S : List Nat} {a b : State F} (h : Homed S a b) :
    ∀ (f y : Nat), reach b f y = reach a f y := by
  intro f
  induction f with
  | zero => intro y; rfl
  | succ f ih =>
    intro y
    simp only [reach, h.hm_childs y, h.name, ih]

theorem homely_homed {S : List Nat} {a b : State F} (h : Homed S a b) :
    ∀ (f y : Nat), homely f b y = homely f a y := by
  intro f
  induction f with
  | zero => intro y; rfl
  | succ f ih =>
    intro y
    simp only [homely, h.hm_childs y, h.name, h.u y, h.flags y, h.originator, ih]

theorem Lodged.lg_homed_one {R : List Nat} {a b : State F} {s r : Nat} (hl : Lodged R a)
    (h : Homed [s] a b) (hv : (b.subs s).hps_value_prop = some r)
    (hm : s ∈ (b.nodes r).hp_value_subscriptions) : Lodged R b := by
  intro t ht v hv'
  by_cases e : t = s
  · subst e
    rw [hv] at hv'
    cases hv'
    exact hm
  · have e1 := h.svalue t (by simpa using e)
    rw [e1] at hv'
    have m0 := hl t ht v hv'
    have m1 : t ∈ (a.nodes v).hp_value_subscriptions.filter (fun x => decide (x ∉ [s])) :=
      List.mem_filter.2 ⟨m0, by simpa using e⟩
    rw [← h.value v] at m1
    exact (List.mem_filter.1 m1).1

theorem sub_of_keys {lg : List (Delivery F)} {s : Nat}
    {ks : List (Bool × Nat × prop_event_t × Option Nat)} (h : lg.map Delivery.key = ks)
    (hk : ∀ k ∈ ks, k.2.1 = s) : ∀ d ∈ lg, d.n.hpn_sub = s := by
  intro d hd
  have := hk (Delivery.key d) (h ▸ List.mem_map_of_mem _ hd)
  exact this

theorem value_compare_total [CFloat F] (x y : prop_t F)
    (hy : ∀ t l, y.u ≠ .PROP_LINK t l) : ∃ eq, prop_value_compare x y = .ok eq := by
  cases h : prop_value_compare x y with
  | ok eq => exact ⟨eq, rfl⟩
  | error e =>
    exfalso
    unfold prop_value_compare at h
    cases hx : x.u <;> cases hb : y.u <;> rw [hx, hb] at h <;> try (simp at h; done)
    exact hy _ _ hb

theorem add_childs_home (s r : Nat) : ∀ (l : List Nat) (st st' : State F),
    subscribe_add_childs s r false l st = .ok st' →
    SameTree st st' ∧ ∃ M, st'.log = st.log ++ M ∧ ∀ d ∈ M, d.n.hpn_sub = s := by
  intro l
  induction l with
  | nil =>
    intro st st' h
    cases h
    exact ⟨SameTree.st_refl _, [], by simp, by simp⟩
  | cons c rest ih =>
    intro st st' h
    obtain ⟨st1, e1, t1, l1⟩ := build_notify_child_ok st s (some c) .PROP_ADD_CHILD
      (gen_add_flags st c r)
    unfold subscribe_add_childs at h
    rw [e1] at h
    obtain ⟨t2, M, l2, m2⟩ := ih st1 st' h
    refine ⟨t1.st_trans t2, child_record st s (some c) .PROP_ADD_CHILD (gen_add_flags st c r)
      :: M, by rw [l2, l1]; simp, ?_⟩
    intro d hd
    rcases List.mem_cons.1 hd with e | e
    · rw [e]
      unfold child_record
      split <;> rfl
    · exact m2 d e

theorem filter_notin_erase (s : Nat) (l : List Nat) :
    (l.erase s).filter (fun t => decide (t ∉ [s])) = l.filter (fun t => decide (t ∉ [s])) := by
  induction l with
  | nil => rfl
  | cons x xs ih =>
    by_cases e : x = s
    · subst e
      rw [List.erase_cons_head, List.filter_cons_of_neg (by simp)]
    · rw [List.erase_cons_tail (by simpa using e), List.filter_cons_of_pos (by simpa using e),
        List.filter_cons_of_pos (by simpa using e), ih]

/-- What relink_one does for the subscription s towards the node r, which is no zombie and
  is not monitored: only s changes lists, and only s hears of it. -/
theorem hm_of_relink_one [CFloat F] {r : Nat} {skipme : Option Nat} {s : Nat}
    {st st' : State F} {pnq pnq' : prop_notify_queue F}
    (hz : (st.nodes r).hp_type ≠ .PROP_ZOMBIE)
    (hmon : (st.nodes r).hp_flags.PROP_MONITORED = false)
    (hin : ∀ v, (st.subs s).hps_value_prop = some v →
      s ∈ (st.nodes v).hp_value_subscriptions)
    (h : relink_one r skipme s st pnq = .ok (st', pnq')) :
    Homed [s] st st' ∧ (st'.subs s).hps_value_prop = some r ∧
      s ∈ (st'.nodes r).hp_value_subscriptions := by
  unfold relink_one at h
  split at h
  · next e => cases h; exact ⟨Homed.hm_refl _ _, e, hin r e⟩
  · dsimp only at h
    split at h
    · cases h
    · next st2 equal hd =>
      have s2 : Homed [s] st st2 := by
        split at hd
        · next v _ =>
          split at hd
          · cases hd
          · next st1 hf =>
            have s1 : Homed [s] st st1 := by
              split at hf
              · obtain ⟨x, ex, tx, _, lg, el, ek⟩ := notify_void_ok st s
                rw [ex] at hf
                cases hf
                refine Homed.hm_of_sameTree tx lg el (fun d hd => ?_)
                have := sub_of_keys ek (s := s) (by simp) d hd
                simp [this]
              · cases hf; exact Homed.hm_refl _ _
            split at hd
            · cases hd
            · next l hr =>
              split at hd
              · cases hd
              · cases hd
                refine s1.hm_trans (Homed.hm_setValue _ st1 v _ ?_)
                unfold tailq_remove at hr
                split at hr
                · cases hr; exact filter_notin_erase s _
                · cases hr
        · cases hd; exact Homed.hm_refl _ _
      have s4 : Homed [s] st2 ((st2.setNode r { st2.nodes r with
          hp_value_subscriptions := s :: (st2.nodes r).hp_value_subscriptions }).setSub s
          { (st2.setNode r { st2.nodes r with
              hp_value_subscriptions := s :: (st2.nodes r).hp_value_subscriptions }).subs s with
            hps_value_prop := some r }) := by
        have a : Homed [s] st2 (st2.setNode r { st2.nodes r with
            hp_value_subscriptions := s :: (st2.nodes r).hp_value_subscriptions }) :=
          Homed.hm_setValue _ st2 r _ (by rw [List.filter_cons_of_neg (by simp)])
        exact a.hm_trans (Homed.hm_setSub _ _ _ _ rfl (Or.inl (List.mem_singleton_self s)))
      have v4 : (((st2.setNode r { st2.nodes r with
          hp_value_subscriptions := s :: (st2.nodes r).hp_value_subscriptions }).setSub s
          { (st2.setNode r { st2.nodes r with
              hp_value_subscriptions := s :: (st2.nodes r).hp_value_subscriptions }).subs s with
            hps_value_prop := some r }).subs s).hps_value_prop = some r := by
        simp
      have m4 : s ∈ (((st2.setNode r { st2.nodes r with
          hp_value_subscriptions := s :: (st2.nodes r).hp_value_subscriptions }).setSub s
          { (st2.setNode r { st2.nodes r with
              hp_value_subscriptions := s :: (st2.nodes r).hp_value_subscriptions }).subs s with
            hps_value_prop := some r }).nodes r).hp_value_subscriptions := by
        simp
      generalize (st2.setNode r { st2.nodes r with
          hp_value_subscriptions := s :: (st2.nodes r).hp_value_subscriptions }).setSub s
          { (st2.setNode r { st2.nodes r with
              hp_value_subscriptions := s :: (st2.nodes r).hp_value_subscriptions }).subs s with
            hps_value_prop := some r } = st4 at h s4 v4 m4
      have s04 := s2.hm_trans s4
      have f4 : (st4.nodes r).hp_flags.PROP_MONITORED = false := by
        rw [s04.flags r]; exact hmon
      split at h
      · cases h
      · next st5 hm =>
        rw [f4] at hm
        simp only [Bool.false_eq_true, if_false, Except.ok.injEq] at hm
        subst hm
        split at h
        · cases h; exact ⟨s04, v4, m4⟩
        · split at h
          · cases h
          · next st7 pnq1 hb =>
            have hz6 : ((st4.setSub s { st4.subs s with hps_pending_unlink := pnq.isSome }).nodes
                r).hp_type ≠ .PROP_ZOMBIE := by
              rw [setSub_nodes, s04.hm_type r]
              exact hz
            obtain ⟨x, b1, b2, b3, _⟩ := build_value_ok
              (st4.setSub s { st4.subs s with hps_pending_unlink := pnq.isSome }) s r 0 pnq hz6
            rw [b1] at hb
            cases hb
            have s6 : Homed [s] st4
                (st4.setSub s { st4.subs s with hps_pending_unlink := pnq.isSome }) :=
              Homed.hm_setSub _ _ _ _ rfl (Or.inl (List.mem_singleton_self s))
            have s7 : Homed [s] st st7 := by
              refine s04.hm_trans (s6.hm_trans (Homed.hm_of_sameTree b2 _ b3 (fun d hd => ?_)))
              have hd' : d ∈ value_record
                  (st4.setSub s { st4.subs s with hps_pending_unlink := pnq.isSome }) s r 0 := by
                split at hd
                · exact direct_of_mem _ d hd
                · exact hd
              simp [(value_record_events _ s r 0 d hd').1]
            have v7 : (st7.subs s).hps_value_prop = some r := by
              rw [b2.hps_value_prop]; simpa using v4
            have m7 : s ∈ (st7.nodes r).hp_value_subscriptions := by
              rw [b2.hp_value_subscriptions]; simpa using m4
            split at h
            · split at h
              · cases h
              · next st8 ha =>
                cases h
                obtain ⟨t8, M, l8, m8⟩ := add_childs_home _ _ _ _ _ ha
                refine ⟨s7.hm_trans (Homed.hm_of_sameTree t8 M l8 (fun d hd => ?_)), ?_, ?_⟩
                · simp [m8 d hd]
                · rw [t8.hps_value_prop]; exact v7
                · rw [t8.hp_value_subscriptions]; exact m7
            · cases h; exact ⟨s7, v7, m7⟩

/-- The function relink_one returns for a subscription that is on the value list of its
  value node, towards a node that is no zombie, holds no link value and is not monitored. -/
theorem relink_one_total [CFloat F] (r : Nat) (skipme : Option Nat) (s : Nat) (st : State F)
    (pnq : prop_notify_queue F)
    (hz : (st.nodes r).hp_type ≠ .PROP_ZOMBIE)
    (hlink : ∀ t l, (st.nodes r).u ≠ .PROP_LINK t l)
    (hmon : (st.nodes r).hp_flags.PROP_MONITORED = false)
    (hin : ∀ v, (st.subs s).hps_value_prop = some v →
      s ∈ (st.nodes v).hp_value_subscriptions) :
    ∃ st' pnq', relink_one r skipme s st pnq = .ok (st', pnq') := by
  cases h : relink_one r skipme s st pnq with
  | ok x => exact ⟨x.1, x.2, rfl⟩
  | error e =>
    exfalso
    unfold relink_one at h
    split at h
    · cases h
    · dsimp only at h
      split at h
      · next e1 hd =>
        split at hd
        · next v hv =>
          split at hd
          · next e2 hf =>
            split at hf
            · obtain ⟨x, ex, _⟩ := notify_void_ok st s
              rw [ex] at hf
              cases hf
            · cases hf
          · next st1 hf =>
            have t1 : SameTree st st1 := by
              split at hf
              · exact sameTree_of_notify_void hf
              · cases hf; exact SameTree.st_refl _
            split at hd
            · next hr' =>
              have hm : s ∈ (st1.nodes v).hp_value_subscriptions := by
                rw [t1.hp_value_subscriptions]
                exact hin v hv
              rw [tailq_remove_mem hm] at hr'
              cases hr'
            · next l hr =>
              split at hd
              · next e3 hc =>
                obtain ⟨eq, he⟩ := value_compare_total
                  ((st1.setNode v { st1.nodes v with hp_value_subscriptions := l }).nodes v)
                  ((st1.setNode v { st1.nodes v with hp_value_subscriptions := l }).nodes r)
                  (by
                    intro t l' hu
                    rw [setNode_nodes] at hu
                    split at hu
                    · next er =>
                      have : (st1.nodes v).u = .PROP_LINK t l' := by simpa using hu
                      rw [t1.u v, ← er] at this
                      exact hlink t l' this
                    · rw [t1.u r] at hu
                      exact hlink t l' hu)
                rw [he] at hc
                cases hc
              · cases hd
        · cases hd
      · next st2 equal hd =>
        have s2 : Moved (fun t => t = s) r st st2 := by
          split at hd
          · next v _ =>
            split at hd
            · cases hd
            · next st1 hf =>
              have s1 : Moved (fun t => t = s) r st st1 := by
                split at hf
                · exact Moved.mv_of_sameTree _ _ (sameTree_of_notify_void hf)
                · cases hf; exact Moved.mv_refl _ _ _
              split at hd
              · cases hd
              · next l hr =>
                split at hd
                · cases hd
                · cases hd
                  exact s1.mv_trans (Moved.mv_setValue _ _ st1 v _ (fun t ht => by
                    unfold tailq_remove at hr
                    split at hr
                    · cases hr; exact Or.inl (List.mem_of_mem_erase ht)
                    · cases hr))
          · cases hd; exact Moved.mv_refl _ _ _
        have s4 : Moved (fun t => t = s) r st2 ((st2.setNode r { st2.nodes r with
            hp_value_subscriptions := s :: (st2.nodes r).hp_value_subscriptions }).setSub s
            { (st2.setNode r { st2.nodes r with
                hp_value_subscriptions := s :: (st2.nodes r).hp_value_subscriptions }).subs s with
              hps_value_prop := some r }) := by
          have a : Moved (fun t => t = s) r st2 (st2.setNode r { st2.nodes r with
              hp_value_subscriptions := s :: (st2.nodes r).hp_value_subscriptions }) :=
            Moved.mv_setValue _ _ st2 r _ (fun t ht => by
              rcases List.mem_cons.1 ht with e | e
              · exact Or.inr e
              · exact Or.inl e)
          exact a.mv_trans (Moved.mv_setSub _ _ _ _ _ rfl (Or.inr ⟨rfl, rfl⟩))
        generalize (st2.setNode r { st2.nodes r with
            hp_value_subscriptions := s :: (st2.nodes r).hp_value_subscriptions }).setSub s
            { (st2.setNode r { st2.nodes r with
                hp_value_subscriptions := s :: (st2.nodes r).hp_value_subscriptions }).subs s with
              hps_value_prop := some r } = st4 at h s4
        have s04 := s2.mv_trans s4
        have f4 : (st4.nodes r).hp_flags.PROP_MONITORED = false := by
          rw [s04.flags r]; exact hmon
        split at h
        · next e5 hm =>
          rw [f4] at hm
          simp at hm
        · next st5 hm =>
          have t5 : SameTree st4 st5 := by
            split at hm
            · exact sameTree_of_monitor_active _ _ _ hm
            · cases hm; exact SameTree.st_refl _
          have s05 := s04.mv_trans (Moved.mv_of_sameTree _ _ t5)
          split at h
          · cases h
          · split at h
            · next e7 hb =>
              obtain ⟨x, ex, _⟩ := build_value_ok
                (st5.setSub s { st5.subs s with hps_pending_unlink := pnq.isSome }) s r 0 pnq (by
                  rw [setSub_nodes, s05.mv_type]
                  exact hz)
              rw [ex] at hb
              cases hb
            · next st7 pnq1 hb =>
              split at h
              · split at h
                · next e8 ha =>
                  obtain ⟨x, ex⟩ := subscribe_add_childs_total s r (st7.nodes r).hp_childs st7
                  rw [ex] at ha
                  cases ha
                · cases h
              · cases h

/-- The first loop of relink_subscriptions towards a node r that is no zombie, holds no
  link value and is not monitored, over subscriptions of R, each on the value list of its
  value node: it returns, only these subscriptions change lists, and they are on the value
  list of their value node again. -/
theorem relink_subs_home [CFloat F] (r : Nat) (skipme : Option Nat) (R : List Nat) :
    ∀ (l : List Nat) (st : State F) (pnq : prop_notify_queue F),
      (st.nodes r).hp_type ≠ .PROP_ZOMBIE → (∀ t l', (st.nodes r).u ≠ .PROP_LINK t l') →
      (st.nodes r).hp_flags.PROP_MONITORED = false →
      (∀ s ∈ l, s ∈ R) → Lodged R st →
      ∃ st' pnq', relink_subs r skipme l st pnq = .ok (st', pnq') ∧ Homed l st st' ∧
        Lodged R st' := by
  intro l
  induction l with
  | nil => intro st pnq _ _ _ _ hl; exact ⟨st, pnq, rfl, Homed.hm_refl _ _, hl⟩
  | cons s rest ih =>
    intro st pnq hz hlink hmon hR hl
    have hin : ∀ v, (st.subs s).hps_value_prop = some v →
        s ∈ (st.nodes v).hp_value_subscriptions :=
      fun v hv => hl s (hR s (List.mem_cons_self _ _)) v hv
    obtain ⟨st1, pnq1, e1⟩ := relink_one_total r skipme s st pnq hz hlink hmon hin
    obtain ⟨h1, v1, m1⟩ := hm_of_relink_one hz hmon hin e1
    have hl1 := hl.lg_homed_one h1 v1 m1
    obtain ⟨st', pnq', e2, h2, hl2⟩ := ih st1 pnq1 (by rw [h1.hm_type]; exact hz)
      (by intro t l'; rw [h1.u]; exact hlink t l') (by rw [h1.flags]; exact hmon)
      (fun t ht => hR t (List.mem_cons_of_mem _ ht)) hl1
    refine ⟨st', pnq', ?_, (h1.hm_mono ?_).hm_trans (h2.hm_mono ?_), hl2⟩
    · unfold relink_subs
      rw [e1]
      exact e2
    · intro t ht
      rw [List.mem_singleton.1 ht]
      exact List.mem_cons_self _ _
    · intro t ht
      exact List.mem_cons_of_mem _ ht

theorem find_child_nodup (st : State F) (nm : String) (c : Nat) : ∀ (cs : List Nat),
    (cs.filterMap fun x => (st.nodes x).hp_name).Nodup → c ∈ cs →
    (st.nodes c).hp_name = some nm → find_child_by_name st cs nm = some c := by
  intro cs
  induction cs with
  | nil => intro _ h _; cases h
  | cons x rest ih =>
    intro hnd hc hn
    unfold find_child_by_name
    rw [List.find?_cons]
    by_cases hx : (st.nodes x).hp_name = some nm
    · have : x = c := by
        rcases List.mem_cons.1 hc with e | e
        · exact e.symm
        · exfalso
          rw [List.filterMap_cons, hx] at hnd
          have hm : nm ∈ rest.filterMap fun x => (st.nodes x).hp_name :=
            List.mem_filterMap.2 ⟨c, e, hn⟩
          exact (List.nodup_cons.1 hnd).1 hm
      subst this
      simp [hx]
    · have hc' : c ∈ rest := by
        rcases List.mem_cons.1 hc with e | e
        · rw [e] at hn; exact absurd hn hx
        · exact e
      have hnd' : (rest.filterMap fun x => (st.nodes x).hp_name).Nodup := by
        rw [List.filterMap_cons] at hnd
        split at hnd
        · exact hnd
        · exact (List.nodup_cons.1 hnd).2
      simp only [hx, decide_False]
      exact ih hnd' hc' hn

theorem create0_finds_home (st : State F) (y c : Nat) (nm : String)
    (hd : (st.nodes y).hp_type = .PROP_DIR)
    (hnames : ((st.nodes y).hp_childs.filterMap fun x => (st.nodes x).hp_name).Nodup)
    (hc : c ∈ (st.nodes y).hp_childs) (hn : (st.nodes c).hp_name = some nm) :
    prop_create0 st y (some nm) none false = .ok (st, c) := by
  have hf := find_child_nodup st nm c _ hnames hc hn
  have hnz : ¬ (st.nodes y).hp_type = .PROP_ZOMBIE := by rw [hd]; decide
  have hmd : prop_make_dir st y none = .ok st := by simp [prop_make_dir, hd]
  simp [prop_create0, hnz, hmd, hf]

theorem names_homed {S : List Nat} {a b : State F} (h : Homed S a b) (cs : List Nat) :
    (cs.filterMap fun x => (b.nodes x).hp_name) = cs.filterMap fun x => (a.nodes x).hp_name := by
  simp only [h.name]

/-- The body of the second loop of relink_subscriptions from a node y to itself, for the
  child c. -/
theorem restore_child_home [CFloat F] (R : List Nat) (skipme : Option Nat) (f : Nat)
    (IH : ∀ (st : State F) (c : Nat) (pnq : prop_notify_queue F),
      homely f st c = true → (st.nodes c).hp_originator = none →
      (∀ q ∈ reach st f c, ∀ s ∈ (st.nodes q).hp_canonical_subscriptions, s ∈ R) →
      Lodged R st →
      ∃ st' pnq', relink_subscriptions f st c c skipme pnq none = .ok (st', pnq') ∧
        Homed R st st' ∧ Lodged R st')
    (y c : Nat) (st : State F) (pnq : prop_notify_queue F)
    (hd : (st.nodes y).hp_type = .PROP_DIR) (hc : c ∈ (st.nodes y).hp_childs)
    (hnames : ((st.nodes y).hp_childs.filterMap fun x => (st.nodes x).hp_name).Nodup)
    (hk : (st.nodes c).hp_name = none ∨
      ((st.nodes c).hp_originator = none ∧ homely f st c = true ∧
        ∀ q ∈ reach st f c, ∀ s ∈ (st.nodes q).hp_canonical_subscriptions, s ∈ R))
    (hl : Lodged R st) :
    ∃ st3 pnq3, (match (st.nodes c).hp_name with
        | none => (.ok (st, pnq) : Except Fault (State F × prop_notify_queue F))
        | some name =>
          if some c = (none : Option Nat) then .ok (st, pnq)
          else
            match prop_create0 st y (some name) none false with
            | .error e => .error e
            | .ok (st1, z) =>
              match (if (st1.nodes c).hp_type = prop_type_t.PROP_DIR then
                  prop_make_dir st1 z skipme
                else .ok st1) with
              | .error e => .error e
              | .ok st2 => relink_subscriptions f st2 z c skipme pnq none) = .ok (st3, pnq3) ∧
      Homed R st st3 ∧ Lodged R st3 := by
  cases hn : (st.nodes c).hp_name with
  | none => exact ⟨st, pnq, rfl, Homed.hm_refl _ _, hl⟩
  | some nm =>
    have e1 := create0_finds_home st y c nm hd hnames hc hn
    have e2 : (if (st.nodes c).hp_type = prop_type_t.PROP_DIR then prop_make_dir st c skipme
        else .ok st) = .ok st := by
      by_cases hcd : (st.nodes c).hp_type = .PROP_DIR
      · rw [if_pos hcd]
        simp [prop_make_dir, hcd]
      · rw [if_neg hcd]
    rcases hk with hk | ⟨k1, k2, k3⟩
    · rw [hn] at hk; cases hk
    · obtain ⟨st3, pnq3, e3, h3, l3⟩ := IH st c pnq k2 k1 k3 hl
      refine ⟨st3, pnq3, ?_, h3, l3⟩
      simp only [reduceCtorEq, if_false, e1, e2, e3]

/-- The second loop of relink_subscriptions from a node y to itself. -/
theorem restore_childs_home [CFloat F] (R : List Nat) (skipme : Option Nat) (f : Nat)
    (IH : ∀ (st : State F) (c : Nat) (pnq : prop_notify_queue F),
      homely f st c = true → (st.nodes c).hp_originator = none →
      (∀ q ∈ reach st f c, ∀ s ∈ (st.nodes q).hp_canonical_subscriptions, s ∈ R) →
      Lodged R st →
      ∃ st' pnq', relink_subscriptions f st c c skipme pnq none = .ok (st', pnq') ∧
        Homed R st st' ∧ Lodged R st')
    (y : Nat) (cs : List Nat) (hnd : cs.Nodup) :
    ∀ (rest pre : List Nat) (k : Nat) (st : State F) (pnq : prop_notify_queue F),
      cs = pre ++ rest → rest.length < k →
      (st.nodes y).hp_type = .PROP_DIR → (st.nodes y).hp_childs = cs →
      (cs.filterMap fun x => (st.nodes x).hp_name).Nodup →
      (∀ c ∈ rest, (st.nodes c).hp_name = none ∨
        ((st.nodes c).hp_originator = none ∧ homely f st c = true ∧
          ∀ q ∈ reach st f c, ∀ s ∈ (st.nodes q).hp_canonical_subscriptions, s ∈ R)) →
      Lodged R st →
      ∃ st' pnq', relink_childs (fun s z c q => relink_subscriptions f s z c skipme q none)
          y y skipme none k st rest.head? pnq = .ok (st', pnq') ∧
        Homed R st st' ∧ Lodged R st' := by
  intro rest
  induction rest with
  | nil =>
    intro pre k st pnq _ hk _ _ _ _ hl
    obtain ⟨k', rfl⟩ : ∃ k', k = k' + 1 := ⟨k - 1, by simp at hk; omega⟩
    exact ⟨st, pnq, by simp [relink_childs], Homed.hm_refl _ _, hl⟩
  | cons c rest' ih =>
    intro pre k st pnq hcs hk hd hch hnames hkids hl
    obtain ⟨k', rfl⟩ : ∃ k', k = k' + 1 := ⟨k - 1, by simp at hk; omega⟩
    have hk' : rest'.length < k' := by simp at hk; omega
    have hcpre : c ∉ pre := by
      rw [hcs] at hnd
      intro hm
      exact (List.nodup_append.1 hnd).2.2 hm (List.mem_cons_self _ _)
    have hcs' : cs = (pre ++ [c]) ++ rest' := by rw [hcs]; simp
    have hcm : c ∈ (st.nodes y).hp_childs := by rw [hch, hcs]; simp
    obtain ⟨st3, pnq3, e3, h3, l3⟩ := restore_child_home R skipme f IH y c st pnq hd hcm
      (by rw [hch]; exact hnames) (hkids c (List.mem_cons_self _ _)) hl
    have hch3 : (st3.nodes y).hp_childs = cs := by rw [h3.hm_childs y]; exact hch
    obtain ⟨st', pnq', e', h', l'⟩ := ih (pre ++ [c]) k' st3 pnq3 hcs' hk'
      (by rw [h3.hm_type y]; exact hd) hch3 (by rw [names_homed h3]; exact hnames)
      (fun c' hc' => by
        rcases hkids c' (List.mem_cons_of_mem _ hc') with a1 | ⟨a1, a2, a3⟩
        · exact Or.inl (by rw [h3.name]; exact a1)
        · refine Or.inr ⟨by rw [h3.originator]; exact a1, by rw [homely_homed h3]; exact a2, ?_⟩
          intro q hq s hs
          rw [reach_homed h3] at hq
          rw [h3.canonical] at hs
          exact a3 q hq s hs) l3
    refine ⟨st', pnq', ?_, h3.hm_trans h', l'⟩
    unfold relink_childs
    simp only [List.head?_cons]
    split
    · next e hB =>
      have := hB.symm.trans e3
      cases this
    · next st1 pnq1 hB =>
      have := hB.symm.trans e3
      cases this
      rw [hch3, hcs, tailq_next_append c rest' pre hcpre]
      exact e'

theorem homely_succ (f : Nat) (st : State F) (y : Nat) :
    homely (f + 1) st y = true ↔
      (st.nodes y).hp_type ≠ .PROP_ZOMBIE ∧ (∀ t l, (st.nodes y).u ≠ .PROP_LINK t l) ∧
      (st.nodes y).hp_flags.PROP_MONITORED = false ∧
      (st.nodes y).hp_childs.length ≤ f ∧ (st.nodes y).hp_childs.Nodup ∧
      ((st.nodes y).hp_childs.filterMap fun c => (st.nodes c).hp_name).Nodup ∧
      ∀ c ∈ (st.nodes y).hp_childs, (st.nodes c).hp_name = none ∨
        ((st.nodes c).hp_originator = none ∧ homely f st c = true) := by
  rw [homely]
  simp only [Bool.and_eq_true, decide_eq_true_eq, List.all_eq_true, Bool.or_eq_true,
    Bool.not_eq_true']
  have hu : (st.nodes y).u.is_settled = true ↔
      ((st.nodes y).hp_type ≠ .PROP_ZOMBIE ∧ ∀ t l, (st.nodes y).u ≠ .PROP_LINK t l) := by
    unfold prop_t.hp_type prop_value.is_settled
    cases (st.nodes y).u <;> simp [prop_value.hp_type]
  rw [hu]
  constructor
  · rintro ⟨⟨⟨⟨⟨⟨h1, h2⟩, h3⟩, h4⟩, h5⟩, h6⟩, h7⟩
    exact ⟨h1, h2, h3, h4, h5, h6, h7⟩
  · rintro ⟨h1, h2, h3, h4, h5, h6, h7⟩
    exact ⟨⟨⟨⟨⟨⟨h1, h2⟩, h3⟩, h4⟩, h5⟩, h6⟩, h7⟩

theorem reach_succ (st : State F) (f y : Nat) :
    reach st (f + 1) y = y :: (st.nodes y).hp_childs.flatMap fun c =>
      if (st.nodes c).hp_name = none then [c] else reach st f c := rfl

theorem mem_reach_self (st : State F) (f y : Nat) : y ∈ reach st f y := by
  cases f <;> simp [reach]

/-- The walk of relink_subscriptions from a node y to itself, where the tree below y is
  `homely`, y has no originator and the subscriptions of the tree are of R and on the value
  lists of their value nodes: it returns, only subscriptions of R change lists and hear of
  it, and they are on the value lists of their value nodes again. -/
theorem restore_home [CFloat F] (R : List Nat) (skipme : Option Nat) :
    ∀ (f : Nat) (st : State F) (y : Nat) (pnq : prop_notify_queue F),
      homely f st y = true → (st.nodes y).hp_originator = none →
      (∀ q ∈ reach st f y, ∀ s ∈ (st.nodes q).hp_canonical_subscriptions, s ∈ R) →
      Lodged R st →
      ∃ st' pnq', relink_subscriptions f st y y skipme pnq none = .ok (st', pnq') ∧
        Homed R st st' ∧ Lodged R st' := by
  intro f
  induction f with
  | zero => intro st y pnq h; simp [homely] at h
  | succ f ih =>
    intro st y pnq hh ho hR hl
    obtain ⟨hz, hlink, hmon, hlen, hnd, hnames, hkids⟩ := (homely_succ f st y).1 hh
    have hfo : follow_originators (f + 1) st y = .ok y := follow_unlinked f st y ho
    obtain ⟨st1, pnq1, e1, h1, l1⟩ := relink_subs_home y skipme R
      (st.nodes y).hp_canonical_subscriptions st pnq hz hlink hmon
      (fun s hs => hR y (mem_reach_self _ _ _) s hs) hl
    have h1R : Homed R st st1 :=
      h1.hm_mono (fun s hs => hR y (mem_reach_self _ _ _) s hs)
    by_cases hdd : (st1.nodes y).hp_type = .PROP_DIR
    · have hcs : (st1.nodes y).hp_childs = (st.nodes y).hp_childs := h1.hm_childs y
      obtain ⟨st', pnq', e', h', l'⟩ := restore_childs_home R skipme f
        (fun st c pnq a1 a2 a3 a4 => ih st c pnq a1 a2 a3 a4)
        y (st.nodes y).hp_childs hnd (st.nodes y).hp_childs [] (f + 1) st1 pnq1 rfl
        (by omega) hdd hcs (by rw [names_homed h1]; exact hnames)
        (fun c hc => by
          rcases hkids c hc with a1 | ⟨a1, a2⟩
          · exact Or.inl (by rw [h1.name]; exact a1)
          · by_cases hn : (st.nodes c).hp_name = none
            · exact Or.inl (by rw [h1.name]; exact hn)
            · refine Or.inr ⟨by rw [h1.originator]; exact a1,
                by rw [homely_homed h1]; exact a2, ?_⟩
              intro q hq s hs
              rw [reach_homed h1] at hq
              rw [h1.canonical] at hs
              refine hR q ?_ s hs
              rw [reach_succ]
              refine List.mem_cons_of_mem _ (List.mem_flatMap.2 ⟨c, hc, ?_⟩)
              rw [if_neg hn]
              exact hq) l1
      refine ⟨st', pnq', ?_, h1R.hm_trans h', l'⟩
      unfold relink_subscriptions
      rw [hfo]
      simp only [e1, hdd, decide_True, Bool.and_self, if_true]
      rw [hcs]
      exact e'
    · refine ⟨st1, pnq1, ?_, h1R, l1⟩
      unfold relink_subscriptions
      rw [hfo]
      simp only [e1]
      rw [if_neg]
      simpa using hdd

/-! ## The destruction of a tree with links: the nodes it reaches -/

theorem doomed_succ (n : Nat) (st : State F) (p : Nat) :
    doomed (n + 1) st p = p :: (st.nodes p).hp_childs.flatMap fun c =>
      if (st.nodes c).hp_xref = 1 then doomed n st c else [] := rfl

theorem stayed_succ (n : Nat) (st : State F) (p : Nat) :
    stayed (n + 1) st p = (st.nodes p).hp_childs.flatMap fun c =>
      if (st.nodes c).hp_xref = 1 then stayed n st c else [c] := rfl

theorem mem_doomed_self (k : Nat) (st : State F) (p : Nat) : p ∈ doomed k st p := by
  cases k <;> simp [doomed]

theorem doomed_sub_subtree (st : State F) : ∀ (k p q : Nat),
    q ∈ doomed k st p → q ∈ subtree k st p := by
  intro k
  induction k with
  | zero => intro p q h; simpa [doomed, subtree] using h
  | succ n ih =>
    intro p q h
    rw [doomed_succ] at h
    rw [subtree_succ]
    rcases List.mem_cons.1 h with rfl | h
    · exact List.mem_cons_self _ _
    · obtain ⟨c, hc, hq⟩ := List.mem_flatMap.1 h
      split at hq
      · exact List.mem_cons_of_mem _ (List.mem_flatMap.2 ⟨c, hc, ih c q hq⟩)
      · cases hq

theorem doomed_kids_sub (st : State F) (n : Nat) (cs : List Nat) (q : Nat)
    (h : q ∈ cs.flatMap fun c => if (st.nodes c).hp_xref = 1 then doomed n st c else []) :
    q ∈ cs.flatMap (subtree n st) := by
  obtain ⟨c, hc, hq⟩ := List.mem_flatMap.1 h
  split at hq
  · exact List.mem_flatMap.2 ⟨c, hc, doomed_sub_subtree st n c q hq⟩
  · cases hq

theorem stayed_kids_sub (st : State F) : ∀ (n : Nat) (cs : List Nat) (q : Nat),
    (q ∈ cs.flatMap fun c => if (st.nodes c).hp_xref = 1 then stayed n st c else [c]) →
    q ∈ cs.flatMap (subtree n st) := by
  intro n
  induction n with
  | zero =>
    intro cs q h
    obtain ⟨c, hc, hq⟩ := List.mem_flatMap.1 h
    split at hq
    · simp [stayed] at hq
    · simp only [List.mem_singleton] at hq
      subst hq
      exact List.mem_flatMap.2 ⟨q, hc, mem_subtree_self _ _ _⟩
  | succ n ih =>
    intro cs q h
    obtain ⟨c, hc, hq⟩ := List.mem_flatMap.1 h
    split at hq
    · rw [stayed_succ] at hq
      have := ih _ q hq
      refine List.mem_flatMap.2 ⟨c, hc, ?_⟩
      rw [subtree_succ]
      exact List.mem_cons_of_mem _ this
    · simp only [List.mem_singleton] at hq
      subst hq
      exact List.mem_flatMap.2 ⟨q, hc, mem_subtree_self _ _ _⟩

theorem stayed_sub_subtree (st : State F) (k p q : Nat) (h : q ∈ stayed k st p) :
    q ∈ subtree k st p := by
  cases k with
  | zero => simp [stayed] at h
  | succ n =>
    rw [stayed_succ] at h
    rw [subtree_succ]
    exact List.mem_cons_of_mem _ (stayed_kids_sub st n _ q h)

theorem doomed_xref (st : State F) : ∀ (k p q : Nat),
    q ∈ doomed k st p → q = p ∨ (st.nodes q).hp_xref = 1 := by
  intro k
  induction k with
  | zero => intro p q h; left; simpa [doomed] using h
  | succ n ih =>
    intro p q h
    rw [doomed_succ] at h
    rcases List.mem_cons.1 h with rfl | h
    · exact Or.inl rfl
    · obtain ⟨c, _, hq⟩ := List.mem_flatMap.1 h
      split at hq
      · next hx =>
        rcases ih c q hq with rfl | h1
        · exact Or.inr hx
        · exact Or.inr h1
      · cases hq

theorem doomed_kids_xref (st : State F) (n : Nat) (cs : List Nat) (q : Nat)
    (h : q ∈ cs.flatMap fun c => if (st.nodes c).hp_xref = 1 then doomed n st c else []) :
    (st.nodes q).hp_xref = 1 := by
  obtain ⟨c, _, hq⟩ := List.mem_flatMap.1 h
  split at hq
  · next hx =>
    rcases doomed_xref st n c q hq with rfl | h1
    · exact hx
    · exact h1
  · cases hq

theorem stayed_kids_xref (st : State F) : ∀ (n : Nat) (cs : List Nat) (q : Nat),
    (q ∈ cs.flatMap fun c => if (st.nodes c).hp_xref = 1 then stayed n st c else [c]) →
    (st.nodes q).hp_xref ≠ 1 := by
  intro n
  induction n with
  | zero =>
    intro cs q h
    obtain ⟨c, _, hq⟩ := List.mem_flatMap.1 h
    split at hq
    · simp [stayed] at hq
    · next hx =>
      simp only [List.mem_singleton] at hq
      subst hq
      exact hx
  | succ n ih =>
    intro cs q h
    obtain ⟨c, _, hq⟩ := List.mem_flatMap.1 h
    split at hq
    · rw [stayed_succ] at hq
      exact ih _ q hq
    · next hx =>
      simp only [List.mem_singleton] at hq
      subst hq
      exact hx

theorem released_nil (st : State F) : released st [] = [] := rfl

theorem released_append (st : State F) (l1 l2 : List Nat) :
    released st (l1 ++ l2) = released st l1 ++ released st l2 := by
  unfold released
  rw [List.flatMap_append]

theorem released_cons (st : State F) (d : Nat) (l : List Nat) :
    released st (d :: l) = (if (st.nodes d).hp_flags.PROP_XREFED_ORIGINATOR
      then (st.nodes d).hp_originator.toList else []) ++ released st l := by
  unfold released
  rw [List.flatMap_cons]

theorem mem_released {st : State F} {l : List Nat} {o : Nat} (h : o ∈ released st l) :
    ∃ d ∈ l, (st.nodes d).hp_originator = some o ∧
      (st.nodes d).hp_flags.PROP_XREFED_ORIGINATOR = true := by
  unfold released at h
  obtain ⟨d, hd, ho⟩ := List.mem_flatMap.1 h
  split at ho
  · next hf =>
    refine ⟨d, hd, ?_, hf⟩
    cases hor : (st.nodes d).hp_originator with
    | none => simp [hor] at ho
    | some x =>
      simp [hor] at ho
      rw [ho]
  · cases ho

/-! ## The trees that are fit for destruction -/

theorem ripe_succ (n : Nat) (st : State F) (p : Nat) :
    ripe (n + 1) st p = true ↔
      (st.nodes p).hp_type ≠ .PROP_ZOMBIE ∧
      (∀ t ∈ (st.nodes p).hp_targets, (st.nodes t).hp_originator = some p) ∧
      ((st.nodes p).hp_targets.filter fun t =>
        decide (t ∉ doomed_kids n st (st.nodes p).hp_childs)).Nodup ∧
      ((st.nodes p).hp_targets.filter fun t =>
        decide (t ∉ doomed_kids n st (st.nodes p).hp_childs)).length ≤ n ∧
      (∀ o, (st.nodes p).hp_originator = some o → (st.nodes o).hp_targets.count p = 1 ∧
        o ∉ doomed_kids n st (st.nodes p).hp_childs) ∧
      ∀ c ∈ (st.nodes p).hp_childs, (st.nodes c).hp_parent = some p ∧
        ((st.nodes c).hp_xref = 1 → ripe n st c = true) := by
  rw [ripe]
  simp only [Bool.and_eq_true, decide_eq_true_eq, List.all_eq_true, ne_eq, Bool.or_eq_true,
    decide_not, Bool.not_eq_true', decide_eq_false_iff_not]
  constructor
  · rintro ⟨⟨⟨⟨⟨h1, h2⟩, h2a⟩, h2b⟩, h3⟩, h4⟩
    refine ⟨h1, h2, h2a, h2b, fun o ho => ?_, fun c hc => ?_⟩
    · rw [ho] at h3
      simpa using h3
    · obtain ⟨a, c3⟩ := h4 c hc
      refine ⟨a, fun hx => ?_⟩
      rcases c3 with c3 | c3
      · exact absurd hx c3
      · exact c3
  · rintro ⟨h1, h2, h2a, h2b, h3, h4⟩
    refine ⟨⟨⟨⟨⟨h1, h2⟩, h2a⟩, h2b⟩, ?_⟩, fun c hc => ?_⟩
    · cases ho : (st.nodes p).hp_originator with
      | none => rfl
      | some o => simpa using h3 o ho
    · obtain ⟨a, c3⟩ := h4 c hc
      refine ⟨a, ?_⟩
      by_cases hx : (st.nodes c).hp_xref = 1
      · exact Or.inr (c3 hx)
      · exact Or.inl hx

theorem ripe_pos {k : Nat} {st : State F} {p : Nat} (h : ripe k st p = true) :
    ∃ n, k = n + 1 := by
  cases k with
  | zero => simp [ripe] at h
  | succ n => exact ⟨n, rfl⟩

/-! ## The relation of a spared node to what it was -/

theorem option_filter_true {o : Option Nat} {P : Nat → Bool} (h : ∀ x, o = some x → P x = true) :
    o.filter P = o := by
  cases o with
  | none => rfl
  | some x => rw [Option.filter_some, if_pos (h x rfl)]

theorem option_filter_congr {o : Option Nat} {P Q : Nat → Bool}
    (h : ∀ x, o = some x → P x = Q x) : o.filter P = o.filter Q := by
  cases o with
  | none => rfl
  | some x => rw [Option.filter_some, Option.filter_some, h x rfl]

theorem spared_nil (R : List Nat) (q : Nat) (a : prop_t F) : Spared [] [] [] [] R q a a := by
  constructor <;> try simp
  exact (option_filter_true (fun _ _ => by simp)).symm

theorem Spared.sp_congr {g g' u u' c c' r r' R : List Nat} {q : Nat} {a b : prop_t F}
    (h : Spared g u c r R q a b) (hg : ∀ t, t ∈ g ↔ t ∈ g') (hu : ∀ t, t ∈ u ↔ t ∈ u')
    (hc : q ∈ c ↔ q ∈ c') (hr : r.count q = r'.count q) : Spared g' u' c' r' R q a b := by
  obtain ⟨h1, h2, h3, h4, h5, h6, h7, h8⟩ := h
  refine ⟨h1, h2, by rw [h3, hr], ?_, ?_, ?_, h7, h8⟩
  · rw [h4]
    by_cases hq : q ∈ c
    · rw [if_pos hq, if_pos (hc.1 hq)]
    · rw [if_neg hq, if_neg (fun x => hq (hc.2 x))]
  · rw [h5]
    apply option_filter_congr
    intro t _
    simp only [decide_eq_decide]
    rw [hu t]
  · rw [h6]
    apply List.filter_congr
    intro t _
    simp only [decide_eq_decide]
    rw [hg t]

theorem Spared.sp_same {g u c r R : List Nat} {q : Nat} {a b b' : prop_t F}
    (h : Spared g u c r R q a b) (hs : b.same b') : Spared g u c r R q a b' := by
  rw [prop_t.same_iff] at hs
  obtain ⟨s1, s2, s3, s4, s5, s6, s7, s8, _⟩ := hs
  obtain ⟨h1, h2, h3, h4, h5, h6, h7, h8⟩ := h
  exact ⟨by rw [s1, h1], by rw [s2, h2], by rw [s3, h3], by rw [s4, h4], by rw [s5, h5],
    by rw [s6, h6], by rw [s7, h7], by rw [s8, h8]⟩

theorem Spared.of_same_u {g u c r R : List Nat} {q : Nat} {x y y' : prop_t F}
    {v : prop_value F} (h : Spared g u c r R q x y)
    (hs : prop_t.same { y with u := v } y') : Spared g u c r R q x y' := by
  rw [prop_t.same_iff] at hs
  obtain ⟨s1, s2, s3, s4, s5, s6, s7, s8, _⟩ := hs
  obtain ⟨h1, h2, h3, h4, h5, h6, h7, h8⟩ := h
  exact ⟨s1.trans h1, s2.trans h2, s3.trans h3, s4.trans h4, s5.trans h5, s6.trans h6,
    by rw [s7]; exact h7, s8.trans h8⟩

theorem Anchored.an_mono {st : State F} {r r' : List Nat} (h : Anchored st r)
    (hc : ∀ q, r'.count q ≤ r.count q) : Anchored st r' := by
  intro q hq
  have h1 : 0 < r'.count q := List.count_pos_iff.2 hq
  have h2 := hc q
  have hq' : q ∈ r := List.count_pos_iff.1 (by omega)
  obtain ⟨a, b, c⟩ := h q hq'
  refine ⟨a, ?_, c⟩
  have : (r'.count q : Int) ≤ (r.count q : Int) := by exact_mod_cast h2
  omega

theorem Spent.spent_congr {a b : State F} {g g' c c' r r' R : List Nat}
    (h : Spent a b g c r R) (hg : ∀ t, t ∈ g ↔ t ∈ g') (hc : ∀ t, t ∈ c ↔ t ∈ c')
    (hr : ∀ t, t ∉ g → r.count t = r'.count t) : Spent a b g' c' r' R :=
  ⟨fun q hq => (h.sp_nodes q (fun x => hq ((hg q).1 x))).sp_congr
    (fun t => by simp only [List.mem_filter, hg])
    (fun t => by simp only [List.mem_filter, hg]) (hc q)
    (hr q (fun x => hq ((hg q).1 x))), h.sp_subs⟩

theorem spent_refl (R : List Nat) (a : State F) : Spent a a [] [] [] R :=
  ⟨fun q _ => spared_nil R q _, fun _ => rfl⟩

/-! ## Deliveries but for those to the subscriptions that move -/

theorem Emits.em_to_x (R : List Nat) {a b : State F}
    {ks : List (Bool × Nat × prop_event_t × Option Nat)} (h : Emits a b ks) :
    EmitsX R a b ks := by
  obtain ⟨h1, lg, h2, h3⟩ := h
  exact ⟨h1, lg, h2, by rw [h3]⟩

theorem EmitsX.x_trans {R : List Nat} {a b c : State F}
    {k1 k2 : List (Bool × Nat × prop_event_t × Option Nat)} (h1 : EmitsX R a b k1)
    (h2 : EmitsX R b c k2) : EmitsX R a c (k1 ++ k2) := by
  obtain ⟨f1, l1, e1, m1⟩ := h1
  obtain ⟨f2, l2, e2, m2⟩ := h2
  refine ⟨fun t => (f2 t).trans (f1 t), l1 ++ l2, by rw [e2, e1, List.append_assoc], ?_⟩
  rw [List.map_append, List.filter_append, List.filter_append, m1, m2]

theorem EmitsX.x_congr {R : List Nat} {a b : State F}
    {k k' : List (Bool × Nat × prop_event_t × Option Nat)} (h : EmitsX R a b k)
    (hk : k.filter (fun x => decide (x.2.1 ∉ R)) = k'.filter (fun x => decide (x.2.1 ∉ R))) :
    EmitsX R a b k' := by
  obtain ⟨f1, l1, e1, m1⟩ := h
  exact ⟨f1, l1, e1, m1.trans hk⟩

theorem EmitsX.x_flags {R : List Nat} {a b : State F}
    {k : List (Bool × Nat × prop_event_t × Option Nat)} (h : EmitsX R a b k) (t : Nat) :
    (b.subs t).hps_flags = (a.subs t).hps_flags := h.1 t

theorem emitsX_of_moved {R : List Nat} {a b : State F}
    (hf : ∀ t, (b.subs t).hps_flags = (a.subs t).hps_flags)
    (hl : ∃ M, b.log = a.log ++ M ∧ ∀ d ∈ M, d.n.hpn_sub ∈ R) : EmitsX R a b [] := by
  obtain ⟨M, e, m⟩ := hl
  refine ⟨hf, M, e, ?_⟩
  rw [List.filter_nil, List.filter_eq_nil_iff]
  intro k hk
  obtain ⟨d, hd, rfl⟩ := List.mem_map.1 hk
  have := m d hd
  simpa [Delivery.key] using this

theorem Homed.hm_to_x {R : List Nat} {a b : State F} (h : Homed R a b) : EmitsX R a b [] :=
  emitsX_of_moved h.sflags h.log

theorem Parted.pt_to_x {T R : List Nat} {p : Nat} {a b : State F} (h : Parted T p R a b) :
    EmitsX R a b [] :=
  emitsX_of_moved h.sflags h.log

theorem emitted_of_emitsX {R : List Nat} {a b : State F}
    {k : List (Bool × Nat × prop_event_t × Option Nat)} (h : EmitsX R a b k) :
    ((emitted a b).map Delivery.key).filter (fun x => decide (x.2.1 ∉ R))
      = k.filter (fun x => decide (x.2.1 ∉ R)) := by
  obtain ⟨_, lg, e, m⟩ := h
  unfold emitted
  rw [e, List.drop_left]
  exact m

theorem child_keys_filter (R : List Nat) (st : State F) (l : List Nat) (c : Nat) :
    (child_keys st l c).filter (fun x => decide (x.2.1 ∉ R))
      = child_keys st (l.filter fun s => decide (s ∉ R)) c := by
  unfold child_keys
  rw [List.filter_map]
  rfl

theorem void_keys_filter (R : List Nat) (st : State F) (l : List Nat) :
    (void_keys st l).filter (fun x => decide (x.2.1 ∉ R))
      = void_keys st (l.filter fun s => decide (s ∉ R)) := by
  unfold void_keys
  rw [List.filter_map]
  rfl

theorem child_keys_moved {R : List Nat} (st : State F) {l l' : List Nat} (c : Nat)
    (h : l.filter (fun s => decide (s ∉ R)) = l'.filter (fun s => decide (s ∉ R))) :
    (child_keys st l c).filter (fun x => decide (x.2.1 ∉ R))
      = (child_keys st l' c).filter (fun x => decide (x.2.1 ∉ R)) := by
  rw [child_keys_filter, child_keys_filter, h]

theorem void_keys_moved {R : List Nat} (st : State F) {l l' : List Nat}
    (h : l.filter (fun s => decide (s ∉ R)) = l'.filter (fun s => decide (s ∉ R))) :
    (void_keys st l).filter (fun x => decide (x.2.1 ∉ R))
      = (void_keys st l').filter (fun x => decide (x.2.1 ∉ R)) := by
  rw [void_keys_filter, void_keys_filter, h]

theorem doomed_eq_kids (n : Nat) (st : State F) (p : Nat) :
    doomed (n + 1) st p = p :: doomed_kids n st (st.nodes p).hp_childs := rfl

theorem stayed_eq_kids (n : Nat) (st : State F) (p : Nat) :
    stayed (n + 1) st p = stayed_kids n st (st.nodes p).hp_childs := rfl

theorem doomed_kids_cons (n : Nat) (st : State F) (c : Nat) (rest : List Nat) :
    doomed_kids n st (c :: rest)
      = (if (st.nodes c).hp_xref = 1 then doomed n st c else []) ++ doomed_kids n st rest := by
  unfold doomed_kids
  rw [List.flatMap_cons]

theorem stayed_kids_cons (n : Nat) (st : State F) (c : Nat) (rest : List Nat) :
    stayed_kids n st (c :: rest)
      = (if (st.nodes c).hp_xref = 1 then stayed n st c else [c]) ++ stayed_kids n st rest := by
  unfold stayed_kids
  rw [List.flatMap_cons]

theorem mem_doomed_kids {n : Nat} {st : State F} {cs : List Nat} {q : Nat}
    (h : q ∈ doomed_kids n st cs) :
    ∃ d ∈ cs, (st.nodes d).hp_xref = 1 ∧ q ∈ doomed n st d := by
  unfold doomed_kids at h
  obtain ⟨d, hd, hq⟩ := List.mem_flatMap.1 h
  split at hq
  · next hx => exact ⟨d, hd, hx, hq⟩
  · cases hq

theorem tailq_next_first (c : Nat) (rest : List Nat) :
    tailq_next (c :: rest) c = rest.head? := by
  simp [tailq_next]

theorem type_of_u {x y : prop_t F} (h : x.u = y.u) : x.hp_type = y.hp_type := by
  unfold prop_t.hp_type
  rw [h]

theorem childs_of_u {x y : prop_t F} (h : x.u = y.u) : x.hp_childs = y.hp_childs := by
  unfold prop_t.hp_childs
  rw [h]

theorem selected_of_u {x y : prop_t F} (h : x.u = y.u) : x.hp_selected = y.hp_selected := by
  unfold prop_t.hp_selected
  rw [h]

theorem u_of_same {x y : prop_t F} (h : x.same y) : y.u = x.u :=
  ((prop_t.same_iff _ _).1 h).2.2.2.2.2.2.2.2

theorem flatMap_congr_mem {α β : Type} {f g : α → List β} :
    ∀ (l : List α), (∀ x ∈ l, f x = g x) → l.flatMap f = l.flatMap g := by
  intro l
  induction l with
  | nil => intro _; rfl
  | cons x xs ih =>
    intro h
    rw [List.flatMap_cons, List.flatMap_cons, h x (List.mem_cons_self _ _),
      ih (fun y hy => h y (List.mem_cons_of_mem _ hy))]

theorem filterMap_congr_mem {α β : Type} {f g : α → Option β} :
    ∀ (l : List α), (∀ x ∈ l, f x = g x) → l.filterMap f = l.filterMap g := by
  intro l
  induction l with
  | nil => intro _; rfl
  | cons x xs ih =>
    intro h
    rw [List.filterMap_cons, List.filterMap_cons, h x (List.mem_cons_self _ _),
      ih (fun y hy => h y (List.mem_cons_of_mem _ hy))]

theorem child_mem_reach (st : State F) (f y c : Nat) (hc : c ∈ (st.nodes y).hp_childs) :
    c ∈ reach st (f + 1) y := by
  rw [reach_succ]
  refine List.mem_cons_of_mem _ (List.mem_flatMap.2 ⟨c, hc, ?_⟩)
  split
  · exact List.mem_singleton_self c
  · exact mem_reach_self st f c

theorem reach_child_sub (st : State F) (f y c q : Nat) (hc : c ∈ (st.nodes y).hp_childs)
    (hn : (st.nodes c).hp_name ≠ none) (hq : q ∈ reach st f c) : q ∈ reach st (f + 1) y := by
  rw [reach_succ]
  refine List.mem_cons_of_mem _ (List.mem_flatMap.2 ⟨c, hc, ?_⟩)
  rw [if_neg hn]
  exact hq

/-- A tree that is `homely` in state a is so in a state b in which its nodes have the same
  values, names and flags and the same originator or none, and the walk looks at the same
  nodes. -/
theorem homely_local (a b : State F) : ∀ (f y : Nat),
    (∀ q ∈ reach a f y, (b.nodes q).u = (a.nodes q).u ∧
      (b.nodes q).hp_name = (a.nodes q).hp_name ∧
      (b.nodes q).hp_flags = (a.nodes q).hp_flags ∧
      ((b.nodes q).hp_originator = (a.nodes q).hp_originator ∨
        (b.nodes q).hp_originator = none)) →
    homely f a y = true → homely f b y = true ∧ reach b f y = reach a f y := by
  intro f
  induction f with
  | zero => intro y _ h; simp [homely] at h
  | succ f ih =>
    intro y hq h
    obtain ⟨h1, h2, h3, h4, h5, h6, h7⟩ := (homely_succ f a y).1 h
    obtain ⟨yu, _, yf, _⟩ := hq y (mem_reach_self a _ y)
    have hch : (b.nodes y).hp_childs = (a.nodes y).hp_childs := childs_of_u yu
    have hname : ∀ c ∈ (a.nodes y).hp_childs, (b.nodes c).hp_name = (a.nodes c).hp_name :=
      fun c hc => (hq c (child_mem_reach a f y c hc)).2.1
    have hrec : ∀ c ∈ (a.nodes y).hp_childs, (a.nodes c).hp_name ≠ none →
        homely f b c = true ∧ reach b f c = reach a f c := by
      intro c hc hn
      rcases h7 c hc with e | ⟨_, e⟩
      · exact absurd e hn
      · exact ih c (fun q hq' => hq q (reach_child_sub a f y c q hc hn hq')) e
    constructor
    · rw [homely_succ]
      refine ⟨by rw [type_of_u yu]; exact h1, fun t l => by rw [yu]; exact h2 t l,
        by rw [yf]; exact h3, by rw [hch]; exact h4, by rw [hch]; exact h5, ?_, ?_⟩
      · rw [hch, filterMap_congr_mem _ hname]
        exact h6
      · rw [hch]
        intro c hc
        rcases h7 c hc with e | ⟨e1, e2⟩
        · exact Or.inl (by rw [hname c hc]; exact e)
        · by_cases hn : (a.nodes c).hp_name = none
          · exact Or.inl (by rw [hname c hc]; exact hn)
          · refine Or.inr ⟨?_, (hrec c hc hn).1⟩
            rcases (hq c (child_mem_reach a f y c hc)).2.2.2 with e | e
            · rw [e, e1]
            · exact e
    · rw [reach_succ, reach_succ, hch]
      congr 1
      apply flatMap_congr_mem
      intro c hc
      rw [hname c hc]
      by_cases hn : (a.nodes c).hp_name = none
      · rw [if_pos hn, if_pos hn]
      · rw [if_neg hn, if_neg hn, (hrec c hc hn).2]

/-! ## The value nodes of the subscriptions in the steps of prop_destroy0 -/

theorem vp_canonical_subs (p : Nat) : ∀ (l : List Nat) (st st' : State F),
    destroy_canonical_subs p l st = .ok st' →
    ∀ s, (st'.subs s).hps_value_prop = (st.subs s).hps_value_prop := by
  intro l
  induction l with
  | nil =>
    intro st st' h s
    unfold destroy_canonical_subs at h
    cases h
    rfl
  | cons x rest ih =>
    intro st st' h s
    have e2 : ∀ s, ((((st.setNode p { st.nodes p with hp_canonical_subscriptions := rest }).setSub
        x { (st.subs x) with hps_canonical_prop := none })).subs s).hps_value_prop
          = (st.subs s).hps_value_prop := by
      intro s
      by_cases hts : s = x
      · subst hts; simp
      · simp [hts]
    unfold destroy_canonical_subs at h
    dsimp only at h
    simp only [setNode_subs] at h
    split at h
    · obtain ⟨st3, n1, n2, _⟩ := notify_destroyed_ok
        ((st.setNode p { st.nodes p with hp_canonical_subscriptions := rest }).setSub x
          { (st.subs x) with hps_canonical_prop := none }) x
      rw [n1] at h
      rw [ih _ _ h s, n2.hps_value_prop, e2]
    · rw [ih _ _ h s, e2]

theorem vp_value_subs (p : Nat) : ∀ (l : List Nat) (st st' : State F),
    destroy_value_subs p l st = .ok st' →
    ∀ s, (st'.subs s).hps_value_prop
      = if s ∈ l then none else (st.subs s).hps_value_prop := by
  intro l
  induction l with
  | nil =>
    intro st st' h s
    unfold destroy_value_subs at h
    cases h
    simp
  | cons x rest ih =>
    intro st st' h s
    obtain ⟨st1, n1, n2, _⟩ := notify_void_ok st x
    unfold destroy_value_subs at h
    rw [n1] at h
    dsimp only at h
    rw [ih _ _ h s]
    by_cases hr : s ∈ rest
    · rw [if_pos hr, if_pos (List.mem_cons_of_mem _ hr)]
    · rw [if_neg hr]
      by_cases hts : s = x
      · subst hts
        simp
      · rw [if_neg (by simp [hts, hr])]
        simp [hts, n2.hps_value_prop]

theorem vp_unparent (st st' : State F) (p : Nat) (h : destroy_unparent st p = .ok st') :
    ∀ s, (st'.subs s).hps_value_prop = (st.subs s).hps_value_prop := by
  intro s
  unfold destroy_unparent at h
  cases hpar : (st.nodes p).hp_parent with
  | none =>
    rw [hpar] at h
    cases h
    rfl
  | some q =>
    rw [hpar] at h
    obtain ⟨st1, n1, n2, _⟩ := notify_del_child_ok st (st.nodes q).hp_value_subscriptions p
    simp only [n1] at h
    cases hrem : tailq_remove (st1.nodes q).hp_childs p with
    | none => simp [hrem] at h
    | some cs =>
      simp only [hrem] at h
      cases h
      rw [← n2.hps_value_prop]
      have hsel : ∀ (x : State F) (r : Nat) (sel : Option Nat),
          (x.setSelected r sel).subs = x.subs := by
        intro x r sel
        unfold State.setSelected
        split <;> rfl
      split
      · rw [hsel, setNode_subs, setChilds_subs]
      · rw [setNode_subs, setChilds_subs]

theorem Lodged.lg_kept {R : List Nat} {a b : State F} (h : Lodged R a)
    (hs : ∀ s, (b.subs s).hps_value_prop = (a.subs s).hps_value_prop)
    (hv : ∀ q, (b.nodes q).hp_value_subscriptions = (a.nodes q).hp_value_subscriptions) :
    Lodged R b := by
  intro s hs' v hv'
  rw [hs] at hv'
  rw [hv]
  exact h s hs' v hv'

theorem Lodged.lg_same {R : List Nat} {a b : State F} (h : Lodged R a)
    (hs : ∀ s, (b.subs s).hps_value_prop = (a.subs s).hps_value_prop)
    (hv : ∀ q, ∃ v, prop_t.same { a.nodes q with u := v } (b.nodes q)) :
    Lodged R b := by
  refine h.lg_kept hs fun q => ?_
  obtain ⟨v, hq⟩ := hv q
  rw [prop_t.same_iff] at hq
  exact hq.2.2.2.2.2.2.1

/-! ## The steps of prop_destroy0 on a tree with links -/

theorem destroy0_anchor [CFloat F] (k : Nat) (st : State F) (q : Nat)
    (hz : (st.nodes q).hp_type ≠ .PROP_ZOMBIE) (h2 : 2 ≤ (st.nodes q).hp_xref)
    (h255 : (st.nodes q).hp_xref ≤ 255) :
    prop_destroy0 (k + 1) st q
      = .ok (st.setNode q { st.nodes q with hp_xref := (st.nodes q).hp_xref - 1 }, false) := by
  have e : ((st.nodes q).hp_xref - 1) % 256 = (st.nodes q).hp_xref - 1 :=
    Int.emod_eq_of_lt (by omega) (by omega)
  unfold prop_destroy0
  rw [if_neg hz]
  dsimp only
  rw [e, if_pos]
  simp only [setNode_nodes, if_true]
  omega


theorem destroy_child_stays [CFloat F] (k : Nat) (st : State F) (p c : Nat)
    (hz : (st.nodes c).hp_type ≠ .PROP_ZOMBIE) (h2 : 2 ≤ (st.nodes c).hp_xref)
    (h255 : (st.nodes c).hp_xref ≤ 255)
    (hcp : c ≠ p) (hmem : c ∈ (st.nodes p).hp_childs) :
    ∃ st', prop_destroy_child (fun s q => prop_destroy0 (k + 1) s q) st p c = .ok st' ∧
      (∀ q, q ≠ c → q ≠ p → (st.nodes q).same (st'.nodes q)) ∧
      prop_t.same { st.nodes p with
        u := prop_value.PROP_DIR ((st.nodes p).hp_childs.erase c) (st.nodes p).hp_selected }
        (st'.nodes p) ∧
      prop_t.same { st.nodes c with hp_parent := none, hp_xref := (st.nodes c).hp_xref - 1 }
        (st'.nodes c) ∧
      st'.nnodes = st.nnodes ∧
      Emits st st' (child_keys st (st.nodes p).hp_value_subscriptions c) ∧
      (∀ s, (st'.subs s).hps_value_prop = (st.subs s).hps_value_prop) := by
  have hd := destroy0_anchor k st c hz h2 h255
  obtain ⟨cs0, sel0, hu⟩ := dir_of_mem_childs hmem
  have hc0 : (st.nodes p).hp_childs = cs0 := by unfold prop_t.hp_childs; rw [hu]
  have hs0 : (st.nodes p).hp_selected = sel0 := by unfold prop_t.hp_selected; rw [hu]
  obtain ⟨st2, n1, n2, n3⟩ := notify_del_child_ok
    (st.setNode c { st.nodes c with hp_xref := (st.nodes c).hp_xref - 1 })
    (st.nodes p).hp_value_subscriptions c
  have hu2 : (st2.nodes p).u = .PROP_DIR cs0 sel0 := by
    rw [n2.u]; simp [Ne.symm hcp, hu]
  have hc2 : (st2.nodes p).hp_childs = cs0 := by unfold prop_t.hp_childs; rw [hu2]
  have hrem : tailq_remove (st2.nodes p).hp_childs c = some (cs0.erase c) := by
    rw [hc2]; unfold tailq_remove; rw [if_pos (hc0 ▸ hmem)]
  have hv : ((st.setNode c { st.nodes c with hp_xref := (st.nodes c).hp_xref - 1 }).nodes
      p).hp_value_subscriptions = (st.nodes p).hp_value_subscriptions := by
    simp [Ne.symm hcp]
  unfold prop_destroy_child
  simp only [hd, hv, n1, hrem]
  have hsame := fun r => n2.same r
  refine ⟨_, rfl, fun r hr hrp => ?_, ?_, ?_, ?_, ?_, ?_⟩
  · have := hsame r
    rw [prop_t.same_iff] at this ⊢
    simp [State.setChilds, hu2, State.setU, hr, hrp] at this ⊢
    exact this
  · have := hsame p
    rw [prop_t.same_iff] at this ⊢
    simp [State.setChilds, hu2, State.setU, hcp, Ne.symm hcp, hc0, hs0] at this ⊢
    simp_all
  · have := hsame c
    rw [prop_t.same_iff] at this ⊢
    simp [State.setChilds, hu2, State.setU, hcp, Ne.symm hcp] at this ⊢
    simp_all
  · simp [State.setChilds, hu2, State.setU, n2.1]
  · have e0 : Emits st (st.setNode c { st.nodes c with hp_xref := (st.nodes c).hp_xref - 1 }) [] :=
      Emits.of_flags (fun _ => rfl) rfl
    refine ((e0.em_trans n3).em_trans (Emits.of_flags ?_ ?_)).em_congr ?_
    · intro t; simp [State.setChilds, hu2, State.setU]
    · simp [State.setChilds, hu2, State.setU]
    · simp [child_keys]
  · intro s
    rw [setNode_subs, setChilds_subs, n2.hps_value_prop, setNode_subs]

/-- The function prop_remove_from_originator on a node that is on the target list of its
  originator; when the link holds a reference, the originator keeps another one. -/
theorem remove_from_originator_ripe [CFloat F] (k : Nat)
    (st : State F) (o dst : Nat) (ho : (st.nodes dst).hp_originator = some o)
    (hmem : dst ∈ (st.nodes o).hp_targets) (hod : o ≠ dst)
    (hx : (st.nodes dst).hp_flags.PROP_XREFED_ORIGINATOR = true →
      (st.nodes o).hp_type ≠ .PROP_ZOMBIE ∧ 2 ≤ (st.nodes o).hp_xref ∧
        (st.nodes o).hp_xref ≤ 255) :
    ∃ st', prop_remove_from_originator (fun s q => prop_destroy0 (k + 1) s q) st dst = .ok st' ∧
      (∀ q, q ≠ o → q ≠ dst → st'.nodes q = st.nodes q) ∧
      st'.nodes o = { st.nodes o with
        hp_targets := (st.nodes o).hp_targets.erase dst
        hp_xref := (st.nodes o).hp_xref
          - (if (st.nodes dst).hp_flags.PROP_XREFED_ORIGINATOR then 1 else 0) } ∧
      st'.nodes dst = { st.nodes dst with hp_originator := none } ∧
      st'.subs = st.subs ∧ st'.log = st.log ∧ st'.nnodes = st.nnodes := by
  have hd : dst ≠ o := fun e => hod e.symm
  by_cases hf : (st.nodes dst).hp_flags.PROP_XREFED_ORIGINATOR = true
  · obtain ⟨hz, h2, h255⟩ := hx hf
    obtain ⟨st1, hst1⟩ : ∃ st1, st1 = st.setNode o { st.nodes o with
        hp_targets := (st.nodes o).hp_targets.erase dst } := ⟨_, rfl⟩
    have h1 : prop_destroy0 (k + 1) st1 o = .ok (st1.setNode o
        { st1.nodes o with hp_xref := (st1.nodes o).hp_xref - 1 }, false) := by
      apply destroy0_anchor
      · rw [hst1]; simpa [prop_t.hp_type] using hz
      · rw [hst1]; simpa using h2
      · rw [hst1]; simpa using h255
    have hf1 : (st1.nodes dst).hp_flags.PROP_XREFED_ORIGINATOR = true := by
      rw [hst1]; simp [hd, hf]
    obtain ⟨st2, hst2⟩ : ∃ st2, st2 = st1.setNode o
        { st1.nodes o with hp_xref := (st1.nodes o).hp_xref - 1 } := ⟨_, rfl⟩
    rw [← hst2] at h1
    refine ⟨st2.setNode dst { st2.nodes dst with hp_originator := none }, ?_, ?_, ?_, ?_, ?_, ?_,
      ?_⟩
    · unfold prop_remove_from_originator
      rw [ho]
      dsimp only
      rw [tailq_remove_mem hmem]
      dsimp only
      rw [← hst1, if_pos hf1, h1]
    · intro q hq1 hq2
      rw [hst2, hst1]; simp [hq1, hq2]
    · rw [hst2, hst1]; simp [hod, hf]
    · rw [hst2, hst1]; simp [hd]
    · rw [hst2, hst1]; rfl
    · rw [hst2, hst1]; rfl
    · rw [hst2, hst1]; rfl
  · have hf' : (st.nodes dst).hp_flags.PROP_XREFED_ORIGINATOR = false := by
      simpa using hf
    refine ⟨_, remove_from_originator_ok _ st o dst ho hmem hf' hod, ?_, ?_, ?_, ?_, ?_, ?_⟩
    · intro q hq1 hq2
      unfold unpointed; simp [hq1, hq2]
    · unfold unpointed; simp [hod, hf']
    · unfold unpointed; simp [hd]
    · rfl
    · rfl
    · rfl

/-- The function prop_remove_from_originator on a reader t of a zombie p: the reference of
  a hard link goes back through a prop_destroy0 of the zombie, which does nothing. -/
theorem remove_from_originator_zombie [CFloat F] (k : Nat) (st : State F) (p t : Nat)
    (ho : (st.nodes t).hp_originator = some p) (hmem : t ∈ (st.nodes p).hp_targets)
    (htp : t ≠ p) (hz : (st.nodes p).hp_type = .PROP_ZOMBIE) :
    ∃ st', prop_remove_from_originator (fun s q => prop_destroy0 (k + 1) s q) st t = .ok st' ∧
      (∀ q, q ≠ p → q ≠ t → st'.nodes q = st.nodes q) ∧
      st'.nodes p = { st.nodes p with hp_targets := (st.nodes p).hp_targets.erase t } ∧
      st'.nodes t = { st.nodes t with hp_originator := none } ∧
      st'.subs = st.subs ∧ st'.log = st.log ∧ st'.nnodes = st.nnodes := by
  obtain ⟨st1, hst1⟩ : ∃ st1, st1 = st.setNode p { st.nodes p with
      hp_targets := (st.nodes p).hp_targets.erase t } := ⟨_, rfl⟩
  have hz1 : (st1.nodes p).hp_type = .PROP_ZOMBIE := by
    rw [hst1]; simpa [prop_t.hp_type] using hz
  have h1 : prop_destroy0 (k + 1) st1 p = .ok (st1, false) := by
    unfold prop_destroy0
    rw [if_pos hz1]
  refine ⟨st1.setNode t { st1.nodes t with hp_originator := none }, ?_, ?_, ?_, ?_, ?_, ?_, ?_⟩
  · unfold prop_remove_from_originator
    rw [ho]
    dsimp only
    rw [tailq_remove_mem hmem]
    dsimp only
    rw [← hst1]
    by_cases hf : (st1.nodes t).hp_flags.PROP_XREFED_ORIGINATOR = true
    · rw [if_pos hf, h1]
    · rw [if_neg hf]
  · intro q hq1 hq2
    rw [hst1]; simp [hq1, hq2]
  · rw [hst1]; simp [Ne.symm htp]
  · rw [hst1]; simp [htp]
  · rw [hst1]; rfl
  · rw [hst1]; rfl
  · rw [hst1]; rfl

theorem parted_nil (p : Nat) (R : List Nat) (st : State F)
    (h : (st.nodes p).hp_targets = []) : Parted [] p R st st :=
  ⟨rfl, fun _ => rfl, fun _ => rfl, fun _ => rfl, fun _ => rfl, fun _ => by simp,
    fun _ _ => rfl, h, fun _ => rfl, fun _ => rfl, fun _ => rfl, fun _ => rfl, [], by simp,
    by simp⟩

/-- The loop of prop_destroy0 over the target list T of the zombie p, where every reader on
  the list names p as its originator and is the root of a tree that is `homely` and whose
  subscriptions are of R: it returns, and what it leaves is what `Parted` says. -/
theorem destroy_targets_home [CFloat F] (n : Nat) (p : Nat) (R : List Nat) :
    ∀ (T : List Nat) (st : State F) (fuel : Nat),
      (st.nodes p).hp_targets = T → T.Nodup → T.length < fuel →
      (st.nodes p).hp_type = .PROP_ZOMBIE →
      (∀ t ∈ T, t ≠ p ∧ (st.nodes t).hp_originator = some p ∧ homely n st t = true ∧
        ∀ q ∈ reach st n t, ∀ s ∈ (st.nodes q).hp_canonical_subscriptions, s ∈ R) →
      Lodged R st →
      ∃ st', destroy_targets (fun s c =>
          match prop_unlink0 (fun s q => prop_destroy0 n s q) n s c none none with
          | .error e => .error e
          | .ok (s1, _) => .ok s1) p fuel st = .ok st' ∧
        Parted T p R st st' ∧ Lodged R st' := by
  intro T
  induction T with
  | nil =>
    intro st fuel hT _ hf _ _ hl
    obtain ⟨f, rfl⟩ : ∃ f, fuel = f + 1 := ⟨fuel - 1, by simp at hf; omega⟩
    exact ⟨st, destroy_targets_nil _ p f st hT, parted_nil p R st hT, hl⟩
  | cons t rest ih =>
    intro st fuel hT hnd hf hz hall hl
    obtain ⟨f, rfl⟩ : ∃ f, fuel = f + 1 := ⟨fuel - 1, by simp at hf; omega⟩
    have hf' : rest.length < f := by simp at hf; omega
    obtain ⟨htr, hndr⟩ := List.nodup_cons.1 hnd
    obtain ⟨htp, hot, hhome, hcan⟩ := hall t (List.mem_cons_self _ _)
    obtain ⟨m, rfl⟩ : ∃ m, n = m + 1 := by
      cases n with
      | zero => simp [homely] at hhome
      | succ m => exact ⟨m, rfl⟩
    have hmem : t ∈ (st.nodes p).hp_targets := by rw [hT]; exact List.mem_cons_self _ _
    obtain ⟨st1, e1, u1, u2, u3, u4, u5, u6⟩ := remove_from_originator_zombie m st p t hot hmem
      htp hz
    -- the fields of the nodes after the reader has let go
    have hfield : ∀ q, (st1.nodes q).u = (st.nodes q).u ∧
        (st1.nodes q).hp_name = (st.nodes q).hp_name ∧
        (st1.nodes q).hp_flags = (st.nodes q).hp_flags ∧
        (st1.nodes q).hp_xref = (st.nodes q).hp_xref ∧
        (st1.nodes q).hp_parent = (st.nodes q).hp_parent ∧
        (st1.nodes q).hp_canonical_subscriptions = (st.nodes q).hp_canonical_subscriptions ∧
        (st1.nodes q).hp_value_subscriptions = (st.nodes q).hp_value_subscriptions ∧
        (st1.nodes q).hp_originator = (if q = t then none else (st.nodes q).hp_originator) := by
      intro q
      by_cases e1 : q = t
      · subst e1
        rw [u3]
        simp
      · by_cases e2 : q = p
        · subst e2
          rw [u2]
          simp [e1]
        · rw [u1 q e2 e1]
          simp [e1]
    have htg1 : (st1.nodes p).hp_targets = rest := by
      rw [u2]
      show (st.nodes p).hp_targets.erase t = rest
      rw [hT, List.erase_cons_head]
    have htgq : ∀ q, q ≠ p → (st1.nodes q).hp_targets = (st.nodes q).hp_targets := by
      intro q hq
      by_cases e1 : q = t
      · subst e1
        rw [u3]
      · rw [u1 q hq e1]
    have hloc : ∀ (y : Nat), homely (m + 1) st y = true →
        homely (m + 1) st1 y = true ∧ reach st1 (m + 1) y = reach st (m + 1) y := by
      intro y hy
      refine homely_local st st1 (m + 1) y (fun q _ => ?_) hy
      obtain ⟨f1, f2, f3, _, _, _, _, f8⟩ := hfield q
      refine ⟨f1, f2, f3, ?_⟩
      rw [f8]
      split
      · exact Or.inr rfl
      · exact Or.inl rfl
    have hl1 : Lodged R st1 := hl.lg_kept (fun s => by rw [u4]) (fun q => (hfield q).2.2.2.2.2.2.1)
    obtain ⟨hh1, hr1⟩ := hloc t hhome
    obtain ⟨st2, pnq2, e2, w1, w2⟩ := restore_home R none (m + 1) st1 t none hh1
      (by rw [(hfield t).2.2.2.2.2.2.2, if_pos rfl])
      (fun q hq s hs => by
        rw [hr1] at hq
        rw [(hfield q).2.2.2.2.2.1] at hs
        exact hcan q hq s hs) hl1
    have hun : prop_unlink0 (fun s q => prop_destroy0 (m + 1) s q) (m + 1) st t none none
        = .ok (st2, pnq2) := by
      unfold prop_unlink0
      rw [e1]
      exact e2
    obtain ⟨st3, e3, P, l3⟩ := ih st2 f (by rw [w1.targets, htg1]) hndr hf'
      (by rw [type_of_u (w1.u p), type_of_u (hfield p).1]; exact hz)
      (fun t' ht' => by
        obtain ⟨a1, a2, a3, a4⟩ := hall t' (List.mem_cons_of_mem _ ht')
        have htt : t' ≠ t := fun e => htr (e ▸ ht')
        obtain ⟨b1, b2⟩ := hloc t' a3
        refine ⟨a1, ?_, ?_, ?_⟩
        · rw [w1.originator, (hfield t').2.2.2.2.2.2.2, if_neg htt]
          exact a2
        · rw [homely_homed w1]
          exact b1
        · intro q hq s hs
          rw [reach_homed w1, b2] at hq
          rw [w1.canonical, (hfield q).2.2.2.2.2.1] at hs
          exact a4 q hq s hs) w2
    obtain ⟨M1, m1, m2⟩ := w1.log
    obtain ⟨M2, m3, m4⟩ := P.log
    refine ⟨st3, ?_, ⟨?_, ?_, ?_, ?_, ?_, ?_, ?_, P.emptied, ?_, ?_, ?_, ?_, M1 ++ M2, ?_, ?_⟩,
      l3⟩
    · unfold destroy_targets
      rw [hT]
      simp only [hun]
      exact e3
    · rw [P.nnodes, w1.nnodes, u6]
    · intro q; rw [P.name, w1.name, (hfield q).2.1]
    · intro q; rw [P.flags, w1.flags, (hfield q).2.2.1]
    · intro q; rw [P.xref, w1.xref, (hfield q).2.2.2.1]
    · intro q; rw [P.parent, w1.parent, (hfield q).2.2.2.2.1]
    · intro q
      rw [P.originator, w1.originator, (hfield q).2.2.2.2.2.2.2]
      by_cases e1 : q = t
      · subst e1
        simp
      · by_cases e2 : q ∈ rest
        · simp [e2]
        · simp [e1, e2]
    · intro q hq; rw [P.targets q hq, w1.targets, htgq q hq]
    · intro q; rw [P.canonical, w1.canonical, (hfield q).2.2.2.2.2.1]
    · intro q; rw [P.u, w1.u, (hfield q).1]
    · intro q; rw [P.value, w1.value, (hfield q).2.2.2.2.2.2.1]
    · intro s; rw [P.sflags, w1.sflags, u4]
    · rw [m3, m1, u5, List.append_assoc]
    · intro d hd
      rcases List.mem_append.1 hd with h | h
      · exact m2 d h
      · exact m4 d h

theorem doomed_kids_sub_flat (st : State F) (n : Nat) (cs : List Nat) (q : Nat)
    (h : q ∈ doomed_kids n st cs) : q ∈ cs.flatMap (subtree n st) :=
  doomed_kids_sub st n cs q h

theorem stayed_kids_sub_flat (st : State F) (n : Nat) (cs : List Nat) (q : Nat)
    (h : q ∈ stayed_kids n st cs) : q ∈ cs.flatMap (subtree n st) :=
  stayed_kids_sub st n cs q h

theorem doomed_kids_one (n : Nat) (st : State F) (c : Nat) (q : Nat)
    (h : q ∈ doomed_kids n st [c]) : q ∈ subtree n st c := by
  have := doomed_kids_sub_flat st n [c] q h
  simpa using this

theorem stayed_kids_one (n : Nat) (st : State F) (c : Nat) (q : Nat)
    (h : q ∈ stayed_kids n st [c]) : q ∈ subtree n st c := by
  have := stayed_kids_sub_flat st n [c] q h
  simpa using this

theorem doomed_kids_split (n : Nat) (st : State F) (c : Nat) (rest : List Nat) :
    doomed_kids n st (c :: rest) = doomed_kids n st [c] ++ doomed_kids n st rest := by
  unfold doomed_kids
  simp [List.flatMap_cons]

theorem stayed_kids_split (n : Nat) (st : State F) (c : Nat) (rest : List Nat) :
    stayed_kids n st (c :: rest) = stayed_kids n st [c] ++ stayed_kids n st rest := by
  unfold stayed_kids
  simp [List.flatMap_cons]

theorem doomed_kids_single (n : Nat) (st : State F) (c : Nat) :
    doomed_kids n st [c] = if (st.nodes c).hp_xref = 1 then doomed n st c else [] := by
  rw [doomed_kids_cons]; simp [doomed_kids]

theorem stayed_kids_single (n : Nat) (st : State F) (c : Nat) :
    stayed_kids n st [c] = if (st.nodes c).hp_xref = 1 then stayed n st c else [c] := by
  rw [stayed_kids_cons]; simp [stayed_kids]

theorem walks_succ (n : Nat) (st : State F) (gone above : List Nat) (p : Nat) :
    walks (n + 1) st gone above p
      = walks_kids n st (above ++ [p]) (st.nodes p).hp_childs gone
        ++ ((st.nodes p).hp_targets.filter fun t =>
            decide (t ∉ gone ++ doomed_kids n st (st.nodes p).hp_childs)).map fun t =>
          { busy := gone ++ doomed_kids n st (st.nodes p).hp_childs ++ (above ++ [p])
            fuel := n
            reader := t } := rfl

theorem walks_kids_nil (n : Nat) (st : State F) (above gone : List Nat) :
    walks_kids n st above [] gone = [] := rfl

theorem walks_kids_cons (n : Nat) (st : State F) (above : List Nat) (c : Nat)
    (rest gone : List Nat) :
    walks_kids n st above (c :: rest) gone
      = (if (st.nodes c).hp_xref = 1 then walks n st gone above c else [])
        ++ walks_kids n st above rest (gone ++ doomed_kids n st [c]) := by
  rw [doomed_kids_single]
  rfl

theorem Seats.seats_left {st : State F} {R : List Nat} {l1 l2 : List Walk}
    (h : Seats st R (l1 ++ l2)) : Seats st R l1 :=
  fun w hw => h w (List.mem_append_left _ hw)

theorem Seats.seats_right {st : State F} {R : List Nat} {l1 l2 : List Walk}
    (h : Seats st R (l1 ++ l2)) : Seats st R l2 :=
  fun w hw => h w (List.mem_append_right _ hw)

/-- The call of prop_destroy_child for a child c of p, in a destruction under way. -/
theorem destroy_child_ripe [CFloat F] (n : Nat) (a : State F) (p c : Nat) (R : List Nat)
    (IH : ∀ (c : Nat), ripe n a c = true → (subtree n a c).Nodup → (subtree n a c).length < n →
      ∀ (G A C X : List Nat) (b : State F), Poised n a b c G A C X R →
      ∃ b', prop_destroy0 n b c = .ok (b', true) ∧ Felled n a b b' c G C X R)
    (G A C X : List Nat) (b : State F)
    (hpar : (a.nodes c).hp_parent = some p)
    (hripe : (a.nodes c).hp_xref = 1 → ripe n a c = true)
    (hnd : (subtree n a c).Nodup) (hlen : (subtree n a c).length < n)
    (hmem : c ∈ (b.nodes p).hp_childs) (hpc : p ∉ subtree n a c) (hpg : p ∉ G)
    (hsp : Spent a b G C X R)
    (hzg : ∀ q ∈ G, (b.nodes q).hp_type = .PROP_ZOMBIE)
    (huf : ∀ q, q ∉ G → q ∉ A → (b.nodes q).u = (a.nodes q).u)
    (hreg : ∀ q ∈ subtree n a c, q ∉ G ∧ q ∉ A ∧ q ∉ C)
    (han : Anchored b (stayed_kids n a [c] ++ released a (doomed_kids n a [c])))
    (hx1 : ∀ q ∈ doomed_kids n a [c], (b.nodes q).hp_xref = 1)
    (hl : Lodged R b)
    (hw : Seats a R (if (a.nodes c).hp_xref = 1 then walks n a G A c else [])) :
    ∃ b', prop_destroy_child (fun s q => prop_destroy0 n s q) b p c = .ok b' ∧
      Spent a b' (G ++ doomed_kids n a [c]) (C ++ stayed_kids n a [c])
        (X ++ (stayed_kids n a [c] ++ released a (doomed_kids n a [c]))) R ∧
      (∀ q, q ∉ doomed_kids n a [c] → q ≠ p → (b'.nodes q).u = (b.nodes q).u) ∧
      (∃ sel, (b'.nodes p).u = prop_value.PROP_DIR ((b.nodes p).hp_childs.erase c) sel) ∧
      (∀ d ∈ doomed_kids n a [c],
        (b'.nodes d).hp_type = .PROP_ZOMBIE ∧ (b'.nodes d).hp_parent = none) ∧
      (∀ q ∈ G, (b'.nodes q).hp_parent = (b.nodes q).hp_parent) ∧
      b'.nnodes = b.nnodes ∧
      Lodged R b' ∧
      EmitsX R b b' ((if (a.nodes c).hp_xref = 1 then destroy_keys n a c else [])
        ++ child_keys a (a.nodes p).hp_value_subscriptions c) := by
  have hdk := doomed_kids_single n a c
  have hsk := stayed_kids_single n a c
  by_cases hx : (a.nodes c).hp_xref = 1
  · rw [if_pos hx] at hdk hsk hw
    simp only [hdk, hsk] at han hx1 ⊢
    have hpo : Poised n a b c G A C X R := by
      refine ⟨hsp, hzg, huf, hreg, fun q0 hq0 => ?_, han, hx1, hl, hw⟩
      rw [hpar] at hq0
      cases hq0
      exact ⟨hmem, hpc, hpg⟩
    obtain ⟨b', hd, f1, f2, f3, f4, _, f6, f7, f8, f9⟩ := IH c (hripe hx) hnd hlen G A C X b hpo
    refine ⟨b', ?_, f1, fun q hq hqp => ?_, ⟨_, f3 p hpar⟩, f4, f6, f7, f8, ?_⟩
    · unfold prop_destroy_child
      simp only [hd]
    · exact f2 q hq (by rw [hpar]; intro e; cases e; exact hqp rfl)
    · rw [if_pos hx]
      refine f9.x_congr ?_
      unfold parent_keys
      rw [hpar]
  · rw [if_neg hx] at hdk hsk
    simp only [hdk, hsk, released_nil, List.append_nil] at han ⊢
    obtain ⟨m, rfl⟩ : ∃ m, n = m + 1 := ⟨n - 1, by omega⟩
    obtain ⟨hz, hcnt, h255⟩ := han c (List.mem_singleton_self c)
    have h2 : 2 ≤ (b.nodes c).hp_xref := by
      simp only [List.count_cons_self, List.count_nil, zero_add, Nat.cast_one] at hcnt
      omega
    have hcp : c ≠ p := fun e => hpc (e ▸ mem_subtree_self _ _ _)
    obtain ⟨hcg, _, hcc⟩ := hreg c (mem_subtree_self _ _ _)
    obtain ⟨b', hd, g1, g2, g3, g4, g5, g6⟩ := destroy_child_stays m b p c hz h2 h255 hcp hmem
    have hvp := (hsp.sp_nodes p hpg).sp_value
    have hval : ∀ q, (b'.nodes q).hp_value_subscriptions = (b.nodes q).hp_value_subscriptions := by
      intro q
      by_cases e1 : q = c
      · subst e1
        rw [prop_t.same_iff] at g3
        exact g3.2.2.2.2.2.2.1
      · by_cases e2 : q = p
        · subst e2
          rw [prop_t.same_iff] at g2
          exact g2.2.2.2.2.2.2.1
        · have := g1 q e1 e2
          rw [prop_t.same_iff] at this
          exact this.2.2.2.2.2.2.1
    refine ⟨b', hd, ⟨fun q hq => ?_, fun t => by rw [g5.flags, hsp.sp_subs]⟩,
      fun q _ hqp => ?_, ⟨_, u_of_same g2⟩, ?_, fun q hq => ?_, g4, hl.lg_kept g6 hval, ?_⟩
    · have hqg : q ∉ G := by simpa using hq
      have s0 := hsp.sp_nodes q hqg
      by_cases e1 : q = c
      · subst e1
        rw [prop_t.same_iff] at g3
        obtain ⟨s1, s2, s3, s4, s5, s6, s7, s8, _⟩ := g3
        obtain ⟨h1, h2', h3, h4, h5, h6, h7, h8⟩ := s0
        refine ⟨by rw [s1, h1], by rw [s2, h2'], ?_, ?_, ?_, ?_, by rw [s7]; exact h7,
          by rw [s8, h8]⟩
        · have s3' : (b'.nodes q).hp_xref = (b.nodes q).hp_xref - 1 := s3
          rw [s3', h3]
          simp only [List.count_append, List.count_cons_self, List.count_nil, Nat.cast_add,
            Nat.cast_one, zero_add]
          omega
        · have s4' : (b'.nodes q).hp_parent = none := s4
          rw [s4']
          simp
        · have s5' : (b'.nodes q).hp_originator = (b.nodes q).hp_originator := s5
          rw [s5', h5]
        · have s6' : (b'.nodes q).hp_targets = (b.nodes q).hp_targets := s6
          rw [s6', h6]
      · have s1 : Spared (G.filter fun t => decide ((a.nodes t).hp_originator = some q))
            (G.filter fun o => decide (q ∈ (a.nodes o).hp_targets)) C X R q
            (a.nodes q) (b'.nodes q) := by
          by_cases e2 : q = p
          · subst e2
            rw [prop_t.same_iff] at g2
            obtain ⟨t1, t2, t3, t4, t5, t6, t7, t8, _⟩ := g2
            obtain ⟨h1, h2', h3, h4, h5, h6, h7, h8⟩ := s0
            exact ⟨by rw [t1, h1], by rw [t2, h2'], by rw [t3, h3], by rw [t4, h4],
              by rw [t5, h5], by rw [t6, h6], by rw [t7]; exact h7, by rw [t8, h8]⟩
          · exact s0.sp_same (g1 q e1 e2)
        refine s1.sp_congr (by simp) (by simp) (by simp [e1]) ?_
        rw [List.count_append]
        simp [e1]
    · by_cases e1 : q = c
      · subst e1
        rw [prop_t.same_iff] at g3
        exact g3.2.2.2.2.2.2.2.2
      · exact u_of_same (g1 q e1 hqp)
    · intro d hd'
      cases hd'
    · have := g1 q (fun e => hcg (e ▸ hq)) (fun e => hpg (e ▸ hq))
      rw [prop_t.same_iff] at this
      exact this.2.2.2.1
    · rw [if_neg hx, List.nil_append]
      refine (g5.em_to_x R).x_congr ?_
      rw [child_keys_congr hsp.sp_subs]
      exact child_keys_moved a c hvp

/-- The loop of prop_destroy0 over the children of p, in a destruction under way. -/
theorem destroy_childs_loop_ripe [CFloat F] (n : Nat) (a : State F) (p : Nat)
    (R A : List Nat) (hpA : p ∈ A)
    (IH : ∀ (c : Nat), ripe n a c = true → (subtree n a c).Nodup → (subtree n a c).length < n →
      ∀ (G A C X : List Nat) (b : State F), Poised n a b c G A C X R →
      ∃ b', prop_destroy0 n b c = .ok (b', true) ∧ Felled n a b b' c G C X R) :
    ∀ (cs G C X : List Nat) (b : State F) (fuel : Nat),
      (b.nodes p).hp_childs = cs →
      (∀ d ∈ cs, (a.nodes d).hp_parent = some p ∧
        ((a.nodes d).hp_xref = 1 → ripe n a d = true)) →
      (cs.flatMap (subtree n a)).Nodup → p ∉ cs.flatMap (subtree n a) →
      (∀ d ∈ cs, (subtree n a d).length < n) → cs.length < fuel →
      Spent a b G C X R →
      (∀ q ∈ G, (b.nodes q).hp_type = .PROP_ZOMBIE) →
      (∀ q, q ∉ G → q ∉ A → (b.nodes q).u = (a.nodes q).u) →
      (∀ q ∈ cs.flatMap (subtree n a), q ∉ G ∧ q ∉ A ∧ q ∉ C) →
      p ∉ G →
      Anchored b (stayed_kids n a cs ++ released a (doomed_kids n a cs)) →
      (∀ q ∈ doomed_kids n a cs, (b.nodes q).hp_xref = 1) →
      Lodged R b →
      Seats a R (walks_kids n a A cs G) →
      ∃ b', destroy_childs_loop (fun s q => prop_destroy0 n s q) p fuel b cs.head? = .ok b' ∧
        Spent a b' (G ++ doomed_kids n a cs) (C ++ stayed_kids n a cs)
          (X ++ (stayed_kids n a cs ++ released a (doomed_kids n a cs))) R ∧
        (∀ q, q ∉ doomed_kids n a cs → q ≠ p → (b'.nodes q).u = (b.nodes q).u) ∧
        (∀ d ∈ doomed_kids n a cs,
          (b'.nodes d).hp_type = .PROP_ZOMBIE ∧ (b'.nodes d).hp_parent = none) ∧
        (∀ q ∈ G, (b'.nodes q).hp_parent = (b.nodes q).hp_parent) ∧
        b'.nnodes = b.nnodes ∧
        Lodged R b' ∧
        EmitsX R b b' (cs.flatMap fun c =>
          (if (a.nodes c).hp_xref = 1 then destroy_keys n a c else [])
            ++ child_keys a (a.nodes p).hp_value_subscriptions c) := by
  intro cs
  induction cs with
  | nil =>
    intro G C X b fuel _ _ _ _ _ hb hsp _ _ _ _ _ _ hl _
    obtain ⟨b', rfl⟩ : ∃ b', fuel = b' + 1 := ⟨fuel - 1, by simp at hb; omega⟩
    refine ⟨b, by simp [destroy_childs_loop], ?_, fun q _ _ => rfl, ?_,
      fun q _ => rfl, rfl, hl, ?_⟩
    · simpa [doomed_kids, stayed_kids, released] using hsp
    · intro d hd
      simp [doomed_kids] at hd
    · simpa using (Emits.em_refl b).em_to_x R
  | cons c rest ih =>
    intro G C X b fuel hch hall hnd hpn hlen hb hsp hzg huf hreg hpg han hx1 hl hw
    obtain ⟨fuel', rfl⟩ : ∃ b', fuel = b' + 1 := ⟨fuel - 1, by simp at hb; omega⟩
    have hb' : rest.length < fuel' := by simp at hb; omega
    rw [List.flatMap_cons] at hnd hpn
    obtain ⟨hnc, hnr, hdis⟩ := List.nodup_append.1 hnd
    have hpc : p ∉ subtree n a c := fun h => hpn (List.mem_append_left _ h)
    have hpr : p ∉ rest.flatMap (subtree n a) := fun h => hpn (List.mem_append_right _ h)
    obtain ⟨hcpar, hcripe⟩ := hall c (List.mem_cons_self _ _)
    have hD : doomed_kids n a (c :: rest) = doomed_kids n a [c] ++ doomed_kids n a rest :=
      doomed_kids_split n a c rest
    have hS : stayed_kids n a (c :: rest) = stayed_kids n a [c] ++ stayed_kids n a rest :=
      stayed_kids_split n a c rest
    rw [walks_kids_cons] at hw
    simp only [hD, hS, released_append] at han hx1 ⊢
    -- the lists of the first child and of the others
    obtain ⟨D1, hD1⟩ : ∃ D1, D1 = doomed_kids n a [c] := ⟨_, rfl⟩
    obtain ⟨S1, hS1⟩ : ∃ S1, S1 = stayed_kids n a [c] := ⟨_, rfl⟩
    obtain ⟨D2, hD2⟩ : ∃ D2, D2 = doomed_kids n a rest := ⟨_, rfl⟩
    obtain ⟨S2, hS2⟩ : ∃ S2, S2 = stayed_kids n a rest := ⟨_, rfl⟩
    simp only [← hD1, ← hS1, ← hD2, ← hS2] at han hx1 hw ⊢
    have hD1s : ∀ q ∈ D1, q ∈ subtree n a c := fun q hq => doomed_kids_one n a c q (hD1 ▸ hq)
    have hS1s : ∀ q ∈ S1, q ∈ subtree n a c := fun q hq => stayed_kids_one n a c q (hS1 ▸ hq)
    have hD2s : ∀ q ∈ D2, q ∈ rest.flatMap (subtree n a) :=
      fun q hq => doomed_kids_sub_flat a n rest q (hD2 ▸ hq)
    have hS2s : ∀ q ∈ S2, q ∈ rest.flatMap (subtree n a) :=
      fun q hq => stayed_kids_sub_flat a n rest q (hS2 ▸ hq)
    have hmemc : c ∈ (b.nodes p).hp_childs := by rw [hch]; exact List.mem_cons_self _ _
    have hregc : ∀ q ∈ subtree n a c, q ∉ G ∧ q ∉ A ∧ q ∉ C :=
      fun q hq => hreg q (List.mem_flatMap.2 ⟨c, List.mem_cons_self _ _, hq⟩)
    -- the first child
    obtain ⟨b1, s1, f1, f2, ⟨sel, f3⟩, f4, f5, f6, f7, f8⟩ := destroy_child_ripe n a p c R IH
      G A C X b hcpar hcripe hnc (hlen c (List.mem_cons_self _ _)) hmemc hpc hpg hsp hzg huf
      hregc
      (by
        rw [← hD1, ← hS1]
        refine han.an_mono fun q => ?_
        simp only [List.count_append]
        omega)
      (by rw [← hD1]; exact fun q hq => hx1 q (List.mem_append_left _ hq)) hl hw.seats_left
    simp only [← hD1, ← hS1] at f1 f2 f4
    -- what the other children need
    have hch1 : (b1.nodes p).hp_childs = rest := by
      unfold prop_t.hp_childs
      rw [f3, hch]
      simp
    have hu1 : ∀ q ∈ rest.flatMap (subtree n a), (b1.nodes q).u = (b.nodes q).u := by
      intro q hq
      exact f2 q (fun h => hdis (hD1s q h) hq) (fun e => hpr (e ▸ hq))
    have hreg1 : ∀ q ∈ rest.flatMap (subtree n a), q ∉ G ++ D1 ∧ q ∉ A ∧ q ∉ C ++ S1 := by
      intro q hq
      obtain ⟨r2, r4, r3⟩ := hreg q (List.mem_flatMap.2 (by
        obtain ⟨d, hd, hqd⟩ := List.mem_flatMap.1 hq
        exact ⟨d, List.mem_cons_of_mem _ hd, hqd⟩))
      refine ⟨?_, r4, ?_⟩
      · intro h
        rcases List.mem_append.1 h with h | h
        · exact r2 h
        · exact hdis (hD1s q h) hq
      · intro h
        rcases List.mem_append.1 h with h | h
        · exact r3 h
        · exact hdis (hS1s q h) hq
    have hpg1 : p ∉ G ++ D1 := by
      intro h
      rcases List.mem_append.1 h with h | h
      · exact hpg h
      · exact hpc (hD1s p h)
    have hzg1 : ∀ q ∈ G ++ D1, (b1.nodes q).hp_type = .PROP_ZOMBIE := by
      intro q hq
      rcases List.mem_append.1 hq with h | h
      · rw [type_of_u (f2 q (fun h' => (hregc q (hD1s q h')).1 h) (fun e => hpg (e ▸ h)))]
        exact hzg q h
      · exact (f4 q h).1
    have huf1 : ∀ q, q ∉ G ++ D1 → q ∉ A → (b1.nodes q).u = (a.nodes q).u := by
      intro q hq hqA
      have hqG : q ∉ G := fun h => hq (List.mem_append_left _ h)
      have hqD : q ∉ D1 := fun h => hq (List.mem_append_right _ h)
      rw [f2 q hqD (fun e => hqA (e ▸ hpA))]
      exact huf q hqG hqA
    have hT : ∀ q, q ∈ S2 ++ released a D2 → q ∈ (S1 ++ S2) ++ (released a D1 ++ released a D2) := by
      intro q hq
      rcases List.mem_append.1 hq with h | h
      · exact List.mem_append_left _ (List.mem_append_right _ h)
      · exact List.mem_append_right _ (List.mem_append_right _ h)
    have hnotD1 : ∀ q, q ∈ (S1 ++ S2) ++ (released a D1 ++ released a D2) → q ∉ D1 := by
      intro q hq hqd
      obtain ⟨_, hc, _⟩ := han q hq
      have h1 := hx1 q (List.mem_append_left _ hqd)
      have h2 : 0 < ((S1 ++ S2) ++ (released a D1 ++ released a D2)).count q :=
        List.count_pos_iff.2 hq
      rw [h1] at hc
      omega
    have hnotG : ∀ q, q ∈ (S1 ++ S2) ++ (released a D1 ++ released a D2) → q ∉ G :=
      fun q hq h => (han q hq).1 (hzg q h)
    have hxb1 : ∀ q, q ∉ G → q ∉ D1 → (b1.nodes q).hp_xref
        = (b.nodes q).hp_xref - ((S1 ++ released a D1).count q : Int) := by
      intro q hqg hqd
      have e1 := (f1.sp_nodes q (by
        intro h
        rcases List.mem_append.1 h with h | h
        · exact hqg h
        · exact hqd h)).sp_xref
      have e0 := (hsp.sp_nodes q hqg).sp_xref
      rw [e1, e0]
      simp only [List.count_append, Nat.cast_add]
      omega
    have han1 : Anchored b1 (S2 ++ released a D2) := by
      intro q hq
      have hqT := hT q hq
      obtain ⟨hz, hc, h255⟩ := han q hqT
      have hqd := hnotD1 q hqT
      have hqg := hnotG q hqT
      have hx := hxb1 q hqg hqd
      refine ⟨?_, ?_, ?_⟩
      · by_cases e : q = p
        · subst e
          unfold prop_t.hp_type
          rw [f3]
          simp [prop_value.hp_type]
        · rw [type_of_u (f2 q hqd e)]
          exact hz
      · rw [hx]
        simp only [List.count_append, Nat.cast_add] at hc ⊢
        omega
      · rw [hx]
        omega
    have hx11 : ∀ q ∈ D2, (b1.nodes q).hp_xref = 1 := by
      intro q hq
      have hq2 := hD2s q hq
      have hqg : q ∉ G := (hreg1 q hq2).1 ∘ List.mem_append_left _
      have hqd : q ∉ D1 := fun h => hdis (hD1s q h) hq2
      rw [hxb1 q hqg hqd, hx1 q (List.mem_append_right _ hq)]
      have : (S1 ++ released a D1).count q = 0 := by
        apply List.count_eq_zero.2
        intro hm
        have hqT : q ∈ (S1 ++ S2) ++ (released a D1 ++ released a D2) := by
          rcases List.mem_append.1 hm with h | h
          · exact List.mem_append_left _ (List.mem_append_left _ h)
          · exact List.mem_append_right _ (List.mem_append_left _ h)
        obtain ⟨_, hc, _⟩ := han q hqT
        have h2 : 0 < ((S1 ++ S2) ++ (released a D1 ++ released a D2)).count q :=
          List.count_pos_iff.2 hqT
        rw [hx1 q (List.mem_append_right _ hq)] at hc
        omega
      rw [this]
      simp
    obtain ⟨b', s2, g1, g2, g4, g5, g6, g7, g8⟩ := ih (G ++ D1) (C ++ S1)
      (X ++ (S1 ++ released a D1)) b1 fuel' hch1
      (fun d hd => hall d (List.mem_cons_of_mem _ hd)) hnr hpr
      (fun d hd => hlen d (List.mem_cons_of_mem _ hd)) hb' f1 hzg1 huf1 hreg1 hpg1
      (by rw [← hD2, ← hS2]; exact han1) (by rw [← hD2]; exact hx11) f7 hw.seats_right
    simp only [← hD2, ← hS2] at g1 g2 g4
    refine ⟨b', ?_, ?_, fun q hq hqp => ?_, ?_, fun q hq => ?_, by rw [g6, f6], g7, ?_⟩
    · simp only [List.head?_cons]
      unfold destroy_childs_loop
      simp only [hch, tailq_next_first, s1]
      exact s2
    · refine g1.spent_congr (fun t => by simp [List.append_assoc])
        (fun t => by simp [List.append_assoc]) (fun t _ => ?_)
      simp only [List.count_append]
      omega
    · have hq1 : q ∉ D1 := fun h => hq (List.mem_append_left _ h)
      have hq2 : q ∉ D2 := fun h => hq (List.mem_append_right _ h)
      rw [g2 q hq2 hqp, f2 q hq1 hqp]
    · intro d hd
      rcases List.mem_append.1 hd with h | h
      · obtain ⟨z1, z2⟩ := f4 d h
        have hd2 : d ∉ D2 := fun h' => hdis (hD1s d h) (hD2s d h')
        have hdp : d ≠ p := fun e => hpc (e ▸ hD1s d h)
        refine ⟨?_, by rw [g5 d (List.mem_append_right _ h), z2]⟩
        rw [type_of_u (g2 d hd2 hdp)]
        exact z1
      · exact g4 d h
    · rw [g5 q (List.mem_append_left _ hq), f5 q hq]
    · rw [List.flatMap_cons]
      exact f8.x_trans g8

theorem erase_filter_eq (p : Nat) (P Q : Nat → Bool) (hP : P p = true) (hQ : Q p = false)
    (hPQ : ∀ t, t ≠ p → Q t = P t) : ∀ (l : List Nat), l.count p = 1 →
    (l.filter P).erase p = l.filter Q := by
  intro l
  induction l with
  | nil => intro h; simp at h
  | cons x xs ih =>
    intro h
    by_cases e : x = p
    · subst e
      have h0 : xs.count x = 0 := by
        rw [List.count_cons_self] at h
        omega
      have hx : x ∉ xs := List.count_eq_zero.1 h0
      rw [List.filter_cons_of_pos hP, List.erase_cons_head, List.filter_cons_of_neg (by simp [hQ])]
      apply List.filter_congr
      intro t ht
      exact (hPQ t (fun e => hx (e ▸ ht))).symm
    · have h1 : xs.count p = 1 := by
        rw [List.count_cons_of_ne (fun x' => e x'.symm)] at h
        exact h
      have hq := hPQ x e
      by_cases hpx : P x = true
      · rw [List.filter_cons_of_pos hpx, List.filter_cons_of_pos (by rw [hq, hpx]),
          List.erase_cons_tail (by simpa using e), ih h1]
      · rw [List.filter_cons_of_neg hpx, List.filter_cons_of_neg (by rw [hq]; exact hpx), ih h1]

theorem self_of_originator_none {x : prop_t F} (h : x.hp_originator = none) :
    x = { x with hp_originator := none } := by
  cases x
  simp only [prop_t.mk.injEq, true_and, and_true] at h ⊢
  exact h

theorem doomed_kids_not_self (n : Nat) (a : State F) (p : Nat)
    (hpn : p ∉ (a.nodes p).hp_childs.flatMap (subtree n a)) :
    p ∉ doomed_kids n a (a.nodes p).hp_childs :=
  fun h => hpn (doomed_kids_sub_flat a n _ p h)

theorem stayed_kids_not_self (n : Nat) (a : State F) (p : Nat)
    (hpn : p ∉ (a.nodes p).hp_childs.flatMap (subtree n a)) :
    p ∉ stayed_kids n a (a.nodes p).hp_childs :=
  fun h => hpn (stayed_kids_sub_flat a n _ p h)

theorem filter_notin_append (G D : List Nat) (l : List Nat) :
    l.filter (fun t => decide (t ∉ G ++ D))
      = (l.filter fun t => decide (t ∉ D)).filter fun t => decide (t ∉ G) := by
  rw [List.filter_filter]
  apply List.filter_congr
  intro t _
  by_cases h1 : t ∈ G <;> by_cases h2 : t ∈ D <;> simp [h1, h2]

theorem Lodged.lg_flush {R : List Nat} {st4 st5 : State F} (p : Nat) (L : List Nat)
    (h : Lodged R st4) (hL : (st4.nodes p).hp_value_subscriptions = L)
    (hvp : ∀ s, (st5.subs s).hps_value_prop
      = if s ∈ L then none else (st4.subs s).hps_value_prop)
    (hv : ∀ q, q ≠ p →
      (st5.nodes q).hp_value_subscriptions = (st4.nodes q).hp_value_subscriptions) :
    Lodged R st5 := by
  intro s hs v hsv
  rw [hvp] at hsv
  by_cases hsl : s ∈ L
  · rw [if_pos hsl] at hsv
    cases hsv
  · rw [if_neg hsl] at hsv
    have hm := h s hs v hsv
    have hvp' : v ≠ p := by
      intro e
      rw [e, hL] at hm
      exact hsl hm
    rw [hv v hvp']
    exact hm

theorem option_filter_cases {o : Option Nat} {P : Nat → Bool} :
    o.filter P = o ∨ o.filter P = none := by
  cases o with
  | none => exact Or.inl rfl
  | some x =>
    rw [Option.filter_some]
    split
    · exact Or.inl rfl
    · exact Or.inr rfl

/-- The function prop_destroy0 on the root of a ripe tree, in a destruction under way: it
  returns 1 and leaves what `Felled` says. -/
theorem destroy0_ripe [CFloat F] (R : List Nat) : ∀ (k : Nat) (a : State F) (p : Nat),
    ripe k a p = true → (subtree k a p).Nodup → (subtree k a p).length < k →
    ∀ (G A C X : List Nat) (b : State F), Poised k a b p G A C X R →
    ∃ b', prop_destroy0 k b p = .ok (b', true) ∧ Felled k a b b' p G C X R := by
  intro k
  induction k with
  | zero => intro a p h; simp [ripe] at h
  | succ n ih =>
    intro a p hr hn hl G A C X b hpo
    obtain ⟨hsp, hzg, huf, hreg, hparent, han, hx1, hlg, hw⟩ := hpo
    obtain ⟨hz, htg, htnd, htlen, hor, hkids⟩ := (ripe_succ n a p).1 hr
    have hflat : ∀ q ∈ (a.nodes p).hp_childs.flatMap (subtree n a), q ∈ subtree (n + 1) a p := by
      intro q hq
      rw [subtree_succ]
      exact List.mem_cons_of_mem _ hq
    rw [subtree_succ] at hn hl
    obtain ⟨hpn, hnd⟩ := List.nodup_cons.1 hn
    have hlen : ((a.nodes p).hp_childs.flatMap (subtree n a)).length < n := by
      rw [List.length_cons] at hl; omega
    obtain ⟨m, rfl⟩ : ∃ m, n = m + 1 := ⟨n - 1, by omega⟩
    -- the lists of the tree
    obtain ⟨Dk, hDk⟩ : ∃ Dk, Dk = doomed_kids (m + 1) a (a.nodes p).hp_childs := ⟨_, rfl⟩
    obtain ⟨Sk, hSk⟩ : ∃ Sk, Sk = stayed_kids (m + 1) a (a.nodes p).hp_childs := ⟨_, rfl⟩
    obtain ⟨own, hown⟩ : ∃ own, own = (if (a.nodes p).hp_flags.PROP_XREFED_ORIGINATOR
        then (a.nodes p).hp_originator.toList else []) := ⟨_, rfl⟩
    have hD : doomed (m + 1 + 1) a p = p :: Dk := by rw [hDk]; rfl
    have hS : stayed (m + 1 + 1) a p = Sk := by rw [hSk]; rfl
    have hR : released a (p :: Dk) = own ++ released a Dk := by rw [released_cons, hown]
    simp only [hD, hS, hR] at han hx1
    unfold Felled
    simp only [hD, hS, hR]
    rw [walks_succ, ← hDk] at hw
    rw [← hDk] at htnd htlen hor
    have hpDk : p ∉ Dk := hDk ▸ doomed_kids_not_self (m + 1) a p hpn
    have hpSk : p ∉ Sk := hSk ▸ stayed_kids_not_self (m + 1) a p hpn
    have hDks : ∀ q ∈ Dk, q ∈ (a.nodes p).hp_childs.flatMap (subtree (m + 1) a) :=
      fun q hq => doomed_kids_sub_flat a (m + 1) _ q (hDk ▸ hq)
    obtain ⟨hpG, hpA, hpC⟩ := hreg p (mem_subtree_self _ _ _)
    have hpu : (b.nodes p).u = (a.nodes p).u := huf p hpG hpA
    have spb := hsp.sp_nodes p hpG
    have hxb : (b.nodes p).hp_xref = 1 := hx1 p (List.mem_cons_self _ _)
    have hzb : (b.nodes p).hp_type ≠ .PROP_ZOMBIE := by rw [type_of_u hpu]; exact hz
    have hchb : (b.nodes p).hp_childs = (a.nodes p).hp_childs := childs_of_u hpu
    have hpR : p ∉ Sk ++ (own ++ released a Dk) := by
      intro h
      obtain ⟨_, hc, _⟩ := han p h
      have := List.count_pos_iff.2 h
      rw [hxb] at hc
      omega
    -- the state after the decrement
    obtain ⟨b1, hb1⟩ : ∃ b1, b1 = b.setNode p
      { b.nodes p with hp_xref := ((b.nodes p).hp_xref - 1) % 256 } := ⟨_, rfl⟩
    have h1ne : ∀ q, q ≠ p → b1.nodes q = b.nodes q := by
      intro q hq; rw [hb1]; simp [hq]
    have h1p : b1.nodes p = { b.nodes p with hp_xref := 0 } := by
      rw [hb1]; simp [hxb]
    have h1fl : ∀ t, (b1.subs t).hps_flags = (b.subs t).hps_flags := by
      intro t; rw [hb1]; rfl
    have hsp1 : Spent a b1 G C (X ++ [p]) R := by
      refine ⟨fun q hq => ?_, fun t => by rw [h1fl, hsp.sp_subs]⟩
      by_cases e : q = p
      · subst e
        obtain ⟨s1, s2, s3, s4, s5, s6, s7, s8⟩ := spb
        rw [h1p]
        refine ⟨s1, s2, ?_, s4, s5, s6, s7, s8⟩
        show (0 : Int) = _
        rw [hxb] at s3
        simp only [List.count_append, List.count_cons_self, List.count_nil, Nat.cast_add,
          Nat.cast_one, zero_add]
        omega
      · rw [h1ne q e]
        refine (hsp.sp_nodes q hq).sp_congr (fun _ => Iff.rfl) (fun _ => Iff.rfl) Iff.rfl ?_
        rw [List.count_append]
        simp [e]
    have hreg1 : ∀ q ∈ (a.nodes p).hp_childs.flatMap (subtree (m + 1) a),
        q ∉ G ∧ q ∉ A ++ [p] ∧ q ∉ C := by
      intro q hq
      have hqp : q ≠ p := fun e => hpn (e ▸ hq)
      obtain ⟨r1, r2, r3⟩ := hreg q (hflat q hq)
      refine ⟨r1, ?_, r3⟩
      intro h
      rcases List.mem_append.1 h with h | h
      · exact r2 h
      · exact hqp (List.mem_singleton.1 h)
    have hzg1 : ∀ q ∈ G, (b1.nodes q).hp_type = .PROP_ZOMBIE := by
      intro q hq
      rw [h1ne q (fun e => hpG (e ▸ hq))]
      exact hzg q hq
    have huf1 : ∀ q, q ∉ G → q ∉ A ++ [p] → (b1.nodes q).u = (a.nodes q).u := by
      intro q hqG hqA
      have hqp : q ≠ p := fun e => hqA (List.mem_append_right _ (e ▸ List.mem_singleton_self p))
      rw [h1ne q hqp]
      exact huf q hqG (fun h => hqA (List.mem_append_left _ h))
    have han1 : Anchored b1 (Sk ++ released a Dk) := by
      have h0 : Anchored b (Sk ++ released a Dk) := by
        refine han.an_mono fun q => ?_
        simp only [List.count_append]
        omega
      intro q hq
      have hqp : q ≠ p := by
        intro e
        apply hpR
        rw [← e]
        rcases List.mem_append.1 hq with h | h
        · exact List.mem_append_left _ h
        · exact List.mem_append_right _ (List.mem_append_right _ h)
      rw [h1ne q hqp]
      exact h0 q hq
    have hx11 : ∀ q ∈ Dk, (b1.nodes q).hp_xref = 1 := by
      intro q hq
      rw [h1ne q (fun e => hpDk (e ▸ hq))]
      exact hx1 q (List.mem_cons_of_mem _ hq)
    have hval1 : ∀ q, (b1.nodes q).hp_value_subscriptions
        = (b.nodes q).hp_value_subscriptions := by
      intro q
      by_cases e : q = p
      · subst e; rw [h1p]
      · rw [h1ne q e]
    have hlg1 : Lodged R b1 := hlg.lg_kept (fun s => by rw [hb1]; rfl) hval1
    -- the loop over the children
    obtain ⟨b2, hloop, l1, l2, l4, l5, l6, l7, l8⟩ := destroy_childs_loop_ripe (m + 1) a p R
      (A ++ [p]) (List.mem_append_right _ (List.mem_singleton_self p))
      (fun c => ih a c) (a.nodes p).hp_childs G C (X ++ [p]) b1 (m + 1 + 1)
      (by rw [h1p]; exact hchb) hkids hnd hpn
      (fun d hd => lt_of_le_of_lt (length_le_flatMap hd) hlen)
      (Nat.lt_succ_of_lt (lt_of_le_of_lt
        (length_le_flatMap_of_pos (subtree_length_pos (m + 1) a) _) hlen))
      hsp1 hzg1 huf1 hreg1 hpG (by rw [← hSk, ← hDk]; exact han1) (by rw [← hDk]; exact hx11)
      hlg1 hw.seats_left
    simp only [← hSk, ← hDk] at l1 l2 l4 l8
    have hwo := hw.seats_right
    -- the node p after the loop
    have hpGD : p ∉ G ++ Dk := by
      intro h
      rcases List.mem_append.1 h with h | h
      · exact hpG h
      · exact hpDk h
    obtain ⟨T, hT⟩ : ∃ T, T = (a.nodes p).hp_targets.filter
        (fun t => decide (t ∉ G ++ Dk)) := ⟨_, rfl⟩
    rw [← hT] at hwo
    obtain ⟨q1, q2, q3, q4, q5, q6, q7, q8⟩ := l1.sp_nodes p hpGD
    have h2tg : (b2.nodes p).hp_targets = T := by
      rw [q6, hT]
      apply List.filter_congr
      intro t ht
      simp only [List.mem_filter, decide_eq_true_eq, htg t ht, and_true]
    have hTmem : ∀ t, t ∈ T ↔ t ∈ (a.nodes p).hp_targets ∧ t ∉ G ++ Dk := by
      intro t
      rw [hT, List.mem_filter]
      simp only [decide_eq_true_eq]
    have hTnd : T.Nodup := by
      rw [hT, filter_notin_append]
      exact htnd.filter _
    have hTlen : T.length < m + 1 + 1 := by
      have : T.length ≤ ((a.nodes p).hp_targets.filter fun t => decide (t ∉ Dk)).length := by
        rw [hT, filter_notin_append]
        exact List.length_filter_le _ _
      omega
    have h2x : (b2.nodes p).hp_xref = 0 := by
      rw [q3]
      have e0 := spb.sp_xref
      rw [hxb] at e0
      have c0 : (Sk ++ released a Dk).count p = 0 := by
        apply List.count_eq_zero.2
        intro h
        apply hpR
        rcases List.mem_append.1 h with h | h
        · exact List.mem_append_left _ h
        · exact List.mem_append_right _ (List.mem_append_right _ h)
      simp only [List.count_append, List.count_cons_self, List.count_nil, Nat.cast_add,
        Nat.cast_one, zero_add] at c0 ⊢
      omega
    have h2par : (b2.nodes p).hp_parent = (a.nodes p).hp_parent := by
      rw [q4, if_neg]
      intro h
      rcases List.mem_append.1 h with h | h
      · exact hpC h
      · exact hpSk h
    -- the zombie
    obtain ⟨st3, hst3⟩ : ∃ st3, st3 = b2.setU p .PROP_ZOMBIE := ⟨_, rfl⟩
    have h3ne : ∀ q, q ≠ p → st3.nodes q = b2.nodes q := by
      intro q hq; rw [hst3]; simp [hq]
    have h3p : st3.nodes p = { b2.nodes p with u := .PROP_ZOMBIE } := by
      rw [hst3]; simp
    have hval3 : ∀ q, (st3.nodes q).hp_value_subscriptions
        = (b2.nodes q).hp_value_subscriptions := by
      intro q
      by_cases e : q = p
      · subst e; rw [h3p]
      · rw [h3ne q e]
    have hlg3 : Lodged R st3 := l7.lg_kept (fun s => by rw [hst3]; rfl) hval3
    obtain ⟨st4, hcan, c1, c2, c3, c4⟩ := destroy_canonical_subs_ok p
      (st3.nodes p).hp_canonical_subscriptions st3 rfl
    have c2' := (prop_t.same_iff _ _).1 c2
    simp only [h3p] at c2'
    obtain ⟨p4name, p4flags, p4xref, p4par, p4or, p4tg, p4val, p4can, p4u⟩ := c2'
    have hval4 : ∀ q, (st4.nodes q).hp_value_subscriptions
        = (st3.nodes q).hp_value_subscriptions := by
      intro q
      by_cases e : q = p
      · subst e
        rw [p4val, h3p]
      · exact ((prop_t.same_iff _ _).1 (c1 q e)).2.2.2.2.2.2.1
    have hlg4 : Lodged R st4 := hlg3.lg_kept (vp_canonical_subs p _ st3 st4 hcan) hval4
    obtain ⟨st5, hval, v1, v2, v3, v4⟩ := destroy_value_subs_ok p
      (st4.nodes p).hp_value_subscriptions st4 rfl
    have v2' := (prop_t.same_iff _ _).1 v2
    simp only [] at v2'
    obtain ⟨p5name, p5flags, p5xref, p5par, p5or, p5tg, p5val, p5can, p5u⟩ := v2'
    have hlg5 : Lodged R st5 := hlg4.lg_flush p _ rfl (vp_value_subs p _ st4 st5 hval)
      (fun q hq => ((prop_t.same_iff _ _).1 (v1 q hq)).2.2.2.2.2.2.1)
    have h5tg : (st5.nodes p).hp_targets = T := by rw [p5tg, p4tg, h2tg]
    have h5or : (st5.nodes p).hp_originator = (a.nodes p).hp_originator.filter
        (fun o => decide (o ∉ (G ++ Dk).filter
          fun o => decide (p ∈ (a.nodes o).hp_targets))) := by
      rw [p5or, p4or, q5]
    have h5par : (st5.nodes p).hp_parent = (a.nodes p).hp_parent := by rw [p5par, p4par, h2par]
    have h5x : (st5.nodes p).hp_xref = 0 := by rw [p5xref, p4xref, h2x]
    have h5fl : (st5.nodes p).hp_flags = (a.nodes p).hp_flags := by rw [p5flags, p4flags, q2]
    have h5z : (st5.nodes p).hp_type = .PROP_ZOMBIE := by
      unfold prop_t.hp_type
      rw [p5u, p4u]
      rfl
    have h25 : ∀ q, q ≠ p → (b2.nodes q).same (st5.nodes q) := by
      intro q hq
      have x := c1 q hq
      rw [h3ne q hq] at x
      exact x.same_trans (v1 q hq)
    have hb5 : ∀ q, q ≠ p → q ∉ Dk → (st5.nodes q).u = (b.nodes q).u := by
      intro q hq hqd
      rw [u_of_same (h25 q hq), l2 q hqd hq, h1ne q hq]
    -- the readers of p
    have s5of : ∀ q, q ∉ G ++ Dk → q ≠ p →
        Spared ((G ++ Dk).filter fun t => decide ((a.nodes t).hp_originator = some q))
          ((G ++ Dk).filter fun o => decide (q ∈ (a.nodes o).hp_targets)) (C ++ Sk)
          (X ++ [p] ++ (Sk ++ released a Dk)) R q (a.nodes q) (st5.nodes q) :=
      fun q hq hqp => (l1.sp_nodes q hq).sp_same (h25 q hqp)
    have hseat : ∀ t ∈ T, seated a { busy := G ++ Dk ++ (A ++ [p]), fuel := m + 1, reader := t }
          = true ∧
        ∀ q ∈ reach a (m + 1) t, ∀ s ∈ (a.nodes q).hp_canonical_subscriptions, s ∈ R :=
      fun t ht => hwo _ (List.mem_map.2 ⟨t, ht, rfl⟩)
    have hclear : ∀ t ∈ T, ∀ q ∈ reach a (m + 1) t,
        q ∉ G ++ Dk ∧ q ∉ A ∧ q ≠ p := by
      intro t ht q hq
      have h := (hseat t ht).1
      unfold seated at h
      simp only [Bool.and_eq_true, List.all_eq_true, decide_eq_true_eq] at h
      have hb := h.2 q hq
      refine ⟨fun x => hb (List.mem_append_left _ x),
        fun x => hb (List.mem_append_right _ (List.mem_append_left _ x)),
        fun e => hb (List.mem_append_right _ (List.mem_append_right _
          (e ▸ List.mem_singleton_self p)))⟩
    have hTp : ∀ t ∈ T, t ≠ p := fun t ht => (hclear t ht t (mem_reach_self a _ t)).2.2
    have hready : ∀ t ∈ T, t ≠ p ∧ (st5.nodes t).hp_originator = some p ∧
        homely (m + 1) st5 t = true ∧
        ∀ q ∈ reach st5 (m + 1) t, ∀ s ∈ (st5.nodes q).hp_canonical_subscriptions, s ∈ R := by
      intro t ht
      obtain ⟨hse, hcn⟩ := hseat t ht
      have hho : homely (m + 1) a t = true := by
        unfold seated at hse
        simp only [Bool.and_eq_true] at hse
        exact hse.1
      have hflds : ∀ q ∈ reach a (m + 1) t, (st5.nodes q).u = (a.nodes q).u ∧
          (st5.nodes q).hp_name = (a.nodes q).hp_name ∧
          (st5.nodes q).hp_flags = (a.nodes q).hp_flags ∧
          ((st5.nodes q).hp_originator = (a.nodes q).hp_originator ∨
            (st5.nodes q).hp_originator = none) := by
        intro q hq
        obtain ⟨c1', c2', c3'⟩ := hclear t ht q hq
        have hqG : q ∉ G := fun x => c1' (List.mem_append_left _ x)
        have hqD : q ∉ Dk := fun x => c1' (List.mem_append_right _ x)
        have sq := s5of q c1' c3'
        refine ⟨by rw [hb5 q c3' hqD]; exact huf q hqG c2', sq.sp_name, sq.sp_flags, ?_⟩
        rw [sq.sp_originator]
        exact option_filter_cases
      obtain ⟨hh5, hr5⟩ := homely_local a st5 (m + 1) t hflds hho
      obtain ⟨c1', _, c3'⟩ := hclear t ht t (mem_reach_self a _ t)
      have htt := (hTmem t).1 ht
      refine ⟨c3', ?_, hh5, ?_⟩
      · rw [(s5of t c1' c3').sp_originator, htg t htt.1, Option.filter_some, if_pos]
        simp only [List.mem_filter, decide_eq_true_eq, not_and]
        intro h
        exact absurd h hpGD
      · intro q hq s hs
        rw [hr5] at hq
        obtain ⟨d1, _, d3⟩ := hclear t ht q hq
        rw [(s5of q d1 d3).sp_canonical] at hs
        exact hcn q hq s hs
    obtain ⟨st6, htgt, P, hlg6⟩ := destroy_targets_home (m + 1) p R T st5 (m + 1 + 1) h5tg hTnd
      hTlen h5z hready hlg5
    have hpT : p ∉ T := fun h => hTp p h rfl
    have h6or : (st6.nodes p).hp_originator = (st5.nodes p).hp_originator := by
      rw [P.originator, if_neg hpT]
    have h6par : (st6.nodes p).hp_parent = (a.nodes p).hp_parent := by rw [P.parent, h5par]
    have h6x : (st6.nodes p).hp_xref = 0 := by rw [P.xref, h5x]
    have h6fl : (st6.nodes p).hp_flags = (a.nodes p).hp_flags := by rw [P.flags, h5fl]
    have h6z : (st6.nodes p).hp_type = .PROP_ZOMBIE := by
      rw [type_of_u (P.u p)]; exact h5z
    have hb6 : ∀ q, q ≠ p → q ∉ Dk → (st6.nodes q).u = (b.nodes q).u := by
      intro q hq hqd
      rw [P.u, hb5 q hq hqd]
    -- the originator
    have horig : ∃ st7, (if (st6.nodes p).hp_originator ≠ none then
          prop_remove_from_originator (fun s q => prop_destroy0 (m + 1) s q) st6 p
          else .ok st6) = .ok st7 ∧
        (∀ q, q ≠ p → ¬ ((a.nodes p).hp_originator = some q ∧ q ∉ G) →
          st7.nodes q = st6.nodes q) ∧
        st7.nodes p = { st6.nodes p with hp_originator := none } ∧
        (∀ o, (a.nodes p).hp_originator = some o → o ∉ G → o ≠ p ∧ o ∉ Dk ∧
          st7.nodes o = { st6.nodes o with
            hp_targets := (st6.nodes o).hp_targets.erase p
            hp_xref := (st6.nodes o).hp_xref
              - (if (a.nodes p).hp_flags.PROP_XREFED_ORIGINATOR then 1 else 0) }) ∧
        st7.subs = st6.subs ∧ st7.log = st6.log ∧ st7.nnodes = st6.nnodes := by
      cases hao : (a.nodes p).hp_originator with
      | none =>
        rw [hao] at h5or
        have h6n : (st6.nodes p).hp_originator = none := by rw [h6or, h5or]; rfl
        refine ⟨st6, by simp [h6n], fun _ _ _ => rfl, self_of_originator_none h6n,
          fun o h => absurd h (by simp), rfl, rfl, rfl⟩
      | some o =>
        rw [hao] at h5or
        obtain ⟨hcount, hoD⟩ := hor o hao
        have hmem : p ∈ (a.nodes o).hp_targets := List.count_pos_iff.1 (by omega)
        by_cases hoG : o ∈ G
        · have hin : o ∈ (G ++ Dk).filter fun o => decide (p ∈ (a.nodes o).hp_targets) :=
            List.mem_filter.2 ⟨List.mem_append_left _ hoG, by simpa using hmem⟩
          have h6n : (st6.nodes p).hp_originator = none := by
            rw [h6or, h5or, Option.filter_some, if_neg]
            exact fun h => (of_decide_eq_true h) hin
          refine ⟨st6, by simp [h6n], fun _ _ _ => rfl, self_of_originator_none h6n,
            fun o' h hg => ?_, rfl, rfl, rfl⟩
          cases h
          exact absurd hoG hg
        · have hoGD : o ∉ G ++ Dk := by
            intro h
            rcases List.mem_append.1 h with h | h
            · exact hoG h
            · exact hoD h
          have hop : o ≠ p := by
            intro e
            rw [e] at hmem
            exact hpT ((hTmem p).2 ⟨hmem, hpGD⟩)
          have h6s : (st6.nodes p).hp_originator = some o := by
            rw [h6or, h5or, Option.filter_some, if_pos]
            simp only [List.mem_filter, decide_eq_true_eq, not_and]
            intro h
            exact absurd h hoGD
          obtain ⟨o1, o2, o3, o4, o5, o6, o7, o8⟩ := l1.sp_nodes o hoGD
          have s5 := (prop_t.same_iff _ _).1 (h25 o hop)
          obtain ⟨r1, r2, r3, r4, r5, r6, r7, r8, r9⟩ := s5
          have hmem6 : p ∈ (st6.nodes o).hp_targets := by
            rw [P.targets o hop, r6, o6, List.mem_filter]
            refine ⟨hmem, ?_⟩
            simp only [List.mem_filter, decide_eq_true_eq, not_and]
            intro h
            exact absurd h hpGD
          have hxc : (st6.nodes p).hp_flags.PROP_XREFED_ORIGINATOR = true →
              (st6.nodes o).hp_type ≠ .PROP_ZOMBIE ∧ 2 ≤ (st6.nodes o).hp_xref ∧
                (st6.nodes o).hp_xref ≤ 255 := by
            intro hf
            rw [h6fl] at hf
            have hown' : own = [o] := by rw [hown, if_pos hf, hao]; rfl
            have hoR : o ∈ Sk ++ (own ++ released a Dk) := by
              rw [hown']
              exact List.mem_append_right _ (List.mem_append_left _ (List.mem_singleton_self o))
            obtain ⟨z1, z2, z3⟩ := han o hoR
            have e0 := (hsp.sp_nodes o hoG).sp_xref
            refine ⟨?_, ?_, ?_⟩
            · rw [type_of_u (hb6 o hop hoD)]
              exact z1
            · rw [P.xref, r3, o3]
              rw [hown'] at z2
              simp only [List.count_append, List.count_cons_self, List.count_nil, Nat.cast_add,
                Nat.cast_one, zero_add, List.count_cons_of_ne hop] at z2 ⊢
              omega
            · rw [P.xref, r3, o3]
              simp only [List.count_append, List.count_cons_self, List.count_nil, Nat.cast_add,
                Nat.cast_one, zero_add, List.count_cons_of_ne hop] at z2 ⊢
              omega
          obtain ⟨st7, hrun, u1, u2, u3, u4, u5, u6⟩ := remove_from_originator_ripe m st6 o p
            h6s hmem6 hop hxc
          refine ⟨st7, ?_, fun q hq hqo => ?_, u3, fun o' ho' _ => ?_, u4, u5, u6⟩
          · rw [if_pos (by rw [h6s]; simp)]
            exact hrun
          · refine u1 q (fun e => hqo ⟨by rw [e], ?_⟩) hq
            rw [e]
            exact hoG
          · cases ho'
            refine ⟨hop, hoD, ?_⟩
            rw [u2, h6fl]
    obtain ⟨st7, hrun7, u1, u3, u2, u4, u5, u6⟩ := horig
    have h7par : (st7.nodes p).hp_parent = (a.nodes p).hp_parent := by rw [u3]; exact h6par
    have h7u : ∀ q, q ≠ p → (st7.nodes q).u = (st6.nodes q).u := by
      intro q hq
      by_cases e : (a.nodes p).hp_originator = some q ∧ q ∉ G
      · rw [(u2 q e.1 e.2).2.2]
      · rw [u1 q hq e]
    have h7b : ∀ q, q ≠ p → q ∉ Dk → (st7.nodes q).u = (b.nodes q).u :=
      fun q hq hqd => (h7u q hq).trans (hb6 q hq hqd)
    have h7val : ∀ q, (st7.nodes q).hp_value_subscriptions
        = (st6.nodes q).hp_value_subscriptions := by
      intro q
      by_cases hq : q = p
      · subst hq; rw [u3]
      · by_cases e : (a.nodes p).hp_originator = some q ∧ q ∉ G
        · rw [(u2 q e.1 e.2).2.2]
        · rw [u1 q hq e]
    have hlg7 : Lodged R st7 := hlg6.lg_kept (fun s => by rw [u4]) h7val
    have hown0 : ∀ q, (a.nodes p).hp_originator ≠ some q → own.count q = 0 := by
      intro q hq
      apply List.count_eq_zero.2
      intro h
      rw [hown] at h
      split at h
      · cases hao : (a.nodes p).hp_originator with
        | none => simp [hao] at h
        | some o =>
          simp [hao] at h
          exact hq (by rw [hao, h])
      · cases h
    -- the nodes that are spared, after the loop over the readers
    have hsp6 : ∀ q, q ∉ G → q ≠ p → q ∉ Dk →
        Spared ((G ++ Dk).filter fun t => decide ((a.nodes t).hp_originator = some q))
          ((G ++ p :: Dk).filter fun o => decide (q ∈ (a.nodes o).hp_targets)) (C ++ Sk)
          (X ++ [p] ++ (Sk ++ released a Dk)) R q (a.nodes q) (st6.nodes q) := by
      intro q hqG hqp hqD
      have hqGD : q ∉ G ++ Dk := by
        intro h
        rcases List.mem_append.1 h with h | h
        · exact hqG h
        · exact hqD h
      obtain ⟨h1, h2, h3, h4, h5, h6, h7, h8⟩ := s5of q hqGD hqp
      refine ⟨by rw [P.name, h1], by rw [P.flags, h2], by rw [P.xref, h3], by rw [P.parent, h4],
        ?_, by rw [P.targets q hqp, h6], by rw [P.value, h7], by rw [P.canonical, h8]⟩
      rw [P.originator]
      by_cases hqT : q ∈ T
      · have hin : p ∈ (G ++ p :: Dk).filter fun o => decide (q ∈ (a.nodes o).hp_targets) :=
          List.mem_filter.2 ⟨List.mem_append_right _ (List.mem_cons_self _ _),
            by simpa using ((hTmem q).1 hqT).1⟩
        rw [if_pos hqT, htg q ((hTmem q).1 hqT).1, Option.filter_some, if_neg]
        exact fun h => (of_decide_eq_true h) hin
      · rw [if_neg hqT, h5]
        apply option_filter_congr
        intro o _
        have hqt : q ∉ (a.nodes p).hp_targets := fun h => hqT ((hTmem q).2 ⟨h, hqGD⟩)
        simp only [List.mem_filter, List.mem_append, List.mem_cons, decide_eq_true_eq,
          decide_eq_decide, not_iff_not]
        constructor
        · rintro ⟨h1 | h1, h2⟩
          · exact ⟨Or.inl h1, h2⟩
          · exact ⟨Or.inr (Or.inr h1), h2⟩
        · rintro ⟨h1 | h1 | h1, h2⟩
          · exact ⟨Or.inl h1, h2⟩
          · rw [h1] at h2
            exact absurd h2 hqt
          · exact ⟨Or.inr h1, h2⟩
    -- the nodes that are spared, after the originator has let go of p
    have hsp7 : ∀ q, q ∉ G → q ≠ p → q ∉ Dk →
        Spared ((G ++ p :: Dk).filter fun t => decide ((a.nodes t).hp_originator = some q))
          ((G ++ p :: Dk).filter fun o => decide (q ∈ (a.nodes o).hp_targets))
          (C ++ Sk) (X ++ (Sk ++ (own ++ released a Dk))) R q (a.nodes q) (st7.nodes q) := by
      intro q hqG hqp hqD
      have s6 := hsp6 q hqG hqp hqD
      have hcp : ([p] : List Nat).count q = 0 := by
        rw [List.count_cons_of_ne hqp]
        rfl
      by_cases e : (a.nodes p).hp_originator = some q
      · obtain ⟨_, _, e7⟩ := u2 q e hqG
        obtain ⟨h1, h2, h3, h4, h5, h6, h7, h8⟩ := s6
        rw [e7]
        refine ⟨h1, h2, ?_, h4, h5, ?_, h7, h8⟩
        · show (st6.nodes q).hp_xref
            - (if (a.nodes p).hp_flags.PROP_XREFED_ORIGINATOR = true then 1 else 0) = _
          rw [h3, hown]
          by_cases hf : (a.nodes p).hp_flags.PROP_XREFED_ORIGINATOR = true
          · rw [if_pos hf, if_pos hf, e]
            simp only [List.count_append, Nat.cast_add, hcp, Option.toList_some,
              List.count_cons_self, List.count_nil, Nat.cast_one, Nat.cast_zero, zero_add,
              add_zero]
            omega
          · rw [if_neg hf, if_neg hf]
            simp only [List.count_append, Nat.cast_add, hcp, List.count_nil, Nat.cast_zero,
              zero_add, add_zero, sub_zero]
        · show (st6.nodes q).hp_targets.erase p = _
          rw [h6]
          apply erase_filter_eq p _ _ _ _ _ _ (hor q e).1
          · simp only [List.mem_filter, decide_eq_true_eq, not_and]
            intro h
            exact absurd h hpGD
          · simp [List.mem_filter, e]
          · intro t ht
            simp [List.mem_filter, ht]
      · rw [u1 q hqp (fun h => e h.1)]
        refine s6.sp_congr (fun t => ?_) (fun _ => Iff.rfl) Iff.rfl ?_
        · simp only [List.mem_filter, List.mem_append, List.mem_cons, decide_eq_true_eq]
          constructor
          · rintro ⟨h1 | h1, h2⟩
            · exact ⟨Or.inl h1, h2⟩
            · exact ⟨Or.inr (Or.inr h1), h2⟩
          · rintro ⟨h1 | h1 | h1, h2⟩
            · exact ⟨Or.inl h1, h2⟩
            · rw [h1] at h2
              exact absurd h2 e
            · exact ⟨Or.inr h1, h2⟩
        · simp only [List.count_append, hcp, hown0 q e]
          omega
    -- p leaves its parent
    have hunpar : ∀ q, (st7.nodes p).hp_parent = some q →
        p ∈ (st7.nodes q).hp_childs ∧ q ≠ p := by
      intro q hq
      rw [h7par] at hq
      obtain ⟨x1, x2, _⟩ := hparent q hq
      have hqp : q ≠ p := fun e => x2 (e ▸ mem_subtree_self _ _ _)
      have hqD : q ∉ Dk := fun h => x2 (hflat q (hDks q h))
      refine ⟨?_, hqp⟩
      rw [childs_of_u (h7b q hqp hqD)]
      exact x1
    obtain ⟨st8, hunp, w1, w2, w3, w4, w5⟩ := destroy_unparent_ok st7 p hunpar
    have w2' := (prop_t.same_iff _ _).1 w2
    simp only [] at w2'
    obtain ⟨p8name, p8flags, p8xref, p8par, p8or, p8tg, p8val, p8can, p8u⟩ := w2'
    have h8z : (st8.nodes p).hp_type = .PROP_ZOMBIE := by
      unfold prop_t.hp_type
      rw [p8u, u3]
      exact h6z
    have h8val : ∀ q, (st8.nodes q).hp_value_subscriptions
        = (st7.nodes q).hp_value_subscriptions := by
      intro q
      by_cases hq : q = p
      · subst hq; exact p8val
      · by_cases e : (st7.nodes p).hp_parent = some q
        · exact ((prop_t.same_iff _ _).1 (w3 q e)).2.2.2.2.2.2.1
        · exact ((prop_t.same_iff _ _).1 (w1 q hq e)).2.2.2.2.2.2.1
    have hlg8 : Lodged R st8 := hlg7.lg_kept (vp_unparent st7 st8 p hunp) h8val
    obtain ⟨st9, hst9⟩ : ∃ st9, st9 = st8.setNode p { st8.nodes p with hp_name := none } :=
      ⟨_, rfl⟩
    have h9z : (st9.nodes p).hp_type = .PROP_ZOMBIE := by
      rw [hst9]; simpa [prop_t.hp_type] using h8z
    have href := ref_dec_locked_zombie st9 p h9z
    obtain ⟨st10, hst10⟩ : ∃ st10, st10 = st9.setNode p
      { st9.nodes p with hp_refcount := (st9.nodes p).hp_refcount - 1 } := ⟨_, rfl⟩
    rw [← hst10] at href
    have h10ne : ∀ q, q ≠ p → st10.nodes q = st8.nodes q := by
      intro q hq; rw [hst10, hst9]; simp [hq]
    have h10val : ∀ q, (st10.nodes q).hp_value_subscriptions
        = (st8.nodes q).hp_value_subscriptions := by
      intro q
      by_cases hq : q = p
      · subst hq; rw [hst10, hst9]; simp
      · rw [h10ne q hq]
    have hlg10 : Lodged R st10 := hlg8.lg_kept (fun s => by rw [hst10, hst9]; rfl) h10val
    have h710 : ∀ q, q ≠ p → ∃ v, prop_t.same { st7.nodes q with u := v } (st10.nodes q) := by
      intro q hq
      rw [h10ne q hq]
      by_cases e : (st7.nodes p).hp_parent = some q
      · exact ⟨_, w3 q e⟩
      · refine ⟨(st7.nodes q).u, ?_⟩
        exact w1 q hq e
    -- the deliveries
    have e01 : Emits b b1 [] := Emits.of_flags h1fl (by rw [hb1]; rfl)
    have e23 : Emits b2 st3 [] :=
      Emits.of_flags (by intro t; rw [hst3]; rfl) (by rw [hst3]; rfl)
    have e67 : Emits st6 st7 [] := Emits.of_silent u4 u5
    have e810 : Emits st8 st10 [] :=
      Emits.of_flags (by intro t; rw [hst10, hst9]; rfl) (by rw [hst10, hst9]; rfl)
    have E3 := ((e01.em_to_x R).x_trans l8).x_trans (e23.em_to_x R)
    have E4 := E3.x_trans (c4.em_to_x R)
    have E5 := E4.x_trans (v4.em_to_x R)
    have E6 := E5.x_trans P.pt_to_x
    have E7 := E6.x_trans (e67.em_to_x R)
    have E8 := E7.x_trans (w5.em_to_x R)
    have E10 := E8.x_trans (e810.em_to_x R)
    have fa : ∀ {s : State F} {ks : List (Bool × Nat × prop_event_t × Option Nat)},
        EmitsX R b s ks → ∀ t, (s.subs t).hps_flags = (a.subs t).hps_flags :=
      fun h t => (h.x_flags t).trans (hsp.sp_subs t)
    refine ⟨st10, ?_, ⟨fun q hq => ?_, fa E10⟩, fun q hq hqpar => ?_, fun q hq => ?_,
      fun d hd => ?_, ?_, fun q hq => ?_, ?_, hlg10, ?_⟩
    · -- the run
      rw [hst3] at hcan
      rw [hst9] at href
      have hch1 : (b1.nodes p).hp_childs = (a.nodes p).hp_childs := by rw [h1p]; exact hchb
      rw [← hch1, hb1] at hloop
      unfold prop_destroy0
      rw [if_neg hzb]
      have hx0 : ¬ ((b.setNode p
          { b.nodes p with hp_xref := ((b.nodes p).hp_xref - 1) % 256 }).nodes p).hp_xref ≠ 0 := by
        simp [hxb]
      simp only [hx0, if_false, hloop, hcan, hval]
      erw [htgt]
      simp only [hrun7, hunp, href]
    · -- the nodes that are spared
      have hqG : q ∉ G := fun h => hq (List.mem_append_left _ h)
      have hqp : q ≠ p := fun e => hq (List.mem_append_right _ (e ▸ List.mem_cons_self _ _))
      have hqD : q ∉ Dk :=
        fun h => hq (List.mem_append_right _ (List.mem_cons_of_mem _ h))
      obtain ⟨v, hv⟩ := h710 q hqp
      exact (hsp7 q hqG hqp hqD).of_same_u hv
    · -- the values
      have hqp : q ≠ p := fun e => hq (e ▸ List.mem_cons_self _ _)
      have hqD : q ∉ Dk := fun h => hq (List.mem_cons_of_mem _ h)
      rw [h10ne q hqp, u_of_same (w1 q hqp (by rw [h7par]; exact hqpar)), h7b q hqp hqD]
    · -- the parent
      obtain ⟨_, x2, _⟩ := hparent q hq
      have hqp : q ≠ p := fun e => x2 (e ▸ mem_subtree_self _ _ _)
      have hqD : q ∉ Dk := fun h => x2 (hflat q (hDks q h))
      have hu := h7b q hqp hqD
      rw [h10ne q hqp, u_of_same (w3 q (by rw [h7par]; exact hq))]
      show prop_value.PROP_DIR _ _ = _
      rw [childs_of_u hu, selected_of_u hu]
    · -- the zombies
      rcases List.mem_cons.1 hd with rfl | hd
      · constructor
        · rw [hst10]; simpa [prop_t.hp_type] using h9z
        · rw [hst10, hst9]; simpa using p8par
      · have hdp : d ≠ p := fun e => hpDk (e ▸ hd)
        have hdo : ¬ ((a.nodes p).hp_originator = some d ∧ d ∉ G) :=
          fun e => (u2 d e.1 e.2).2.1 hd
        have hdpar : (st7.nodes p).hp_parent ≠ some d := by
          rw [h7par]
          intro e
          exact (hparent d e).2.1 (hflat d (hDks d hd))
        obtain ⟨z1, z2⟩ := l4 d hd
        have x5 := (prop_t.same_iff _ _).1 (h25 d hdp)
        have x8 := (prop_t.same_iff _ _).1 (w1 d hdp hdpar)
        rw [h10ne d hdp]
        refine ⟨?_, ?_⟩
        · rw [type_of_u x8.2.2.2.2.2.2.2.2, u1 d hdp hdo, type_of_u (P.u d),
            type_of_u x5.2.2.2.2.2.2.2.2]
          exact z1
        · rw [x8.2.2.2.1, u1 d hdp hdo, P.parent, x5.2.2.2.1]
          exact z2
    · -- hp_xref of p
      rw [hst10, hst9]
      simp only [setNode_nodes, if_true]
      rw [p8xref, u3]
      exact h6x
    · -- the nodes gone before
      have hqp : q ≠ p := fun e => hpG (e ▸ hq)
      have hqo : ¬ ((a.nodes p).hp_originator = some q ∧ q ∉ G) := fun e => e.2 hq
      have hqpar : (st7.nodes p).hp_parent ≠ some q := by
        rw [h7par]
        intro e
        exact (hparent q e).2.2 hq
      have x5 := (prop_t.same_iff _ _).1 (h25 q hqp)
      have x8 := (prop_t.same_iff _ _).1 (w1 q hqp hqpar)
      rw [h10ne q hqp, x8.2.2.2.1, u1 q hqp hqo, P.parent, x5.2.2.2.1, l5 q hq, h1ne q hqp]
    · rw [hst10, hst9]
      simp only [setNode_nnodes]
      rw [w4, u6, P.nnodes, v3, c3, hst3]
      simp only [setU_nnodes]
      rw [l6, hb1]
      rfl
    · have hKc : destroyed_keys st3 (st3.nodes p).hp_canonical_subscriptions
          = destroyed_keys a (a.nodes p).hp_canonical_subscriptions := by
        rw [destroyed_keys_congr (fa E3), h3p]
        simp only []
        rw [q8]
      have hKv : (void_keys st4 (st4.nodes p).hp_value_subscriptions).filter
            (fun x => decide (x.2.1 ∉ R))
          = (void_keys a (a.nodes p).hp_value_subscriptions).filter
            (fun x => decide (x.2.1 ∉ R)) := by
        rw [void_keys_congr (fa E4)]
        apply void_keys_moved
        rw [p4val]
        exact q7
      have hKp : (parent_keys st7 p).filter (fun x => decide (x.2.1 ∉ R))
          = (parent_keys a p).filter (fun x => decide (x.2.1 ∉ R)) := by
        unfold parent_keys
        rw [h7par]
        cases hq : (a.nodes p).hp_parent with
        | none => rfl
        | some q =>
          obtain ⟨_, x2, x3⟩ := hparent q hq
          have hqp : q ≠ p := fun e => x2 (e ▸ mem_subtree_self _ _ _)
          have hqD : q ∉ Dk := fun h => x2 (hflat q (hDks q h))
          simp only []
          rw [child_keys_congr (fa E7)]
          exact child_keys_moved a p (hsp7 q x3 hqp hqD).sp_value
      refine E10.x_congr ?_
      rw [hKc, destroy_keys]
      simp only [List.nil_append, List.append_nil, List.append_assoc, List.filter_append]
      rw [hKv, hKp]

theorem lodged_of_housed {R : List Nat} {st : State F} (h : housed R st = true) :
    Lodged R st := by
  intro s hs v hv
  unfold housed at h
  have := List.all_eq_true.1 h s hs
  rw [hv] at this
  simpa using this

theorem seats_lodgers (st : State F) (ws : List Walk) (h : ws.all (seated st) = true) :
    Seats st (lodgers st ws) ws := by
  intro w hw
  refine ⟨List.all_eq_true.1 h w hw, fun q hq s hs => ?_⟩
  unfold lodgers
  exact List.mem_flatMap.2 ⟨w, hw, List.mem_flatMap.2 ⟨q, hq, hs⟩⟩

/-- The function prop_destroy0 on the root p of a ripe tree whose hp_xref is 1: it returns 1
  and leaves what `Razed` says. -/
theorem destroy0_razed [CFloat F] (k : Nat) (st : State F) (p : Nat) (R : List Nat)
    (hx : (st.nodes p).hp_xref = 1) (hr : ripe k st p = true)
    (hn : (subtree k st p).Nodup) (hl : (subtree k st p).length < k)
    (hp : parent_holds k st p)
    (ha : Anchored st (stayed k st p ++ released st (doomed k st p)))
    (hw : Seats st R (walks k st [] [] p)) (hlg : Lodged R st) :
    ∃ st', prop_destroy0 k st p = .ok (st', true) ∧ Razed k st st' p R := by
  have hpo : Poised k st st p [] [] [] [] R := by
    refine ⟨spent_refl R st, fun q hq => by simp at hq, fun q _ _ => rfl,
      fun q _ => ⟨by simp, by simp, by simp⟩, fun q0 hq0 => ?_, ha, fun q hq => ?_, hlg, hw⟩
    · obtain ⟨x1, x2⟩ := hp q0 hq0
      exact ⟨x1, x2, by simp⟩
    · rcases doomed_xref st k p q hq with rfl | h
      · exact hx
      · exact h
  obtain ⟨st', h1, f1, f2, f3, f4, f5, _, f7, _, f9⟩ :=
    destroy0_ripe R k st p hr hn hl [] [] [] [] st hpo
  simp only [List.nil_append] at f1
  exact ⟨st', h1, f1, f2, f3, f4, f5, f7, f9⟩

/-- The function prop_destroy0 on the root p of a ripe tree whose hp_xref is 1 and whose
  walks are all `seated`, for the subscriptions that the walks move. -/
theorem destroy0_seated [CFloat F] (k : Nat) (st : State F) (p : Nat)
    (hx : (st.nodes p).hp_xref = 1) (hr : ripe k st p = true)
    (hn : (subtree k st p).Nodup) (hl : (subtree k st p).length < k)
    (hp : parent_holds k st p)
    (ha : Anchored st (stayed k st p ++ released st (doomed k st p)))
    (hs : (walks k st [] [] p).all (seated st) = true)
    (hh : housed (lodgers st (walks k st [] [] p)) st = true) :
    ∃ st', prop_destroy0 k st p = .ok (st', true) ∧
      Razed k st st' p (lodgers st (walks k st [] [] p)) :=
  destroy0_razed k st p _ hx hr hn hl hp ha (seats_lodgers st _ hs) (lodged_of_housed hh)

theorem not_doomed_of_stays (n : Nat) (st : State F) (p c : Nat)
    (hn : (subtree (n + 1) st p).Nodup) (hc : c ∈ (st.nodes p).hp_childs)
    (hx : (st.nodes c).hp_xref ≠ 1) : c ∉ doomed (n + 1) st p ∧ c ∈ stayed (n + 1) st p := by
  rw [subtree_succ] at hn
  obtain ⟨hpn, _⟩ := List.nodup_cons.1 hn
  constructor
  · intro h
    rcases doomed_xref st (n + 1) p c h with rfl | h1
    · exact hpn (List.mem_flatMap.2 ⟨c, hc, mem_subtree_self _ _ _⟩)
    · exact hx h1
  · rw [stayed_succ]
    exact List.mem_flatMap.2 ⟨c, hc, by rw [if_neg hx]; exact List.mem_singleton_self c⟩

theorem doomed_of_child (n : Nat) (st : State F) (p c : Nat)
    (hc : c ∈ (st.nodes p).hp_childs) (hx : (st.nodes c).hp_xref = 1) :
    c ∈ doomed (n + 1) st p := by
  rw [doomed_succ]
  exact List.mem_cons_of_mem _
    (List.mem_flatMap.2 ⟨c, hc, by rw [if_pos hx]; exact mem_doomed_self _ _ _⟩)


theorem countP_filter_imp {α : Type} (P Q : α → Bool) (hPQ : ∀ x, Q x = true → P x = true) :
    ∀ (l : List α), (l.filter P).countP Q = l.countP Q := by
  intro l
  induction l with
  | nil => rfl
  | cons x xs ih =>
    by_cases hq : Q x = true
    · rw [List.filter_cons_of_pos (hPQ x hq), List.countP_cons_of_pos _ _ hq,
        List.countP_cons_of_pos _ _ hq, ih]
    · by_cases hp : P x = true
      · rw [List.filter_cons_of_pos hp, List.countP_cons_of_neg _ _ hq,
          List.countP_cons_of_neg _ _ hq, ih]
      · rw [List.filter_cons_of_neg hp, List.countP_cons_of_neg _ _ hq, ih]

/-- C11 (amended): `prop_destroy(p)` on a zombie changes nothing. On a node that is no zombie
  and whose hp_xref, a byte, is not 1 it takes one from hp_xref (255 follows 0) and changes
  nothing else: no other field of a node or subscription, no queue, no delivery; the new
  hp_xref is not 0 and the node stays what it was. On a node with hp_xref 1 at the root of a
  tree that is `ripe`, whose nodes are `Anchored` (a child with another anchor and the
  originator of a hard link of a destroyed node hold more references than the destruction
  takes from them) and whose readers are `seated` (a node that reads from a destroyed node
  and is not destroyed before it is the root of a tree that the walk of relink_subscriptions
  can cover, with the subscriptions it moves on the value lists of their value nodes) it
  returns, p is a zombie and its hp_xref is 0. -/
theorem prop_destroy_xref [CFloat F] (k : Nat) (st : State F) (p : Nat) :
    ((st.nodes p).hp_type = .PROP_ZOMBIE → prop_destroy (k + 1) st (some p) = .ok st) ∧
    ((st.nodes p).hp_type ≠ .PROP_ZOMBIE → (st.nodes p).hp_xref ≠ 1 →
      0 ≤ (st.nodes p).hp_xref → (st.nodes p).hp_xref ≤ 255 →
      prop_destroy (k + 1) st (some p)
        = .ok (st.setNode p { st.nodes p with
            hp_xref := if (st.nodes p).hp_xref = 0 then 255 else (st.nodes p).hp_xref - 1 }) ∧
      (if (st.nodes p).hp_xref = 0 then (255 : Int) else (st.nodes p).hp_xref - 1) ≠ 0) ∧
    ((st.nodes p).hp_xref = 1 → ripe (k + 1) st p = true →
      (subtree (k + 1) st p).Nodup → (subtree (k + 1) st p).length < k + 1 →
      parent_holds (k + 1) st p →
      Anchored st (stayed (k + 1) st p ++ released st (doomed (k + 1) st p)) →
      (walks (k + 1) st [] [] p).all (seated st) = true →
      housed (lodgers st (walks (k + 1) st [] [] p)) st = true →
      ∃ st', prop_destroy (k + 1) st (some p) = .ok st' ∧
        (st'.nodes p).hp_type = .PROP_ZOMBIE ∧ (st'.nodes p).hp_xref = 0) := by
  refine ⟨fun hz => ?_, fun hz hx h0 h255 => ?_, fun hx hr hn hl hp ha hs hh => ?_⟩
  · unfold prop_destroy prop_destroy0
    simp [hz]
  · have e : ((st.nodes p).hp_xref - 1) % 256
        = if (st.nodes p).hp_xref = 0 then 255 else (st.nodes p).hp_xref - 1 := by
      by_cases h : (st.nodes p).hp_xref = 0
      · rw [if_pos h, h]
        rfl
      · rw [if_neg h]
        exact Int.emod_eq_of_lt (by omega) (by omega)
    have hne : (if (st.nodes p).hp_xref = 0 then (255 : Int) else (st.nodes p).hp_xref - 1)
        ≠ 0 := by
      by_cases h : (st.nodes p).hp_xref = 0
      · rw [if_pos h]
        decide
      · rw [if_neg h]
        omega
    refine ⟨?_, hne⟩
    have hd : prop_destroy0 (k + 1) st p
        = .ok (st.setNode p { st.nodes p with
            hp_xref := if (st.nodes p).hp_xref = 0 then 255 else (st.nodes p).hp_xref - 1 },
          false) := by
      unfold prop_destroy0
      rw [if_neg hz]
      dsimp only
      rw [e, if_pos]
      simp only [setNode_nodes, if_true]
      exact hne
    unfold prop_destroy
    simp only [hd]
  · obtain ⟨st', h1, h2⟩ := destroy0_seated (k + 1) st p hx hr hn hl hp ha hs hh
    refine ⟨st', ?_, (h2.2.2.2.1 p (mem_doomed_self _ _ _)).1, h2.2.2.2.2.1⟩
    unfold prop_destroy
    simp only [h1]

/-- Witness for C11: the zombie y of `ex_tree_gone`, the root of `ex_anchored` (hp_xref 2)
  and the root of `ex_loop`, whose child a reads from the root and is read by node 3, which
  is outside the tree and whose subscription 0 the destruction of a moves back to node 3. -/
theorem prop_destroy_xref_witness :
    ((ex_tree_gone.nodes 2).hp_type = .PROP_ZOMBIE ∧
      prop_destroy 1 ex_tree_gone (some 2) = .ok ex_tree_gone) ∧
    ((ex_anchored.nodes 0).hp_type ≠ .PROP_ZOMBIE ∧ (ex_anchored.nodes 0).hp_xref = 2 ∧
      prop_destroy 1 ex_anchored (some 0)
        = .ok (ex_anchored.setNode 0
          { ex_anchored.nodes 0 with
            hp_xref := if (ex_anchored.nodes 0).hp_xref = 0 then 255
              else (ex_anchored.nodes 0).hp_xref - 1 }) ∧
      (if (ex_anchored.nodes 0).hp_xref = 0 then (255 : Int)
        else (ex_anchored.nodes 0).hp_xref - 1) ≠ 0) ∧
    ((ex_loop.nodes 0).hp_xref = 1 ∧ ripe 6 ex_loop 0 = true ∧
      (subtree 6 ex_loop 0).Nodup ∧ (subtree 6 ex_loop 0).length < 6 ∧
      parent_holds 6 ex_loop 0 ∧
      Anchored ex_loop (stayed 6 ex_loop 0 ++ released ex_loop (doomed 6 ex_loop 0)) ∧
      (walks 6 ex_loop [] [] 0).all (seated ex_loop) = true ∧
      housed (lodgers ex_loop (walks 6 ex_loop [] [] 0)) ex_loop = true ∧
      (ex_loop.nodes 1).hp_originator = some 0 ∧ (ex_loop.nodes 1).hp_targets = [3] ∧
      3 ∉ subtree 6 ex_loop 0 ∧ lodgers ex_loop (walks 6 ex_loop [] [] 0) = [0] ∧
      ∃ st', prop_destroy 6 ex_loop (some 0) = .ok st' ∧
        (st'.nodes 0).hp_type = .PROP_ZOMBIE ∧ (st'.nodes 0).hp_xref = 0) :=
  have hz : (ex_tree_gone.nodes 2).hp_type = .PROP_ZOMBIE := by decide
  have ha : (ex_anchored.nodes 0).hp_type ≠ .PROP_ZOMBIE := by decide
  have hx : (ex_anchored.nodes 0).hp_xref = 2 := by decide
  have h1 : (ex_loop.nodes 0).hp_xref = 1 := by decide
  have h2 : ripe 6 ex_loop 0 = true := by decide
  have h3 : (subtree 6 ex_loop 0).Nodup := by decide
  have h4 : (subtree 6 ex_loop 0).length < 6 := by decide
  have h5 : parent_holds 6 ex_loop 0 := by
    intro q hq
    have h : (ex_loop.nodes 0).hp_parent = none := by decide
    rw [h] at hq
    cases hq
  have h6 : Anchored ex_loop
      (stayed 6 ex_loop 0 ++ released ex_loop (doomed 6 ex_loop 0)) := by
    unfold Anchored
    decide
  have h7 : (walks 6 ex_loop [] [] 0).all (seated ex_loop) = true := by decide
  have h8 : housed (lodgers ex_loop (walks 6 ex_loop [] [] 0)) ex_loop = true := by decide
  ⟨⟨hz, (prop_destroy_xref 0 ex_tree_gone 2).1 hz⟩,
   ⟨ha, hx, (prop_destroy_xref 0 ex_anchored 0).2.1 ha (by rw [hx]; decide) (by rw [hx]; decide)
     (by rw [hx]; decide)⟩,
   ⟨h1, h2, h3, h4, h5, h6, h7, h8, by decide, by decide, by decide, by decide,
     (prop_destroy_xref 5 ex_loop 0).2.2 h1 h2 h3 h4 h5 h6 h7 h8⟩⟩

/-- Counterexample to C11 as stated: in `ex_anchor` the root is no zombie and has hp_xref 1,
  and its child a holds a hard link to it, so the root is among the nodes that get a
  reference back (`released`) without one to spare; the tree is `ripe` and the destruction
  unlinks no reader. `prop_destroy(root)` returns with the root a zombie whose hp_xref is
  255: the destruction of a releases the reference of the link through a second
  prop_destroy0 of the root, which takes one from the 0 that the first left. -/
theorem destroy_anchor_twice_counterexample :
    (ex_anchor.nodes 0).hp_type ≠ .PROP_ZOMBIE ∧ (ex_anchor.nodes 0).hp_xref = 1 ∧
    (ex_anchor.nodes 1).hp_originator = some 0 ∧
    (ex_anchor.nodes 1).hp_flags.PROP_XREFED_ORIGINATOR = true ∧
    ripe 4 ex_anchor 0 = true ∧ (walks 4 ex_anchor [] [] 0).all (seated ex_anchor) = true ∧
    released ex_anchor (doomed 4 ex_anchor 0) = [0] ∧
    returned (prop_destroy 4 ex_anchor (some 0)) = true ∧
    ((state_after (prop_destroy 4 ex_anchor (some 0))).nodes 0).hp_type = .PROP_ZOMBIE ∧
    ((state_after (prop_destroy 4 ex_anchor (some 0))).nodes 0).hp_xref = 255 := by
  decide

/-! ## C12: what the destruction of a tree leaves -/

/-- C12 (amended): when `prop_destroy(p)` brings hp_xref of p from 1 to zero in a tree that
  is `ripe`, whose nodes are `Anchored` and whose readers are `seated`, and the value list
  of p holds no subscription twice and none of those that the destruction moves back to a
  reader (`lodgers`), the call returns and then: p is a zombie without parent; the child
  list of its former parent is the old list with p erased, and the selection of that parent
  is NULL if it was p and else unchanged; every former child of p has no parent, and is a
  zombie when its hp_xref was 1; and for every former child c and every subscription s of
  the value list of p exactly one of the deliveries made is PROP_DEL_CHILD about c to s. -/
theorem prop_destroy_ripe_tree [CFloat F] (k : Nat) (st : State F) (p : Nat)
    (hx : (st.nodes p).hp_xref = 1) (hr : ripe k st p = true)
    (hn : (subtree k st p).Nodup) (hl : (subtree k st p).length < k)
    (hp : parent_holds k st p)
    (ha : Anchored st (stayed k st p ++ released st (doomed k st p)))
    (hs : (walks k st [] [] p).all (seated st) = true)
    (hh : housed (lodgers st (walks k st [] [] p)) st = true)
    (hv : (st.nodes p).hp_value_subscriptions.Nodup)
    (hm : ∀ s ∈ (st.nodes p).hp_value_subscriptions, s ∉ lodgers st (walks k st [] [] p)) :
    ∃ st', prop_destroy k st (some p) = .ok st' ∧
      (st'.nodes p).hp_type = .PROP_ZOMBIE ∧ (st'.nodes p).hp_parent = none ∧
      (∀ q, (st.nodes p).hp_parent = some q →
        (st'.nodes q).hp_childs = (st.nodes q).hp_childs.erase p ∧
        (st'.nodes q).hp_selected
          = if (st.nodes q).hp_selected = some p then none else (st.nodes q).hp_selected) ∧
      (∀ c ∈ (st.nodes p).hp_childs, (st'.nodes c).hp_parent = none ∧
        ((st.nodes c).hp_xref = 1 → (st'.nodes c).hp_type = .PROP_ZOMBIE)) ∧
      (∀ c ∈ (st.nodes p).hp_childs, ∀ s ∈ (st.nodes p).hp_value_subscriptions,
        ((emitted st st').map Delivery.key).countP
          (fun key => decide (key.2 = (s, .PROP_DEL_CHILD, some c))) = 1) := by
  obtain ⟨st', h1, d1, _, d3, d4, _, _, d8⟩ := destroy0_seated k st p hx hr hn hl hp ha hs hh
  obtain ⟨n, rfl⟩ := ripe_pos hr
  obtain ⟨z1, z2⟩ := d4 p (mem_doomed_self _ _ _)
  refine ⟨st', ?_, z1, z2, fun q hq => ?_, fun c hc => ?_, fun c hc s hs' => ?_⟩
  · unfold prop_destroy
    simp only [h1]
  · have hu := d3 q hq
    constructor
    · unfold prop_t.hp_childs
      rw [hu]
      rfl
    · unfold prop_t.hp_selected
      rw [hu]
      rfl
  · by_cases hxc : (st.nodes c).hp_xref = 1
    · obtain ⟨y1, y2⟩ := d4 c (doomed_of_child n st p c hc hxc)
      exact ⟨y2, fun _ => y1⟩
    · obtain ⟨x1, x2⟩ := not_doomed_of_stays n st p c hn hc hxc
      refine ⟨?_, fun h => absurd h hxc⟩
      rw [(d1.sp_nodes c x1).sp_parent, if_pos x2]
  · have himp : ∀ x : Bool × Nat × prop_event_t × Option Nat,
        decide (x.2 = (s, prop_event_t.PROP_DEL_CHILD, some c)) = true →
        decide (x.2.1 ∉ lodgers st (walks (n + 1) st [] [] p)) = true := by
      intro x hx'
      have e := of_decide_eq_true hx'
      apply decide_eq_true
      rw [e]
      exact hm s hs'
    rw [← countP_filter_imp _ _ himp, emitted_of_emitsX d8, countP_filter_imp _ _ himp]
    exact count_del_child st n p hn hv c hc s hs'

/-- Witness for C12: `prop_destroy(x)` in `ex_glade`, where x has the parent 0, the
  subscriptions 1 and 0 on its value list and the children y, which holds a hard link to
  node 5 and is read by node 6 outside the tree, z, which reads from x, and w, which has
  another anchor; the destruction of y moves subscription 2 back to node 6. -/
theorem prop_destroy_ripe_tree_witness :
    (ex_glade.nodes 1).hp_xref = 1 ∧ ripe 5 ex_glade 1 = true ∧
    (subtree 5 ex_glade 1).Nodup ∧ (subtree 5 ex_glade 1).length < 5 ∧
    parent_holds 5 ex_glade 1 ∧
    Anchored ex_glade (stayed 5 ex_glade 1 ++ released ex_glade (doomed 5 ex_glade 1)) ∧
    (walks 5 ex_glade [] [] 1).all (seated ex_glade) = true ∧
    housed (lodgers ex_glade (walks 5 ex_glade [] [] 1)) ex_glade = true ∧
    (ex_glade.nodes 1).hp_value_subscriptions = [1, 0] ∧
    lodgers ex_glade (walks 5 ex_glade [] [] 1) = [2] ∧
    (ex_glade.nodes 1).hp_childs = [2, 3, 4] ∧
    (ex_glade.nodes 2).hp_originator = some 5 ∧ (ex_glade.nodes 3).hp_originator = some 1 ∧
    (ex_glade.nodes 1).hp_targets = [3] ∧ (ex_glade.nodes 4).hp_xref = 2 ∧
    (ex_glade.nodes 2).hp_targets = [6] ∧ 6 ∉ subtree 5 ex_glade 1 ∧
    ∃ st', prop_destroy 5 ex_glade (some 1) = .ok st' ∧
      (st'.nodes 1).hp_type = .PROP_ZOMBIE ∧ (st'.nodes 1).hp_parent = none ∧
      (∀ q, (ex_glade.nodes 1).hp_parent = some q →
        (st'.nodes q).hp_childs = (ex_glade.nodes q).hp_childs.erase 1 ∧
        (st'.nodes q).hp_selected
          = if (ex_glade.nodes q).hp_selected = some 1 then none
            else (ex_glade.nodes q).hp_selected) ∧
      (∀ c ∈ (ex_glade.nodes 1).hp_childs, (st'.nodes c).hp_parent = none ∧
        ((ex_glade.nodes c).hp_xref = 1 → (st'.nodes c).hp_type = .PROP_ZOMBIE)) ∧
      (∀ c ∈ (ex_glade.nodes 1).hp_childs, ∀ s ∈ (ex_glade.nodes 1).hp_value_subscriptions,
        ((emitted ex_glade st').map Delivery.key).countP
          (fun key => decide (key.2 = (s, .PROP_DEL_CHILD, some c))) = 1) :=
  have h1 : (ex_glade.nodes 1).hp_xref = 1 := by decide
  have h2 : ripe 5 ex_glade 1 = true := by decide
  have h3 : (subtree 5 ex_glade 1).Nodup := by decide
  have h4 : (subtree 5 ex_glade 1).length < 5 := by decide
  have h5 : parent_holds 5 ex_glade 1 := by
    intro q hq
    have h : (ex_glade.nodes 1).hp_parent = some 0 := by decide
    rw [h] at hq
    cases hq
    exact ⟨by decide, by decide⟩
  have h6 : Anchored ex_glade
      (stayed 5 ex_glade 1 ++ released ex_glade (doomed 5 ex_glade 1)) := by
    unfold Anchored
    decide
  have h7 : (walks 5 ex_glade [] [] 1).all (seated ex_glade) = true := by decide
  have h8 : housed (lodgers ex_glade (walks 5 ex_glade [] [] 1)) ex_glade = true := by decide
  have h9 : (ex_glade.nodes 1).hp_value_subscriptions = [1, 0] := by decide
  have h10 : ∀ s ∈ (ex_glade.nodes 1).hp_value_subscriptions,
      s ∉ lodgers ex_glade (walks 5 ex_glade [] [] 1) := by decide
  ⟨h1, h2, h3, h4, h5, h6, h7, h8, h9, by decide, by decide, by decide, by decide, by decide,
    by decide, by decide, by decide,
    prop_destroy_ripe_tree 5 ex_glade 1 h1 h2 h3 h4 h5 h6 h7 h8 (by rw [h9]; decide) h10⟩

/-- Counterexample to C12 as stated: in `ex_loop` the directory 0 has hp_xref 1, the
  children a (1) and b (2) and the subscription 0 on its value list; a reads from the
  directory through a link and node 3, which is outside the tree, reads from a, and
  subscription 0 is the one of node 3 (`lodgers`). `prop_destroy(0)` returns, and no
  PROP_DEL_CHILD about a or b was delivered to subscription 0: unlinking node 3 during the
  destruction of a took the subscription off the value list of the directory. -/
theorem destroy_linked_child_counterexample :
    (ex_loop.nodes 0).hp_xref = 1 ∧ (ex_loop.nodes 0).hp_childs = [1, 2] ∧
    (ex_loop.nodes 0).hp_value_subscriptions = [0] ∧
    (ex_loop.nodes 1).hp_targets = [3] ∧ ripe 6 ex_loop 0 = true ∧
    (walks 6 ex_loop [] [] 0).all (seated ex_loop) = true ∧
    lodgers ex_loop (walks 6 ex_loop [] [] 0) = [0] ∧
    returned (prop_destroy 6 ex_loop (some 0)) = true ∧
    ((state_after (prop_destroy 6 ex_loop (some 0))).nodes 0).hp_type = .PROP_ZOMBIE ∧
    ((emitted ex_loop (state_after (prop_destroy 6 ex_loop (some 0)))).map Delivery.key).countP
      (fun key => decide (key.2 = (0, .PROP_DEL_CHILD, some 1))) = 0 ∧
    ((emitted ex_loop (state_after (prop_destroy 6 ex_loop (some 0)))).map Delivery.key).countP
      (fun key => decide (key.2 = (0, .PROP_DEL_CHILD, some 2))) = 0 := by
  decide

/-! ## C13: the records of a tracked subscription at the destruction -/

end PropCore
